import Mathlib

/-!
# Lajkonik: a verification development

A shallow embedding of parts of the Havannah engine Lajkonik
(`havannah.h`, `havannah.cc`, `wfhashmap.h`, `mcts.h`, `mcts.cc`) together
with theorems about the embedded code.

Conventions of the embedding.

* C++ `int` values are modelled by `Int`; where the code adds two `int`
  values the sum is wrapped to 32 bits by `wrapInt32`.
* C++ `unsigned` words and `unsigned long long` hashes are modelled by `Nat`.
* `assert` failures and loops that never exit are explicit outcomes of the
  embedded functions.
* Tables whose contents are drawn at random at start-up (`kZobristHash`) or
  change while the program runs (`kCellToMoveIndex`), and compile-time
  constants without a fixed value (`LOG2_NUM_ENTRIES`), are parameters of the
  embedding.
-/

namespace lajkonik

/-! ## Part I. Definitions -/

/-! ### mcts.h: forced results -/

/-- The constant `INT_MAX` of a 32-bit `int`. -/
def INT_MAX : Int := 2147483647

/-- The constant `INT_MIN` of a 32-bit `int`. -/
def INT_MIN : Int := -2147483648

/-- Wrap-around of a mathematical integer to the range of a 32-bit `int`. -/
def wrapInt32 (z : Int) : Int := (z + 2147483648) % 4294967296 - 2147483648

/-- The constant `kBoardFilledDraw = 0x8000 - INT_MAX` of mcts.h. -/
def kBoardFilledDraw : Int := 0x8000 - INT_MAX

/-- The predicate `VictoryIsForced` of mcts.h. -/
def VictoryIsForced (result : Int) : Bool := decide (result ≥ INT_MAX - 0x8000)

/-- The predicate `DrawIsForced` of mcts.h. -/
def DrawIsForced (result : Int) : Bool := decide (result = kBoardFilledDraw)

/-- The predicate `DefeatOrDrawIsForced` of mcts.h. -/
def DefeatOrDrawIsForced (result : Int) : Bool := decide (result ≤ kBoardFilledDraw)

/-- The predicate `DefeatIsForced` of mcts.h. -/
def DefeatIsForced (result : Int) : Bool := decide (result < kBoardFilledDraw)

/-- The predicate `ResultIsForced` of mcts.h. -/
def ResultIsForced (result : Int) : Bool :=
  VictoryIsForced result || DefeatOrDrawIsForced result

/-- The function `WonInNPlies` of mcts.cc. -/
def WonInNPlies (n : Int) : Int := -0x100 * n + INT_MAX - 0x80

/-- The function `LostInNPlies` of mcts.cc. -/
def LostInNPlies (n : Int) : Int := 0x100 * n - INT_MAX + 0x80

/-! ### wfhashmap.h: the sequential atomic operations (`NUM_THREADS == 1`) -/

/-- The function `AtomicIncrement`: adds the increment to the pointee and
returns the new value. -/
def AtomicIncrement (pointee increment : Int) : Int := wrapInt32 (pointee + increment)

/-- The function `AtomicCompareAndSwap`: returns the old pointee and the new
pointee, which is `newval` exactly when the old pointee was `oldval`. -/
def AtomicCompareAndSwap (pointee oldval newval : Nat) : Nat × Nat :=
  let ptrval := pointee
  if ptrval = oldval then (ptrval, newval) else (ptrval, pointee)

/-- The function `AtomicIncrementIfFalse`: returns whether the increment was
applied, and the new pointee. -/
def AtomicIncrementIfFalse (pointee increment : Int) (predicate : Int → Bool) :
    Bool × Int :=
  if predicate pointee then (false, pointee)
  else (true, wrapInt32 (pointee + increment))

/-! ### mcts.cc: MctsNode -/

/-- The class `MctsNode` of mcts.cc. -/
structure MctsNode where
  ucb_reward_ : Int
  ucb_num_simulations_ : Int
  rave_reward_ : Int
  rave_num_simulations_ : Int
  visits_to_go_ : Int
  kid_to_visit_ : Int
  bias_ : Int
  deriving DecidableEq, Repr

namespace MctsNode

/-- The method `MctsNode::Init`: zeroes all fields. -/
def Init : MctsNode := ⟨0, 0, 0, 0, 0, 0, 0⟩

/-- The method `MctsNode::UpdateUcbReward`. -/
def UpdateUcbReward (node : MctsNode) (ucb_reward_increment : Int) : MctsNode :=
  if ResultIsForced ucb_reward_increment then
    { node with ucb_reward_ := ucb_reward_increment }
  else
    { node with ucb_reward_ :=
        (AtomicIncrementIfFalse node.ucb_reward_ ucb_reward_increment ResultIsForced).2 }

/-- The method `MctsNode::UpdateUcbNumSimulations`. -/
def UpdateUcbNumSimulations (node : MctsNode) (increment : Int) : MctsNode :=
  { node with ucb_num_simulations_ := AtomicIncrement node.ucb_num_simulations_ increment }

/-- The method `MctsNode::HasForcedVictory`. -/
def HasForcedVictory (node : MctsNode) : Bool := VictoryIsForced node.ucb_reward_

/-- The method `MctsNode::HasForcedDraw`. -/
def HasForcedDraw (node : MctsNode) : Bool := DrawIsForced node.ucb_reward_

/-- The method `MctsNode::HasForcedDefeat`. -/
def HasForcedDefeat (node : MctsNode) : Bool := DefeatIsForced node.ucb_reward_

/-- The method `MctsNode::HasForcedResult`. -/
def HasForcedResult (node : MctsNode) : Bool := ResultIsForced node.ucb_reward_

end MctsNode

/-! ### havannah.h: players and Zobrist hashing -/

/-- The enum `Player` of havannah.h. -/
inductive Player where
  | kWhite
  | kBlack
  deriving DecidableEq, Repr

/-- The numeric value of a `Player`: `kWhite = 0`, `kBlack = 1`. -/
def Player.toNat : Player → Nat
  | .kWhite => 0
  | .kBlack => 1

/-- The function `Opponent` of havannah.h: `player ^ 1`. -/
def Opponent : Player → Player
  | .kWhite => .kBlack
  | .kBlack => .kWhite

/-- The method `Position::ModifyZobristHash`. The table `kZobristHash` is
filled with random numbers at start-up; it is a parameter here, indexed by
the move and by the numeric value of the player. -/
def ModifyZobristHash (kZobristHash : Nat → Nat → Nat)
    (hash : Nat) (player : Player) (move : Nat) : Nat :=
  hash ^^^ kZobristHash move player.toNat

/-- The hash of a position: `ModifyZobristHash` folded over a list of
(player, move index) pairs, as the search does move by move. -/
def zobristFold (kZobristHash : Nat → Nat → Nat) (hash : Nat)
    (moves : List (Player × Nat)) : Nat :=
  moves.foldl (fun h pm => ModifyZobristHash kZobristHash h pm.1 pm.2) hash

/-! ### wfhashmap.h: WaitFreeHashMap

The template arguments are `Key = Hash` (an unsigned 64-bit type),
`Value = MctsNode` and `kLogCapacity`, the compile-time constant
`LOG2_NUM_ENTRIES` (mcts.cc); the latter is the parameter `L` below.
A pointer `values(n)` is identified with the slot index `n`. -/

/-- The constant `kCapacity = 1 << kLogCapacity`. -/
def kCapacity (L : Nat) : Nat := 1 <<< L

/-- The constant `kLimit = kCapacity * 3 / 4`. -/
def kLimit (L : Nat) : Nat := kCapacity L * 3 / 4

/-- The constant `kShift = 8 * sizeof(Key) - kLogCapacity`. -/
def kShift (L : Nat) : Nat := 8 * 8 - L

/-- The constant `kEmptyKey`. -/
def kEmptyKey : Nat := 0

/-- The number of counters in `num_elements_`: `ARRAYSIZE(num_elements_)`. -/
def kNumCounters : Nat := 16

/-- The function `PrimaryHash`. -/
def PrimaryHash (L : Nat) (key : Nat) : Nat := key % kCapacity L

/-- The function `SecondaryHash`. -/
def SecondaryHash (L : Nat) (key : Nat) : Nat := (key >>> kShift L) ||| 1

/-- The step of the probing loops: `hash = (hash + jump) % kCapacity`. -/
def nextProbe (L : Nat) (jump hash : Nat) : Nat := (hash + jump) % kCapacity L

/-- The slot inspected by the `i`-th probe for a key: `PrimaryHash(key)`
first, then `i` steps of the probing loop with `jump = SecondaryHash(key)`. -/
def probeSlot (L : Nat) (key : Nat) (i : Nat) : Nat :=
  (nextProbe L (SecondaryHash L key))^[i] (PrimaryHash L key)

/-- The class `WaitFreeHashMap`: the keys and the values of the slots and
the sixteen counters `num_elements_`. -/
structure WaitFreeHashMap where
  keys : Nat → Nat
  values : Nat → MctsNode
  num_elements_ : Nat → Nat

/-- What a call of `InsertKey` or `FindValue` does: it returns a pointer to
the value of a slot, returns `NULL`, fails an `assert`, or never leaves
its probing loop. -/
inductive Outcome where
  | slot (n : Nat)
  | null
  | assertFailed
  | loopsForever
  deriving DecidableEq, Repr

namespace WaitFreeHashMap

/-- The method `Clear`. -/
def Clear : WaitFreeHashMap where
  keys := fun _ => kEmptyKey
  values := fun _ => MctsNode.Init
  num_elements_ := fun _ => 0

/-- The method `increment_num_elements`. -/
def increment_num_elements (t : WaitFreeHashMap) (key : Nat) : WaitFreeHashMap :=
  let n := key % kNumCounters
  { t with num_elements_ := Function.update t.num_elements_ n (t.num_elements_ n + 1) }

/-- The pointee update of `AtomicCompareAndSwap(keys(hash), oldval, newval)`:
the old key of the slot and the table afterwards. -/
def casKey (t : WaitFreeHashMap) (hash oldval newval : Nat) : Nat × WaitFreeHashMap :=
  let r := AtomicCompareAndSwap (t.keys hash) oldval newval
  (r.1, { t with keys := Function.update t.keys hash r.2 })

/-- The loop `while (true)` of `InsertKey`, run for at most `fuel`
iterations; `hash` is the slot probed last. -/
def insertLoop (L : Nat) (key jump : Nat) :
    Nat → Nat → WaitFreeHashMap → Outcome × WaitFreeHashMap
  | 0, _, t => (Outcome.loopsForever, t)
  | fuel + 1, hash, t =>
    let hash := (hash + jump) % kCapacity L
    let r := casKey t hash kEmptyKey key
    let old_key := r.1
    if old_key = kEmptyKey then
      (Outcome.slot hash, increment_num_elements r.2 key)
    else if old_key = key then
      (Outcome.slot hash, r.2)
    else
      insertLoop L key jump fuel hash r.2

/-- The method `InsertKey`. The probing loop is run for `kCapacity`
iterations: after that many the probes repeat themselves on an unchanged
table (see `insertLoop_loopsForever_of_le`). -/
def InsertKey (L : Nat) (t : WaitFreeHashMap) (key : Nat) : Outcome × WaitFreeHashMap :=
  if t.num_elements_ 0 > kLimit L / kNumCounters then
    (Outcome.null, t)
  else
    let hash := PrimaryHash L key
    if key ≠ kEmptyKey then
      let r := casKey t hash kEmptyKey key
      let old_key := r.1
      if old_key = kEmptyKey then
        (Outcome.slot hash, increment_num_elements r.2 key)
      else if old_key = key then
        (Outcome.slot hash, r.2)
      else
        let jump := SecondaryHash L key
        insertLoop L key jump (kCapacity L) hash r.2
    else
      let r := casKey t hash kEmptyKey (kEmptyKey + 1)
      let old_key := r.1
      if old_key = kEmptyKey then
        (Outcome.slot (PrimaryHash L kEmptyKey), increment_num_elements r.2 key)
      else if old_key = kEmptyKey + 1 then
        (Outcome.slot (PrimaryHash L kEmptyKey), r.2)
      else
        (Outcome.assertFailed, r.2)

/-- The loop `while (true)` of `FindValue`, run for at most `fuel`
iterations; `hash` is the slot probed last. -/
def findLoop (L : Nat) (t : WaitFreeHashMap) (key jump : Nat) : Nat → Nat → Outcome
  | 0, _ => Outcome.loopsForever
  | fuel + 1, hash =>
    let hash := (hash + jump) % kCapacity L
    let found_key := t.keys hash
    if found_key = key then Outcome.slot hash
    else if found_key = kEmptyKey then Outcome.null
    else findLoop L t key jump fuel hash

/-- The method `FindValue`. -/
def FindValue (L : Nat) (t : WaitFreeHashMap) (key : Nat) : Outcome :=
  let hash := PrimaryHash L key
  let found_key := t.keys hash
  if key ≠ kEmptyKey then
    if found_key = key then Outcome.slot hash
    else if found_key = kEmptyKey then Outcome.null
    else
      let jump := SecondaryHash L key
      findLoop L t key jump (kCapacity L) hash
  else
    if found_key = kEmptyKey + 1 then Outcome.slot (PrimaryHash L kEmptyKey)
    else if found_key = kEmptyKey then Outcome.null
    else Outcome.assertFailed

/-- The method `num_elements`: the sum of the sixteen counters. -/
def num_elements (t : WaitFreeHashMap) : Nat :=
  ((List.range (kNumCounters - 1)).map (fun i => t.num_elements_ (i + 1))).foldl
    (fun size n => size + n) (t.num_elements_ 0)

/-- The number of occupied slots: those whose key is not `kEmptyKey`. -/
def occupied (L : Nat) (t : WaitFreeHashMap) : Nat :=
  ((List.range (kCapacity L)).filter (fun i => decide (t.keys i ≠ kEmptyKey))).length

/-- The table after a list of `InsertKey` calls, whatever they return. -/
def insertAll (L : Nat) (t : WaitFreeHashMap) : List Nat → WaitFreeHashMap
  | [] => t
  | key :: rest => insertAll L (InsertKey L t key).2 rest

/-- One call of `InsertKey` that returns, a slot or `NULL`, leads from the
first table to the second. -/
def InsertStep (L : Nat) (t t' : WaitFreeHashMap) : Prop :=
  ∃ key r, InsertKey L t key = (r, t') ∧ (r = Outcome.null ∨ ∃ n, r = Outcome.slot n)

/-- The second table is reached from the first by calls of `InsertKey` that
return. -/
inductive InsertReach (L : Nat) : WaitFreeHashMap → WaitFreeHashMap → Prop where
  | refl (t : WaitFreeHashMap) : InsertReach L t t
  | step {t t' t'' : WaitFreeHashMap} :
      InsertReach L t t' → InsertStep L t' t'' → InsertReach L t t''

/-- Slots that hold a key in the first table hold the same key in the
second. -/
def KeysPreserved (t t' : WaitFreeHashMap) : Prop :=
  ∀ n, t.keys n ≠ kEmptyKey → t'.keys n = t.keys n

/-- The keys 1 .. 63 that are not divisible by 16. -/
def sixtyKeys : List Nat := (List.range 64).filter (fun k => decide (k % 16 ≠ 0))

end WaitFreeHashMap

/-! ### base.h, base.cc: bit tricks -/

/-- The table `kBitsSet` of base.cc. -/
def kBitsSet : List Nat := [
  0, 1, 1, 2, 1, 2, 2, 3, 1, 2, 2, 3, 2, 3, 3, 4,
  1, 2, 2, 3, 2, 3, 3, 4, 2, 3, 3, 4, 3, 4, 4, 5,
  1, 2, 2, 3, 2, 3, 3, 4, 2, 3, 3, 4, 3, 4, 4, 5,
  2, 3, 3, 4, 3, 4, 4, 5, 3, 4, 4, 5, 4, 5, 5, 6]

/-- The function `CountSetBits` of base.h: the number of set bits among the
six lower bits. -/
def CountSetBits (n : Nat) : Nat := kBitsSet.getD (n &&& 63) 0

/-- The table `kMultiplyDeBruijnBitPosition` of base.cc. -/
def kMultiplyDeBruijnBitPosition : List Nat := [
  0, 1, 28, 2, 29, 14, 24, 3, 30, 22, 20, 15, 25, 17, 4, 8,
  31, 27, 13, 23, 21, 19, 16, 7, 26, 12, 18, 6, 11, 5, 10, 9]

/-- The function `CountTrailingZeroes` of base.h, on a 32-bit `unsigned`:
`-mask` is `2^32 - mask` and the product wraps around. -/
def CountTrailingZeroes (mask : Nat) : Nat :=
  kMultiplyDeBruijnBitPosition.getD
    ((((mask &&& ((4294967296 - mask) % 4294967296)) * 0x077CB531) % 4294967296) >>> 27) 0

/-! ### havannah.h: coordinates and cells

`SIDE_LENGTH` is a compile-time constant; test.cc fixes it to 10. -/

/-- The compile-time constant `SIDE_LENGTH`. -/
def SIDE_LENGTH : Nat := 10

/-- The enumerator `kGapLeft` of `XCoord`. -/
def kGapLeft : Nat := 2
/-- The enumerator `kMiddleColumn` of `XCoord`. -/
def kMiddleColumn : Nat := kGapLeft + SIDE_LENGTH - 1
/-- The enumerator `kLastColumn` of `XCoord`. -/
def kLastColumn : Nat := kGapLeft + SIDE_LENGTH - 1 + SIDE_LENGTH - 1
/-- The enumerator `kPastColumns` of `XCoord`. -/
def kPastColumns : Nat := kLastColumn + 1
/-- The enumerator `kThirtyTwoX` of `XCoord`. -/
def kThirtyTwoX : Nat := 32
/-- The enumerator `kGapAround` of `YCoord`. -/
def kGapAround : Nat := 2
/-- The enumerator `kMiddleRow` of `YCoord`. -/
def kMiddleRow : Nat := kGapAround + SIDE_LENGTH - 1
/-- The enumerator `kLastRow` of `YCoord`. -/
def kLastRow : Nat := kGapAround + SIDE_LENGTH - 2 + SIDE_LENGTH
/-- The enumerator `kPastRows` of `YCoord`. -/
def kPastRows : Nat := kLastRow + 1
/-- The enumerator `kBoardHeight` of `YCoord`. -/
def kBoardHeight : Nat := kPastRows + kGapAround
/-- The enumerator `kBoardCenter` of `Cell`. -/
def kBoardCenter : Nat := 32 * kMiddleRow + kMiddleColumn
/-- The enumerator `kNumCellsWithSentinels` of `Cell`. -/
def kNumCellsWithSentinels : Nat := 32 * kBoardHeight
/-- The enumerator `kNumMovesOnBoard` of `MoveIndex`. -/
def kNumMovesOnBoard : Nat := 3 * SIDE_LENGTH * (SIDE_LENGTH - 1) + 1
/-- The constant `kChainNumLimit`: `ChainNum` is `unsigned char`. -/
def kChainNumLimit : Nat := 1 <<< (8 * 1)

/-- The function `XYToCell`. -/
def XYToCell (x y : Nat) : Nat := 32 * y + x
/-- The function `CellToX`. -/
def CellToX (cell : Nat) : Nat := cell % 32
/-- The function `CellToY`. -/
def CellToY (cell : Nat) : Nat := cell / 32
/-- The function `OffsetCell`: `cell + offset`, the offset being an `int`. -/
def OffsetCell (cell : Nat) (offset : Int) : Nat := ((cell : Int) + offset).toNat
/-- The function `PrevY`. -/
def PrevY (y : Nat) : Nat := y - 1
/-- The function `NextY`. -/
def NextY (y : Nat) : Nat := y + 1

/-- The table `kNeighborOffsets` of havannah.cc. -/
def kNeighborOffsets : List Int := [
  -1, -32, -31, 1, 32, 31,
  -33, -63, -30, 33, 63, 30,
  -2, -64, -62, 2, 64, 62]

/-- The function `NthNeighbor`. -/
def NthNeighbor (cell : Nat) (n : Nat) : Nat := OffsetCell cell (kNeighborOffsets.getD n 0)

/-- The function `LiesOnBoard` of havannah.cc; the coordinates are enums,
that is `int`s. -/
def LiesOnBoard (x y : Int) : Bool :=
  decide (x ≥ kGapLeft) && decide (x < kPastColumns) &&
  decide (y ≥ kGapAround) && decide (y < kPastRows) &&
  decide (x + y ≥ SIDE_LENGTH + kGapLeft + kGapAround - 1) &&
  decide (x + y < 3 * SIDE_LENGTH + kGapLeft + kGapAround - 2)

/-- The edge and corner part `mask` that `Position::InitStaticFields`
computes for the cell at (x, y): the assignments in the order of the source,
a later one overriding an earlier one. -/
def edgesCornersInit (x y : Nat) : Nat :=
  let S := SIDE_LENGTH
  let mask : Nat := 0
  if LiesOnBoard x y then
    let mask := if x ≥ S + kGapLeft ∧ x < 2 * S + kGapLeft - 2 then
        let mask := if y = kGapAround then (1 <<< 0) ||| ((65 * 0x30) <<< 16) else mask
        if x + y = 3 * S + kGapLeft + kGapAround - 3 then
          (1 <<< 4) ||| ((65 * 0x0A) <<< 16) else mask
      else mask
    let mask := if x = kGapLeft ∧ y ≥ S + kGapAround ∧ y < 2 * S + kGapAround - 2 then
        (1 <<< 2) ||| ((65 * 0x05) <<< 16) else mask
    let mask := if x > kGapLeft ∧ x < S + kGapLeft - 1 then
        let mask := if y = 2 * S + kGapAround - 2 then
          (1 <<< 3) ||| ((65 * 0x03) <<< 16) else mask
        if x + y = S + kGapLeft + kGapAround - 1 then
          (1 <<< 1) ||| ((65 * 0x14) <<< 16) else mask
      else mask
    let mask := if x = 2 * S + kGapLeft - 2 ∧ y > kGapAround ∧ y < S + kGapAround - 1 then
        (1 <<< 5) ||| ((65 * 0x28) <<< 16) else mask
    let mask := if x = kGapLeft then
        let mask := if y = S + kGapAround - 1 then
          (64 <<< 1) ||| ((65 * 0x15) <<< 16) else mask
        if y = 2 * S + kGapAround - 2 then
          (64 <<< 2) ||| ((65 * 0x07) <<< 16) else mask
      else mask
    let mask := if x = S + kGapLeft - 1 then
        let mask := if y = kGapAround then
          (64 <<< 0) ||| ((65 * 0x34) <<< 16) else mask
        if y = kGapAround + 2 * S - 2 then
          (64 <<< 3) ||| ((65 * 0x0B) <<< 16) else mask
      else mask
    let mask := if x = 2 * S + kGapLeft - 2 then
        let mask := if y = kGapAround then
          (64 <<< 5) ||| ((65 * 0x38) <<< 16) else mask
        if y = S + kGapAround - 1 then
          (64 <<< 4) ||| ((65 * 0x2A) <<< 16) else mask
      else mask
    mask
  else mask

/-- The table `kOffset` of `Position::InitStaticFields`. -/
def kOffset18 : List (Int × Int) := [
  (-2, 2), (-1, 2), (0, 2),
  (-2, 1), (-1, 1), (0, 1), (1, 1),
  (-2, 0), (-1, 0), (1, 0), (2, 0),
  (-1, -1), (0, -1), (1, -1), (2, -1),
  (0, -2), (1, -2), (2, -2)]

/-- The mask `mask18` of `Position::InitStaticFields`: bit `i` is set when
the `i`-th of the 18 neighbours of (x, y) lies outside the board. -/
def mask18Init (x y : Nat) : Nat :=
  (List.range 18).foldl (fun mask18 i =>
    let o := kOffset18.getD i (0, 0)
    mask18 ||| ((if LiesOnBoard ((x : Int) + o.1) ((y : Int) + o.2) then 0 else 1) <<< i)) 0

/-- The table `Position::kEdgesCornersNeighbors`, as filled by
`Position::InitStaticFields`. -/
def kEdgesCornersNeighbors (cell : Nat) : Nat :=
  let x := CellToX cell
  let y := CellToY cell
  ((((1 <<< 18) + 1) * (mask18Init x y <<< 28)) % 18446744073709551616) |||
    edgesCornersInit x y

/-- The method `Position::GetMaskOfEdgesAndCorners`:
`kEdgesCornersNeighbors[cell] & ~(~0ULL << 12)`. -/
def GetMaskOfEdgesAndCorners (cell : Nat) : Nat := kEdgesCornersNeighbors cell &&& 0xFFF

/-! ### The memory of the program

The words that a `Memento` can remember are addressed by a `Loc`. The arrays
of `unsigned char` (`cells_`, `chains_for_cells_`, the counters of a
`BoardCounter`) and the field `newer_version_` are packed four to a word,
the lowest byte first: `Memento::Remember(unsigned char*)` remembers the
whole aligned word around a byte. Chains are addressed by the identity of
their `ChainSet` and their index in `chains_`; the free list of
`ChainAllocator` is not modelled. A `PlayerPosition`, its `ChainSet` and its
`RingDB` share one identity; those of a `Position` are 0 (white) and
1 (black). -/

/-- The addresses of the words of memory. -/
inductive Loc where
  /-- Any other `unsigned` variable of the program. -/
  | word (a : Nat)
  /-- The bytes `4 * w .. 4 * w + 3` of `Position::cells_`. -/
  | cells (w : Nat)
  /-- The bytes `4 * w .. 4 * w + 3` of `PlayerPosition::chains_for_cells_`. -/
  | chainsForCells (p w : Nat)
  /-- The row `y` of `PlayerPosition::stone_mask_`. -/
  | stoneRow (p y : Nat)
  /-- The bytes `4 * w .. 4 * w + 3` of `PlayerPosition::two_bridge_mask_`. -/
  | twoBridge (p w : Nat)
  /-- The row `y` of `Chain::stone_mask_` of the chain `ch`. -/
  | chainRow (p ch y : Nat)
  /-- The field `Chain::num_stones_`. -/
  | chainNumStones (p ch : Nat)
  /-- The field `Chain::edges_corners_ring_`. -/
  | chainEcr (p ch : Nat)
  /-- The word that holds `Chain::newer_version_` in its lowest byte. -/
  | chainNewer (p ch : Nat)
  /-- The cell `i` of `RingDB::arena_`. -/
  | arena (p i : Nat)
  /-- The field `Arena::top_`. -/
  | arenaTop (p : Nat)
  /-- The field `RingDB::ring_frames_top_`. -/
  | ringFramesTop (p : Nat)
  deriving DecidableEq, Repr

/-- The byte `k` (0 .. 3) of a word. -/
def getByte (word k : Nat) : Nat := word / 256 ^ k % 256

/-- The word with its byte `k` (0 .. 3) replaced by `v`, an `unsigned char`. -/
def setByte (word k v : Nat) : Nat :=
  word - getByte word k * 256 ^ k + v % 256 * 256 ^ k

/-- The class `Memento`: remembered pointers with their pointees, and
remembered sizes of `ChainSet`s, both in the order of `push_back`. -/
structure Memento where
  words_ : List (Loc × Nat)
  sizes_ : List (Nat × Nat)
  deriving DecidableEq, Repr

/-- The fields of a `RingDB` that are not words of the arena: the flag
`changed_`, the number of chunks of the arena, and the containers used by
`MergeChainEdges`, `FindCycles` and `VerifyCycle`. -/
structure RingAux where
  changed_ : Bool
  numChunks : Nat
  seen_two_bridges_ : List (Nat × Nat)
  path_ : List Nat
  bridges_ : List (Nat × Nat)
  blocked_ : Nat → Bool
  b_sets_ : Nat → List Nat
  blocked_bridges_ : Nat → Bool
  stones_ : Nat → Nat

/-- The state of the program: the words of memory, the size of `chains_` of
every `ChainSet`, the field `modified_chain_` of every `PlayerPosition`, the
remaining fields of every `RingDB`, and the `Memento` that the reversible
methods are given. -/
structure State where
  mem : Loc → Nat
  size : Nat → Nat
  modified_chain_ : Nat → Nat
  ring : Nat → RingAux
  memento : Memento

/-- Why a run stops without a result: an `assert` fails, an index leaves its
array, or a loop has not exited when the iterations granted to it are used
up. -/
inductive Err where
  | assertFailed
  | outOfBounds
  | outOfFuel
  deriving DecidableEq, Repr

/-- The result of a run: a value and the state afterwards, or a failure. -/
inductive Res (α : Type) where
  | ok (a : α) (s : State)
  | fail (e : Err)

/-- The computations of the embedding: functions from the state before to a
result. -/
def M (α : Type) : Type := State → Res α

/-- Sequencing of computations. -/
def M.bind {α β : Type} (x : M α) (f : α → M β) : M β :=
  fun s => match x s with
    | Res.ok a s' => f a s'
    | Res.fail e => Res.fail e

/-- The computation that returns a value and leaves the state as it is. -/
def M.pure {α : Type} (a : α) : M α := fun s => Res.ok a s

instance : Monad M where
  pure := M.pure
  bind := M.bind

/-- The state after a write of a word. -/
def State.write (s : State) (loc : Loc) (v : Nat) : State :=
  { s with mem := Function.update s.mem loc v }

/-- The state after `chains_` of a chain set got the size `n`. -/
def State.setSize (s : State) (cs n : Nat) : State :=
  { s with size := Function.update s.size cs n }

/-- The state after `words_.push_back(std::make_pair(pointer, *pointer))`. -/
def State.remember (s : State) (loc : Loc) : State :=
  { s with memento := { s.memento with words_ := s.memento.words_ ++ [(loc, s.mem loc)] } }

/-- The state after `sizes_.push_back(std::make_pair(chain_set, chain_set->size()))`. -/
def State.rememberSize (s : State) (cs : Nat) : State :=
  { s with memento := { s.memento with sizes_ := s.memento.sizes_ ++ [(cs, s.size cs)] } }

/-- The state after a change of the fields of a `RingDB` that are not words. -/
def State.modifyRing (s : State) (p : Nat) (f : RingAux → RingAux) : State :=
  { s with ring := Function.update s.ring p (f (s.ring p)) }

/-- The state after an assignment to `modified_chain_`. -/
def State.setModifiedChain (s : State) (p ch : Nat) : State :=
  { s with modified_chain_ := Function.update s.modified_chain_ p ch }

/-- The statement `assert(b)`. -/
def assert (b : Bool) : M Unit :=
  fun s => if b then Res.ok () s else Res.fail Err.assertFailed

/-- A check that an index lies inside its array. -/
def inBounds (b : Bool) : M Unit :=
  fun s => if b then Res.ok () s else Res.fail Err.outOfBounds

/-- A loop gives up. -/
def outOfFuel {α : Type} : M α := fun _ => Res.fail Err.outOfFuel

/-- Reads a word. -/
def readW (loc : Loc) : M Nat := fun s => Res.ok (s.mem loc) s

/-- Writes a word. -/
def writeW (loc : Loc) (v : Nat) : M Unit :=
  fun s => Res.ok () (s.write loc v)

/-- Reads the byte `i` of an array of `unsigned char` whose words are
`base 0`, `base 1`, ... -/
def readByte (base : Nat → Loc) (i : Nat) : M Nat :=
  fun s => Res.ok (getByte (s.mem (base (i / 4))) (i % 4)) s

/-- Writes the byte `i` of an array of `unsigned char`. -/
def writeByte (base : Nat → Loc) (i v : Nat) : M Unit :=
  fun s => Res.ok () (s.write (base (i / 4)) (setByte (s.mem (base (i / 4))) (i % 4) v))

/-- The size of `chains_` of a `ChainSet`: the method `ChainSet::size`. -/
def getSize (cs : Nat) : M Nat := fun s => Res.ok (s.size cs) s

/-- The statement `chains_.push_back(allocator_.MakeChain())`. -/
def pushChain (cs : Nat) : M Unit :=
  fun s => Res.ok () (s.setSize cs (s.size cs + 1))

/-! ### havannah.h, havannah.cc: Memento -/

namespace Memento

/-- The method `Memento::Remember(unsigned*)`. -/
def Remember (loc : Loc) : M Unit :=
  fun s => Res.ok () (s.remember loc)

/-- The method `Memento::Remember(unsigned char*)`: the address is rounded
down to a multiple of `sizeof(unsigned)` and the word there is remembered. -/
def RememberByte (base : Nat → Loc) (i : Nat) : M Unit := Remember (base (i / 4))

/-- The method `Memento::RememberSize`. -/
def RememberSize (cs : Nat) : M Unit :=
  fun s => Res.ok () (s.rememberSize cs)

end Memento

/-- The loop of `ChainSet::ShrinkTo`, run on the size of `chains_`: it pops
the last chain while there are more than `n`. -/
def shrinkLoop (n : Nat) : Nat → Nat → Nat
  | 0, size => size
  | fuel + 1, size => if size > n then shrinkLoop n fuel (size - 1) else size

/-- The method `ChainSet::ShrinkTo`, on the size of `chains_`; the loop pops
one chain per iteration, so the size bounds its iterations. -/
def ShrinkTo (n size : Nat) : Nat := shrinkLoop n size size

/-- The first loop of `Memento::UndoAll`: the remembered words are written
back from the last to the first. -/
def undoWords (words : List (Loc × Nat)) (mem : Loc → Nat) : Loc → Nat :=
  words.foldr (fun e m => Function.update m e.1 e.2) mem

/-- The second loop of `Memento::UndoAll`: the remembered `ChainSet`s are
shrunk from the last to the first. -/
def undoSizes (sizes : List (Nat × Nat)) (size : Nat → Nat) : Nat → Nat :=
  sizes.foldr (fun e sz => Function.update sz e.1 (ShrinkTo e.2 (sz e.1))) size

/-- The state after `Memento::UndoAll`. -/
def State.undoAll (s : State) : State :=
  { s with
    mem := undoWords s.memento.words_ s.mem
    size := undoSizes s.memento.sizes_ s.size
    memento := { words_ := [], sizes_ := [] } }

/-- The method `Memento::UndoAll`. -/
def Memento.UndoAll : M Unit := fun s => Res.ok () s.undoAll

/-! ### havannah.h, havannah.cc: BoardBitmask

A `BoardBitmask` is its array `rows_`, a function from the row to the
32-bit mask of the row. -/

/-- The method `BoardBitmask::get`. -/
def BoardBitmask.get (rows : Nat → Nat) (x y : Nat) : Bool :=
  decide (rows y &&& (1 <<< x) ≠ 0)

/-- The row after `BoardBitmask::set(x, y)`: `Row(y) |= (1 << x)`. -/
def setBit (row x : Nat) : Nat := row ||| (1 <<< x)

/-- The row after `BoardBitmask::clear(x, y)`: `Row(y) &= ~(1 << x)`. -/
def clearBit (row x : Nat) : Nat := row &&& (4294967295 ^^^ (1 <<< x))

/-- The method `BoardBitmask::Get6Neighbors`. -/
def BoardBitmask.Get6Neighbors (rows : Nat → Nat) (x y : Nat) : Nat :=
  let neighborhood := (rows (PrevY y) >>> x) &&& 3
  let curr_line := rows y
  let neighborhood := (neighborhood <<< 1) ||| ((curr_line >>> (x + 1)) &&& 1)
  let neighborhood := (neighborhood <<< 1) ||| ((curr_line >>> (x - 1)) &&& 1)
  let neighborhood := (neighborhood <<< 2) ||| ((rows (NextY y) >>> (x - 1)) &&& 3)
  neighborhood

/-! ### havannah.h, havannah.cc: Chain -/

/-- The values of the enum `WinningCondition`. -/
def kNoWinningCondition : Nat := 0
/-- The enumerator `kRing`. -/
def kRing : Nat := 1
/-- The enumerator `kBenzeneRing`. -/
def kBenzeneRing : Nat := 2
/-- The enumerator `kBridge`. -/
def kBridge : Nat := 4
/-- The enumerator `kFork`. -/
def kFork : Nat := 8

/-- The table `kClosesRing` of `Chain::ClosesAnyRing`. -/
def kClosesRing : List Nat := [
   0,  0,  0,  0,  0,  0, 64,  4,  0,  0,  0,  0,  0,  0,  0,  0,
   0, 64,  0,  8, 64, 64, 64, 12,  0,  0,  0,  0,  0,  0,  0,  0,
   0, 64, 64, 64,  0,  2, 64,  6,  0,  0,  0,  0,  0,  0,  0,  0,
  64, 64, 64, 64, 64, 64, 64, 14,  0,  0,  0,  0,  0,  0,  0,  0,
   0, 64, 64, 64, 64, 64, 64, 64,  0,  0,  0,  0,  0,  0,  0,  0,
   0, 64, 16, 24, 64, 64, 64, 28,  0,  0,  0,  0,  0,  0,  0,  0,
   0, 64, 64, 64,  1,  3, 64,  7,  0,  0,  0,  0,  0,  0,  0,  0,
  32, 64, 48, 56, 33, 35, 49,  0,  0,  0,  0,  0,  0,  0,  0,  0]

/-- The body of `Chain::ClosesAnyRing` after its first `assert`, on the rows
of the stone mask of the chain. -/
def closesAnyRing (rows : Nat → Nat) (x y : Nat) : Nat :=
  let neighborhood := (rows (PrevY y) >>> x) &&& 3
  let neighborhood := (neighborhood <<< 3) ||| ((rows y >>> (x - 1)) &&& 5)
  let neighborhood := (neighborhood <<< 2) ||| ((rows (NextY y) >>> (x - 1)) &&& 3)
  let mask := kClosesRing.getD neighborhood 0
  let kPositiveResult := 1 <<< 12
  if mask = 0 then 0
  else if mask = 64 then kPositiveResult
  else
    let xx := x - 2
    let prev2_line := rows (PrevY (PrevY y)) >>> xx
    let prev_line := rows (PrevY y) >>> xx
    let this_line := rows y >>> xx
    let next_line := rows (NextY y) >>> xx
    let next2_line := rows (NextY (NextY y)) >>> xx
    if mask &&& 1 ≠ 0 ∧ prev2_line &&& 12 = 12 ∧ prev_line &&& 2 ≠ 0 then kPositiveResult
    else if mask &&& 2 ≠ 0 ∧ prev_line &&& 2 ≠ 0 ∧ this_line &&& next_line &&& 1 ≠ 0 then
      kPositiveResult
    else if mask &&& 4 ≠ 0 ∧ next_line &&& 1 ≠ 0 ∧ next2_line &&& 3 = 3 then kPositiveResult
    else if mask &&& 8 ≠ 0 ∧ next_line &&& 8 ≠ 0 ∧ next2_line &&& 6 = 6 then kPositiveResult
    else if mask &&& 16 ≠ 0 ∧ prev_line &&& this_line &&& 16 ≠ 0 ∧ next_line &&& 8 ≠ 0 then
      kPositiveResult
    else if mask &&& 32 ≠ 0 ∧ prev_line &&& 16 ≠ 0 ∧ prev2_line &&& 24 = 24 then
      kPositiveResult
    else 0

/-- The method `Chain::ClosesBenzeneRing`, on the rows of the stone mask. -/
def closesBenzeneRing (rows : Nat → Nat) (x y : Nat) : Nat :=
  let kPositiveResult := 1 <<< 13
  let xx := x - 2
  let prev2_line := rows (PrevY (PrevY y)) >>> xx
  let prev_line := rows (PrevY y) >>> xx
  let this_line := rows y >>> xx
  let next_line := rows (NextY y) >>> xx
  let next2_line := rows (NextY (NextY y)) >>> xx
  if this_line &&& 2 ≠ 0 ∧
      (prev_line &&& 10 = 10 ∧ prev2_line &&& 12 = 12 ∨
       next_line &&& 5 = 5 ∧ next2_line &&& 3 = 3) then kPositiveResult
  else if this_line &&& 8 ≠ 0 ∧
      (prev_line &&& 20 = 20 ∧ prev2_line &&& 24 = 24 ∨
       next_line &&& 10 = 10 ∧ next2_line &&& 6 = 6) then kPositiveResult
  else if prev_line &&& 6 = 6 ∧ this_line &&& 1 ≠ 0 ∧ next_line &&& 3 = 3 then
    kPositiveResult
  else if prev_line &&& 24 = 24 ∧ this_line &&& 16 ≠ 0 ∧ next_line &&& 12 = 12 then
    kPositiveResult
  else 0

/-- The rows of the stone mask of the chain `ch` of the chain set `p`. -/
def chainRows (s : State) (p ch : Nat) : Nat → Nat := fun y => s.mem (Loc.chainRow p ch y)

/-- Reads the rows of the stone mask of a chain. -/
def readChainRows (p ch : Nat) : M (Nat → Nat) := fun s => Res.ok (chainRows s p ch) s

/-- Writes all `kBoardHeight` rows of the stone mask of a chain: the loop of
`FillWithOr`, the `memset` of `ZeroBits`, the `memcpy` of `CopyFrom`. -/
def State.writeRows (s : State) (p ch : Nat) (rows : Nat → Nat) : State :=
  { s with mem := fun loc =>
      match loc with
      | Loc.chainRow p' ch' y =>
        if p' = p ∧ ch' = ch ∧ y < kBoardHeight then rows y else s.mem loc
      | _ => s.mem loc }

/-- Writes all rows of the stone mask of a chain. -/
def writeChainRows (p ch : Nat) (rows : Nat → Nat) : M Unit :=
  fun s => Res.ok () (s.writeRows p ch rows)

namespace Chain

/-- The method `Chain::newer_version`. -/
def newer_version (p ch : Nat) : M Nat := readByte (fun _ => Loc.chainNewer p ch) 0

/-- The method `Chain::ClosesAnyRing`. -/
def ClosesAnyRing (p ch x y : Nat) : M Nat := do
  let rows ← readChainRows p ch
  assert (!BoardBitmask.get rows x y)
  pure (closesAnyRing rows x y)

/-- The method `Chain::GetRingMask`. -/
def GetRingMask (p ch x y : Nat) : M Nat := do
  let result ← ClosesAnyRing p ch x y
  if result ≠ 0 then do
    let rows ← readChainRows p ch
    pure (result ||| closesBenzeneRing rows x y)
  else
    pure result

/-- The method `Chain::AddStoneReversibly`. -/
def AddStoneReversibly (p ch x y : Nat) : M Unit := do
  assert (LiesOnBoard x y)
  let ring ← GetRingMask p ch x y
  let mask := GetMaskOfEdgesAndCorners (XYToCell x y) ||| ring
  (if mask ≠ 0 then do
      Memento.Remember (Loc.chainEcr p ch)
      let e ← readW (Loc.chainEcr p ch)
      writeW (Loc.chainEcr p ch) (e ||| mask)
    else pure ())
  Memento.Remember (Loc.chainRow p ch y)
  let row ← readW (Loc.chainRow p ch y)
  assert (decide (row &&& (1 <<< x) = 0))
  writeW (Loc.chainRow p ch y) (setBit row x)
  Memento.Remember (Loc.chainNumStones p ch)
  let n ← readW (Loc.chainNumStones p ch)
  writeW (Loc.chainNumStones p ch) ((n + 1) % 4294967296)

/-- The method `Chain::AddStoneFast`. -/
def AddStoneFast (p ch x y : Nat) : M Unit := do
  assert (LiesOnBoard x y)
  let ring ← GetRingMask p ch x y
  let e ← readW (Loc.chainEcr p ch)
  writeW (Loc.chainEcr p ch) (e ||| (GetMaskOfEdgesAndCorners (XYToCell x y) ||| ring))
  let row ← readW (Loc.chainRow p ch y)
  assert (decide (row &&& (1 <<< x) = 0))
  writeW (Loc.chainRow p ch y) (setBit row x)
  let n ← readW (Loc.chainNumStones p ch)
  writeW (Loc.chainNumStones p ch) ((n + 1) % 4294967296)

/-- The method `Chain::ComputeUnion`: `ch` is this chain, `other` the other
one and `result` the chain that is filled in. -/
def ComputeUnion (p ch x y other result : Nat) : M Unit := do
  assert (LiesOnBoard x y)
  let rows ← readChainRows p ch
  let otherRows ← readChainRows p other
  assert (BoardBitmask.get rows x y)
  assert (!BoardBitmask.get otherRows x y)
  writeChainRows p result (fun r => rows r ||| otherRows r)
  let n ← readW (Loc.chainNumStones p ch)
  let m ← readW (Loc.chainNumStones p other)
  writeW (Loc.chainNumStones p result) ((n + m) % 4294967296)
  let e ← readW (Loc.chainEcr p ch)
  let f ← readW (Loc.chainEcr p other)
  let ring ← GetRingMask p other x y
  writeW (Loc.chainEcr p result) (e ||| f ||| ring)
  writeByte (fun _ => Loc.chainNewer p result) 0 0

/-- The method `Chain::InitWithStone`. -/
def InitWithStone (p ch x y : Nat) : M Unit := do
  assert (LiesOnBoard x y)
  writeChainRows p ch (fun r => if r = y then setBit 0 x else 0)
  writeW (Loc.chainNumStones p ch) 1
  writeW (Loc.chainEcr p ch) (GetMaskOfEdgesAndCorners (XYToCell x y))
  writeByte (fun _ => Loc.chainNewer p ch) 0 0

/-- The method `Chain::IsVictory`. -/
def IsVictory (p ch : Nat) : M Nat := do
  let e ← readW (Loc.chainEcr p ch)
  let result :=
    kFork * (if CountSetBits e ≥ 3 then 1 else 0) +
    kBridge * (if CountSetBits (e >>> 6) ≥ 2 then 1 else 0) +
    ((e >>> 12) &&& 3)
  writeW (Loc.chainEcr p ch) (e &&& (4294967295 ^^^ (3 <<< 12)))
  pure result

/-- The method `Chain::SetNewerVersionReversibly`. -/
def SetNewerVersionReversibly (p ch nv : Nat) : M Unit := do
  assert (decide (nv ≠ 0))
  Memento.RememberByte (fun _ => Loc.chainNewer p ch) 0
  writeByte (fun _ => Loc.chainNewer p ch) 0 nv

/-- The method `Chain::SetNewerVersionFast`. -/
def SetNewerVersionFast (p ch nv : Nat) : M Unit :=
  writeByte (fun _ => Loc.chainNewer p ch) 0 nv

end Chain

/-! ### havannah.h, havannah.cc: ChainSet -/

namespace ChainSet

/-- The element access `chains_[ch]` followed by a dereference: the index
has to lie inside `chains_`, whose element 0 is `NULL`. -/
def deref (p ch : Nat) : M Unit := do
  let size ← getSize p
  inBounds (decide (0 < ch ∧ ch < size))

/-- The loop of `ChainSet::NewestVersion`, run for at most `fuel`
iterations. -/
def newestLoop (p : Nat) : Nat → Nat → M Nat
  | 0, _ => outOfFuel
  | fuel + 1, ch => do
    deref p ch
    let nv ← Chain.newer_version p ch
    if nv ≠ 0 then newestLoop p fuel nv else pure ch

/-- The method `ChainSet::NewestVersion(ChainNum)`. The loop is run for
at most `size()` iterations: it visits an element of `chains_` per
iteration and changes nothing, so that it never exits once it has visited
an element twice. -/
def NewestVersion (p ch : Nat) : M Nat := do
  assert (decide (ch ≠ 0))
  let size ← getSize p
  newestLoop p size ch

/-- The method `ChainSet::AddStoneToChainReversibly`. -/
def AddStoneToChainReversibly (p x y ch : Nat) : M Unit := do
  let nv ← NewestVersion p ch
  assert (decide (ch = nv))
  Chain.AddStoneReversibly p ch x y

/-- The method `ChainSet::AddStoneToChainFast`. -/
def AddStoneToChainFast (p x y ch : Nat) : M Unit := do
  let nv ← NewestVersion p ch
  assert (decide (ch = nv))
  Chain.AddStoneFast p ch x y

/-- The method `ChainSet::MergeChainsReversibly`. -/
def MergeChainsReversibly (p x y chain1 chain2 : Nat) : M Nat := do
  let nv1 ← NewestVersion p chain1
  assert (decide (chain1 = nv1))
  let nv2 ← NewestVersion p chain2
  assert (decide (chain2 = nv2))
  if chain1 = chain2 then pure chain2
  else do
    let last_chain ← getSize p
    assert (decide (last_chain < kChainNumLimit))
    pushChain p
    Chain.ComputeUnion p chain1 x y chain2 last_chain
    Chain.SetNewerVersionReversibly p chain1 last_chain
    Chain.SetNewerVersionReversibly p chain2 last_chain
    pure last_chain

/-- The method `ChainSet::MergeChainsFast`. -/
def MergeChainsFast (p x y chain1 chain2 : Nat) : M Nat := do
  let nv1 ← NewestVersion p chain1
  assert (decide (chain1 = nv1))
  let nv2 ← NewestVersion p chain2
  assert (decide (chain2 = nv2))
  if chain1 = chain2 then pure chain2
  else do
    let last_chain ← getSize p
    assert (decide (last_chain < kChainNumLimit))
    pushChain p
    Chain.ComputeUnion p chain1 x y chain2 last_chain
    Chain.SetNewerVersionFast p chain1 last_chain
    Chain.SetNewerVersionFast p chain2 last_chain
    pure last_chain

/-- The method `ChainSet::MakeOneStoneChain`. -/
def MakeOneStoneChain (p x y : Nat) : M Nat := do
  let last_chain ← getSize p
  assert (decide (last_chain < kChainNumLimit))
  pushChain p
  Chain.InitWithStone p last_chain x y
  pure last_chain

/-- The method `ChainSet::IsVictory`. -/
def IsVictory (p ch : Nat) : M Nat := do
  let nv ← NewestVersion p ch
  Chain.IsVictory p nv

/-- The method `ChainSet::edges_corners_ring`. -/
def edges_corners_ring (p ch : Nat) : M Nat := do
  let nv ← NewestVersion p ch
  readW (Loc.chainEcr p nv)

end ChainSet

/-! ### havannah.h, havannah.cc: Arena -/

/-- The constant `Arena::kCellsInChunk`. -/
def kCellsInChunk : Nat := 1 <<< 12

/-- Reads the fields of a `RingDB` that are not words of memory. -/
def getRing (p : Nat) : M RingAux := fun s => Res.ok (s.ring p) s

/-- Changes the fields of a `RingDB` that are not words of memory. -/
def modifyRing (p : Nat) (f : RingAux → RingAux) : M Unit :=
  fun s => Res.ok () (s.modifyRing p f)

/-- The `memset` of `Arena::Allocate`: zeroes the cells
`start .. start + n - 1`. -/
def State.zeroArena (s : State) (p start n : Nat) : State :=
  { s with mem := fun loc =>
      match loc with
      | Loc.arena p' i => if p' = p ∧ start ≤ i ∧ i < start + n then 0 else s.mem loc
      | _ => s.mem loc }

/-- The `memset` of `Arena::Allocate`. -/
def zeroArena (p start n : Nat) : M Unit :=
  fun s => Res.ok () (s.zeroArena p start n)

namespace Arena

/-- The method `Arena::top`. -/
def top (p : Nat) : M Nat := readW (Loc.arenaTop p)

/-- The address of the cell `n`, as `Arena::get` computes it: the assert
demands an allocated cell, and the chunk `n / kCellsInChunk` has to
exist. -/
def ref (p n : Nat) : M Loc := do
  let t ← top p
  assert (decide (n < t))
  let aux ← getRing p
  inBounds (decide (n / kCellsInChunk < aux.numChunks))
  pure (Loc.arena p n)

/-- The method `Arena::get`. -/
def get (p n : Nat) : M Nat := do
  let loc ← ref p n
  readW loc

/-- The method `Arena::set`. -/
def set (p n value : Nat) : M Unit := do
  let loc ← ref p n
  writeW loc value

/-- The method `Arena::Allocate`. The `memset` starts at the cell
`result % kCellsInChunk` of the chunk `result / kCellsInChunk`, which has to
exist, and has to end inside that chunk. -/
def Allocate (p n : Nat) : M Nat := do
  assert (decide (n ≤ kCellsInChunk))
  let t ← top p
  let aux ← getRing p
  (if (t + n) / kCellsInChunk ≥ aux.numChunks then do
      modifyRing p (fun a => { a with numChunks := a.numChunks + 1 })
      writeW (Loc.arenaTop p) ((t + n) / kCellsInChunk * kCellsInChunk)
    else pure ())
  let result ← top p
  let aux ← getRing p
  inBounds (decide (result / kCellsInChunk < aux.numChunks ∧
    result % kCellsInChunk + n ≤ kCellsInChunk))
  zeroArena p result n
  writeW (Loc.arenaTop p) (result + n)
  pure result

end Arena

/-! ### havannah.h, havannah.cc: RingDB, the chain graph

The fields `chain_graph_`, `ring_frames_` and `ring_frames_through_cells_`
are set by the constructor to the results of three calls of
`Arena::Allocate` on the empty arena and never change. -/

/-- The constant `RingDB::kMaxNumRingFrames`. -/
def kMaxNumRingFrames : Nat := 1 <<< 8

/-- The field `RingDB::chain_graph_`. -/
def chain_graph_ : Nat := 0
/-- The field `RingDB::ring_frames_`. -/
def ring_frames_ : Nat := kChainNumLimit
/-- The field `RingDB::ring_frames_through_cells_`. -/
def ring_frames_through_cells_ : Nat := kChainNumLimit + kMaxNumRingFrames
/-- The value of `Arena::top_` after the constructor of `RingDB`. -/
def kInitialArenaTop : Nat := kChainNumLimit + kMaxNumRingFrames + kNumMovesOnBoard

/-- The offset `kCgChain` inside a record of the chain graph. -/
def kCgChain : Nat := 1
/-- The offset `kCgCell0`. -/
def kCgCell0 : Nat := 2
/-- The offset `kCgCell1`. -/
def kCgCell1 : Nat := 3
/-- The size `kCgSize` of a record of the chain graph. -/
def kCgSize : Nat := 4
/-- The offset `kRftcRingFrameIndex`. -/
def kRftcRingFrameIndex : Nat := 1
/-- The size `kRftcSize`. -/
def kRftcSize : Nat := 2

namespace RingDB

/-- The statement `memento->Remember(&arena_.get(n))`. -/
def rememberCell (p n : Nat) : M Unit := do
  let loc ← Arena.ref p n
  Memento.Remember loc

/-- The loops over the lists of the arena are run for as many iterations
as the arena has allocated cells, plus one. -/
def listFuel (p : Nat) : M Nat := do
  let t ← Arena.top p
  pure (t + 1)

/-- The method `RingDB::AddOneWayTwoBridge`. -/
def AddOneWayTwoBridge (p chain0 chain1 cell0 cell1 : Nat) : M Unit := do
  assert (decide (cell0 < cell1))
  let q ← Arena.Allocate p kCgSize
  let head ← Arena.get p (chain_graph_ + chain0)
  Arena.set p q head
  Arena.set p (q + kCgChain) chain1
  Arena.set p (q + kCgCell0) cell0
  Arena.set p (q + kCgCell1) cell1
  Arena.set p (chain_graph_ + chain0) q

/-- The method `RingDB::AddTwoBridgeReversibly`. -/
def AddTwoBridgeReversibly (p cell0 cell1 chain0 chain1 : Nat) : M Unit := do
  assert (decide (chain0 ≠ 0))
  assert (decide (chain1 ≠ 0))
  Memento.Remember (Loc.arenaTop p)
  let c0 := if cell0 > cell1 then cell1 else cell0
  let c1 := if cell0 > cell1 then cell0 else cell1
  rememberCell p (chain_graph_ + chain0)
  AddOneWayTwoBridge p chain0 chain1 c0 c1
  (if chain0 ≠ chain1 then do
      rememberCell p (chain_graph_ + chain1)
      AddOneWayTwoBridge p chain1 chain0 c0 c1
    else pure ())
  modifyRing p (fun a => { a with changed_ := true })

/-- The method `RingDB::AddTwoBridgeFast`. -/
def AddTwoBridgeFast (p cell0 cell1 chain0 chain1 : Nat) : M Unit := do
  assert (decide (chain0 ≠ 0))
  assert (decide (chain1 ≠ 0))
  let c0 := if cell0 > cell1 then cell1 else cell0
  let c1 := if cell0 > cell1 then cell0 else cell1
  AddOneWayTwoBridge p chain0 chain1 c0 c1
  (if chain0 ≠ chain1 then AddOneWayTwoBridge p chain1 chain0 c0 c1 else pure ())
  modifyRing p (fun a => { a with changed_ := true })

/-- The loop of `RingDB::ReplaceChainInGraphReversibly`; `q` is the record
at hand. -/
def replaceLoopReversibly (p old_chain new_chain : Nat) : Nat → Nat → M Unit
  | 0, _ => outOfFuel
  | fuel + 1, q =>
    if q = 0 then pure ()
    else do
      let ch ← Arena.get p (q + kCgChain)
      (if ch = old_chain then do
          rememberCell p (q + kCgChain)
          Arena.set p (q + kCgChain) new_chain
        else pure ())
      let next ← Arena.get p q
      replaceLoopReversibly p old_chain new_chain fuel next

/-- The method `RingDB::ReplaceChainInGraphReversibly`; the arguments are
of type `ChainNum`. -/
def ReplaceChainInGraphReversibly (p chain old_chain new_chain : Nat) : M Unit := do
  let fuel ← listFuel p
  let q ← Arena.get p (chain_graph_ + chain % kChainNumLimit)
  replaceLoopReversibly p old_chain new_chain fuel q

/-- The loop of `RingDB::ReplaceChainInGraphFast`. -/
def replaceLoopFast (p old_chain new_chain : Nat) : Nat → Nat → M Unit
  | 0, _ => outOfFuel
  | fuel + 1, q =>
    if q = 0 then pure ()
    else do
      let ch ← Arena.get p (q + kCgChain)
      (if ch = old_chain then Arena.set p (q + kCgChain) new_chain else pure ())
      let next ← Arena.get p q
      replaceLoopFast p old_chain new_chain fuel next

/-- The method `RingDB::ReplaceChainInGraphFast`. -/
def ReplaceChainInGraphFast (p chain old_chain new_chain : Nat) : M Unit := do
  let fuel ← listFuel p
  let q ← Arena.get p (chain_graph_ + chain % kChainNumLimit)
  replaceLoopFast p old_chain new_chain fuel q

/-- The `do ... while (curr != 0)` loop of `RingDB::MergeChainEdgesReversibly`
over the list of `chain0`; it is entered with `curr != 0` and returns the
last value of `prev`. -/
def mergeLoop1Reversibly (p chain0 chain1 new_chain : Nat) : Nat → Nat → M Nat
  | 0, _ => outOfFuel
  | fuel + 1, curr => do
    let ch ← Arena.get p (curr + kCgChain)
    let c0 ← Arena.get p (curr + kCgCell0)
    let c1 ← Arena.get p (curr + kCgCell1)
    modifyRing p (fun a => { a with seen_two_bridges_ := (c0, c1) :: a.seen_two_bridges_ })
    (if ch = chain0 ∨ ch = chain1 then do
        rememberCell p (curr + kCgChain)
        Arena.set p (curr + kCgChain) new_chain
      else pure ())
    ReplaceChainInGraphReversibly p ch chain0 new_chain
    let prev := curr
    let curr ← Arena.get p prev
    if curr ≠ 0 then mergeLoop1Reversibly p chain0 chain1 new_chain fuel curr
    else pure prev

/-- The `while (curr != 0)` loop of `RingDB::MergeChainEdgesReversibly` over
the list of `chain1`. -/
def mergeLoop2Reversibly (p chain0 chain1 new_chain : Nat) : Nat → Nat → Nat → M Unit
  | 0, _, _ => outOfFuel
  | fuel + 1, prev, curr =>
    if curr = 0 then pure ()
    else do
      let ch ← Arena.get p (curr + kCgChain)
      let c0 ← Arena.get p (curr + kCgCell0)
      let c1 ← Arena.get p (curr + kCgCell1)
      let aux ← getRing p
      if ¬ (c0, c1) ∈ aux.seen_two_bridges_ then do
        (if ch = chain0 ∨ ch = chain1 then do
            rememberCell p (curr + kCgChain)
            Arena.set p (curr + kCgChain) new_chain
          else pure ())
        ReplaceChainInGraphReversibly p ch chain1 new_chain
        let prev := curr
        let curr ← Arena.get p prev
        mergeLoop2Reversibly p chain0 chain1 new_chain fuel prev curr
      else do
        rememberCell p prev
        let curr ← Arena.get p curr
        Arena.set p prev curr
        mergeLoop2Reversibly p chain0 chain1 new_chain fuel prev curr

/-- The method `RingDB::MergeChainEdgesReversibly`; the `ChainSet` it is
given is the one of the same `PlayerPosition`. -/
def MergeChainEdgesReversibly (p chain0 chain1 : Nat) : M Unit := do
  let nv0 ← ChainSet.NewestVersion p chain0
  assert (decide (chain0 = nv0))
  let nv1 ← ChainSet.NewestVersion p chain1
  assert (decide (chain1 = nv1))
  if chain0 = chain1 then pure ()
  else do
    modifyRing p (fun a => { a with seen_two_bridges_ := [] })
    let size ← getSize p
    let new_chain := size % kChainNumLimit
    let fuel ← listFuel p
    let first := chain_graph_ + new_chain
    let prev := chain_graph_ + chain0
    let curr ← Arena.get p prev
    let prev ← (if curr ≠ 0 then do
        rememberCell p first
        Arena.set p first curr
        mergeLoop1Reversibly p chain0 chain1 new_chain fuel curr
      else pure first)
    rememberCell p prev
    let curr ← Arena.get p (chain_graph_ + chain1)
    Arena.set p prev curr
    mergeLoop2Reversibly p chain0 chain1 new_chain fuel prev curr
    modifyRing p (fun a => { a with changed_ := true })

/-- The `do ... while (curr != 0)` loop of `RingDB::MergeChainEdgesFast`. -/
def mergeLoop1Fast (p chain0 chain1 new_chain : Nat) : Nat → Nat → M Nat
  | 0, _ => outOfFuel
  | fuel + 1, curr => do
    let ch ← Arena.get p (curr + kCgChain)
    let c0 ← Arena.get p (curr + kCgCell0)
    let c1 ← Arena.get p (curr + kCgCell1)
    modifyRing p (fun a => { a with seen_two_bridges_ := (c0, c1) :: a.seen_two_bridges_ })
    (if ch = chain0 ∨ ch = chain1 then Arena.set p (curr + kCgChain) new_chain
      else pure ())
    ReplaceChainInGraphFast p ch chain0 new_chain
    let prev := curr
    let curr ← Arena.get p prev
    if curr ≠ 0 then mergeLoop1Fast p chain0 chain1 new_chain fuel curr
    else pure prev

/-- The `while (curr != 0)` loop of `RingDB::MergeChainEdgesFast`. -/
def mergeLoop2Fast (p chain0 chain1 new_chain : Nat) : Nat → Nat → Nat → M Unit
  | 0, _, _ => outOfFuel
  | fuel + 1, prev, curr =>
    if curr = 0 then pure ()
    else do
      let ch ← Arena.get p (curr + kCgChain)
      let c0 ← Arena.get p (curr + kCgCell0)
      let c1 ← Arena.get p (curr + kCgCell1)
      let aux ← getRing p
      if ¬ (c0, c1) ∈ aux.seen_two_bridges_ then do
        (if ch = chain0 ∨ ch = chain1 then Arena.set p (curr + kCgChain) new_chain
          else pure ())
        ReplaceChainInGraphFast p ch chain1 new_chain
        let prev := curr
        let curr ← Arena.get p prev
        mergeLoop2Fast p chain0 chain1 new_chain fuel prev curr
      else do
        let curr ← Arena.get p curr
        Arena.set p prev curr
        mergeLoop2Fast p chain0 chain1 new_chain fuel prev curr

/-- The method `RingDB::MergeChainEdgesFast`. -/
def MergeChainEdgesFast (p chain0 chain1 : Nat) : M Unit := do
  let nv0 ← ChainSet.NewestVersion p chain0
  assert (decide (chain0 = nv0))
  let nv1 ← ChainSet.NewestVersion p chain1
  assert (decide (chain1 = nv1))
  if chain0 = chain1 then pure ()
  else do
    modifyRing p (fun a => { a with seen_two_bridges_ := [] })
    let size ← getSize p
    let new_chain := size % kChainNumLimit
    let fuel ← listFuel p
    let first := chain_graph_ + new_chain
    let prev := chain_graph_ + chain0
    let curr ← Arena.get p prev
    let prev ← (if curr ≠ 0 then do
        Arena.set p first curr
        mergeLoop1Fast p chain0 chain1 new_chain fuel curr
      else pure first)
    let curr ← Arena.get p (chain_graph_ + chain1)
    Arena.set p prev curr
    mergeLoop2Fast p chain0 chain1 new_chain fuel prev curr
    modifyRing p (fun a => { a with changed_ := true })

end RingDB

/-! ### havannah.h, havannah.cc: PlayerPosition -/

namespace PlayerPosition

/-- The assignment `modified_chain_ = ch`. -/
def setModifiedChain (p ch : Nat) : M Unit := fun s => Res.ok () (s.setModifiedChain p ch)

/-- The method `PlayerPosition::chain_for_cell`. -/
def chain_for_cell (p cell : Nat) : M Nat := do
  inBounds (decide (cell < kNumCellsWithSentinels))
  readByte (Loc.chainsForCells p) cell

/-- The method `PlayerPosition::CellIsEmpty`. -/
def CellIsEmpty (p cell : Nat) : M Bool := do
  let ch ← chain_for_cell p cell
  pure (decide (ch = 0))

/-- The method `PlayerPosition::NewestChainForCell`. -/
def NewestChainForCell (p cell : Nat) : M Nat := do
  let ch ← chain_for_cell p cell
  ChainSet.NewestVersion p ch

/-- The loop `for (int j = 0; j < 6; ++j)` of
`PlayerPosition::MakeMoveReversibly`, from `j` on for `n` more neighbours;
it returns the last value of `previous_chain`. -/
def neighborLoopReversibly (p cell x y : Nat) : Nat → Nat → Nat → M Nat
  | 0, _, previous_chain => pure previous_chain
  | n + 1, j, previous_chain => do
    let current_chain ← chain_for_cell p (NthNeighbor cell j)
    if current_chain = 0 then
      neighborLoopReversibly p cell x y n (j + 1) previous_chain
    else if previous_chain ≠ 0 then do
      let previous_chain ← ChainSet.NewestVersion p previous_chain
      let current_chain ← ChainSet.NewestVersion p current_chain
      RingDB.MergeChainEdgesReversibly p previous_chain current_chain
      let previous_chain ←
        ChainSet.MergeChainsReversibly p x y previous_chain current_chain
      neighborLoopReversibly p cell x y n (j + 1) previous_chain
    else do
      let current_chain ← ChainSet.NewestVersion p current_chain
      ChainSet.AddStoneToChainReversibly p x y current_chain
      neighborLoopReversibly p cell x y n (j + 1) current_chain

/-- The method `PlayerPosition::MakeMoveReversibly`. -/
def MakeMoveReversibly (p cell : Nat) : M Nat := do
  let x := CellToX cell
  let y := CellToY cell
  assert (LiesOnBoard x y)
  let empty ← CellIsEmpty p cell
  assert empty
  Memento.RememberSize p
  let previous_chain ← neighborLoopReversibly p cell x y 6 0 0
  Memento.RememberByte (Loc.chainsForCells p) cell
  (if previous_chain ≠ 0 then
      writeByte (Loc.chainsForCells p) cell previous_chain
    else do
      let ch ← ChainSet.MakeOneStoneChain p x y
      writeByte (Loc.chainsForCells p) cell ch)
  let ch ← chain_for_cell p cell
  setModifiedChain p ch
  Memento.Remember (Loc.stoneRow p y)
  let row ← readW (Loc.stoneRow p y)
  writeW (Loc.stoneRow p y) (setBit row x)
  let ch ← chain_for_cell p cell
  ChainSet.IsVictory p ch

/-- The loop `for (int j = 0; j < 6; ++j)` of `PlayerPosition::MakeMoveFast`. -/
def neighborLoopFast (p cell x y : Nat) : Nat → Nat → Nat → M Nat
  | 0, _, previous_chain => pure previous_chain
  | n + 1, j, previous_chain => do
    let current_chain ← chain_for_cell p (NthNeighbor cell j)
    if current_chain = 0 then
      neighborLoopFast p cell x y n (j + 1) previous_chain
    else if previous_chain ≠ 0 then do
      let previous_chain ← ChainSet.NewestVersion p previous_chain
      let current_chain ← ChainSet.NewestVersion p current_chain
      RingDB.MergeChainEdgesFast p previous_chain current_chain
      let previous_chain ← ChainSet.MergeChainsFast p x y previous_chain current_chain
      neighborLoopFast p cell x y n (j + 1) previous_chain
    else do
      let current_chain ← ChainSet.NewestVersion p current_chain
      ChainSet.AddStoneToChainFast p x y current_chain
      neighborLoopFast p cell x y n (j + 1) current_chain

/-- The method `PlayerPosition::MakeMoveFast`. -/
def MakeMoveFast (p cell : Nat) : M Nat := do
  let x := CellToX cell
  let y := CellToY cell
  assert (LiesOnBoard x y)
  let empty ← CellIsEmpty p cell
  assert empty
  let previous_chain ← neighborLoopFast p cell x y 6 0 0
  (if previous_chain ≠ 0 then
      writeByte (Loc.chainsForCells p) cell previous_chain
    else do
      let ch ← ChainSet.MakeOneStoneChain p x y
      writeByte (Loc.chainsForCells p) cell ch)
  let ch ← chain_for_cell p cell
  setModifiedChain p ch
  let row ← readW (Loc.stoneRow p y)
  writeW (Loc.stoneRow p y) (setBit row x)
  let ch ← chain_for_cell p cell
  ChainSet.IsVictory p ch

end PlayerPosition

/-- The fields of a `RingDB` that are not words of memory, after its
constructor. -/
def RingAux.init : RingAux where
  changed_ := false
  numChunks := 1
  seen_two_bridges_ := []
  path_ := []
  bridges_ := []
  blocked_ := fun _ => false
  b_sets_ := fun _ => []
  blocked_bridges_ := fun _ => false
  stones_ := fun _ => 0

/-- The state in which every `PlayerPosition`, `ChainSet` and `RingDB` has
just been constructed and the `Memento` is fresh: the memory is zero but for
the top of each arena and of each table of ring frames, and every `chains_`
holds its `NULL` element only. -/
def State.init : State where
  mem := fun loc =>
    match loc with
    | Loc.arenaTop _ => kInitialArenaTop
    | Loc.ringFramesTop _ => ring_frames_
    | _ => 0
  size := fun _ => 1
  modified_chain_ := fun _ => 0
  ring := fun _ => RingAux.init
  memento := { words_ := [], sizes_ := [] }

/-! ### Specifications of computations -/

/-- Partial correctness: whenever the computation is run in a state that
satisfies `P` and returns, the value and the state afterwards satisfy `Q`. -/
def Holds {α : Type} (P : State → Prop) (x : M α) (Q : α → State → Prop) : Prop :=
  ∀ s a s', P s → x s = Res.ok a s' → Q a s'

/-- The state of a result, or the given state when the run failed. -/
def Res.state {α : Type} (r : Res α) (dflt : State) : State :=
  match r with
  | Res.ok _ s => s
  | Res.fail _ => dflt

/-- Whether a run returned. -/
def Res.isOk {α : Type} (r : Res α) : Bool :=
  match r with
  | Res.ok _ _ => true
  | Res.fail _ => false

/-! ### Memento: the operations of its clients -/

/-- What the client of a `Memento` does between two calls of `UndoAll`:
it remembers a word, writes a word, remembers the size of a `ChainSet`, or
lets a `ChainSet` grow by `MakeOneStoneChain`. -/
inductive MementoOp where
  | remember (loc : Loc)
  | write (loc : Loc) (v : Nat)
  | rememberSize (cs : Nat)
  | makeOneStoneChain (cs x y : Nat)
  deriving DecidableEq, Repr

/-- The computation of one operation. -/
def MementoOp.run : MementoOp → M Unit
  | MementoOp.remember loc => Memento.Remember loc
  | MementoOp.write loc v => writeW loc v
  | MementoOp.rememberSize cs => Memento.RememberSize cs
  | MementoOp.makeOneStoneChain cs x y => do
    let _ ← ChainSet.MakeOneStoneChain cs x y
    pure ()

/-- The computation of a list of operations, one after another. -/
def runOps : List MementoOp → M Unit
  | [] => pure ()
  | op :: ops => do
    op.run
    runOps ops

/-- The operation records nothing in the `Memento`. -/
def MementoOp.unrecorded : MementoOp → Bool
  | MementoOp.write _ _ => true
  | MementoOp.makeOneStoneChain _ _ _ => true
  | _ => false

/-! ### test.cc: the tests of Memento -/

/-- The state of the tests of `Memento` in test.cc: two words with the values
1 and 2, and freshly constructed chain sets. -/
def testState : State := (State.init.write (Loc.word 0) 1).write (Loc.word 1) 2

/-- The operations of the test `Memento_undoes_assignments` after its first
`Remember`, followed by those of `Memento_shrinks_ChainSets`. -/
def testOps : List MementoOp := [
  MementoOp.write (Loc.word 0) 2,
  MementoOp.remember (Loc.word 1), MementoOp.write (Loc.word 1) 3,
  MementoOp.remember (Loc.word 0), MementoOp.write (Loc.word 0) 3,
  MementoOp.rememberSize 0, MementoOp.makeOneStoneChain 0 7 7,
  MementoOp.rememberSize 1, MementoOp.makeOneStoneChain 1 9 9,
  MementoOp.rememberSize 0, MementoOp.makeOneStoneChain 0 8 8]

/-- The operations of the test `Memento_forgets_undone_changes` before its
first `UndoAll`. -/
def forgetOps₁ : List MementoOp := [
  MementoOp.remember (Loc.word 0), MementoOp.rememberSize 0,
  MementoOp.write (Loc.word 0) 2, MementoOp.makeOneStoneChain 0 7 7]

/-- The operations of the test `Memento_forgets_undone_changes` between its
two calls of `UndoAll`. -/
def forgetOps₂ : List MementoOp := [
  MementoOp.write (Loc.word 0) 2, MementoOp.makeOneStoneChain 0 7 7]

/-! ### The chains of a player, seen without the memory around them -/

/-- The element `chains_for_cells_[cell]` of the `PlayerPosition` `p`. -/
def State.cfc (s : State) (p cell : Nat) : Nat :=
  getByte (s.mem (Loc.chainsForCells p (cell / 4))) (cell % 4)

/-- The field `newer_version_` of the chain `ch` of the chain set `p`. -/
def State.newer (s : State) (p ch : Nat) : Nat :=
  getByte (s.mem (Loc.chainNewer p ch)) 0

/-- The chain that the loop of `ChainSet::NewestVersion` ends in after at
most `fuel` steps along `newer_version_`. -/
def newestPure (nv : Nat → Nat) : Nat → Nat → Nat
  | 0, ch => ch
  | fuel + 1, ch => if nv ch ≠ 0 then newestPure nv fuel (nv ch) else ch

/-- What the chain invariants speak about: the size of `chains_`, and for
every chain index its `newer_version_`, the rows of its stone mask and its
`edges_corners_ring_`, and for every cell its `chains_for_cells_`. -/
structure ChainView where
  size : Nat
  newer : Nat → Nat
  cfc : Nat → Nat
  rows : Nat → Nat → Nat
  ecr : Nat → Nat

/-- The chains of the `PlayerPosition` `p` in a state. -/
def State.view (s : State) (p : Nat) : ChainView where
  size := s.size p
  newer := s.newer p
  cfc := s.cfc p
  rows := fun ch y => s.mem (Loc.chainRow p ch y)
  ecr := fun ch => s.mem (Loc.chainEcr p ch)

namespace ChainView

/-- The newest version of a chain. -/
def newest (v : ChainView) (ch : Nat) : Nat := newestPure v.newer v.size ch

/-- The cell lies in the stone mask of the chain: `stone_mask_.get(x, y)`. -/
def inMask (v : ChainView) (ch cell : Nat) : Bool :=
  BoardBitmask.get (v.rows ch) (CellToX cell) (CellToY cell)

/-- The chain is stored in `chains_` and no chain supersedes it. -/
def IsNewest (v : ChainView) (ch : Nat) : Prop :=
  0 < ch ∧ ch < v.size ∧ v.newer ch = 0

/-- The invariant of the chains of a player between two moves. -/
structure Inv (v : ChainView) : Prop where
  size_pos : 1 ≤ v.size
  size_le : v.size ≤ kChainNumLimit
  newer_lt : ∀ ch, 0 < ch → ch < v.size →
    v.newer ch = 0 ∨ (ch < v.newer ch ∧ v.newer ch < v.size)
  cfc_lt : ∀ cell, v.cfc cell < v.size
  mask_iff : ∀ ch, v.IsNewest ch → ∀ cell, cell < kNumCellsWithSentinels →
    (v.inMask ch cell = true ↔ v.cfc cell ≠ 0 ∧ v.newest (v.cfc cell) = ch)
  ecr_lt : ∀ ch, v.IsNewest ch → v.ecr ch < 4096

/-- The invariant inside the loop over the neighbours of the cell of a move:
the new stone is already in the stone mask of `prev`, the chain merged so
far, when that is not 0, but is not yet entered in `chains_for_cells_`. -/
structure LoopInv (v : ChainView) (cell prev : Nat) : Prop where
  size_pos : 1 ≤ v.size
  size_le : v.size ≤ kChainNumLimit
  newer_lt : ∀ ch, 0 < ch → ch < v.size →
    v.newer ch = 0 ∨ (ch < v.newer ch ∧ v.newer ch < v.size)
  cfc_lt : ∀ c, v.cfc c < v.size
  cell_empty : v.cfc cell = 0
  prev_newest : prev = 0 ∨ v.IsNewest prev
  mask_iff : ∀ ch, v.IsNewest ch → ∀ c, c < kNumCellsWithSentinels →
    (v.inMask ch c = true ↔
      (v.cfc c ≠ 0 ∧ v.newest (v.cfc c) = ch) ∨ (c = cell ∧ ch = prev))
  ecr_lt : ∀ ch, v.IsNewest ch → ch ≠ prev → v.ecr ch < 4096
  ecr_prev : v.ecr prev < 16384 ∨ prev = 0

/-- The chains after `Chain::AddStone...` put the stone at (x, y) into the
chain `ch` and ORed `mask` into its `edges_corners_ring_`. -/
def addStone (v : ChainView) (ch x y mask : Nat) : ChainView :=
  { v with
    rows := fun c r => if c = ch ∧ r = y then setBit (v.rows c r) x else v.rows c r
    ecr := fun c => if c = ch then v.ecr c ||| mask else v.ecr c }

/-- The chains after `ChainSet::MergeChains...` merged the different chains
`a` and `b` into a new last chain, with `ring` the ring mask of the stone
for `b`. -/
def merge (v : ChainView) (a b ring : Nat) : ChainView where
  size := v.size + 1
  newer := fun c => if c = v.size then 0 else if c = a ∨ c = b then v.size else v.newer c
  cfc := v.cfc
  rows := fun c r =>
    if c = v.size ∧ r < kBoardHeight then v.rows a r ||| v.rows b r else v.rows c r
  ecr := fun c => if c = v.size then v.ecr a ||| v.ecr b ||| ring else v.ecr c

/-- The chains after `ChainSet::MakeOneStoneChain` made a new last chain of
the stone at (x, y). -/
def single (v : ChainView) (x y : Nat) : ChainView where
  size := v.size + 1
  newer := fun c => if c = v.size then 0 else v.newer c
  cfc := v.cfc
  rows := fun c r =>
    if c = v.size ∧ r < kBoardHeight then (if r = y then setBit 0 x else 0) else v.rows c r
  ecr := fun c => if c = v.size then GetMaskOfEdgesAndCorners (XYToCell x y) else v.ecr c

/-- The chains after `chains_for_cells_[cell] = ch`. -/
def setCfc (v : ChainView) (cell ch : Nat) : ChainView :=
  { v with cfc := fun c => if c = cell then ch else v.cfc c }

/-- The chains after `Chain::IsVictory` cleared the ring bits of `ch`. -/
def clearRing (v : ChainView) (ch : Nat) : ChainView :=
  { v with ecr := fun c =>
      if c = ch then v.ecr c &&& (4294967295 ^^^ (3 <<< 12)) else v.ecr c }

/-- Two views agree on what is stored: the sizes are equal, and so are the
cells and the chains below the size. -/
structure Agree (v w : ChainView) : Prop where
  size_eq : w.size = v.size
  cfc_eq : ∀ c, w.cfc c = v.cfc c
  newer_eq : ∀ ch, ch < v.size → w.newer ch = v.newer ch
  rows_eq : ∀ ch, ch < v.size → ∀ y, w.rows ch y = v.rows ch y
  ecr_eq : ∀ ch, ch < v.size → w.ecr ch = v.ecr ch

end ChainView

/-! ### What `Memento::UndoAll` is to restore -/

/-- The words that are in use in a state: the fields of the chains below the
size of their chain set, the allocated cells of an arena but for the unused
part of the table of ring frames, and all other words. -/
def Live (s₀ : State) : Loc → Prop
  | Loc.chainRow p ch _ => ch < s₀.size p
  | Loc.chainNumStones p ch => ch < s₀.size p
  | Loc.chainEcr p ch => ch < s₀.size p
  | Loc.chainNewer p ch => ch < s₀.size p
  | Loc.arena p i =>
    i < s₀.mem (Loc.arenaTop p) ∧
      ¬ (s₀.mem (Loc.ringFramesTop p) ≤ i ∧ i < ring_frames_ + kMaxNumRingFrames)
  | _ => True

/-- The word is named by an entry of the `Memento`. -/
def Remembered (s : State) (loc : Loc) : Prop := loc ∈ s.memento.words_.map Prod.fst

/-- The chain set is named by an entry of the `Memento` with a size that it
still has or exceeds. -/
def SizeRemembered (s : State) (cs : Nat) : Prop :=
  ∃ e ∈ s.memento.sizes_, e.1 = cs ∧ e.2 ≤ s.size cs

/-- The words outside the arenas of the `RingDB`s. -/
def NotArena (loc : Loc) : Prop := ∀ q i, loc ≠ Loc.arena q i

/-- The word is neither `Arena::top_` nor `RingDB::ring_frames_top_`. -/
def NotTop : Loc → Prop
  | Loc.arenaTop _ => False
  | Loc.ringFramesTop _ => False
  | _ => True

/-- The state `s` with its `Memento` undoes to the state `s₀` on the words
in `L`: `UndoAll` would give every chain set the size it has in `s₀` and
every word of `L` in use in `s₀` the value it has there; and no chain set,
arena or table of ring frames is smaller than in `s₀`. -/
structure Undoes (L : Loc → Prop) (s₀ s : State) : Prop where
  sizes : ∀ cs, undoSizes s.memento.sizes_ s.size cs = s₀.size cs
  size_le : ∀ cs, s₀.size cs ≤ s.size cs
  words : ∀ loc, L loc → Live s₀ loc → undoWords s.memento.words_ s.mem loc = s₀.mem loc
  top_le : ∀ p, s₀.mem (Loc.arenaTop p) ≤ s.mem (Loc.arenaTop p)
  frames_le : ∀ p, s₀.mem (Loc.ringFramesTop p) ≤ s.mem (Loc.ringFramesTop p)

/-- What the methods of `RingDB` that work on the chain graph do to the
rest of the state: from `s` to `s'` the chain sets keep their sizes and the
`Memento` its remembered sizes, the words outside the arenas keep their
values and what `UndoAll` would give them, the `Memento` keeps the words
it has remembered, and the arenas keep their chunks. -/
structure GraphStep (s s' : State) : Prop where
  size_eq : s'.size = s.size
  sizes_eq : s'.memento.sizes_ = s.memento.sizes_
  mem_eq : ∀ loc, NotArena loc → s'.mem loc = s.mem loc
  undo_eq : ∀ loc, NotArena loc →
    undoWords s'.memento.words_ s'.mem loc = undoWords s.memento.words_ s.mem loc
  words_ext : ∃ w, s'.memento.words_ = s.memento.words_ ++ w
  chunks_eq : ∀ q, (s'.ring q).numChunks = (s.ring q).numChunks

/-- Every run of the computation that returns is related by `R`. -/
def Steps {α : Type} (x : M α) (R : State → State → Prop) : Prop :=
  ∀ s a s', x s = Res.ok a s' → R s s'

/-- What `Chain::IsVictory`, which clears the ring bits of a chain without
remembering them, may do to the chain `prev` of the chain set `p`: there is
no such chain, or it is not in use in `s₀`, or its `edges_corners_ring_` is
remembered, or no ring bit is set in it. -/
def EcrSafe (s₀ s : State) (p prev : Nat) : Prop :=
  prev = 0 ∨ s₀.size p ≤ prev ∨ Remembered s (Loc.chainEcr p prev) ∨
    s.mem (Loc.chainEcr p prev) < 4096

/-! ### The reachable states of a PlayerPosition -/

/-- The fresh `Memento`. -/
def Memento.empty : Memento := { words_ := [], sizes_ := [] }

/-- The states that the `PlayerPosition` `p` reaches from its construction
by `MakeMoveFast`, `MakeMoveReversibly` and `Memento::UndoAll` in any order.
The moves are those that return: the asserts of both methods demand an empty
cell on the board. All reversible moves share the one `Memento` of the
state. -/
inductive PlayerReachAny (p : Nat) : State → Prop where
  | init : PlayerReachAny p State.init
  | fast {s s' : State} {cell r : Nat} :
      PlayerReachAny p s →
      PlayerPosition.MakeMoveFast p cell s = Res.ok r s' → PlayerReachAny p s'
  | reversibly {s s' : State} {cell r : Nat} :
      PlayerReachAny p s →
      PlayerPosition.MakeMoveReversibly p cell s = Res.ok r s' → PlayerReachAny p s'
  | undo {s : State} : PlayerReachAny p s → PlayerReachAny p s.undoAll

/-- The states that the `PlayerPosition` `p` reaches when `MakeMoveFast`,
which records nothing, is called only while the `Memento` holds no record:
before the first reversible move, after `UndoAll`, or after the `Memento` has
been given up, as when the position has been copied and the copy is played
on. -/
inductive PlayerReach (p : Nat) : State → Prop where
  | init : PlayerReach p State.init
  | fast {s s' : State} {cell r : Nat} :
      PlayerReach p s → s.memento = Memento.empty →
      PlayerPosition.MakeMoveFast p cell s = Res.ok r s' → PlayerReach p s'
  | reversibly {s s' : State} {cell r : Nat} :
      PlayerReach p s →
      PlayerPosition.MakeMoveReversibly p cell s = Res.ok r s' → PlayerReach p s'
  | undo {s : State} : PlayerReach p s → PlayerReach p s.undoAll
  | forget {s : State} : PlayerReach p s → PlayerReach p { s with memento := Memento.empty }

/-- The links `newer_version_` of the chains below `size` lead upwards. -/
def Upward (nv : Nat → Nat) (size : Nat) : Prop :=
  ∀ ch, 0 < ch → ch < size → nv ch = 0 ∨ (ch < nv ch ∧ nv ch < size)

/-- A relation between states that the methods on the chain graph respect:
it is reflexive and transitive and holds across a write to an arena and
across a change of the fields of a `RingDB` that are not words and not the
number of chunks of its arena. -/
structure GraphClosed (R : State → State → Prop) : Prop where
  refl : ∀ s, R s s
  trans : ∀ s₁ s₂ s₃, R s₁ s₂ → R s₂ s₃ → R s₁ s₃
  write_arena : ∀ s q i v, R s (s.write (Loc.arena q i) v)
  modifyRing : ∀ s p f, (f (s.ring p)).numChunks = (s.ring p).numChunks → R s (s.modifyRing p f)

/-- The `Memento` is the same in both states. -/
def Unrecorded (s s' : State) : Prop := s'.memento = s.memento

/-- What a step of a reversible move does, besides its effect on the
chains: it keeps what `UndoAll` restores and the remembered sizes. -/
structure Kept (L : Loc → Prop) (s₀ : State) (p : Nat) (s : State) : Prop where
  undoes : Undoes L s₀ s
  sizeRem : SizeRemembered s p

/-! ### States for the examples -/

/-- The state after the reversible move at (11, 11) in the initial state. -/
def moveState₁ : State :=
  (PlayerPosition.MakeMoveReversibly 0 (XYToCell 11 11) State.init).state State.init

/-- The state after the fast move at (15, 11) that follows. -/
def moveState₂ : State :=
  (PlayerPosition.MakeMoveFast 0 (XYToCell 15 11) moveState₁).state State.init

/-! ### havannah.h, havannah.cc: the tables of Position used by RingDB -/

/-- The table `Position::kGroupCount`. -/
def kGroupCount : List Nat := [
  0, 1, 1, 1, 1, 1, 2, 1, 1, 2, 1, 1, 2, 2, 2, 1,
  1, 2, 2, 2, 1, 1, 2, 1, 2, 3, 2, 2, 2, 2, 2, 1,
  1, 2, 2, 2, 2, 2, 3, 2, 1, 2, 1, 1, 2, 2, 2, 1,
  1, 2, 2, 2, 1, 1, 2, 1, 1, 2, 1, 1, 1, 1, 1, 0]

/-- The method `Position::CountNeighborGroups`. -/
def CountNeighborGroups (neighborhood : Nat) : Nat := kGroupCount.getD neighborhood 0

/-- The enumerator `kInvalidMove` of `MoveIndex`. -/
def kInvalidMove : Int := -1

/-- The table `Position::kConstCellToMoveIndex`, as filled by
`Position::InitStaticFields`: the cells on the board are numbered in the
order of the two loops, which is the order of the cells, and the other cells
get `kInvalidMove`. `Position::kCellToMoveIndex` starts as a copy of it and
is permuted by `Position::MakePermanentMove`; the methods below take the
table in use as their argument `moveIndex`. -/
def kConstCellToMoveIndex (cell : Nat) : Int :=
  if LiesOnBoard (CellToX cell) (CellToY cell) then
    (((List.range cell).filter fun c => LiesOnBoard (CellToX c) (CellToY c)).length : Nat)
  else kInvalidMove

/-- The method `Position::CellToMoveIndex`, an access to the array
`kCellToMoveIndex`. -/
def Position.CellToMoveIndex (moveIndex : Nat → Int) (cell : Nat) : M Int := do
  inBounds (decide (cell < kNumCellsWithSentinels))
  pure (moveIndex cell)

/-- The sum `ring_frames_through_cells_ + m` of an `unsigned` and a
`MoveIndex`, modulo 2^32. -/
def rftcIndex (m : Int) : Nat := (((ring_frames_through_cells_ : Int) + m) % 4294967296).toNat

/-- The conversion of an `unsigned`, given modulo 2^32, to `int`. -/
def toInt32 (d : Int) : Int := (d + 2147483648) % 4294967296 - 2147483648

/-- The conversion of an `int` to `unsigned`. -/
def toUnsigned (d : Int) : Nat := (d % 4294967296).toNat

/-! ### havannah.h: BoardCounter, for `two_bridge_mask_` -/

namespace BoardCounter

/-- The method `BoardCounter::get`, read. -/
def get (p cell : Nat) : M Nat := do
  inBounds (decide (cell < kNumCellsWithSentinels))
  readByte (Loc.twoBridge p) cell

/-- The statement `memento->Remember(&two_bridge_mask_.get(cell))`. -/
def remember (p cell : Nat) : M Unit := do
  inBounds (decide (cell < kNumCellsWithSentinels))
  Memento.RememberByte (Loc.twoBridge p) cell

/-- The method `BoardCounter::zero`. -/
def zero (p cell : Nat) : M Unit := do
  inBounds (decide (cell < kNumCellsWithSentinels))
  writeByte (Loc.twoBridge p) cell 0

/-- The method `BoardCounter::increment`. -/
def increment (p cell : Nat) : M Unit := do
  inBounds (decide (cell < kNumCellsWithSentinels))
  let v ← readByte (Loc.twoBridge p) cell
  writeByte (Loc.twoBridge p) cell ((v + 1) % 256)
  assert (decide ((v + 1) % 256 ≠ 0))

/-- The method `BoardCounter::decrement`. -/
def decrement (p cell : Nat) : M Unit := do
  inBounds (decide (cell < kNumCellsWithSentinels))
  let v ← readByte (Loc.twoBridge p) cell
  assert (decide (v ≠ 0))
  writeByte (Loc.twoBridge p) cell (v - 1)

end BoardCounter

/-! ### havannah.cc: RingDB, two-bridges and ring frames -/

/-- The set `s` with `x` inserted: a `std::set` is kept as the list of its
elements in increasing order. -/
def setInsert (x : Nat) : List Nat → List Nat
  | [] => [x]
  | y :: ys => if x < y then x :: y :: ys else if x = y then y :: ys else y :: setInsert x ys

/-- The fields after `b_sets_[node].erase(it)`. -/
def RingAux.eraseB (a : RingAux) (node it : Nat) : RingAux :=
  { a with b_sets_ := Function.update a.b_sets_ node ((a.b_sets_ node).erase it) }

/-- The fields after `b_sets_[node].insert(x)`. -/
def RingAux.insertB (a : RingAux) (node x : Nat) : RingAux :=
  { a with b_sets_ := Function.update a.b_sets_ node (setInsert x (a.b_sets_ node)) }

namespace RingDB

/-- The method `RingDB::AddRingFrameIndexToCell`; `ring_frame_index` is an
`int`, which `Arena::set` takes as an `unsigned`. -/
def AddRingFrameIndexToCell (moveIndex : Nat → Int) (p cell : Nat) (ring_frame_index : Int) :
    M Unit := do
  let m ← Position.CellToMoveIndex moveIndex cell
  rememberCell p (rftcIndex m)
  let q ← Arena.Allocate p kRftcSize
  let head ← Arena.get p (rftcIndex m)
  Arena.set p q head
  Arena.set p (q + kRftcRingFrameIndex) (toUnsigned ring_frame_index)
  Arena.set p (rftcIndex m) q

/-- The loop of `RingDB::RemoveOneWayTwoBridgesReversibly`; the conditions
joined by `&&` and `||` are read as far as C++ evaluates them. -/
def removeLoopReversibly (p chain1 cell : Nat) : Nat → Nat → Nat → M Unit
  | 0, _, _ => outOfFuel
  | fuel + 1, prev, curr =>
    if curr = 0 then pure ()
    else do
      let ch ← Arena.get p (curr + kCgChain)
      let hit ← (if ch = chain1 then do
          let c0 ← Arena.get p (curr + kCgCell0)
          if c0 = cell then pure true
          else do
            let c1 ← Arena.get p (curr + kCgCell1)
            pure (decide (c1 = cell))
        else pure false)
      (if hit then do
          rememberCell p prev
          let next ← Arena.get p curr
          Arena.set p prev next
        else pure ())
      let prev := curr
      let curr ← Arena.get p prev
      removeLoopReversibly p chain1 cell fuel prev curr

/-- The method `RingDB::RemoveOneWayTwoBridgesReversibly`. -/
def RemoveOneWayTwoBridgesReversibly (p chain0 chain1 cell : Nat) : M Unit := do
  let fuel ← listFuel p
  let prev := chain_graph_ + chain0
  let curr ← Arena.get p prev
  removeLoopReversibly p chain1 cell fuel prev curr

/-- The loop of `RingDB::RemoveHalfBridgeReversibly` over the ring frames
through a cell. -/
def frameLoopReversibly (p : Nat) : Nat → Nat → M Unit
  | 0, _ => outOfFuel
  | fuel + 1, q =>
    if q = 0 then pure ()
    else do
      let n ← Arena.get p (q + kRftcRingFrameIndex)
      rememberCell p ((ring_frames_ + n) % 4294967296)
      Arena.set p ((ring_frames_ + n) % 4294967296) 0
      let next ← Arena.get p q
      frameLoopReversibly p fuel next

/-- The method `RingDB::RemoveHalfBridgeReversibly`. -/
def RemoveHalfBridgeReversibly (moveIndex : Nat → Int) (p cell chain0 chain1 : Nat) :
    M Unit := do
  assert (decide (chain0 ≠ 0))
  assert (decide (chain1 ≠ 0))
  RemoveOneWayTwoBridgesReversibly p chain0 chain1 cell
  (if chain0 ≠ chain1 then RemoveOneWayTwoBridgesReversibly p chain1 chain0 cell
    else pure ())
  let m ← Position.CellToMoveIndex moveIndex cell
  let fuel ← listFuel p
  let q ← Arena.get p (rftcIndex m)
  frameLoopReversibly p fuel q
  rememberCell p (rftcIndex m)
  Arena.set p (rftcIndex m) 0
  modifyRing p (fun a => { a with changed_ := true })

/-- The rows after `stones_.set(CellToX(cell), CellToY(cell))`. -/
def stonesSet (rows : Nat → Nat) (cell : Nat) : Nat → Nat :=
  fun y => if y = CellToY cell then setBit (rows y) (CellToX cell) else rows y

/-- The loop `for (int i = 1; i < size; ++i)` of `RingDB::VerifyCycle` over
the rest of `path_` and of `bridges_`. -/
def fillLoop (p : Nat) : List Nat → List (Nat × Nat) → (Nat → Nat) → M (Nat → Nat)
  | node :: path, bridge :: bridges, stones => do
    ChainSet.deref p node
    let rows ← readChainRows p node
    let stones := fun y => stones y ||| rows y
    let stones := stonesSet stones bridge.1
    let stones := stonesSet stones bridge.2
    fillLoop p path bridges stones
  | _, _, stones => pure stones

/-- The body of the loop over the rows in the `do ... while (changed)` loop
of `RingDB::VerifyCycle`, for the row `y`: the lowest stone of the row is
removed when its neighbours form one group or none. -/
def peelRow (stones : Nat → Nat) (changed : Bool) (y : Nat) : M ((Nat → Nat) × Bool) := do
  let tmp_mask := stones y
  if tmp_mask ≠ 0 then do
    let xx := CountTrailingZeroes tmp_mask
    assert (BoardBitmask.get stones xx y)
    let neighborhood := BoardBitmask.Get6Neighbors stones xx y
    if CountNeighborGroups neighborhood = 1 then
      pure (fun r => if r = y then clearBit (stones r) xx else stones r, true)
    else if neighborhood = 0 then
      pure (fun r => if r = y then clearBit (stones r) xx else stones r, changed)
    else pure (stones, changed)
  else pure (stones, changed)

/-- The loop `for (YCoord y = kGapAround; y < kPastRows; y = NextY(y))` of
the `do ... while (changed)` loop, over the rows that are left. -/
def peelPass : List Nat → (Nat → Nat) → Bool → M ((Nat → Nat) × Bool)
  | [], stones, changed => pure (stones, changed)
  | y :: ys, stones, changed => do
    let r ← peelRow stones changed y
    peelPass ys r.1 r.2

/-- The rows `kGapAround .. kPastRows - 1`. -/
def boardRows : List Nat := List.range' kGapAround (kPastRows - kGapAround)

/-- The `do ... while (changed)` loop of `RingDB::VerifyCycle`. -/
def peelLoop : Nat → (Nat → Nat) → M (Nat → Nat)
  | 0, _ => outOfFuel
  | fuel + 1, stones => do
    let r ← peelPass boardRows stones false
    if r.2 then peelLoop fuel r.1 else pure r.1

/-- The loop `for (int i = 0; i < size; ++i)` at the end of
`RingDB::VerifyCycle`; `q` is the last cell written. -/
def recordLoop (moveIndex : Nat → Int) (p : Nat) (ring_frame_index : Int) :
    List (Nat × Nat) → Nat → M Unit
  | [], _ => pure ()
  | bridge :: bridges, q => do
    Arena.set p (q + 1) bridge.1
    AddRingFrameIndexToCell moveIndex p bridge.1 ring_frame_index
    Arena.set p (q + 2) bridge.2
    AddRingFrameIndexToCell moveIndex p bridge.2 ring_frame_index
    recordLoop moveIndex p ring_frame_index bridges (q + 2)

/-- The method `RingDB::VerifyCycle`. The `do ... while (changed)` loop
clears a stone in every pass but the last, so that it makes at most one pass
more than the board array has cells. The difference
`ring_frames_top_ - ring_frames_` of two `unsigned` is taken modulo 2^32 and
converted to `int`. -/
def VerifyCycle (moveIndex : Nat → Int) (p : Nat) : M Unit := do
  let aux ← getRing p
  let size := aux.path_.length
  assert (decide (size ≠ 0))
  assert (decide (size = aux.bridges_.length))
  let rejected ← (if size > 2 then
      pure (decide (aux.path_.getD 1 0 > aux.path_.getLastD 0))
    else if size = 2 then do
      assert (decide ((aux.bridges_.getD 0 (0, 0)).1 < (aux.bridges_.getD 0 (0, 0)).2))
      assert (decide ((aux.bridges_.getD 1 (0, 0)).1 < (aux.bridges_.getD 1 (0, 0)).2))
      pure (decide ((aux.bridges_.getD 0 (0, 0)).1 > (aux.bridges_.getD 1 (0, 0)).1))
    else pure false)
  if rejected then pure ()
  else do
    ChainSet.deref p (aux.path_.getD 0 0)
    let rows ← readChainRows p (aux.path_.getD 0 0)
    let stones := stonesSet rows (aux.bridges_.getD 0 (0, 0)).1
    let stones := stonesSet stones (aux.bridges_.getD 0 (0, 0)).2
    let stones ← fillLoop p (aux.path_.drop 1) (aux.bridges_.drop 1) stones
    let stones ← peelLoop (kNumCellsWithSentinels + 1) stones
    modifyRing p (fun a => { a with stones_ := stones })
    let all := boardRows.foldl (fun acc y => acc ||| stones y) 0
    if all = 0 then pure ()
    else do
      let top ← readW (Loc.ringFramesTop p)
      let ring_frame_index := toInt32 ((top : Int) - (ring_frames_ : Int))
      assert (decide (ring_frame_index < (kMaxNumRingFrames : Int)))
      Memento.Remember (Loc.ringFramesTop p)
      Memento.Remember (Loc.arenaTop p)
      let q ← Arena.Allocate p (2 * size + 1)
      Arena.set p top q
      writeW (Loc.ringFramesTop p) ((top + 1) % 4294967296)
      Arena.set p q size
      recordLoop moveIndex p ring_frame_index aux.bridges_ q

/-- Reads `blocked_bridges_[m]`; the array has `kNumMovesOnBoard`
elements. -/
def blockedBridge (p : Nat) (m : Int) : M Bool := do
  inBounds (decide (0 ≤ m ∧ m < kNumMovesOnBoard))
  let aux ← getRing p
  pure (aux.blocked_bridges_ m.toNat)

/-- Writes `blocked_bridges_[m]`. -/
def setBlockedBridge (p : Nat) (m : Int) (b : Bool) : M Unit := do
  inBounds (decide (0 ≤ m ∧ m < kNumMovesOnBoard))
  modifyRing p (fun a =>
    { a with blocked_bridges_ := Function.update a.blocked_bridges_ m.toNat b })

/-- The loop of `RingDB::Unblock` over `this_b_set`; `recur` is `Unblock`.
The calls of `Unblock` inside the loop leave `this_b_set` alone: they return
at once for `this_node`, which is no longer blocked, and otherwise erase
from the sets of other nodes. -/
def unblockLoop (p this_node : Nat) (recur : Nat → M Unit) : List Nat → M Unit
  | [] => pure ()
  | it :: rest => do
    recur it
    modifyRing p (fun a => a.eraseB this_node it)
    unblockLoop p this_node recur rest

/-- The method `RingDB::Unblock`, with a bound on the depth of its
recursion: every call that goes on unblocks a blocked node, of which there
are at most `kChainNumLimit`. -/
def Unblock (p : Nat) : Nat → Nat → M Unit
  | 0, _ => outOfFuel
  | depth + 1, this_node => do
    let aux ← getRing p
    if aux.blocked_ this_node then do
      modifyRing p (fun a => { a with blocked_ := Function.update a.blocked_ this_node false })
      unblockLoop p this_node (fun n => Unblock p depth n) (aux.b_sets_ this_node)
    else pure ()

/-- The first loop of `RingDB::FindCycles`, over the two-bridges of
`this_node`; `recur` is `FindCycles` and `q` the record at hand. -/
def cyclesLoop (moveIndex : Nat → Int) (p start_node : Nat) (recur : Nat → M Bool) :
    Nat → Nat → Bool → M Bool
  | 0, _, _ => outOfFuel
  | fuel + 1, q, closed =>
    if q = 0 then pure closed
    else do
      let ch ← Arena.get p (q + kCgChain)
      let next_node := ch % kChainNumLimit
      let c0 ← Arena.get p (q + kCgCell0)
      let c1 ← Arena.get p (q + kCgCell1)
      let m0 ← Position.CellToMoveIndex moveIndex c0
      let m1 ← Position.CellToMoveIndex moveIndex c1
      let b0 ← blockedBridge p m0
      let skip ← (if b0 then pure true else blockedBridge p m1)
      let closed ← (if skip then pure closed
        else do
          setBlockedBridge p m1 true
          setBlockedBridge p m0 true
          modifyRing p (fun a => { a with bridges_ := a.bridges_ ++ [(c0, c1)] })
          let closed ← (if next_node = start_node then do
              VerifyCycle moveIndex p
              pure true
            else do
              let aux ← getRing p
              if !aux.blocked_ next_node then do
                let r ← recur next_node
                pure (closed || r)
              else pure closed)
          modifyRing p (fun a => { a with bridges_ := a.bridges_.dropLast })
          setBlockedBridge p m1 false
          setBlockedBridge p m0 false
          pure closed)
      let next ← Arena.get p q
      cyclesLoop moveIndex p start_node recur fuel next closed

/-- The second loop of `RingDB::FindCycles`, over the two-bridges of
`this_node`. -/
def bSetsLoop (p this_node : Nat) : Nat → Nat → M Unit
  | 0, _ => outOfFuel
  | fuel + 1, q =>
    if q = 0 then pure ()
    else do
      let ch ← Arena.get p (q + kCgChain)
      let next_node := ch % kChainNumLimit
      modifyRing p (fun a => a.insertB next_node this_node)
      let next ← Arena.get p q
      bSetsLoop p this_node fuel next

/-- The method `RingDB::FindCycles`, with a bound on the depth of its
recursion: the nodes of `path_` are blocked and differ from each other, and
there are at most `kChainNumLimit` of them. -/
def FindCycles (moveIndex : Nat → Int) (p start_node : Nat) : Nat → Nat → M Bool
  | 0, _ => outOfFuel
  | depth + 1, this_node => do
    modifyRing p (fun a =>
      { a with
        path_ := a.path_ ++ [this_node]
        blocked_ := Function.update a.blocked_ this_node true })
    let fuel ← listFuel p
    let q ← Arena.get p (chain_graph_ + this_node)
    let closed ← cyclesLoop moveIndex p start_node
      (fun n => FindCycles moveIndex p start_node depth n) fuel q false
    (if closed then Unblock p (kChainNumLimit + 1) this_node
      else do
        let fuel ← listFuel p
        let q ← Arena.get p (chain_graph_ + this_node)
        bSetsLoop p this_node fuel q)
    modifyRing p (fun a => { a with path_ := a.path_.dropLast })
    pure closed

/-- The method `RingDB::FindNewCyclesReversibly`; the `ChainSet` it is
given is the one of the same `PlayerPosition`. -/
def FindNewCyclesReversibly (moveIndex : Nat → Int) (p modified_chain : Nat) : M Unit := do
  let aux ← getRing p
  if aux.changed_ then do
    assert (decide (aux.path_ = []))
    assert (decide (aux.bridges_ = []))
    modifyRing p (fun a => { a with b_sets_ := fun _ => [], blocked_ := fun _ => false })
    let _ ← FindCycles moveIndex p modified_chain (kChainNumLimit + 1) modified_chain
    modifyRing p (fun a => { a with changed_ := false })
  else pure ()

end RingDB

/-! ### havannah.cc: PlayerPosition, two-bridges -/

namespace PlayerPosition

/-- The macro `SET_CELL(acell, a, b)` of
`PlayerPosition::CreateTwoBridgesAfterOurMoveReversibly`; `q` is the
opponent. -/
def setCellReversibly (p q cell acell : Nat) (a b : Int) : M Unit := do
  let bcell := OffsetCell cell b
  let e1 ← CellIsEmpty p bcell
  let go ← (if e1 then do
      let e2 ← CellIsEmpty q bcell
      if e2 then do
        let e3 ← CellIsEmpty p (OffsetCell cell (a + b))
        pure (!e3)
      else pure false
    else pure false)
  if go then do
    BoardCounter.remember p acell
    BoardCounter.remember p bcell
    BoardCounter.increment p acell
    BoardCounter.increment p bcell
    let chain0 ← NewestChainForCell p cell
    let chain1 ← NewestChainForCell p (OffsetCell cell (a + b))
    RingDB.AddTwoBridgeReversibly p acell bcell chain0 chain1
  else pure ()

/-- One of the three blocks of
`PlayerPosition::CreateTwoBridgesAfterOurMoveReversibly`: the cell at the
offset `a` and the two uses of `SET_CELL` for it. -/
def setCellsReversibly (p q cell : Nat) (a b₁ b₂ : Int) : M Unit := do
  let acell := OffsetCell cell a
  let e1 ← CellIsEmpty p acell
  let go ← (if e1 then CellIsEmpty q acell else pure false)
  if go then do
    setCellReversibly p q cell acell a b₁
    setCellReversibly p q cell acell a b₂
  else pure ()

/-- The method `PlayerPosition::CreateTwoBridgesAfterOurMoveReversibly`;
`q` is the opponent. -/
def CreateTwoBridgesAfterOurMoveReversibly (p q cell : Nat) : M Unit := do
  let e ← CellIsEmpty p cell
  assert (!e)
  setCellsReversibly p q cell (-31) (-32) 1
  setCellsReversibly p q cell 32 1 31
  setCellsReversibly p q cell (-1) (-32) 31

/-- The macro `ZERO_CELL(a, b, c)` of
`PlayerPosition::RemoveTwoBridgesBeforeOurMoveOrAfterFoeMoveReversibly`. -/
def zeroCellReversibly (moveIndex : Nat → Int) (p cell : Nat) (a b c : Int) : M Unit := do
  let chain0 ← NewestChainForCell p (OffsetCell cell a)
  let chain1 ← NewestChainForCell p (OffsetCell cell b)
  RingDB.RemoveHalfBridgeReversibly moveIndex p cell chain0 chain1
  let ccell := OffsetCell cell c
  let v ← BoardCounter.get p ccell
  if v ≠ 0 then do
    BoardCounter.remember p ccell
    BoardCounter.decrement p ccell
    let v ← BoardCounter.get p ccell
    if v = 0 then do
      let chain0 ← NewestChainForCell p (OffsetCell cell a)
      let chain1 ← NewestChainForCell p (OffsetCell cell b)
      RingDB.RemoveHalfBridgeReversibly moveIndex p ccell chain0 chain1
    else pure ()
  else pure ()

/-- The statement `if (!CellIsEmpty(OffsetCell(cell, a))) body`. -/
def unlessEmpty (p cell : Nat) (a : Int) (body : M Unit) : M Unit := do
  let e ← CellIsEmpty p (OffsetCell cell a)
  if !e then body else pure ()

/-- The statement
`if (!CellIsEmpty(OffsetCell(cell, a)) && !CellIsEmpty(OffsetCell(cell, b))) body`. -/
def unlessEmpty₂ (p cell : Nat) (a b : Int) (body : M Unit) : M Unit := do
  let e ← CellIsEmpty p (OffsetCell cell a)
  if !e then unlessEmpty p cell b body else pure ()

/-- The method
`PlayerPosition::RemoveTwoBridgesBeforeOurMoveOrAfterFoeMoveReversibly`. -/
def RemoveTwoBridgesBeforeOurMoveOrAfterFoeMoveReversibly (moveIndex : Nat → Int)
    (p cell : Nat) : M Unit := do
  let e ← CellIsEmpty p cell
  assert e
  let v ← BoardCounter.get p cell
  if v ≠ 0 then do
    BoardCounter.remember p cell
    BoardCounter.zero p cell
    unlessEmpty p cell (-31) (do
      unlessEmpty p cell (-1) (zeroCellReversibly moveIndex p cell (-31) (-1) (-32))
      unlessEmpty p cell 32 (zeroCellReversibly moveIndex p cell (-31) 32 1))
    unlessEmpty p cell 1 (do
      unlessEmpty p cell (-32) (zeroCellReversibly moveIndex p cell 1 (-32) (-31))
      unlessEmpty p cell 31 (zeroCellReversibly moveIndex p cell 1 31 32))
    unlessEmpty₂ p cell (-32) 31 (zeroCellReversibly moveIndex p cell (-32) 31 (-1))
    unlessEmpty₂ p cell (-1) 32 (zeroCellReversibly moveIndex p cell (-1) 32 31)
  else pure ()

/-- The method `PlayerPosition::FindNewRingFramesReversibly`. -/
def FindNewRingFramesReversibly (moveIndex : Nat → Int) (p : Nat) : M Unit :=
  fun s => RingDB.FindNewCyclesReversibly moveIndex p (s.modified_chain_ p) s

end PlayerPosition

/-! ### havannah.h, havannah.cc: Position

The field `is_initialized_` is true: the position has been set up by
`InitToStartPosition` or `CopyFrom`. -/

namespace Position

/-- The method `Position::CellIsEmpty`. -/
def CellIsEmpty (cell : Nat) : M Bool := do
  inBounds (decide (cell < kNumCellsWithSentinels))
  let c ← readByte Loc.cells cell
  pure (decide (c &&& 3 = 0))

/-- The method `Position::MakeMoveReversibly`. -/
def MakeMoveReversibly (moveIndex : Nat → Int) (player : Player) (cell : Nat) : M Nat := do
  let e ← CellIsEmpty cell
  assert e
  Memento.RememberByte Loc.cells cell
  writeByte Loc.cells cell (player.toNat + 1)
  let our := player.toNat
  let foe := (Opponent player).toNat
  PlayerPosition.RemoveTwoBridgesBeforeOurMoveOrAfterFoeMoveReversibly moveIndex our cell
  let result ← PlayerPosition.MakeMoveReversibly our cell
  PlayerPosition.CreateTwoBridgesAfterOurMoveReversibly our foe cell
  PlayerPosition.FindNewRingFramesReversibly moveIndex our
  PlayerPosition.RemoveTwoBridgesBeforeOurMoveOrAfterFoeMoveReversibly moveIndex foe cell
  pure result

/-- The method `Position::MakeMoveFast`. -/
def MakeMoveFast (player : Player) (cell : Nat) : M Nat := do
  let e ← CellIsEmpty cell
  assert e
  writeByte Loc.cells cell (player.toNat + 1)
  PlayerPosition.MakeMoveFast player.toNat cell

/-- The moves of a list, made one after another by
`Position::MakeMoveReversibly` with the one `Memento`. -/
def makeMovesReversibly (moveIndex : Nat → Int) : List (Player × Nat) → M Unit
  | [] => pure ()
  | move :: moves => do
    let _ ← MakeMoveReversibly moveIndex move.1 move.2
    makeMovesReversibly moveIndex moves

end Position

/-- The word `w` of `cells_` after `Position::InitToStartPosition`: the
cells on the board are 0 and the others 3. -/
def startCells (w : Nat) : Nat :=
  (List.range 4).foldl (fun acc k =>
    acc + (if LiesOnBoard (CellToX (4 * w + k)) (CellToY (4 * w + k)) then 0 else 3) * 256 ^ k) 0

/-- The state after the construction of a `Position` and
`Position::InitToStartPosition`. -/
def State.start : State :=
  { State.init with
    mem := fun loc =>
      match loc with
      | Loc.cells w => if w < kNumCellsWithSentinels / 4 then startCells w else 0
      | _ => State.init.mem loc }

/-! ### What a reversible move of a Position keeps -/

/-- All words. -/
def Everywhere : Loc → Prop := fun _ => True

/-- The top of the arena lies inside the chunks that the arena has. -/
def ArenaOk (s : State) (p : Nat) : Prop :=
  s.mem (Loc.arenaTop p) ≤ (s.ring p).numChunks * kCellsInChunk

/-- The top of the table of ring frames lies inside the table. -/
def RingOk (s : State) (p : Nat) : Prop :=
  ring_frames_ ≤ s.mem (Loc.ringFramesTop p) ∧
    s.mem (Loc.ringFramesTop p) ≤ ring_frames_ + kMaxNumRingFrames

/-- The words that the view of the chains reads. -/
def InView : Loc → Prop
  | Loc.chainsForCells _ _ => True
  | Loc.chainRow _ _ _ => True
  | Loc.chainEcr _ _ => True
  | Loc.chainNewer _ _ => True
  | _ => False

/-- The words of the chains and of the board masks of the player `p`. -/
def ChainOf (p : Nat) : Loc → Prop
  | Loc.chainsForCells q _ => q = p
  | Loc.stoneRow q _ => q = p
  | Loc.chainRow q _ _ => q = p
  | Loc.chainNumStones q _ => q = p
  | Loc.chainEcr q _ => q = p
  | Loc.chainNewer q _ => q = p
  | _ => False

/-- The state `s` with its `Memento` undoes to `s₀` on all words, and the
`Memento` has remembered the words of `W`. -/
structure Restorable (s₀ : State) (W : Loc → Prop) (s : State) : Prop where
  undoes : Undoes Everywhere s₀ s
  rem : ∀ loc, W loc → Remembered s loc

/-- The state `s` is restorable to `s₀`, the tops of its arenas lie inside
their chunks and those of its tables of ring frames inside the tables, and
its chains are those of `V`. -/
structure Safe (s₀ : State) (W : Loc → Prop) (V : Nat → ChainView) (s : State) : Prop where
  restorable : Restorable s₀ W s
  arena : ∀ p, ArenaOk s p
  ring : ∀ p, RingOk s p
  view : ∀ p, s.view p = V p

/-- The computation leaves the state as it is. -/
def ReadOnly {α : Type} (x : M α) : Prop := Steps x (fun s s' => s' = s)

/-- What the methods of the `PlayerPosition` `p` that work on its chains do
to the rest of the state: the other chain sets keep their sizes, the words
outside the chains of `p` and the arenas keep their values, and the arenas
keep their chunks. -/
structure ChainFrame (p : Nat) (s s' : State) : Prop where
  size_eq : ∀ q, q ≠ p → s'.size q = s.size q
  mem_eq : ∀ loc, ¬ ChainOf p loc → NotArena loc → s'.mem loc = s.mem loc
  chunks_eq : ∀ q, (s'.ring q).numChunks = (s.ring q).numChunks

/-- The state of a `Position` is well formed: the chains of every player
satisfy their invariant, the tops of the arenas lie inside their chunks and
the tops of the tables of ring frames inside the tables. -/
structure WellFormed (s : State) : Prop where
  inv : ∀ p, (s.view p).Inv
  arena : ∀ p, ArenaOk s p
  ring : ∀ p, RingOk s p

/-- The state `s` is well formed and restorable to `s₀`. -/
structure PosSafe (s₀ s : State) : Prop where
  undoes : Undoes Everywhere s₀ s
  wf : WellFormed s

/-! ### The reachable states of a Position -/

/-- White plays (11, 11) and (12, 12), which makes a two-bridge through
(12, 11) and (11, 12); Black intrudes at (12, 11). -/
def roundTripMoves : List (Player × Nat) :=
  [(Player.kWhite, XYToCell 11 11), (Player.kWhite, XYToCell 12 12),
    (Player.kBlack, XYToCell 12 11)]

/-- The state after the moves of `roundTripMoves` in the start position. -/
def roundTripState : State :=
  (Position.makeMovesReversibly kConstCellToMoveIndex roundTripMoves State.start).state
    State.start

/-! ### havannah.h, havannah.cc: would a move win? -/

/-- The table `Position::kGroupCountWithPossibleBenzeneRings`. -/
def kGroupCountWithPossibleBenzeneRings : List Nat := [
  0, 1, 1, 1, 1, 1, 2, 9, 1, 2, 1, 9, 2, 2, 2, 9,
  1, 2, 2, 2, 1, 9, 2, 9, 2, 3, 2, 9, 2, 9, 2, 9,
  1, 2, 2, 2, 2, 2, 3, 9, 1, 2, 9, 9, 2, 2, 9, 9,
  1, 2, 2, 2, 9, 9, 9, 9, 9, 9, 9, 9, 9, 9, 9, 0]

/-- The method `Position::CountNeighborGroupsWithPossibleBenzeneRings`, an
access to an array of 64 elements with an `int` index. -/
def CountNeighborGroupsWithPossibleBenzeneRings (neighborhood : Int) : M Nat := do
  inBounds (decide (0 ≤ neighborhood ∧ neighborhood < 64))
  pure (kGroupCountWithPossibleBenzeneRings.getD neighborhood.toNat 0)

/-- Reads the rows of `PlayerPosition::stone_mask_`. -/
def readStoneRows (p : Nat) : M (Nat → Nat) :=
  fun s => Res.ok (fun y => s.mem (Loc.stoneRow p y)) s

namespace PlayerPosition

/-- The method `PlayerPosition::Get6Neighbors`; the rows `y - 1 .. y + 1`
have to exist and the shift `x - 1` must not be negative. -/
def Get6Neighbors (p cell : Nat) : M Nat := do
  let x := CellToX cell
  let y := CellToY cell
  inBounds (decide (1 ≤ x ∧ 1 ≤ y ∧ y + 1 < kBoardHeight))
  let rows ← readStoneRows p
  pure (BoardBitmask.Get6Neighbors rows x y)

/-- The method `PlayerPosition::Get18Neighbors`; the rows `y - 2 .. y + 2`
have to exist and the shift `x - 2` must not be negative. -/
def Get18Neighbors (p cell : Nat) : M Nat := do
  let x := CellToX cell
  let y := CellToY cell
  inBounds (decide (2 ≤ x ∧ 2 ≤ y ∧ y + 2 < kBoardHeight))
  let rows ← readStoneRows p
  let neighborhood := (rows (PrevY (PrevY y)) >>> x) &&& 7
  let neighborhood := (neighborhood <<< 4) ||| ((rows (PrevY y) >>> (x - 1)) &&& 15)
  let curr_line := rows y
  let neighborhood := (neighborhood <<< 2) ||| ((curr_line >>> (x + 1)) &&& 3)
  let neighborhood := (neighborhood <<< 2) ||| ((curr_line >>> (x - 2)) &&& 3)
  let neighborhood := (neighborhood <<< 4) ||| ((rows (NextY y) >>> (x - 2)) &&& 15)
  let neighborhood := (neighborhood <<< 3) ||| ((rows (NextY (NextY y)) >>> (x - 2)) &&& 7)
  pure neighborhood

/-- The start of `MoveWouldCloseForkOrBridge` and of
`MoveWouldCloseForkBridgeOrRing`: the mask of the injected chain is ORed
in. -/
def injectChain (p edges_corners injected_chain : Nat) : M Nat :=
  if injected_chain ≠ 0 then do
    let e ← ChainSet.edges_corners_ring p injected_chain
    pure (edges_corners ||| e)
  else pure edges_corners

/-- The loop `for (int i = 0; i < 6; ++i)` of
`PlayerPosition::MoveWouldCloseForkOrBridge`, from `i` on for `n` more
neighbours; it returns the last value of `edges_corners`. -/
def forkOrBridgeLoop (p cell : Nat) : Nat → Nat → Nat → M Nat
  | 0, _, edges_corners => pure edges_corners
  | n + 1, i, edges_corners => do
    let chain ← chain_for_cell p (NthNeighbor cell i)
    if chain ≠ 0 then do
      let chain ← ChainSet.NewestVersion p chain
      let e ← ChainSet.edges_corners_ring p chain
      forkOrBridgeLoop p cell n (i + 1) (edges_corners ||| e)
    else forkOrBridgeLoop p cell n (i + 1) edges_corners

/-- The method `PlayerPosition::MoveWouldCloseForkOrBridge`. -/
def MoveWouldCloseForkOrBridge (p cell edges_corners injected_chain : Nat) : M Bool := do
  assert (decide (edges_corners = GetMaskOfEdgesAndCorners cell))
  let edges_corners ← injectChain p edges_corners injected_chain
  let edges_corners ← forkOrBridgeLoop p cell 6 0 edges_corners
  pure (decide (CountSetBits edges_corners ≥ 3 ∨ CountSetBits (edges_corners >>> 6) ≥ 2))

/-- The loop `for (int i = 0; i < 6; ++i)` of
`PlayerPosition::MoveWouldCloseForkBridgeOrRing`; it returns `none` when the
method returns `true` from inside the loop, and otherwise the last value of
`edges_corners`. -/
def forkBridgeOrRingLoop (p cell x y : Nat) : Nat → Nat → Nat → M (Option Nat)
  | 0, _, edges_corners => pure (some edges_corners)
  | n + 1, i, edges_corners => do
    let chain ← chain_for_cell p (NthNeighbor cell i)
    if chain ≠ 0 then do
      let chain ← ChainSet.NewestVersion p chain
      ChainSet.deref p chain
      let ring ← Chain.ClosesAnyRing p chain x y
      if ring ≠ 0 then pure none
      else do
        let e ← ChainSet.edges_corners_ring p chain
        forkBridgeOrRingLoop p cell x y n (i + 1) (edges_corners ||| e)
    else forkBridgeOrRingLoop p cell x y n (i + 1) edges_corners

/-- The method `PlayerPosition::MoveWouldCloseForkBridgeOrRing`. -/
def MoveWouldCloseForkBridgeOrRing (p cell edges_corners injected_chain : Nat) : M Bool := do
  assert (decide (edges_corners = GetMaskOfEdgesAndCorners cell))
  let edges_corners ← (if injected_chain ≠ 0 then do
      let injected_chain ← ChainSet.NewestVersion p injected_chain
      let e ← ChainSet.edges_corners_ring p injected_chain
      pure (edges_corners ||| e)
    else pure edges_corners)
  let r ← forkBridgeOrRingLoop p cell (CellToX cell) (CellToY cell) 6 0 edges_corners
  match r with
  | none => pure true
  | some edges_corners =>
    pure (decide (CountSetBits edges_corners ≥ 3 ∨ CountSetBits (edges_corners >>> 6) ≥ 2))

/-- The function `AddChain` of havannah.cc, on the first
`num_neighbor_chains` elements of `chain_set`, an array of 16 elements. -/
def AddChain (chain : Nat) (chain_set : List Nat) : M (List Nat) := do
  assert (decide (chain ≠ 0))
  if chain ∈ chain_set then pure chain_set
  else do
    inBounds (decide (chain_set.length < 16))
    pure (chain_set ++ [chain])

/-- The first loop of `PlayerPosition::GetSizeOfNeighborChains`. -/
def neighborChainsLoop (p cell : Nat) : Nat → Nat → List Nat → M (List Nat)
  | 0, _, chain_set => pure chain_set
  | n + 1, i, chain_set => do
    let chain ← chain_for_cell p (NthNeighbor cell i)
    if chain ≠ 0 then do
      let chain ← ChainSet.NewestVersion p chain
      let chain_set ← AddChain chain chain_set
      neighborChainsLoop p cell n (i + 1) chain_set
    else neighborChainsLoop p cell n (i + 1) chain_set

/-- The second loop of `PlayerPosition::GetSizeOfNeighborChains`. -/
def sumSizesLoop (p : Nat) : List Nat → Int → M Int
  | [], size_of_neighbor_chains => pure size_of_neighbor_chains
  | chain :: rest, size_of_neighbor_chains => do
    assert (decide (chain ≠ 0))
    ChainSet.deref p chain
    let n ← readW (Loc.chainNumStones p chain)
    sumSizesLoop p rest (wrapInt32 (size_of_neighbor_chains + n))

/-- The method `PlayerPosition::GetSizeOfNeighborChains`. -/
def GetSizeOfNeighborChains (p cell : Nat) (num_neighbors : Int) : M Int := do
  assert (decide (Int.tmod num_neighbors 6 = 0))
  assert (decide (num_neighbors ≥ 0))
  assert (decide (num_neighbors ≤ 18))
  let chain_set ← neighborChainsLoop p cell num_neighbors.toNat 0 []
  sumSizesLoop p chain_set 0

end PlayerPosition

namespace Position

/-- The method `Position::Get6Neighbors`. -/
def Get6Neighbors (player : Player) (cell : Nat) : M Nat :=
  PlayerPosition.Get6Neighbors player.toNat cell

/-- The method `Position::MoveIsWinning`. -/
def MoveIsWinning (player : Player) (cell : Nat) (neighborhood : Int)
    (injected_chain : Nat) : M Bool := do
  assert (LiesOnBoard (CellToX cell) (CellToY cell))
  let edges_corners := GetMaskOfEdgesAndCorners cell
  let neighbor_groups ← CountNeighborGroupsWithPossibleBenzeneRings neighborhood
  let pp := player.toNat
  let closes ← (if neighbor_groups ≥ 2 then
      PlayerPosition.MoveWouldCloseForkBridgeOrRing pp cell edges_corners injected_chain
    else pure false)
  if closes then pure true
  else do
    let closes ← (if neighbor_groups = 1 ∧ edges_corners ≠ 0 then
        PlayerPosition.MoveWouldCloseForkOrBridge pp cell edges_corners injected_chain
      else pure false)
    if closes then pure true else pure false

end Position

/-! ### rng.h: Rng -/

namespace Rng

/-- The method `Rng::XorShift` on the 32-bit `seed_`: the new seed, which is
also the value returned. -/
def XorShift (seed_ : Nat) : Nat :=
  let tmp := seed_
  let tmp := tmp ^^^ ((tmp <<< 13) % 4294967296)
  let tmp := tmp ^^^ (tmp >>> 17)
  let tmp := tmp ^^^ ((tmp <<< 5) % 4294967296)
  tmp

/-- The method `Rng::operator()`: the value, an `int`, and the new seed.
The argument is converted to `unsigned long long`. -/
def call (seed_ : Nat) (n : Int) : Int × Nat :=
  let t := XorShift seed_
  (toInt32 (((t * (n % 18446744073709551616).toNat) % 18446744073709551616) >>> 32 : Nat), t)

end Rng

/-! ### options.h, mcts.cc: the floating-point numbers of the search

The values of type `float` are those of a type `F` that is a parameter of
the embedding, with the operations that the embedded code applies to
them. -/

/-- The operations on `float` that the embedded code uses. -/
structure FloatOps (F : Type) where
  /-- The conversion of an `int` to `float`. -/
  ofInt : Int → F
  /-- The sum of two `float`s. -/
  add : F → F → F
  /-- The product of two `float`s. -/
  mul : F → F → F
  /-- The test `x != 0.0`. -/
  nonzero : F → Bool
  /-- The conversion of a `float` to `int`. -/
  toInt : F → Int
  /-- The conversion of a `float` to `short`. -/
  toShort : F → Int

/-- The struct `MctsOptions` of options.h. -/
structure MctsOptions (F : Type) where
  exploration_factor : F
  rave_bias : F
  first_play_urgency : F
  tricky_epsilon : F
  locality_bias : F
  chain_size_bias_factor : F
  expand_after_n_playouts : Int
  play_n_playouts_at_once : Int
  exploration_strategy : Int
  rave_update_depth : Int
  prior_num_simulations_base : Int
  prior_num_simulations_range : Int
  prior_reward_halfrange : Int
  neighborhood_size : Int
  use_rave_randomization : Bool
  use_mate_in_tree : Bool
  use_antimate_in_tree : Bool
  use_deeper_mate_in_tree : Bool
  use_virtual_loss : Bool
  use_solver : Bool

/-! ### mcts.cc: more of MctsNode -/

/-- The function `VictoryToPlies` of mcts.cc. -/
def VictoryToPlies (result : Int) : Int := Int.tdiv (wrapInt32 (INT_MAX - result)) 0x100

/-- The function `DefeatToPlies` of mcts.cc. -/
def DefeatToPlies (result : Int) : Int := Int.tdiv (wrapInt32 (INT_MAX + result)) 0x100

/-- The function `IsZero` of mcts.cc. -/
def IsZero (number : Int) : Bool := decide (number = 0)

/-- The conversion of an `int` to `short`. -/
def toInt16 (z : Int) : Int := (z + 32768) % 65536 - 32768

/-- The constant `kRootHash` of mcts.cc. -/
def kRootHash : Nat := 0

/-- The constant `kAndTo12Neighbors` of base.h. -/
def kAndTo12Neighbors : Nat := 0x17b7a

namespace MctsNode

/-- The method `MctsNode::UpdateRave`; `none` when an `assert` fails. -/
def UpdateRave (node : MctsNode) (rave_reward_increment rave_num_simulations_increment : Int) :
    Option MctsNode :=
  if ResultIsForced rave_reward_increment then none
  else
    let rave_reward_ := AtomicIncrement node.rave_reward_ rave_reward_increment
    if rave_reward_ = INT_MIN ∨ rave_reward_ = INT_MAX then none
    else
      let rave_num_simulations_ :=
        AtomicIncrement node.rave_num_simulations_ rave_num_simulations_increment
      if rave_num_simulations_ > 0 then
        some { node with
          rave_reward_ := rave_reward_
          rave_num_simulations_ := rave_num_simulations_ }
      else none

/-- The method `MctsNode::set_visits_to_go`. -/
def set_visits_to_go (node : MctsNode) (n : Int) : MctsNode := { node with visits_to_go_ := n }

/-- The method `MctsNode::decrement_visits_to_go_if_nonzero`: whether the
counter was decremented, and the node afterwards. -/
def decrement_visits_to_go_if_nonzero (node : MctsNode) : Bool × MctsNode :=
  let r := AtomicIncrementIfFalse node.visits_to_go_ (-1) IsZero
  (r.1, { node with visits_to_go_ := r.2 })

/-- The method `MctsNode::kid_to_visit`. -/
def kid_to_visit (node : MctsNode) : Int := node.kid_to_visit_

/-- The method `MctsNode::set_kid_to_visit`; the field is a `short`. -/
def set_kid_to_visit (node : MctsNode) (move : Int) : MctsNode :=
  { node with kid_to_visit_ := toInt16 move }

/-- The method `MctsNode::set_bias`: `bias_ = n * 256.0f`, a `short`. -/
def set_bias {F : Type} (fl : FloatOps F) (node : MctsNode) (n : F) : MctsNode :=
  { node with bias_ := fl.toShort (fl.mul n (fl.ofInt 256)) }

end MctsNode

/-! ### mcts.cc: the state of a search

An `MctsNode*` is the index of a slot of the hash map, or `none` for
`NULL`. `MctsEngine::position_`, to which `TranspositionTable::position_`
points during `ExpandNode`, carries `MctsEngine::memento_` as the `Memento`
of its state; `TranspositionTable::memento_` is a field of its own. The
`Rng` of the `Playout` is the one of the `TranspositionTable`. -/

/-- The fields of `MctsEngine` and of its `TranspositionTable` that change
during a search; `R` is the type of the state of the `Playout`. -/
structure Search (R : Type) where
  nodes_ : WaitFreeHashMap
  seed_ : Nat
  position_ : State
  memento_ : Memento
  winning_kids_ : List Nat
  winning_move_count_ : Int
  moves_ : List Nat
  empty_cell_count_at_bottom_ : Int
  rave_ : Nat → Nat → Int
  playout_ : R

/-- What `ArgMax` hands back: the kid, and the values of `*kid_index`,
`*kid_position_hash` and `*has_forced_result` after the call. -/
structure Selection where
  kid : Option Nat
  kid_index : Int
  kid_position_hash : Nat
  has_forced_result : Bool

/-- What `Playout::Play` hands back: its result, `*num_moves`, the array
`rave`, the seed of the `Rng` and the state of the `Playout`. -/
structure Played (R : Type) where
  result : Int
  num_moves : Int
  rave : Nat → Nat → Int
  seed_ : Nat
  playout_ : R

/-- What a search is run with: the compile-time constant
`LOG2_NUM_ENTRIES`, the tables of `Position`, the number of available moves
of `position_`, the options, the operations on `float`, the exploration
strategy (`ArgMax` with a score in floating point), the playout, and the
update of the statistics. The two calls of the `Rng` among the arguments of
one call of `UpdateRave` are made in an order that C++ leaves open;
`rave_reward_drawn_first` fixes it. -/
structure SearchEnv (F R : Type) where
  L : Nat
  kZobristHash : Nat → Nat → Nat
  kMoveIndexToCell : Nat → Nat
  kCellToMoveIndex : Nat → Int
  num_available_moves_ : Nat
  options_ : MctsOptions F
  fl : FloatOps F
  SelectKidForExploration : WaitFreeHashMap → Nat → Nat → Player → Nat → Selection
  Play : Player → Nat → State → (Nat → Nat → Int) → Nat → R → Played R
  statsAdd : Int → Int → R → R
  rave_reward_drawn_first : Bool

/-- The result of a run of the search: a value and the state afterwards, or
a failure. -/
inductive SRes (R α : Type) where
  | ok (a : α) (t : Search R)
  | fail (e : Err)

/-- The computations of the search. -/
def S (R α : Type) : Type := Search R → SRes R α

/-- Sequencing of computations of the search. -/
def S.bind {R α β : Type} (x : S R α) (f : α → S R β) : S R β :=
  fun t => match x t with
    | SRes.ok a t' => f a t'
    | SRes.fail e => SRes.fail e

instance {R : Type} : Monad (S R) where
  pure := fun a t => SRes.ok a t
  bind := S.bind

/-- A run of the search stops. -/
def S.fail {R α : Type} (e : Err) : S R α := fun _ => SRes.fail e

/-- A method of `Position` is called on `MctsEngine::position_` with
`MctsEngine::memento_`. -/
def onPosition {R α : Type} (x : M α) : S R α :=
  fun t => match x t.position_ with
    | Res.ok a s => SRes.ok a { t with position_ := s }
    | Res.fail e => SRes.fail e

/-- A method of `Position` is called on `MctsEngine::position_` with
`TranspositionTable::memento_`. -/
def onPositionWithTableMemento {R α : Type} (x : M α) : S R α :=
  fun t => match x { t.position_ with memento := t.memento_ } with
    | Res.ok a s =>
      SRes.ok a { t with
        position_ := { s with memento := t.position_.memento }
        memento_ := s.memento }
    | Res.fail e => SRes.fail e

/-- Reads the node behind a pointer. -/
def getNode {R : Type} (n : Nat) : S R MctsNode := fun t => SRes.ok (t.nodes_.values n) t

/-- Changes the node behind a pointer. -/
def updateNode {R : Type} (n : Nat) (f : MctsNode → MctsNode) : S R Unit :=
  fun t => SRes.ok () { t with
    nodes_ := { t.nodes_ with values := Function.update t.nodes_.values n (f (t.nodes_.values n)) } }

/-- The call `kid->UpdateRave(...)` with its asserts. -/
def updateRave {R : Type} (n : Nat) (reward num_simulations : Int) : S R Unit :=
  fun t => match (t.nodes_.values n).UpdateRave reward num_simulations with
    | some node =>
      SRes.ok () { t with
        nodes_ := { t.nodes_ with values := Function.update t.nodes_.values n node } }
    | none => SRes.fail Err.assertFailed

/-- A call of the `Rng`. -/
def rng {R : Type} (n : Int) : S R Int :=
  fun t => SRes.ok (Rng.call t.seed_ n).1 { t with seed_ := (Rng.call t.seed_ n).2 }

namespace TranspositionTable

/-- The method `TranspositionTable::InsertKey`. -/
def InsertKey {F R : Type} (env : SearchEnv F R) (position_hash : Nat) : S R (Option Nat) :=
  fun t => match WaitFreeHashMap.InsertKey env.L t.nodes_ position_hash with
    | (Outcome.slot n, m) => SRes.ok (some n) { t with nodes_ := m }
    | (Outcome.null, m) => SRes.ok none { t with nodes_ := m }
    | (Outcome.assertFailed, _) => SRes.fail Err.assertFailed
    | (Outcome.loopsForever, _) => SRes.fail Err.outOfFuel

/-- The method `TranspositionTable::FindNode`. -/
def FindNode {F R : Type} (env : SearchEnv F R) (position_hash : Nat) : S R (Option Nat) :=
  fun t => match WaitFreeHashMap.FindValue env.L t.nodes_ position_hash with
    | Outcome.slot n => SRes.ok (some n) t
    | Outcome.null => SRes.ok none t
    | Outcome.assertFailed => SRes.fail Err.assertFailed
    | Outcome.loopsForever => SRes.fail Err.outOfFuel

/-- The element `kZobristHash[move][player]` inside
`Position::ModifyZobristHash`, with the check of the index. -/
def zobrist {F R : Type} (env : SearchEnv F R) (position_hash : Nat) (player : Player)
    (move : Int) : S R Nat := do
  if 0 ≤ move ∧ move < kNumMovesOnBoard then
    pure (ModifyZobristHash env.kZobristHash position_hash player move.toNat)
  else S.fail Err.outOfBounds

/-- The element `kMoveIndexToCell[move]` inside `Position::MoveIndexToCell`,
with the check of the index. -/
def moveIndexToCell {F R : Type} (env : SearchEnv F R) (move : Int) : S R Nat := do
  if 0 ≤ move ∧ move < kNumMovesOnBoard then pure (env.kMoveIndexToCell move.toNat)
  else S.fail Err.outOfBounds

/-- The method `TranspositionTable::LookForMate`. -/
def LookForMate {R : Type} (player : Player) (cell : Nat) : S R Unit := do
  let neighborhood ← onPositionWithTableMemento (Position.Get6Neighbors player cell)
  let wins ← onPositionWithTableMemento (Position.MoveIsWinning player cell neighborhood 0)
  if wins then
    fun t => SRes.ok () { t with winning_move_count_ := wrapInt32 (t.winning_move_count_ + 1) }
  else pure ()

end TranspositionTable

/-! ### havannah.h: RepeatForCellsAdjacentToChain -/

/-- The row `y` of `Position::kIsCellOnBoardBitmask`, as filled by
`Position::InitStaticFields`. -/
def boardRow (y : Nat) : Nat :=
  (List.range 32).foldl (fun row (x : Nat) => if LiesOnBoard x y then setBit row x else row) 0

/-- The first loop of the macro `RepeatForCellsAdjacentToChain`, over the
rows that are left: it fills the array `mask`. -/
def adjacentMaskLoop (chain_mask opponent_stones : Nat → Nat) :
    List Nat → Nat → Nat → Nat → (Nat → Nat) → (Nat → Nat)
  | [], _, _, _, mask => mask
  | y :: ys, prev, curr, next, mask =>
    let current_mask :=
      prev ||| next ||| ((prev ||| curr) >>> 1) ||| (((curr ||| next) <<< 1) % 4294967296)
    let current_mask := current_mask &&& (4294967295 ^^^ (curr ||| opponent_stones y))
    let current_mask := current_mask &&& boardRow y
    adjacentMaskLoop chain_mask opponent_stones ys curr next (chain_mask (NextY (NextY y)))
      (Function.update mask y current_mask)

/-- The inner `do ... while (tmp_mask != 0)` loop of the macro: the cells for
which the function is called. The mask has 32 bits, which bounds the
iterations. -/
def adjacentRowLoop : Nat → Nat → Nat → List Nat
  | 0, _, _ => []
  | fuel + 1, tmp_mask, current_cell =>
    (if tmp_mask &&& 1 ≠ 0 then [current_cell] else []) ++
      (if tmp_mask >>> 1 ≠ 0 then adjacentRowLoop fuel (tmp_mask >>> 1) (OffsetCell current_cell 1)
        else [])

/-- The cells for which the second loop of the macro calls the function, in
the order of the calls. -/
def adjacentCells (mask : Nat → Nat) : List Nat :=
  RingDB.boardRows.flatMap fun y =>
    let tmp_mask := mask y
    if tmp_mask ≠ 0 then
      let first_x := CountTrailingZeroes tmp_mask
      adjacentRowLoop 32 (tmp_mask >>> first_x) (XYToCell first_x y)
    else []

/-- The calls of the function, one after another. -/
def forCells {R : Type} (function : Nat → S R Unit) : List Nat → S R Unit
  | [] => pure ()
  | cell :: cells => do
    function cell
    forCells function cells

/-- The macro `RepeatForCellsAdjacentToChain` on the position of the
search. -/
def RepeatForCellsAdjacentToChain {R : Type} (player : Player) (current_chain : Nat)
    (function : Nat → S R Unit) : S R Unit := do
  if current_chain = 0 then S.fail Err.assertFailed
  else do
    onPositionWithTableMemento (ChainSet.deref player.toNat current_chain)
    let chain_mask ← onPositionWithTableMemento (readChainRows player.toNat current_chain)
    let opponent_stones ← onPositionWithTableMemento (readStoneRows (Opponent player).toNat)
    let mask := adjacentMaskLoop chain_mask opponent_stones RingDB.boardRows 0 (chain_mask kGapAround)
      (chain_mask (NextY kGapAround)) (fun _ => 0)
    forCells function (adjacentCells mask)

namespace TranspositionTable

/-- The block `if (use_deeper_mate_in_tree)` of `ExpandNode` up to
`memento_.UndoAll()`. -/
def deeperMate {F R : Type} (env : SearchEnv F R) (player : Player) (cell : Nat) : S R Unit := do
  let _ ← onPositionWithTableMemento
    (Position.MakeMoveReversibly env.kCellToMoveIndex player cell)
  (fun t => SRes.ok () { t with winning_move_count_ := 0 })
  let current_chain ← onPositionWithTableMemento
    (PlayerPosition.chain_for_cell player.toNat cell)
  RepeatForCellsAdjacentToChain player current_chain (LookForMate player)
  onPositionWithTableMemento Memento.UndoAll

/-- The part of the body of the first loop of `ExpandNode` that sets the
bias of the kid. -/
def setKidBias {F R : Type} (env : SearchEnv F R) (player : Player) (cell kid : Nat) :
    S R Unit := do
  let bias ← (if env.fl.nonzero env.options_.chain_size_bias_factor then do
      let size ← onPosition (PlayerPosition.GetSizeOfNeighborChains player.toNat cell
        (wrapInt32 (6 * env.options_.neighborhood_size)))
      pure (env.fl.mul env.options_.chain_size_bias_factor (env.fl.ofInt size))
    else pure (env.fl.ofInt 0))
  let bias ← (if env.fl.nonzero env.options_.locality_bias then do
      let neighbors18 ← onPosition (PlayerPosition.Get18Neighbors player.toNat cell)
      if neighbors18 &&& kAndTo12Neighbors ≠ 0 then
        pure (env.fl.add bias env.options_.locality_bias)
      else pure bias
    else pure bias)
  updateNode kid (fun node => node.set_bias env.fl bias)

/-- The part of the body of the first loop of `ExpandNode` that draws the
prior of the kid. -/
def setKidPrior {F R : Type} (env : SearchEnv F R) (kid : Nat) : S R Unit := do
  let o := env.options_
  if o.use_rave_randomization then do
    if env.rave_reward_drawn_first then do
      let a ← rng (wrapInt32 (2 * o.prior_reward_halfrange + 1))
      let b ← rng o.prior_num_simulations_range
      updateRave kid (wrapInt32 (a - o.prior_reward_halfrange))
        (wrapInt32 (b + o.prior_num_simulations_base))
    else do
      let b ← rng o.prior_num_simulations_range
      let a ← rng (wrapInt32 (2 * o.prior_reward_halfrange + 1))
      updateRave kid (wrapInt32 (a - o.prior_reward_halfrange))
        (wrapInt32 (b + o.prior_num_simulations_base))
  else do
    let a ← rng (wrapInt32 (2 * o.prior_reward_halfrange + 1))
    updateNode kid (fun node => node.UpdateUcbReward (wrapInt32 (a - o.prior_reward_halfrange)))
    let b ← rng o.prior_num_simulations_range
    updateNode kid (fun node =>
      node.UpdateUcbNumSimulations (wrapInt32 (b + o.prior_num_simulations_base)))

/-- How an iteration of the first loop of `ExpandNode` ends: the method
returns a value, or the loop goes on. -/
inductive Step where
  | returns (b : Bool)
  | goesOn (antimate_move : Nat) (antimate_move_count : Int)
  deriving DecidableEq, Repr

/-- The body of the first loop of `ExpandNode` for the move `move`. -/
def expandMove {F R : Type} (env : SearchEnv F R) (position_hash : Nat) (player : Player)
    (move : Nat) (antimate_move : Nat) (antimate_move_count : Int) : S R Step := do
  let o := env.options_
  let cell ← moveIndexToCell env move
  let empty ← onPosition (Position.CellIsEmpty cell)
  if !empty then pure (Step.goesOn antimate_move antimate_move_count)
  else do
    let kid_hash ← zobrist env position_hash player move
    let kid ← InsertKey env kid_hash
    match kid with
    | none => pure (Step.returns false)
    | some kid => do
      let wins ← (if o.use_mate_in_tree then do
          let neighborhood ← onPosition (Position.Get6Neighbors player cell)
          onPosition (Position.MoveIsWinning player cell neighborhood 0)
        else pure false)
      if wins then do
        let node ← FindNode env position_hash
        match node with
        | none => S.fail Err.assertFailed
        | some node => do
          updateNode kid (fun n => n.UpdateUcbReward (WonInNPlies 0))
          updateNode node (fun n => n.UpdateUcbReward (LostInNPlies 1))
          pure (Step.returns true)
      else do
        let foeWins ← (if o.use_antimate_in_tree then do
            let opponent_neighborhood ← onPosition (Position.Get6Neighbors (Opponent player) cell)
            onPosition (Position.MoveIsWinning (Opponent player) cell opponent_neighborhood 0)
          else pure false)
        let antimate_move := if foeWins then cell else antimate_move
        let antimate_move_count :=
          if foeWins then wrapInt32 (antimate_move_count + 1) else antimate_move_count
        let skip ← (if o.use_deeper_mate_in_tree then do
            deeperMate env player cell
            let t ← (fun t => SRes.ok t t : S R (Search R))
            if t.winning_move_count_ ≥ 2 then do
              (fun t => SRes.ok () { t with winning_kids_ := t.winning_kids_ ++ [kid] })
              pure true
            else pure false
          else pure false)
        if skip then pure (Step.goesOn antimate_move antimate_move_count)
        else do
          setKidBias env player cell kid
          setKidPrior env kid
          pure (Step.goesOn antimate_move antimate_move_count)

/-- The first loop of `ExpandNode`, from `move` on for `n` more moves. -/
def expandLoop {F R : Type} (env : SearchEnv F R) (position_hash : Nat) (player : Player) :
    Nat → Nat → Nat → Int → S R Step
  | 0, _, antimate_move, antimate_move_count =>
    pure (Step.goesOn antimate_move antimate_move_count)
  | n + 1, move, antimate_move, antimate_move_count => do
    let r ← expandMove env position_hash player move antimate_move antimate_move_count
    match r with
    | Step.returns b => pure (Step.returns b)
    | Step.goesOn antimate_move antimate_move_count =>
      expandLoop env position_hash player n (move + 1) antimate_move antimate_move_count

/-- The loop of `ExpandNode` for `antimate_move_count == 1`. The bound
`position->NumAvailableMoves()` is read anew in every iteration and does not
change. -/
def antimateLoop {F R : Type} (env : SearchEnv F R) (position_hash : Nat) (player : Player)
    (antimate_move : Nat) : Nat → Nat → S R Unit
  | 0, _ => pure ()
  | n + 1, move => do
    let cell ← moveIndexToCell env move
    let empty ← onPosition (Position.CellIsEmpty cell)
    if !empty ∨ cell = antimate_move then
      antimateLoop env position_hash player antimate_move n (move + 1)
    else do
      let kid_hash ← zobrist env position_hash player move
      let kid ← FindNode env kid_hash
      match kid with
      | none => S.fail Err.assertFailed
      | some kid => do
        updateNode kid (fun node => node.UpdateUcbReward (LostInNPlies 1))
        antimateLoop env position_hash player antimate_move n (move + 1)

/-- The last loop of `ExpandNode`, over `winning_kids_`. -/
def winningKidsLoop {R : Type} : List Nat → S R Unit
  | [] => pure ()
  | kid :: kids => do
    let node ← getNode kid
    (if !ResultIsForced node.ucb_reward_ then
        updateNode kid (fun n => n.UpdateUcbReward (WonInNPlies 2))
      else pure ())
    winningKidsLoop kids

/-- The method `TranspositionTable::ExpandNode`. -/
def ExpandNode {F R : Type} (env : SearchEnv F R) (position_hash : Nat) (player : Player) :
    S R Bool := do
  (fun t => SRes.ok () { t with winning_kids_ := [] })
  let r ← expandLoop env position_hash player env.num_available_moves_ 0 0 0
  match r with
  | Step.returns b => pure b
  | Step.goesOn antimate_move antimate_move_count => do
    let returned ← (if antimate_move_count > 1 then
        if position_hash ≠ kRootHash then do
          let node ← FindNode env position_hash
          match node with
          | none => S.fail Err.assertFailed
          | some node => do
            updateNode node (fun n => n.UpdateUcbReward (WonInNPlies 2))
            pure true
        else pure false
      else if antimate_move_count = 1 then do
        antimateLoop env position_hash player antimate_move env.num_available_moves_ 0
        pure false
      else pure false)
    if returned then pure true
    else do
      let t ← (fun t => SRes.ok t t : S R (Search R))
      winningKidsLoop t.winning_kids_
      pure true

end TranspositionTable

/-! ### mcts.cc: MctsEngine -/

namespace MctsEngine

/-- The first loop of `MctsEngine::UpdateRaveInTree`; it returns whether
the method returned from inside the loop. -/
def raveLoop1 {F R : Type} (env : SearchEnv F R) (position_hash : Nat) (player : Player)
    (num_simulations : Int) : Nat → Nat → S R Bool
  | 0, _ => pure false
  | n + 1, move => do
    let t ← (fun t => SRes.ok t t : S R (Search R))
    if move < kNumMovesOnBoard then
      if t.rave_ player.toNat move ≠ 0 then do
        let kid_position_hash ← TranspositionTable.zobrist env position_hash player move
        let kid ← TranspositionTable.InsertKey env kid_position_hash
        match kid with
        | none => pure true
        | some kid => do
          updateRave kid (t.rave_ player.toNat move) num_simulations
          raveLoop1 env position_hash player num_simulations n (move + 1)
      else raveLoop1 env position_hash player num_simulations n (move + 1)
    else S.fail Err.outOfBounds

/-- The elements `0`, `2`, `4`, ... of a list. -/
def everyOther : List Nat → List Nat
  | [] => []
  | [a] => [a]
  | a :: _ :: rest => a :: everyOther rest

/-- The second loop of `MctsEngine::UpdateRaveInTree`, over the elements
`moves_[i]`, `moves_[i + 2]`, ... that are left. -/
def raveLoop2 {F R : Type} (env : SearchEnv F R) (position_hash : Nat) (player : Player)
    (reward num_simulations : Int) : List Nat → S R Unit
  | [] => pure ()
  | cell :: rest => do
    let m ← onPosition (Position.CellToMoveIndex env.kCellToMoveIndex cell)
    let kid_position_hash ← TranspositionTable.zobrist env position_hash player m
    let kid ← TranspositionTable.InsertKey env kid_position_hash
    match kid with
    | none => pure ()
    | some kid => do
      updateRave kid (wrapInt32 (-reward)) num_simulations
      raveLoop2 env position_hash player reward num_simulations rest

/-- The method `MctsEngine::UpdateRaveInTree`. -/
def UpdateRaveInTree {F R : Type} (env : SearchEnv F R) (position_hash : Nat) (player : Player)
    (move_index : Nat) (reward num_simulations : Int) : S R Unit := do
  let returned ← raveLoop1 env position_hash player num_simulations env.num_available_moves_ 0
  if returned then pure ()
  else do
    let t ← (fun t => SRes.ok t t : S R (Search R))
    raveLoop2 env position_hash player reward num_simulations
      (everyOther (t.moves_.drop move_index))

/-- The loop of `MctsEngine::GetPlayoutResult`, for `n` more playouts. -/
def playoutLoop {F R : Type} (env : SearchEnv F R) (player : Player) (last_move : Nat)
    (empty_cell_count : Int) : Nat → Int → S R Int
  | 0, sum => pure sum
  | n + 1, sum => do
    let t ← (fun t => SRes.ok t t : S R (Search R))
    let r := env.Play player last_move t.position_ t.rave_ t.seed_ t.playout_
    if 0 ≤ empty_cell_count ∧ empty_cell_count ≤ kNumMovesOnBoard then do
      (fun t => SRes.ok () { t with
        rave_ := r.rave
        seed_ := r.seed_
        playout_ := env.statsAdd empty_cell_count r.num_moves r.playout_ })
      let sum := if r.result ≠ 0 then
          wrapInt32 (sum + (2 * Int.xor (Int.tmod r.result 2) player.toNat - 1))
        else sum
      playoutLoop env player last_move empty_cell_count n sum
    else S.fail Err.outOfBounds

/-- The method `MctsEngine::GetPlayoutResult`. -/
def GetPlayoutResult {F R : Type} (env : SearchEnv F R) (player : Player) (last_move : Nat)
    (empty_cell_count : Int) : S R Int :=
  playoutLoop env player last_move empty_cell_count env.options_.play_n_playouts_at_once.toNat 0

/-- The method `MctsEngine::Descend`; `recur` is `UpdateNodeAndGetReward`. -/
def Descend {F R : Type} (env : SearchEnv F R)
    (recur : Nat → Nat → Player → Nat → Int → S R Int)
    (position_hash node : Nat) (player : Player) (last_move : Nat) (empty_cell_count : Int) :
    S R Int := do
  let o := env.options_
  let n ← getNode node
  let nonzero_visits_left := n.decrement_visits_to_go_if_nonzero.1
  updateNode node (fun n => n.decrement_visits_to_go_if_nonzero.2)
  let sel ← (if nonzero_visits_left then do
      let n ← getNode node
      let kid_index := n.kid_to_visit
      let kid_position_hash ← TranspositionTable.zobrist env position_hash player kid_index
      let kid ← TranspositionTable.FindNode env kid_position_hash
      match kid with
      | some k => do
        let kn ← getNode k
        (if kn.HasForcedResult then updateNode node (fun n => n.set_visits_to_go 0)
          else pure ())
        pure (Sum.inl (kid, kid_index, kid_position_hash))
      | none => pure (Sum.inl (kid, kid_index, kid_position_hash))
    else do
      let t ← (fun t => SRes.ok t t : S R (Search R))
      let sel := env.SelectKidForExploration t.nodes_ position_hash node player
        env.num_available_moves_
      if !sel.has_forced_result then do
        match sel.kid with
        | some k => do
          updateNode node (fun n => n.set_kid_to_visit sel.kid_index)
          let kn ← getNode k
          updateNode node (fun n => n.set_visits_to_go (env.fl.toInt
            (env.fl.add (env.fl.mul o.tricky_epsilon (env.fl.ofInt kn.ucb_num_simulations_))
              (env.fl.ofInt 1))))
          pure (Sum.inl (sel.kid, sel.kid_index, sel.kid_position_hash))
        | none => pure (Sum.inl (sel.kid, sel.kid_index, sel.kid_position_hash))
      else
        match sel.kid with
        | none => S.fail Err.outOfBounds
        | some k => do
          let kn ← getNode k
          let reward := kn.ucb_reward_
          if DefeatIsForced reward then pure (Sum.inr (WonInNPlies (DefeatToPlies reward + 1)))
          else if DrawIsForced reward then pure (Sum.inr kBoardFilledDraw)
          else if VictoryIsForced reward then
            pure (Sum.inr (LostInNPlies (VictoryToPlies reward + 1)))
          else S.fail Err.assertFailed)
  match sel with
  | Sum.inr result => pure result
  | Sum.inl (none, _, _) => GetPlayoutResult env player last_move empty_cell_count
  | Sum.inl (some kid, kid_index, kid_position_hash) => do
    let cell ← TranspositionTable.moveIndexToCell env kid_index
    let empty ← onPosition (Position.CellIsEmpty cell)
    if !empty then S.fail Err.assertFailed
    else do
      let result ← onPosition (Position.MakeMoveReversibly env.kCellToMoveIndex player cell)
      if result ≠ 0 then
        if o.use_solver then do
          updateNode kid (fun n => n.UpdateUcbReward (WonInNPlies 0))
          pure (LostInNPlies 1)
        else do
          updateNode kid (fun n => n.UpdateUcbReward 1)
          pure (-1)
      else do
        (fun t => SRes.ok () { t with moves_ := t.moves_ ++ [cell] })
        let reward ← recur kid_position_hash kid (Opponent player) cell
          (wrapInt32 (empty_cell_count - 1))
        if DefeatIsForced reward then pure 1
        else if DrawIsForced reward then pure 0
        else if VictoryIsForced reward then pure (LostInNPlies (VictoryToPlies reward + 1))
        else pure (wrapInt32 (-reward))

/-- The method `MctsEngine::UpdateNodeAndGetReward`, with a bound on the
depth of the recursion through `Descend`: every call of `Descend` that
recurs has put a stone on an empty cell of the board. -/
def UpdateNodeAndGetReward {F R : Type} (env : SearchEnv F R) :
    Nat → Nat → Nat → Player → Nat → Int → S R Int
  | 0, _, _, _, _, _ => S.fail Err.outOfFuel
  | depth + 1, position_hash, node, player, last_move, empty_cell_count => do
    let o := env.options_
    let n ← getNode node
    let reward := n.ucb_reward_
    if ResultIsForced reward then pure reward
    else do
      let num_simulations ← (if o.use_virtual_loss then do
          updateNode node (fun n => n.UpdateUcbNumSimulations o.play_n_playouts_at_once)
          let n ← getNode node
          pure n.ucb_num_simulations_
        else pure n.ucb_num_simulations_)
      let t ← (fun t => SRes.ok t t : S R (Search R))
      let current_move_index := t.moves_.length
      let playout : S R Int := do
        (fun t => SRes.ok () { t with empty_cell_count_at_bottom_ := empty_cell_count })
        GetPlayoutResult env player last_move empty_cell_count
      let descend : S R Int :=
        Descend env (UpdateNodeAndGetReward env depth) position_hash node player last_move
          empty_cell_count
      let reward ← (if empty_cell_count = 0 then do
          (fun t => SRes.ok () { t with empty_cell_count_at_bottom_ := 0 })
          pure kBoardFilledDraw
        else if num_simulations < o.expand_after_n_playouts then playout
        else if num_simulations = o.expand_after_n_playouts then do
          let expanded ← TranspositionTable.ExpandNode env position_hash player
          if expanded then descend else playout
        else descend)
      let t ← (fun t => SRes.ok t t : S R (Search R))
      (if !ResultIsForced reward ∧
          wrapInt32 (empty_cell_count - t.empty_cell_count_at_bottom_) ≤ o.rave_update_depth then
          UpdateRaveInTree env position_hash player current_move_index reward
            o.play_n_playouts_at_once
        else pure ())
      (if !o.use_virtual_loss then
          updateNode node (fun n => n.UpdateUcbNumSimulations o.play_n_playouts_at_once)
        else pure ())
      updateNode node (fun n => n.UpdateUcbReward reward)
      pure reward

/-- The state in which `UpdateNodeAndGetReward` calls `Descend`: with
`use_virtual_loss` the playouts of the node have been counted already. -/
def atDescend {F R : Type} (env : SearchEnv F R) (node : Nat) (t : Search R) : Search R :=
  if env.options_.use_virtual_loss then
    { t with
      nodes_ := { t.nodes_ with
        values := Function.update t.nodes_.values node
          ((t.nodes_.values node).UpdateUcbNumSimulations env.options_.play_n_playouts_at_once) } }
  else t

end MctsEngine

/-- Every run of the computation of the search that returns is related by
`Rel`. -/
def SSteps {R α : Type} (x : S R α) (Rel : Search R → Search R → Prop) : Prop :=
  ∀ t a t', x t = SRes.ok a t' → Rel t t'

/-- The position and the list `winning_kids_` are the same in both states of
the search. -/
def SamePosition {R : Type} (t t' : Search R) : Prop :=
  t'.position_ = t.position_ ∧ t'.winning_kids_ = t.winning_kids_

/-- The opponent of `player` would win at once at the cell of the move `i`,
which is empty: `Position::MoveIsWinning` says so for the neighbourhood
that `Position::Get6Neighbors` returns. -/
def FoeWinsAt {F R : Type} (env : SearchEnv F R) (player : Player) (s : State) (i : Nat) : Prop :=
  Position.CellIsEmpty (env.kMoveIndexToCell i) s = Res.ok true s ∧
    ∃ nb, Position.Get6Neighbors (Opponent player) (env.kMoveIndexToCell i) s = Res.ok nb s ∧
      Position.MoveIsWinning (Opponent player) (env.kMoveIndexToCell i) nb 0 s = Res.ok true s

/-- The value of a result, when the run returned. -/
def Res.value {α : Type} (r : Res α) : Option α :=
  match r with
  | Res.ok a _ => some a
  | Res.fail _ => none

/-- The value of a result of the search, when the run returned. -/
def SRes.value {R α : Type} (r : SRes R α) : Option α :=
  match r with
  | SRes.ok a _ => some a
  | SRes.fail _ => none

/-- The state of a result of the search, or the given state when the run
failed. -/
def SRes.state {R α : Type} (r : SRes R α) (dflt : Search R) : Search R :=
  match r with
  | SRes.ok _ t => t
  | SRes.fail _ => dflt

/-- Whether a run of the search returned the given value. -/
def SRes.returned {R α : Type} [DecidableEq α] (r : SRes R α) (a : α) : Bool :=
  match r with
  | SRes.ok b _ => decide (b = a)
  | SRes.fail _ => false

/-- Whether a run of the search returned a value and a state that pass the
test. -/
def SRes.satisfies {R α : Type} (r : SRes R α) (test : α → Search R → Bool) : Bool :=
  match r with
  | SRes.ok a t => test a t
  | SRes.fail _ => false

/-! ### Searches for the examples -/

/-- The check `position->MoveIsWinning(player, cell,
position->Get6Neighbors(player, cell), 0)` of `ExpandNode`. -/
def winsAt (player : Player) (cell : Nat) : M Bool := do
  let neighborhood ← Position.Get6Neighbors player cell
  Position.MoveIsWinning player cell neighborhood 0

/-- What the first loop of `ExpandNode` meets at a move in the position `s`:
`some false` at an occupied cell, `some true` at an empty cell where the
checks of the loop return and the player does not win at once, and `none`
in the other cases. -/
def quietAt {F R : Type} (env : SearchEnv F R) (player : Player) (s : State) (move : Nat) :
    Option Bool :=
  match (Position.CellIsEmpty (env.kMoveIndexToCell move) s).value with
  | none => none
  | some false => some false
  | some true =>
    if (env.options_.use_mate_in_tree = true →
          (winsAt player (env.kMoveIndexToCell move) s).value = some false) ∧
        (env.options_.use_antimate_in_tree = true →
          (winsAt (Opponent player) (env.kMoveIndexToCell move) s).value.isSome = true) then
      some true
    else none

namespace TranspositionTable

/-- What the body of the first loop of `ExpandNode` does to the nodes and to
the generator of random numbers at a move where the loop goes on, without
the deeper search for mates; `empty` tells whether the cell is empty. -/
def kidMove {F R : Type} (env : SearchEnv F R) (position_hash : Nat) (player : Player)
    (move : Nat) (empty : Bool) : S R Unit :=
  if !empty then pure ()
  else do
    let kid_hash ← zobrist env position_hash player move
    let kid ← InsertKey env kid_hash
    match kid with
    | none => S.fail Err.assertFailed
    | some kid => do
      setKidBias env player (env.kMoveIndexToCell move) kid
      setKidPrior env kid

/-- The calls of `kidMove` for the moves from `move` on, `n` of them. -/
def kidLoop {F R : Type} (env : SearchEnv F R) (position_hash : Nat) (player : Player)
    (empty : Nat → Bool) : Nat → Nat → S R Unit
  | 0, _ => pure ()
  | n + 1, move => do
    kidMove env position_hash player move (empty move)
    kidLoop env position_hash player empty n (move + 1)

end TranspositionTable

/-- The cells of the board in the order of `Position::InitStaticFields`. -/
def boardCells : List Nat :=
  (List.range kNumCellsWithSentinels).filter fun c => LiesOnBoard (CellToX c) (CellToY c)

/-- The table `Position::kConstMoveIndexToCell`, as filled by
`Position::InitStaticFields`. -/
def kConstMoveIndexToCell (move : Nat) : Nat := boardCells.getD move 0

/-- Operations on a type of one value in the place of `float`. -/
def exampleFloat : FloatOps Unit where
  ofInt := fun _ => ()
  add := fun _ _ => ()
  mul := fun _ _ => ()
  nonzero := fun _ => false
  toInt := fun _ => 0
  toShort := fun _ => 0

/-- The options that lajkonik.cc sets, but without the deeper search for
mates and with one value in the place of every `float`. -/
def exampleOptions : MctsOptions Unit where
  exploration_factor := ()
  rave_bias := ()
  first_play_urgency := ()
  tricky_epsilon := ()
  locality_bias := ()
  chain_size_bias_factor := ()
  expand_after_n_playouts := 160
  play_n_playouts_at_once := 1
  exploration_strategy := 5
  rave_update_depth := 1000
  prior_num_simulations_base := 4
  prior_num_simulations_range := 7
  prior_reward_halfrange := 5
  neighborhood_size := 2
  use_rave_randomization := false
  use_mate_in_tree := true
  use_antimate_in_tree := true
  use_deeper_mate_in_tree := false
  use_virtual_loss := true
  use_solver := true

/-- An exploration strategy for the examples: the first kid whose reward is
forced, if there is one. -/
def exampleSelect (L : Nat) (kZobristHash : Nat → Nat → Nat) (nodes : WaitFreeHashMap)
    (position_hash : Nat) (player : Player) : Nat → Nat → Selection
  | 0, _ => ⟨none, 0, 0, false⟩
  | n + 1, move =>
    let kid_position_hash := ModifyZobristHash kZobristHash position_hash player move
    match WaitFreeHashMap.FindValue L nodes kid_position_hash with
    | Outcome.slot k =>
      if ResultIsForced (nodes.values k).ucb_reward_ then ⟨some k, move, kid_position_hash, true⟩
      else exampleSelect L kZobristHash nodes position_hash player n (move + 1)
    | _ => exampleSelect L kZobristHash nodes position_hash player n (move + 1)

/-- A search on the full board with a hash map of 1024 slots, the Zobrist
hash `2 * move + player + 1` and playouts that end in a draw at once. -/
def exampleEnv : SearchEnv Unit Unit where
  L := 10
  kZobristHash := fun move player => 2 * move + player + 1
  kMoveIndexToCell := kConstMoveIndexToCell
  kCellToMoveIndex := kConstCellToMoveIndex
  num_available_moves_ := kNumMovesOnBoard
  options_ := exampleOptions
  fl := exampleFloat
  SelectKidForExploration := fun nodes position_hash _ player n =>
    exampleSelect 10 (fun move player => 2 * move + player + 1) nodes position_hash player n 0
  Play := fun _ _ _ rave seed r => ⟨0, 0, rave, seed, r⟩
  statsAdd := fun _ _ r => r
  rave_reward_drawn_first := true

/-- The state of a search in which the hash map holds one node, under the
key `position_hash`. -/
def exampleSearch (position : State) (position_hash : Nat) : Search Unit where
  nodes_ := (WaitFreeHashMap.InsertKey 10 WaitFreeHashMap.Clear position_hash).2
  seed_ := 1
  position_ := position
  memento_ := Memento.empty
  winning_kids_ := []
  winning_move_count_ := 0
  moves_ := []
  empty_cell_count_at_bottom_ := 0
  rave_ := fun _ _ => 0
  playout_ := ()

/-- The state of a search whose root, with 200 playouts, has a kid under the
move 3 with the reward `WonInNPlies(3)`. -/
def forcedKidSearch : Search Unit :=
  let t := exampleSearch State.start kRootHash
  let m := (WaitFreeHashMap.InsertKey 10 t.nodes_ 7).2
  { t with
    nodes_ := { m with
      values := fun n =>
        if n = 0 then { MctsNode.Init with ucb_num_simulations_ := 200 }
        else if n = 7 then
          { MctsNode.Init with ucb_reward_ := WonInNPlies 3, ucb_num_simulations_ := 1 }
        else MctsNode.Init } }

/-- The moves of a list, made one after another by `Position::MakeMoveFast`
for the one player. -/
def makeMovesFast (player : Player) : List Nat → M Unit
  | [] => pure ()
  | cell :: cells => do
    let _ ← Position.MakeMoveFast player cell
    makeMovesFast player cells

/-- The six neighbours of the cell at (x, y), clockwise from the upper
left. -/
def hexagon (x y : Nat) : List Nat :=
  [XYToCell x (y - 1), XYToCell (x + 1) (y - 1), XYToCell (x + 1) y, XYToCell x (y + 1),
    XYToCell (x - 1) (y + 1), XYToCell (x - 1) y]

/-- The position in which the player has stones on five of the six
neighbours of (12, 3): all but (12, 2), the cell of the move 1. -/
def openRingPosition (player : Player) : State :=
  (makeMovesFast player ((hexagon 12 3).drop 1) State.start).state State.start

/-- The position in which the player has stones on five of the six
neighbours of (12, 3) and of (15, 3): all but (12, 2) and (15, 2), the
cells of the moves 1 and 4. -/
def twoOpenRingsPosition (player : Player) : State :=
  (makeMovesFast player ((hexagon 12 3).drop 1 ++ (hexagon 15 3).drop 1) State.start).state
    State.start

/-- Whether the cell of a move is empty in `twoOpenRingsPosition`: the ten
stones lie on the cells of the moves 2, 5, 11, 13, 14, 16, 23, 24, 26 and
27. -/
def twoOpenRingsEmpty (move : Nat) : Bool :=
  decide (move ∉ [2, 5, 11, 13, 14, 16, 23, 24, 26, 27])

/-! ### test.cc: the reference for thin rings -/

/-- The loop `for (int bit = 1; bit < 64; bit <<= 1)` of `SlowRing`, run for
at most `fuel` tests of its condition. -/
def slowRingLoop (mask : Nat) : Nat → Nat → Bool → Nat → Nat
  | 0, _, _, nonadjacent_stones => nonadjacent_stones
  | fuel + 1, bit, previous_cell_is_occupied, nonadjacent_stones =>
    if bit < 64 then
      slowRingLoop mask fuel (bit <<< 1) (decide (mask &&& bit ≠ 0))
        (if mask &&& bit ≠ 0 ∧ previous_cell_is_occupied = false then nonadjacent_stones + 1
          else nonadjacent_stones)
    else nonadjacent_stones

/-- The function `SlowRing` of test.cc. -/
def SlowRing (mask : Nat) : Bool :=
  decide (slowRingLoop mask 7 1 (decide (mask &&& 32 ≠ 0)) 0 ≥ 2)

/-- The array `kDx` of the test `ChainSet_sets_thin_ring_correctly`. -/
def kDx : List Int := [0, -1, -1, 0, 1, 1]

/-- The array `kDy` of the test `ChainSet_sets_thin_ring_correctly`. -/
def kDy : List Int := [-1, 0, 1, 1, 0, -1]

/-- Whether the pattern `mask` of the test has a stone in the column `i` and
the row `j` of the five by five cells around the centre, which is at
`i = j = 2`: the bit `r` of the mask stands for the neighbour at
(`kDx[r]`, `kDy[r]`) from the centre. -/
def patternBit (mask i j : Nat) : Bool :=
  (List.range 6).any fun r =>
    mask.testBit r && decide (kDx.getD r 0 + 2 = (i : Int)) &&
      decide (kDy.getD r 0 + 2 = (j : Int))

/-- The stone mask `rows` holds, in the five by five cells around the cell
at (x, y), the stones of the pattern `mask` and no other stone. -/
def HoldsPattern (rows : Nat → Nat) (x y mask : Nat) : Prop :=
  ∀ i, i < 5 → ∀ j, j < 5 → (rows (y + j - 2)).testBit (x + i - 2) = patternBit mask i j

instance (rows : Nat → Nat) (x y mask : Nat) : Decidable (HoldsPattern rows x y mask) := by
  unfold HoldsPattern
  infer_instance

/-- The row `j` of the five by five cells of a pattern, as a number of five
bits. -/
def patternRow (mask j : Nat) : Nat :=
  (List.range 5).foldl (fun a i => a ||| ((patternBit mask i j).toNat <<< i)) 0

/-- The value of `Chain::GetRingMask` on the rows of the stone mask of a
chain. -/
def ringMask (rows : Nat → Nat) (x y : Nat) : Nat :=
  if closesAnyRing rows x y ≠ 0 then closesAnyRing rows x y ||| closesBenzeneRing rows x y
  else closesAnyRing rows x y

namespace ChainSet

/-- The method `ChainSet::ring`, with `Chain::ring`. -/
def ring (p ch : Nat) : M Bool := do
  let nv ← NewestVersion p ch
  let e ← readW (Loc.chainEcr p nv)
  pure (decide ((e >>> 12) &&& 1 ≠ 0))

end ChainSet

/-! ### The moves of a player on the chains -/

/-- The chains of a player: what `ChainView` holds, and the field
`num_stones_` of every chain. -/
structure Chains where
  view : ChainView
  num : Nat → Nat

/-- The chains of the `PlayerPosition` `p` in a state. -/
def State.chains (s : State) (p : Nat) : Chains where
  view := s.view p
  num := fun ch => s.mem (Loc.chainNumStones p ch)

/-- The value that `Chain::IsVictory` returns for a field
`edges_corners_ring_`. -/
def victoryOf (e : Nat) : Nat :=
  kFork * (if CountSetBits e ≥ 3 then 1 else 0) +
    kBridge * (if CountSetBits (e >>> 6) ≥ 2 then 1 else 0) +
    ((e >>> 12) &&& 3)

namespace Chains

/-- The chains after `Chain::AddStoneFast` or `Chain::AddStoneReversibly`
put the stone at (x, y) into the chain `ch`. -/
def addStone (c : Chains) (ch x y : Nat) : Chains where
  view := c.view.addStone ch x y
    (GetMaskOfEdgesAndCorners (XYToCell x y) ||| ringMask (c.view.rows ch) x y)
  num := fun k => if k = ch then (c.num ch + 1) % 4294967296 else c.num k

/-- The chains after `ChainSet::MergeChainsFast` or
`ChainSet::MergeChainsReversibly` merged the different chains `a`, which
holds the stone at (x, y), and `b` into a new last chain. -/
def merge (c : Chains) (a b x y : Nat) : Chains where
  view := c.view.merge a b (ringMask (c.view.rows b) x y)
  num := fun k => if k = c.view.size then (c.num a + c.num b) % 4294967296 else c.num k

/-- The chains after `ChainSet::MakeOneStoneChain` made a new last chain of
the stone at (x, y). -/
def single (c : Chains) (x y : Nat) : Chains where
  view := c.view.single x y
  num := fun k => if k = c.view.size then 1 else c.num k

/-- The chains after `chains_for_cells_[cell] = ch`. -/
def setCfc (c : Chains) (cell ch : Nat) : Chains :=
  { c with view := c.view.setCfc cell ch }

/-- The chains after `Chain::IsVictory` cleared the ring bits of `ch`. -/
def clearRing (c : Chains) (ch : Nat) : Chains :=
  { c with view := c.view.clearRing ch }

/-- What the loop `for (int j = 0; j < 6; ++j)` of
`PlayerPosition::MakeMoveFast` and of `PlayerPosition::MakeMoveReversibly`
does to the chains, from `j` on for `n` more neighbours: the last value of
`previous_chain` and the chains, or `none` when `chains_` is full at a
merge, where the method fails an `assert`. -/
def neighborLoop (cell x y : Nat) : Nat → Nat → Nat → Chains → Option (Nat × Chains)
  | 0, _, previous_chain, c => some (previous_chain, c)
  | n + 1, j, previous_chain, c =>
    let current_chain := c.view.cfc (NthNeighbor cell j)
    if current_chain = 0 then neighborLoop cell x y n (j + 1) previous_chain c
    else if previous_chain ≠ 0 then
      let previous_chain := c.view.newest previous_chain
      let current_chain := c.view.newest current_chain
      if previous_chain = current_chain then
        neighborLoop cell x y n (j + 1) current_chain c
      else if c.view.size < kChainNumLimit then
        neighborLoop cell x y n (j + 1) c.view.size
          (c.merge previous_chain current_chain x y)
      else none
    else
      let current_chain := c.view.newest current_chain
      neighborLoop cell x y n (j + 1) current_chain (c.addStone current_chain x y)

/-- The chains after the loop over the neighbours and the entry of the new
stone in `chains_for_cells_`, or `none` when the method fails an `assert`:
the cell is not an empty cell of the board, or `chains_` is full. -/
def placeStone (c : Chains) (cell : Nat) : Option Chains :=
  if LiesOnBoard (CellToX cell) (CellToY cell) = true ∧ cell < kNumCellsWithSentinels ∧
      c.view.cfc cell = 0 then
    match neighborLoop cell (CellToX cell) (CellToY cell) 6 0 0 c with
    | none => none
    | some (previous_chain, c₁) =>
      if previous_chain ≠ 0 then some (c₁.setCfc cell previous_chain)
      else if c₁.view.size < kChainNumLimit then
        some ((c₁.single (CellToX cell) (CellToY cell)).setCfc cell c₁.view.size)
      else none
  else none

/-- What `PlayerPosition::MakeMoveFast` and
`PlayerPosition::MakeMoveReversibly` return and do to the chains. -/
def makeMove (c : Chains) (cell : Nat) : Option (Nat × Chains) :=
  match c.placeStone cell with
  | none => none
  | some c₁ =>
    let ch := c₁.view.newest (c₁.view.cfc cell)
    some (victoryOf (c₁.view.ecr ch), c₁.clearRing ch)

end Chains

/-- The second cell is one of the six neighbours of the first. -/
def Adjacent (a b : Nat) : Prop := ∃ j, j < 6 ∧ b = NthNeighbor a j

namespace Chains

/-- The cells of the stone mask of a chain. -/
def cells (c : Chains) (ch : Nat) : List Nat :=
  (List.range kNumCellsWithSentinels).filter fun cell => c.view.inMask ch cell

/-- The bitwise OR of `GetMaskOfEdgesAndCorners` over the cells of the stone
mask of a chain. -/
def edgesOf (c : Chains) (ch : Nat) : Nat :=
  (c.cells ch).foldl (fun e cell => e ||| GetMaskOfEdgesAndCorners cell) 0

/-- Two cells are connected through a chain of adjacent stones of the
player. -/
def Linked (c : Chains) : Nat → Nat → Prop :=
  Relation.ReflTransGen fun a b => c.view.cfc a ≠ 0 ∧ c.view.cfc b ≠ 0 ∧ Adjacent a b

/-- The chains of a player between two moves: the invariant of the chains
holds, the stones lie on the board, the newest chains of adjacent stones are
the same, the stones of the stone mask of a newest chain are connected, and
every newest chain holds the number of its stones and the edges and corners
of its stones. -/
structure Good (c : Chains) : Prop where
  inv : c.view.Inv
  board : ∀ cell, c.view.cfc cell ≠ 0 →
    cell < kNumCellsWithSentinels ∧ LiesOnBoard (CellToX cell) (CellToY cell) = true
  adjacent : ∀ a b, c.view.cfc a ≠ 0 → c.view.cfc b ≠ 0 → Adjacent a b →
    c.view.newest (c.view.cfc a) = c.view.newest (c.view.cfc b)
  linked : ∀ a b, c.view.cfc a ≠ 0 → c.view.cfc b ≠ 0 →
    c.view.newest (c.view.cfc a) = c.view.newest (c.view.cfc b) → c.Linked a b
  count : ∀ ch, c.view.IsNewest ch → c.num ch = (c.cells ch).length
  edges : ∀ ch, c.view.IsNewest ch → c.view.ecr ch = c.edgesOf ch

/-- Two cells are connected through a chain of adjacent cells each of which
holds a stone of the player or is the cell of the move. -/
def LinkedWith (c : Chains) (cell : Nat) : Nat → Nat → Prop :=
  Relation.ReflTransGen fun a b =>
    (c.view.cfc a ≠ 0 ∨ a = cell) ∧ (c.view.cfc b ≠ 0 ∨ b = cell) ∧ Adjacent a b

/-- The chains of a player inside the loop over the neighbours of the cell
of a move, before the neighbour `j`. -/
structure LoopGood (c : Chains) (cell prev j : Nat) : Prop where
  loop : c.view.LoopInv cell prev
  cell_lt : cell < kNumCellsWithSentinels
  cell_board : LiesOnBoard (CellToX cell) (CellToY cell) = true
  board : ∀ a, c.view.cfc a ≠ 0 →
    a < kNumCellsWithSentinels ∧ LiesOnBoard (CellToX a) (CellToY a) = true
  adjacent : ∀ a b, c.view.cfc a ≠ 0 → c.view.cfc b ≠ 0 → Adjacent a b →
    c.view.newest (c.view.cfc a) = c.view.newest (c.view.cfc b)
  visited : ∀ i, i < j → c.view.cfc (NthNeighbor cell i) ≠ 0 →
    prev ≠ 0 ∧ c.view.newest (c.view.cfc (NthNeighbor cell i)) = prev
  linked : ∀ ch, c.view.IsNewest ch → ∀ a b, a < kNumCellsWithSentinels →
    b < kNumCellsWithSentinels → c.view.inMask ch a = true → c.view.inMask ch b = true →
    c.LinkedWith cell a b
  count : ∀ ch, c.view.IsNewest ch → c.num ch = (c.cells ch).length
  edges : ∀ ch, c.view.IsNewest ch → ∀ i, i < 12 →
    (c.view.ecr ch).testBit i = (c.edgesOf ch).testBit i

end Chains

/-- The chain set of the test `ChainSet_sets_thin_ring_correctly` for the
pattern 5: two chains of the stone at (15, 15), and in the first of them the
neighbours 0 and 2 of the cell in the middle of the board. -/
def thinRingState : State :=
  ((do
    let index1 ← ChainSet.MakeOneStoneChain 0 15 15
    let _ ← ChainSet.MakeOneStoneChain 0 15 15
    ChainSet.AddStoneToChainReversibly 0 kMiddleColumn (kMiddleRow - 1) index1
    ChainSet.AddStoneToChainReversibly 0 (kMiddleColumn - 1) (kMiddleRow + 1) index1 : M Unit)
    State.init).state State.init

/-- The states that the `PlayerPosition` `p` reaches from its construction
by a sequence of calls of `MakeMoveFast` and `MakeMoveReversibly` that
return: the asserts of both methods demand an empty cell on the board. -/
inductive PlayerMoved (p : Nat) : State → Prop where
  | init : PlayerMoved p State.init
  | fast {s s' : State} {cell r : Nat} :
      PlayerMoved p s →
      PlayerPosition.MakeMoveFast p cell s = Res.ok r s' → PlayerMoved p s'
  | reversibly {s s' : State} {cell r : Nat} :
      PlayerMoved p s →
      PlayerPosition.MakeMoveReversibly p cell s = Res.ok r s' → PlayerMoved p s'

namespace Chains

/-- The number of edges of the board, the bits 0 to 5 of
`GetMaskOfEdgesAndCorners`, that the stones of the stone mask of a chain
lie on. -/
def edgeCount (c : Chains) (ch : Nat) : Nat :=
  ((List.range 6).filter fun i =>
    (c.cells ch).any fun cell => (GetMaskOfEdgesAndCorners cell).testBit i).length

/-- The number of corners of the board, the bits 6 to 11 of
`GetMaskOfEdgesAndCorners`, that the stones of the stone mask of a chain
lie on. -/
def cornerCount (c : Chains) (ch : Nat) : Nat :=
  ((List.range 6).filter fun i =>
    (c.cells ch).any fun cell => (GetMaskOfEdgesAndCorners cell).testBit (6 + i)).length

end Chains

/-- The state after the fast move at (12, 2), a cell of the edge 0, in the
initial state. -/
def edgeState₁ : State :=
  (PlayerPosition.MakeMoveFast 0 (XYToCell 12 2) State.init).state State.init

/-- The state after the reversible move at (11, 3) that follows. -/
def edgeState₂ : State :=
  (PlayerPosition.MakeMoveReversibly 0 (XYToCell 11 3) edgeState₁).state State.init

/-- The state after the fast move at (10, 3), a cell of the edge 1, that
follows. -/
def edgeState₃ : State :=
  (PlayerPosition.MakeMoveFast 0 (XYToCell 10 3) edgeState₂).state State.init

/-- The state after fast moves of one player on the first `n` neighbours
of the cell (11, 11), in the initial state. -/
def hexagonMoves : Nat → State
  | 0 => State.init
  | n + 1 =>
    (PlayerPosition.MakeMoveFast 0 (NthNeighbor (XYToCell 11 11) n) (hexagonMoves n)).state
      State.init

/-- The state with stones of one player on the six neighbours of the cell
(11, 11). -/
def hexagonState : State := hexagonMoves 6

/-! ### havannah.cc: the names of the cells

A `std::string` is the list of its `char`s; a `char` is a number from -128
to 127, as on the platforms where `char` is signed. -/

/-- The element `cell[i]` of a `const std::string`: the element at `size()`
is `'\0'`, and an index above `size()` has no defined value. -/
def charAt (s : List Int) (i : Nat) : Except Err Int :=
  if i < s.length then pure (s.getD i 0)
  else if i = s.length then pure 0
  else throw Err.outOfBounds

/-- The function `ConvertCellToCoordinates` of havannah.cc: `none` when it
returns `false`, else the values of `*x` and `*y`. The characters `'a'` and
`'0'` are 97 and 48. -/
def ConvertCellToCoordinates (cell : List Int) : Except Err (Option (Int × Int)) := do
  let c0 ← charAt cell 0
  let x := c0 - 97
  let c1 ← charAt cell 1
  let y := c1 - 48
  if y ≤ 0 ∨ y > 9 then pure none
  else do
    let c2 ← charAt cell 2
    if c2 ≠ 0 then do
      let y := 10 * y + c2 - 48
      let c3 ← charAt cell 3
      if c3 ≠ 0 then pure none else pure (some (x, y))
    else pure (some (x, y))

/-- The enumerator `kZerothCell` of `Cell`. -/
def kZerothCell : Nat := 0

/-- The function `FromClassicalString`. -/
def FromClassicalString (cell : List Int) : Except Err Nat := do
  let r ← ConvertCellToCoordinates cell
  match r with
  | none => pure kZerothCell
  | some (xx, yy) =>
    let x : Int := kGapLeft + xx
    let y : Int := kPastRows - yy
    if !LiesOnBoard x y then pure kZerothCell
    else pure (XYToCell x.toNat y.toNat)

/-- The function `FromLittleGolemString`. -/
def FromLittleGolemString (cell : List Int) : Except Err Nat := do
  let r ← ConvertCellToCoordinates cell
  match r with
  | none => pure kZerothCell
  | some (xx, yy) =>
    let y : Int :=
      if xx < SIDE_LENGTH then kPastRows - yy
      else kGapAround + 3 * SIDE_LENGTH - 2 - xx - yy
    let x : Int := kGapLeft + xx
    if !LiesOnBoard x y then pure kZerothCell
    else pure (XYToCell x.toNat y.toNat)

/-- The function `FromString`; the argument `lg` is the global variable
`g_use_lg_coordinates`. -/
def FromString (lg : Bool) (cell : List Int) : Except Err Nat :=
  if lg then FromLittleGolemString cell else FromClassicalString cell

/-- What `printf` prints for `%d` and a number that is not negative: its
decimal digits. -/
def printDecimal (n : Nat) : List Int := (Nat.toDigits 10 n).map fun c => (c.toNat : Int)

/-- What `printf` prints for `%c`: the argument as an `unsigned char`, read
as a `char`. -/
def printChar (c : Int) : Int := (c + 128) % 256 - 128

/-- The function `ToClassicalString(XCoord, YCoord)`. -/
def ToClassicalStringXY (x y : Int) : Except Err (List Int) :=
  if !LiesOnBoard x y then pure []
  else
    let xx := x - kGapLeft
    let yy := kPastRows - y
    if 0 < yy ∧ yy < 100 then pure (printChar (97 + xx) :: printDecimal yy.toNat)
    else throw Err.assertFailed

/-- The function `ToLittleGolemString(XCoord, YCoord)`. -/
def ToLittleGolemStringXY (x y : Int) : Except Err (List Int) :=
  if !LiesOnBoard x y then pure []
  else
    let xx := x - kGapLeft
    let yy : Int :=
      if xx < SIDE_LENGTH then kPastRows - y
      else kGapAround + 3 * SIDE_LENGTH - 2 - xx - y
    if 0 < yy ∧ yy < 100 then pure (printChar (97 + xx) :: printDecimal yy.toNat)
    else throw Err.assertFailed

/-- The function `ToClassicalString(Cell)`. -/
def ToClassicalString (cell : Nat) : Except Err (List Int) :=
  ToClassicalStringXY (CellToX cell) (CellToY cell)

/-- The function `ToLittleGolemString(Cell)`. -/
def ToLittleGolemString (cell : Nat) : Except Err (List Int) :=
  ToLittleGolemStringXY (CellToX cell) (CellToY cell)

/-- The function `ToString(Cell)`. -/
def ToString (lg : Bool) (cell : Nat) : Except Err (List Int) :=
  if lg then ToLittleGolemString cell else ToClassicalString cell

/-- Whether a conversion to a string returns a string that is not empty and
that the conversion from a string turns back into the cell. -/
def namesCell (to_ : Nat → Except Err (List Int)) (from_ : List Int → Except Err Nat)
    (cell : Nat) : Bool :=
  match to_ cell with
  | Except.ok s =>
    !s.isEmpty && (match from_ s with
      | Except.ok c => decide (c = cell)
      | Except.error _ => false)
  | Except.error _ => false

/-! ### mcts.cc: the two most simulated kids -/

/-- The struct `MoveInfo` of mcts.h. -/
structure MoveInfo (F : Type) where
  move : Int
  num_simulations : Int
  win_ratio : F

/-- The operations on `float` and the constants of type `float` that
`GetNodeWinRatio` and `GetTwoMostSimulatedKids` use. -/
structure RatioOps (F : Type) where
  /-- The macro `NAN`. -/
  nan : F
  /-- The constant `0.5f`. -/
  half : F
  /-- The constant `1.0f`. -/
  one : F
  /-- The constant `10000.0f`. -/
  tenThousand : F
  /-- The conversion of an `int` to `float`. -/
  ofInt : Int → F
  /-- The sum of two `float`s. -/
  add : F → F → F
  /-- The difference of two `float`s. -/
  sub : F → F → F
  /-- The product of two `float`s. -/
  mul : F → F → F
  /-- The quotient of two `float`s. -/
  div : F → F → F

/-- The function `GetAdjustedNumSimulations` of mcts.cc. -/
def GetAdjustedNumSimulations (node : MctsNode) : Int :=
  let ucb_reward := node.ucb_reward_
  if ResultIsForced ucb_reward then ucb_reward
  else wrapInt32 (ucb_reward + node.ucb_num_simulations_)

/-- The function `GetNodeWinRatio` of mcts.cc. -/
def GetNodeWinRatio {F : Type} (fl : RatioOps F) (node : MctsNode) : F :=
  if node.HasForcedDefeat then fl.div (fl.ofInt (DefeatToPlies node.ucb_reward_)) fl.tenThousand
  else if node.HasForcedDraw then fl.half
  else if node.HasForcedVictory then
    fl.sub fl.one (fl.div (fl.ofInt (VictoryToPlies node.ucb_reward_)) fl.tenThousand)
  else
    fl.add fl.half
      (fl.div (fl.mul fl.half (fl.ofInt node.ucb_reward_)) (fl.ofInt node.ucb_num_simulations_))

namespace TranspositionTable

/-- The loop of `TranspositionTable::GetTwoMostSimulatedKids`, from `move` on
for `n` more moves, on the hash map `nodes`; the pair holds `*kid_1` and
`*kid_2`. -/
def twoKidsLoop {F : Type} (fl : RatioOps F) (L : Nat) (kZobristHash : Nat → Nat → Nat)
    (nodes : WaitFreeHashMap) (position_hash : Nat) (player : Player) :
    Nat → Nat → MoveInfo F × MoveInfo F → Except Err (MoveInfo F × MoveInfo F)
  | 0, _, kids => pure kids
  | n + 1, move, (kid_1, kid_2) =>
    if move < kNumMovesOnBoard then
      let kid_position_hash := ModifyZobristHash kZobristHash position_hash player move
      match WaitFreeHashMap.FindValue L nodes kid_position_hash with
      | Outcome.slot kid =>
        let num_simulations := GetAdjustedNumSimulations (nodes.values kid)
        if num_simulations > INT_MIN then
          if num_simulations > kid_1.num_simulations then
            twoKidsLoop fl L kZobristHash nodes position_hash player n (move + 1)
              (⟨move, num_simulations, GetNodeWinRatio fl (nodes.values kid)⟩, kid_1)
          else if num_simulations > kid_2.num_simulations then
            twoKidsLoop fl L kZobristHash nodes position_hash player n (move + 1)
              (kid_1, ⟨move, num_simulations, GetNodeWinRatio fl (nodes.values kid)⟩)
          else twoKidsLoop fl L kZobristHash nodes position_hash player n (move + 1)
            (kid_1, kid_2)
        else throw Err.assertFailed
      | Outcome.null =>
        twoKidsLoop fl L kZobristHash nodes position_hash player n (move + 1) (kid_1, kid_2)
      | Outcome.assertFailed => throw Err.assertFailed
      | Outcome.loopsForever => throw Err.outOfFuel
    else throw Err.outOfBounds

/-- The method `TranspositionTable::GetTwoMostSimulatedKids`: the values of
`*kid_1` and `*kid_2` after the call. -/
def GetTwoMostSimulatedKids {F : Type} (fl : RatioOps F) (L : Nat)
    (kZobristHash : Nat → Nat → Nat) (nodes : WaitFreeHashMap) (position_hash : Nat)
    (player : Player) (move_count : Int) : Except Err (MoveInfo F × MoveInfo F) :=
  twoKidsLoop fl L kZobristHash nodes position_hash player move_count.toNat 0
    (⟨kInvalidMove, INT_MIN, fl.nan⟩, ⟨kInvalidMove, INT_MIN, fl.nan⟩)

/-- The adjusted number of simulations of the kid of a move, when
`FindNode` finds the kid. -/
def adjustedOfKid (L : Nat) (kZobristHash : Nat → Nat → Nat) (nodes : WaitFreeHashMap)
    (position_hash : Nat) (player : Player) (move : Nat) : Option Int :=
  match WaitFreeHashMap.FindValue L nodes
      (ModifyZobristHash kZobristHash position_hash player move) with
  | Outcome.slot kid => some (GetAdjustedNumSimulations (nodes.values kid))
  | _ => none

/-- What the loop of `GetTwoMostSimulatedKids` keeps, before the move `j`:
`kid_1` is the best of the kids of the moves before `j` and `kid_2` the best
of the others; `adj` gives the adjusted number of simulations of the kid of
a move that has one. -/
structure Best {F : Type} (adj : Nat → Option Int) (j : Nat) (kid_1 kid_2 : MoveInfo F) :
    Prop where
  none1 : kid_1.move = kInvalidMove →
    kid_1.num_simulations = INT_MIN ∧ ∀ m, m < j → adj m = none
  some1 : kid_1.move ≠ kInvalidMove →
    ∃ m : Nat, kid_1.move = m ∧ m < j ∧ adj m = some kid_1.num_simulations ∧
      ∀ m', m' < j → ∀ a, adj m' = some a → a ≤ kid_1.num_simulations
  none2 : kid_2.move = kInvalidMove →
    kid_2.num_simulations = INT_MIN ∧ ∀ m, m < j → adj m ≠ none → (m : Int) = kid_1.move
  some2 : kid_2.move ≠ kInvalidMove →
    kid_1.move ≠ kInvalidMove ∧
    ∃ m : Nat, kid_2.move = m ∧ m < j ∧ (m : Int) ≠ kid_1.move ∧
      adj m = some kid_2.num_simulations ∧
      ∀ m', m' < j → (m' : Int) ≠ kid_1.move → ∀ a, adj m' = some a →
        a ≤ kid_2.num_simulations
  le : kid_2.num_simulations ≤ kid_1.num_simulations

end TranspositionTable

/-- Operations for the examples on the integers in the place of `float`,
with 0 for `NAN` and for the constants. -/
def exampleRatio : RatioOps Int where
  nan := 0
  half := 0
  one := 0
  tenThousand := 0
  ofInt := fun z => z
  add := fun a b => a + b
  sub := fun a b => a - b
  mul := fun a b => a * b
  div := fun a b => Int.tdiv a b

/-- A hash map of 1024 slots with the kids of the moves 3, 5 and 8 of Black
in the position of the hash 0, for the Zobrist hash `2 * move + player + 1`:
their adjusted numbers of simulations are 7, 12 and 9. -/
def threeKids : WaitFreeHashMap :=
  let m := (WaitFreeHashMap.InsertKey 10 WaitFreeHashMap.Clear 8).2
  let m := (WaitFreeHashMap.InsertKey 10 m 12).2
  let m := (WaitFreeHashMap.InsertKey 10 m 18).2
  { m with
    values := fun n =>
      if n = 8 then { MctsNode.Init with ucb_reward_ := 2, ucb_num_simulations_ := 5 }
      else if n = 12 then { MctsNode.Init with ucb_reward_ := 2, ucb_num_simulations_ := 10 }
      else if n = 18 then { MctsNode.Init with ucb_reward_ := -1, ucb_num_simulations_ := 10 }
      else MctsNode.Init }

/-- The states that the chain set `p` reaches from its construction by
`MakeOneStoneChain`, `AddStoneToChainFast`, `AddStoneToChainReversibly`,
`MergeChainsFast`, `MergeChainsReversibly` and `Memento::UndoAll` in any
order. The calls are those that return, and the reversible ones share the
one `Memento` of the state. -/
inductive ChainSetReach (p : Nat) : State → Prop where
  | init : ChainSetReach p State.init
  | one {s s' : State} {x y r : Nat} :
      ChainSetReach p s →
      ChainSet.MakeOneStoneChain p x y s = Res.ok r s' → ChainSetReach p s'
  | addFast {s s' : State} {x y ch : Nat} :
      ChainSetReach p s →
      ChainSet.AddStoneToChainFast p x y ch s = Res.ok () s' → ChainSetReach p s'
  | addReversibly {s s' : State} {x y ch : Nat} :
      ChainSetReach p s →
      ChainSet.AddStoneToChainReversibly p x y ch s = Res.ok () s' → ChainSetReach p s'
  | mergeFast {s s' : State} {x y chain1 chain2 r : Nat} :
      ChainSetReach p s →
      ChainSet.MergeChainsFast p x y chain1 chain2 s = Res.ok r s' → ChainSetReach p s'
  | mergeReversibly {s s' : State} {x y chain1 chain2 r : Nat} :
      ChainSetReach p s →
      ChainSet.MergeChainsReversibly p x y chain1 chain2 s = Res.ok r s' → ChainSetReach p s'
  | undo {s : State} : ChainSetReach p s → ChainSetReach p s.undoAll

/-- The states that the chain set `p` reaches when `Memento::RememberSize`
is called for it as well, so that `UndoAll` shrinks it, and
`MergeChainsFast`, which records nothing, is called only while the `Memento`
holds no size of the chain set. -/
inductive ChainSetReachSized (p : Nat) : State → Prop where
  | init : ChainSetReachSized p State.init
  | one {s s' : State} {x y r : Nat} :
      ChainSetReachSized p s →
      ChainSet.MakeOneStoneChain p x y s = Res.ok r s' → ChainSetReachSized p s'
  | addFast {s s' : State} {x y ch : Nat} :
      ChainSetReachSized p s →
      ChainSet.AddStoneToChainFast p x y ch s = Res.ok () s' → ChainSetReachSized p s'
  | addReversibly {s s' : State} {x y ch : Nat} :
      ChainSetReachSized p s →
      ChainSet.AddStoneToChainReversibly p x y ch s = Res.ok () s' → ChainSetReachSized p s'
  | mergeFast {s s' : State} {x y chain1 chain2 r : Nat} :
      ChainSetReachSized p s → (∀ e ∈ s.memento.sizes_, e.1 ≠ p) →
      ChainSet.MergeChainsFast p x y chain1 chain2 s = Res.ok r s' → ChainSetReachSized p s'
  | mergeReversibly {s s' : State} {x y chain1 chain2 r : Nat} :
      ChainSetReachSized p s →
      ChainSet.MergeChainsReversibly p x y chain1 chain2 s = Res.ok r s' →
      ChainSetReachSized p s'
  | rememberSize {s : State} : ChainSetReachSized p s → ChainSetReachSized p (s.rememberSize p)
  | undo {s : State} : ChainSetReachSized p s → ChainSetReachSized p s.undoAll

/-- The invariant of the links `newer_version_` of the chain set `p`: they
lead upwards; every remembered word of a `newer_version_` holds 0; and
below every remembered size of the chain set the links whose word is not
remembered lead upwards below that size, which is at most the size of the
chain set. -/
structure Forwarding (p : Nat) (s : State) : Prop where
  up : Upward (s.newer p) (s.size p)
  zero : ∀ e ∈ s.memento.words_, ∀ ch, e.1 = Loc.chainNewer p ch → getByte e.2 0 = 0
  low : ∀ e ∈ s.memento.sizes_, e.1 = p → ∀ ch, 0 < ch → ch < e.2 →
    Loc.chainNewer p ch ∉ s.memento.words_.map Prod.fst →
    s.newer p ch = 0 ∨ (ch < s.newer p ch ∧ s.newer p ch < e.2)
  le : ∀ e ∈ s.memento.sizes_, e.1 = p → e.2 ≤ s.size p

/-- The state of the chain set 0 after `MakeOneStoneChain` for the stone at
(11, 11). -/
def chainSetState₁ : State :=
  (ChainSet.MakeOneStoneChain 0 11 11 State.init).state State.init

/-- The state after `MakeOneStoneChain` for the stone at (12, 11) that
follows. -/
def chainSetState₂ : State :=
  (ChainSet.MakeOneStoneChain 0 12 11 chainSetState₁).state State.init

/-- The state after `MergeChainsReversibly` has merged the chain 2, of the
stone at (12, 11), with the chain 1 into the chain 3. -/
def chainSetState₃ : State :=
  (ChainSet.MergeChainsReversibly 0 12 11 2 1 chainSetState₂).state State.init

/-- The state after `AddStoneToChainFast` has added a stone at (13, 11) to
the chain 3. -/
def chainSetState₄ : State :=
  (ChainSet.AddStoneToChainFast 0 13 11 3 chainSetState₃).state State.init

/-- The state in which the size of the chain set 0, with its chains 1 and
2, has been remembered, the two chains have been merged by `MergeChainsFast`
and `UndoAll` has been called. -/
def shrunkChainSet : State :=
  ((ChainSet.MergeChainsFast 0 12 11 2 1 (chainSetState₂.rememberSize 0)).state
    State.init).undoAll

/-! ### havannah.cc: the canonical ordering of `RingDB::VerifyCycle` -/

namespace RingDB

/-- The test of the canonical ordering at the start of `RingDB::VerifyCycle`,
on `path_` and `bridges_`: whether the method goes on after it. It returns
when `path_[1] > path_.back()`, for more than two nodes, and when
`bridges_[0].first > bridges_[1].first`, for two. -/
def canonicalOrdering (path : List Nat) (bridges : List (Nat × Nat)) : Bool :=
  if path.length > 2 then !decide (path.getD 1 0 > path.getLastD 0)
  else if path.length = 2 then
    !decide ((bridges.getD 0 (0, 0)).1 > (bridges.getD 1 (0, 0)).1)
  else true

/-- The part of `RingDB::VerifyCycle` after the test of the canonical
ordering, with `path_` and `bridges_` as the method found them. -/
def recordCycle (moveIndex : Nat → Int) (p : Nat) (aux : RingAux) : M Unit := do
  let size := aux.path_.length
  ChainSet.deref p (aux.path_.getD 0 0)
  let rows ← readChainRows p (aux.path_.getD 0 0)
  let stones := stonesSet rows (aux.bridges_.getD 0 (0, 0)).1
  let stones := stonesSet stones (aux.bridges_.getD 0 (0, 0)).2
  let stones ← fillLoop p (aux.path_.drop 1) (aux.bridges_.drop 1) stones
  let stones ← peelLoop (kNumCellsWithSentinels + 1) stones
  modifyRing p (fun a => { a with stones_ := stones })
  let all := boardRows.foldl (fun acc y => acc ||| stones y) 0
  if all = 0 then pure ()
  else do
    let top ← readW (Loc.ringFramesTop p)
    let ring_frame_index := toInt32 ((top : Int) - (ring_frames_ : Int))
    assert (decide (ring_frame_index < (kMaxNumRingFrames : Int)))
    Memento.Remember (Loc.ringFramesTop p)
    Memento.Remember (Loc.arenaTop p)
    let q ← Arena.Allocate p (2 * size + 1)
    Arena.set p top q
    writeW (Loc.ringFramesTop p) ((top + 1) % 4294967296)
    Arena.set p q size
    recordLoop moveIndex p ring_frame_index aux.bridges_ q

end RingDB

/-! ### The circuits of the chain graph, enumerated by brute force -/

namespace RingDB

/-- The two-bridges in a list of the chain graph, from the record `q` on: for
every record the chain at the other end and the two cells. The list is
followed for at most `fuel` records. -/
def twoBridgesFrom (s : State) (p : Nat) : Nat → Nat → List (Nat × Nat × Nat)
  | 0, _ => []
  | fuel + 1, q =>
    if q = 0 then []
    else
      (s.mem (Loc.arena p (q + kCgChain)) % kChainNumLimit,
        s.mem (Loc.arena p (q + kCgCell0)), s.mem (Loc.arena p (q + kCgCell1))) ::
        twoBridgesFrom s p fuel (s.mem (Loc.arena p q))

/-- The two-bridges of a chain in the chain graph, in the order of its
list. -/
def twoBridges (s : State) (p node : Nat) : List (Nat × Nat × Nat) :=
  twoBridgesFrom s p (s.mem (Loc.arenaTop p) + 1) (s.mem (Loc.arena p (chain_graph_ + node)))

/-- The enumeration by brute force of the circuits through `start_node` that
go on from `this_node`, the last node of `path`: a two-bridge is followed
when none of its cells is a cell of a two-bridge of `bridges`, and then it
closes a circuit, when it leads to `start_node`, or leads to a node that is
not on `path`, from which the enumeration goes on. A circuit is listed with
its nodes and its two-bridges, once for each direction. -/
def circuitsFrom (s : State) (p start_node : Nat) :
    Nat → Nat → List Nat → List (Nat × Nat) → List (List Nat × List (Nat × Nat))
  | 0, _, _, _ => []
  | depth + 1, this_node, path, bridges =>
    (twoBridges s p this_node).foldl (fun found e =>
      if bridges.any (fun b => b.1 = e.2.1 ∨ b.2 = e.2.1 ∨ b.1 = e.2.2 ∨ b.2 = e.2.2) then found
      else if e.1 = start_node then found ++ [(path, bridges ++ [e.2])]
      else if e.1 ∈ path then found
      else found ++
        circuitsFrom s p start_node depth e.1 (path ++ [e.1]) (bridges ++ [e.2])) []

/-- The circuits through `start_node` in which no cell occurs in more than
one two-bridge. No circuit has more nodes than `kChainNumLimit`. -/
def circuits (s : State) (p start_node : Nat) : List (List Nat × List (Nat × Nat)) :=
  circuitsFrom s p start_node (kChainNumLimit + 1) start_node [start_node] []

/-- The state in which `FindNewCyclesReversibly` calls `FindCycles`: the
sets `b_sets_` are empty and no chain is blocked. -/
def cleared (s : State) (p : Nat) : State :=
  s.modifyRing p (fun a => { a with b_sets_ := fun _ => [], blocked_ := fun _ => false })

/-- The state in which `FindCycles` calls `VerifyCycle` for a circuit. -/
def withCircuit (s : State) (p : Nat) (path : List Nat) (bridges : List (Nat × Nat)) :
    State :=
  s.modifyRing p (fun a => { a with path_ := path, bridges_ := bridges })

end RingDB

/-- Three calls of `RingDB::AddTwoBridgeReversibly` for the chains 6 and 5 of
White, as for a row of three stones at (11, 10), (12, 10), (13, 10) and a
row of three stones at (10, 12), (11, 12), (12, 12) two rows below it: the
two-bridge through the cells 364 and 365, that is (12, 11) and (13, 11), the
one through 362 and 363, and last the one in the middle, through 363 and
364. -/
def facingRowsBridges : M Unit := do
  RingDB.AddTwoBridgeReversibly 0 364 365 6 5
  RingDB.AddTwoBridgeReversibly 0 362 363 6 5
  RingDB.AddTwoBridgeReversibly 0 363 364 6 5

/-- The state after the calls of `facingRowsBridges` in the start
position. -/
def facingRowsState : State := (facingRowsBridges State.start).state State.start

/-! ### havannah.cc: permanent moves

A `Position` owns, besides the words of memory of the state, the stack of
the `Memento`s of its permanent moves, the list of these moves and two
counters. The tables `kMoveIndexToCell` and `kCellToMoveIndex` are static
members of the class, which `MakePermanentMove` permutes; they are kept with
the one `Position` that the program makes permanent moves in. -/

namespace PlayerPosition

/-- The loop of `PlayerPosition::UpdateChainsToNewestVersionsReversibly` over
the cells from `cell` on, `n` of them. -/
def updateChainsLoop (p : Nat) : Nat → Nat → M Unit
  | 0, _ => pure ()
  | n + 1, cell => do
    let chain ← chain_for_cell p cell
    (if chain ≠ 0 then do
        let newest_version ← ChainSet.NewestVersion p chain
        if newest_version ≠ chain then do
          Memento.RememberByte (Loc.chainsForCells p) cell
          writeByte (Loc.chainsForCells p) cell newest_version
        else pure ()
      else pure ())
    updateChainsLoop p n (cell + 1)

/-- The method `PlayerPosition::UpdateChainsToNewestVersionsReversibly`. -/
def UpdateChainsToNewestVersionsReversibly (p : Nat) : M Unit :=
  updateChainsLoop p kNumCellsWithSentinels 0

end PlayerPosition

/-- The class `Position`: the words of memory and the containers of the
state, the vectors `mementoes_` and `past_moves_`, the counters
`move_count_` and `num_available_moves_`, the flag `is_initialized_`, and
the static tables `kMoveIndexToCell` and `kCellToMoveIndex`. -/
structure Position where
  state : State
  mementoes_ : List Memento
  past_moves_ : List (Player × Nat)
  move_count_ : Int
  num_available_moves_ : Int
  is_initialized_ : Bool
  kMoveIndexToCell : Nat → Nat
  kCellToMoveIndex : Nat → Int

/-- The method `std::vector::resize` with the value `d` for new elements. -/
def resize {α : Type} (xs : List α) (n : Nat) (d : α) : List α :=
  xs.take n ++ List.replicate (n - xs.length) d

/-- The function `std::swap` on the elements `i` and `j` of an array. -/
def swapAt {α : Type} (f : Nat → α) (i j : Nat) : Nat → α :=
  Function.update (Function.update f i (f j)) j (f i)

namespace Position

/-- The `Position` after its construction and `InitToStartPosition`. -/
def start : Position where
  state := State.start
  mementoes_ := []
  past_moves_ := []
  move_count_ := 0
  num_available_moves_ := kNumMovesOnBoard
  is_initialized_ := true
  kMoveIndexToCell := kConstMoveIndexToCell
  kCellToMoveIndex := kConstCellToMoveIndex

/-- The statements of `Position::MakePermanentMove` that are given the new
`Memento`: those of `Position::MakeMoveReversibly` with the call of
`UpdateChainsToNewestVersionsReversibly` among them. -/
def permanentMove (moveIndex : Nat → Int) (player : Player) (cell : Nat) : M Nat := do
  let e ← CellIsEmpty cell
  assert e
  Memento.RememberByte Loc.cells cell
  writeByte Loc.cells cell (player.toNat + 1)
  let our := player.toNat
  let foe := (Opponent player).toNat
  PlayerPosition.RemoveTwoBridgesBeforeOurMoveOrAfterFoeMoveReversibly moveIndex our cell
  let result ← PlayerPosition.MakeMoveReversibly our cell
  PlayerPosition.CreateTwoBridgesAfterOurMoveReversibly our foe cell
  PlayerPosition.FindNewRingFramesReversibly moveIndex our
  PlayerPosition.UpdateChainsToNewestVersionsReversibly our
  PlayerPosition.RemoveTwoBridgesBeforeOurMoveOrAfterFoeMoveReversibly moveIndex foe cell
  pure result

/-- The method `Position::MakePermanentMove`. The new `Memento` is pushed
onto `mementoes_`; `past_moves_.resize(move_count_)` fails for a negative
count, and the accesses to the two tables are checked. -/
def MakePermanentMove (player : Player) (cell : Nat) (P : Position) :
    Except Err (Nat × Position) :=
  if !P.is_initialized_ then throw Err.assertFailed
  else
    match permanentMove P.kCellToMoveIndex player cell
      { P.state with memento := Memento.empty } with
    | Res.fail e => throw e
    | Res.ok result s =>
      if P.move_count_ < 0 then throw Err.outOfBounds
      else
        let past_moves :=
          resize P.past_moves_ P.move_count_.toNat (Player.kWhite, kZerothCell) ++
            [(player, cell)]
        let num_available_moves := P.num_available_moves_ - 1
        if num_available_moves < 0 ∨ num_available_moves ≥ kNumMovesOnBoard then
          throw Err.outOfBounds
        else
          let swapped_cell := P.kMoveIndexToCell num_available_moves.toNat
          let move := P.kCellToMoveIndex cell
          if swapped_cell ≥ kNumCellsWithSentinels then throw Err.outOfBounds
          else if move < 0 ∨ move ≥ kNumMovesOnBoard then throw Err.outOfBounds
          else
            pure (result,
              { state := { s with memento := Memento.empty }
                mementoes_ := P.mementoes_ ++ [s.memento]
                past_moves_ := past_moves
                move_count_ := P.move_count_ + 1
                num_available_moves_ := num_available_moves
                is_initialized_ := P.is_initialized_
                kMoveIndexToCell :=
                  swapAt P.kMoveIndexToCell move.toNat num_available_moves.toNat
                kCellToMoveIndex := swapAt P.kCellToMoveIndex cell swapped_cell })

/-- The `Position` that `MakePermanentMove` returns when its statements end
in the state `s`, whose `Memento` is then pushed onto `mementoes_`. -/
def moved (player : Player) (cell : Nat) (P : Position) (s : State) : Position where
  state := { s with memento := Memento.empty }
  mementoes_ := P.mementoes_ ++ [s.memento]
  past_moves_ :=
    resize P.past_moves_ P.move_count_.toNat (Player.kWhite, kZerothCell) ++ [(player, cell)]
  move_count_ := P.move_count_ + 1
  num_available_moves_ := P.num_available_moves_ - 1
  is_initialized_ := P.is_initialized_
  kMoveIndexToCell :=
    swapAt P.kMoveIndexToCell (P.kCellToMoveIndex cell).toNat (P.num_available_moves_ - 1).toNat
  kCellToMoveIndex :=
    swapAt P.kCellToMoveIndex cell (P.kMoveIndexToCell (P.num_available_moves_ - 1).toNat)

/-- The `Position` after a `MakePermanentMove` in which
`UpdateChainsToNewestVersionsReversibly` has nothing to rewrite, every chain
of the player being its own newest version: the state is the one that the
statements of `MakeMoveReversibly` end in. -/
def quietMove (player : Player) (cell : Nat) (P : Position) : Position :=
  moved player cell P
    ((MakeMoveReversibly P.kCellToMoveIndex player cell
      { P.state with memento := Memento.empty }).state P.state)

/-- The method `Position::UndoPermanentMove`. -/
def UndoPermanentMove (P : Position) : Except Err (Bool × Position) :=
  if !P.is_initialized_ then throw Err.assertFailed
  else
    match P.mementoes_.getLast? with
    | none => pure (false, P)
    | some memento =>
      match P.past_moves_.getLast? with
      | none => throw Err.outOfBounds
      | some move =>
        if P.num_available_moves_ < 0 ∨ P.num_available_moves_ ≥ kNumMovesOnBoard then
          throw Err.outOfBounds
        else if move.2 ≠ P.kMoveIndexToCell P.num_available_moves_.toNat then
          throw Err.assertFailed
        else
          pure (true,
            { P with
              state := State.undoAll { P.state with memento := memento }
              mementoes_ := P.mementoes_.dropLast
              past_moves_ := P.past_moves_.dropLast
              num_available_moves_ := P.num_available_moves_ + 1
              move_count_ := P.move_count_ - 1 })

/-- The method `Position::MoveNPliesAgo`; the difference is computed in
`unsigned long` and converted to `int`, and `at` checks its index. -/
def MoveNPliesAgo (plies : Int) (P : Position) : Except Err Nat :=
  if !P.is_initialized_ then throw Err.assertFailed
  else
    let n := wrapInt32 ((P.past_moves_.length : Int) - plies - 1)
    if n ≥ 0 then
      if n.toNat < P.past_moves_.length then
        pure (P.past_moves_.getD n.toNat (Player.kWhite, kZerothCell)).2
      else throw Err.outOfBounds
    else pure kBoardCenter

end Position

/-! ### controller.cc: making a move -/

/-- The enumerators `kNoneWon`, `kWhiteWon`, `kDraw`, `kBlackWon` of
controller.h. -/
def kNoneWon : Int := 0
/-- The enumerator `kWhiteWon`. -/
def kWhiteWon : Int := 1
/-- The enumerator `kDraw`. -/
def kDraw : Int := 2
/-- The enumerator `kBlackWon`. -/
def kBlackWon : Int := 3

/-- The string `pass`. -/
def passString : List Int := [112, 97, 115, 115]

/-- The string `swap`. -/
def swapString : List Int := [115, 119, 97, 112]

/-- The fields of a `Controller` that `Controller::MakeMove` reads or
writes; `end_games_quickly` is the field of `options_`. -/
structure Controller where
  current_position_ : Position
  end_games_quickly : Bool
  has_swapped_ : Bool
  forced_result_ : Int

/-- The method `Controller::MakeMove`: the value it returns, the value of
`*result` afterwards and the `Controller` afterwards. The variable
`g_use_lg_coordinates` is the argument `lg`; `Position::SwapPlayers`, which
copies the two `PlayerPosition`s, is the argument `SwapPlayers`. -/
def Controller.MakeMove (lg : Bool) (SwapPlayers : Position → Except Err Position)
    (pl : Player) (move_string : List Int) (result : Int) (c : Controller) :
    Except Err (Bool × Int × Controller) :=
  if move_string = passString then pure (true, kNoneWon, c)
  else if move_string = swapString then do
    let P ← SwapPlayers c.current_position_
    pure (true, kNoneWon, { c with current_position_ := P, has_swapped_ := true })
  else do
    let cell ← FromString lg move_string
    if cell = kZerothCell then pure (false, result, c)
    else
      match Position.CellIsEmpty cell c.current_position_.state with
      | Res.fail e => throw e
      | Res.ok e _ =>
        if !e then pure (false, result, c)
        else do
          let r ← Position.MakePermanentMove pl cell c.current_position_
          let move_result := r.1
          let c₁ := { c with current_position_ := r.2 }
          if move_result ≠ 0 then
            pure (true, if pl = Player.kWhite then kWhiteWon else kBlackWon, c₁)
          else if c₁.end_games_quickly ∧ VictoryIsForced c₁.forced_result_ then
            pure (true, if pl = Player.kWhite then kWhiteWon else kBlackWon, c₁)
          else if c₁.end_games_quickly ∧ DrawIsForced c₁.forced_result_ then
            pure (true, kDraw, c₁)
          else if c₁.end_games_quickly ∧ DefeatIsForced c₁.forced_result_ then
            pure (true, if pl = Player.kBlack then kWhiteWon else kBlackWon, c₁)
          else pure (true, kNoneWon, c₁)

/-! ### The stack of the permanent moves -/

/-- The positions that `MakePermanentMove` and `UndoPermanentMove` reach from
the start position, with the moves made and not undone, the most recent
first: a move that returns is put before the others, and an undo that
returns `true` takes the first away. -/
inductive PermanentReach : List (Player × Nat) → Position → Prop where
  | start : PermanentReach [] Position.start
  | make {ms : List (Player × Nat)} {P Q : Position} {player : Player} {cell r : Nat} :
      PermanentReach ms P →
      Position.MakePermanentMove player cell P = Except.ok (r, Q) →
      PermanentReach ((player, cell) :: ms) Q
  | undo {ms : List (Player × Nat)} {P Q : Position} :
      PermanentReach ms P →
      Position.UndoPermanentMove P = Except.ok (true, Q) →
      PermanentReach ms.tail Q

/-- The byte `cells_[c]` of a state. -/
def State.cell (s : State) (c : Nat) : Nat := getByte (s.mem (Loc.cells (c / 4))) (c % 4)

/-- The empty cells of the state are the cells of the board that are not
among the moves. -/
def CellsOf (ms : List (Player × Nat)) (s : State) : Prop :=
  ∀ c, c < kNumCellsWithSentinels →
    (s.cell c &&& 3 = 0 ↔
      (LiesOnBoard (CellToX c) (CellToY c) = true ∧ c ∉ ms.map Prod.snd))

/-- The state is the one after the moves `ms`, the most recent first, whose
`Memento`s are `mems`: it is well formed, its empty cells are those that the
moves leave, and the `Memento` of the most recent move undoes it to a state
that is the one after the other moves, in which the cell of the most recent
move is an empty cell of the board. -/
def Stacked : State → List (Player × Nat) → List Memento → Prop
  | s, [], [] => WellFormed s ∧ CellsOf [] s
  | s, mv :: ms, m :: mems =>
    WellFormed s ∧ CellsOf (mv :: ms) s ∧ mv.2 < kNumCellsWithSentinels ∧
      LiesOnBoard (CellToX mv.2) (CellToY mv.2) = true ∧ mv.2 ∉ ms.map Prod.snd ∧
      ∃ s₀, Undoes Everywhere s₀ { s with memento := m } ∧ Stacked s₀ ms mems
  | _, _ :: _, [] => False
  | _, [], _ :: _ => False

/-- The two tables are inverse to each other on the cells of the board. -/
structure TablesInverse (toCell : Nat → Nat) (toMove : Nat → Int) : Prop where
  cell_lt : ∀ i, i < kNumMovesOnBoard → toCell i < kNumCellsWithSentinels
  on_board : ∀ i, i < kNumMovesOnBoard →
    LiesOnBoard (CellToX (toCell i)) (CellToY (toCell i)) = true
  to_move : ∀ i, i < kNumMovesOnBoard → toMove (toCell i) = (i : Int)
  to_cell : ∀ c, c < kNumCellsWithSentinels → LiesOnBoard (CellToX c) (CellToY c) = true →
    ∃ i, i < kNumMovesOnBoard ∧ toCell i = c

/-- The invariant of a `Position` after the moves `ms`, the most recent
first, that are made and not undone. -/
structure Position.Inv (ms : List (Player × Nat)) (P : Position) : Prop where
  init : P.is_initialized_ = true
  past : P.past_moves_ = ms.reverse
  count : P.move_count_ = ms.length
  avail : P.num_available_moves_ + ms.length = kNumMovesOnBoard
  avail_nonneg : 0 ≤ P.num_available_moves_
  tables : TablesInverse P.kMoveIndexToCell P.kCellToMoveIndex
  played : ∀ j, j < ms.length →
    P.kMoveIndexToCell (P.num_available_moves_.toNat + j) =
      (ms.getD j (Player.kWhite, kZerothCell)).2
  stacked : Stacked P.state ms P.mementoes_.reverse

/-! ### Permanent moves for the examples -/

/-- The `Position` of a result, or the start position when the run failed. -/
def positionOf {α : Type} (r : Except Err (α × Position)) : Position :=
  match r with
  | Except.ok (_, P) => P
  | Except.error _ => Position.start

/-- The value of a result, when the run returned. -/
def valueOf {α : Type} (r : Except Err (α × Position)) : Option α :=
  match r with
  | Except.ok (a, _) => some a
  | Except.error _ => none

/-- The position after the permanent move of White to (11, 10). -/
def stackPosition₁ : Position :=
  positionOf (Position.MakePermanentMove Player.kWhite (XYToCell 11 10) Position.start)

/-- The position after the permanent move of Black to (12, 12) in
`stackPosition₁`. -/
def stackPosition₂ : Position :=
  positionOf (Position.MakePermanentMove Player.kBlack (XYToCell 12 12) stackPosition₁)

/-- The position after `UndoPermanentMove` in `stackPosition₂`. -/
def stackPosition₃ : Position := positionOf (Position.UndoPermanentMove stackPosition₂)

/-- The position after the permanent move of Black to (10, 12) in
`stackPosition₃`. -/
def stackPosition₄ : Position :=
  positionOf (Position.MakePermanentMove Player.kBlack (XYToCell 10 12) stackPosition₃)

/-- The words of the two-bridge counters and of the `RingDB`s: the arenas,
their tops and the tops of the tables of ring frames. -/
def RingWord : Loc → Prop
  | Loc.twoBridge _ _ => True
  | Loc.arena _ _ => True
  | Loc.arenaTop _ => True
  | Loc.ringFramesTop _ => True
  | _ => False

/-- The state has the sizes of the chain sets of `C` and its words outside
the two-bridge counters and the `RingDB`s. -/
def OutsideRings (C s : State) : Prop :=
  (∀ loc, ¬ RingWord loc → s.mem loc = C.mem loc) ∧ s.size = C.size

/-- The state has the bytes of `cells_` of `C`. -/
def CellsAs (C s : State) : Prop := ∀ w, s.mem (Loc.cells w) = C.mem (Loc.cells w)

/-! ### havannah.cc: RingDB::RemoveOneWayTwoBridgesFast -/

namespace RingDB

/-- The loop of `RingDB::RemoveOneWayTwoBridgesFast`; the conditions joined
by `&&` and `||` are read as far as C++ evaluates them. -/
def removeLoopFast (p chain1 cell : Nat) : Nat → Nat → Nat → M Unit
  | 0, _, _ => outOfFuel
  | fuel + 1, prev, curr =>
    if curr = 0 then pure ()
    else do
      let ch ← Arena.get p (curr + kCgChain)
      let hit ← (if ch = chain1 then do
          let c0 ← Arena.get p (curr + kCgCell0)
          if c0 = cell then pure true
          else do
            let c1 ← Arena.get p (curr + kCgCell1)
            pure (decide (c1 = cell))
        else pure false)
      (if hit then do
          let next ← Arena.get p curr
          Arena.set p prev next
        else pure ())
      let prev := curr
      let curr ← Arena.get p prev
      removeLoopFast p chain1 cell fuel prev curr

/-- The method `RingDB::RemoveOneWayTwoBridgesFast`. -/
def RemoveOneWayTwoBridgesFast (p chain0 chain1 cell : Nat) : M Unit := do
  let fuel ← listFuel p
  let prev := chain_graph_ + chain0
  let curr ← Arena.get p prev
  removeLoopFast p chain1 cell fuel prev curr

end RingDB

/-! ### havannah.h: the move indices of a Position -/

/-- The method `Position::MoveIndexToCell`: `kMoveIndexToCell[move]`. -/
def Position.MoveIndexToCell (P : Position) (move : Nat) : Nat := P.kMoveIndexToCell move

/-- The method `Position::NumAvailableMoves`. -/
def Position.NumAvailableMoves (P : Position) : Int := P.num_available_moves_

/-! ### wfhashmap.h: the key that a slot holds -/

namespace WaitFreeHashMap

/-- The key that `InsertKey` stores for a key: `kEmptyKey + 1` stands in for
`kEmptyKey`. -/
def storedKey (key : Nat) : Nat := if key = kEmptyKey then kEmptyKey + 1 else key

/-- The keys 33, 2 .. 15, 2^59 + 15 and 17 .. 31: with `kLogCapacity = 5`
they fill the slots 1 .. 31 and none of them is divisible by 16. -/
def thirtyOneKeys : List Nat :=
  33 :: ((List.range' 2 14) ++ (576460752303423503 :: List.range' 17 15))

end WaitFreeHashMap

/-! ### havannah.cc, test.cc: the six neighbours of a cell -/

/-- The table `kReverseNeighborhoods` of havannah.cc. -/
def kReverseNeighborhoods : List Nat := [8, 2, 1, 4, 16, 32]

/-- The table `kMyOffsets` of the test
`Position_Get6Neighbors_gives_correct_results`: the offset of the cell that
the bit `i` of `Get6Neighbors` stands for. -/
def kMyOffsets : List Int := [31, 32, -1, 1, -32, -31]

/-- The rows of `PlayerPosition::stone_mask_` in a state. -/
def State.stoneRows (s : State) (p : Nat) : Nat → Nat := fun y => s.mem (Loc.stoneRow p y)

/-- Whether the stone mask of a player holds the stone of a cell:
`stone_mask_.get(CellToX(cell), CellToY(cell))`. -/
def State.hasStone (s : State) (p cell : Nat) : Bool :=
  BoardBitmask.get (s.stoneRows p) (CellToX cell) (CellToY cell)

/-- The state after `Position::MakeMoveFast(kWhite, d4)` in the start
position; the cell d4 is the one at (5, 17). -/
def oneStoneState : State :=
  (Position.MakeMoveFast Player.kWhite (XYToCell 5 17) State.start).state State.start

/-! ### test.cc: the picture of the board -/

/-- The array `kBoard` of test.cc: the picture of the board with the edges
`0` to `5`, the corners `A` to `F` and the other cells `#`. -/
def kBoard : List String := [
  "................................",
  "................................",
  "...........A00000000F...........",
  "..........1#########5...........",
  ".........1##########5...........",
  "........1###########5...........",
  ".......1############5...........",
  "......1#############5...........",
  ".....1##############5...........",
  "....1###############5...........",
  "...1################5...........",
  "..B#################E...........",
  "..2################4............",
  "..2###############4.............",
  "..2##############4..............",
  "..2#############4...............",
  "..2############4................",
  "..2###########4.................",
  "..2##########4..................",
  "..2#########4...................",
  "..C33333333D....................",
  "................................",
  "................................"]

/-- The character `kBoard[y][x]`, as a number. -/
def boardChar (x y : Nat) : Nat := (((kBoard.getD y "").toList.getD x '.').toNat)

/-- The edges and corners that the tests `ChainSet_sets_edges_correctly` and
`ChainSet_sets_corners_correctly` expect at a cell with the character `ch`
of `kBoard`: the edge `ch - '0'` for `'0'` to `'5'`, the corner `ch - 'A'`,
six bits higher, for `'A'` to `'F'`, and nothing else. -/
def expectedEdgesAndCorners (ch : Nat) : Nat :=
  (if 48 ≤ ch ∧ ch ≤ 53 then 1 <<< (ch - 48) else 0) |||
    ((if 65 ≤ ch ∧ ch ≤ 70 then 1 <<< (ch - 65) else 0) <<< 6)

/-! ### havannah.cc: the chains of the edges and of the corners -/

/-- The chain set that stands for the static array
`Position::kEdgeCornerChains`, which belongs to no player. -/
def kEdgeCornerChains : Nat := 2

/-- The table `kInitializers` of `Position::InitStaticFields`. -/
def kInitializers : List (Int × Int × Int × Int) := [
  (kMiddleColumn, kGapAround, 1, 0),
  (kGapLeft, kMiddleRow, 1, -1),
  (kGapLeft, kLastRow, 0, -1),
  (kMiddleColumn, kLastRow, -1, 0),
  (kLastColumn, kMiddleRow, -1, 1),
  (kLastColumn, kGapAround, 0, 1)]

/-- The loop `for (int j = 0; j < SIDE_LENGTH - 3; ++j)` of
`Position::InitStaticFields`, for the `n` iterations that are left. -/
def edgeStonesLoop (i : Nat) (dx dy : Int) : Nat → Int → Int → M Unit
  | 0, _, _ => pure ()
  | n + 1, x, y => do
    let x := x + dx
    let y := y + dy
    assert (LiesOnBoard x y)
    Chain.AddStoneFast kEdgeCornerChains i x.toNat y.toNat
    edgeStonesLoop i dx dy n x y

/-- The body of the loop `for (int i = 0; i < 6; ++i)` of
`Position::InitStaticFields`, without the assignment to `kCornerToCell`. -/
def initEdgeAndCorner (i : Nat) : M Unit := do
  let e := kInitializers.getD i (0, 0, 0, 0)
  let x := e.1
  let y := e.2.1
  assert (LiesOnBoard x y)
  Chain.InitWithStone kEdgeCornerChains (6 + i) x.toNat y.toNat
  if SIDE_LENGTH > 2 then do
    let x := x + e.2.2.1
    let y := y + e.2.2.2
    assert (LiesOnBoard x y)
    Chain.InitWithStone kEdgeCornerChains i x.toNat y.toNat
    edgeStonesLoop i e.2.2.1 e.2.2.2 (SIDE_LENGTH - 3) x y
  else pure ()

/-- The loop `for (int i = 0; i < 6; ++i)` of `Position::InitStaticFields`,
from `i` on for the `n` iterations that are left. -/
def initEdgesAndCorners : Nat → Nat → M Unit
  | 0, _ => pure ()
  | n + 1, i => do
    initEdgeAndCorner i
    initEdgesAndCorners n (i + 1)

/-- The state after the loop of `Position::InitStaticFields` that fills
`kEdgeCornerChains`, run in zeroed memory. -/
def staticFieldsState : State := (initEdgesAndCorners 6 0 State.init).state State.init

/-- The row `y` of the stone mask of `Position::EdgeCornerChain(n)`. -/
def edgeCornerRow (n y : Nat) : Nat := staticFieldsState.mem (Loc.chainRow kEdgeCornerChains n y)

/-- The row `y` of the cells whose `GetMaskOfEdgesAndCorners` has the bit
`n`. -/
def maskedRow (n y : Nat) : Nat :=
  (List.range 32).foldl
    (fun row x =>
      if (edgesCornersInit x y).testBit n then setBit row x else row) 0

/-! ### The tables of the moves, listed -/

/-- The cells of the board, listed. -/
def boardCellsList : List Nat := [
  75, 76, 77, 78, 79, 80, 81, 82, 83, 84, 106, 107, 108, 109, 110, 111,
  112, 113, 114, 115, 116, 137, 138, 139, 140, 141, 142, 143, 144, 145, 146, 147,
  148, 168, 169, 170, 171, 172, 173, 174, 175, 176, 177, 178, 179, 180, 199, 200,
  201, 202, 203, 204, 205, 206, 207, 208, 209, 210, 211, 212, 230, 231, 232, 233,
  234, 235, 236, 237, 238, 239, 240, 241, 242, 243, 244, 261, 262, 263, 264, 265,
  266, 267, 268, 269, 270, 271, 272, 273, 274, 275, 276, 292, 293, 294, 295, 296,
  297, 298, 299, 300, 301, 302, 303, 304, 305, 306, 307, 308, 323, 324, 325, 326,
  327, 328, 329, 330, 331, 332, 333, 334, 335, 336, 337, 338, 339, 340, 354, 355,
  356, 357, 358, 359, 360, 361, 362, 363, 364, 365, 366, 367, 368, 369, 370, 371,
  372, 386, 387, 388, 389, 390, 391, 392, 393, 394, 395, 396, 397, 398, 399, 400,
  401, 402, 403, 418, 419, 420, 421, 422, 423, 424, 425, 426, 427, 428, 429, 430,
  431, 432, 433, 434, 450, 451, 452, 453, 454, 455, 456, 457, 458, 459, 460, 461,
  462, 463, 464, 465, 482, 483, 484, 485, 486, 487, 488, 489, 490, 491, 492, 493,
  494, 495, 496, 514, 515, 516, 517, 518, 519, 520, 521, 522, 523, 524, 525, 526,
  527, 546, 547, 548, 549, 550, 551, 552, 553, 554, 555, 556, 557, 558, 578, 579,
  580, 581, 582, 583, 584, 585, 586, 587, 588, 589, 610, 611, 612, 613, 614, 615,
  616, 617, 618, 619, 620, 642, 643, 644, 645, 646, 647, 648, 649, 650, 651]

/-- The table of the cells of the moves, read from the list. -/
def listedMoveIndexToCell (move : Nat) : Nat := boardCellsList.getD move 0

/-- The table of the moves of the cells, read from the list. -/
def listedCellToMoveIndex (cell : Nat) : Int :=
  if LiesOnBoard (CellToX cell) (CellToY cell) then ((boardCellsList.indexOf cell : Nat) : Int)
  else kInvalidMove

/-- The rows of the board in the order of `boardCellsList`: for each row, the
number of the cells of the board up to the end of the row, and the
difference between a cell of the row and its place in the list. -/
def kBoardRows : List (Nat × Nat) := [
  (10, 75), (21, 96), (33, 116), (46, 135), (60, 153), (75, 170),
  (91, 186), (108, 201), (126, 215), (145, 228), (163, 241), (180, 255),
  (196, 270), (211, 286), (225, 303), (238, 321), (250, 340), (261, 360),
  (271, 381)]

/-- The difference between a cell of the board and its place in
`boardCellsList`, by the row of the cell. -/
def kRowDeltas : List Nat := [
  0, 0, 75, 96, 116, 135, 153, 170, 186, 201, 215, 228, 241, 255, 270, 286, 303, 321, 340, 360, 381, 0, 0]

/-- The cell at a place of `boardCellsList`, found by its row. -/
def rowLookup : List (Nat × Nat) → Nat → Nat
  | [], _ => 0
  | row :: rows, move => if move < row.1 then move + row.2 else rowLookup rows move

/-- The table of the cells of the moves, computed by rows. -/
def rowedMoveIndexToCell (move : Nat) : Nat := rowLookup kBoardRows move

/-- The table of the moves of the cells, computed by rows. -/
def rowedCellToMoveIndex (cell : Nat) : Int :=
  if LiesOnBoard (CellToX cell) (CellToY cell) then
    ((cell - kRowDeltas.getD (CellToY cell) 0 : Nat) : Int)
  else kInvalidMove

/-! ### The fast and the reversible methods, side by side -/

/-- Two states that differ at most in the `Memento`. -/
def SameButMemento (s t : State) : Prop :=
  s.mem = t.mem ∧ s.size = t.size ∧ s.modified_chain_ = t.modified_chain_ ∧ s.ring = t.ring

/-- Two results agree: both runs fail, or both return, with the same value
and with states that differ at most in the `Memento`. -/
def Res.Agree {α : Type} : Res α → Res α → Prop
  | Res.ok a s, Res.ok b t => a = b ∧ SameButMemento s t
  | Res.fail _, Res.fail _ => True
  | Res.ok _ _, Res.fail _ => False
  | Res.fail _, Res.ok _ _ => False

/-- Two computations agree when they are run in states that satisfy `P` and
differ at most in the `Memento`. -/
def SimOn {α : Type} (P : State → Prop) (x y : M α) : Prop :=
  ∀ s t, P s → SameButMemento s t → Res.Agree (x s) (y t)

/-- Two computations agree when they are run in states that differ at most
in the `Memento`. -/
def Sim {α : Type} (x y : M α) : Prop := SimOn (fun _ => True) x y

/-- The computation fails where the cell `n` of the arena of `p` cannot be
accessed. -/
def NeedsCell {α : Type} (p n : Nat) (x : M α) : Prop :=
  ∀ s e, Arena.ref p n s = Res.fail e → ∃ e', x s = Res.fail e'

/-! ### base.h, patterns.h: suggested moves -/

/-- The loop of `GetIndexOfNthBit`: `mask &= (mask - 1)`, `n` times, on a
32-bit `unsigned`. -/
def clearLowestBits : Nat → Nat → Nat
  | 0, mask => mask
  | n + 1, mask => clearLowestBits n (mask &&& ((mask + 4294967295) % 4294967296))

/-- The function `GetIndexOfNthBit` of base.h. -/
def GetIndexOfNthBit (n : Int) (mask : Nat) : Except Err Nat :=
  if mask = 0 then throw Err.assertFailed
  else if n < 0 then throw Err.assertFailed
  else pure (CountTrailingZeroes (clearLowestBits n.toNat mask))

/-- The struct `MoveSuggestion` of patterns.h. -/
structure MoveSuggestion where
  mask : Nat
  chance : Nat

/-- The method `MoveSuggestion::ChancesAreAuspicious`: the value returned and
the new seed. -/
def MoveSuggestion.ChancesAreAuspicious (m : MoveSuggestion) (seed : Nat) : Bool × Nat :=
  let r := Rng.call seed 8
  (decide (m.chance > toUnsigned r.1), r.2)

/-- The method `MoveSuggestion::GetIndexOfRandomBitOfMask`: the value
returned and the new seed. -/
def MoveSuggestion.GetIndexOfRandomBitOfMask (m : MoveSuggestion) (seed : Nat) :
    Except Err (Nat × Nat) :=
  if m.mask = 0 then throw Err.assertFailed
  else
    let n := CountSetBits m.mask + CountSetBits (m.mask >>> 6) + CountSetBits (m.mask >>> 12)
    if n = 1 then do
      let index ← GetIndexOfNthBit 0 m.mask
      pure (index, seed)
    else do
      let r := Rng.call seed n
      let index ← GetIndexOfNthBit r.1 m.mask
      pure (index, r.2)

/-- The method `Position::Get18Neighbors`. -/
def Position.Get18Neighbors (player : Player) (cell : Nat) : M Nat := do
  inBounds (decide (cell < kNumCellsWithSentinels))
  let foe ← PlayerPosition.Get18Neighbors (Opponent player).toNat cell
  let own ← PlayerPosition.Get18Neighbors player.toNat cell
  pure ((kEdgesCornersNeighbors cell >>> 28) ||| ((foe <<< 18) % 18446744073709551616) ||| own)

/-! ### playout.h, playout.cc: the playout

The fields of a `Playout` that `Play` uses are kept in a structure; the
containers that only `HavannahMate` and its helpers use are one field of a
type `H`. The pieces of the program that `Play` calls and that are not part
of the embedding are collected in a `PlayoutEnv`. -/

/-- The fields of `PlayoutOptions` that `Playout::Play` reads itself. -/
structure PlayoutOptions where
  retries_of_isolated_moves : Int
  use_havannah_mate : Bool

/-- The class `Playout`: `rng_` is the seed of the generator, `position_`
the `Position` that the pointer of this name points to. -/
structure Playout (H : Type) where
  rng_ : Nat
  position_ : State
  mutable_position_ : State
  free_cells_ : List Nat
  playout_moves_ : List Nat
  reverse_playout_moves_ : Nat → Int
  playout_players_ : List Player
  canned_moves_ : Int
  chance_of_forced_connection_ : Int
  chance_of_connection_defense_ : Int
  mate_ : H

/-- What `Playout::Play` is given from outside the embedding: the options,
the patterns behind `Patterns::GetMoveSuggestion`, the static tables of
`Position`, `Position::CopyFrom` (from the old value of the target and the
source to the new value of the target), `std::random_shuffle` with the
generator (from the vector and the seed to both afterwards),
`ChainSet::CountChains`, the three expressions in `float` that give
`chance_of_forced_connection_`, `chance_of_connection_defense_` (from the
number of chains) and `ring_notice_threshold` (from `i`, `canned_moves_` and
`size`), and the method `Playout::HavannahMate`. -/
structure PlayoutEnv (H : Type) where
  options_ : PlayoutOptions
  patterns_ : Nat → MoveSuggestion
  kCellToMoveIndex : Nat → Int
  kMoveIndexToCell : Nat → Nat
  CopyFrom : State → State → Except Err State
  Shuffle : List Nat → Nat → List Nat × Nat
  CountChains : Nat → State → Int
  chance_of_forced_connection : Int → Int
  chance_of_connection_defense : Int → Int
  ring_notice_threshold : Int → Int → Int → Int
  HavannahMate : Player → Int → Playout H → Except Err (Int × Playout H)

/-- The array `rave[2][kNumMovesOnBoard]`, by the player and the move. -/
abbrev Rave : Type := Nat → Nat → Int

namespace Playout

variable {H : Type}

/-- A method of `Position`, run on `mutable_position_`. -/
def onPosition {α : Type} (x : M α) (σ : Playout H) : Except Err (α × Playout H) :=
  match x σ.mutable_position_ with
  | Res.ok a s => pure (a, { σ with mutable_position_ := s })
  | Res.fail e => throw e

/-- The element `playout_moves_[i]`, with a check of the index. -/
def moveAt (σ : Playout H) (i : Int) : Except Err Nat :=
  if 0 ≤ i ∧ i < σ.playout_moves_.length then pure (σ.playout_moves_.getD i.toNat 0)
  else throw Err.outOfBounds

/-- The method `Playout::ReplaceMove`; the accesses to the two arrays are
checked. -/
def ReplaceMove (i : Int) (cell : Nat) (σ : Playout H) : Except Err (Playout H) := do
  let r ← σ.onPosition (Position.CellIsEmpty cell)
  let σ := r.2
  if !r.1 then throw Err.assertFailed
  else
    let j := σ.reverse_playout_moves_ cell
    let ith ← σ.moveAt i
    let _ ← σ.moveAt j
    if ith ≥ kNumCellsWithSentinels then throw Err.outOfBounds
    else
      pure { σ with
        reverse_playout_moves_ :=
          Function.update (Function.update σ.reverse_playout_moves_ ith j) cell i
        playout_moves_ := (σ.playout_moves_.set j.toNat ith).set i.toNat cell }

/-- The first loop of `Playout::Play`, over the rest of `free_cells_`. -/
def fillLoop : List Nat → Playout H → Except Err (Playout H)
  | [], σ => pure σ
  | cell :: rest, σ => do
    let r ← σ.onPosition (Position.CellIsEmpty cell)
    let σ := r.2
    fillLoop rest
      (if r.1 then { σ with playout_moves_ := σ.playout_moves_ ++ [cell] } else σ)

/-- The second loop of `Playout::Play`:
`reverse_playout_moves_[playout_moves_[i]] = i` for the indices from `i` on,
`n` of them. -/
def reverseLoop : Nat → Nat → Playout H → Except Err (Playout H)
  | 0, _, σ => pure σ
  | n + 1, i, σ => do
    let cell ← σ.moveAt i
    if cell ≥ kNumCellsWithSentinels then throw Err.outOfBounds
    else
      reverseLoop n (i + 1)
        { σ with reverse_playout_moves_ := Function.update σ.reverse_playout_moves_ cell i }

/-- The inner loop of `Playout::ReplaceMovesInRingFrames` over the
two-bridges of the ring frame at the cell `q` of the arena, from `j` on, `n`
of them; `base` is `canned_moves + offset`. The elements of `frame` are read
through the pointer, without the checks of `Arena::get`. -/
def frameMovesLoop (p q : Nat) (moves_to_win base : Int) :
    Nat → Int → Playout H → Except Err (Playout H)
  | 0, _, σ => pure σ
  | n + 1, j, σ => do
    let r := Rng.call σ.rng_ 2
    let σ := { σ with rng_ := r.2 }
    let index := r.1
    let cell1 := σ.mutable_position_.mem (Loc.arena p (q + (2 * j + index + 1).toNat))
    let σ ← σ.ReplaceMove (base + 2 * j) cell1
    let cell2 := σ.mutable_position_.mem (Loc.arena p (q + (2 * j + 2 - index).toNat))
    let σ ← σ.ReplaceMove (base + 2 * (moves_to_win + j)) cell2
    frameMovesLoop p q moves_to_win base n (j + 1) σ

/-- The outer loop of `Playout::ReplaceMovesInRingFrames` over the ring
frames from `i` on, `n` of them. -/
def framesLoop (p : Nat) (offset : Int) : Nat → Nat → Int → Playout H →
    Except Err (Int × Playout H)
  | 0, _, canned_moves, σ => pure (canned_moves, σ)
  | n + 1, i, canned_moves, σ => do
    let r ← σ.onPosition (Arena.get p (ring_frames_ + i))
    let σ := r.2
    if r.1 = 0 then framesLoop p offset n (i + 1) canned_moves σ
    else do
      let r₁ ← σ.onPosition (Arena.get p r.1)
      let σ := r₁.2
      let moves_to_win := toInt32 r₁.1
      let σ ← frameMovesLoop p r.1 moves_to_win (canned_moves + offset)
        moves_to_win.toNat 0 σ
      framesLoop p offset n (i + 1) (canned_moves + 4 * moves_to_win) σ

/-- The method `Playout::ReplaceMovesInRingFrames`. -/
def ReplaceMovesInRingFrames (player : Player) (offset : Int) (σ : Playout H) :
    Except Err (Int × Playout H) :=
  let top := σ.mutable_position_.mem (Loc.ringFramesTop player.toNat)
  let size := toInt32 ((top : Int) - (ring_frames_ : Int))
  framesLoop player.toNat offset size.toNat 0 0 σ

/-- The statements of the loop of `Playout::Play` that put a suggested move
at the index `i`. -/
def suggestMove (env : PlayoutEnv H) (i : Int) (last_move : Nat) (noli_me_tangere : Int)
    (neighbors18 : Nat) (σ : Playout H) : Except Err (Playout H) :=
  if noli_me_tangere < 0 then
    let suggestion := env.patterns_ neighbors18
    let a := suggestion.ChancesAreAuspicious σ.rng_
    let σ := { σ with rng_ := a.2 }
    if a.1 then do
      let r ← suggestion.GetIndexOfRandomBitOfMask σ.rng_
      let σ := { σ with rng_ := r.2 }
      let next_move := NthNeighbor last_move r.1
      σ.ReplaceMove i next_move
    else pure σ
  else pure σ

/-- The loop over `j` of `Playout::Play` that looks for a move with more
stones in the chains around it; it makes at most
`retries_of_isolated_moves` iterations. -/
def retryLoop (env : PlayoutEnv H) (i size : Int) (player : Player) :
    Nat → Int → Nat → Int → Playout H → Except Err (Nat × Playout H)
  | 0, _, _, _, _ => throw Err.outOfFuel
  | n + 1, j, best_cell, highest_num_neighbor_chains, σ =>
    if j < env.options_.retries_of_isolated_moves ∧ i + j < size then do
      let cell ← σ.moveAt (i + j)
      let r ← σ.onPosition (Position.CellIsEmpty cell)
      let σ := r.2
      if !r.1 then throw Err.assertFailed
      else do
        let r ← σ.onPosition (PlayerPosition.GetSizeOfNeighborChains player.toNat cell 12)
        let σ := r.2
        if r.1 > highest_num_neighbor_chains then retryLoop env i size player n (j + 1) cell r.1 σ
        else retryLoop env i size player n (j + 1) best_cell highest_num_neighbor_chains σ
    else pure (best_cell, σ)

/-- The statements of the loop of `Playout::Play` that settle the move at
the index `i`: the cell played and the `Playout` afterwards. -/
def chooseMove (env : PlayoutEnv H) (i size : Int) (player : Player) (noli_me_tangere : Int)
    (σ : Playout H) : Except Err (Nat × Playout H) := do
  let cell ← σ.moveAt i
  let r ← σ.onPosition (Position.CellIsEmpty cell)
  let σ := r.2
  if !r.1 then throw Err.assertFailed
  else if noli_me_tangere < 0 then do
    let r ← σ.onPosition (PlayerPosition.GetSizeOfNeighborChains player.toNat cell 12)
    let σ := r.2
    let b ← retryLoop env i size player (env.options_.retries_of_isolated_moves.toNat + 1) 1
      cell r.1 σ
    let σ ← b.2.ReplaceMove i b.1
    pure (b.1, σ)
  else pure (cell, σ)

/-- How an iteration of the loop of `Playout::Play` ends: with a victory
that is acknowledged, or with the values of `player`, `last_move`,
`noli_me_tangere` and `neighbors18` for the next iteration. -/
inductive Step (H : Type) where
  | won (victory : Nat) (σ : Playout H)
  | goesOn (player : Player) (last_move : Nat) (noli_me_tangere : Int) (neighbors18 : Nat)
      (σ : Playout H)

/-- The statements of the loop of `Playout::Play` after the move is
made. -/
def afterMove (env : PlayoutEnv H) (i size : Int) (player : Player) (last_move : Nat)
    (noli_me_tangere : Int) (neighbors18 victory : Nat) (σ : Playout H) :
    Except Err (Step H) :=
  if victory ≠ 0 then
    if victory &&& (4294967295 ^^^ (kBenzeneRing ||| kRing)) = 0 then
      let ring_notice_threshold := env.ring_notice_threshold i σ.canned_moves_ size
      let r := Rng.call σ.rng_ 100
      let σ := { σ with rng_ := r.2 }
      if r.1 > ring_notice_threshold then
        pure (Step.goesOn player last_move (noli_me_tangere - 1) 0 σ)
      else pure (Step.won victory σ)
    else pure (Step.won victory σ)
  else do
    let m ← (if noli_me_tangere < 0 ∧ env.options_.use_havannah_mate = true then
        env.HavannahMate player i σ
      else pure (noli_me_tangere, σ))
    let σ := m.2
    let last_move ← σ.moveAt i
    pure (Step.goesOn (Opponent player) last_move (m.1 - 1) neighbors18 σ)

/-- The body of the loop of `Playout::Play` but for the loop over `j` at
its end. -/
def playMove (env : PlayoutEnv H) (i size : Int) (player : Player) (last_move : Nat)
    (noli_me_tangere : Int) (neighbors18 : Nat) (σ : Playout H) : Except Err (Step H) := do
  let σ := { σ with playout_players_ := σ.playout_players_ ++ [player] }
  let σ ← suggestMove env i last_move noli_me_tangere neighbors18 σ
  let c ← chooseMove env i size player noli_me_tangere σ
  let σ := c.2
  let n ← σ.onPosition (Position.Get18Neighbors (Opponent player) c.1)
  let σ := n.2
  let v ← σ.onPosition (Position.MakeMoveFast player c.1)
  afterMove env i size player last_move noli_me_tangere n.1 v.1 v.2

/-- The loop `for (int j = 0; j <= i; ++j)` of `Playout::Play` from `j` on,
`n` iterations of it: the array `rave` afterwards. The accesses to the
vectors and to the tables are checked; the counters are 32-bit `int`s. -/
def creditLoop (env : PlayoutEnv H) (player : Player) (σ : Playout H) :
    Nat → Nat → Rave → Except Err Rave
  | 0, _, rave => pure rave
  | n + 1, j, rave => do
    let cell ← σ.moveAt j
    if cell ≥ kNumCellsWithSentinels then throw Err.outOfBounds
    else
      let jth_move := env.kCellToMoveIndex cell
      if jth_move < 0 ∨ jth_move ≥ kNumMovesOnBoard then throw Err.outOfBounds
      else if env.kMoveIndexToCell jth_move.toNat ≠ cell then throw Err.assertFailed
      else if j ≥ σ.playout_players_.length then throw Err.outOfBounds
      else
        let jth_player := σ.playout_players_.getD j Player.kWhite
        let old := rave jth_player.toNat jth_move.toNat
        creditLoop env player σ n (j + 1)
          (Function.update rave jth_player.toNat
            (Function.update (rave jth_player.toNat) jth_move.toNat
              (if jth_player = player then wrapInt32 (old + 1) else wrapInt32 (old - 1))))

/-- The loop `for (i = 0; i < size; ++i)` of `Playout::Play` from `i` on,
with the `n` iterations that are left, and the end of the method: the value
returned, `*num_moves`, `rave` and the `Playout` afterwards. -/
def playLoop (env : PlayoutEnv H) (size : Int) (rave : Rave) :
    Nat → Int → Player → Nat → Int → Nat → Playout H →
      Except Err (Int × Int × Rave × Playout H)
  | 0, i, _, _, _, _, σ => pure (0, i, rave, σ)
  | n + 1, i, player, last_move, noli_me_tangere, neighbors18, σ => do
    let step ← playMove env i size player last_move noli_me_tangere neighbors18 σ
    match step with
    | Step.won victory σ₁ => do
      let rave₁ ← creditLoop env player σ₁ (i + 1).toNat 0 rave
      pure (2 * (victory : Int) + (player.toNat : Int), i, rave₁, σ₁)
    | Step.goesOn player₁ last_move₁ noli_me_tangere₁ neighbors18₁ σ₁ =>
      playLoop env size rave n (i + 1) player₁ last_move₁ noli_me_tangere₁ neighbors18₁ σ₁

/-- The statements of `Playout::Play` before the loop over the moves: the
value of `neighbors18` and the `Playout` at the start of the loop. The two
calls of `ReplaceMovesInRingFrames` in the arguments of `std::max` are made
from left to right. -/
def prepare (env : PlayoutEnv H) (player : Player) (last_move : Nat) (σ : Playout H) :
    Except Err (Nat × Playout H) := do
  let copy ← env.CopyFrom σ.mutable_position_ σ.position_
  let σ := { σ with mutable_position_ := copy, playout_moves_ := [] }
  let σ ← fillLoop σ.free_cells_ σ
  let shuffled := env.Shuffle σ.playout_moves_ σ.rng_
  let σ := { σ with playout_moves_ := shuffled.1, rng_ := shuffled.2 }
  let σ ← reverseLoop σ.playout_moves_.length 0 σ
  let c₀ ← σ.ReplaceMovesInRingFrames player 0
  let c₁ ← c₀.2.ReplaceMovesInRingFrames (Opponent player) 1
  let σ := { c₁.2 with canned_moves_ := max c₀.1 c₁.1 }
  let num_chains := env.CountChains player.toNat σ.mutable_position_
  let σ := { σ with
    chance_of_forced_connection_ := env.chance_of_forced_connection num_chains
    chance_of_connection_defense_ := env.chance_of_connection_defense num_chains
    playout_players_ := [] }
  σ.onPosition (Position.Get18Neighbors player last_move)

/-- The method `Playout::Play`: the value returned, `*num_moves`, `rave` and
the `Playout` afterwards. -/
def Play (env : PlayoutEnv H) (player : Player) (last_move : Nat) (rave : Rave)
    (σ : Playout H) : Except Err (Int × Int × Rave × Playout H) := do
  let n ← prepare env player last_move σ
  let σ := n.2
  playLoop env σ.playout_moves_.length rave σ.playout_moves_.length 0 player last_move (-1)
    n.1 σ

end Playout

/-- The position with white stones on the first five neighbours of the cell
(11, 11), made by `Position::MakeMoveFast` from the start position. -/
def openHexagonState : State :=
  (List.range 5).foldl (fun s j =>
    (Position.MakeMoveFast Player.kWhite (NthNeighbor (XYToCell 11 11) j) s).state s)
    State.start

/-- A `PlayoutEnv` without patterns, retries and `HavannahMate`, in which
`ring_notice_threshold` is always -1, the shuffle leaves the vector in its
order and `CopyFrom` gives the target the state of the source. -/
def hexagonEnv : PlayoutEnv Unit where
  options_ := { retries_of_isolated_moves := 0, use_havannah_mate := false }
  patterns_ := fun _ => { mask := 0, chance := 0 }
  kCellToMoveIndex := kConstCellToMoveIndex
  kMoveIndexToCell := kConstMoveIndexToCell
  CopyFrom := fun _ source => pure source
  Shuffle := fun v seed => (v, seed)
  CountChains := fun _ _ => 1
  chance_of_forced_connection := fun _ => 0
  chance_of_connection_defense := fun _ => 0
  ring_notice_threshold := fun _ _ _ => -1
  HavannahMate := fun _ _ σ => pure (-1, σ)

/-- A `Playout` prepared for `openHexagonState` whose `free_cells_` are the
sixth neighbour of (11, 11) and the cell (5, 17). -/
def hexagonPlayout : Playout Unit where
  rng_ := 1
  position_ := openHexagonState
  mutable_position_ := State.start
  free_cells_ := [NthNeighbor (XYToCell 11 11) 5, XYToCell 5 17]
  playout_moves_ := []
  reverse_playout_moves_ := fun _ => 0
  playout_players_ := []
  canned_moves_ := 0
  chance_of_forced_connection_ := 0
  chance_of_connection_defense_ := 0
  mate_ := ()

/-! ### Would a move win? The move on the chains -/

namespace Chains

/-- The `edges_corners_ring_` of the chain of the neighbour `i` of the cell;
0 when the neighbour holds no stone of the player. -/
def neighbourEdges (c : Chains) (cell i : Nat) : Nat :=
  if c.view.cfc (NthNeighbor cell i) = 0 then 0
  else c.view.ecr (c.view.newest (c.view.cfc (NthNeighbor cell i)))

/-- The bitwise OR of `neighbourEdges` over the neighbours below `j`. -/
def neighboursEdges (c : Chains) (cell : Nat) : Nat → Nat
  | 0 => 0
  | j + 1 => neighboursEdges c cell j ||| neighbourEdges c cell j

/-- The neighbour `i` of the cell holds a stone of the player, and
`ClosesAnyRing` for the cell is not 0 on the chain of that stone. -/
def neighbourCloses (c : Chains) (cell i : Nat) : Bool :=
  decide (c.view.cfc (NthNeighbor cell i) ≠ 0 ∧
    closesAnyRing (c.view.rows (c.view.newest (c.view.cfc (NthNeighbor cell i))))
      (CellToX cell) (CellToY cell) ≠ 0)

/-- One of the `n` neighbours from `j` on closes a ring. -/
def neighboursClose (c : Chains) (cell : Nat) : Nat → Nat → Bool
  | _, 0 => false
  | j, n + 1 => neighbourCloses c cell j || neighboursClose c cell (j + 1) n

/-- What `Position::MoveIsWinning` returns without an injected chain, on the
chains of the player. -/
def moveIsWinning (c : Chains) (cell neighborhood : Nat) : Bool :=
  let groups := kGroupCountWithPossibleBenzeneRings.getD neighborhood 0
  let ec := GetMaskOfEdgesAndCorners cell ||| c.neighboursEdges cell 6
  let closes := decide (CountSetBits ec ≥ 3 ∨ CountSetBits (ec >>> 6) ≥ 2)
  if groups ≥ 2 then neighboursClose c cell 0 6 || closes
  else if groups = 1 ∧ GetMaskOfEdgesAndCorners cell ≠ 0 then closes
  else false

end Chains

/-! ## Part II. Theorems -/

/-! ### Zobrist hashing -/

theorem ModifyZobristHash_comm (Z : Nat → Nat → Nat) (h : Nat) (p q : Player) (m n : Nat) :
    ModifyZobristHash Z (ModifyZobristHash Z h p m) q n =
      ModifyZobristHash Z (ModifyZobristHash Z h q n) p m := by
  unfold ModifyZobristHash
  rw [Nat.xor_assoc, Nat.xor_assoc, Nat.xor_comm (Z m p.toNat)]

theorem ModifyZobristHash_twice (Z : Nat → Nat → Nat) (h : Nat) (p : Player) (m : Nat) :
    ModifyZobristHash Z (ModifyZobristHash Z h p m) p m = h := by
  unfold ModifyZobristHash
  rw [Nat.xor_assoc, Nat.xor_self, Nat.xor_zero]

theorem zobristFold_perm (Z : Nat → Nat → Nat) {l₁ l₂ : List (Player × Nat)}
    (hp : l₁.Perm l₂) : ∀ h, zobristFold Z h l₁ = zobristFold Z h l₂ := by
  induction hp with
  | nil => intro h; rfl
  | cons x _ ih => intro h; exact ih _
  | swap x y l =>
    intro h
    show zobristFold Z (ModifyZobristHash Z (ModifyZobristHash Z h y.1 y.2) x.1 x.2) l =
      zobristFold Z (ModifyZobristHash Z (ModifyZobristHash Z h x.1 x.2) y.1 y.2) l
    rw [ModifyZobristHash_comm]
  | trans _ _ ih₁ ih₂ => intro h; rw [ih₁, ih₂]

/-- C4: folding `Position::ModifyZobristHash` over a list of (player, move
index) pairs gives the same hash for every permutation of the list, from every
starting hash; and applying the same (player, move) twice gives the hash
back. -/
theorem zobrist_hash_order_independent (kZobristHash : Nat → Nat → Nat) (hash : Nat)
    (l₁ l₂ : List (Player × Nat)) (hperm : l₁.Perm l₂) :
    zobristFold kZobristHash hash l₁ = zobristFold kZobristHash hash l₂ ∧
    ∀ (h : Nat) (player : Player) (move : Nat),
      ModifyZobristHash kZobristHash (ModifyZobristHash kZobristHash h player move)
        player move = h :=
  ⟨zobristFold_perm kZobristHash hperm hash, ModifyZobristHash_twice kZobristHash⟩

theorem zobrist_hash_order_independent_witness :
    [(Player.kWhite, 3), (Player.kBlack, 5), (Player.kWhite, 0)].Perm
        [(Player.kWhite, 0), (Player.kWhite, 3), (Player.kBlack, 5)] ∧
    (zobristFold (fun m p => 1000 * m + 7 * p + 13) 42
        [(Player.kWhite, 3), (Player.kBlack, 5), (Player.kWhite, 0)] =
      zobristFold (fun m p => 1000 * m + 7 * p + 13) 42
        [(Player.kWhite, 0), (Player.kWhite, 3), (Player.kBlack, 5)] ∧
    ∀ (h : Nat) (player : Player) (move : Nat),
      ModifyZobristHash (fun m p => 1000 * m + 7 * p + 13)
        (ModifyZobristHash (fun m p => 1000 * m + 7 * p + 13) h player move)
        player move = h) :=
  ⟨by decide, zobrist_hash_order_independent _ 42 _ _ (by decide)⟩

/-! ### MctsNode -/

theorem ResultIsForced_cases (r : Int) :
    ResultIsForced r = true ↔ (VictoryIsForced r = true ∨ DrawIsForced r = true ∨
      DefeatIsForced r = true) := by
  simp only [ResultIsForced, VictoryIsForced, DrawIsForced, DefeatIsForced,
    DefeatOrDrawIsForced, Bool.or_eq_true, decide_eq_true_eq]
  constructor
  · rintro (h | h)
    · exact Or.inl h
    · rcases lt_or_eq_of_le h with h | h
      · exact Or.inr (Or.inr h)
      · exact Or.inr (Or.inl h)
  · rintro (h | h | h)
    · exact Or.inl h
    · exact Or.inr (le_of_eq h)
    · exact Or.inr (le_of_lt h)

/-- C8: when the `ucb_reward` of an `MctsNode` is a forced result, it is
still one after `UpdateUcbReward(x)` for every increment `x`; and when `x` is
not itself a forced result the node is left exactly as it was. -/
theorem UpdateUcbReward_keeps_forced (node : MctsNode) (x : Int)
    (hforced : ResultIsForced node.ucb_reward_ = true) :
    ResultIsForced (node.UpdateUcbReward x).ucb_reward_ = true ∧
    (ResultIsForced x = false → node.UpdateUcbReward x = node) := by
  constructor
  · unfold MctsNode.UpdateUcbReward AtomicIncrementIfFalse
    by_cases hx : ResultIsForced x = true
    · simp [hx]
    · simp [hx, hforced]
  · intro hx
    unfold MctsNode.UpdateUcbReward AtomicIncrementIfFalse
    simp [hx, hforced]

theorem UpdateUcbReward_keeps_forced_witness :
    ResultIsForced (MctsNode.mk (WonInNPlies 2) 5 0 0 0 0 0).ucb_reward_ = true ∧
    (ResultIsForced ((MctsNode.mk (WonInNPlies 2) 5 0 0 0 0 0).UpdateUcbReward 1).ucb_reward_
        = true ∧
      (ResultIsForced 1 = false →
        (MctsNode.mk (WonInNPlies 2) 5 0 0 0 0 0).UpdateUcbReward 1 =
          MctsNode.mk (WonInNPlies 2) 5 0 0 0 0 0)) :=
  ⟨by decide, UpdateUcbReward_keeps_forced _ 1 (by decide)⟩

/-- C9, as stated, fails: `UpdateUcbReward(LostInNPlies(1))`, the call
`ExpandNode` makes on the kids that do not answer a single threat, turns the
forced victory `WonInNPlies(2)` into a forced defeat; and
`UpdateUcbReward(WonInNPlies(0))` replaces a forced draw. -/
theorem UpdateUcbReward_changes_kind :
    (VictoryIsForced (MctsNode.mk (WonInNPlies 2) 0 0 0 0 0 0).ucb_reward_ = true ∧
      DefeatIsForced ((MctsNode.mk (WonInNPlies 2) 0 0 0 0 0 0).UpdateUcbReward
        (LostInNPlies 1)).ucb_reward_ = true) ∧
    (DrawIsForced (MctsNode.mk kBoardFilledDraw 0 0 0 0 0 0).ucb_reward_ = true ∧
      DrawIsForced ((MctsNode.mk kBoardFilledDraw 0 0 0 0 0 0).UpdateUcbReward
        (WonInNPlies 0)).ucb_reward_ = false) := by
  decide

/-- C9, amended: once the `ucb_reward` of a node is a forced result, a later
`UpdateUcbReward(x)` leaves it unchanged when `x` is not a forced result and
replaces it by `x` when `x` is one, whatever the kinds of the two values; so
the new reward is a forced victory, draw or defeat exactly when the value it
was taken from (`x` if forced, the old reward otherwise) is one. -/
theorem UpdateUcbReward_on_forced (node : MctsNode) (x : Int)
    (hforced : ResultIsForced node.ucb_reward_ = true) :
    (node.UpdateUcbReward x).ucb_reward_ =
      (if ResultIsForced x then x else node.ucb_reward_) ∧
    (ResultIsForced x = true →
      VictoryIsForced (node.UpdateUcbReward x).ucb_reward_ = VictoryIsForced x ∧
      DrawIsForced (node.UpdateUcbReward x).ucb_reward_ = DrawIsForced x ∧
      DefeatIsForced (node.UpdateUcbReward x).ucb_reward_ = DefeatIsForced x) ∧
    (ResultIsForced x = false →
      VictoryIsForced (node.UpdateUcbReward x).ucb_reward_ =
        VictoryIsForced node.ucb_reward_ ∧
      DrawIsForced (node.UpdateUcbReward x).ucb_reward_ = DrawIsForced node.ucb_reward_ ∧
      DefeatIsForced (node.UpdateUcbReward x).ucb_reward_ =
        DefeatIsForced node.ucb_reward_) := by
  have key : (node.UpdateUcbReward x).ucb_reward_ =
      (if ResultIsForced x then x else node.ucb_reward_) := by
    unfold MctsNode.UpdateUcbReward AtomicIncrementIfFalse
    by_cases hx : ResultIsForced x = true
    · simp [hx]
    · simp [hx, hforced]
  refine ⟨key, ?_, ?_⟩
  · intro hx
    rw [key]; simp [hx]
  · intro hx
    rw [key]; simp [hx]

theorem UpdateUcbReward_on_forced_witness :
    ResultIsForced (MctsNode.mk (WonInNPlies 2) 0 0 0 0 0 0).ucb_reward_ = true ∧
    ((MctsNode.mk (WonInNPlies 2) 0 0 0 0 0 0).UpdateUcbReward (LostInNPlies 1)).ucb_reward_
      = LostInNPlies 1 :=
  ⟨by decide, by
    have h := (UpdateUcbReward_on_forced (MctsNode.mk (WonInNPlies 2) 0 0 0 0 0 0)
      (LostInNPlies 1) (by decide)).1
    rw [h]; decide⟩

/-! ### WaitFreeHashMap: the hash functions -/

theorem kCapacity_eq (L : Nat) : kCapacity L = 2 ^ L := Nat.one_shiftLeft L

theorem kCapacity_pos (L : Nat) : 0 < kCapacity L := by
  rw [kCapacity_eq]; exact Nat.pow_pos (by decide)

theorem SecondaryHash_odd (L key : Nat) : SecondaryHash L key % 2 = 1 := by
  unfold SecondaryHash
  exact Nat.or_mod_two_eq_one.mpr (Or.inr rfl)

theorem SecondaryHash_lt (L key : Nat) (hL : 1 ≤ L) (hL64 : L ≤ 64) (hkey : key < 2 ^ 64) :
    SecondaryHash L key < kCapacity L := by
  unfold SecondaryHash kShift
  rw [kCapacity_eq]
  apply Nat.or_lt_two_pow
  · rw [Nat.shiftRight_eq_div_pow, Nat.div_lt_iff_lt_mul (Nat.pow_pos (by decide)),
      ← pow_add]
    have : L + (8 * 8 - L) = 64 := by omega
    rw [this]; exact hkey
  · exact Nat.one_lt_two_pow (by omega)

theorem SecondaryHash_coprime (L key : Nat) :
    Nat.gcd (kCapacity L) (SecondaryHash L key) = 1 := by
  rw [kCapacity_eq]
  apply Nat.Coprime.pow_left
  rw [Nat.coprime_two_left, Nat.odd_iff]
  exact SecondaryHash_odd L key

/-- The `i`-th probe in closed form. -/
theorem probeSlot_eq (L key i : Nat) :
    probeSlot L key i = (PrimaryHash L key + i * SecondaryHash L key) % kCapacity L := by
  induction i with
  | zero =>
    simp only [probeSlot, Function.iterate_zero, id, Nat.zero_mul, Nat.add_zero]
    unfold PrimaryHash
    rw [Nat.mod_mod]
  | succ n ih =>
    unfold probeSlot at ih ⊢
    rw [Function.iterate_succ_apply', ih]
    unfold nextProbe
    rw [Nat.add_mod, Nat.mod_mod, ← Nat.add_mod]
    congr 1
    ring

theorem probeSlot_lt (L key i : Nat) : probeSlot L key i < kCapacity L := by
  rw [probeSlot_eq]; exact Nat.mod_lt _ (kCapacity_pos L)

theorem probeSlot_injOn (L key i j : Nat) (hi : i < kCapacity L) (hj : j < kCapacity L)
    (h : probeSlot L key i = probeSlot L key j) : i = j := by
  rw [probeSlot_eq, probeSlot_eq] at h
  have h1 : i * SecondaryHash L key ≡ j * SecondaryHash L key [MOD kCapacity L] :=
    Nat.ModEq.add_left_cancel' (PrimaryHash L key) h
  have h2 : i ≡ j [MOD kCapacity L] :=
    Nat.ModEq.cancel_right_of_coprime (SecondaryHash_coprime L key) h1
  have h3 := h2
  unfold Nat.ModEq at h3
  rwa [Nat.mod_eq_of_lt hi, Nat.mod_eq_of_lt hj] at h3

/-- Every slot is the target of some probe among the first `kCapacity`. -/
theorem probeSlot_surj (L key slot : Nat) (hslot : slot < kCapacity L) :
    ∃ i, i < kCapacity L ∧ probeSlot L key i = slot := by
  let f : Fin (kCapacity L) → Fin (kCapacity L) :=
    fun i => ⟨probeSlot L key i.1, probeSlot_lt L key i.1⟩
  have hinj : Function.Injective f := by
    intro a b hab
    apply Fin.ext
    exact probeSlot_injOn L key a.1 b.1 a.2 b.2 (congrArg Fin.val hab)
  have hsurj : Function.Surjective f := Finite.injective_iff_surjective.mp hinj
  obtain ⟨i, hi⟩ := hsurj ⟨slot, hslot⟩
  exact ⟨i.1, i.2, congrArg Fin.val hi⟩

/-- The probes repeat themselves with period `kCapacity`. -/
theorem probeSlot_add_capacity (L key i : Nat) :
    probeSlot L key (i + kCapacity L) = probeSlot L key i := by
  rw [probeSlot_eq, probeSlot_eq, Nat.add_mul, ← Nat.add_assoc, Nat.add_mul_mod_self_left]

/-- C7: `PrimaryHash(key)` is `key mod kCapacity`, `SecondaryHash(key)` is odd
and less than the capacity, the `i`-th probed slot is
`(PrimaryHash(key) + i * SecondaryHash(key)) mod kCapacity`, and the probes
`i = 0 .. kCapacity - 1` visit every slot exactly once. The capacity is
`2 ^ L` for the template argument `kLogCapacity = L`, `1 ≤ L`, and keys
are 64-bit. -/
theorem probe_sequence_visits_every_slot_once (L key : Nat)
    (hL : 1 ≤ L) (hL64 : L ≤ 64) (hkey : key < 2 ^ 64) :
    PrimaryHash L key = key % kCapacity L ∧
    SecondaryHash L key % 2 = 1 ∧
    SecondaryHash L key < kCapacity L ∧
    (∀ i, probeSlot L key i =
      (PrimaryHash L key + i * SecondaryHash L key) % kCapacity L) ∧
    (∀ slot, slot < kCapacity L →
      ∃! i, i < kCapacity L ∧ probeSlot L key i = slot) := by
  refine ⟨rfl, SecondaryHash_odd L key, SecondaryHash_lt L key hL hL64 hkey,
    probeSlot_eq L key, ?_⟩
  intro slot hslot
  obtain ⟨i, hi, his⟩ := probeSlot_surj L key slot hslot
  refine ⟨i, ⟨hi, his⟩, ?_⟩
  rintro j ⟨hj, hjs⟩
  exact probeSlot_injOn L key j i hj hi (hjs.trans his.symm)

theorem probe_sequence_visits_every_slot_once_witness :
    (1 ≤ 20 ∧ 20 ≤ 64 ∧ 81985529216486895 < 2 ^ 64) ∧
    (PrimaryHash 20 81985529216486895 = 81985529216486895 % kCapacity 20 ∧
    SecondaryHash 20 81985529216486895 % 2 = 1 ∧
    SecondaryHash 20 81985529216486895 < kCapacity 20 ∧
    (∀ i, probeSlot 20 81985529216486895 i =
      (PrimaryHash 20 81985529216486895 + i * SecondaryHash 20 81985529216486895)
        % kCapacity 20) ∧
    (∀ slot, slot < kCapacity 20 →
      ∃! i, i < kCapacity 20 ∧ probeSlot 20 81985529216486895 i = slot)) :=
  ⟨by decide, probe_sequence_visits_every_slot_once 20 81985529216486895
    (by decide) (by decide) (by decide)⟩

namespace WaitFreeHashMap

theorem KeysPreserved.rfl' (t : WaitFreeHashMap) : KeysPreserved t t := fun _ _ => rfl

theorem KeysPreserved.trans' {t t' t'' : WaitFreeHashMap}
    (h₁ : KeysPreserved t t') (h₂ : KeysPreserved t' t'') : KeysPreserved t t'' := by
  intro n hn
  have h := h₁ n hn
  rw [h₂ n (by rw [h]; exact hn), h]

theorem casKey_of_ne (t : WaitFreeHashMap) (hash oldval newval : Nat)
    (h : t.keys hash ≠ oldval) : casKey t hash oldval newval = (t.keys hash, t) := by
  unfold casKey AtomicCompareAndSwap
  simp only [h, if_false, Function.update_eq_self]

theorem casKey_of_eq (t : WaitFreeHashMap) (hash oldval newval : Nat)
    (h : t.keys hash = oldval) :
    casKey t hash oldval newval =
      (oldval, { t with keys := Function.update t.keys hash newval }) := by
  unfold casKey AtomicCompareAndSwap
  simp only [h, if_true]

theorem increment_num_elements_keys (t : WaitFreeHashMap) (key : Nat) :
    (increment_num_elements t key).keys = t.keys := rfl

theorem insertLoop_keysPreserved (L key jump : Nat) :
    ∀ (fuel hash : Nat) (t : WaitFreeHashMap),
      KeysPreserved t (insertLoop L key jump fuel hash t).2 := by
  intro fuel
  induction fuel with
  | zero => intro hash t; exact KeysPreserved.rfl' t
  | succ f ih =>
    intro hash t
    unfold insertLoop
    by_cases h0 : t.keys ((hash + jump) % kCapacity L) = kEmptyKey
    · simp only [casKey_of_eq t _ _ _ h0, if_true]
      intro n hn
      simp only [increment_num_elements_keys]
      rw [Function.update_noteq]
      intro hEq; rw [hEq] at hn; exact hn h0
    · simp only [casKey_of_ne t _ _ _ h0, h0, if_false]
      by_cases hk : t.keys ((hash + jump) % kCapacity L) = key
      · simp only [hk, if_true]; exact KeysPreserved.rfl' t
      · simp only [hk, if_false]; exact ih _ t

theorem InsertKey_keysPreserved (L : Nat) (t : WaitFreeHashMap) (key : Nat) :
    KeysPreserved t (InsertKey L t key).2 := by
  unfold InsertKey
  by_cases hlim : t.num_elements_ 0 > kLimit L / kNumCounters
  · simp only [hlim, if_true]; exact KeysPreserved.rfl' t
  · simp only [hlim, if_false]
    by_cases hkey : key = kEmptyKey
    swap
    · simp only [ne_eq, hkey, not_false_eq_true, if_true]
      by_cases h0 : t.keys (PrimaryHash L key) = kEmptyKey
      · simp only [casKey_of_eq t _ _ _ h0, if_true]
        intro n hn
        simp only [increment_num_elements_keys]
        rw [Function.update_noteq]
        intro hEq; rw [hEq] at hn; exact hn h0
      · simp only [casKey_of_ne t _ _ _ h0, h0, if_false]
        by_cases hk : t.keys (PrimaryHash L key) = key
        · simp only [hk, if_true]; exact KeysPreserved.rfl' t
        · simp only [hk, if_false]; exact insertLoop_keysPreserved L key _ _ _ t
    · simp only [ne_eq, hkey, not_true_eq_false, if_false]
      by_cases h0 : t.keys (PrimaryHash L kEmptyKey) = kEmptyKey
      · simp only [casKey_of_eq t _ _ _ h0, if_true]
        intro n hn
        simp only [increment_num_elements_keys]
        rw [Function.update_noteq]
        intro hEq; rw [hEq] at hn; exact hn h0
      · simp only [casKey_of_ne t _ _ _ h0, h0, if_false]
        by_cases hk : t.keys (PrimaryHash L kEmptyKey) = kEmptyKey + 1
        · simp only [hk, if_true]; exact KeysPreserved.rfl' t
        · simp only [hk, if_false]; exact KeysPreserved.rfl' t

theorem InsertReach_keysPreserved (L : Nat) {t t' : WaitFreeHashMap}
    (h : InsertReach L t t') : KeysPreserved t t' := by
  induction h with
  | refl => exact KeysPreserved.rfl' _
  | @step t₁ t₂ _ hstep ih =>
    obtain ⟨key, r, hr, _⟩ := hstep
    have := InsertKey_keysPreserved L t₁ key
    rw [hr] at this
    exact ih.trans' this

/-- When the insertion loop returns a slot, the lookup loop returns the same
slot on every table that preserves the keys of the table after insertion. -/
theorem findLoop_of_insertLoop (L key jump : Nat) (hkey : key ≠ kEmptyKey) :
    ∀ (fuel hash : Nat) (t t'' : WaitFreeHashMap) (s : Nat),
      (insertLoop L key jump fuel hash t).1 = Outcome.slot s →
      KeysPreserved (insertLoop L key jump fuel hash t).2 t'' →
      findLoop L t'' key jump fuel hash = Outcome.slot s := by
  intro fuel
  induction fuel with
  | zero => intro hash t t'' s h; simp [insertLoop] at h
  | succ f ih =>
    intro hash t t'' s
    have hpres := insertLoop_keysPreserved L key jump (f + 1) hash t
    revert hpres
    unfold insertLoop findLoop
    by_cases h0 : t.keys ((hash + jump) % kCapacity L) = kEmptyKey
    · simp only [casKey_of_eq t _ _ _ h0, if_true]
      intro _ hs hp
      have hk : t''.keys ((hash + jump) % kCapacity L) = key := by
        rw [hp _ (by simp [increment_num_elements_keys, hkey])]
        simp [increment_num_elements_keys]
      simp only [hk, if_true]
      exact hs
    · simp only [casKey_of_ne t _ _ _ h0, h0, if_false]
      by_cases hk : t.keys ((hash + jump) % kCapacity L) = key
      · simp only [hk, if_true]
        intro _ hs hp
        have hk2 : t''.keys ((hash + jump) % kCapacity L) = key := by
          rw [hp _ (by rw [hk]; exact hkey), hk]
        simp only [hk2, if_true]
        exact hs
      · simp only [hk, if_false]
        intro hpres hs hp
        have hk2 : t''.keys ((hash + jump) % kCapacity L) =
            t.keys ((hash + jump) % kCapacity L) := (hpres.trans' hp) _ h0
        simp only [hk2, hk, h0, if_false]
        exact ih _ t t'' s hs hp

/-- When the lookup loop returns a slot, the insertion loop returns the same
slot and leaves the table as it is. -/
theorem insertLoop_of_findLoop (L key jump : Nat) (hkey : key ≠ kEmptyKey) :
    ∀ (fuel hash : Nat) (t : WaitFreeHashMap) (s : Nat),
      findLoop L t key jump fuel hash = Outcome.slot s →
      insertLoop L key jump fuel hash t = (Outcome.slot s, t) := by
  intro fuel
  induction fuel with
  | zero => intro hash t s h; simp [findLoop] at h
  | succ f ih =>
    intro hash t s
    unfold insertLoop findLoop
    by_cases hk : t.keys ((hash + jump) % kCapacity L) = key
    · have h0 : t.keys ((hash + jump) % kCapacity L) ≠ kEmptyKey := by
        rw [hk]; exact hkey
      simp only [casKey_of_ne t _ _ _ h0, hk, hkey, if_true, if_false]
      intro hs; rw [hs]
    · by_cases h0 : t.keys ((hash + jump) % kCapacity L) = kEmptyKey
      · simp only [h0, Ne.symm hkey, if_true, if_false]
        intro hs; cases hs
      · simp only [casKey_of_ne t _ _ _ h0, h0, hk, if_false]
        exact ih _ t s

/-- The `i`-th probe is one step of the probing loop after the one before. -/
theorem probeSlot_succ (L key i : Nat) :
    probeSlot L key (i + 1) =
      (probeSlot L key i + SecondaryHash L key) % kCapacity L := by
  unfold probeSlot
  rw [Function.iterate_succ_apply']
  rfl

/-- The insertion loop gives up only when none of the slots it probed was
empty or held the key. -/
theorem insertLoop_loopsForever (L key : Nat) :
    ∀ (fuel i : Nat) (t : WaitFreeHashMap),
      (insertLoop L key (SecondaryHash L key) fuel (probeSlot L key i) t).1 =
        Outcome.loopsForever →
      ∀ m, i < m → m ≤ i + fuel →
        t.keys (probeSlot L key m) ≠ kEmptyKey ∧ t.keys (probeSlot L key m) ≠ key := by
  intro fuel
  induction fuel with
  | zero => intro i t _ m h1 h2; omega
  | succ f ih =>
    intro i t
    unfold insertLoop
    rw [← probeSlot_succ]
    by_cases h0 : t.keys (probeSlot L key (i + 1)) = kEmptyKey
    · simp only [casKey_of_eq t _ _ _ h0, if_true]
      intro h; cases h
    · simp only [casKey_of_ne t _ _ _ h0, h0, if_false]
      by_cases hk : t.keys (probeSlot L key (i + 1)) = key
      · simp only [hk, if_true]
        intro h; cases h
      · simp only [hk, if_false]
        intro h m h1 h2
        by_cases hm : m = i + 1
        · rw [hm]; exact ⟨h0, hk⟩
        · exact ih (i + 1) t h m (by omega) (by omega)

/-- On a table without an empty slot and without the key the insertion loop
never exits, whatever the number of iterations granted. -/
theorem insertLoop_of_full (L key jump : Nat) (t : WaitFreeHashMap)
    (hfull : ∀ n, n < kCapacity L → t.keys n ≠ kEmptyKey ∧ t.keys n ≠ key) :
    ∀ (fuel hash : Nat), insertLoop L key jump fuel hash t = (Outcome.loopsForever, t) := by
  intro fuel
  induction fuel with
  | zero => intro hash; rfl
  | succ f ih =>
    intro hash
    unfold insertLoop
    have h := hfull ((hash + jump) % kCapacity L) (Nat.mod_lt _ (kCapacity_pos L))
    simp only [casKey_of_ne t _ _ _ h.1, h.1, h.2, if_false]
    exact ih _

theorem probeSlot_add_mul_capacity (L key i q : Nat) :
    probeSlot L key (i + q * kCapacity L) = probeSlot L key i := by
  induction q with
  | zero => simp
  | succ q ih =>
    rw [Nat.succ_mul, ← Nat.add_assoc, probeSlot_add_capacity, ih]

/-- Every slot is probed within any `kCapacity` probes in a row. -/
theorem probeSlot_surj_window (L key slot i : Nat) (hslot : slot < kCapacity L) :
    ∃ m, i < m ∧ m ≤ i + kCapacity L ∧ probeSlot L key m = slot := by
  obtain ⟨j, hj, hjs⟩ := probeSlot_surj L key slot hslot
  have hc := kCapacity_pos L
  -- the probe with index `j + (i / c + 1) * c - ((i - j % c) ...)`: pick by cases
  by_cases hji : i % kCapacity L < j
  · refine ⟨j + (i / kCapacity L) * kCapacity L, ?_, ?_, ?_⟩
    · have := Nat.div_add_mod i (kCapacity L)
      rw [Nat.mul_comm] at this
      omega
    · have := Nat.div_add_mod i (kCapacity L)
      rw [Nat.mul_comm] at this
      have := Nat.mod_lt i hc
      omega
    · rw [probeSlot_add_mul_capacity]; exact hjs
  · refine ⟨j + (i / kCapacity L + 1) * kCapacity L, ?_, ?_, ?_⟩
    · have := Nat.div_add_mod i (kCapacity L)
      rw [Nat.mul_comm] at this
      have := Nat.mod_lt i hc
      rw [Nat.succ_mul]
      omega
    · have := Nat.div_add_mod i (kCapacity L)
      rw [Nat.mul_comm] at this
      rw [Nat.succ_mul]
      omega
    · rw [probeSlot_add_mul_capacity]; exact hjs

/-- The bound `kCapacity` on the iterations of the insertion loop loses
nothing: when the loop has not exited after `kCapacity` iterations, it
never exits. -/
theorem insertLoop_loopsForever_of_le (L key : Nat) (i : Nat) (t : WaitFreeHashMap)
    (h : (insertLoop L key (SecondaryHash L key) (kCapacity L) (probeSlot L key i) t).1 =
      Outcome.loopsForever) :
    ∀ (fuel hash : Nat),
      insertLoop L key (SecondaryHash L key) fuel hash t = (Outcome.loopsForever, t) := by
  apply insertLoop_of_full
  intro n hn
  obtain ⟨m, h1, h2, h3⟩ := probeSlot_surj_window L key n i hn
  rw [← h3]
  exact insertLoop_loopsForever L key (kCapacity L) i t h m h1 h2

theorem FindValue_of_InsertKey (L : Nat) (t t'' : WaitFreeHashMap) (key s : Nat)
    (hins : (InsertKey L t key).1 = Outcome.slot s)
    (hp : KeysPreserved (InsertKey L t key).2 t'') :
    FindValue L t'' key = Outcome.slot s := by
  have hpres := InsertKey_keysPreserved L t key
  revert hins hp hpres
  unfold InsertKey FindValue
  by_cases hlim : t.num_elements_ 0 > kLimit L / kNumCounters
  · simp only [hlim, if_true]; intro hs; cases hs
  · simp only [hlim, if_false]
    by_cases hkey : key = kEmptyKey
    swap
    · simp only [ne_eq, hkey, not_false_eq_true, if_true]
      by_cases h0 : t.keys (PrimaryHash L key) = kEmptyKey
      · simp only [casKey_of_eq t _ _ _ h0, if_true]
        intro hs hp _
        have hk : t''.keys (PrimaryHash L key) = key := by
          rw [hp _ (by simp [increment_num_elements_keys, hkey])]
          simp [increment_num_elements_keys]
        simp only [hk, if_true]
        exact hs
      · simp only [casKey_of_ne t _ _ _ h0, h0, if_false]
        by_cases hk : t.keys (PrimaryHash L key) = key
        · simp only [hk, if_true]
          intro hs hp _
          have hk2 : t''.keys (PrimaryHash L key) = key := by
            rw [hp _ (by rw [hk]; exact hkey), hk]
          simp only [hk2, if_true]
          exact hs
        · simp only [hk, if_false]
          intro hs hp hpres
          have hk2 : t''.keys (PrimaryHash L key) = t.keys (PrimaryHash L key) :=
            (hpres.trans' hp) _ h0
          simp only [hk2, hk, h0, if_false]
          exact findLoop_of_insertLoop L key _ hkey _ _ t t'' s hs hp
    · simp only [ne_eq, hkey, not_true_eq_false, if_false]
      by_cases h0 : t.keys (PrimaryHash L kEmptyKey) = kEmptyKey
      · simp only [casKey_of_eq t _ _ _ h0, if_true]
        intro hs hp _
        have hk : t''.keys (PrimaryHash L kEmptyKey) = kEmptyKey + 1 := by
          rw [hp _ (by simp [increment_num_elements_keys, kEmptyKey])]
          simp [increment_num_elements_keys]
        simp only [hk, if_true]
        exact hs
      · simp only [casKey_of_ne t _ _ _ h0, h0, if_false]
        by_cases hk : t.keys (PrimaryHash L kEmptyKey) = kEmptyKey + 1
        · simp only [hk, if_true]
          intro hs hp _
          have hk2 : t''.keys (PrimaryHash L kEmptyKey) = kEmptyKey + 1 := by
            rw [hp _ (by rw [hk]; simp [kEmptyKey]), hk]
          simp only [hk2, if_true]
          exact hs
        · simp only [hk, if_false]
          intro hs; cases hs

theorem InsertKey_of_FindValue (L : Nat) (t : WaitFreeHashMap) (key s : Nat)
    (hfind : FindValue L t key = Outcome.slot s) :
    InsertKey L t key = (Outcome.null, t) ∨ InsertKey L t key = (Outcome.slot s, t) := by
  revert hfind
  unfold InsertKey FindValue
  by_cases hlim : t.num_elements_ 0 > kLimit L / kNumCounters
  · simp only [hlim, if_true]; intro _; exact Or.inl trivial
  · simp only [hlim, if_false]
    intro hfind
    right
    revert hfind
    by_cases hkey : key = kEmptyKey
    swap
    · simp only [ne_eq, hkey, not_false_eq_true, if_true]
      by_cases hk : t.keys (PrimaryHash L key) = key
      · have h0 : t.keys (PrimaryHash L key) ≠ kEmptyKey := by rw [hk]; exact hkey
        simp only [casKey_of_ne t _ _ _ h0, hk, hkey, if_true, if_false]
        intro hs; rw [hs]
      · by_cases h0 : t.keys (PrimaryHash L key) = kEmptyKey
        · simp only [h0, Ne.symm hkey, if_true, if_false]
          intro hs; cases hs
        · simp only [casKey_of_ne t _ _ _ h0, h0, hk, if_false]
          exact insertLoop_of_findLoop L key _ hkey _ _ t s
    · simp only [ne_eq, hkey, not_true_eq_false, if_false]
      by_cases hk : t.keys (PrimaryHash L kEmptyKey) = kEmptyKey + 1
      · have h0 : t.keys (PrimaryHash L kEmptyKey) ≠ kEmptyKey := by
          rw [hk]; simp [kEmptyKey]
        simp only [casKey_of_ne t _ _ _ h0, hk, if_true]
        have : kEmptyKey + 1 ≠ kEmptyKey := by simp [kEmptyKey]
        simp only [this, if_false]
        intro hs; rw [hs]
      · by_cases h0 : t.keys (PrimaryHash L kEmptyKey) = kEmptyKey
        · simp only [h0, if_true]
          have : kEmptyKey ≠ kEmptyKey + 1 := by simp [kEmptyKey]
          simp only [this, if_false]
          intro hs; cases hs
        · simp only [hk, h0, if_false]
          intro hs; cases hs

/-- C5: in the single-threaded model of `WaitFreeHashMap`, when
`InsertKey(key)` returns a slot `s` (from a cleared table or any other), then
after any further returning calls of `InsertKey`, for any keys,
`FindValue(key)` returns the same slot `s`, and a repeated `InsertKey(key)`
either returns `NULL` or returns `s` again; in both cases it leaves the table,
and with it `num_elements()`, as it is. -/
theorem InsertKey_then_FindValue (L : Nat) (t t₁ t₂ : WaitFreeHashMap) (key s : Nat)
    (hins : InsertKey L t key = (Outcome.slot s, t₁))
    (hreach : InsertReach L t₁ t₂) :
    FindValue L t₂ key = Outcome.slot s ∧
    (∀ r t₃, InsertKey L t₂ key = (r, t₃) → r ≠ Outcome.null →
      r = Outcome.slot s ∧ t₃ = t₂ ∧ num_elements t₃ = num_elements t₂) := by
  have hfind : FindValue L t₂ key = Outcome.slot s := by
    apply FindValue_of_InsertKey L t t₂ key s
    · rw [hins]
    · rw [hins]; exact InsertReach_keysPreserved L hreach
  refine ⟨hfind, ?_⟩
  intro r t₃ hr hnull
  rcases InsertKey_of_FindValue L t₂ key s hfind with h | h
  · rw [h] at hr
    exact absurd (congrArg Prod.fst hr).symm hnull
  · rw [h] at hr
    have h1 := congrArg Prod.fst hr
    have h2 := congrArg Prod.snd hr
    simp only at h1 h2
    subst h1 h2
    exact ⟨rfl, rfl, rfl⟩

theorem InsertKey_then_FindValue_witness :
    InsertKey 3 Clear 5 = (Outcome.slot 5, (InsertKey 3 Clear 5).2) ∧
    InsertReach 3 (InsertKey 3 Clear 5).2 (InsertKey 3 (InsertKey 3 Clear 5).2 13).2 ∧
    (FindValue 3 (InsertKey 3 (InsertKey 3 Clear 5).2 13).2 5 = Outcome.slot 5 ∧
    (∀ r t₃, InsertKey 3 (InsertKey 3 (InsertKey 3 Clear 5).2 13).2 5 = (r, t₃) →
      r ≠ Outcome.null →
      r = Outcome.slot 5 ∧ t₃ = (InsertKey 3 (InsertKey 3 Clear 5).2 13).2 ∧
        num_elements t₃ = num_elements (InsertKey 3 (InsertKey 3 Clear 5).2 13).2)) :=
  ⟨rfl, InsertReach.step (InsertReach.refl _) ⟨13, Outcome.slot 6, rfl, Or.inr ⟨6, rfl⟩⟩,
    InsertKey_then_FindValue 3 Clear _ _ 5 5 rfl
      (InsertReach.step (InsertReach.refl _) ⟨13, Outcome.slot 6, rfl, Or.inr ⟨6, rfl⟩⟩)⟩

set_option maxRecDepth 100000 in
/-- C6, as stated, fails. With `kLogCapacity = 6` (capacity 64, `kLimit` 48,
`kLimit / 16 = 3`) the sixty keys 1 .. 63 not divisible by 16 are inserted
into a cleared table one after another. Sixty slots are then occupied, more
than 3/4 of the capacity, and yet `InsertKey(65)`, a key not present, returns
the slot 16 and stores the key there: only the counter `num_elements_[0]`,
which counts the keys divisible by 16 and is still 0, is compared with the
limit. After the keys 65 .. 68 the table is full, and `InsertKey(69)` never
leaves its probing loop. -/
theorem InsertKey_above_three_quarters :
    occupied 6 (insertAll 6 Clear sixtyKeys) = 60 ∧
    kLimit 6 = 48 ∧
    (insertAll 6 Clear sixtyKeys).num_elements_ 0 = 0 ∧
    FindValue 6 (insertAll 6 Clear sixtyKeys) 65 = Outcome.null ∧
    (InsertKey 6 (insertAll 6 Clear sixtyKeys) 65).1 = Outcome.slot 16 ∧
    (InsertKey 6 (insertAll 6 Clear sixtyKeys) 65).2.keys 16 = 65 ∧
    occupied 6 (insertAll 6 Clear (sixtyKeys ++ [65, 66, 67, 68])) = 64 ∧
    (InsertKey 6 (insertAll 6 Clear (sixtyKeys ++ [65, 66, 67, 68])) 69).1 =
      Outcome.loopsForever := by
  decide

theorem InsertKey_ne_loopsForever (L : Nat) (t : WaitFreeHashMap) (key : Nat)
    (hslot : ∃ n, n < kCapacity L ∧ (t.keys n = kEmptyKey ∨ t.keys n = key)) :
    (InsertKey L t key).1 ≠ Outcome.loopsForever := by
  intro h
  obtain ⟨n, hn, hkn⟩ := hslot
  revert h
  unfold InsertKey
  by_cases hlim : t.num_elements_ 0 > kLimit L / kNumCounters
  · simp only [hlim, if_true]; intro h; cases h
  · simp only [hlim, if_false]
    by_cases hkey : key = kEmptyKey
    swap
    · simp only [ne_eq, hkey, not_false_eq_true, if_true]
      by_cases h0 : t.keys (PrimaryHash L key) = kEmptyKey
      · simp only [casKey_of_eq t _ _ _ h0, if_true]; intro h; cases h
      · simp only [casKey_of_ne t _ _ _ h0, h0, if_false]
        by_cases hk : t.keys (PrimaryHash L key) = key
        · simp only [hk, if_true]; intro h; cases h
        · simp only [hk, if_false]
          intro h
          obtain ⟨m, h1, h2, h3⟩ := probeSlot_surj_window L key n 0 hn
          have := insertLoop_loopsForever L key (kCapacity L) 0 t h m h1 h2
          rw [h3] at this
          rcases hkn with hkn | hkn
          · exact this.1 hkn
          · exact this.2 hkn
    · simp only [ne_eq, hkey, not_true_eq_false, if_false]
      by_cases h0 : t.keys (PrimaryHash L kEmptyKey) = kEmptyKey
      · simp only [casKey_of_eq t _ _ _ h0, if_true]; intro h; cases h
      · simp only [casKey_of_ne t _ _ _ h0, h0, if_false]
        by_cases hk : t.keys (PrimaryHash L kEmptyKey) = kEmptyKey + 1
        · simp only [hk, if_true]; intro h; cases h
        · simp only [hk, if_false]; intro h; cases h

/-- C6, amended: whenever the counter `num_elements_[0]`, the number of stored
keys divisible by 16, exceeds `kLimit / 16`, `InsertKey` of any key returns
`NULL` and leaves keys, values and counters unchanged; and `InsertKey` leaves
its probing loop whenever some slot of the table is empty or holds the
key. -/
theorem InsertKey_limit_and_termination (L : Nat) (t : WaitFreeHashMap) (key : Nat) :
    (t.num_elements_ 0 > kLimit L / kNumCounters → InsertKey L t key = (Outcome.null, t)) ∧
    ((∃ n, n < kCapacity L ∧ (t.keys n = kEmptyKey ∨ t.keys n = key)) →
      (InsertKey L t key).1 ≠ Outcome.loopsForever) := by
  refine ⟨?_, InsertKey_ne_loopsForever L t key⟩
  intro hlim
  unfold InsertKey
  simp only [hlim, if_true]

theorem InsertKey_limit_and_termination_witness :
    ((insertAll 3 Clear [16]).num_elements_ 0 > kLimit 3 / kNumCounters ∧
      InsertKey 3 (insertAll 3 Clear [16]) 5 = (Outcome.null, insertAll 3 Clear [16])) ∧
    ((∃ n, n < kCapacity 3 ∧
        ((insertAll 3 Clear [1, 2]).keys n = kEmptyKey ∨ (insertAll 3 Clear [1, 2]).keys n = 9)) ∧
      (InsertKey 3 (insertAll 3 Clear [1, 2]) 9).1 ≠ Outcome.loopsForever) :=
  ⟨⟨by decide, (InsertKey_limit_and_termination 3 (insertAll 3 Clear [16]) 5).1 (by decide)⟩,
    ⟨⟨3, by decide, Or.inl (by decide)⟩,
      (InsertKey_limit_and_termination 3 (insertAll 3 Clear [1, 2]) 9).2
        ⟨3, by decide, Or.inl (by decide)⟩⟩⟩

end WaitFreeHashMap

/-! ### The monad of computations -/

theorem bind_apply {α β : Type} (x : M α) (f : α → M β) (s : State) :
    (x >>= f) s = match x s with
      | Res.ok a s' => f a s'
      | Res.fail e => Res.fail e := rfl

theorem pure_apply {α : Type} (a : α) (s : State) :
    (pure a : M α) s = Res.ok a s := rfl

theorem pure_bind' {α β : Type} (a : α) (f : α → M β) : (pure a >>= f) = f a := rfl

theorem bind_assoc' {α β γ : Type} (x : M α) (f : α → M β) (g : β → M γ) :
    (x >>= f) >>= g = x >>= fun a => f a >>= g := by
  funext s
  simp only [bind_apply]
  cases x s <;> rfl

theorem ite_bind' {α β : Type} (c : Prop) [Decidable c] (x y : M α) (f : α → M β) :
    ((if c then x else y) >>= f) = if c then x >>= f else y >>= f := by
  by_cases h : c
  · rw [if_pos h, if_pos h]
  · rw [if_neg h, if_neg h]

theorem ite_apply' {α : Type} (c : Prop) [Decidable c] (x y : M α) (s : State) :
    (if c then x else y) s = if c then x s else y s := by
  by_cases h : c
  · rw [if_pos h, if_pos h]
  · rw [if_neg h, if_neg h]

theorem bind_ok {α β : Type} {x : M α} {f : α → M β} {s s'' : State} {b : β}
    (h : (x >>= f) s = Res.ok b s'') :
    ∃ a s', x s = Res.ok a s' ∧ f a s' = Res.ok b s'' := by
  rw [bind_apply] at h
  cases hx : x s with
  | ok a s' => rw [hx] at h; exact ⟨a, s', rfl, h⟩
  | fail e => rw [hx] at h; cases h

theorem ite_fail_eq_ok {α : Type} (c : Prop) [Decidable c] (r : Res α) (e : Err) (a : α)
    (s : State) : (if c then r else Res.fail e) = Res.ok a s ↔ c ∧ r = Res.ok a s := by
  by_cases h : c
  · rw [if_pos h]; exact ⟨fun h' => ⟨h, h'⟩, fun h' => h'.2⟩
  · rw [if_neg h]; exact ⟨fun h' => (by cases h'), fun h' => absurd h'.1 h⟩

/-! The primitive computations, run and sequenced. -/

theorem assert_bind {β : Type} (b : Bool) (f : Unit → M β) (s : State) :
    (assert b >>= f) s = if b = true then f () s else Res.fail Err.assertFailed := by
  rw [bind_apply]; unfold assert
  cases b <;> rfl

theorem assert_apply (b : Bool) (s : State) :
    assert b s = if b = true then Res.ok () s else Res.fail Err.assertFailed := by
  unfold assert; cases b <;> rfl

theorem inBounds_bind {β : Type} (b : Bool) (f : Unit → M β) (s : State) :
    (inBounds b >>= f) s = if b = true then f () s else Res.fail Err.outOfBounds := by
  rw [bind_apply]; unfold inBounds
  cases b <;> rfl

theorem inBounds_apply (b : Bool) (s : State) :
    inBounds b s = if b = true then Res.ok () s else Res.fail Err.outOfBounds := by
  unfold inBounds; cases b <;> rfl

theorem readW_bind {β : Type} (loc : Loc) (f : Nat → M β) (s : State) :
    (readW loc >>= f) s = f (s.mem loc) s := rfl

theorem readW_apply (loc : Loc) (s : State) : readW loc s = Res.ok (s.mem loc) s := rfl

theorem writeW_bind {β : Type} (loc : Loc) (v : Nat) (f : Unit → M β) (s : State) :
    (writeW loc v >>= f) s = f () (s.write loc v) := rfl

theorem writeW_apply (loc : Loc) (v : Nat) (s : State) :
    writeW loc v s = Res.ok () (s.write loc v) := rfl

theorem readByte_bind {β : Type} (base : Nat → Loc) (i : Nat) (f : Nat → M β) (s : State) :
    (readByte base i >>= f) s = f (getByte (s.mem (base (i / 4))) (i % 4)) s := rfl

theorem readByte_apply (base : Nat → Loc) (i : Nat) (s : State) :
    readByte base i s = Res.ok (getByte (s.mem (base (i / 4))) (i % 4)) s := rfl

theorem writeByte_bind {β : Type} (base : Nat → Loc) (i v : Nat) (f : Unit → M β)
    (s : State) :
    (writeByte base i v >>= f) s =
      f () (s.write (base (i / 4)) (setByte (s.mem (base (i / 4))) (i % 4) v)) := rfl

theorem writeByte_apply (base : Nat → Loc) (i v : Nat) (s : State) :
    writeByte base i v s =
      Res.ok () (s.write (base (i / 4)) (setByte (s.mem (base (i / 4))) (i % 4) v)) := rfl

theorem getSize_bind {β : Type} (cs : Nat) (f : Nat → M β) (s : State) :
    (getSize cs >>= f) s = f (s.size cs) s := rfl

theorem getSize_apply (cs : Nat) (s : State) : getSize cs s = Res.ok (s.size cs) s := rfl

theorem pushChain_bind {β : Type} (cs : Nat) (f : Unit → M β) (s : State) :
    (pushChain cs >>= f) s = f () (s.setSize cs (s.size cs + 1)) := rfl

theorem pushChain_apply (cs : Nat) (s : State) :
    pushChain cs s = Res.ok () (s.setSize cs (s.size cs + 1)) := rfl

theorem Remember_bind {β : Type} (loc : Loc) (f : Unit → M β) (s : State) :
    (Memento.Remember loc >>= f) s = f () (s.remember loc) := rfl

theorem Remember_apply (loc : Loc) (s : State) :
    Memento.Remember loc s = Res.ok () (s.remember loc) := rfl

theorem RememberByte_bind {β : Type} (base : Nat → Loc) (i : Nat) (f : Unit → M β)
    (s : State) :
    (Memento.RememberByte base i >>= f) s = f () (s.remember (base (i / 4))) := rfl

theorem RememberByte_apply (base : Nat → Loc) (i : Nat) (s : State) :
    Memento.RememberByte base i s = Res.ok () (s.remember (base (i / 4))) := rfl

theorem RememberSize_bind {β : Type} (cs : Nat) (f : Unit → M β) (s : State) :
    (Memento.RememberSize cs >>= f) s = f () (s.rememberSize cs) := rfl

theorem RememberSize_apply (cs : Nat) (s : State) :
    Memento.RememberSize cs s = Res.ok () (s.rememberSize cs) := rfl

theorem readChainRows_bind {β : Type} (p ch : Nat) (f : (Nat → Nat) → M β) (s : State) :
    (readChainRows p ch >>= f) s = f (chainRows s p ch) s := rfl

theorem writeChainRows_bind {β : Type} (p ch : Nat) (rows : Nat → Nat) (f : Unit → M β)
    (s : State) :
    (writeChainRows p ch rows >>= f) s = f () (s.writeRows p ch rows) := rfl

theorem writeChainRows_apply (p ch : Nat) (rows : Nat → Nat) (s : State) :
    writeChainRows p ch rows s = Res.ok () (s.writeRows p ch rows) := rfl

theorem getRing_bind {β : Type} (p : Nat) (f : RingAux → M β) (s : State) :
    (getRing p >>= f) s = f (s.ring p) s := rfl

theorem modifyRing_bind {β : Type} (p : Nat) (g : RingAux → RingAux) (f : Unit → M β)
    (s : State) :
    (modifyRing p g >>= f) s = f () (s.modifyRing p g) := rfl

theorem modifyRing_apply (p : Nat) (g : RingAux → RingAux) (s : State) :
    modifyRing p g s = Res.ok () (s.modifyRing p g) := rfl

theorem zeroArena_bind {β : Type} (p start n : Nat) (f : Unit → M β) (s : State) :
    (zeroArena p start n >>= f) s = f () (s.zeroArena p start n) := rfl

theorem UndoAll_apply (s : State) : Memento.UndoAll s = Res.ok () s.undoAll := rfl

theorem outOfFuel_apply {α : Type} (s : State) :
    (outOfFuel : M α) s = Res.fail Err.outOfFuel := rfl

theorem outOfFuel_bind {α β : Type} (f : α → M β) (s : State) :
    ((outOfFuel : M α) >>= f) s = Res.fail Err.outOfFuel := rfl

/-! Specifications. -/

theorem Holds.bind {α β : Type} {P : State → Prop} {x : M α} {R : α → State → Prop}
    {f : α → M β} {Q : β → State → Prop}
    (hx : Holds P x R) (hf : ∀ a, Holds (R a) (f a) Q) : Holds P (x >>= f) Q := by
  intro s b s'' hP h
  obtain ⟨a, s', h1, h2⟩ := bind_ok h
  exact hf a s' b s'' (hx s a s' hP h1) h2

theorem Holds.pure {α : Type} {P : State → Prop} {a : α} {Q : α → State → Prop}
    (h : ∀ s, P s → Q a s) : Holds P (pure a : M α) Q := by
  intro s b s' hP hr
  rw [pure_apply] at hr
  cases hr
  exact h _ hP

theorem Holds.conseq {α : Type} {P P' : State → Prop} {x : M α} {Q Q' : α → State → Prop}
    (h : Holds P' x Q') (hpre : ∀ s, P s → P' s) (hpost : ∀ a s, Q' a s → Q a s) :
    Holds P x Q := by
  intro s a s' hP hr
  exact hpost a s' (h s a s' (hpre s hP) hr)

theorem Holds.ite {α : Type} {P : State → Prop} {c : Prop} [Decidable c] {x y : M α}
    {Q : α → State → Prop} (hx : c → Holds P x Q) (hy : ¬ c → Holds P y Q) :
    Holds P (if c then x else y) Q := by
  by_cases h : c
  · rw [if_pos h]; exact hx h
  · rw [if_neg h]; exact hy h

/-! ### Memento::UndoAll -/

theorem shrinkLoop_eq (n : Nat) :
    ∀ fuel size, size ≤ fuel + n → shrinkLoop n fuel size = min size n := by
  intro fuel
  induction fuel with
  | zero => intro size h; simp only [shrinkLoop]; omega
  | succ f ih =>
    intro size h
    unfold shrinkLoop
    by_cases hs : size > n
    · rw [if_pos hs, ih (size - 1) (by omega)]; omega
    · rw [if_neg hs]; omega

theorem ShrinkTo_eq (n size : Nat) : ShrinkTo n size = min size n :=
  shrinkLoop_eq n size size (by omega)

theorem undoWords_append (w₁ w₂ : List (Loc × Nat)) (mem : Loc → Nat) :
    undoWords (w₁ ++ w₂) mem = undoWords w₁ (undoWords w₂ mem) := by
  unfold undoWords; rw [List.foldr_append]

theorem undoSizes_append (z₁ z₂ : List (Nat × Nat)) (size : Nat → Nat) :
    undoSizes (z₁ ++ z₂) size = undoSizes z₁ (undoSizes z₂ size) := by
  unfold undoSizes; rw [List.foldr_append]

theorem undoWords_cons (e : Loc × Nat) (w : List (Loc × Nat)) (mem : Loc → Nat) :
    undoWords (e :: w) mem = Function.update (undoWords w mem) e.1 e.2 := rfl

theorem undoSizes_cons (e : Nat × Nat) (z : List (Nat × Nat)) (size : Nat → Nat) :
    undoSizes (e :: z) size =
      Function.update (undoSizes z size) e.1 (ShrinkTo e.2 (undoSizes z size e.1)) := rfl

/-- A word that no entry names is left alone. -/
theorem undoWords_of_not_mem (w : List (Loc × Nat)) (mem : Loc → Nat) (loc : Loc)
    (h : loc ∉ w.map Prod.fst) : undoWords w mem loc = mem loc := by
  induction w with
  | nil => rfl
  | cons e w ih =>
    rw [undoWords_cons]
    simp only [List.map_cons, List.mem_cons, not_or] at h
    rw [Function.update_noteq h.1]
    exact ih h.2

/-- A word that some entry names ends with a value that does not depend on
the memory before. -/
theorem undoWords_of_mem (w : List (Loc × Nat)) (mem mem' : Loc → Nat) (loc : Loc)
    (h : loc ∈ w.map Prod.fst) : undoWords w mem loc = undoWords w mem' loc := by
  induction w with
  | nil => simp at h
  | cons e w ih =>
    rw [undoWords_cons, undoWords_cons]
    by_cases he : loc = e.1
    · rw [he, Function.update_same, Function.update_same]
    · rw [Function.update_noteq he, Function.update_noteq he]
      simp only [List.map_cons, List.mem_cons] at h
      rcases h with h | h
      · exact absurd h he
      · exact ih h

/-- Words are undone independently of each other. -/
theorem undoWords_congr (w : List (Loc × Nat)) (mem mem' : Loc → Nat) (loc : Loc)
    (h : mem loc = mem' loc) : undoWords w mem loc = undoWords w mem' loc := by
  by_cases hm : loc ∈ w.map Prod.fst
  · exact undoWords_of_mem w mem mem' loc hm
  · rw [undoWords_of_not_mem w mem loc hm, undoWords_of_not_mem w mem' loc hm, h]

/-- A chain set that no entry names keeps its size. -/
theorem undoSizes_of_not_mem (z : List (Nat × Nat)) (size : Nat → Nat) (cs : Nat)
    (h : cs ∉ z.map Prod.fst) : undoSizes z size cs = size cs := by
  induction z with
  | nil => rfl
  | cons e z ih =>
    rw [undoSizes_cons]
    simp only [List.map_cons, List.mem_cons, not_or] at h
    rw [Function.update_noteq h.1]
    exact ih h.2

/-- Chain sets are undone independently of each other. -/
theorem undoSizes_congr (z : List (Nat × Nat)) (size size' : Nat → Nat) (cs : Nat)
    (h : size cs = size' cs) : undoSizes z size cs = undoSizes z size' cs := by
  induction z with
  | nil => exact h
  | cons e z ih =>
    rw [undoSizes_cons, undoSizes_cons]
    by_cases he : cs = e.1
    · rw [he, Function.update_same, Function.update_same, ← he, ih]
    · rw [Function.update_noteq he, Function.update_noteq he]; exact ih

/-- Undoing only shrinks. -/
theorem undoSizes_le (z : List (Nat × Nat)) (size : Nat → Nat) (cs : Nat) :
    undoSizes z size cs ≤ size cs := by
  induction z with
  | nil => exact Nat.le_refl _
  | cons e z ih =>
    rw [undoSizes_cons]
    by_cases he : cs = e.1
    · rw [he, Function.update_same, ShrinkTo_eq]
      rw [he] at ih
      exact Nat.le_trans (Nat.min_le_left _ _) ih
    · rw [Function.update_noteq he]; exact ih

/-- When every remembered size of a chain set is at most `n` and the size
now is at least `n`, undoing the entries after a first one with the size `n`
leaves the size `n`. -/
theorem undoSizes_of_le (z : List (Nat × Nat)) (size : Nat → Nat) (cs n : Nat)
    (hz : ∀ e ∈ z, e.1 = cs → n ≤ e.2) (hsize : n ≤ size cs) :
    n ≤ undoSizes z size cs := by
  induction z with
  | nil => exact hsize
  | cons e z ih =>
    rw [undoSizes_cons]
    have ih' := ih (fun e' he' => hz e' (List.mem_cons_of_mem _ he'))
    by_cases he : cs = e.1
    · rw [he, Function.update_same, ShrinkTo_eq]
      have := hz e (List.mem_cons_self _ _) he.symm
      rw [he] at ih'
      omega
    · rw [Function.update_noteq he]; exact ih'

theorem MakeOneStoneChain_spec (cs x y : Nat) (s s' : State) (a : Nat)
    (h : ChainSet.MakeOneStoneChain cs x y s = Res.ok a s') :
    s'.memento = s.memento ∧ s'.size = Function.update s.size cs (s.size cs + 1) ∧
      a = s.size cs := by
  unfold ChainSet.MakeOneStoneChain Chain.InitWithStone at h
  simp only [bind_assoc', getSize_bind, assert_bind, pushChain_bind, writeChainRows_bind,
    writeW_bind, writeByte_bind, pure_apply, ite_fail_eq_ok, Res.ok.injEq] at h
  obtain ⟨_, _, ha, hs⟩ := h
  subst hs
  exact ⟨rfl, rfl, ha.symm⟩

/-- What one operation does to the `Memento` and to the sizes. -/
theorem MementoOp.run_spec (op : MementoOp) (s s' : State)
    (h : op.run s = Res.ok () s') :
    (s'.memento.words_ = s.memento.words_ ∨
      ∃ loc, op = MementoOp.remember loc ∧
        s'.memento.words_ = s.memento.words_ ++ [(loc, s.mem loc)]) ∧
    (s'.memento.sizes_ = s.memento.sizes_ ∨
      ∃ cs, op = MementoOp.rememberSize cs ∧
        s'.memento.sizes_ = s.memento.sizes_ ++ [(cs, s.size cs)]) ∧
    (∀ cs, s.size cs ≤ s'.size cs) ∧
    (op.unrecorded = true → s'.memento = s.memento) := by
  cases op with
  | remember loc =>
    simp only [MementoOp.run, Remember_apply, Res.ok.injEq, true_and] at h
    subst h
    exact ⟨Or.inr ⟨loc, rfl, rfl⟩, Or.inl rfl, fun _ => Nat.le_refl _, fun h => by cases h⟩
  | write loc v =>
    simp only [MementoOp.run, writeW_apply, Res.ok.injEq, true_and] at h
    subst h
    exact ⟨Or.inl rfl, Or.inl rfl, fun _ => Nat.le_refl _, fun _ => rfl⟩
  | rememberSize cs =>
    simp only [MementoOp.run, RememberSize_apply, Res.ok.injEq, true_and] at h
    subst h
    exact ⟨Or.inl rfl, Or.inr ⟨cs, rfl, rfl⟩, fun _ => Nat.le_refl _, fun h => by cases h⟩
  | makeOneStoneChain cs x y =>
    simp only [MementoOp.run] at h
    obtain ⟨a, s₁, h1, h2⟩ := bind_ok h
    rw [pure_apply] at h2
    cases h2
    obtain ⟨hm, hsz, _⟩ := MakeOneStoneChain_spec cs x y s s' a h1
    refine ⟨Or.inl (by rw [hm]), Or.inl (by rw [hm]), ?_, fun _ => hm⟩
    intro cs'
    rw [hsz]
    by_cases hc : cs' = cs
    · rw [hc, Function.update_same]; omega
    · rw [Function.update_noteq hc]

theorem runOps_cons_ok {op : MementoOp} {ops : List MementoOp} {s s'' : State}
    (h : runOps (op :: ops) s = Res.ok () s'') :
    ∃ s', op.run s = Res.ok () s' ∧ runOps ops s' = Res.ok () s'' := by
  unfold runOps at h
  obtain ⟨_, s', h1, h2⟩ := bind_ok h
  exact ⟨s', h1, h2⟩

/-- The words named in the `Memento` after a run were named before it or
are remembered by one of its operations. -/
theorem runOps_words (ops : List MementoOp) : ∀ (s s' : State),
    runOps ops s = Res.ok () s' → ∀ loc, loc ∈ s'.memento.words_.map Prod.fst →
      loc ∈ s.memento.words_.map Prod.fst ∨ MementoOp.remember loc ∈ ops := by
  induction ops with
  | nil =>
    intro s s' h loc hl
    simp only [runOps, pure_apply] at h
    cases h; exact Or.inl hl
  | cons op ops ih =>
    intro s s'' h loc hl
    obtain ⟨s', h1, h2⟩ := runOps_cons_ok h
    rcases ih s' s'' h2 loc hl with h3 | h3
    · rcases (MementoOp.run_spec op s s' h1).1 with hw | ⟨loc', hop, hw⟩
      · rw [hw] at h3; exact Or.inl h3
      · rw [hw, List.map_append, List.mem_append] at h3
        rcases h3 with h3 | h3
        · exact Or.inl h3
        · simp only [List.map_cons, List.map_nil, List.mem_singleton] at h3
          right; rw [hop, h3]; exact List.mem_cons_self _ _
    · exact Or.inr (List.mem_cons_of_mem _ h3)

/-- The chain sets named in the `Memento` after a run were named before it
or are remembered by one of its operations. -/
theorem runOps_sizes (ops : List MementoOp) : ∀ (s s' : State),
    runOps ops s = Res.ok () s' → ∀ cs, cs ∈ s'.memento.sizes_.map Prod.fst →
      cs ∈ s.memento.sizes_.map Prod.fst ∨ MementoOp.rememberSize cs ∈ ops := by
  induction ops with
  | nil =>
    intro s s' h cs hl
    simp only [runOps, pure_apply] at h
    cases h; exact Or.inl hl
  | cons op ops ih =>
    intro s s'' h cs hl
    obtain ⟨s', h1, h2⟩ := runOps_cons_ok h
    rcases ih s' s'' h2 cs hl with h3 | h3
    · rcases (MementoOp.run_spec op s s' h1).2.1 with hw | ⟨cs', hop, hw⟩
      · rw [hw] at h3; exact Or.inl h3
      · rw [hw, List.map_append, List.mem_append] at h3
        rcases h3 with h3 | h3
        · exact Or.inl h3
        · simp only [List.map_cons, List.map_nil, List.mem_singleton] at h3
          right; rw [hop, h3]; exact List.mem_cons_self _ _
    · exact Or.inr (List.mem_cons_of_mem _ h3)

/-- Once the entries of the `Memento` fix the value that `UndoAll` gives a
word, no later operation changes that value. -/
theorem runOps_undoWords (ops : List MementoOp) (loc : Loc) (v : Nat) : ∀ (s s' : State),
    runOps ops s = Res.ok () s' →
    (∀ mem, undoWords s.memento.words_ mem loc = v) →
    ∀ mem, undoWords s'.memento.words_ mem loc = v := by
  induction ops with
  | nil =>
    intro s s' h hv
    simp only [runOps, pure_apply] at h
    cases h; exact hv
  | cons op ops ih =>
    intro s s'' h hv
    obtain ⟨s', h1, h2⟩ := runOps_cons_ok h
    apply ih s' s'' h2
    intro mem
    rcases (MementoOp.run_spec op s s' h1).1 with hw | ⟨loc', _, hw⟩
    · rw [hw]; exact hv mem
    · rw [hw, undoWords_append]; exact hv _

/-- The first size remembered for a chain set is what `UndoAll` shrinks it
to, as long as the chain set only grows. -/
theorem runOps_undoSizes (ops : List MementoOp) (cs n : Nat) (z₁ : List (Nat × Nat)) :
    ∀ (s s' : State), runOps ops s = Res.ok () s' →
    (n ≤ s.size cs ∧ ∃ z₂, s.memento.sizes_ = z₁ ++ (cs, n) :: z₂ ∧
      ∀ e ∈ z₂, e.1 = cs → n ≤ e.2) →
    (n ≤ s'.size cs ∧ ∃ z₂, s'.memento.sizes_ = z₁ ++ (cs, n) :: z₂ ∧
      ∀ e ∈ z₂, e.1 = cs → n ≤ e.2) := by
  induction ops with
  | nil =>
    intro s s' h hv
    simp only [runOps, pure_apply] at h
    cases h; exact hv
  | cons op ops ih =>
    intro s s'' h hv
    obtain ⟨s', h1, h2⟩ := runOps_cons_ok h
    apply ih s' s'' h2
    obtain ⟨hn, z₂, hz, hz₂⟩ := hv
    have hspec := MementoOp.run_spec op s s' h1
    refine ⟨Nat.le_trans hn (hspec.2.2.1 cs), ?_⟩
    rcases hspec.2.1 with hw | ⟨cs', _, hw⟩
    · exact ⟨z₂, by rw [hw, hz], hz₂⟩
    · refine ⟨z₂ ++ [(cs', s.size cs')], by rw [hw, hz]; simp, ?_⟩
      intro e he hec
      rw [List.mem_append] at he
      rcases he with he | he
      · exact hz₂ e he hec
      · simp only [List.mem_singleton] at he
        rw [he] at hec ⊢
        simp only at hec ⊢
        rw [hec]; exact hn

theorem UndoAll_spec (s s' : State) (h : Memento.UndoAll s = Res.ok () s') :
    s'.mem = undoWords s.memento.words_ s.mem ∧
    s'.size = undoSizes s.memento.sizes_ s.size ∧
    s'.memento = { words_ := [], sizes_ := [] } ∧
    s'.modified_chain_ = s.modified_chain_ ∧ s'.ring = s.ring := by
  rw [UndoAll_apply] at h
  cases h
  exact ⟨rfl, rfl, rfl, rfl, rfl⟩

/-- C2: from a fresh `Memento`, after any sequence of `Remember` calls,
writes to words, `RememberSize` calls and growth of chain sets by
`MakeOneStoneChain`, `UndoAll` leaves every remembered word with the value it
had at its first `Remember` and every remembered `ChainSet` with the size it
had at its first `RememberSize`, however often the word or the chain set was
remembered again. The sequence is split at the first `Remember` of the word,
or the first `RememberSize` of the chain set: `pre` holds none. -/
theorem Memento_UndoAll_restores (s₀ s₁ s₂ s₃ : State) (pre post : List MementoOp)
    (hfresh : s₀.memento = { words_ := [], sizes_ := [] })
    (hpre : runOps pre s₀ = Res.ok () s₁)
    (hundo : Memento.UndoAll s₂ = Res.ok () s₃) :
    (∀ loc, MementoOp.remember loc ∉ pre →
      runOps (MementoOp.remember loc :: post) s₁ = Res.ok () s₂ →
      s₃.mem loc = s₁.mem loc) ∧
    (∀ cs, MementoOp.rememberSize cs ∉ pre →
      runOps (MementoOp.rememberSize cs :: post) s₁ = Res.ok () s₂ →
      s₃.size cs = s₁.size cs) := by
  obtain ⟨hmem, hsize, _⟩ := UndoAll_spec s₂ s₃ hundo
  constructor
  · intro loc hloc hrun
    obtain ⟨s', h1, h2⟩ := runOps_cons_ok hrun
    have hnot : loc ∉ s₁.memento.words_.map Prod.fst := by
      intro hin
      rcases runOps_words pre s₀ s₁ hpre loc hin with h | h
      · rw [hfresh] at h; simp at h
      · exact hloc h
    simp only [MementoOp.run, Remember_apply, Res.ok.injEq, true_and] at h1
    subst h1
    rw [hmem]
    apply runOps_undoWords post loc (s₁.mem loc) _ s₂ h2
    intro mem
    show undoWords (s₁.memento.words_ ++ [(loc, s₁.mem loc)]) mem loc = s₁.mem loc
    rw [undoWords_append, undoWords_of_not_mem _ _ _ hnot, undoWords_cons]
    simp only [Function.update_same]
  · intro cs hcs hrun
    obtain ⟨s', h1, h2⟩ := runOps_cons_ok hrun
    have hnot : cs ∉ s₁.memento.sizes_.map Prod.fst := by
      intro hin
      rcases runOps_sizes pre s₀ s₁ hpre cs hin with h | h
      · rw [hfresh] at h; simp at h
      · exact hcs h
    simp only [MementoOp.run, RememberSize_apply, Res.ok.injEq, true_and] at h1
    subst h1
    obtain ⟨hn, z₂, hz, hz₂⟩ := runOps_undoSizes post cs (s₁.size cs) s₁.memento.sizes_ _ s₂ h2
      ⟨Nat.le_refl _, [], rfl, fun e he => by cases he⟩
    rw [hsize, hz, undoSizes_append, undoSizes_of_not_mem _ _ _ hnot, undoSizes_cons]
    simp only [Function.update_same]
    rw [ShrinkTo_eq]
    have := undoSizes_of_le z₂ s₂.size cs (s₁.size cs) hz₂ hn
    omega

theorem Memento_UndoAll_restores_witness :
    (testState.memento = { words_ := [], sizes_ := [] } ∧
      runOps [] testState = Res.ok () testState ∧
      MementoOp.remember (Loc.word 0) ∉ ([] : List MementoOp) ∧
      (runOps (MementoOp.remember (Loc.word 0) :: testOps) testState).isOk = true ∧
      ((runOps (MementoOp.remember (Loc.word 0) :: testOps) testState).state testState).mem
        (Loc.word 0) = 3 ∧
      ((runOps (MementoOp.remember (Loc.word 0) :: testOps) testState).state
        testState).undoAll.mem (Loc.word 0) = testState.mem (Loc.word 0)) ∧
    (MementoOp.rememberSize 0 ∉ ([] : List MementoOp) ∧
      ((runOps (MementoOp.rememberSize 0 :: testOps) testState).state testState).size 0 = 3 ∧
      ((runOps (MementoOp.rememberSize 0 :: testOps) testState).state
        testState).undoAll.size 0 = testState.size 0) :=
  ⟨⟨rfl, rfl, by simp, by decide, by decide,
      (Memento_UndoAll_restores testState testState _ _ [] testOps rfl rfl
        (UndoAll_apply _)).1 (Loc.word 0) (by simp) rfl⟩,
    ⟨by simp, by decide,
      (Memento_UndoAll_restores testState testState _ _ [] testOps rfl rfl
        (UndoAll_apply _)).2 0 (by simp) rfl⟩⟩

theorem undoAll_of_fresh (s : State) (h : s.memento = { words_ := [], sizes_ := [] }) :
    s.undoAll = s := by
  cases s with
  | mk mem size mc ring memento =>
    simp only at h
    subst h
    rfl

theorem runOps_unrecorded (ops : List MementoOp) : ∀ (s s' : State),
    (∀ op ∈ ops, op.unrecorded = true) → runOps ops s = Res.ok () s' →
    s'.memento = s.memento := by
  induction ops with
  | nil =>
    intro s s' _ h
    simp only [runOps, pure_apply, Res.ok.injEq, true_and] at h
    rw [h]
  | cons op ops ih =>
    intro s s'' hops h
    obtain ⟨s', h1, h2⟩ := runOps_cons_ok h
    rw [ih s' s'' (fun o ho => hops o (List.mem_cons_of_mem _ ho)) h2]
    exact (MementoOp.run_spec op s s' h1).2.2.2 (hops op (List.mem_cons_self _ _))

/-- C3: `Memento::UndoAll` empties the log. Called on a fresh `Memento` it
changes nothing; and called a second time after a first `UndoAll`, with any
writes of words and any growth of chain sets by `MakeOneStoneChain` in
between, none of them recorded, it changes no word and no `ChainSet` size:
the state stays as it is. -/
theorem Memento_UndoAll_forgets :
    (∀ s : State, s.memento = { words_ := [], sizes_ := [] } →
      Memento.UndoAll s = Res.ok () s) ∧
    (∀ (s s₁ s₂ : State) (ops : List MementoOp),
      Memento.UndoAll s = Res.ok () s₁ →
      (∀ op ∈ ops, op.unrecorded = true) →
      runOps ops s₁ = Res.ok () s₂ →
      Memento.UndoAll s₂ = Res.ok () s₂) := by
  constructor
  · intro s h
    rw [UndoAll_apply, undoAll_of_fresh s h]
  · intro s s₁ s₂ ops h1 hops h2
    rw [UndoAll_apply, undoAll_of_fresh]
    rw [runOps_unrecorded ops s₁ s₂ hops h2]
    exact (UndoAll_spec s s₁ h1).2.2.1

theorem Memento_UndoAll_forgets_witness :
    (State.init.memento = { words_ := [], sizes_ := [] } ∧
      Memento.UndoAll State.init = Res.ok () State.init) ∧
    ((∀ op ∈ forgetOps₂, op.unrecorded = true) ∧
      (runOps forgetOps₂ ((runOps forgetOps₁ testState).state testState).undoAll).isOk = true ∧
      ((runOps forgetOps₂ ((runOps forgetOps₁ testState).state testState).undoAll).state
        testState).mem (Loc.word 0) = 2 ∧
      ((runOps forgetOps₂ ((runOps forgetOps₁ testState).state testState).undoAll).state
        testState).size 0 = 2 ∧
      Memento.UndoAll
          ((runOps forgetOps₂ ((runOps forgetOps₁ testState).state testState).undoAll).state
            testState) =
        Res.ok ()
          ((runOps forgetOps₂ ((runOps forgetOps₁ testState).state testState).undoAll).state
            testState)) :=
  ⟨⟨rfl, Memento_UndoAll_forgets.1 State.init rfl⟩,
    ⟨by decide, by decide, by decide, by decide,
      Memento_UndoAll_forgets.2 ((runOps forgetOps₁ testState).state testState) _ _ forgetOps₂
        (UndoAll_apply _) (by decide) rfl⟩⟩

/-! ### Bytes and bits -/

theorem getByte_setByte_same (w k v : Nat) (hk : k < 4) :
    getByte (setByte w k v) k = v % 256 := by
  unfold getByte setByte getByte
  have h : k = 0 ∨ k = 1 ∨ k = 2 ∨ k = 3 := by omega
  rcases h with h | h | h | h <;> subst h <;> norm_num <;> omega

theorem getByte_setByte_ne (w k k' v : Nat) (hk : k < 4) (hk' : k' < 4) (hne : k' ≠ k) :
    getByte (setByte w k v) k' = getByte w k' := by
  unfold getByte setByte getByte
  have h : k = 0 ∨ k = 1 ∨ k = 2 ∨ k = 3 := by omega
  have h' : k' = 0 ∨ k' = 1 ∨ k' = 2 ∨ k' = 3 := by omega
  rcases h with h | h | h | h <;> rcases h' with h' | h' | h' | h' <;> subst h <;> subst h' <;>
    first
    | exact absurd rfl hne
    | (norm_num; omega)

theorem and_one_shiftLeft_ne_zero (r x : Nat) : r &&& (1 <<< x) ≠ 0 ↔ r.testBit x = true := by
  rw [Nat.one_shiftLeft, Nat.and_two_pow]
  cases r.testBit x <;> simp

theorem BoardBitmask.get_eq (rows : Nat → Nat) (x y : Nat) :
    BoardBitmask.get rows x y = (rows y).testBit x := by
  unfold BoardBitmask.get
  cases h : (rows y).testBit x
  · rw [decide_eq_false_iff_not, and_one_shiftLeft_ne_zero, h]; simp
  · rw [decide_eq_true_iff, and_one_shiftLeft_ne_zero, h]

theorem testBit_setBit (r x i : Nat) :
    (setBit r x).testBit i = (r.testBit i || decide (x = i)) := by
  unfold setBit
  rw [Nat.testBit_or, Nat.one_shiftLeft, Nat.testBit_two_pow]

theorem cell_eq_iff (c c' : Nat) : c = c' ↔ CellToX c = CellToX c' ∧ CellToY c = CellToY c' := by
  unfold CellToX CellToY
  omega

theorem CellToY_lt (c : Nat) (h : c < kNumCellsWithSentinels) : CellToY c < kBoardHeight := by
  have : kNumCellsWithSentinels = 736 := by decide
  have : kBoardHeight = 23 := by decide
  unfold CellToY
  omega

theorem and_clear_ring_lt (e : Nat) (h : e < 16384) :
    e &&& (4294967295 ^^^ (3 <<< 12)) < 4096 := by
  apply Nat.lt_pow_two_of_testBit (n := 12)
  intro i hi
  rw [Nat.testBit_and]
  by_cases h14 : 14 ≤ i
  · have : e < 2 ^ i := Nat.lt_of_lt_of_le h (by
      calc 16384 = 2 ^ 14 := by norm_num
        _ ≤ 2 ^ i := Nat.pow_le_pow_right (by norm_num) h14)
    rw [Nat.testBit_lt_two_pow this]; rfl
  · have hi' : i = 12 ∨ i = 13 := by omega
    have hm : (4294967295 ^^^ (3 <<< 12)).testBit i = false := by
      rcases hi' with hi' | hi' <;> subst hi' <;> decide
    rw [hm, Bool.and_false]

theorem and_clear_ring_eq (e : Nat) (h : e < 4096) :
    e &&& (4294967295 ^^^ (3 <<< 12)) = e := by
  apply Nat.eq_of_testBit_eq
  intro i
  rw [Nat.testBit_and]
  by_cases h12 : 12 ≤ i
  · have : e < 2 ^ i := Nat.lt_of_lt_of_le h (by
      calc 4096 = 2 ^ 12 := by norm_num
        _ ≤ 2 ^ i := Nat.pow_le_pow_right (by norm_num) h12)
    rw [Nat.testBit_lt_two_pow this]; rfl
  · have : (4294967295 ^^^ (3 <<< 12)).testBit i = true := by
      have hi : i < 12 := by omega
      interval_cases i <;> decide
    rw [this, Bool.and_true]

theorem or_lt_16384 (a b : Nat) (ha : a < 16384) (hb : b < 16384) : a ||| b < 16384 :=
  Nat.or_lt_two_pow (n := 14) ha hb

theorem GetMaskOfEdgesAndCorners_lt (cell : Nat) : GetMaskOfEdgesAndCorners cell < 4096 := by
  unfold GetMaskOfEdgesAndCorners
  exact Nat.lt_of_le_of_lt Nat.and_le_right (by norm_num)

theorem closesAnyRing_lt (rows : Nat → Nat) (x y : Nat) : closesAnyRing rows x y < 16384 := by
  unfold closesAnyRing
  simp only
  repeat' split
  all_goals decide

theorem closesBenzeneRing_lt (rows : Nat → Nat) (x y : Nat) :
    closesBenzeneRing rows x y < 16384 := by
  unfold closesBenzeneRing
  simp only
  repeat' split
  all_goals decide

/-! ### The newest version of a chain -/

theorem newestPure_succ (nv : Nat → Nat) (fuel ch : Nat) :
    newestPure nv (fuel + 1) ch = if nv ch ≠ 0 then newestPure nv fuel (nv ch) else ch := rfl

theorem newestPure_of_zero (nv : Nat → Nat) (fuel ch : Nat) (h : nv ch = 0) :
    newestPure nv fuel ch = ch := by
  cases fuel with
  | zero => rfl
  | succ f => simp only [newestPure, h, ne_eq, not_true_eq_false, if_false]

theorem newestPure_bounds (nv : Nat → Nat) (size : Nat) (hup : Upward nv size) :
    ∀ fuel ch, 0 < ch → ch < size →
      0 < newestPure nv fuel ch ∧ newestPure nv fuel ch < size := by
  intro fuel
  induction fuel with
  | zero => intro ch h0 h1; exact ⟨h0, h1⟩
  | succ f ih =>
    intro ch h0 h1
    unfold newestPure
    by_cases hz : nv ch = 0
    · simp only [hz, ne_eq, not_true_eq_false, if_false]; exact ⟨h0, h1⟩
    · simp only [hz, ne_eq, not_false_eq_true, if_true]
      rcases hup ch h0 h1 with h | h
      · exact absurd h hz
      · exact ih (nv ch) (by omega) h.2

theorem newestPure_newer (nv : Nat → Nat) (size : Nat) (hup : Upward nv size) :
    ∀ fuel ch, 0 < ch → ch < size → size ≤ fuel + ch →
      nv (newestPure nv fuel ch) = 0 := by
  intro fuel
  induction fuel with
  | zero => intro ch h0 h1 h2; omega
  | succ f ih =>
    intro ch h0 h1 h2
    unfold newestPure
    by_cases hz : nv ch = 0
    · simp only [hz, ne_eq, not_true_eq_false, if_false]
    · simp only [hz, ne_eq, not_false_eq_true, if_true]
      rcases hup ch h0 h1 with h | h
      · exact absurd h hz
      · exact ih (nv ch) (by omega) h.2 (by omega)

/-- Agreement below `size` is enough. -/
theorem newestPure_congr (nv nv' : Nat → Nat) (size : Nat) (hup : Upward nv size)
    (heq : ∀ ch, ch < size → nv' ch = nv ch) :
    ∀ fuel ch, 0 < ch → ch < size → newestPure nv' fuel ch = newestPure nv fuel ch := by
  intro fuel
  induction fuel with
  | zero => intro ch _ _; rfl
  | succ f ih =>
    intro ch h0 h1
    unfold newestPure
    rw [heq ch h1]
    by_cases hz : nv ch = 0
    · simp only [hz, ne_eq, not_true_eq_false, if_false]
    · simp only [hz, ne_eq, not_false_eq_true, if_true]
      rcases hup ch h0 h1 with h | h
      · exact absurd h hz
      · exact ih (nv ch) (by omega) h.2

/-- One more chain at the end, with no newer version, changes no newest
version. -/
theorem newestPure_single (nv : Nat → Nat) (size : Nat) (hup : Upward nv size) :
    ∀ fuel ch, 0 < ch → ch < size → size ≤ fuel + ch →
      newestPure (fun c => if c = size then 0 else nv c) (fuel + 1) ch =
        newestPure nv fuel ch := by
  intro fuel
  induction fuel with
  | zero => intro ch h0 h1 h2; omega
  | succ f ih =>
    intro ch h0 h1 h2
    rw [newestPure_succ _ (f + 1), newestPure_succ nv f]
    have hne : ch ≠ size := by omega
    simp only [hne, if_false]
    by_cases hz : nv ch = 0
    · simp only [hz, ne_eq, not_true_eq_false, if_false]
    · simp only [hz, ne_eq, not_false_eq_true, if_true]
      rcases hup ch h0 h1 with h | h
      · exact absurd h hz
      · exact ih (nv ch) (by omega) h.2 (by omega)

/-- After a merge of the newest chains `a` and `b` into a new last chain,
the chains that led to `a` or `b` lead to the new chain and the others lead
where they led. -/
theorem newestPure_merge (nv : Nat → Nat) (size a b : Nat) (hup : Upward nv size)
    (hsize : 0 < size) (ha : nv a = 0) (hb : nv b = 0) :
    ∀ fuel ch, 0 < ch → ch < size → size ≤ fuel + ch →
      newestPure (fun c => if c = size then 0 else if c = a ∨ c = b then size else nv c)
          (fuel + 1) ch =
        if newestPure nv fuel ch = a ∨ newestPure nv fuel ch = b then size
        else newestPure nv fuel ch := by
  intro fuel
  induction fuel with
  | zero => intro ch h0 h1 h2; omega
  | succ f ih =>
    intro ch h0 h1 h2
    rw [newestPure_succ _ (f + 1)]
    have hne : ch ≠ size := by omega
    by_cases hab : ch = a ∨ ch = b
    · have hz : nv ch = 0 := by rcases hab with h | h <;> rw [h] <;> assumption
      rw [newestPure_of_zero nv (f + 1) ch hz, if_pos hab]
      have hs : size ≠ 0 := by omega
      simp only [hne, if_false, hab, if_true, ne_eq, hs, not_false_eq_true]
      rw [newestPure_of_zero]
      simp only [if_true]
    · simp only [hne, if_false, hab]
      rw [newestPure_succ nv f]
      by_cases hz : nv ch = 0
      · simp only [hz, ne_eq, not_true_eq_false, if_false, hab]
      · simp only [hz, ne_eq, not_false_eq_true, if_true]
        rcases hup ch h0 h1 with h | h
        · exact absurd h hz
        · exact ih (nv ch) (by omega) h.2 (by omega)

namespace ChainView

theorem newest_of_isNewest {v : ChainView} {ch : Nat} (h : v.IsNewest ch) :
    v.newest ch = ch := newestPure_of_zero _ _ _ h.2.2

theorem isNewest_newest {v : ChainView} (hup : Upward v.newer v.size) {ch : Nat}
    (h0 : 0 < ch) (h1 : ch < v.size) : v.IsNewest (v.newest ch) := by
  have hb := newestPure_bounds v.newer v.size hup v.size ch h0 h1
  exact ⟨hb.1, hb.2, newestPure_newer v.newer v.size hup v.size ch h0 h1 (by omega)⟩

theorem inMask_eq (v : ChainView) (ch cell : Nat) :
    v.inMask ch cell = (v.rows ch (CellToY cell)).testBit (CellToX cell) :=
  BoardBitmask.get_eq _ _ _

end ChainView

namespace ChainView

theorem kChainNumLimit_eq : kChainNumLimit = 256 := by decide

theorem LoopInv.loop_start {v : ChainView} (h : v.Inv) (cell : Nat) (hcell : v.cfc cell = 0) :
    v.LoopInv cell 0 where
  size_pos := h.size_pos
  size_le := h.size_le
  newer_lt := h.newer_lt
  cfc_lt := h.cfc_lt
  cell_empty := hcell
  prev_newest := Or.inl rfl
  mask_iff := by
    intro ch hch c hc
    rw [h.mask_iff ch hch c hc]
    constructor
    · intro h'; exact Or.inl h'
    · rintro (h' | ⟨_, h'⟩)
      · exact h'
      · exact absurd h' (Nat.ne_of_gt hch.1)
  ecr_lt := fun ch hch _ => h.ecr_lt ch hch
  ecr_prev := Or.inr rfl

theorem LoopInv.loop_addStone {v : ChainView} {cell cur : Nat} (h : v.LoopInv cell 0)
    (hcur : v.IsNewest cur) (mask : Nat) (hmask : mask < 16384) :
    (v.addStone cur (CellToX cell) (CellToY cell) mask).LoopInv cell cur where
  size_pos := h.size_pos
  size_le := h.size_le
  newer_lt := h.newer_lt
  cfc_lt := h.cfc_lt
  cell_empty := h.cell_empty
  prev_newest := Or.inr hcur
  mask_iff := by
    intro ch hch c hc
    have hch' : v.IsNewest ch := hch
    have hold := h.mask_iff ch hch' c hc
    rw [inMask_eq] at hold ⊢
    show (if ch = cur ∧ CellToY c = CellToY cell
        then setBit (v.rows ch (CellToY c)) (CellToX cell) else v.rows ch (CellToY c)).testBit
          (CellToX c) = true ↔
      (v.cfc c ≠ 0 ∧ v.newest (v.cfc c) = ch) ∨ (c = cell ∧ ch = cur)
    have h0 : ch ≠ 0 := Nat.ne_of_gt hch'.1
    by_cases hc1 : ch = cur ∧ CellToY c = CellToY cell
    · rw [if_pos hc1, testBit_setBit, Bool.or_eq_true, hold, decide_eq_true_iff,
        cell_eq_iff c cell]
      constructor
      · rintro ((h1 | ⟨_, h1⟩) | h1)
        · exact Or.inl h1
        · exact absurd h1 h0
        · exact Or.inr ⟨⟨h1.symm, hc1.2⟩, hc1.1⟩
      · rintro (h1 | ⟨⟨h1, _⟩, _⟩)
        · exact Or.inl (Or.inl h1)
        · exact Or.inr h1.symm
    · rw [if_neg hc1, hold, cell_eq_iff c cell]
      constructor
      · rintro (h1 | ⟨_, h1⟩)
        · exact Or.inl h1
        · exact absurd h1 h0
      · rintro (h1 | ⟨⟨_, h1⟩, h2⟩)
        · exact Or.inl h1
        · exact absurd ⟨h2, h1⟩ hc1
  ecr_lt := by
    intro ch hch hne
    show (if ch = cur then v.ecr ch ||| mask else v.ecr ch) < 4096
    rw [if_neg hne]
    exact h.ecr_lt ch hch (Nat.ne_of_gt hch.1)
  ecr_prev := by
    left
    show (if cur = cur then v.ecr cur ||| mask else v.ecr cur) < 16384
    rw [if_pos rfl]
    have := h.ecr_lt cur hcur (Nat.ne_of_gt hcur.1)
    exact or_lt_16384 _ _ (by omega) hmask

theorem Upward.upward_merge {v : ChainView} (hup : Upward v.newer v.size) (a b ring : Nat) :
    Upward (v.merge a b ring).newer (v.merge a b ring).size := by
  intro ch h0 h1
  show (if ch = v.size then 0 else if ch = a ∨ ch = b then v.size else v.newer ch) = 0 ∨
    (ch < (if ch = v.size then 0 else if ch = a ∨ ch = b then v.size else v.newer ch) ∧
      (if ch = v.size then 0 else if ch = a ∨ ch = b then v.size else v.newer ch) < v.size + 1)
  have h1' : ch < v.size + 1 := h1
  by_cases hs : ch = v.size
  · rw [if_pos hs]; exact Or.inl rfl
  · rw [if_neg hs]
    have hlt : ch < v.size := by omega
    by_cases hab : ch = a ∨ ch = b
    · rw [if_pos hab]; right; omega
    · rw [if_neg hab]
      rcases hup ch h0 hlt with h | h
      · exact Or.inl h
      · right; omega

theorem newest_merge {v : ChainView} (hup : Upward v.newer v.size) (hpos : 1 ≤ v.size)
    {a b : Nat} (ha : v.IsNewest a) (hb : v.IsNewest b) (ring : Nat) (ch : Nat)
    (h0 : 0 < ch) (h1 : ch < v.size) :
    (v.merge a b ring).newest ch =
      if v.newest ch = a ∨ v.newest ch = b then v.size else v.newest ch :=
  newestPure_merge v.newer v.size a b hup hpos ha.2.2 hb.2.2 v.size ch h0 h1 (by omega)

theorem newest_single {v : ChainView} (hup : Upward v.newer v.size) (x y : Nat) (ch : Nat)
    (h0 : 0 < ch) (h1 : ch < v.size) : (v.single x y).newest ch = v.newest ch :=
  newestPure_single v.newer v.size hup v.size ch h0 h1 (by omega)

theorem isNewest_merge_iff {v : ChainView} {a b : Nat} (ha : v.IsNewest a) (ring ch : Nat) :
    (v.merge a b ring).IsNewest ch ↔ ch = v.size ∨ (v.IsNewest ch ∧ ch ≠ a ∧ ch ≠ b) := by
  unfold IsNewest
  show (0 < ch ∧ ch < v.size + 1 ∧
      (if ch = v.size then 0 else if ch = a ∨ ch = b then v.size else v.newer ch) = 0) ↔ _
  have hla := ha.2.1
  by_cases hs : ch = v.size
  · rw [if_pos hs]
    constructor
    · intro _; exact Or.inl hs
    · intro _; exact ⟨by omega, by omega, rfl⟩
  · rw [if_neg hs]
    by_cases hab : ch = a ∨ ch = b
    · rw [if_pos hab]
      constructor
      · rintro ⟨_, _, h⟩; omega
      · rintro (h | ⟨_, h1, h2⟩)
        · exact absurd h hs
        · rcases hab with h | h
          · exact absurd h h1
          · exact absurd h h2
    · rw [if_neg hab]
      rw [not_or] at hab
      constructor
      · rintro ⟨h1, h2, h3⟩; exact Or.inr ⟨⟨h1, by omega, h3⟩, hab.1, hab.2⟩
      · rintro (h | ⟨⟨h1, h2, h3⟩, _⟩)
        · exact absurd h hs
        · exact ⟨h1, by omega, h3⟩

theorem isNewest_single_iff (v : ChainView) (hpos : 1 ≤ v.size) (x y ch : Nat) :
    (v.single x y).IsNewest ch ↔ ch = v.size ∨ v.IsNewest ch := by
  unfold IsNewest
  show (0 < ch ∧ ch < v.size + 1 ∧ (if ch = v.size then 0 else v.newer ch) = 0) ↔ _
  by_cases hs : ch = v.size
  · rw [if_pos hs]
    constructor
    · intro _; exact Or.inl hs
    · intro _; exact ⟨by omega, by omega, rfl⟩
  · rw [if_neg hs]
    constructor
    · rintro ⟨h1, h2, h3⟩; exact Or.inr ⟨h1, by omega, h3⟩
    · rintro (h | ⟨h1, h2, h3⟩)
      · exact absurd h hs
      · exact ⟨h1, by omega, h3⟩

theorem LoopInv.loop_merge {v : ChainView} {cell prev cur : Nat} (h : v.LoopInv cell prev)
    (hprev : v.IsNewest prev) (hcur : v.IsNewest cur) (hne : prev ≠ cur)
    (hsize : v.size < kChainNumLimit) (ring : Nat) (hring : ring < 16384) :
    (v.merge prev cur ring).LoopInv cell v.size where
  size_pos := Nat.le_trans h.size_pos (Nat.le_succ _)
  size_le := hsize
  newer_lt := Upward.upward_merge h.newer_lt prev cur ring
  cfc_lt := fun c => Nat.lt_succ_of_lt (h.cfc_lt c)
  cell_empty := h.cell_empty
  prev_newest := Or.inr ((isNewest_merge_iff hprev ring v.size).2 (Or.inl rfl))
  mask_iff := by
    intro ch hch c hc
    have hY := CellToY_lt c hc
    have hnew : ∀ k, v.cfc c ≠ 0 →
        ((v.merge prev cur ring).newest (v.cfc c) = k ↔
          (if v.newest (v.cfc c) = prev ∨ v.newest (v.cfc c) = cur then v.size
            else v.newest (v.cfc c)) = k) := by
      intro k hk
      rw [newest_merge h.newer_lt h.size_pos hprev hcur ring (v.cfc c) (Nat.pos_of_ne_zero hk)
        (h.cfc_lt c)]
    have hmp := h.mask_iff prev hprev c hc
    have hmc := h.mask_iff cur hcur c hc
    rw [inMask_eq] at hmp hmc
    rw [inMask_eq]
    show (if ch = v.size ∧ CellToY c < kBoardHeight
        then v.rows prev (CellToY c) ||| v.rows cur (CellToY c)
        else v.rows ch (CellToY c)).testBit (CellToX c) = true ↔
      ((v.merge prev cur ring).cfc c ≠ 0 ∧
        (v.merge prev cur ring).newest ((v.merge prev cur ring).cfc c) = ch) ∨
          (c = cell ∧ ch = v.size)
    show _ ↔ (v.cfc c ≠ 0 ∧ (v.merge prev cur ring).newest (v.cfc c) = ch) ∨
      (c = cell ∧ ch = v.size)
    rcases (isNewest_merge_iff hprev ring ch).1 hch with hs | ⟨hold, hn1, hn2⟩
    · subst hs
      rw [if_pos ⟨rfl, hY⟩, Nat.testBit_or, Bool.or_eq_true, hmp, hmc]
      by_cases hz : v.cfc c = 0
      · simp only [hz, ne_eq, not_true_eq_false, false_and, false_or, and_true]
        constructor
        · rintro (h1 | ⟨h1, _⟩) <;> exact h1
        · intro h1; exact Or.inl h1
      · have hb := newestPure_bounds v.newer v.size h.newer_lt v.size (v.cfc c)
          (Nat.pos_of_ne_zero hz) (h.cfc_lt c)
        rw [hnew _ hz]
        constructor
        · rintro ((⟨_, h1⟩ | ⟨h1, _⟩) | (⟨_, h1⟩ | ⟨h1, _⟩))
          · exact Or.inl ⟨hz, by rw [if_pos (Or.inl h1)]⟩
          · exact Or.inr ⟨h1, rfl⟩
          · exact Or.inl ⟨hz, by rw [if_pos (Or.inr h1)]⟩
          · exact Or.inr ⟨h1, rfl⟩
        · rintro (⟨_, h1⟩ | ⟨h1, _⟩)
          · by_cases hpc : v.newest (v.cfc c) = prev ∨ v.newest (v.cfc c) = cur
            · rcases hpc with h2 | h2
              · exact Or.inl (Or.inl ⟨hz, h2⟩)
              · exact Or.inr (Or.inl ⟨hz, h2⟩)
            · rw [if_neg hpc] at h1
              have : v.newest (v.cfc c) < v.size := hb.2
              omega
          · exact Or.inl (Or.inr ⟨h1, rfl⟩)
    · have hs : ch ≠ v.size := Nat.ne_of_lt hold.2.1
      have hcond : ¬ (ch = v.size ∧ CellToY c < kBoardHeight) := fun h' => hs h'.1
      have hm := h.mask_iff ch hold c hc
      rw [inMask_eq] at hm
      rw [if_neg hcond, hm]
      by_cases hz : v.cfc c = 0
      · simp only [hz, ne_eq, not_true_eq_false, false_and, false_or]
        constructor
        · rintro ⟨_, h1⟩; exact absurd h1 hn1
        · rintro ⟨_, h1⟩; exact absurd h1 hs
      · rw [hnew _ hz]
        constructor
        · rintro (⟨_, h1⟩ | ⟨_, h1⟩)
          · left
            refine ⟨hz, ?_⟩
            rw [if_neg (by rw [h1]; exact fun h' => h'.elim hn1 hn2), h1]
          · exact absurd h1 hn1
        · rintro (⟨_, h1⟩ | ⟨_, h1⟩)
          · left
            refine ⟨hz, ?_⟩
            by_cases hpc : v.newest (v.cfc c) = prev ∨ v.newest (v.cfc c) = cur
            · rw [if_pos hpc] at h1; exact absurd h1.symm hs
            · rw [if_neg hpc] at h1; exact h1
          · exact absurd h1 hs
  ecr_lt := by
    intro ch hch hne'
    rcases (isNewest_merge_iff hprev ring ch).1 hch with hs | ⟨hold, hn1, _⟩
    · exact absurd hs hne'
    · show (if ch = v.size then v.ecr prev ||| v.ecr cur ||| ring else v.ecr ch) < 4096
      rw [if_neg hne']
      exact h.ecr_lt ch hold hn1
  ecr_prev := by
    left
    show (if v.size = v.size then v.ecr prev ||| v.ecr cur ||| ring else v.ecr v.size) < 16384
    rw [if_pos rfl]
    have h1 : v.ecr prev < 16384 := by
      rcases h.ecr_prev with h1 | h1
      · exact h1
      · exact absurd h1 (Nat.ne_of_gt hprev.1)
    have h2 := h.ecr_lt cur hcur (Ne.symm hne)
    exact or_lt_16384 _ _ (or_lt_16384 _ _ h1 (by omega)) hring

theorem LoopInv.loop_single {v : ChainView} {cell : Nat} (h : v.LoopInv cell 0)
    (hsize : v.size < kChainNumLimit) :
    (v.single (CellToX cell) (CellToY cell)).LoopInv cell v.size where
  size_pos := Nat.le_trans h.size_pos (Nat.le_succ _)
  size_le := hsize
  newer_lt := by
    intro ch h0 h1
    show (if ch = v.size then 0 else v.newer ch) = 0 ∨
      (ch < (if ch = v.size then 0 else v.newer ch) ∧
        (if ch = v.size then 0 else v.newer ch) < v.size + 1)
    have h1' : ch < v.size + 1 := h1
    by_cases hs : ch = v.size
    · rw [if_pos hs]; exact Or.inl rfl
    · rw [if_neg hs]
      rcases h.newer_lt ch h0 (by omega) with h' | h'
      · exact Or.inl h'
      · right; omega
  cfc_lt := fun c => Nat.lt_succ_of_lt (h.cfc_lt c)
  cell_empty := h.cell_empty
  prev_newest := Or.inr ((isNewest_single_iff v h.size_pos _ _ v.size).2 (Or.inl rfl))
  mask_iff := by
    intro ch hch c hc
    have hY := CellToY_lt c hc
    rw [inMask_eq]
    show (if ch = v.size ∧ CellToY c < kBoardHeight
        then (if CellToY c = CellToY cell then setBit 0 (CellToX cell) else 0)
        else v.rows ch (CellToY c)).testBit (CellToX c) = true ↔
      (v.cfc c ≠ 0 ∧ (v.single (CellToX cell) (CellToY cell)).newest (v.cfc c) = ch) ∨
        (c = cell ∧ ch = v.size)
    have hnew : ∀ k, v.cfc c ≠ 0 →
        ((v.single (CellToX cell) (CellToY cell)).newest (v.cfc c) = k ↔
          v.newest (v.cfc c) = k) := by
      intro k hk
      rw [newest_single h.newer_lt _ _ (v.cfc c) (Nat.pos_of_ne_zero hk) (h.cfc_lt c)]
    rcases (isNewest_single_iff v h.size_pos _ _ ch).1 hch with hs | hold
    · subst hs
      rw [if_pos ⟨rfl, hY⟩]
      have hleft : (if CellToY c = CellToY cell then setBit 0 (CellToX cell) else 0).testBit
          (CellToX c) = true ↔ c = cell := by
        rw [cell_eq_iff c cell]
        by_cases hy : CellToY c = CellToY cell
        · rw [if_pos hy, testBit_setBit, Nat.zero_testBit, Bool.false_or, decide_eq_true_iff]
          constructor
          · intro h1; exact ⟨h1.symm, hy⟩
          · intro h1; exact h1.1.symm
        · rw [if_neg hy, Nat.zero_testBit]
          constructor
          · intro h1; cases h1
          · intro h1; exact absurd h1.2 hy
      rw [hleft]
      constructor
      · intro h1; exact Or.inr ⟨h1, rfl⟩
      · rintro (⟨hz, h1⟩ | ⟨h1, _⟩)
        · rw [hnew _ hz] at h1
          have hb := newestPure_bounds v.newer v.size h.newer_lt v.size (v.cfc c)
            (Nat.pos_of_ne_zero hz) (h.cfc_lt c)
          have : v.newest (v.cfc c) < v.size := hb.2
          omega
        · exact h1
    · have hs : ch ≠ v.size := Nat.ne_of_lt hold.2.1
      have hcond : ¬ (ch = v.size ∧ CellToY c < kBoardHeight) := fun h' => hs h'.1
      have hm := h.mask_iff ch hold c hc
      rw [inMask_eq] at hm
      rw [if_neg hcond, hm]
      by_cases hz : v.cfc c = 0
      · simp only [hz, ne_eq, not_true_eq_false, false_and, false_or]
        constructor
        · rintro ⟨_, h1⟩; exact absurd h1 (Nat.ne_of_gt hold.1)
        · rintro ⟨_, h1⟩; exact absurd h1 hs
      · rw [hnew _ hz]
        constructor
        · rintro (h1 | ⟨_, h1⟩)
          · exact Or.inl h1
          · exact absurd h1 (Nat.ne_of_gt hold.1)
        · rintro (h1 | ⟨_, h1⟩)
          · exact Or.inl h1
          · exact absurd h1 hs
  ecr_lt := by
    intro ch hch hne'
    rcases (isNewest_single_iff v h.size_pos _ _ ch).1 hch with hs | hold
    · exact absurd hs hne'
    · show (if ch = v.size then GetMaskOfEdgesAndCorners (XYToCell (CellToX cell) (CellToY cell))
        else v.ecr ch) < 4096
      rw [if_neg hne']
      exact h.ecr_lt ch hold (Nat.ne_of_gt hold.1)
  ecr_prev := by
    left
    show (if v.size = v.size
      then GetMaskOfEdgesAndCorners (XYToCell (CellToX cell) (CellToY cell))
      else v.ecr v.size) < 16384
    rw [if_pos rfl]
    have := GetMaskOfEdgesAndCorners_lt (XYToCell (CellToX cell) (CellToY cell))
    omega

/-- The end of a move: the cell is entered in `chains_for_cells_` and
`Chain::IsVictory` clears the ring bits of its chain. -/
theorem LoopInv.loop_finish {v : ChainView} {cell prev : Nat} (h : v.LoopInv cell prev)
    (hprev : v.IsNewest prev) : ((v.setCfc cell prev).clearRing prev).Inv where
  size_pos := h.size_pos
  size_le := h.size_le
  newer_lt := h.newer_lt
  cfc_lt := by
    intro c
    show (if c = cell then prev else v.cfc c) < v.size
    by_cases hc : c = cell
    · rw [if_pos hc]; exact hprev.2.1
    · rw [if_neg hc]; exact h.cfc_lt c
  mask_iff := by
    intro ch hch c hc
    have hch' : v.IsNewest ch := hch
    have hm := h.mask_iff ch hch' c hc
    show v.inMask ch c = true ↔
      (if c = cell then prev else v.cfc c) ≠ 0 ∧
        v.newest (if c = cell then prev else v.cfc c) = ch
    rw [hm]
    by_cases hcc : c = cell
    · rw [if_pos hcc, newest_of_isNewest hprev]
      constructor
      · rintro (⟨h1, _⟩ | ⟨_, h1⟩)
        · rw [hcc] at h1; exact absurd h.cell_empty h1
        · exact ⟨Nat.ne_of_gt hprev.1, h1.symm⟩
      · rintro ⟨_, h1⟩; exact Or.inr ⟨hcc, h1.symm⟩
    · rw [if_neg hcc]
      constructor
      · rintro (h1 | ⟨h1, _⟩)
        · exact h1
        · exact absurd h1 hcc
      · intro h1; exact Or.inl h1
  ecr_lt := by
    intro ch hch
    have hch' : v.IsNewest ch := hch
    show (if ch = prev then v.ecr ch &&& (4294967295 ^^^ (3 <<< 12)) else v.ecr ch) < 4096
    by_cases hc : ch = prev
    · rw [if_pos hc, hc]
      rcases h.ecr_prev with h1 | h1
      · exact and_clear_ring_lt _ h1
      · exact absurd h1 (Nat.ne_of_gt hprev.1)
    · rw [if_neg hc]; exact h.ecr_lt ch hch' hc

/-- Views that agree on what is stored satisfy the invariant together. -/
theorem Inv.inv_agree {v w : ChainView} (h : v.Inv) (hvw : v.Agree w) : w.Inv := by
  have hnewest : ∀ ch, 0 < ch → ch < v.size → w.newest ch = v.newest ch := by
    intro ch h0 h1
    unfold newest
    rw [hvw.size_eq]
    exact newestPure_congr v.newer w.newer v.size h.newer_lt hvw.newer_eq v.size ch h0 h1
  have hisNewest : ∀ ch, w.IsNewest ch → v.IsNewest ch := by
    rintro ch ⟨h0, h1, h2⟩
    rw [hvw.size_eq] at h1
    rw [hvw.newer_eq ch h1] at h2
    exact ⟨h0, h1, h2⟩
  refine ⟨?_, ?_, ?_, ?_, ?_, ?_⟩
  · rw [hvw.size_eq]; exact h.size_pos
  · rw [hvw.size_eq]; exact h.size_le
  · intro ch h0 h1
    rw [hvw.size_eq] at h1 ⊢
    rw [hvw.newer_eq ch h1]
    exact h.newer_lt ch h0 h1
  · intro c
    rw [hvw.size_eq, hvw.cfc_eq]; exact h.cfc_lt c
  · intro ch hch c hc
    have hv := hisNewest ch hch
    have hm := h.mask_iff ch hv c hc
    have : w.inMask ch c = v.inMask ch c := by
      unfold inMask
      rw [BoardBitmask.get_eq, BoardBitmask.get_eq, hvw.rows_eq ch hv.2.1]
    rw [this, hm, hvw.cfc_eq]
    by_cases hz : v.cfc c = 0
    · simp only [hz, ne_eq, not_true_eq_false, false_and]
    · rw [hnewest (v.cfc c) (Nat.pos_of_ne_zero hz) (h.cfc_lt c)]
  · intro ch hch
    have hv := hisNewest ch hch
    rw [hvw.ecr_eq ch hv.2.1]
    exact h.ecr_lt ch hv

end ChainView

/-! ### Steps of the Memento discipline -/

theorem undoSizes_min (z : List (Nat × Nat)) (size size' : Nat → Nat) (cs n : Nat)
    (h : n ≤ size cs) (h' : n ≤ size' cs) :
    min n (undoSizes z size cs) = min n (undoSizes z size' cs) := by
  induction z with
  | nil => show min n (size cs) = min n (size' cs); omega
  | cons e z ih =>
    rw [undoSizes_cons, undoSizes_cons]
    by_cases he : cs = e.1
    · rw [he, Function.update_same, Function.update_same, ShrinkTo_eq, ShrinkTo_eq]
      rw [he] at ih
      omega
    · rw [Function.update_noteq he, Function.update_noteq he]; exact ih

theorem undoSizes_le_entry (z : List (Nat × Nat)) (size : Nat → Nat) (e : Nat × Nat)
    (he : e ∈ z) : undoSizes z size e.1 ≤ e.2 := by
  induction z with
  | nil => cases he
  | cons e' z ih =>
    rw [undoSizes_cons]
    rcases List.mem_cons.1 he with h | h
    · subst h
      rw [Function.update_same, ShrinkTo_eq]; omega
    · by_cases hc : e.1 = e'.1
      · rw [hc, Function.update_same, ShrinkTo_eq]
        have := ih h
        rw [hc] at this
        omega
      · rw [Function.update_noteq hc]; exact ih h

/-- A chain set with a remembered size may grow: `UndoAll` shrinks it to
the same size. -/
theorem undoSizes_grow (z : List (Nat × Nat)) (size : Nat → Nat) (p n : Nat)
    (hrem : ∃ e ∈ z, e.1 = p ∧ e.2 ≤ size p) (hn : size p ≤ n) (cs : Nat) :
    undoSizes z (Function.update size p n) cs = undoSizes z size cs := by
  by_cases hcs : cs = p
  · subst hcs
    obtain ⟨e, he, he1, he2⟩ := hrem
    have h1 := undoSizes_le_entry z size e he
    have h2 := undoSizes_le_entry z (Function.update size e.1 n) e he
    subst he1
    have h3 := undoSizes_min z size (Function.update size e.1 n) e.1 e.2 he2
      (by rw [Function.update_same]; omega)
    omega
  · exact undoSizes_congr z _ _ cs (Function.update_noteq hcs _ _)

theorem undoWords_remember (w : List (Loc × Nat)) (mem : Loc → Nat) (loc : Loc) :
    undoWords (w ++ [(loc, mem loc)]) mem = undoWords w mem := by
  rw [undoWords_append]
  show undoWords w (Function.update mem loc (mem loc)) = undoWords w mem
  rw [Function.update_eq_self]

theorem undoWords_remember_write (w : List (Loc × Nat)) (mem : Loc → Nat) (loc : Loc)
    (v : Nat) :
    undoWords (w ++ [(loc, mem loc)]) (Function.update mem loc v) = undoWords w mem := by
  rw [undoWords_append]
  show undoWords w (Function.update (Function.update mem loc v) loc (mem loc)) = undoWords w mem
  rw [Function.update_idem, Function.update_eq_self]

namespace Undoes

variable {L : Loc → Prop} {s₀ s : State}

theorem undoes_refl (L : Loc → Prop) (s : State) (h : s.memento = Memento.empty) :
    Undoes L s s where
  sizes := by intro cs; rw [h]; rfl
  size_le := fun _ => Nat.le_refl _
  words := by intro loc _ _; rw [h]; rfl
  top_le := fun _ => Nat.le_refl _
  frames_le := fun _ => Nat.le_refl _

theorem undoes_remember (h : Undoes L s₀ s) (loc : Loc) : Undoes L s₀ (s.remember loc) where
  sizes := h.sizes
  size_le := h.size_le
  words := by
    intro l hl hlive
    show undoWords (s.memento.words_ ++ [(loc, s.mem loc)]) s.mem l = s₀.mem l
    rw [undoWords_remember]; exact h.words l hl hlive
  top_le := h.top_le
  frames_le := h.frames_le

/-- A write that `UndoAll` can cope with: the word is outside `L`, or not in
use in `s₀`, or remembered, or keeps its value; a top does not fall below
its value in `s₀`. -/
theorem undoes_write_top (h : Undoes L s₀ s) (loc : Loc) (v : Nat)
    (hsafe : ¬ L loc ∨ ¬ Live s₀ loc ∨ Remembered s loc ∨ v = s.mem loc)
    (htop : ∀ p, loc = Loc.arenaTop p → s₀.mem loc ≤ v)
    (hframes : ∀ p, loc = Loc.ringFramesTop p → s₀.mem loc ≤ v) :
    Undoes L s₀ (s.write loc v) where
  sizes := h.sizes
  size_le := h.size_le
  top_le := by
    intro p
    show s₀.mem _ ≤ Function.update s.mem loc v _
    by_cases hp : Loc.arenaTop p = loc
    · rw [hp, Function.update_same]; exact htop p hp.symm
    · rw [Function.update_noteq hp]; exact h.top_le p
  frames_le := by
    intro p
    show s₀.mem _ ≤ Function.update s.mem loc v _
    by_cases hp : Loc.ringFramesTop p = loc
    · rw [hp, Function.update_same]; exact hframes p hp.symm
    · rw [Function.update_noteq hp]; exact h.frames_le p
  words := by
    intro l hl hlive
    show undoWords s.memento.words_ (Function.update s.mem loc v) l = s₀.mem l
    rw [← h.words l hl hlive]
    by_cases hloc : l = loc
    · subst hloc
      rcases hsafe with h1 | h1 | h1 | h1
      · exact absurd hl h1
      · exact absurd hlive h1
      · exact undoWords_of_mem _ _ _ _ h1
      · rw [h1, Function.update_eq_self]
    · exact undoWords_congr _ _ _ _ (Function.update_noteq hloc _ _)

theorem undoes_write (h : Undoes L s₀ s) (loc : Loc) (v : Nat) (hnt : NotTop loc)
    (hsafe : ¬ L loc ∨ ¬ Live s₀ loc ∨ Remembered s loc ∨ v = s.mem loc) :
    Undoes L s₀ (s.write loc v) :=
  h.undoes_write_top loc v hsafe (fun p hp => by rw [hp] at hnt; exact hnt.elim)
    (fun p hp => by rw [hp] at hnt; exact hnt.elim)

theorem remembered_remember (s : State) (loc : Loc) : Remembered (s.remember loc) loc := by
  show loc ∈ (s.memento.words_ ++ [(loc, s.mem loc)]).map Prod.fst
  simp

theorem undoes_remember_write (h : Undoes L s₀ s) (loc : Loc) (v : Nat) (hnt : NotTop loc) :
    Undoes L s₀ ((s.remember loc).write loc v) :=
  (h.undoes_remember loc).undoes_write loc v hnt
    (Or.inr (Or.inr (Or.inl (remembered_remember s loc))))

theorem undoes_writeRows (h : Undoes L s₀ s) (p ch : Nat) (rows : Nat → Nat)
    (hdead : s₀.size p ≤ ch) : Undoes L s₀ (s.writeRows p ch rows) where
  sizes := h.sizes
  size_le := h.size_le
  words := by
    intro l hl hlive
    rw [← h.words l hl hlive]
    apply undoWords_congr
    cases l with
    | chainRow p' ch' y =>
      show (if p' = p ∧ ch' = ch ∧ y < kBoardHeight then rows y else _) = _
      have hl' : ch' < s₀.size p' := hlive
      rw [if_neg]
      rintro ⟨h1, h2, _⟩
      subst h1; subst h2
      omega
    | _ => rfl
  top_le := h.top_le
  frames_le := h.frames_le

theorem undoes_rememberSize (h : Undoes L s₀ s) (cs : Nat) : Undoes L s₀ (s.rememberSize cs) where
  sizes := by
    intro c
    show undoSizes (s.memento.sizes_ ++ [(cs, s.size cs)]) s.size c = s₀.size c
    rw [undoSizes_append, ← h.sizes c]
    apply undoSizes_congr
    show Function.update s.size cs (ShrinkTo (s.size cs) (s.size cs)) c = s.size c
    rw [ShrinkTo_eq, Nat.min_self, Function.update_eq_self]
  size_le := h.size_le
  words := h.words
  top_le := h.top_le
  frames_le := h.frames_le

theorem undoes_push (h : Undoes L s₀ s) (p : Nat) (hrem : SizeRemembered s p) :
    Undoes L s₀ (s.setSize p (s.size p + 1)) where
  sizes := by
    intro c
    show undoSizes s.memento.sizes_ (Function.update s.size p (s.size p + 1)) c = s₀.size c
    rw [undoSizes_grow _ _ _ _ hrem (Nat.le_succ _), h.sizes c]
  size_le := by
    intro c
    show s₀.size c ≤ Function.update s.size p (s.size p + 1) c
    by_cases hc : c = p
    · subst hc; rw [Function.update_same]; exact Nat.le_succ_of_le (h.size_le c)
    · rw [Function.update_noteq hc]; exact h.size_le c
  words := h.words
  top_le := h.top_le
  frames_le := h.frames_le

theorem undoes_modifyRing (h : Undoes L s₀ s) (p : Nat) (f : RingAux → RingAux) :
    Undoes L s₀ (s.modifyRing p f) := ⟨h.sizes, h.size_le, h.words, h.top_le, h.frames_le⟩

theorem undoes_setModifiedChain (h : Undoes L s₀ s) (p ch : Nat) :
    Undoes L s₀ (s.setModifiedChain p ch) := ⟨h.sizes, h.size_le, h.words, h.top_le, h.frames_le⟩

end Undoes

namespace SizeRemembered

variable {s : State} {p : Nat}

theorem sizeRem_remember (h : SizeRemembered s p) (loc : Loc) :
    SizeRemembered (s.remember loc) p := h

theorem sizeRem_write (h : SizeRemembered s p) (loc : Loc) (v : Nat) :
    SizeRemembered (s.write loc v) p := h

theorem sizeRem_writeRows (h : SizeRemembered s p) (q ch : Nat) (rows : Nat → Nat) :
    SizeRemembered (s.writeRows q ch rows) p := h

theorem sizeRem_modifyRing (h : SizeRemembered s p) (q : Nat) (f : RingAux → RingAux) :
    SizeRemembered (s.modifyRing q f) p := h

theorem sizeRem_setModifiedChain (h : SizeRemembered s p) (q ch : Nat) :
    SizeRemembered (s.setModifiedChain q ch) p := h

theorem sizeRem_push (h : SizeRemembered s p) : SizeRemembered (s.setSize p (s.size p + 1)) p := by
  obtain ⟨e, he, h1, h2⟩ := h
  refine ⟨e, he, h1, ?_⟩
  show e.2 ≤ Function.update s.size p (s.size p + 1) p
  rw [Function.update_same]; omega

theorem sizeRem_of_rememberSize (s : State) (p : Nat) : SizeRemembered (s.rememberSize p) p :=
  ⟨(p, s.size p), by
    show (p, s.size p) ∈ s.memento.sizes_ ++ [(p, s.size p)]
    simp, rfl, Nat.le_refl _⟩

end SizeRemembered

namespace GraphStep

theorem graphStep_refl (s : State) : GraphStep s s :=
  ⟨rfl, rfl, fun _ _ => rfl, fun _ _ => rfl, ⟨[], (List.append_nil _).symm⟩, fun _ => rfl⟩

theorem graphStep_trans {s₁ s₂ s₃ : State} (h : GraphStep s₁ s₂) (h' : GraphStep s₂ s₃) :
    GraphStep s₁ s₃ where
  size_eq := h'.size_eq.trans h.size_eq
  sizes_eq := h'.sizes_eq.trans h.sizes_eq
  mem_eq := fun loc hl => (h'.mem_eq loc hl).trans (h.mem_eq loc hl)
  undo_eq := fun loc hl => (h'.undo_eq loc hl).trans (h.undo_eq loc hl)
  words_ext := by
    obtain ⟨w, hw⟩ := h.words_ext
    obtain ⟨w', hw'⟩ := h'.words_ext
    exact ⟨w ++ w', by rw [hw', hw, List.append_assoc]⟩
  chunks_eq := fun q => (h'.chunks_eq q).trans (h.chunks_eq q)

theorem graphStep_remember (s : State) (loc : Loc) : GraphStep s (s.remember loc) where
  size_eq := rfl
  sizes_eq := rfl
  mem_eq := fun _ _ => rfl
  undo_eq := by
    intro l _
    show undoWords (s.memento.words_ ++ [(loc, s.mem loc)]) s.mem l = _
    rw [undoWords_remember]
  words_ext := ⟨[(loc, s.mem loc)], rfl⟩
  chunks_eq := fun _ => rfl

theorem graphStep_write_arena (s : State) (q i v : Nat) :
    GraphStep s (s.write (Loc.arena q i) v) where
  size_eq := rfl
  sizes_eq := rfl
  mem_eq := fun _ hl => Function.update_noteq (hl q i) _ _
  undo_eq := fun _ hl => undoWords_congr _ _ _ _ (Function.update_noteq (hl q i) _ _)
  words_ext := ⟨[], (List.append_nil _).symm⟩
  chunks_eq := fun _ => rfl

theorem graphStep_modifyRing (s : State) (p : Nat) (f : RingAux → RingAux)
    (hf : (f (s.ring p)).numChunks = (s.ring p).numChunks) : GraphStep s (s.modifyRing p f) where
  size_eq := rfl
  sizes_eq := rfl
  mem_eq := fun _ _ => rfl
  undo_eq := fun _ _ => rfl
  words_ext := ⟨[], (List.append_nil _).symm⟩
  chunks_eq := by
    intro q
    show (Function.update s.ring p (f (s.ring p)) q).numChunks = _
    by_cases hq : q = p
    · rw [hq, Function.update_same]; exact hf
    · rw [Function.update_noteq hq]

theorem graphStep_undoes {s s' : State} (h : GraphStep s s') {s₀ : State}
    (hu : Undoes NotArena s₀ s) :
    Undoes NotArena s₀ s' where
  sizes := by intro cs; rw [h.sizes_eq, h.size_eq]; exact hu.sizes cs
  size_le := by intro cs; rw [h.size_eq]; exact hu.size_le cs
  words := by intro loc hl hlive; rw [h.undo_eq loc hl]; exact hu.words loc hl hlive
  top_le := by intro p; rw [h.mem_eq _ (fun _ _ hh => by cases hh)]; exact hu.top_le p
  frames_le := by intro p; rw [h.mem_eq _ (fun _ _ hh => by cases hh)]; exact hu.frames_le p

theorem graphStep_sizeRemembered {s s' : State} (h : GraphStep s s') {p : Nat}
    (hr : SizeRemembered s p) : SizeRemembered s' p := by
  obtain ⟨e, he, h1, h2⟩ := hr
  exact ⟨e, by rw [h.sizes_eq]; exact he, h1, by rw [h.size_eq]; exact h2⟩

theorem graphStep_remembered {s s' : State} (h : GraphStep s s') {loc : Loc}
    (hr : Remembered s loc) :
    Remembered s' loc := by
  obtain ⟨w, hw⟩ := h.words_ext
  unfold Remembered at *
  rw [hw, List.map_append]
  exact List.mem_append_left _ hr

end GraphStep

/-! ### Composition of steps -/

namespace Steps

variable {R : State → State → Prop}

theorem steps_bind {α β : Type} {x : M α} {f : α → M β}
    (htrans : ∀ s₁ s₂ s₃, R s₁ s₂ → R s₂ s₃ → R s₁ s₃)
    (hx : Steps x R) (hf : ∀ a, Steps (f a) R) : Steps (x >>= f) R := by
  intro s b s'' h
  obtain ⟨a, s', h1, h2⟩ := bind_ok h
  exact htrans _ _ _ (hx s a s' h1) (hf a s' b s'' h2)

theorem steps_pure {α : Type} (hrefl : ∀ s, R s s) (a : α) : Steps (Pure.pure a : M α) R := by
  intro s b s' h
  rw [pure_apply] at h
  cases h
  exact hrefl _

theorem steps_ite {α : Type} {c : Prop} [Decidable c] {x y : M α}
    (hx : Steps x R) (hy : Steps y R) : Steps (if c then x else y) R := by
  by_cases h : c
  · rw [if_pos h]; exact hx
  · rw [if_neg h]; exact hy

theorem steps_of_same {α : Type} {x : M α} (hrefl : ∀ s, R s s)
    (h : ∀ s a s', x s = Res.ok a s' → s' = s) : Steps x R := by
  intro s a s' hx
  rw [h s a s' hx]; exact hrefl _

end Steps

/-! ### ChainSet::NewestVersion -/

theorem deref_bind {β : Type} (p ch : Nat) (f : Unit → M β) (s : State) :
    (ChainSet.deref p ch >>= f) s =
      if 0 < ch ∧ ch < s.size p then f () s else Res.fail Err.outOfBounds := by
  unfold ChainSet.deref
  rw [bind_assoc', getSize_bind, inBounds_bind]
  by_cases h : 0 < ch ∧ ch < s.size p
  · rw [if_pos h, if_pos (decide_eq_true h)]
  · rw [if_neg h, if_neg (by simpa using h)]

theorem newer_version_bind {β : Type} (p ch : Nat) (f : Nat → M β) (s : State) :
    (Chain.newer_version p ch >>= f) s = f (s.newer p ch) s := rfl

theorem newestLoop_succ (p fuel ch : Nat) (s : State) :
    ChainSet.newestLoop p (fuel + 1) ch s =
      if 0 < ch ∧ ch < s.size p then
        (if s.newer p ch ≠ 0 then ChainSet.newestLoop p fuel (s.newer p ch) s
          else Res.ok ch s)
      else Res.fail Err.outOfBounds := by
  rw [ChainSet.newestLoop, deref_bind, newer_version_bind]
  by_cases h : s.newer p ch ≠ 0
  · rw [if_pos h, if_pos h]
  · rw [if_neg h, if_neg h]; rfl

theorem newestLoop_eq (p : Nat) (s : State) :
    ∀ fuel ch n s', ChainSet.newestLoop p fuel ch s = Res.ok n s' →
      s' = s ∧ n = newestPure (s.newer p) fuel ch ∧ 0 < ch ∧ ch < s.size p := by
  intro fuel
  induction fuel with
  | zero => intro ch n s' h; cases h
  | succ f ih =>
    intro ch n s' h
    rw [newestLoop_succ, ite_fail_eq_ok] at h
    obtain ⟨hb, h⟩ := h
    rw [newestPure_succ]
    by_cases hz : s.newer p ch ≠ 0
    · rw [if_pos hz] at h ⊢
      obtain ⟨h1, h2, _, _⟩ := ih _ n s' h
      exact ⟨h1, h2, hb.1, hb.2⟩
    · rw [if_neg hz] at h ⊢
      cases h
      exact ⟨rfl, rfl, hb.1, hb.2⟩

theorem newestLoop_ok (p : Nat) (s : State) (hup : Upward (s.newer p) (s.size p)) :
    ∀ fuel ch, 0 < ch → ch < s.size p → s.size p ≤ fuel + ch →
      ChainSet.newestLoop p fuel ch s = Res.ok (newestPure (s.newer p) fuel ch) s := by
  intro fuel
  induction fuel with
  | zero => intro ch h0 h1 h2; omega
  | succ f ih =>
    intro ch h0 h1 h2
    rw [newestLoop_succ, if_pos ⟨h0, h1⟩, newestPure_succ]
    by_cases hz : s.newer p ch ≠ 0
    · rw [if_pos hz, if_pos hz]
      rcases hup ch h0 h1 with h | h
      · exact absurd h hz
      · exact ih _ (by omega) h.2 (by omega)
    · rw [if_neg hz, if_neg hz]

theorem NewestVersion_apply (p ch : Nat) (s : State) :
    ChainSet.NewestVersion p ch s =
      if ch ≠ 0 then ChainSet.newestLoop p (s.size p) ch s else Res.fail Err.assertFailed := by
  unfold ChainSet.NewestVersion
  rw [assert_bind, getSize_bind]
  by_cases h : ch ≠ 0
  · rw [if_pos h, if_pos (decide_eq_true h)]
  · rw [if_neg h, if_neg (by simpa using h)]

theorem NewestVersion_eq {p ch : Nat} {s : State} {n : Nat} {s' : State}
    (h : ChainSet.NewestVersion p ch s = Res.ok n s') :
    s' = s ∧ n = (s.view p).newest ch ∧ 0 < ch ∧ ch < s.size p := by
  rw [NewestVersion_apply, ite_fail_eq_ok] at h
  exact newestLoop_eq p s _ ch n s' h.2

theorem NewestVersion_ok {p ch : Nat} {s : State} (hup : Upward (s.newer p) (s.size p))
    (h0 : 0 < ch) (h1 : ch < s.size p) :
    ChainSet.NewestVersion p ch s = Res.ok ((s.view p).newest ch) s := by
  rw [NewestVersion_apply, if_pos (Nat.ne_of_gt h0)]
  exact newestLoop_ok p s hup _ ch h0 h1 (by omega)

theorem NewestVersion_bind_ok {β : Type} {p ch : Nat} {f : Nat → M β} {s : State} {b : β}
    {s' : State} (h : (ChainSet.NewestVersion p ch >>= f) s = Res.ok b s') :
    f ((s.view p).newest ch) s = Res.ok b s' ∧ 0 < ch ∧ ch < s.size p := by
  obtain ⟨n, s₁, h1, h2⟩ := bind_ok h
  obtain ⟨e1, e2, e3, e4⟩ := NewestVersion_eq h1
  subst e1; subst e2
  exact ⟨h2, e3, e4⟩

/-! ### RingDB: the chain graph leaves the chains alone -/

theorem Arena_ref_bind {β : Type} (p n : Nat) (f : Loc → M β) (s : State) :
    (Arena.ref p n >>= f) s =
      if n < s.mem (Loc.arenaTop p) then
        (if n / kCellsInChunk < (s.ring p).numChunks then f (Loc.arena p n) s
          else Res.fail Err.outOfBounds)
      else Res.fail Err.assertFailed := by
  unfold Arena.ref Arena.top
  rw [bind_assoc', readW_bind, bind_assoc', assert_bind]
  by_cases h : n < s.mem (Loc.arenaTop p)
  · rw [if_pos h, if_pos (decide_eq_true h), bind_assoc', getRing_bind, bind_assoc',
      inBounds_bind]
    by_cases h' : n / kCellsInChunk < (s.ring p).numChunks
    · rw [if_pos h', if_pos (decide_eq_true h')]; rfl
    · rw [if_neg h', if_neg (by simpa using h')]
  · rw [if_neg h, if_neg (by simpa using h)]

theorem Arena_get_bind {β : Type} (p n : Nat) (f : Nat → M β) (s : State) :
    (Arena.get p n >>= f) s =
      if n < s.mem (Loc.arenaTop p) then
        (if n / kCellsInChunk < (s.ring p).numChunks then f (s.mem (Loc.arena p n)) s
          else Res.fail Err.outOfBounds)
      else Res.fail Err.assertFailed := by
  unfold Arena.get
  rw [bind_assoc', Arena_ref_bind]; rfl

theorem Arena_set_bind {β : Type} (p n v : Nat) (f : Unit → M β) (s : State) :
    (Arena.set p n v >>= f) s =
      if n < s.mem (Loc.arenaTop p) then
        (if n / kCellsInChunk < (s.ring p).numChunks then f () (s.write (Loc.arena p n) v)
          else Res.fail Err.outOfBounds)
      else Res.fail Err.assertFailed := by
  unfold Arena.set
  rw [bind_assoc', Arena_ref_bind]; rfl

theorem rememberCell_bind {β : Type} (p n : Nat) (f : Unit → M β) (s : State) :
    (RingDB.rememberCell p n >>= f) s =
      if n < s.mem (Loc.arenaTop p) then
        (if n / kCellsInChunk < (s.ring p).numChunks then f () (s.remember (Loc.arena p n))
          else Res.fail Err.outOfBounds)
      else Res.fail Err.assertFailed := by
  unfold RingDB.rememberCell
  rw [bind_assoc', Arena_ref_bind]; rfl

theorem bind_pure' {α : Type} (x : M α) : (x >>= fun a => (pure a : M α)) = x := by
  funext s
  rw [bind_apply]
  cases x s <;> rfl

theorem GraphStep.graphStep_closed : GraphClosed GraphStep :=
  ⟨GraphStep.graphStep_refl, fun _ _ _ => GraphStep.graphStep_trans,
    GraphStep.graphStep_write_arena, GraphStep.graphStep_modifyRing⟩

theorem Unrecorded.unrecorded_closed : GraphClosed Unrecorded :=
  ⟨fun _ => rfl, fun _ _ _ h h' => h'.trans h, fun _ _ _ _ => rfl, fun _ _ _ _ => rfl⟩

theorem Arena_get_steps {R : State → State → Prop} (hR : GraphClosed R) (p n : Nat) :
    Steps (Arena.get p n) R := by
  intro s a s' h
  rw [← bind_pure' (Arena.get p n), Arena_get_bind, ite_fail_eq_ok, ite_fail_eq_ok] at h
  obtain ⟨_, _, h⟩ := h
  cases h
  exact hR.refl _

theorem Arena_set_steps {R : State → State → Prop} (hR : GraphClosed R) (p n v : Nat) :
    Steps (Arena.set p n v) R := by
  intro s a s' h
  rw [← bind_pure' (Arena.set p n v), Arena_set_bind, ite_fail_eq_ok, ite_fail_eq_ok] at h
  obtain ⟨_, _, h⟩ := h
  cases h
  exact hR.write_arena _ _ _ _

theorem rememberCell_steps {R : State → State → Prop} (_hR : GraphClosed R)
    (hrem : ∀ s q i, R s (s.remember (Loc.arena q i))) (p n : Nat) :
    Steps (RingDB.rememberCell p n) R := by
  intro s a s' h
  rw [← bind_pure' (RingDB.rememberCell p n), rememberCell_bind, ite_fail_eq_ok,
    ite_fail_eq_ok] at h
  obtain ⟨_, _, h⟩ := h
  cases h
  exact hrem _ _ _

theorem modifyRing_steps {R : State → State → Prop} (hR : GraphClosed R) (p : Nat)
    (f : RingAux → RingAux) (hf : ∀ a, (f a).numChunks = a.numChunks) :
    Steps (modifyRing p f) R := by
  intro s a s' h
  cases h
  exact hR.modifyRing _ _ _ (hf _)

theorem getRing_steps {R : State → State → Prop} (hR : GraphClosed R) (p : Nat) :
    Steps (getRing p) R := by
  intro s a s' h
  cases h
  exact hR.refl _

theorem getSize_steps {R : State → State → Prop} (hR : GraphClosed R) (p : Nat) :
    Steps (getSize p) R := by
  intro s a s' h
  cases h
  exact hR.refl _

theorem assert_steps {R : State → State → Prop} (hR : GraphClosed R) (b : Bool) :
    Steps (assert b) R := by
  intro s a s' h
  rw [assert_apply, ite_fail_eq_ok] at h
  obtain ⟨_, h⟩ := h
  cases h
  exact hR.refl _

theorem outOfFuel_steps {R : State → State → Prop} (_hR : GraphClosed R) {α : Type} :
    Steps (outOfFuel : M α) R := by
  intro s a s' h
  cases h

theorem listFuel_steps {R : State → State → Prop} (hR : GraphClosed R) (p : Nat) :
    Steps (RingDB.listFuel p) R := by
  intro s a s' h
  cases h
  exact hR.refl _

theorem NewestVersion_steps {R : State → State → Prop} (hR : GraphClosed R) (p ch : Nat) :
    Steps (ChainSet.NewestVersion p ch) R := by
  intro s a s' h
  rw [(NewestVersion_eq h).1]
  exact hR.refl _

theorem gbind {R : State → State → Prop} (hR : GraphClosed R) {α β : Type} {x : M α} {f : α → M β}
    (hx : Steps x R) (hf : ∀ a, Steps (f a) R) : Steps (x >>= f) R :=
  Steps.steps_bind hR.trans hx hf

theorem gpure {R : State → State → Prop} (hR : GraphClosed R) {α : Type} (a : α) :
    Steps (pure a : M α) R :=
  Steps.steps_pure hR.refl a

theorem replaceLoopReversibly_steps {R : State → State → Prop} (hR : GraphClosed R)
    (hrem : ∀ s q i, R s (s.remember (Loc.arena q i))) (p old_chain new_chain : Nat) :
    ∀ fuel q, Steps (RingDB.replaceLoopReversibly p old_chain new_chain fuel q) R := by
  intro fuel
  induction fuel with
  | zero => intro q; exact outOfFuel_steps hR
  | succ f ih =>
    intro q
    unfold RingDB.replaceLoopReversibly
    refine Steps.steps_ite (gpure hR _) ?_
    refine gbind hR (Arena_get_steps hR _ _) (fun ch => ?_)
    refine gbind hR (Steps.steps_ite (gbind hR (rememberCell_steps hR hrem _ _)
      (fun _ => Arena_set_steps hR _ _ _))
      (gpure hR _)) (fun _ => ?_)
    exact gbind hR (Arena_get_steps hR _ _) (fun next => ih next)

theorem ReplaceChainInGraphReversibly_steps {R : State → State → Prop} (hR : GraphClosed R)
    (hrem : ∀ s q i, R s (s.remember (Loc.arena q i))) (p chain old_chain new_chain : Nat) :
    Steps (RingDB.ReplaceChainInGraphReversibly p chain old_chain new_chain) R := by
  unfold RingDB.ReplaceChainInGraphReversibly
  refine gbind hR (listFuel_steps hR _) (fun fuel => ?_)
  exact gbind hR (Arena_get_steps hR _ _) (fun q => replaceLoopReversibly_steps hR hrem _ _ _ _ _)

theorem replaceLoopFast_steps {R : State → State → Prop} (hR : GraphClosed R)
    (p old_chain new_chain : Nat) :
    ∀ fuel q, Steps (RingDB.replaceLoopFast p old_chain new_chain fuel q) R := by
  intro fuel
  induction fuel with
  | zero => intro q; exact outOfFuel_steps hR
  | succ f ih =>
    intro q
    unfold RingDB.replaceLoopFast
    refine Steps.steps_ite (gpure hR _) ?_
    refine gbind hR (Arena_get_steps hR _ _) (fun ch => ?_)
    refine gbind hR (Steps.steps_ite (Arena_set_steps hR _ _ _) (gpure hR _)) (fun _ => ?_)
    exact gbind hR (Arena_get_steps hR _ _) (fun next => ih next)

theorem ReplaceChainInGraphFast_steps {R : State → State → Prop} (hR : GraphClosed R)
    (p chain old_chain new_chain : Nat) :
    Steps (RingDB.ReplaceChainInGraphFast p chain old_chain new_chain) R := by
  unfold RingDB.ReplaceChainInGraphFast
  refine gbind hR (listFuel_steps hR _) (fun fuel => ?_)
  exact gbind hR (Arena_get_steps hR _ _) (fun q => replaceLoopFast_steps hR _ _ _ _ _)

theorem mergeLoop1Reversibly_steps {R : State → State → Prop} (hR : GraphClosed R)
    (hrem : ∀ s q i, R s (s.remember (Loc.arena q i))) (p chain0 chain1 new_chain : Nat) :
    ∀ fuel curr,
      Steps (RingDB.mergeLoop1Reversibly p chain0 chain1 new_chain fuel curr) R := by
  intro fuel
  induction fuel with
  | zero => intro q; exact outOfFuel_steps hR
  | succ f ih =>
    intro curr
    unfold RingDB.mergeLoop1Reversibly
    refine gbind hR (Arena_get_steps hR _ _) (fun ch => ?_)
    refine gbind hR (Arena_get_steps hR _ _) (fun c0 => ?_)
    refine gbind hR (Arena_get_steps hR _ _) (fun c1 => ?_)
    refine gbind hR (modifyRing_steps hR _ _ (fun _ => rfl)) (fun _ => ?_)
    refine gbind hR (Steps.steps_ite (gbind hR (rememberCell_steps hR hrem _ _)
      (fun _ => Arena_set_steps hR _ _ _))
      (gpure hR _)) (fun _ => ?_)
    refine gbind hR (ReplaceChainInGraphReversibly_steps hR hrem _ _ _ _) (fun _ => ?_)
    refine gbind hR (Arena_get_steps hR _ _) (fun next => ?_)
    exact Steps.steps_ite (ih next) (gpure hR _)

theorem mergeLoop1Fast_steps {R : State → State → Prop} (hR : GraphClosed R)
    (p chain0 chain1 new_chain : Nat) :
    ∀ fuel curr,
      Steps (RingDB.mergeLoop1Fast p chain0 chain1 new_chain fuel curr) R := by
  intro fuel
  induction fuel with
  | zero => intro q; exact outOfFuel_steps hR
  | succ f ih =>
    intro curr
    unfold RingDB.mergeLoop1Fast
    refine gbind hR (Arena_get_steps hR _ _) (fun ch => ?_)
    refine gbind hR (Arena_get_steps hR _ _) (fun c0 => ?_)
    refine gbind hR (Arena_get_steps hR _ _) (fun c1 => ?_)
    refine gbind hR (modifyRing_steps hR _ _ (fun _ => rfl)) (fun _ => ?_)
    refine gbind hR (Steps.steps_ite (Arena_set_steps hR _ _ _) (gpure hR _)) (fun _ => ?_)
    refine gbind hR (ReplaceChainInGraphFast_steps hR _ _ _ _) (fun _ => ?_)
    refine gbind hR (Arena_get_steps hR _ _) (fun next => ?_)
    exact Steps.steps_ite (ih next) (gpure hR _)

theorem mergeLoop2Reversibly_steps {R : State → State → Prop} (hR : GraphClosed R)
    (hrem : ∀ s q i, R s (s.remember (Loc.arena q i))) (p chain0 chain1 new_chain : Nat) :
    ∀ fuel prev curr,
      Steps (RingDB.mergeLoop2Reversibly p chain0 chain1 new_chain fuel prev curr)
        R := by
  intro fuel
  induction fuel with
  | zero => intro _ _; exact outOfFuel_steps hR
  | succ f ih =>
    intro prev curr
    unfold RingDB.mergeLoop2Reversibly
    refine Steps.steps_ite (gpure hR _) ?_
    refine gbind hR (Arena_get_steps hR _ _) (fun ch => ?_)
    refine gbind hR (Arena_get_steps hR _ _) (fun c0 => ?_)
    refine gbind hR (Arena_get_steps hR _ _) (fun c1 => ?_)
    refine gbind hR (getRing_steps hR _) (fun aux => ?_)
    refine Steps.steps_ite ?_ ?_
    · refine gbind hR (Steps.steps_ite (gbind hR (rememberCell_steps hR hrem _ _)
        (fun _ => Arena_set_steps hR _ _ _))
        (gpure hR _)) (fun _ => ?_)
      refine gbind hR (ReplaceChainInGraphReversibly_steps hR hrem _ _ _ _) (fun _ => ?_)
      exact gbind hR (Arena_get_steps hR _ _) (fun next => ih _ next)
    · refine gbind hR (rememberCell_steps hR hrem _ _) (fun _ => ?_)
      refine gbind hR (Arena_get_steps hR _ _) (fun next => ?_)
      exact gbind hR (Arena_set_steps hR _ _ _) (fun _ => ih _ next)

theorem mergeLoop2Fast_steps {R : State → State → Prop} (hR : GraphClosed R)
    (p chain0 chain1 new_chain : Nat) :
    ∀ fuel prev curr,
      Steps (RingDB.mergeLoop2Fast p chain0 chain1 new_chain fuel prev curr) R := by
  intro fuel
  induction fuel with
  | zero => intro _ _; exact outOfFuel_steps hR
  | succ f ih =>
    intro prev curr
    unfold RingDB.mergeLoop2Fast
    refine Steps.steps_ite (gpure hR _) ?_
    refine gbind hR (Arena_get_steps hR _ _) (fun ch => ?_)
    refine gbind hR (Arena_get_steps hR _ _) (fun c0 => ?_)
    refine gbind hR (Arena_get_steps hR _ _) (fun c1 => ?_)
    refine gbind hR (getRing_steps hR _) (fun aux => ?_)
    refine Steps.steps_ite ?_ ?_
    · refine gbind hR (Steps.steps_ite (Arena_set_steps hR _ _ _) (gpure hR _)) (fun _ => ?_)
      refine gbind hR (ReplaceChainInGraphFast_steps hR _ _ _ _) (fun _ => ?_)
      exact gbind hR (Arena_get_steps hR _ _) (fun next => ih _ next)
    · refine gbind hR (Arena_get_steps hR _ _) (fun next => ?_)
      exact gbind hR (Arena_set_steps hR _ _ _) (fun _ => ih _ next)

theorem MergeChainEdgesReversibly_steps {R : State → State → Prop} (hR : GraphClosed R)
    (hrem : ∀ s q i, R s (s.remember (Loc.arena q i))) (p chain0 chain1 : Nat) :
    Steps (RingDB.MergeChainEdgesReversibly p chain0 chain1) R := by
  unfold RingDB.MergeChainEdgesReversibly
  refine gbind hR (NewestVersion_steps hR _ _) (fun nv0 => ?_)
  refine gbind hR (assert_steps hR _) (fun _ => ?_)
  refine gbind hR (NewestVersion_steps hR _ _) (fun nv1 => ?_)
  refine gbind hR (assert_steps hR _) (fun _ => ?_)
  refine Steps.steps_ite (gpure hR _) ?_
  refine gbind hR (modifyRing_steps hR _ _ (fun _ => rfl)) (fun _ => ?_)
  refine gbind hR (getSize_steps hR _) (fun size => ?_)
  refine gbind hR (listFuel_steps hR _) (fun fuel => ?_)
  refine gbind hR (Arena_get_steps hR _ _) (fun curr => ?_)
  refine gbind hR (Steps.steps_ite (gbind hR (rememberCell_steps hR hrem _ _) (fun _ =>
    gbind hR (Arena_set_steps hR _ _ _) (fun _ => mergeLoop1Reversibly_steps hR hrem _ _ _ _ _ _)))
      (gpure hR _)) (fun prev => ?_)
  refine gbind hR (rememberCell_steps hR hrem _ _) (fun _ => ?_)
  refine gbind hR (Arena_get_steps hR _ _) (fun curr' => ?_)
  refine gbind hR (Arena_set_steps hR _ _ _) (fun _ => ?_)
  exact gbind hR (mergeLoop2Reversibly_steps hR hrem _ _ _ _ _ _ _)
    (fun _ => modifyRing_steps hR _ _ (fun _ => rfl))

theorem MergeChainEdgesFast_steps {R : State → State → Prop} (hR : GraphClosed R)
    (p chain0 chain1 : Nat) :
    Steps (RingDB.MergeChainEdgesFast p chain0 chain1) R := by
  unfold RingDB.MergeChainEdgesFast
  refine gbind hR (NewestVersion_steps hR _ _) (fun nv0 => ?_)
  refine gbind hR (assert_steps hR _) (fun _ => ?_)
  refine gbind hR (NewestVersion_steps hR _ _) (fun nv1 => ?_)
  refine gbind hR (assert_steps hR _) (fun _ => ?_)
  refine Steps.steps_ite (gpure hR _) ?_
  refine gbind hR (modifyRing_steps hR _ _ (fun _ => rfl)) (fun _ => ?_)
  refine gbind hR (getSize_steps hR _) (fun size => ?_)
  refine gbind hR (listFuel_steps hR _) (fun fuel => ?_)
  refine gbind hR (Arena_get_steps hR _ _) (fun curr => ?_)
  refine gbind hR (Steps.steps_ite (gbind hR (Arena_set_steps hR _ _ _) (fun _ =>
    mergeLoop1Fast_steps hR _ _ _ _ _ _)) (gpure hR _)) (fun prev => ?_)
  refine gbind hR (Arena_get_steps hR _ _) (fun curr' => ?_)
  refine gbind hR (Arena_set_steps hR _ _ _) (fun _ => ?_)
  exact gbind hR (mergeLoop2Fast_steps hR _ _ _ _ _ _ _)
    (fun _ => modifyRing_steps hR _ _ (fun _ => rfl))

/-! ### The chains after the steps of a move -/

theorem ChainView.ext' {v w : ChainView} (h1 : v.size = w.size)
    (h2 : ∀ ch, v.newer ch = w.newer ch) (h3 : ∀ c, v.cfc c = w.cfc c)
    (h4 : ∀ ch y, v.rows ch y = w.rows ch y) (h5 : ∀ ch, v.ecr ch = w.ecr ch) : v = w := by
  cases v; cases w
  simp only [ChainView.mk.injEq]
  exact ⟨h1, funext h2, funext h3, funext (fun ch => funext (h4 ch)), funext h5⟩

theorem GraphStep.graphStep_view {s s' : State} (h : GraphStep s s') (p : Nat) :
    s'.view p = s.view p := by
  apply ChainView.ext'
  · show s'.size p = s.size p
    rw [h.size_eq]
  · intro ch
    show getByte (s'.mem _) 0 = getByte (s.mem _) 0
    rw [h.mem_eq _ (fun _ _ hh => by cases hh)]
  · intro c
    show getByte (s'.mem _) _ = getByte (s.mem _) _
    rw [h.mem_eq _ (fun _ _ hh => by cases hh)]
  · intro ch y
    exact h.mem_eq _ (fun _ _ hh => by cases hh)
  · intro ch
    exact h.mem_eq _ (fun _ _ hh => by cases hh)

@[simp]
theorem mem_write (s : State) (loc : Loc) (v : Nat) :
    (s.write loc v).mem = Function.update s.mem loc v := rfl
@[simp]
theorem size_write (s : State) (loc : Loc) (v : Nat) : (s.write loc v).size = s.size := rfl
@[simp]
theorem memento_write (s : State) (loc : Loc) (v : Nat) :
    (s.write loc v).memento = s.memento := rfl
@[simp]
theorem mem_remember (s : State) (loc : Loc) : (s.remember loc).mem = s.mem := rfl
@[simp]
theorem size_remember (s : State) (loc : Loc) : (s.remember loc).size = s.size := rfl
@[simp]
theorem words_remember (s : State) (loc : Loc) :
    (s.remember loc).memento.words_ = s.memento.words_ ++ [(loc, s.mem loc)] := rfl
@[simp]
theorem sizes_remember (s : State) (loc : Loc) :
    (s.remember loc).memento.sizes_ = s.memento.sizes_ := rfl
@[simp]
theorem mem_setSize (s : State) (p n : Nat) : (s.setSize p n).mem = s.mem := rfl
@[simp]
theorem size_setSize (s : State) (p n : Nat) :
    (s.setSize p n).size = Function.update s.size p n := rfl
@[simp]
theorem memento_setSize (s : State) (p n : Nat) :
    (s.setSize p n).memento = s.memento := rfl
@[simp]
theorem mem_writeRows_row (s : State) (p ch : Nat) (rows : Nat → Nat) (q c y : Nat) :
    (s.writeRows p ch rows).mem (Loc.chainRow q c y) =
      if q = p ∧ c = ch ∧ y < kBoardHeight then rows y else s.mem (Loc.chainRow q c y) := rfl
@[simp]
theorem mem_writeRows_ecr (s : State) (p ch : Nat) (rows : Nat → Nat) (q c : Nat) :
    (s.writeRows p ch rows).mem (Loc.chainEcr q c) = s.mem (Loc.chainEcr q c) := rfl
@[simp]
theorem mem_writeRows_newer (s : State) (p ch : Nat) (rows : Nat → Nat) (q c : Nat) :
    (s.writeRows p ch rows).mem (Loc.chainNewer q c) = s.mem (Loc.chainNewer q c) := rfl
@[simp]
theorem mem_writeRows_numStones (s : State) (p ch : Nat) (rows : Nat → Nat)
    (q c : Nat) :
    (s.writeRows p ch rows).mem (Loc.chainNumStones q c) = s.mem (Loc.chainNumStones q c) := rfl
@[simp]
theorem mem_writeRows_cfc (s : State) (p ch : Nat) (rows : Nat → Nat) (q w : Nat) :
    (s.writeRows p ch rows).mem (Loc.chainsForCells q w) = s.mem (Loc.chainsForCells q w) := rfl
@[simp]
theorem size_writeRows (s : State) (p ch : Nat) (rows : Nat → Nat) :
    (s.writeRows p ch rows).size = s.size := rfl
@[simp]
theorem memento_writeRows (s : State) (p ch : Nat) (rows : Nat → Nat) :
    (s.writeRows p ch rows).memento = s.memento := rfl
@[simp]
theorem mem_setModifiedChain (s : State) (p ch : Nat) :
    (s.setModifiedChain p ch).mem = s.mem := rfl
@[simp]
theorem size_setModifiedChain (s : State) (p ch : Nat) :
    (s.setModifiedChain p ch).size = s.size := rfl
@[simp]
theorem memento_setModifiedChain (s : State) (p ch : Nat) :
    (s.setModifiedChain p ch).memento = s.memento := rfl
@[simp]
theorem mem_rememberSize (s : State) (p : Nat) : (s.rememberSize p).mem = s.mem := rfl
@[simp]
theorem size_rememberSize (s : State) (p : Nat) : (s.rememberSize p).size = s.size := rfl
@[simp]
theorem words_rememberSize (s : State) (p : Nat) :
    (s.rememberSize p).memento.words_ = s.memento.words_ := rfl

@[simp]
theorem view_size (s : State) (p : Nat) : (s.view p).size = s.size p := rfl
@[simp]
theorem view_newer (s : State) (p ch : Nat) :
    (s.view p).newer ch = getByte (s.mem (Loc.chainNewer p ch)) 0 := rfl
@[simp]
theorem view_cfc (s : State) (p c : Nat) :
    (s.view p).cfc c = getByte (s.mem (Loc.chainsForCells p (c / 4))) (c % 4) := rfl
@[simp]
theorem view_rows (s : State) (p ch y : Nat) :
    (s.view p).rows ch y = s.mem (Loc.chainRow p ch y) := rfl
@[simp]
theorem view_ecr (s : State) (p ch : Nat) :
    (s.view p).ecr ch = s.mem (Loc.chainEcr p ch) := rfl

theorem GetRingMask_eq {p ch x y : Nat} {s : State} {r : Nat} {s' : State}
    (h : Chain.GetRingMask p ch x y s = Res.ok r s') : s' = s ∧ r < 16384 := by
  unfold Chain.GetRingMask Chain.ClosesAnyRing at h
  simp only [bind_assoc', readChainRows_bind, assert_bind, ite_fail_eq_ok, pure_bind'] at h
  obtain ⟨_, h⟩ := h
  by_cases hr : closesAnyRing (chainRows s p ch) x y ≠ 0
  · rw [if_pos hr, readChainRows_bind, pure_apply] at h
    cases h
    exact ⟨rfl, or_lt_16384 _ _ (closesAnyRing_lt _ _ _) (closesBenzeneRing_lt _ _ _)⟩
  · rw [if_neg hr, pure_apply] at h
    cases h
    exact ⟨rfl, closesAnyRing_lt _ _ _⟩

theorem GetRingMask_bind_ok {β : Type} {p ch x y : Nat} {f : Nat → M β} {s : State} {b : β}
    {s' : State} (h : (Chain.GetRingMask p ch x y >>= f) s = Res.ok b s') :
    ∃ ring, ring < 16384 ∧ f ring s = Res.ok b s' := by
  obtain ⟨r, s₁, h1, h2⟩ := bind_ok h
  obtain ⟨e1, e2⟩ := GetRingMask_eq h1
  subst e1
  exact ⟨r, e2, h2⟩

theorem AddStoneReversibly_spec {L : Loc → Prop} {s₀ : State} {p ch x y : Nat} {s : State}
    {u : Unit} {s' : State} (h : Chain.AddStoneReversibly p ch x y s = Res.ok u s')
    (hk : Kept L s₀ p s) :
    ∃ mask, mask < 16384 ∧ s'.view p = (s.view p).addStone ch x y mask ∧ Kept L s₀ p s' ∧
      (Remembered s' (Loc.chainEcr p ch) ∨
        s'.mem (Loc.chainEcr p ch) = s.mem (Loc.chainEcr p ch)) := by
  unfold Chain.AddStoneReversibly at h
  rw [assert_bind, ite_fail_eq_ok] at h
  obtain ⟨_, h⟩ := h
  obtain ⟨ring, hring, h⟩ := GetRingMask_bind_ok h
  have hmask : GetMaskOfEdgesAndCorners (XYToCell x y) ||| ring < 16384 :=
    or_lt_16384 _ _ (Nat.lt_trans (GetMaskOfEdgesAndCorners_lt _) (by norm_num)) hring
  refine ⟨GetMaskOfEdgesAndCorners (XYToCell x y) ||| ring, hmask, ?_⟩
  generalize GetMaskOfEdgesAndCorners (XYToCell x y) ||| ring = mask at h
  by_cases hm : mask ≠ 0
  · simp only [hm, ne_eq, not_false_eq_true, if_true, bind_assoc', Remember_bind, readW_bind,
      writeW_bind, assert_bind, ite_fail_eq_ok, writeW_apply, Res.ok.injEq, true_and] at h
    obtain ⟨_, h⟩ := h
    subst h
    refine ⟨?_, ⟨?_, hk.sizeRem⟩, Or.inl ?_⟩
    · apply ChainView.ext'
      all_goals intros
      all_goals try simp [ChainView.addStone, Function.update_apply]
      all_goals split_ifs <;> simp_all
    · exact ((hk.undoes.undoes_remember_write _ _ (by exact trivial)).undoes_remember_write _ _
        (by exact trivial)).undoes_remember_write _ _ (by exact trivial)
    · simp [Remembered]
  · rw [not_not] at hm
    subst hm
    simp only [ne_eq, not_true_eq_false, if_false, bind_assoc', Remember_bind, readW_bind,
      writeW_bind, assert_bind, ite_fail_eq_ok, writeW_apply, Res.ok.injEq, true_and,
      pure_bind'] at h
    obtain ⟨_, h⟩ := h
    subst h
    refine ⟨?_, ⟨?_, hk.sizeRem⟩, Or.inr ?_⟩
    · apply ChainView.ext'
      all_goals intros
      all_goals try simp [ChainView.addStone, Function.update_apply]
      all_goals split_ifs <;> simp_all
    · exact (hk.undoes.undoes_remember_write _ _ (by exact trivial)).undoes_remember_write _ _
        (by exact trivial)
    · simp [Function.update_apply]

theorem AddStoneFast_spec {p ch x y : Nat} {s : State} {u : Unit} {s' : State}
    (h : Chain.AddStoneFast p ch x y s = Res.ok u s') :
    s'.memento = s.memento ∧
      ∃ mask, mask < 16384 ∧ s'.view p = (s.view p).addStone ch x y mask := by
  unfold Chain.AddStoneFast at h
  rw [assert_bind, ite_fail_eq_ok] at h
  obtain ⟨_, h⟩ := h
  obtain ⟨ring, hring, h⟩ := GetRingMask_bind_ok h
  have hmask : GetMaskOfEdgesAndCorners (XYToCell x y) ||| ring < 16384 :=
    or_lt_16384 _ _ (Nat.lt_trans (GetMaskOfEdgesAndCorners_lt _) (by norm_num)) hring
  generalize GetMaskOfEdgesAndCorners (XYToCell x y) ||| ring = mask at h hmask
  simp only [bind_assoc', readW_bind, writeW_bind, assert_bind, ite_fail_eq_ok, writeW_apply,
    Res.ok.injEq, true_and] at h
  obtain ⟨_, h⟩ := h
  subst h
  refine ⟨rfl, mask, hmask, ?_⟩
  apply ChainView.ext'
  all_goals intros
  all_goals try simp [ChainView.addStone, Function.update_apply]
  all_goals split_ifs <;> simp_all

theorem AddStoneToChainReversibly_spec {L : Loc → Prop} {s₀ : State} {p x y ch : Nat}
    {s : State} {u : Unit} {s' : State}
    (h : ChainSet.AddStoneToChainReversibly p x y ch s = Res.ok u s') (hk : Kept L s₀ p s) :
    ∃ mask, mask < 16384 ∧ s'.view p = (s.view p).addStone ch x y mask ∧ Kept L s₀ p s' ∧
      (Remembered s' (Loc.chainEcr p ch) ∨
        s'.mem (Loc.chainEcr p ch) = s.mem (Loc.chainEcr p ch)) := by
  unfold ChainSet.AddStoneToChainReversibly at h
  obtain ⟨h, _, _⟩ := NewestVersion_bind_ok h
  rw [assert_bind, ite_fail_eq_ok] at h
  exact AddStoneReversibly_spec h.2 hk

theorem AddStoneToChainFast_spec {p x y ch : Nat} {s : State} {u : Unit} {s' : State}
    (h : ChainSet.AddStoneToChainFast p x y ch s = Res.ok u s') :
    s'.memento = s.memento ∧
      ∃ mask, mask < 16384 ∧ s'.view p = (s.view p).addStone ch x y mask := by
  unfold ChainSet.AddStoneToChainFast at h
  obtain ⟨h, _, _⟩ := NewestVersion_bind_ok h
  rw [assert_bind, ite_fail_eq_ok] at h
  exact AddStoneFast_spec h.2

theorem getByte_setByte_zero (w v : Nat) (hv : v < 256) : getByte (setByte w 0 v) 0 = v := by
  rw [getByte_setByte_same w 0 v (by norm_num), Nat.mod_eq_of_lt hv]

theorem MergeChainsReversibly_spec {L : Loc → Prop} {s₀ : State} {p x y a b : Nat}
    {s : State} {r : Nat} {s' : State}
    (h : ChainSet.MergeChainsReversibly p x y a b s = Res.ok r s') (hk : Kept L s₀ p s) :
    (a = b ∧ r = b ∧ s' = s) ∨
      (a ≠ b ∧ r = s.size p ∧ s.size p < kChainNumLimit ∧
        ∃ ring, ring < 16384 ∧ s'.view p = (s.view p).merge a b ring ∧ Kept L s₀ p s') := by
  unfold ChainSet.MergeChainsReversibly at h
  obtain ⟨h1, _, ha⟩ := NewestVersion_bind_ok h
  clear h
  rw [assert_bind, ite_fail_eq_ok] at h1
  obtain ⟨_, h2⟩ := h1
  obtain ⟨h3, _, hb⟩ := NewestVersion_bind_ok h2
  clear h2
  rw [assert_bind, ite_fail_eq_ok] at h3
  obtain ⟨_, h4⟩ := h3
  by_cases hab : a = b
  · rw [if_pos hab, pure_apply] at h4
    cases h4
    exact Or.inl ⟨hab, rfl, rfl⟩
  · rw [if_neg hab, getSize_bind, assert_bind, ite_fail_eq_ok, pushChain_bind] at h4
    obtain ⟨hlt, h5⟩ := h4
    have hlt' : s.size p < kChainNumLimit := of_decide_eq_true hlt
    have h256 : s.size p < 256 := by rw [← ChainView.kChainNumLimit_eq]; exact hlt'
    unfold Chain.ComputeUnion at h5
    simp only [bind_assoc', assert_bind, ite_fail_eq_ok, readChainRows_bind,
      writeChainRows_bind, readW_bind, writeW_bind] at h5
    obtain ⟨_, _, _, h6⟩ := h5
    obtain ⟨ring, hring, h7⟩ := GetRingMask_bind_ok h6
    clear h6
    unfold Chain.SetNewerVersionReversibly at h7
    simp only [bind_assoc', assert_bind, ite_fail_eq_ok, writeW_bind, writeByte_bind,
      RememberByte_bind, pure_apply, Res.ok.injEq] at h7
    obtain ⟨_, _, hr, hs⟩ := h7
    subst hr
    subst hs
    have ha' : a ≠ s.size p := Nat.ne_of_lt ha
    have hb' : b ≠ s.size p := Nat.ne_of_lt hb
    have hdead : s₀.size p ≤ s.size p := hk.undoes.size_le p
    refine Or.inr ⟨hab, rfl, hlt', ring, hring, ?_, ?_⟩
    · apply ChainView.ext'
      all_goals intros
      all_goals try simp [ChainView.merge, Function.update_apply, chainRows]
      rename_i ch
      have hba : ¬ b = a := fun h' => hab h'.symm
      simp only [ha', hb', hba, if_false]
      by_cases h1 : ch = b
      · subst h1
        simp only [if_true, hb', if_false, or_true]
        exact getByte_setByte_zero _ _ h256
      · simp only [h1, if_false, or_false]
        by_cases h2 : ch = a
        · subst h2
          simp only [if_true, ha', if_false]
          exact getByte_setByte_zero _ _ h256
        · simp only [h2, if_false]
          by_cases h3 : ch = s.size p
          · simp only [h3, if_true]
            exact getByte_setByte_zero _ _ (by norm_num)
          · simp only [h3, if_false]
    · constructor
      · refine Undoes.undoes_remember_write (Undoes.undoes_remember_write
          (Undoes.undoes_write (Undoes.undoes_write (Undoes.undoes_write
            (Undoes.undoes_writeRows (hk.undoes.undoes_push p hk.sizeRem) p _ _ hdead)
              _ _ (by exact trivial) ?_) _ _ (by exact trivial) ?_) _ _ (by exact trivial) ?_)
                _ _ (by exact trivial)) _ _ (by exact trivial)
        all_goals exact Or.inr (Or.inl (Nat.not_lt.2 hdead))
      · exact hk.sizeRem.sizeRem_push

theorem MergeChainsFast_spec {p x y a b : Nat} {s : State} {r : Nat} {s' : State}
    (h : ChainSet.MergeChainsFast p x y a b s = Res.ok r s') :
    (a = b ∧ r = b ∧ s' = s) ∨
      (a ≠ b ∧ r = s.size p ∧ s.size p < kChainNumLimit ∧ s'.memento = s.memento ∧
        ∃ ring, ring < 16384 ∧ s'.view p = (s.view p).merge a b ring) := by
  unfold ChainSet.MergeChainsFast at h
  obtain ⟨h1, _, ha⟩ := NewestVersion_bind_ok h
  clear h
  rw [assert_bind, ite_fail_eq_ok] at h1
  obtain ⟨_, h2⟩ := h1
  obtain ⟨h3, _, hb⟩ := NewestVersion_bind_ok h2
  clear h2
  rw [assert_bind, ite_fail_eq_ok] at h3
  obtain ⟨_, h4⟩ := h3
  by_cases hab : a = b
  · rw [if_pos hab, pure_apply] at h4
    cases h4
    exact Or.inl ⟨hab, rfl, rfl⟩
  · rw [if_neg hab, getSize_bind, assert_bind, ite_fail_eq_ok, pushChain_bind] at h4
    obtain ⟨hlt, h5⟩ := h4
    have hlt' : s.size p < kChainNumLimit := of_decide_eq_true hlt
    have h256 : s.size p < 256 := by rw [← ChainView.kChainNumLimit_eq]; exact hlt'
    unfold Chain.ComputeUnion at h5
    simp only [bind_assoc', assert_bind, ite_fail_eq_ok, readChainRows_bind,
      writeChainRows_bind, readW_bind, writeW_bind] at h5
    obtain ⟨_, _, _, h6⟩ := h5
    obtain ⟨ring, hring, h7⟩ := GetRingMask_bind_ok h6
    clear h6
    unfold Chain.SetNewerVersionFast at h7
    simp only [bind_assoc', writeW_bind, writeByte_bind, pure_apply, Res.ok.injEq] at h7
    obtain ⟨hr, hs⟩ := h7
    subst hr
    subst hs
    have ha' : a ≠ s.size p := Nat.ne_of_lt ha
    have hb' : b ≠ s.size p := Nat.ne_of_lt hb
    refine Or.inr ⟨hab, rfl, hlt', rfl, ring, hring, ?_⟩
    apply ChainView.ext'
    all_goals intros
    all_goals try simp [ChainView.merge, Function.update_apply, chainRows]
    rename_i ch
    have hba : ¬ b = a := fun h' => hab h'.symm
    simp only [ha', hb', hba, if_false]
    by_cases h1 : ch = b
    · subst h1
      simp only [if_true, hb', if_false, or_true]
      exact getByte_setByte_zero _ _ h256
    · simp only [h1, if_false, or_false]
      by_cases h2 : ch = a
      · subst h2
        simp only [if_true, ha', if_false]
        exact getByte_setByte_zero _ _ h256
      · simp only [h2, if_false]
        by_cases h3 : ch = s.size p
        · simp only [h3, if_true]
          exact getByte_setByte_zero _ _ (by norm_num)
        · simp only [h3, if_false]

theorem MakeOneStoneChain_view {p x y : Nat} {s : State} {r : Nat} {s' : State}
    (h : ChainSet.MakeOneStoneChain p x y s = Res.ok r s') :
    r = s.size p ∧ s.size p < kChainNumLimit ∧ s'.view p = (s.view p).single x y ∧
      ∀ L s₀, Kept L s₀ p s → Kept L s₀ p s' := by
  unfold ChainSet.MakeOneStoneChain Chain.InitWithStone at h
  simp only [bind_assoc', getSize_bind, assert_bind, ite_fail_eq_ok, pushChain_bind,
    writeChainRows_bind, writeW_bind, writeByte_bind, pure_apply, Res.ok.injEq] at h
  obtain ⟨hlt, _, hr, hs⟩ := h
  subst hr
  subst hs
  refine ⟨rfl, of_decide_eq_true hlt, ?_, ?_⟩
  · apply ChainView.ext'
    all_goals intros
    all_goals try simp [ChainView.single, Function.update_apply]
    rename_i ch
    by_cases h3 : ch = s.size p
    · simp only [h3, if_true]
      exact getByte_setByte_zero _ _ (by norm_num)
    · simp only [h3, if_false]
  · intro L s₀ hk
    have hdead : s₀.size p ≤ s.size p := hk.undoes.size_le p
    constructor
    · refine Undoes.undoes_write (Undoes.undoes_write (Undoes.undoes_write
        (Undoes.undoes_writeRows (hk.undoes.undoes_push p hk.sizeRem) p _ _ hdead)
          _ _ (by exact trivial) ?_) _ _ (by exact trivial) ?_) _ _ (by exact trivial) ?_
      all_goals exact Or.inr (Or.inl (Nat.not_lt.2 hdead))
    · exact hk.sizeRem.sizeRem_push

theorem IsVictory_spec {p ch : Nat} {s : State} {r : Nat} {s' : State}
    (h : ChainSet.IsVictory p ch s = Res.ok r s') :
    s' = s.write (Loc.chainEcr p ((s.view p).newest ch))
        (s.mem (Loc.chainEcr p ((s.view p).newest ch)) &&& (4294967295 ^^^ (3 <<< 12))) ∧
      s'.view p = (s.view p).clearRing ((s.view p).newest ch) := by
  unfold ChainSet.IsVictory at h
  obtain ⟨h1, _, _⟩ := NewestVersion_bind_ok h
  clear h
  unfold Chain.IsVictory at h1
  simp only [bind_assoc', readW_bind, writeW_bind, pure_apply, Res.ok.injEq] at h1
  obtain ⟨_, hs⟩ := h1
  subst hs
  refine ⟨rfl, ?_⟩
  apply ChainView.ext'
  all_goals intros
  all_goals try simp [ChainView.clearRing, Function.update_apply]
  split_ifs with h1
  · rw [h1]
  · rfl

theorem chain_for_cell_bind {β : Type} (p cell : Nat) (f : Nat → M β) (s : State) :
    (PlayerPosition.chain_for_cell p cell >>= f) s =
      if cell < kNumCellsWithSentinels then f (s.cfc p cell) s
      else Res.fail Err.outOfBounds := by
  unfold PlayerPosition.chain_for_cell
  rw [bind_assoc', inBounds_bind]
  by_cases h : cell < kNumCellsWithSentinels
  · rw [if_pos h, if_pos (decide_eq_true h)]; rfl
  · rw [if_neg h, if_neg (by simpa using h)]

theorem cfc_write (s : State) (p cell v c : Nat) :
    (s.write (Loc.chainsForCells p (cell / 4))
        (setByte (s.mem (Loc.chainsForCells p (cell / 4))) (cell % 4) v)).cfc p c =
      if c = cell then v % 256 else s.cfc p c := by
  unfold State.cfc
  rw [mem_write]
  by_cases hw : c / 4 = cell / 4
  · rw [hw, Function.update_same]
    by_cases hc : c = cell
    · rw [if_pos hc, hc, getByte_setByte_same _ _ _ (Nat.mod_lt _ (by norm_num))]
    · rw [if_neg hc, getByte_setByte_ne _ _ _ _ (Nat.mod_lt _ (by norm_num))
        (Nat.mod_lt _ (by norm_num)) (by omega)]
  · have hc : c ≠ cell := fun h => hw (by rw [h])
    rw [if_neg hc, Function.update_noteq (by
      intro h; injection h with _ h2; exact hw h2)]

/-! ### PlayerPosition::MakeMoveFast and MakeMoveReversibly keep the invariant -/

theorem neighborLoopFast_spec (p cell : Nat) :
    ∀ n j prev s r s',
      PlayerPosition.neighborLoopFast p cell (CellToX cell) (CellToY cell) n j prev s =
        Res.ok r s' →
      (s.view p).LoopInv cell prev →
      (s'.view p).LoopInv cell r ∧ s'.memento = s.memento := by
  intro n
  induction n with
  | zero =>
    intro j prev s r s' h hinv
    cases h
    exact ⟨hinv, rfl⟩
  | succ n ih =>
    intro j prev s r s' h hinv
    unfold PlayerPosition.neighborLoopFast at h
    rw [chain_for_cell_bind, ite_fail_eq_ok] at h
    obtain ⟨_, h⟩ := h
    by_cases hc0 : s.cfc p (NthNeighbor cell j) = 0
    · rw [if_pos hc0] at h
      exact ih _ _ _ _ _ h hinv
    · rw [if_neg hc0] at h
      have hcur : (s.view p).IsNewest ((s.view p).newest (s.cfc p (NthNeighbor cell j))) :=
        ChainView.isNewest_newest hinv.newer_lt (Nat.pos_of_ne_zero hc0) (hinv.cfc_lt _)
      by_cases hp : prev ≠ 0
      · rw [if_pos hp] at h
        have hprev : (s.view p).IsNewest prev := by
          rcases hinv.prev_newest with h' | h'
          · exact absurd h' hp
          · exact h'
        obtain ⟨h1, _, _⟩ := NewestVersion_bind_ok h
        clear h
        rw [ChainView.newest_of_isNewest hprev] at h1
        obtain ⟨h2, _, _⟩ := NewestVersion_bind_ok h1
        clear h1
        obtain ⟨_, s₁, h3, h4⟩ := bind_ok h2
        clear h2
        have hg := MergeChainEdgesFast_steps GraphStep.graphStep_closed _ _ _ _ _ _ h3
        have hm : s₁.memento = s.memento :=
          MergeChainEdgesFast_steps Unrecorded.unrecorded_closed _ _ _ _ _ _ h3
        obtain ⟨r', s₂, h5, h6⟩ := bind_ok h4
        clear h4
        rcases MergeChainsFast_spec h5 with
          ⟨hab, hr, hs⟩ | ⟨hab, hr, hlt, hm2, ring, hring, hv⟩
        · obtain ⟨ih1, ih2⟩ := ih _ _ _ _ _ h6
            (by rw [hs, hg.graphStep_view, hr, ← hab]; exact hinv)
          exact ⟨ih1, by rw [ih2, hs, hm]⟩
        · have : s₁.size p = (s.view p).size := by rw [hg.size_eq]; rfl
          obtain ⟨ih1, ih2⟩ := ih _ _ _ _ _ h6 (by
            rw [hv, hg.graphStep_view, hr, this]
            exact hinv.loop_merge hprev hcur hab (by rw [← this]; exact hlt) ring hring)
          exact ⟨ih1, by rw [ih2, hm2, hm]⟩
      · rw [if_neg hp] at h
        rw [not_not] at hp
        subst hp
        obtain ⟨h1, _, _⟩ := NewestVersion_bind_ok h
        clear h
        obtain ⟨_, s₁, h3, h4⟩ := bind_ok h1
        clear h1
        obtain ⟨hm, mask, hmask, hv⟩ := AddStoneToChainFast_spec h3
        obtain ⟨ih1, ih2⟩ := ih _ _ _ _ _ h4 (by
          rw [hv]
          exact hinv.loop_addStone hcur mask hmask)
        exact ⟨ih1, by rw [ih2, hm]⟩

theorem CellIsEmpty_bind {β : Type} (p cell : Nat) (f : Bool → M β) (s : State) :
    (PlayerPosition.CellIsEmpty p cell >>= f) s =
      if cell < kNumCellsWithSentinels then f (decide (s.cfc p cell = 0)) s
      else Res.fail Err.outOfBounds := by
  unfold PlayerPosition.CellIsEmpty
  rw [bind_assoc', chain_for_cell_bind]; rfl

theorem setModifiedChain_bind {β : Type} (p ch : Nat) (f : Unit → M β) (s : State) :
    (PlayerPosition.setModifiedChain p ch >>= f) s = f () (s.setModifiedChain p ch) := rfl

theorem view_setCfc (t : State) (p cell q : Nat) (hq : q < 256) :
    (t.write (Loc.chainsForCells p (cell / 4))
        (setByte (t.mem (Loc.chainsForCells p (cell / 4))) (cell % 4) q)).view p =
      (t.view p).setCfc cell q := by
  apply ChainView.ext'
  · rfl
  · intro ch
    simp [ChainView.setCfc, Function.update_apply]
  · intro c
    show State.cfc _ p c = if c = cell then q else t.cfc p c
    rw [cfc_write, Nat.mod_eq_of_lt hq]
  · intro ch y
    simp [ChainView.setCfc, Function.update_apply]
  · intro ch
    simp [ChainView.setCfc, Function.update_apply]

theorem view_write_stoneRow (t : State) (p q y v : Nat) :
    (t.write (Loc.stoneRow q y) v).view p = t.view p := by
  apply ChainView.ext'
  all_goals intros
  all_goals simp [Function.update_apply]

theorem MakeMoveFast_tail {p cell q : Nat} {t : State} {r : Nat} {s' : State}
    (hinv : (t.view p).LoopInv cell q) (hq : (t.view p).IsNewest q)
    (h : (do
        writeByte (Loc.chainsForCells p) cell q
        let ch ← PlayerPosition.chain_for_cell p cell
        PlayerPosition.setModifiedChain p ch
        let row ← readW (Loc.stoneRow p (CellToY cell))
        writeW (Loc.stoneRow p (CellToY cell)) (setBit row (CellToX cell))
        let ch ← PlayerPosition.chain_for_cell p cell
        ChainSet.IsVictory p ch : M Nat) t = Res.ok r s') :
    (s'.view p).Inv ∧ s'.memento = t.memento := by
  have hq256 : q < 256 := by
    have h1 := hq.2.1
    have h2 := hinv.size_le
    rw [ChainView.kChainNumLimit_eq] at h2
    omega
  rw [writeByte_bind] at h
  have hv1 := view_setCfc t p cell q hq256
  have hm1 : (t.write (Loc.chainsForCells p (cell / 4))
    (setByte (t.mem (Loc.chainsForCells p (cell / 4))) (cell % 4) q)).memento = t.memento := rfl
  generalize t.write (Loc.chainsForCells p (cell / 4))
    (setByte (t.mem (Loc.chainsForCells p (cell / 4))) (cell % 4) q) = t₁ at h hv1 hm1
  have hc1 : t₁.cfc p cell = q := by
    show (t₁.view p).cfc cell = q
    rw [hv1]
    show (if cell = cell then q else _) = q
    rw [if_pos rfl]
  rw [chain_for_cell_bind, ite_fail_eq_ok, hc1, setModifiedChain_bind, readW_bind,
    writeW_bind] at h
  obtain ⟨_, h⟩ := h
  have hv2 : ((t₁.setModifiedChain p q).write (Loc.stoneRow p (CellToY cell))
      (setBit ((t₁.setModifiedChain p q).mem (Loc.stoneRow p (CellToY cell)))
        (CellToX cell))).view p = (t.view p).setCfc cell q := by
    rw [view_write_stoneRow]; exact hv1
  have hm2 : ((t₁.setModifiedChain p q).write (Loc.stoneRow p (CellToY cell))
      (setBit ((t₁.setModifiedChain p q).mem (Loc.stoneRow p (CellToY cell)))
        (CellToX cell))).memento = t.memento := hm1
  generalize (t₁.setModifiedChain p q).write (Loc.stoneRow p (CellToY cell))
      (setBit ((t₁.setModifiedChain p q).mem (Loc.stoneRow p (CellToY cell)))
        (CellToX cell)) = t₂ at h hv2 hm2
  have hc2 : t₂.cfc p cell = q := by
    show (t₂.view p).cfc cell = q
    rw [hv2]
    show (if cell = cell then q else _) = q
    rw [if_pos rfl]
  rw [chain_for_cell_bind, ite_fail_eq_ok, hc2] at h
  obtain ⟨hs, hv⟩ := IsVictory_spec h.2
  constructor
  · rw [hv, hv2]
    have hn : ((t.view p).setCfc cell q).newest q = q := ChainView.newest_of_isNewest hq
    rw [hn]
    exact hinv.loop_finish hq
  · rw [hs]; exact hm2

theorem MakeMoveFast_spec {p cell : Nat} {s : State} {r : Nat} {s' : State}
    (h : PlayerPosition.MakeMoveFast p cell s = Res.ok r s') (hinv : (s.view p).Inv) :
    (s'.view p).Inv ∧ s'.memento = s.memento := by
  unfold PlayerPosition.MakeMoveFast at h
  simp only [assert_bind, ite_fail_eq_ok, CellIsEmpty_bind, decide_eq_true_eq] at h
  obtain ⟨_, hlt, hempty, h1⟩ := h
  obtain ⟨prev, s₁, h2, h3⟩ := bind_ok h1
  clear h1
  obtain ⟨hloop, hm⟩ := neighborLoopFast_spec p cell _ _ _ _ _ _ h2
    (ChainView.LoopInv.loop_start hinv cell hempty)
  rw [ite_bind'] at h3
  by_cases hp : prev ≠ 0
  · rw [if_pos hp] at h3
    have hprev : (s₁.view p).IsNewest prev := by
      rcases hloop.prev_newest with h' | h'
      · exact absurd h' hp
      · exact h'
    obtain ⟨h1, h2⟩ := MakeMoveFast_tail hloop hprev h3
    exact ⟨h1, h2.trans hm⟩
  · rw [if_neg hp, bind_assoc'] at h3
    rw [not_not] at hp
    subst hp
    obtain ⟨q, s₂, h4, h5⟩ := bind_ok h3
    clear h3
    obtain ⟨hq, hlt', hv, _⟩ := MakeOneStoneChain_view h4
    obtain ⟨hm', _, _⟩ := MakeOneStoneChain_spec _ _ _ _ _ _ h4
    subst hq
    have hl := hloop.loop_single hlt'
    rw [← hv] at hl
    have hnew : (s₂.view p).IsNewest (s₁.size p) := by
      rcases hl.prev_newest with h' | h'
      · have := hloop.size_pos
        have h'' : s₁.size p = 0 := h'
        have : 1 ≤ s₁.size p := this
        omega
      · exact h'
    obtain ⟨h1, h2⟩ := MakeMoveFast_tail hl hnew h5
    exact ⟨h1, by rw [h2, hm', hm]⟩

namespace EcrSafe

variable {s₀ s : State} {p q : Nat}

theorem ecrSafe_remember (h : EcrSafe s₀ s p q) (loc : Loc) : EcrSafe s₀ (s.remember loc) p q := by
  rcases h with h | h | h | h
  · exact Or.inl h
  · exact Or.inr (Or.inl h)
  · refine Or.inr (Or.inr (Or.inl ?_))
    unfold Remembered at *
    rw [words_remember, List.map_append]
    exact List.mem_append_left _ h
  · exact Or.inr (Or.inr (Or.inr h))

theorem ecrSafe_write (h : EcrSafe s₀ s p q) (loc : Loc) (v : Nat) (hne : loc ≠ Loc.chainEcr p q) :
    EcrSafe s₀ (s.write loc v) p q := by
  rcases h with h | h | h | h
  · exact Or.inl h
  · exact Or.inr (Or.inl h)
  · exact Or.inr (Or.inr (Or.inl h))
  · refine Or.inr (Or.inr (Or.inr ?_))
    rw [mem_write, Function.update_noteq (Ne.symm hne)]
    exact h

theorem ecrSafe_setModifiedChain (h : EcrSafe s₀ s p q) (p' ch : Nat) :
    EcrSafe s₀ (s.setModifiedChain p' ch) p q := h

theorem ecrSafe_graphStep (h : EcrSafe s₀ s p q) {s' : State} (hg : GraphStep s s') :
    EcrSafe s₀ s' p q := by
  rcases h with h | h | h | h
  · exact Or.inl h
  · exact Or.inr (Or.inl h)
  · exact Or.inr (Or.inr (Or.inl (hg.graphStep_remembered h)))
  · refine Or.inr (Or.inr (Or.inr ?_))
    rw [hg.mem_eq _ (fun _ _ hh => by cases hh)]
    exact h

/-- The write of `Chain::IsVictory` is one that `UndoAll` can cope with. -/
theorem ecrSafe_safe (h : EcrSafe s₀ s p q) (hq : q ≠ 0) (L : Loc → Prop) :
    ¬ L (Loc.chainEcr p q) ∨ ¬ Live s₀ (Loc.chainEcr p q) ∨ Remembered s (Loc.chainEcr p q) ∨
      s.mem (Loc.chainEcr p q) &&& (4294967295 ^^^ (3 <<< 12)) = s.mem (Loc.chainEcr p q) := by
  rcases h with h | h | h | h
  · exact absurd h hq
  · exact Or.inr (Or.inl (Nat.not_lt.2 h))
  · exact Or.inr (Or.inr (Or.inl h))
  · exact Or.inr (Or.inr (Or.inr (and_clear_ring_eq _ h)))

end EcrSafe

/-- `RingDB::MergeChainEdgesReversibly` keeps what `UndoAll` restores
outside the arenas. -/
theorem MergeChainEdgesReversibly_undoes_notArena {s₀ : State} (p c0 c1 : Nat) (s s' : State)
    (h : RingDB.MergeChainEdgesReversibly p c0 c1 s = Res.ok () s')
    (hu : Undoes NotArena s₀ s) : Undoes NotArena s₀ s' :=
  (MergeChainEdgesReversibly_steps GraphStep.graphStep_closed
    (fun s _ _ => GraphStep.graphStep_remember s _) _ _ _ _ _ _ h).graphStep_undoes hu

theorem neighborLoopReversibly_spec {L : Loc → Prop} (p cell : Nat) (s₀ : State)
    (hM : ∀ c0 c1 s s', RingDB.MergeChainEdgesReversibly p c0 c1 s = Res.ok () s' →
      Undoes L s₀ s → Undoes L s₀ s') :
    ∀ n j prev s r s',
      PlayerPosition.neighborLoopReversibly p cell (CellToX cell) (CellToY cell) n j prev s =
        Res.ok r s' →
      (s.view p).LoopInv cell prev → Kept L s₀ p s → EcrSafe s₀ s p prev →
      (s'.view p).LoopInv cell r ∧ Kept L s₀ p s' ∧ EcrSafe s₀ s' p r := by
  intro n
  induction n with
  | zero =>
    intro j prev s r s' h hinv hk he
    cases h
    exact ⟨hinv, hk, he⟩
  | succ n ih =>
    intro j prev s r s' h hinv hk he
    unfold PlayerPosition.neighborLoopReversibly at h
    rw [chain_for_cell_bind, ite_fail_eq_ok] at h
    obtain ⟨_, h⟩ := h
    by_cases hc0 : s.cfc p (NthNeighbor cell j) = 0
    · rw [if_pos hc0] at h
      exact ih _ _ _ _ _ h hinv hk he
    · rw [if_neg hc0] at h
      have hcur : (s.view p).IsNewest ((s.view p).newest (s.cfc p (NthNeighbor cell j))) :=
        ChainView.isNewest_newest hinv.newer_lt (Nat.pos_of_ne_zero hc0) (hinv.cfc_lt _)
      by_cases hp : prev ≠ 0
      · rw [if_pos hp] at h
        have hprev : (s.view p).IsNewest prev := by
          rcases hinv.prev_newest with h' | h'
          · exact absurd h' hp
          · exact h'
        obtain ⟨h1, _, _⟩ := NewestVersion_bind_ok h
        clear h
        rw [ChainView.newest_of_isNewest hprev] at h1
        obtain ⟨h2, _, _⟩ := NewestVersion_bind_ok h1
        clear h1
        obtain ⟨_, s₁, h3, h4⟩ := bind_ok h2
        clear h2
        have hg := MergeChainEdgesReversibly_steps GraphStep.graphStep_closed
          (fun s _ _ => GraphStep.graphStep_remember s _) _ _ _ _ _ _ h3
        obtain ⟨r', s₂, h5, h6⟩ := bind_ok h4
        clear h4
        have hk1 : Kept L s₀ p s₁ :=
          ⟨hM _ _ _ _ h3 hk.undoes, hg.graphStep_sizeRemembered hk.sizeRem⟩
        rcases MergeChainsReversibly_spec h5 hk1 with
          ⟨hab, hr, hs⟩ | ⟨hab, hr, hlt, ring, hring, hv, hk2⟩
        · refine ih _ _ _ _ _ h6 ?_ ?_ ?_
          · rw [hs, hg.graphStep_view, hr, ← hab]; exact hinv
          · rw [hs]; exact hk1
          · rw [hs, hr, ← hab]; exact he.ecrSafe_graphStep hg
        · refine ih _ _ _ _ _ h6 ?_ hk2 ?_
          · rw [hv, hg.graphStep_view, hr]
            have : s₁.size p = (s.view p).size := by rw [hg.size_eq]; rfl
            rw [this]
            exact hinv.loop_merge hprev hcur hab (by rw [← this]; exact hlt) ring hring
          · rw [hr]
            exact Or.inr (Or.inl (hk1.undoes.size_le p))
      · rw [if_neg hp] at h
        rw [not_not] at hp
        subst hp
        obtain ⟨h1, _, _⟩ := NewestVersion_bind_ok h
        clear h
        obtain ⟨_, s₁, h3, h4⟩ := bind_ok h1
        clear h1
        obtain ⟨mask, hmask, hv, hk1, hecr⟩ := AddStoneToChainReversibly_spec h3 hk
        refine ih _ _ _ _ _ h4 ?_ hk1 ?_
        · rw [hv]
          exact hinv.loop_addStone hcur mask hmask
        · rcases hecr with h' | h'
          · exact Or.inr (Or.inr (Or.inl h'))
          · refine Or.inr (Or.inr (Or.inr ?_))
            rw [h']
            exact hinv.ecr_lt _ hcur (Nat.ne_of_gt hcur.1)

theorem view_remember (s : State) (loc : Loc) (p : Nat) : (s.remember loc).view p = s.view p :=
  rfl

theorem view_setModifiedChain (s : State) (p' ch p : Nat) :
    (s.setModifiedChain p' ch).view p = s.view p := rfl

theorem MakeMoveReversibly_tail {L : Loc → Prop} {p cell q : Nat} {s₀ t : State} {r : Nat}
    {s' : State}
    (hinv : (t.view p).LoopInv cell q) (hq : (t.view p).IsNewest q)
    (hu : Undoes L s₀ t) (he : EcrSafe s₀ t p q)
    (hrem : Remembered t (Loc.chainsForCells p (cell / 4)))
    (h : (do
        writeByte (Loc.chainsForCells p) cell q
        let ch ← PlayerPosition.chain_for_cell p cell
        PlayerPosition.setModifiedChain p ch
        Memento.Remember (Loc.stoneRow p (CellToY cell))
        let row ← readW (Loc.stoneRow p (CellToY cell))
        writeW (Loc.stoneRow p (CellToY cell)) (setBit row (CellToX cell))
        let ch ← PlayerPosition.chain_for_cell p cell
        ChainSet.IsVictory p ch : M Nat) t = Res.ok r s') :
    (s'.view p).Inv ∧ Undoes L s₀ s' := by
  have hq256 : q < 256 := by
    have h1 := hq.2.1
    have h2 := hinv.size_le
    rw [ChainView.kChainNumLimit_eq] at h2
    omega
  rw [writeByte_bind] at h
  have hv1 := view_setCfc t p cell q hq256
  have hu1 := hu.undoes_write (Loc.chainsForCells p (cell / 4))
    (setByte (t.mem (Loc.chainsForCells p (cell / 4))) (cell % 4) q) trivial
    (Or.inr (Or.inr (Or.inl hrem)))
  have he1 := he.ecrSafe_write (Loc.chainsForCells p (cell / 4))
    (setByte (t.mem (Loc.chainsForCells p (cell / 4))) (cell % 4) q) (by intro hh; cases hh)
  generalize t.write (Loc.chainsForCells p (cell / 4))
    (setByte (t.mem (Loc.chainsForCells p (cell / 4))) (cell % 4) q) = t₁ at h hv1 hu1 he1
  have hc1 : t₁.cfc p cell = q := by
    show (t₁.view p).cfc cell = q
    rw [hv1]
    show (if cell = cell then q else _) = q
    rw [if_pos rfl]
  rw [chain_for_cell_bind, ite_fail_eq_ok, hc1, setModifiedChain_bind, Remember_bind,
    readW_bind, writeW_bind] at h
  obtain ⟨_, h⟩ := h
  have hv2 : ((((t₁.setModifiedChain p q).remember (Loc.stoneRow p (CellToY cell)))).write
      (Loc.stoneRow p (CellToY cell))
      (setBit (((t₁.setModifiedChain p q).remember (Loc.stoneRow p (CellToY cell))).mem
        (Loc.stoneRow p (CellToY cell))) (CellToX cell))).view p =
        (t.view p).setCfc cell q := by
    rw [view_write_stoneRow]; exact hv1
  have hu2 := (hu1.undoes_setModifiedChain p q).undoes_remember_write
      (Loc.stoneRow p (CellToY cell))
      (setBit (((t₁.setModifiedChain p q).remember (Loc.stoneRow p (CellToY cell))).mem
        (Loc.stoneRow p (CellToY cell))) (CellToX cell)) trivial
  have he2 := (((he1.ecrSafe_setModifiedChain p q).ecrSafe_remember
      (Loc.stoneRow p (CellToY cell))).ecrSafe_write
      (Loc.stoneRow p (CellToY cell))
      (setBit (((t₁.setModifiedChain p q).remember (Loc.stoneRow p (CellToY cell))).mem
        (Loc.stoneRow p (CellToY cell))) (CellToX cell)) (by intro hh; cases hh))
  generalize (((t₁.setModifiedChain p q).remember (Loc.stoneRow p (CellToY cell)))).write
      (Loc.stoneRow p (CellToY cell))
      (setBit (((t₁.setModifiedChain p q).remember (Loc.stoneRow p (CellToY cell))).mem
        (Loc.stoneRow p (CellToY cell))) (CellToX cell)) = t₂ at h hv2 hu2 he2
  have hc2 : t₂.cfc p cell = q := by
    show (t₂.view p).cfc cell = q
    rw [hv2]
    show (if cell = cell then q else _) = q
    rw [if_pos rfl]
  rw [chain_for_cell_bind, ite_fail_eq_ok, hc2] at h
  obtain ⟨hs, hv⟩ := IsVictory_spec h.2
  have hn : ((t.view p).setCfc cell q).newest q = q := ChainView.newest_of_isNewest hq
  rw [hv2, hn] at hv hs
  constructor
  · rw [hv]
    exact hinv.loop_finish hq
  · rw [hs]
    refine hu2.undoes_write _ _ (by exact trivial) ?_
    rcases he2.ecrSafe_safe (Nat.ne_of_gt hq.1) L with h' | h' | h' | h'
    · exact Or.inl h'
    · exact Or.inr (Or.inl h')
    · exact Or.inr (Or.inr (Or.inl h'))
    · exact Or.inr (Or.inr (Or.inr h'))

theorem MakeMoveReversibly_spec {L : Loc → Prop} {p cell : Nat} {s₀ s : State} {r : Nat}
    {s' : State}
    (hM : ∀ c0 c1 s s', RingDB.MergeChainEdgesReversibly p c0 c1 s = Res.ok () s' →
      Undoes L s₀ s → Undoes L s₀ s')
    (h : PlayerPosition.MakeMoveReversibly p cell s = Res.ok r s') (hinv : (s.view p).Inv)
    (hu : Undoes L s₀ s) : (s'.view p).Inv ∧ Undoes L s₀ s' := by
  unfold PlayerPosition.MakeMoveReversibly at h
  simp only [assert_bind, ite_fail_eq_ok, CellIsEmpty_bind, decide_eq_true_eq,
    RememberSize_bind] at h
  obtain ⟨_, hlt, hempty, h1⟩ := h
  obtain ⟨prev, s₁, h2, h3⟩ := bind_ok h1
  clear h1
  have hk : Kept L s₀ p (s.rememberSize p) :=
    ⟨hu.undoes_rememberSize p, SizeRemembered.sizeRem_of_rememberSize s p⟩
  obtain ⟨hloop, hk1, he1⟩ := neighborLoopReversibly_spec p cell s₀ hM _ _ _ _ _ _ h2
    (ChainView.LoopInv.loop_start hinv cell hempty) hk (Or.inl rfl)
  rw [RememberByte_bind, ite_bind'] at h3
  have hrem : Remembered (s₁.remember (Loc.chainsForCells p (cell / 4)))
      (Loc.chainsForCells p (cell / 4)) := by
    unfold Remembered
    rw [words_remember]
    simp
  by_cases hp : prev ≠ 0
  · rw [if_pos hp] at h3
    have hprev : (s₁.view p).IsNewest prev := by
      rcases hloop.prev_newest with h' | h'
      · exact absurd h' hp
      · exact h'
    exact @MakeMoveReversibly_tail L p cell prev s₀
      (s₁.remember (Loc.chainsForCells p (cell / 4))) r s' hloop hprev
      (hk1.undoes.undoes_remember _) (he1.ecrSafe_remember _) hrem h3
  · rw [if_neg hp, bind_assoc'] at h3
    rw [not_not] at hp
    subst hp
    obtain ⟨q, s₂, h4, h5⟩ := bind_ok h3
    clear h3
    obtain ⟨hq, hlt', hv, hkept⟩ := MakeOneStoneChain_view h4
    obtain ⟨hm, _, _⟩ := MakeOneStoneChain_spec _ _ _ _ _ _ h4
    subst hq
    have hl := hloop.loop_single hlt'
    have hk2 := hkept L s₀ ⟨hk1.undoes.undoes_remember _, hk1.sizeRem.sizeRem_remember _⟩
    rw [view_remember] at hv
    rw [← hv] at hl
    refine MakeMoveReversibly_tail hl ?_ hk2.undoes ?_ ?_ h5
    · rcases hl.prev_newest with h' | h'
      · have := hloop.size_pos
        have h'' : s₁.size p = 0 := h'
        have : 1 ≤ s₁.size p := this
        omega
      · exact h'
    · exact Or.inr (Or.inl (hk1.undoes.size_le p))
    · unfold Remembered
      rw [hm]
      exact hrem

/-! ### The invariant holds in every reachable state -/

theorem Inv_init (p : Nat) : (State.init.view p).Inv where
  size_pos := Nat.le_refl _
  size_le := by
    show 1 ≤ kChainNumLimit
    decide
  newer_lt := by
    intro ch h0 h1
    have : ch < 1 := h1
    omega
  cfc_lt := by
    intro c
    show getByte 0 (c % 4) < 1
    unfold getByte
    simp
  mask_iff := by
    rintro ch ⟨h0, h1, _⟩
    have : ch < 1 := h1
    omega
  ecr_lt := by
    rintro ch ⟨h0, h1, _⟩
    have : ch < 1 := h1
    omega

/-- After `UndoAll` the chains are those of the state that is undone to. -/
theorem Undoes.undoes_agree {s₀ s : State} (h : Undoes NotArena s₀ s) (p : Nat) :
    (s₀.view p).Agree (s.undoAll.view p) where
  size_eq := h.sizes p
  cfc_eq := by
    intro c
    show getByte (undoWords s.memento.words_ s.mem _) _ = getByte (s₀.mem _) _
    rw [h.words (Loc.chainsForCells p (c / 4)) (fun _ _ hh => by cases hh) trivial]
  newer_eq := by
    intro ch hch
    show getByte (undoWords s.memento.words_ s.mem _) _ = getByte (s₀.mem _) _
    rw [h.words (Loc.chainNewer p ch) (fun _ _ hh => by cases hh) hch]
  rows_eq := by
    intro ch hch y
    exact h.words _ (fun _ _ hh => by cases hh) hch
  ecr_eq := by
    intro ch hch
    exact h.words _ (fun _ _ hh => by cases hh) hch

/-- In every reachable state the chains of the player satisfy the invariant,
and the `Memento` undoes to a state whose chains satisfy it. -/
theorem PlayerReach.inv {p : Nat} {s : State} (h : PlayerReach p s) :
    (s.view p).Inv ∧ ∃ s₀, (s₀.view p).Inv ∧ Undoes NotArena s₀ s := by
  induction h with
  | init => exact ⟨Inv_init p, State.init, Inv_init p, Undoes.undoes_refl _ _ rfl⟩
  | @fast s s' cell r _ hm hmove ih =>
    obtain ⟨h1, h2⟩ := MakeMoveFast_spec hmove ih.1
    exact ⟨h1, s', h1, Undoes.undoes_refl _ _ (h2.trans hm)⟩
  | @reversibly s s' cell r _ hmove ih =>
    obtain ⟨hinv, s₀, h0, hu⟩ := ih
    obtain ⟨h1, h2⟩ := MakeMoveReversibly_spec
      (MergeChainEdgesReversibly_undoes_notArena p) hmove hinv hu
    exact ⟨h1, s₀, h0, h2⟩
  | @undo s _ ih =>
    obtain ⟨_, s₀, h0, hu⟩ := ih
    have h1 := h0.inv_agree (hu.undoes_agree p)
    exact ⟨h1, s.undoAll, h1, Undoes.undoes_refl _ _ rfl⟩
  | @forget s _ ih =>
    have h1 : (State.view { s with memento := Memento.empty } p).Inv := ih.1
    exact ⟨h1, { s with memento := Memento.empty }, h1, Undoes.undoes_refl _ _ rfl⟩

theorem NewestChainForCell_apply (p c : Nat) (s : State) :
    PlayerPosition.NewestChainForCell p c s =
      if c < kNumCellsWithSentinels then ChainSet.NewestVersion p (s.cfc p c) s
      else Res.fail Err.outOfBounds := by
  unfold PlayerPosition.NewestChainForCell
  rw [chain_for_cell_bind]

theorem CellIsEmpty_apply (p c : Nat) (s : State) :
    PlayerPosition.CellIsEmpty p c s =
      if c < kNumCellsWithSentinels then Res.ok (decide (s.cfc p c = 0)) s
      else Res.fail Err.outOfBounds := by
  rw [← bind_pure' (PlayerPosition.CellIsEmpty p c), CellIsEmpty_bind]; rfl

/-- The chains of a state with the invariant partition the occupied cells. -/
theorem ChainView.Inv.partition {p : Nat} {s : State} (h : (s.view p).Inv) (c : Nat)
    (hc : c < kNumCellsWithSentinels) :
    (PlayerPosition.CellIsEmpty p c s = Res.ok false s →
      ∃ n, PlayerPosition.NewestChainForCell p c s = Res.ok n s ∧ (s.view p).IsNewest n ∧
        (s.view p).inMask n c = true ∧
        ∀ ch, (s.view p).IsNewest ch → (s.view p).inMask ch c = true → ch = n) ∧
    (PlayerPosition.CellIsEmpty p c s = Res.ok true s →
      ∀ ch, (s.view p).IsNewest ch → (s.view p).inMask ch c = false) := by
  rw [CellIsEmpty_apply, if_pos hc]
  constructor
  · intro he
    simp only [Res.ok.injEq, decide_eq_false_iff_not, and_true] at he
    have h0 : 0 < s.cfc p c := Nat.pos_of_ne_zero he
    have h1 : s.cfc p c < s.size p := h.cfc_lt c
    have hn := ChainView.isNewest_newest h.newer_lt h0 h1
    refine ⟨(s.view p).newest (s.cfc p c), ?_, hn, ?_, ?_⟩
    · rw [NewestChainForCell_apply, if_pos hc]
      exact NewestVersion_ok h.newer_lt h0 h1
    · exact (h.mask_iff _ hn c hc).2 ⟨he, rfl⟩
    · intro ch hch hm
      exact ((h.mask_iff ch hch c hc).1 hm).2.symm
  · intro he ch hch
    simp only [Res.ok.injEq, decide_eq_true_eq, and_true] at he
    cases hm : (s.view p).inMask ch c
    · rfl
    · exact absurd he ((h.mask_iff ch hch c hc).1 hm).1

theorem Res.eq_ok_of_isOk {α : Type} (r : Res α) (d : State) (h : r.isOk = true) :
    ∃ a, r = Res.ok a (r.state d) := by
  cases r with
  | ok a s => exact ⟨a, rfl⟩
  | fail e => cases h

theorem moveState₁_reach_any : PlayerReachAny 0 moveState₁ := by
  obtain ⟨r, h⟩ := Res.eq_ok_of_isOk
    (PlayerPosition.MakeMoveReversibly 0 (XYToCell 11 11) State.init) State.init rfl
  exact PlayerReachAny.reversibly PlayerReachAny.init h

theorem moveState₂_reach_any : PlayerReachAny 0 moveState₂ := by
  obtain ⟨r, h⟩ := Res.eq_ok_of_isOk
    (PlayerPosition.MakeMoveFast 0 (XYToCell 15 11) moveState₁) State.init rfl
  exact PlayerReachAny.fast moveState₁_reach_any h

theorem moveState₁_reach : PlayerReach 0 moveState₁ := by
  obtain ⟨r, h⟩ := Res.eq_ok_of_isOk
    (PlayerPosition.MakeMoveReversibly 0 (XYToCell 11 11) State.init) State.init rfl
  exact PlayerReach.reversibly PlayerReach.init h

/-- C10, as claimed, fails: when the moves and `UndoAll` come in any order,
a `MakeMoveFast` between a `MakeMoveReversibly` and the `UndoAll` of its
`Memento` leaves a stone that no chain holds. After the reversible move at
(11, 11), the fast move at (15, 11) and `UndoAll`, the cell (15, 11) is
occupied, `chains_for_cells_` names the chain 2 for it, but `chains_` has
shrunk to its `NULL` element: no chain is stored, and `NewestChainForCell`
indexes `chains_` out of bounds. -/
theorem MakeMoveFast_before_UndoAll_loses_chain :
    PlayerReachAny 0 moveState₂.undoAll ∧
    XYToCell 15 11 < kNumCellsWithSentinels ∧
    PlayerPosition.CellIsEmpty 0 (XYToCell 15 11) moveState₂.undoAll =
      Res.ok false moveState₂.undoAll ∧
    moveState₂.undoAll.cfc 0 (XYToCell 15 11) = 2 ∧
    moveState₂.undoAll.size 0 = 1 ∧
    (∀ ch, ¬ (moveState₂.undoAll.view 0).IsNewest ch) ∧
    PlayerPosition.NewestChainForCell 0 (XYToCell 15 11) moveState₂.undoAll =
      Res.fail Err.outOfBounds := by
  refine ⟨PlayerReachAny.undo moveState₂_reach_any, by decide, rfl, rfl, rfl, ?_, rfl⟩
  rintro ch ⟨h0, h1, _⟩
  have h2 : ch < 1 := h1
  omega

/-- C10, amended: in every state that the `PlayerPosition` `p` reaches from
its construction by `MakeMoveReversibly`, `MakeMoveFast` and
`Memento::UndoAll`, with `MakeMoveFast` called only while the `Memento` holds
no record, every cell `c` of the board array is as follows. When `c` is
occupied, `NewestChainForCell(c)` returns a chain `n`, stored in `chains_`
and with `newer_version` 0, whose stone mask holds `c`, and every stored
chain with `newer_version` 0 whose stone mask holds `c` is `n`. When `c` is
empty, no stored chain with `newer_version` 0 holds `c` in its stone mask. -/
theorem newest_chains_partition_cells (p : Nat) (s : State) (hs : PlayerReach p s) (c : Nat)
    (hc : c < kNumCellsWithSentinels) :
    (PlayerPosition.CellIsEmpty p c s = Res.ok false s →
      ∃ n, PlayerPosition.NewestChainForCell p c s = Res.ok n s ∧ (s.view p).IsNewest n ∧
        (s.view p).inMask n c = true ∧
        ∀ ch, (s.view p).IsNewest ch → (s.view p).inMask ch c = true → ch = n) ∧
    (PlayerPosition.CellIsEmpty p c s = Res.ok true s →
      ∀ ch, (s.view p).IsNewest ch → (s.view p).inMask ch c = false) :=
  (PlayerReach.inv hs).1.partition c hc

/-- C10, amended, at the state after the reversible move at (11, 11): the
cell is occupied there and its newest chain is the chain 1. -/
theorem newest_chains_partition_cells_witness :
    PlayerReach 0 moveState₁ ∧ XYToCell 11 11 < kNumCellsWithSentinels ∧
    PlayerPosition.CellIsEmpty 0 (XYToCell 11 11) moveState₁ = Res.ok false moveState₁ ∧
    PlayerPosition.NewestChainForCell 0 (XYToCell 11 11) moveState₁ = Res.ok 1 moveState₁ ∧
    ((PlayerPosition.CellIsEmpty 0 (XYToCell 11 11) moveState₁ = Res.ok false moveState₁ →
      ∃ n, PlayerPosition.NewestChainForCell 0 (XYToCell 11 11) moveState₁ =
          Res.ok n moveState₁ ∧ (moveState₁.view 0).IsNewest n ∧
        (moveState₁.view 0).inMask n (XYToCell 11 11) = true ∧
        ∀ ch, (moveState₁.view 0).IsNewest ch →
          (moveState₁.view 0).inMask ch (XYToCell 11 11) = true → ch = n) ∧
    (PlayerPosition.CellIsEmpty 0 (XYToCell 11 11) moveState₁ = Res.ok true moveState₁ →
      ∀ ch, (moveState₁.view 0).IsNewest ch →
        (moveState₁.view 0).inMask ch (XYToCell 11 11) = false)) :=
  ⟨moveState₁_reach, by decide, rfl, rfl,
    newest_chains_partition_cells 0 moveState₁ moveState₁_reach (XYToCell 11 11) (by decide)⟩

/-! ### Computations that leave the state alone -/

namespace ReadOnly

theorem ro_bind {α β : Type} {x : M α} {f : α → M β} (hx : ReadOnly x)
    (hf : ∀ a, ReadOnly (f a)) : ReadOnly (x >>= f) :=
  Steps.steps_bind (fun _ _ _ h h' => h'.trans h) hx hf

theorem ro_pure {α : Type} (a : α) : ReadOnly (pure a : M α) :=
  Steps.steps_pure (R := fun s s' => s' = s) (fun _ => rfl) a

theorem ro_ite {α : Type} {c : Prop} [Decidable c] {x y : M α} (hx : ReadOnly x)
    (hy : ReadOnly y) : ReadOnly (if c then x else y) :=
  Steps.steps_ite hx hy

theorem ro_holds {α : Type} {x : M α} (hx : ReadOnly x) (P : State → Prop) :
    Holds P x (fun _ => P) := by
  intro s a s' hP h
  rw [hx s a s' h]; exact hP

/-- A computation that leaves the state alone keeps what holds, and its
value is the one it returns in the state afterwards. -/
theorem ro_holds_val {α : Type} {x : M α} (hx : ReadOnly x) (P : State → Prop) :
    Holds P x (fun a s => P s ∧ x s = Res.ok a s) := by
  intro s a s' hP h
  have := hx s a s' h
  subst this
  exact ⟨hP, h⟩

end ReadOnly

theorem assert_ro (b : Bool) : ReadOnly (assert b) := by
  intro s a s' h
  rw [assert_apply, ite_fail_eq_ok] at h
  obtain ⟨_, h⟩ := h
  cases h; rfl

theorem inBounds_ro (b : Bool) : ReadOnly (inBounds b) := by
  intro s a s' h
  unfold inBounds at h
  rw [ite_fail_eq_ok] at h
  obtain ⟨_, h⟩ := h
  cases h; rfl

theorem outOfFuel_ro {α : Type} : ReadOnly (outOfFuel : M α) := by
  intro s a s' h
  cases h

theorem readW_ro (loc : Loc) : ReadOnly (readW loc) := by
  intro s a s' h
  cases h; rfl

theorem readByte_ro (base : Nat → Loc) (i : Nat) : ReadOnly (readByte base i) := by
  intro s a s' h
  cases h; rfl

theorem getRing_ro (p : Nat) : ReadOnly (getRing p) := by
  intro s a s' h
  cases h; rfl

theorem getSize_ro (p : Nat) : ReadOnly (getSize p) := by
  intro s a s' h
  cases h; rfl

theorem readChainRows_ro (p ch : Nat) : ReadOnly (readChainRows p ch) := by
  intro s a s' h
  cases h; rfl

theorem listFuel_ro (p : Nat) : ReadOnly (RingDB.listFuel p) := by
  intro s a s' h
  cases h; rfl

theorem Arena_get_ro (p n : Nat) : ReadOnly (Arena.get p n) := by
  intro s a s' h
  rw [← bind_pure' (Arena.get p n), Arena_get_bind, ite_fail_eq_ok, ite_fail_eq_ok] at h
  obtain ⟨_, _, h⟩ := h
  cases h; rfl

theorem deref_ro (p ch : Nat) : ReadOnly (ChainSet.deref p ch) := by
  intro s a s' h
  rw [← bind_pure' (ChainSet.deref p ch), deref_bind, ite_fail_eq_ok] at h
  obtain ⟨_, h⟩ := h
  cases h; rfl

theorem NewestVersion_ro (p ch : Nat) : ReadOnly (ChainSet.NewestVersion p ch) :=
  fun _ _ _ h => (NewestVersion_eq h).1

theorem chain_for_cell_ro (p cell : Nat) : ReadOnly (PlayerPosition.chain_for_cell p cell) :=
  ReadOnly.ro_bind (inBounds_ro _) (fun _ => readByte_ro _ _)

theorem PlayerPosition_CellIsEmpty_ro (p cell : Nat) :
    ReadOnly (PlayerPosition.CellIsEmpty p cell) :=
  ReadOnly.ro_bind (chain_for_cell_ro _ _) (fun _ => ReadOnly.ro_pure _)

theorem NewestChainForCell_ro (p cell : Nat) :
    ReadOnly (PlayerPosition.NewestChainForCell p cell) :=
  ReadOnly.ro_bind (chain_for_cell_ro _ _) (fun _ => NewestVersion_ro _ _)

theorem Holds_outOfFuel {α : Type} (P : State → Prop) (Q : α → State → Prop) :
    Holds P (outOfFuel : M α) Q := by
  intro s a s' _ h
  cases h

theorem Holds.weaken_pre {α : Type} {P P' : State → Prop} {x : M α} {Q : α → State → Prop}
    (h : Holds P' x Q) (hpre : ∀ s, P s → P' s) : Holds P x Q :=
  Holds.conseq h hpre (fun _ _ hq => hq)

theorem Holds.weaken_post {α : Type} {P : State → Prop} {x : M α} {Q Q' : α → State → Prop}
    (h : Holds P x Q') (hpost : ∀ a s, Q' a s → Q a s) : Holds P x Q :=
  Holds.conseq h (fun _ hp => hp) hpost

/-- A fact that does not depend on the state can be assumed. -/
theorem Holds.of_fact {α : Type} {P : State → Prop} {φ : Prop} {x : M α}
    {Q : α → State → Prop} (h : φ → Holds P x Q) : Holds (fun s => P s ∧ φ) x Q := by
  intro s a s' hP hx
  exact h hP.2 s a s' hP.1 hx

theorem Holds.keep_unit {P : State → Prop} (a : Unit) :
    Holds P (Pure.pure a : M Unit) (fun _ => P) :=
  Holds.pure (fun _ h => h)

/-! ### What UndoAll restores, on all words -/

theorem Remembered.remembered_mono {s : State} {loc : Loc} (h : Remembered s loc) (l : Loc) :
    Remembered (s.remember l) loc := by
  unfold Remembered at *
  show loc ∈ (s.memento.words_ ++ [(l, s.mem l)]).map Prod.fst
  rw [List.map_append]
  exact List.mem_append_left _ h

theorem Undoes.undoes_mono {L L' : Loc → Prop} {s₀ s : State} (h : Undoes L s₀ s)
    (hsub : ∀ loc, L' loc → L loc) : Undoes L' s₀ s :=
  ⟨h.sizes, h.size_le, fun loc hl hlive => h.words loc (hsub loc hl) hlive, h.top_le,
    h.frames_le⟩

/-- The `memset` of `Arena::Allocate` above the top of the arena of `s₀`
touches nothing that `UndoAll` restores. -/
theorem Undoes.undoes_zeroArena {L : Loc → Prop} {s₀ s : State} (h : Undoes L s₀ s)
    (p start n : Nat) (hstart : s₀.mem (Loc.arenaTop p) ≤ start) :
    Undoes L s₀ (s.zeroArena p start n) where
  sizes := h.sizes
  size_le := h.size_le
  words := by
    intro loc hl hlive
    rw [← h.words loc hl hlive]
    refine undoWords_congr _ _ _ _ ?_
    cases loc with
    | arena q i =>
      show (if q = p ∧ start ≤ i ∧ i < start + n then 0 else s.mem (Loc.arena q i)) = _
      rw [if_neg]
      rintro ⟨hq, h1, _⟩
      subst hq
      have := hlive.1
      omega
    | _ => rfl
  top_le := h.top_le
  frames_le := h.frames_le

namespace Restorable

variable {s₀ : State} {W W' : Loc → Prop} {s : State}

theorem res_weaken (h : Restorable s₀ W' s) (hsub : ∀ loc, W loc → W' loc) :
    Restorable s₀ W s :=
  ⟨h.undoes, fun loc hl => h.rem loc (hsub loc hl)⟩

theorem res_remember (h : Restorable s₀ W s) (loc : Loc) :
    Restorable s₀ (fun l => l = loc ∨ W l) (s.remember loc) where
  undoes := h.undoes.undoes_remember loc
  rem := by
    rintro l (hl | hl)
    · rw [hl]; exact Undoes.remembered_remember s loc
    · exact (h.rem l hl).remembered_mono loc

/-- A write to a word that is remembered or not in use in `s₀`. -/
theorem res_write (h : Restorable s₀ W s) (loc : Loc) (v : Nat) (hnt : NotTop loc)
    (hsafe : W loc ∨ ¬ Live s₀ loc) : Restorable s₀ W (s.write loc v) where
  undoes := h.undoes.undoes_write loc v hnt (by
    rcases hsafe with hw | hd
    · exact Or.inr (Or.inr (Or.inl (h.rem loc hw)))
    · exact Or.inr (Or.inl hd))
  rem := h.rem

/-- A write to a remembered top that does not lower it below its value in
`s₀`. -/
theorem res_write_top (h : Restorable s₀ W s) (loc : Loc) (v : Nat) (hw : W loc)
    (hv : s₀.mem loc ≤ v) : Restorable s₀ W (s.write loc v) where
  undoes := h.undoes.undoes_write_top loc v (Or.inr (Or.inr (Or.inl (h.rem loc hw))))
    (fun _ _ => hv) (fun _ _ => hv)
  rem := h.rem

theorem res_modifyRing (h : Restorable s₀ W s) (p : Nat) (f : RingAux → RingAux) :
    Restorable s₀ W (s.modifyRing p f) :=
  ⟨h.undoes.undoes_modifyRing p f, h.rem⟩

theorem res_zeroArena (h : Restorable s₀ W s) (p start n : Nat)
    (hstart : s₀.mem (Loc.arenaTop p) ≤ start) : Restorable s₀ W (s.zeroArena p start n) :=
  ⟨h.undoes.undoes_zeroArena p start n hstart, h.rem⟩

end Restorable

/-! ### RingDB::MergeChainEdgesReversibly remembers what it writes -/

section

variable {s₀ : State} {W : Loc → Prop}

theorem modifyRing_restorable (p : Nat) (f : RingAux → RingAux) :
    Holds (Restorable s₀ W) (modifyRing p f) (fun _ => Restorable s₀ W) := by
  intro s a s' hP h
  cases h
  exact hP.res_modifyRing p f

theorem rememberCell_restorable (p n : Nat) :
    Holds (Restorable s₀ W) (RingDB.rememberCell p n)
      (fun _ => Restorable s₀ (fun l => l = Loc.arena p n ∨ W l)) := by
  intro s a s' hP h
  rw [← bind_pure' (RingDB.rememberCell p n), rememberCell_bind, ite_fail_eq_ok,
    ite_fail_eq_ok] at h
  obtain ⟨_, _, h⟩ := h
  cases h
  exact hP.res_remember _

theorem Arena_set_restorable (p n v : Nat)
    (hsafe : W (Loc.arena p n) ∨ ¬ Live s₀ (Loc.arena p n)) :
    Holds (Restorable s₀ W) (Arena.set p n v) (fun _ => Restorable s₀ W) := by
  intro s a s' hP h
  rw [← bind_pure' (Arena.set p n v), Arena_set_bind, ite_fail_eq_ok, ite_fail_eq_ok] at h
  obtain ⟨_, _, h⟩ := h
  cases h
  exact hP.res_write _ _ trivial hsafe

/-- The statements `memento->Remember(&arena_.get(n)); arena_.get(n) = v`. -/
theorem rememberCell_set_restorable (p n v : Nat) :
    Holds (Restorable s₀ W) (RingDB.rememberCell p n >>= fun _ => Arena.set p n v)
      (fun _ => Restorable s₀ W) :=
  Holds.bind (rememberCell_restorable p n) (fun _ =>
    Holds.weaken_post (Arena_set_restorable p n v (Or.inl (Or.inl rfl)))
      (fun _ _ h => h.res_weaken (fun _ hl => Or.inr hl)))

theorem replaceLoopReversibly_restorable (p old_chain new_chain : Nat) :
    ∀ fuel q, Holds (Restorable s₀ W) (RingDB.replaceLoopReversibly p old_chain new_chain fuel q)
      (fun _ => Restorable s₀ W) := by
  intro fuel
  induction fuel with
  | zero => intro q; exact Holds_outOfFuel _ _
  | succ f ih =>
    intro q
    unfold RingDB.replaceLoopReversibly
    refine Holds.ite (fun _ => Holds.keep_unit _) (fun _ => ?_)
    refine Holds.bind ((Arena_get_ro _ _).ro_holds _) (fun ch => ?_)
    refine Holds.bind (Holds.ite (fun _ => rememberCell_set_restorable _ _ _)
      (fun _ => Holds.keep_unit _)) (fun _ => ?_)
    exact Holds.bind ((Arena_get_ro _ _).ro_holds _) (fun next => ih next)

theorem ReplaceChainInGraphReversibly_restorable (p chain old_chain new_chain : Nat) :
    Holds (Restorable s₀ W) (RingDB.ReplaceChainInGraphReversibly p chain old_chain new_chain)
      (fun _ => Restorable s₀ W) := by
  unfold RingDB.ReplaceChainInGraphReversibly
  refine Holds.bind ((listFuel_ro _).ro_holds _) (fun fuel => ?_)
  exact Holds.bind ((Arena_get_ro _ _).ro_holds _)
    (fun q => replaceLoopReversibly_restorable _ _ _ _ _)

theorem mergeLoop1Reversibly_restorable (p chain0 chain1 new_chain : Nat) :
    ∀ fuel curr,
      Holds (Restorable s₀ W) (RingDB.mergeLoop1Reversibly p chain0 chain1 new_chain fuel curr)
        (fun _ => Restorable s₀ W) := by
  intro fuel
  induction fuel with
  | zero => intro q; exact Holds_outOfFuel _ _
  | succ f ih =>
    intro curr
    unfold RingDB.mergeLoop1Reversibly
    refine Holds.bind ((Arena_get_ro _ _).ro_holds _) (fun ch => ?_)
    refine Holds.bind ((Arena_get_ro _ _).ro_holds _) (fun c0 => ?_)
    refine Holds.bind ((Arena_get_ro _ _).ro_holds _) (fun c1 => ?_)
    refine Holds.bind (modifyRing_restorable _ _) (fun _ => ?_)
    refine Holds.bind (Holds.ite (fun _ => rememberCell_set_restorable _ _ _)
      (fun _ => Holds.keep_unit _)) (fun _ => ?_)
    refine Holds.bind (ReplaceChainInGraphReversibly_restorable _ _ _ _) (fun _ => ?_)
    refine Holds.bind ((Arena_get_ro _ _).ro_holds _) (fun next => ?_)
    exact Holds.ite (fun _ => ih next) (fun _ => Holds.pure (fun _ h => h))

theorem mergeLoop2Reversibly_restorable (p chain0 chain1 new_chain : Nat) :
    ∀ fuel prev curr,
      Holds (Restorable s₀ W)
        (RingDB.mergeLoop2Reversibly p chain0 chain1 new_chain fuel prev curr)
        (fun _ => Restorable s₀ W) := by
  intro fuel
  induction fuel with
  | zero => intro _ _; exact Holds_outOfFuel _ _
  | succ f ih =>
    intro prev curr
    unfold RingDB.mergeLoop2Reversibly
    refine Holds.ite (fun _ => Holds.keep_unit _) (fun _ => ?_)
    refine Holds.bind ((Arena_get_ro _ _).ro_holds _) (fun ch => ?_)
    refine Holds.bind ((Arena_get_ro _ _).ro_holds _) (fun c0 => ?_)
    refine Holds.bind ((Arena_get_ro _ _).ro_holds _) (fun c1 => ?_)
    refine Holds.bind ((getRing_ro _).ro_holds _) (fun aux => ?_)
    refine Holds.ite (fun _ => ?_) (fun _ => ?_)
    · refine Holds.bind (Holds.ite (fun _ => rememberCell_set_restorable _ _ _)
        (fun _ => Holds.keep_unit _)) (fun _ => ?_)
      refine Holds.bind (ReplaceChainInGraphReversibly_restorable _ _ _ _) (fun _ => ?_)
      exact Holds.bind ((Arena_get_ro _ _).ro_holds _) (fun next => ih _ next)
    · refine Holds.bind (rememberCell_restorable _ _) (fun _ => ?_)
      refine Holds.bind ((Arena_get_ro _ _).ro_holds _) (fun next => ?_)
      refine Holds.bind (Arena_set_restorable _ _ _ (Or.inl (Or.inl rfl))) (fun _ => ?_)
      exact Holds.weaken_pre (ih _ next) (fun _ h => h.res_weaken (fun _ hl => Or.inr hl))

theorem MergeChainEdgesReversibly_restorable (p chain0 chain1 : Nat) :
    Holds (Restorable s₀ W) (RingDB.MergeChainEdgesReversibly p chain0 chain1)
      (fun _ => Restorable s₀ W) := by
  unfold RingDB.MergeChainEdgesReversibly
  refine Holds.bind ((NewestVersion_ro _ _).ro_holds _) (fun nv0 => ?_)
  refine Holds.bind ((assert_ro _).ro_holds _) (fun _ => ?_)
  refine Holds.bind ((NewestVersion_ro _ _).ro_holds _) (fun nv1 => ?_)
  refine Holds.bind ((assert_ro _).ro_holds _) (fun _ => ?_)
  refine Holds.ite (fun _ => Holds.keep_unit _) (fun _ => ?_)
  refine Holds.bind (modifyRing_restorable _ _) (fun _ => ?_)
  refine Holds.bind ((getSize_ro _).ro_holds _) (fun size => ?_)
  refine Holds.bind ((listFuel_ro _).ro_holds _) (fun fuel => ?_)
  refine Holds.bind ((Arena_get_ro _ _).ro_holds _) (fun curr => ?_)
  refine Holds.bind (Holds.ite (fun _ => Holds.bind (rememberCell_restorable _ _) (fun _ =>
    Holds.bind (Arena_set_restorable _ _ _ (Or.inl (Or.inl rfl))) (fun _ =>
      Holds.weaken_pre (mergeLoop1Reversibly_restorable _ _ _ _ _ _)
        (fun _ h => h.res_weaken (fun _ hl => Or.inr hl)))))
      (fun _ => Holds.pure (fun _ h => h))) (fun prev => ?_)
  refine Holds.bind (rememberCell_restorable _ _) (fun _ => ?_)
  refine Holds.bind ((Arena_get_ro _ _).ro_holds _) (fun curr' => ?_)
  refine Holds.bind (Arena_set_restorable _ _ _ (Or.inl (Or.inl rfl))) (fun _ => ?_)
  refine Holds.weaken_pre ?_ (fun _ h => h.res_weaken (fun _ hl => Or.inr hl))
  exact Holds.bind (mergeLoop2Reversibly_restorable _ _ _ _ _ _ _)
    (fun _ => modifyRing_restorable _ _)

end

/-- `RingDB::MergeChainEdgesReversibly` keeps what `UndoAll` restores. -/
theorem MergeChainEdgesReversibly_undoes {s₀ : State} (p c0 c1 : Nat) (s s' : State)
    (h : RingDB.MergeChainEdgesReversibly p c0 c1 s = Res.ok () s')
    (hu : Undoes Everywhere s₀ s) : Undoes Everywhere s₀ s' :=
  (MergeChainEdgesReversibly_restorable (W := fun _ => False) p c0 c1 s () s'
    ⟨hu, fun _ h => h.elim⟩ h).undoes

/-! ### The views of the chains depend on few words -/

theorem view_congr (s s' : State) (p : Nat) (hsize : s'.size p = s.size p)
    (hmem : ∀ loc, InView loc → ChainOf p loc → s'.mem loc = s.mem loc) :
    s'.view p = s.view p := by
  apply ChainView.ext'
  · exact hsize
  · intro ch
    show getByte (s'.mem (Loc.chainNewer p ch)) 0 = getByte (s.mem (Loc.chainNewer p ch)) 0
    rw [hmem (Loc.chainNewer p ch) trivial rfl]
  · intro c
    show getByte (s'.mem (Loc.chainsForCells p (c / 4))) _ =
      getByte (s.mem (Loc.chainsForCells p (c / 4))) _
    rw [hmem (Loc.chainsForCells p (c / 4)) trivial rfl]
  · intro ch y
    exact hmem (Loc.chainRow p ch y) trivial rfl
  · intro ch
    exact hmem (Loc.chainEcr p ch) trivial rfl

theorem view_write_of_not_inView (s : State) (loc : Loc) (v : Nat) (hnv : ¬ InView loc)
    (p : Nat) : (s.write loc v).view p = s.view p :=
  view_congr _ _ p rfl (fun l hl _ => Function.update_noteq (fun h => hnv (by
    rw [← h]; exact hl)) _ _)

theorem view_zeroArena (s : State) (q start n p : Nat) :
    (s.zeroArena q start n).view p = s.view p := rfl

theorem view_modifyRing (s : State) (q : Nat) (f : RingAux → RingAux) (p : Nat) :
    (s.modifyRing q f).view p = s.view p := rfl

/-! ### The top of an arena stays inside its chunks -/

theorem ArenaOk.arenaOk_write {s : State} {p : Nat} (h : ArenaOk s p) (loc : Loc) (v : Nat)
    (hne : loc ≠ Loc.arenaTop p) : ArenaOk (s.write loc v) p := by
  unfold ArenaOk
  rw [mem_write, Function.update_noteq (Ne.symm hne)]
  exact h

theorem ArenaOk.arenaOk_modifyRing {s : State} {p : Nat} (h : ArenaOk s p) (q : Nat)
    (f : RingAux → RingAux) (hf : (f (s.ring q)).numChunks = (s.ring q).numChunks) :
    ArenaOk (s.modifyRing q f) p := by
  unfold ArenaOk
  show s.mem _ ≤ (Function.update s.ring q (f (s.ring q)) p).numChunks * _
  by_cases hq : p = q
  · rw [hq, Function.update_same, hf, ← hq]; exact h
  · rw [Function.update_noteq hq]; exact h

theorem RingOk.ringOk_write {s : State} {p : Nat} (h : RingOk s p) (loc : Loc) (v : Nat)
    (hne : loc ≠ Loc.ringFramesTop p) : RingOk (s.write loc v) p := by
  unfold RingOk
  rw [mem_write, Function.update_noteq (Ne.symm hne)]
  exact h

namespace Safe

variable {s₀ : State} {W W' : Loc → Prop} {V : Nat → ChainView} {s : State}

theorem safe_weaken (h : Safe s₀ W' V s) (hsub : ∀ loc, W loc → W' loc) : Safe s₀ W V s :=
  ⟨h.restorable.res_weaken hsub, h.arena, h.ring, h.view⟩

theorem safe_remember (h : Safe s₀ W V s) (loc : Loc) :
    Safe s₀ (fun l => l = loc ∨ W l) V (s.remember loc) :=
  ⟨h.restorable.res_remember loc, h.arena, h.ring, h.view⟩

/-- A write, outside the chains and the tops, to a word that is remembered
or not in use in `s₀`. -/
theorem safe_write (h : Safe s₀ W V s) (loc : Loc) (v : Nat) (hnt : NotTop loc)
    (hnv : ¬ InView loc) (hsafe : W loc ∨ ¬ Live s₀ loc) : Safe s₀ W V (s.write loc v) where
  restorable := h.restorable.res_write loc v hnt hsafe
  arena := fun p => (h.arena p).arenaOk_write loc v (by
    intro hl; rw [hl] at hnt; exact hnt)
  ring := fun p => (h.ring p).ringOk_write loc v (by
    intro hl; rw [hl] at hnt; exact hnt)
  view := fun p => (view_write_of_not_inView s loc v hnv p).trans (h.view p)

theorem safe_modifyRing (h : Safe s₀ W V s) (p : Nat) (f : RingAux → RingAux)
    (hf : (f (s.ring p)).numChunks = (s.ring p).numChunks) : Safe s₀ W V (s.modifyRing p f) :=
  ⟨h.restorable.res_modifyRing p f, fun q => (h.arena q).arenaOk_modifyRing p f hf, h.ring,
    h.view⟩

end Safe

section

variable {s₀ : State} {W : Loc → Prop} {V : Nat → ChainView}

theorem Remember_safe (loc : Loc) :
    Holds (Safe s₀ W V) (Memento.Remember loc) (fun _ => Safe s₀ (fun l => l = loc ∨ W l) V) := by
  intro s a s' hP h
  cases h
  exact hP.safe_remember loc

theorem writeW_safe (loc : Loc) (v : Nat) (hnt : NotTop loc) (hnv : ¬ InView loc)
    (hsafe : W loc ∨ ¬ Live s₀ loc) :
    Holds (Safe s₀ W V) (writeW loc v) (fun _ => Safe s₀ W V) := by
  intro s a s' hP h
  cases h
  exact hP.safe_write loc v hnt hnv hsafe

theorem writeByte_safe (base : Nat → Loc) (i v : Nat) (hnt : NotTop (base (i / 4)))
    (hnv : ¬ InView (base (i / 4))) (hsafe : W (base (i / 4)) ∨ ¬ Live s₀ (base (i / 4))) :
    Holds (Safe s₀ W V) (writeByte base i v) (fun _ => Safe s₀ W V) := by
  intro s a s' hP h
  cases h
  exact hP.safe_write _ _ hnt hnv hsafe

theorem modifyRing_safe (p : Nat) (f : RingAux → RingAux)
    (hf : ∀ a, (f a).numChunks = a.numChunks) :
    Holds (Safe s₀ W V) (modifyRing p f) (fun _ => Safe s₀ W V) := by
  intro s a s' hP h
  cases h
  exact hP.safe_modifyRing p f (hf _)

theorem rememberCell_safe (p n : Nat) :
    Holds (Safe s₀ W V) (RingDB.rememberCell p n)
      (fun _ => Safe s₀ (fun l => l = Loc.arena p n ∨ W l) V) := by
  intro s a s' hP h
  rw [← bind_pure' (RingDB.rememberCell p n), rememberCell_bind, ite_fail_eq_ok,
    ite_fail_eq_ok] at h
  obtain ⟨_, _, h⟩ := h
  cases h
  exact hP.safe_remember _

theorem Arena_set_safe (p n v : Nat)
    (hsafe : W (Loc.arena p n) ∨ ¬ Live s₀ (Loc.arena p n)) :
    Holds (Safe s₀ W V) (Arena.set p n v) (fun _ => Safe s₀ W V) := by
  intro s a s' hP h
  rw [← bind_pure' (Arena.set p n v), Arena_set_bind, ite_fail_eq_ok, ite_fail_eq_ok] at h
  obtain ⟨_, _, h⟩ := h
  cases h
  exact hP.safe_write _ _ trivial (fun hh => hh) hsafe

/-- A cell at or above the top of the arena of `s₀` is not in use there. -/
theorem not_live_of_top_le {p n : Nat} (h : s₀.mem (Loc.arenaTop p) ≤ n) :
    ¬ Live s₀ (Loc.arena p n) := fun hl => absurd hl.1 (Nat.not_lt.2 h)

/-- The statements `memento->Remember(&arena_.get(n)); arena_.get(n) = v`. -/
theorem rememberCell_set_safe (p n v : Nat) :
    Holds (Safe s₀ W V) (RingDB.rememberCell p n >>= fun _ => Arena.set p n v)
      (fun _ => Safe s₀ W V) :=
  Holds.bind (rememberCell_safe p n) (fun _ =>
    Holds.weaken_post (Arena_set_safe p n v (Or.inl (Or.inl rfl)))
      (fun _ _ h => h.safe_weaken (fun _ hl => Or.inr hl)))

theorem kCellsInChunk_eq : kCellsInChunk = 4096 := by decide

/-- `Arena::Allocate`, when `top_` is remembered, keeps the state safe and
returns cells that are not in use in `s₀`. -/
theorem Allocate_safe (p n : Nat) (hW : W (Loc.arenaTop p)) :
    Holds (Safe s₀ W V) (Arena.Allocate p n)
      (fun r s => Safe s₀ W V s ∧ s₀.mem (Loc.arenaTop p) ≤ r) := by
  intro s r s' hP h
  have htop := hP.restorable.undoes.top_le p
  have hok := hP.arena p
  unfold ArenaOk at hok
  rw [kCellsInChunk_eq] at hok
  unfold Arena.Allocate Arena.top at h
  rw [assert_bind, ite_fail_eq_ok, readW_bind, getRing_bind, ite_bind'] at h
  obtain ⟨_, h⟩ := h
  rw [kCellsInChunk_eq] at h
  by_cases hc : (s.mem (Loc.arenaTop p) + n) / 4096 ≥ (s.ring p).numChunks
  · rw [if_pos hc, bind_assoc', modifyRing_bind, writeW_bind, readW_bind, getRing_bind,
      inBounds_bind, ite_fail_eq_ok, decide_eq_true_eq, zeroArena_bind, writeW_bind] at h
    obtain ⟨⟨hb1, hb2⟩, h⟩ := h
    cases h
    have hval : (((s.modifyRing p fun a => { a with numChunks := a.numChunks + 1 }).write
        (Loc.arenaTop p) ((s.mem (Loc.arenaTop p) + n) / 4096 * 4096)).mem (Loc.arenaTop p)) =
        (s.mem (Loc.arenaTop p) + n) / 4096 * 4096 := by
      rw [mem_write, Function.update_same]
    have hring : (((s.modifyRing p fun a => { a with numChunks := a.numChunks + 1 }).write
        (Loc.arenaTop p) ((s.mem (Loc.arenaTop p) + n) / 4096 * 4096)).ring p).numChunks =
        (s.ring p).numChunks + 1 := by
      show (Function.update s.ring p _ p).numChunks = _
      rw [Function.update_same]
    rw [hval] at hb1 hb2 ⊢
    rw [hring] at hb1
    have hge : s.mem (Loc.arenaTop p) ≤ (s.mem (Loc.arenaTop p) + n) / 4096 * 4096 := by
      have : (s.ring p).numChunks * 4096 ≤ (s.mem (Loc.arenaTop p) + n) / 4096 * 4096 :=
        Nat.mul_le_mul_right _ hc
      omega
    refine ⟨⟨?_, ?_, ?_, ?_⟩, Nat.le_trans htop hge⟩
    · exact (((hP.restorable.res_modifyRing p _).res_write_top _ _ hW
        (Nat.le_trans htop hge)).res_zeroArena p _ n (Nat.le_trans htop hge)).res_write_top _ _ hW
          (Nat.le_trans htop (Nat.le_trans hge (Nat.le_add_right _ _)))
    · intro q
      by_cases hq : q = p
      · subst hq
        unfold ArenaOk
        rw [mem_write, Function.update_same, kCellsInChunk_eq]
        show _ ≤ (Function.update s.ring q _ q).numChunks * 4096
        rw [Function.update_same]
        show _ ≤ ((s.ring q).numChunks + 1) * 4096
        omega
      · have := hP.arena q
        unfold ArenaOk at this ⊢
        rw [mem_write, Function.update_noteq (by intro hh; cases hh; exact hq rfl)]
        show (Function.update s.mem _ _ _) ≤ (Function.update s.ring p _ q).numChunks * _
        rw [Function.update_noteq hq, Function.update_noteq (by intro hh; cases hh; exact hq rfl)]
        exact this
    · exact hP.ring
    · exact hP.view
  · rw [if_neg hc, pure_bind', readW_bind, getRing_bind, inBounds_bind, ite_fail_eq_ok,
      decide_eq_true_eq, zeroArena_bind, writeW_bind] at h
    obtain ⟨⟨hb1, hb2⟩, h⟩ := h
    cases h
    refine ⟨⟨?_, ?_, ?_, ?_⟩, htop⟩
    · exact (hP.restorable.res_zeroArena p _ n htop).res_write_top _ _ hW
        (Nat.le_trans htop (Nat.le_add_right _ _))
    · intro q
      by_cases hq : q = p
      · subst hq
        unfold ArenaOk
        rw [mem_write, Function.update_same, kCellsInChunk_eq]
        show s.mem (Loc.arenaTop q) + n ≤ (s.ring q).numChunks * 4096
        omega
      · have := hP.arena q
        unfold ArenaOk at this ⊢
        rw [mem_write, Function.update_noteq (by intro hh; cases hh; exact hq rfl)]
        exact this
    · exact hP.ring
    · exact hP.view

end

/-! ### Two-bridges and ring frames: the reversible methods remember what they write -/

theorem CellToMoveIndex_ro (moveIndex : Nat → Int) (cell : Nat) :
    ReadOnly (Position.CellToMoveIndex moveIndex cell) :=
  ReadOnly.ro_bind (inBounds_ro _) (fun _ => ReadOnly.ro_pure _)

theorem BoardCounter_get_ro (p cell : Nat) : ReadOnly (BoardCounter.get p cell) :=
  ReadOnly.ro_bind (inBounds_ro _) (fun _ => readByte_ro _ _)

theorem assert_fact (P : State → Prop) (b : Bool) :
    Holds P (assert b) (fun _ s => P s ∧ b = true) := by
  intro s a s' hP h
  rw [assert_apply, ite_fail_eq_ok] at h
  obtain ⟨hb, h⟩ := h
  cases h
  exact ⟨hP, hb⟩

section

variable {s₀ : State} {W : Loc → Prop} {V : Nat → ChainView}

theorem BoardCounter_remember_safe (p cell : Nat) :
    Holds (Safe s₀ W V) (BoardCounter.remember p cell)
      (fun _ => Safe s₀ (fun l => l = Loc.twoBridge p (cell / 4) ∨ W l) V) :=
  Holds.bind ((inBounds_ro _).ro_holds _) (fun _ => Remember_safe _)

theorem BoardCounter_zero_safe (p cell : Nat) (hW : W (Loc.twoBridge p (cell / 4))) :
    Holds (Safe s₀ W V) (BoardCounter.zero p cell) (fun _ => Safe s₀ W V) :=
  Holds.bind ((inBounds_ro _).ro_holds _) (fun _ =>
    writeByte_safe _ _ _ trivial (fun h => h) (Or.inl hW))

theorem BoardCounter_increment_safe (p cell : Nat) (hW : W (Loc.twoBridge p (cell / 4))) :
    Holds (Safe s₀ W V) (BoardCounter.increment p cell) (fun _ => Safe s₀ W V) :=
  Holds.bind ((inBounds_ro _).ro_holds _) (fun _ =>
    Holds.bind ((readByte_ro _ _).ro_holds _) (fun _ =>
      Holds.bind (writeByte_safe _ _ _ trivial (fun h => h) (Or.inl hW)) (fun _ =>
        (assert_ro _).ro_holds _)))

theorem BoardCounter_decrement_safe (p cell : Nat) (hW : W (Loc.twoBridge p (cell / 4))) :
    Holds (Safe s₀ W V) (BoardCounter.decrement p cell) (fun _ => Safe s₀ W V) :=
  Holds.bind ((inBounds_ro _).ro_holds _) (fun _ =>
    Holds.bind ((readByte_ro _ _).ro_holds _) (fun _ =>
      Holds.bind ((assert_ro _).ro_holds _) (fun _ =>
        writeByte_safe _ _ _ trivial (fun h => h) (Or.inl hW))))

theorem AddOneWayTwoBridge_safe (p chain0 chain1 cell0 cell1 : Nat)
    (hW : W (Loc.arenaTop p)) (hhead : W (Loc.arena p (chain_graph_ + chain0))) :
    Holds (Safe s₀ W V) (RingDB.AddOneWayTwoBridge p chain0 chain1 cell0 cell1)
      (fun _ => Safe s₀ W V) := by
  unfold RingDB.AddOneWayTwoBridge
  refine Holds.bind ((assert_ro _).ro_holds _) (fun _ => ?_)
  refine Holds.bind (Allocate_safe p kCgSize hW) (fun q => ?_)
  refine Holds.of_fact (fun hq => ?_)
  refine Holds.bind ((Arena_get_ro _ _).ro_holds _) (fun head => ?_)
  refine Holds.bind (Arena_set_safe _ _ _ (Or.inr (not_live_of_top_le hq))) (fun _ => ?_)
  refine Holds.bind (Arena_set_safe _ _ _
    (Or.inr (not_live_of_top_le (Nat.le_trans hq (Nat.le_add_right _ _))))) (fun _ => ?_)
  refine Holds.bind (Arena_set_safe _ _ _
    (Or.inr (not_live_of_top_le (Nat.le_trans hq (Nat.le_add_right _ _))))) (fun _ => ?_)
  refine Holds.bind (Arena_set_safe _ _ _
    (Or.inr (not_live_of_top_le (Nat.le_trans hq (Nat.le_add_right _ _))))) (fun _ => ?_)
  exact Arena_set_safe _ _ _ (Or.inl hhead)

theorem AddTwoBridgeReversibly_safe (p cell0 cell1 chain0 chain1 : Nat) :
    Holds (Safe s₀ W V) (RingDB.AddTwoBridgeReversibly p cell0 cell1 chain0 chain1)
      (fun _ => Safe s₀ W V) := by
  unfold RingDB.AddTwoBridgeReversibly
  refine Holds.bind ((assert_ro _).ro_holds _) (fun _ => ?_)
  refine Holds.bind ((assert_ro _).ro_holds _) (fun _ => ?_)
  refine Holds.bind (Remember_safe _) (fun _ => ?_)
  refine Holds.bind (rememberCell_safe _ _) (fun _ => ?_)
  refine Holds.bind (AddOneWayTwoBridge_safe _ _ _ _ _ (Or.inr (Or.inl rfl)) (Or.inl rfl))
    (fun _ => ?_)
  refine Holds.bind (Holds.ite (fun _ => Holds.bind (rememberCell_safe _ _) (fun _ =>
    Holds.weaken_post (AddOneWayTwoBridge_safe _ _ _ _ _ (Or.inr (Or.inr (Or.inl rfl)))
      (Or.inl rfl)) (fun _ _ h => h.safe_weaken (fun _ hl => Or.inr hl))))
    (fun _ => Holds.keep_unit _)) (fun _ => ?_)
  exact Holds.weaken_post (modifyRing_safe _ _ (fun _ => rfl))
    (fun _ _ h => h.safe_weaken (fun _ hl => Or.inr (Or.inr hl)))

theorem AddRingFrameIndexToCell_safe (moveIndex : Nat → Int) (p cell : Nat) (idx : Int)
    (hW : W (Loc.arenaTop p)) :
    Holds (Safe s₀ W V) (RingDB.AddRingFrameIndexToCell moveIndex p cell idx)
      (fun _ => Safe s₀ W V) := by
  unfold RingDB.AddRingFrameIndexToCell
  refine Holds.bind ((CellToMoveIndex_ro _ _).ro_holds _) (fun m => ?_)
  refine Holds.bind (rememberCell_safe _ _) (fun _ => ?_)
  refine Holds.bind (Allocate_safe p kRftcSize (Or.inr hW)) (fun q => ?_)
  refine Holds.of_fact (fun hq => ?_)
  refine Holds.bind ((Arena_get_ro _ _).ro_holds _) (fun head => ?_)
  refine Holds.bind (Arena_set_safe _ _ _ (Or.inr (not_live_of_top_le hq))) (fun _ => ?_)
  refine Holds.bind (Arena_set_safe _ _ _
    (Or.inr (not_live_of_top_le (Nat.le_trans hq (Nat.le_add_right _ _))))) (fun _ => ?_)
  exact Holds.weaken_post (Arena_set_safe _ _ _ (Or.inl (Or.inl rfl)))
    (fun _ _ h => h.safe_weaken (fun _ hl => Or.inr hl))

theorem removeLoopReversibly_safe (p chain1 cell : Nat) :
    ∀ fuel prev curr,
      Holds (Safe s₀ W V) (RingDB.removeLoopReversibly p chain1 cell fuel prev curr)
        (fun _ => Safe s₀ W V) := by
  intro fuel
  induction fuel with
  | zero => intro _ _; exact Holds_outOfFuel _ _
  | succ f ih =>
    intro prev curr
    unfold RingDB.removeLoopReversibly
    refine Holds.ite (fun _ => Holds.keep_unit _) (fun _ => ?_)
    refine Holds.bind ((Arena_get_ro _ _).ro_holds _) (fun ch => ?_)
    refine Holds.bind (ReadOnly.ro_holds (ReadOnly.ro_ite
      (ReadOnly.ro_bind (Arena_get_ro _ _) (fun c0 => ReadOnly.ro_ite (ReadOnly.ro_pure _)
        (ReadOnly.ro_bind (Arena_get_ro _ _) (fun _ => ReadOnly.ro_pure _))))
      (ReadOnly.ro_pure _)) _) (fun hit => ?_)
    refine Holds.bind (Holds.ite (fun _ => Holds.bind (rememberCell_safe _ _) (fun _ =>
      Holds.bind ((Arena_get_ro _ _).ro_holds _) (fun next =>
        Holds.weaken_post (Arena_set_safe _ _ _ (Or.inl (Or.inl rfl)))
          (fun _ _ h => h.safe_weaken (fun _ hl => Or.inr hl)))))
      (fun _ => Holds.keep_unit _)) (fun _ => ?_)
    exact Holds.bind ((Arena_get_ro _ _).ro_holds _) (fun next => ih _ next)

theorem RemoveOneWayTwoBridgesReversibly_safe (p chain0 chain1 cell : Nat) :
    Holds (Safe s₀ W V) (RingDB.RemoveOneWayTwoBridgesReversibly p chain0 chain1 cell)
      (fun _ => Safe s₀ W V) := by
  unfold RingDB.RemoveOneWayTwoBridgesReversibly
  refine Holds.bind ((listFuel_ro _).ro_holds _) (fun fuel => ?_)
  exact Holds.bind ((Arena_get_ro _ _).ro_holds _)
    (fun curr => removeLoopReversibly_safe _ _ _ _ _ _)

theorem frameLoopReversibly_safe (p : Nat) :
    ∀ fuel q, Holds (Safe s₀ W V) (RingDB.frameLoopReversibly p fuel q)
      (fun _ => Safe s₀ W V) := by
  intro fuel
  induction fuel with
  | zero => intro _; exact Holds_outOfFuel _ _
  | succ f ih =>
    intro q
    unfold RingDB.frameLoopReversibly
    refine Holds.ite (fun _ => Holds.keep_unit _) (fun _ => ?_)
    refine Holds.bind ((Arena_get_ro _ _).ro_holds _) (fun n => ?_)
    refine Holds.bind (rememberCell_safe _ _) (fun _ => ?_)
    refine Holds.bind (Arena_set_safe _ _ _ (Or.inl (Or.inl rfl))) (fun _ => ?_)
    refine Holds.weaken_pre ?_ (fun _ h => h.safe_weaken (fun _ hl => Or.inr hl))
    exact Holds.bind ((Arena_get_ro _ _).ro_holds _) (fun next => ih next)

theorem RemoveHalfBridgeReversibly_safe (moveIndex : Nat → Int) (p cell chain0 chain1 : Nat) :
    Holds (Safe s₀ W V) (RingDB.RemoveHalfBridgeReversibly moveIndex p cell chain0 chain1)
      (fun _ => Safe s₀ W V) := by
  unfold RingDB.RemoveHalfBridgeReversibly
  refine Holds.bind ((assert_ro _).ro_holds _) (fun _ => ?_)
  refine Holds.bind ((assert_ro _).ro_holds _) (fun _ => ?_)
  refine Holds.bind (RemoveOneWayTwoBridgesReversibly_safe _ _ _ _) (fun _ => ?_)
  refine Holds.bind (Holds.ite (fun _ => RemoveOneWayTwoBridgesReversibly_safe _ _ _ _)
    (fun _ => Holds.keep_unit _)) (fun _ => ?_)
  refine Holds.bind ((CellToMoveIndex_ro _ _).ro_holds _) (fun m => ?_)
  refine Holds.bind ((listFuel_ro _).ro_holds _) (fun fuel => ?_)
  refine Holds.bind ((Arena_get_ro _ _).ro_holds _) (fun q => ?_)
  refine Holds.bind (frameLoopReversibly_safe _ _ _) (fun _ => ?_)
  refine Holds.bind (rememberCell_safe _ _) (fun _ => ?_)
  refine Holds.bind (Arena_set_safe _ _ _ (Or.inl (Or.inl rfl))) (fun _ => ?_)
  exact Holds.weaken_post (modifyRing_safe _ _ (fun _ => rfl))
    (fun _ _ h => h.safe_weaken (fun _ hl => Or.inr hl))

end

/-! The loops of `RingDB::VerifyCycle` that work on `stones_` alone. -/

theorem fillLoop_ro (p : Nat) :
    ∀ path bridges stones, ReadOnly (RingDB.fillLoop p path bridges stones) := by
  intro path
  induction path with
  | nil =>
    intro bridges stones
    unfold RingDB.fillLoop
    exact ReadOnly.ro_pure _
  | cons node path ih =>
    intro bridges stones
    cases bridges with
    | nil =>
      unfold RingDB.fillLoop
      exact ReadOnly.ro_pure _
    | cons bridge bridges =>
      unfold RingDB.fillLoop
      exact ReadOnly.ro_bind (deref_ro _ _) (fun _ =>
        ReadOnly.ro_bind (readChainRows_ro _ _) (fun rows => ih _ _))

theorem peelRow_ro (stones : Nat → Nat) (changed : Bool) (y : Nat) :
    ReadOnly (RingDB.peelRow stones changed y) := by
  unfold RingDB.peelRow
  refine ReadOnly.ro_ite ?_ (ReadOnly.ro_pure _)
  refine ReadOnly.ro_bind (assert_ro _) (fun _ => ?_)
  exact ReadOnly.ro_ite (ReadOnly.ro_pure _)
    (ReadOnly.ro_ite (ReadOnly.ro_pure _) (ReadOnly.ro_pure _))

theorem peelPass_ro : ∀ ys stones changed, ReadOnly (RingDB.peelPass ys stones changed) := by
  intro ys
  induction ys with
  | nil => intro stones changed; unfold RingDB.peelPass; exact ReadOnly.ro_pure _
  | cons y ys ih =>
    intro stones changed
    unfold RingDB.peelPass
    exact ReadOnly.ro_bind (peelRow_ro _ _ _) (fun r => ih _ _)

theorem peelLoop_ro : ∀ fuel stones, ReadOnly (RingDB.peelLoop fuel stones) := by
  intro fuel
  induction fuel with
  | zero => intro stones; exact outOfFuel_ro
  | succ f ih =>
    intro stones
    unfold RingDB.peelLoop
    exact ReadOnly.ro_bind (peelPass_ro _ _ _) (fun r =>
      ReadOnly.ro_ite (ih _) (ReadOnly.ro_pure _))

theorem blockedBridge_ro (p : Nat) (m : Int) : ReadOnly (RingDB.blockedBridge p m) :=
  ReadOnly.ro_bind (inBounds_ro _) (fun _ =>
    ReadOnly.ro_bind (getRing_ro _) (fun _ => ReadOnly.ro_pure _))

section

variable {s₀ : State} {W : Loc → Prop} {V : Nat → ChainView}

theorem setBlockedBridge_safe (p : Nat) (m : Int) (b : Bool) :
    Holds (Safe s₀ W V) (RingDB.setBlockedBridge p m b) (fun _ => Safe s₀ W V) :=
  Holds.bind ((inBounds_ro _).ro_holds _) (fun _ => modifyRing_safe _ _ (fun _ => rfl))

theorem recordLoop_safe (moveIndex : Nat → Int) (p : Nat) (idx : Int)
    (hW : W (Loc.arenaTop p)) :
    ∀ bridges q, s₀.mem (Loc.arenaTop p) ≤ q →
      Holds (Safe s₀ W V) (RingDB.recordLoop moveIndex p idx bridges q)
        (fun _ => Safe s₀ W V) := by
  intro bridges
  induction bridges with
  | nil => intro q _; unfold RingDB.recordLoop; exact Holds.keep_unit _
  | cons bridge bridges ih =>
    intro q hq
    unfold RingDB.recordLoop
    refine Holds.bind (Arena_set_safe _ _ _
      (Or.inr (not_live_of_top_le (Nat.le_trans hq (Nat.le_add_right _ _))))) (fun _ => ?_)
    refine Holds.bind (AddRingFrameIndexToCell_safe _ _ _ _ hW) (fun _ => ?_)
    refine Holds.bind (Arena_set_safe _ _ _
      (Or.inr (not_live_of_top_le (Nat.le_trans hq (Nat.le_add_right _ _))))) (fun _ => ?_)
    refine Holds.bind (AddRingFrameIndexToCell_safe _ _ _ _ hW) (fun _ => ?_)
    exact ih _ (Nat.le_trans hq (Nat.le_add_right _ _))

/-- Reading `ring_frames_top_` gives a value inside the table of ring
frames that is not below the one in `s₀`. -/
theorem readW_ringFramesTop_safe (p : Nat) :
    Holds (Safe s₀ W V) (readW (Loc.ringFramesTop p))
      (fun a s => Safe s₀ W V s ∧
        (s₀.mem (Loc.ringFramesTop p) ≤ a ∧ ring_frames_ ≤ a ∧
          a ≤ ring_frames_ + kMaxNumRingFrames)) := by
  intro s a s' hP h
  cases h
  exact ⟨hP, hP.restorable.undoes.frames_le p, (hP.ring p).1, (hP.ring p).2⟩

/-- The write `++ring_frames_top_`, when the field is remembered. -/
theorem writeW_ringFramesTop_safe (p v : Nat) (hW : W (Loc.ringFramesTop p))
    (hv : s₀.mem (Loc.ringFramesTop p) ≤ v) (hv1 : ring_frames_ ≤ v)
    (hv2 : v ≤ ring_frames_ + kMaxNumRingFrames) :
    Holds (Safe s₀ W V) (writeW (Loc.ringFramesTop p) v) (fun _ => Safe s₀ W V) := by
  intro s a s' hP h
  cases h
  refine ⟨hP.restorable.res_write_top _ _ hW hv,
    fun q => (hP.arena q).arenaOk_write _ _ (fun hh => by cases hh), fun q => ?_,
    fun q => (view_write_of_not_inView s (Loc.ringFramesTop p) v (fun hh => hh) q).trans
      (hP.view q)⟩
  by_cases hq : q = p
  · subst hq
    unfold RingOk
    rw [mem_write, Function.update_same]
    exact ⟨hv1, hv2⟩
  · exact (hP.ring q).ringOk_write _ _ (fun hh => by cases hh; exact hq rfl)

theorem kMaxNumRingFrames_eq : kMaxNumRingFrames = 256 := by decide

theorem ring_frames_eq : ring_frames_ = 256 := by decide

theorem VerifyCycle_safe (moveIndex : Nat → Int) (p : Nat) :
    Holds (Safe s₀ W V) (RingDB.VerifyCycle moveIndex p) (fun _ => Safe s₀ W V) := by
  unfold RingDB.VerifyCycle
  refine Holds.bind ((getRing_ro _).ro_holds _) (fun aux => ?_)
  refine Holds.bind ((assert_ro _).ro_holds _) (fun _ => ?_)
  refine Holds.bind ((assert_ro _).ro_holds _) (fun _ => ?_)
  refine Holds.bind (ReadOnly.ro_holds (ReadOnly.ro_ite (ReadOnly.ro_pure _)
    (ReadOnly.ro_ite (ReadOnly.ro_bind (assert_ro _) (fun _ =>
      ReadOnly.ro_bind (assert_ro _) (fun _ => ReadOnly.ro_pure _))) (ReadOnly.ro_pure _))) _)
    (fun rejected => ?_)
  refine Holds.ite (fun _ => Holds.keep_unit _) (fun _ => ?_)
  refine Holds.bind ((deref_ro _ _).ro_holds _) (fun _ => ?_)
  refine Holds.bind ((readChainRows_ro _ _).ro_holds _) (fun rows => ?_)
  refine Holds.bind ((fillLoop_ro _ _ _ _).ro_holds _) (fun stones => ?_)
  refine Holds.bind ((peelLoop_ro _ _).ro_holds _) (fun stones' => ?_)
  refine Holds.bind (modifyRing_safe _ _ (fun _ => rfl)) (fun _ => ?_)
  refine Holds.ite (fun _ => Holds.keep_unit _) (fun _ => ?_)
  refine Holds.bind (readW_ringFramesTop_safe p) (fun top => ?_)
  refine Holds.of_fact (fun htop => ?_)
  obtain ⟨htop, hlo, hhi⟩ := htop
  refine Holds.bind (assert_fact _ _) (fun _ => ?_)
  refine Holds.of_fact (fun hlt => ?_)
  rw [decide_eq_true_eq] at hlt
  unfold toInt32 at hlt
  rw [kMaxNumRingFrames_eq, ring_frames_eq] at hlt hhi
  rw [ring_frames_eq] at hlo
  have hlt' : top < 512 := by omega
  refine Holds.bind (Remember_safe _) (fun _ => ?_)
  refine Holds.bind (Remember_safe _) (fun _ => ?_)
  refine Holds.bind (Allocate_safe p _ (Or.inl rfl)) (fun q => ?_)
  refine Holds.of_fact (fun hq => ?_)
  refine Holds.bind (Arena_set_safe _ _ _ (Or.inr (fun hl => hl.2 ⟨htop, by
    rw [kMaxNumRingFrames_eq, ring_frames_eq]
    exact hlt'⟩))) (fun _ => ?_)
  refine Holds.bind (writeW_ringFramesTop_safe p _ (Or.inr (Or.inl rfl))
    (by omega) (by rw [ring_frames_eq]; omega)
    (by rw [kMaxNumRingFrames_eq, ring_frames_eq]; omega)) (fun _ => ?_)
  refine Holds.bind (Arena_set_safe _ _ _ (Or.inr (not_live_of_top_le hq))) (fun _ => ?_)
  exact Holds.weaken_post (recordLoop_safe _ _ _ (Or.inl rfl) _ _ hq)
    (fun _ _ h => h.safe_weaken (fun _ hl => Or.inr (Or.inr hl)))

theorem unblockLoop_safe (p this_node : Nat) (recur : Nat → M Unit)
    (hrec : ∀ n, Holds (Safe s₀ W V) (recur n) (fun _ => Safe s₀ W V)) :
    ∀ l, Holds (Safe s₀ W V) (RingDB.unblockLoop p this_node recur l)
      (fun _ => Safe s₀ W V) := by
  intro l
  induction l with
  | nil => unfold RingDB.unblockLoop; exact Holds.keep_unit _
  | cons it rest ih =>
    unfold RingDB.unblockLoop
    refine Holds.bind (hrec it) (fun _ => ?_)
    exact Holds.bind (modifyRing_safe _ _ (fun _ => rfl)) (fun _ => ih)

theorem Unblock_safe (p : Nat) :
    ∀ depth node, Holds (Safe s₀ W V) (RingDB.Unblock p depth node)
      (fun _ => Safe s₀ W V) := by
  intro depth
  induction depth with
  | zero => intro _; exact Holds_outOfFuel _ _
  | succ d ih =>
    intro node
    unfold RingDB.Unblock
    refine Holds.bind ((getRing_ro _).ro_holds _) (fun aux => ?_)
    refine Holds.ite (fun _ => ?_) (fun _ => Holds.keep_unit _)
    refine Holds.bind (modifyRing_safe _ _ (fun _ => rfl)) (fun _ => ?_)
    exact unblockLoop_safe _ _ _ (fun n => ih n) _

theorem cyclesLoop_safe (moveIndex : Nat → Int) (p start_node : Nat) (recur : Nat → M Bool)
    (hrec : ∀ n, Holds (Safe s₀ W V) (recur n) (fun _ => Safe s₀ W V)) :
    ∀ fuel q closed,
      Holds (Safe s₀ W V) (RingDB.cyclesLoop moveIndex p start_node recur fuel q closed)
        (fun _ => Safe s₀ W V) := by
  intro fuel
  induction fuel with
  | zero => intro _ _; exact Holds_outOfFuel _ _
  | succ f ih =>
    intro q closed
    unfold RingDB.cyclesLoop
    refine Holds.ite (fun _ => Holds.pure (fun _ h => h)) (fun _ => ?_)
    refine Holds.bind ((Arena_get_ro _ _).ro_holds _) (fun ch => ?_)
    refine Holds.bind ((Arena_get_ro _ _).ro_holds _) (fun c0 => ?_)
    refine Holds.bind ((Arena_get_ro _ _).ro_holds _) (fun c1 => ?_)
    refine Holds.bind ((CellToMoveIndex_ro _ _).ro_holds _) (fun m0 => ?_)
    refine Holds.bind ((CellToMoveIndex_ro _ _).ro_holds _) (fun m1 => ?_)
    refine Holds.bind ((blockedBridge_ro _ _).ro_holds _) (fun b0 => ?_)
    refine Holds.bind (ReadOnly.ro_holds (ReadOnly.ro_ite (ReadOnly.ro_pure _)
      (blockedBridge_ro _ _)) _) (fun skip => ?_)
    refine Holds.bind (Q := fun _ => Safe s₀ W V) (R := fun _ => Safe s₀ W V) ?_
      (fun closed' => Holds.bind ((Arena_get_ro _ _).ro_holds _) (fun next => ih _ _))
    refine Holds.ite (fun _ => Holds.pure (fun _ h => h)) (fun _ => ?_)
    refine Holds.bind (setBlockedBridge_safe _ _ _) (fun _ => ?_)
    refine Holds.bind (setBlockedBridge_safe _ _ _) (fun _ => ?_)
    refine Holds.bind (modifyRing_safe _ _ (fun _ => rfl)) (fun _ => ?_)
    refine Holds.bind (R := fun _ => Safe s₀ W V) ?_ (fun closed'' =>
      Holds.bind (modifyRing_safe _ _ (fun _ => rfl)) (fun _ =>
        Holds.bind (setBlockedBridge_safe _ _ _) (fun _ =>
          Holds.bind (setBlockedBridge_safe _ _ _) (fun _ => Holds.pure (fun _ h => h)))))
    refine Holds.ite (fun _ => Holds.bind (VerifyCycle_safe _ _)
      (fun _ => Holds.pure (fun _ h => h))) (fun _ => ?_)
    refine Holds.bind ((getRing_ro _).ro_holds _) (fun aux => ?_)
    refine Holds.ite (fun _ => ?_) (fun _ => Holds.pure (fun _ h => h))
    exact Holds.bind (hrec _) (fun r => Holds.pure (fun _ h => h))

theorem bSetsLoop_safe (p this_node : Nat) :
    ∀ fuel q, Holds (Safe s₀ W V) (RingDB.bSetsLoop p this_node fuel q)
      (fun _ => Safe s₀ W V) := by
  intro fuel
  induction fuel with
  | zero => intro _; exact Holds_outOfFuel _ _
  | succ f ih =>
    intro q
    unfold RingDB.bSetsLoop
    refine Holds.ite (fun _ => Holds.keep_unit _) (fun _ => ?_)
    refine Holds.bind ((Arena_get_ro _ _).ro_holds _) (fun ch => ?_)
    refine Holds.bind (modifyRing_safe _ _ (fun _ => rfl)) (fun _ => ?_)
    exact Holds.bind ((Arena_get_ro _ _).ro_holds _) (fun next => ih next)

theorem FindCycles_safe (moveIndex : Nat → Int) (p start_node : Nat) :
    ∀ depth node,
      Holds (Safe s₀ W V) (RingDB.FindCycles moveIndex p start_node depth node)
        (fun _ => Safe s₀ W V) := by
  intro depth
  induction depth with
  | zero => intro _; exact Holds_outOfFuel _ _
  | succ d ih =>
    intro node
    unfold RingDB.FindCycles
    refine Holds.bind (modifyRing_safe _ _ (fun _ => rfl)) (fun _ => ?_)
    refine Holds.bind ((listFuel_ro _).ro_holds _) (fun fuel => ?_)
    refine Holds.bind ((Arena_get_ro _ _).ro_holds _) (fun q => ?_)
    refine Holds.bind (cyclesLoop_safe _ _ _ _ (fun n => ih n) _ _ _) (fun closed => ?_)
    refine Holds.bind (R := fun _ => Safe s₀ W V) ?_ (fun _ =>
      Holds.bind (modifyRing_safe _ _ (fun _ => rfl)) (fun _ => Holds.pure (fun _ h => h)))
    refine Holds.ite (fun _ => Unblock_safe _ _ _) (fun _ => ?_)
    refine Holds.bind ((listFuel_ro _).ro_holds _) (fun fuel' => ?_)
    exact Holds.bind ((Arena_get_ro _ _).ro_holds _) (fun q' => bSetsLoop_safe _ _ _ _)

theorem FindNewCyclesReversibly_safe (moveIndex : Nat → Int) (p modified_chain : Nat) :
    Holds (Safe s₀ W V) (RingDB.FindNewCyclesReversibly moveIndex p modified_chain)
      (fun _ => Safe s₀ W V) := by
  unfold RingDB.FindNewCyclesReversibly
  refine Holds.bind ((getRing_ro _).ro_holds _) (fun aux => ?_)
  refine Holds.ite (fun _ => ?_) (fun _ => Holds.keep_unit _)
  refine Holds.bind ((assert_ro _).ro_holds _) (fun _ => ?_)
  refine Holds.bind ((assert_ro _).ro_holds _) (fun _ => ?_)
  refine Holds.bind (modifyRing_safe _ _ (fun _ => rfl)) (fun _ => ?_)
  refine Holds.bind (FindCycles_safe _ _ _ _ _) (fun _ => ?_)
  exact modifyRing_safe _ _ (fun _ => rfl)

theorem FindNewRingFramesReversibly_safe (moveIndex : Nat → Int) (p : Nat) :
    Holds (Safe s₀ W V) (PlayerPosition.FindNewRingFramesReversibly moveIndex p)
      (fun _ => Safe s₀ W V) :=
  fun s a s' hP h => FindNewCyclesReversibly_safe moveIndex p (s.modified_chain_ p) s a s' hP h

/-! ### PlayerPosition: the two-bridges around a move -/

theorem setCellReversibly_safe (p q cell acell : Nat) (a b : Int) :
    Holds (Safe s₀ W V) (PlayerPosition.setCellReversibly p q cell acell a b)
      (fun _ => Safe s₀ W V) := by
  unfold PlayerPosition.setCellReversibly
  refine Holds.bind ((PlayerPosition_CellIsEmpty_ro _ _).ro_holds _) (fun e1 => ?_)
  refine Holds.bind (ReadOnly.ro_holds (ReadOnly.ro_ite
    (ReadOnly.ro_bind (PlayerPosition_CellIsEmpty_ro _ _) (fun e2 =>
      ReadOnly.ro_ite (ReadOnly.ro_bind (PlayerPosition_CellIsEmpty_ro _ _)
        (fun _ => ReadOnly.ro_pure _)) (ReadOnly.ro_pure _)))
    (ReadOnly.ro_pure _)) _) (fun go => ?_)
  refine Holds.ite (fun _ => ?_) (fun _ => Holds.keep_unit _)
  refine Holds.bind (BoardCounter_remember_safe _ _) (fun _ => ?_)
  refine Holds.bind (BoardCounter_remember_safe _ _) (fun _ => ?_)
  refine Holds.bind (BoardCounter_increment_safe _ _ (Or.inr (Or.inl rfl))) (fun _ => ?_)
  refine Holds.bind (BoardCounter_increment_safe _ _ (Or.inl rfl)) (fun _ => ?_)
  refine Holds.bind ((NewestChainForCell_ro _ _).ro_holds _) (fun chain0 => ?_)
  refine Holds.bind ((NewestChainForCell_ro _ _).ro_holds _) (fun chain1 => ?_)
  exact Holds.weaken_post (AddTwoBridgeReversibly_safe _ _ _ _ _)
    (fun _ _ h => h.safe_weaken (fun _ hl => Or.inr (Or.inr hl)))

theorem setCellsReversibly_safe (p q cell : Nat) (a b₁ b₂ : Int) :
    Holds (Safe s₀ W V) (PlayerPosition.setCellsReversibly p q cell a b₁ b₂)
      (fun _ => Safe s₀ W V) := by
  unfold PlayerPosition.setCellsReversibly
  refine Holds.bind ((PlayerPosition_CellIsEmpty_ro _ _).ro_holds _) (fun e1 => ?_)
  refine Holds.bind (ReadOnly.ro_holds (ReadOnly.ro_ite (PlayerPosition_CellIsEmpty_ro _ _)
    (ReadOnly.ro_pure _)) _) (fun go => ?_)
  refine Holds.ite (fun _ => ?_) (fun _ => Holds.keep_unit _)
  exact Holds.bind (setCellReversibly_safe _ _ _ _ _ _)
    (fun _ => setCellReversibly_safe _ _ _ _ _ _)

theorem CreateTwoBridgesAfterOurMoveReversibly_safe (p q cell : Nat) :
    Holds (Safe s₀ W V) (PlayerPosition.CreateTwoBridgesAfterOurMoveReversibly p q cell)
      (fun _ => Safe s₀ W V) := by
  unfold PlayerPosition.CreateTwoBridgesAfterOurMoveReversibly
  refine Holds.bind ((PlayerPosition_CellIsEmpty_ro _ _).ro_holds _) (fun e => ?_)
  refine Holds.bind ((assert_ro _).ro_holds _) (fun _ => ?_)
  refine Holds.bind (setCellsReversibly_safe _ _ _ _ _ _) (fun _ => ?_)
  exact Holds.bind (setCellsReversibly_safe _ _ _ _ _ _)
    (fun _ => setCellsReversibly_safe _ _ _ _ _ _)

theorem zeroCellReversibly_safe (moveIndex : Nat → Int) (p cell : Nat) (a b c : Int) :
    Holds (Safe s₀ W V) (PlayerPosition.zeroCellReversibly moveIndex p cell a b c)
      (fun _ => Safe s₀ W V) := by
  unfold PlayerPosition.zeroCellReversibly
  refine Holds.bind ((NewestChainForCell_ro _ _).ro_holds _) (fun chain0 => ?_)
  refine Holds.bind ((NewestChainForCell_ro _ _).ro_holds _) (fun chain1 => ?_)
  refine Holds.bind (RemoveHalfBridgeReversibly_safe _ _ _ _ _) (fun _ => ?_)
  refine Holds.bind ((BoardCounter_get_ro _ _).ro_holds _) (fun v => ?_)
  refine Holds.ite (fun _ => ?_) (fun _ => Holds.keep_unit _)
  refine Holds.bind (BoardCounter_remember_safe _ _) (fun _ => ?_)
  refine Holds.bind (BoardCounter_decrement_safe _ _ (Or.inl rfl)) (fun _ => ?_)
  refine Holds.weaken_pre ?_ (fun _ h => h.safe_weaken (fun _ hl => Or.inr hl))
  refine Holds.bind ((BoardCounter_get_ro _ _).ro_holds _) (fun v' => ?_)
  refine Holds.ite (fun _ => ?_) (fun _ => Holds.keep_unit _)
  refine Holds.bind ((NewestChainForCell_ro _ _).ro_holds _) (fun chain0' => ?_)
  refine Holds.bind ((NewestChainForCell_ro _ _).ro_holds _) (fun chain1' => ?_)
  exact RemoveHalfBridgeReversibly_safe _ _ _ _ _

theorem unlessEmpty_safe (p cell : Nat) (a : Int) (body : M Unit)
    (hbody : Holds (Safe s₀ W V) body (fun _ => Safe s₀ W V)) :
    Holds (Safe s₀ W V) (PlayerPosition.unlessEmpty p cell a body) (fun _ => Safe s₀ W V) := by
  unfold PlayerPosition.unlessEmpty
  refine Holds.bind ((PlayerPosition_CellIsEmpty_ro _ _).ro_holds _) (fun e => ?_)
  exact Holds.ite (fun _ => hbody) (fun _ => Holds.keep_unit _)

theorem unlessEmpty₂_safe (p cell : Nat) (a b : Int) (body : M Unit)
    (hbody : Holds (Safe s₀ W V) body (fun _ => Safe s₀ W V)) :
    Holds (Safe s₀ W V) (PlayerPosition.unlessEmpty₂ p cell a b body)
      (fun _ => Safe s₀ W V) := by
  unfold PlayerPosition.unlessEmpty₂
  refine Holds.bind ((PlayerPosition_CellIsEmpty_ro _ _).ro_holds _) (fun e => ?_)
  exact Holds.ite (fun _ => unlessEmpty_safe _ _ _ _ hbody) (fun _ => Holds.keep_unit _)

theorem RemoveTwoBridgesReversibly_safe (moveIndex : Nat → Int) (p cell : Nat) :
    Holds (Safe s₀ W V)
      (PlayerPosition.RemoveTwoBridgesBeforeOurMoveOrAfterFoeMoveReversibly moveIndex p cell)
      (fun _ => Safe s₀ W V) := by
  unfold PlayerPosition.RemoveTwoBridgesBeforeOurMoveOrAfterFoeMoveReversibly
  refine Holds.bind ((PlayerPosition_CellIsEmpty_ro _ _).ro_holds _) (fun e => ?_)
  refine Holds.bind ((assert_ro _).ro_holds _) (fun _ => ?_)
  refine Holds.bind ((BoardCounter_get_ro _ _).ro_holds _) (fun v => ?_)
  refine Holds.ite (fun _ => ?_) (fun _ => Holds.keep_unit _)
  refine Holds.bind (BoardCounter_remember_safe _ _) (fun _ => ?_)
  refine Holds.bind (BoardCounter_zero_safe _ _ (Or.inl rfl)) (fun _ => ?_)
  refine Holds.weaken_pre ?_ (fun _ h => h.safe_weaken (fun _ hl => Or.inr hl))
  refine Holds.bind (unlessEmpty_safe _ _ _ _ (Holds.bind
    (unlessEmpty_safe _ _ _ _ (zeroCellReversibly_safe _ _ _ _ _ _))
    (fun _ => unlessEmpty_safe _ _ _ _ (zeroCellReversibly_safe _ _ _ _ _ _)))) (fun _ => ?_)
  refine Holds.bind (unlessEmpty_safe _ _ _ _ (Holds.bind
    (unlessEmpty_safe _ _ _ _ (zeroCellReversibly_safe _ _ _ _ _ _))
    (fun _ => unlessEmpty_safe _ _ _ _ (zeroCellReversibly_safe _ _ _ _ _ _)))) (fun _ => ?_)
  refine Holds.bind (unlessEmpty₂_safe _ _ _ _ _ (zeroCellReversibly_safe _ _ _ _ _ _))
    (fun _ => ?_)
  exact unlessEmpty₂_safe _ _ _ _ _ (zeroCellReversibly_safe _ _ _ _ _ _)

end

/-! ### A move of a player leaves the other player and the arenas' tops alone -/

namespace ChainFrame

variable {p : Nat}

theorem cf_refl (s : State) : ChainFrame p s s :=
  ⟨fun _ _ => rfl, fun _ _ _ => rfl, fun _ => rfl⟩

theorem cf_trans {s₁ s₂ s₃ : State} (h : ChainFrame p s₁ s₂) (h' : ChainFrame p s₂ s₃) :
    ChainFrame p s₁ s₃ where
  size_eq := fun q hq => (h'.size_eq q hq).trans (h.size_eq q hq)
  mem_eq := fun loc h1 h2 => (h'.mem_eq loc h1 h2).trans (h.mem_eq loc h1 h2)
  chunks_eq := fun q => (h'.chunks_eq q).trans (h.chunks_eq q)

theorem cf_of_graphStep {s s' : State} (h : GraphStep s s') : ChainFrame p s s' :=
  ⟨fun q _ => congrFun h.size_eq q, fun loc _ hl => h.mem_eq loc hl, h.chunks_eq⟩

theorem cf_write (s : State) (loc : Loc) (v : Nat) (hloc : ChainOf p loc) :
    ChainFrame p s (s.write loc v) where
  size_eq := fun _ _ => rfl
  mem_eq := fun l hl _ => Function.update_noteq (fun h => hl (by rw [h]; exact hloc)) _ _
  chunks_eq := fun _ => rfl

theorem cf_writeRows (s : State) (ch : Nat) (rows : Nat → Nat) :
    ChainFrame p s (s.writeRows p ch rows) where
  size_eq := fun _ _ => rfl
  mem_eq := by
    intro loc hl _
    cases loc with
    | chainRow q c y =>
      rw [mem_writeRows_row, if_neg]
      rintro ⟨hq, _, _⟩
      exact hl hq
    | _ => rfl
  chunks_eq := fun _ => rfl

theorem cf_setSize (s : State) (n : Nat) : ChainFrame p s (s.setSize p n) where
  size_eq := fun _ hq => Function.update_noteq hq _ _
  mem_eq := fun _ _ _ => rfl
  chunks_eq := fun _ => rfl

theorem cf_steps_bind {α β : Type} {x : M α} {f : α → M β} (hx : Steps x (ChainFrame p))
    (hf : ∀ a, Steps (f a) (ChainFrame p)) : Steps (x >>= f) (ChainFrame p) :=
  Steps.steps_bind (fun _ _ _ => cf_trans) hx hf

theorem cf_steps_pure {α : Type} (a : α) : Steps (Pure.pure a : M α) (ChainFrame p) :=
  Steps.steps_pure cf_refl a

theorem cf_steps_ro {α : Type} {x : M α} (hx : ReadOnly x) : Steps x (ChainFrame p) :=
  Steps.steps_of_same cf_refl hx

end ChainFrame

open ChainFrame

section

variable {p : Nat}

theorem writeW_cf (loc : Loc) (v : Nat) (hloc : ChainOf p loc) :
    Steps (writeW loc v) (ChainFrame p) := by
  intro s a s' h
  cases h
  exact cf_write s loc v hloc

theorem writeByte_cf (base : Nat → Loc) (i v : Nat) (hloc : ChainOf p (base (i / 4))) :
    Steps (writeByte base i v) (ChainFrame p) := by
  intro s a s' h
  cases h
  exact cf_write s _ _ hloc

theorem Remember_cf (loc : Loc) : Steps (Memento.Remember loc) (ChainFrame p) := by
  intro s a s' h
  cases h
  exact ⟨fun _ _ => rfl, fun _ _ _ => rfl, fun _ => rfl⟩

theorem RememberByte_cf (base : Nat → Loc) (i : Nat) :
    Steps (Memento.RememberByte base i) (ChainFrame p) := Remember_cf _

theorem RememberSize_cf (cs : Nat) : Steps (Memento.RememberSize cs) (ChainFrame p) := by
  intro s a s' h
  cases h
  exact ⟨fun _ _ => rfl, fun _ _ _ => rfl, fun _ => rfl⟩

theorem pushChain_cf : Steps (pushChain p) (ChainFrame p) := by
  intro s a s' h
  cases h
  exact cf_setSize s _

theorem writeChainRows_cf (ch : Nat) (rows : Nat → Nat) :
    Steps (writeChainRows p ch rows) (ChainFrame p) := by
  intro s a s' h
  cases h
  exact cf_writeRows s ch rows

theorem setModifiedChain_cf (ch : Nat) :
    Steps (PlayerPosition.setModifiedChain p ch) (ChainFrame p) := by
  intro s a s' h
  cases h
  exact ⟨fun _ _ => rfl, fun _ _ _ => rfl, fun _ => rfl⟩

theorem ClosesAnyRing_ro (ch x y : Nat) : ReadOnly (Chain.ClosesAnyRing p ch x y) :=
  ReadOnly.ro_bind (readChainRows_ro _ _) (fun _ =>
    ReadOnly.ro_bind (assert_ro _) (fun _ => ReadOnly.ro_pure _))

theorem GetRingMask_ro (ch x y : Nat) : ReadOnly (Chain.GetRingMask p ch x y) :=
  ReadOnly.ro_bind (ClosesAnyRing_ro _ _ _) (fun _ =>
    ReadOnly.ro_ite (ReadOnly.ro_bind (readChainRows_ro _ _) (fun _ => ReadOnly.ro_pure _))
      (ReadOnly.ro_pure _))

theorem AddStoneReversibly_cf (ch x y : Nat) :
    Steps (Chain.AddStoneReversibly p ch x y) (ChainFrame p) := by
  unfold Chain.AddStoneReversibly
  refine cf_steps_bind (cf_steps_ro (assert_ro _)) (fun _ => ?_)
  refine cf_steps_bind (cf_steps_ro (GetRingMask_ro _ _ _)) (fun ring => ?_)
  refine cf_steps_bind (Steps.steps_ite (cf_steps_bind (Remember_cf _) (fun _ =>
    cf_steps_bind (cf_steps_ro (readW_ro _)) (fun e => writeW_cf _ _ rfl)))
    (cf_steps_pure _)) (fun _ => ?_)
  refine cf_steps_bind (Remember_cf _) (fun _ => ?_)
  refine cf_steps_bind (cf_steps_ro (readW_ro _)) (fun row => ?_)
  refine cf_steps_bind (cf_steps_ro (assert_ro _)) (fun _ => ?_)
  refine cf_steps_bind (writeW_cf _ _ rfl) (fun _ => ?_)
  refine cf_steps_bind (Remember_cf _) (fun _ => ?_)
  exact cf_steps_bind (cf_steps_ro (readW_ro _)) (fun n => writeW_cf _ _ rfl)

theorem AddStoneFast_cf (ch x y : Nat) :
    Steps (Chain.AddStoneFast p ch x y) (ChainFrame p) := by
  unfold Chain.AddStoneFast
  refine cf_steps_bind (cf_steps_ro (assert_ro _)) (fun _ => ?_)
  refine cf_steps_bind (cf_steps_ro (GetRingMask_ro _ _ _)) (fun ring => ?_)
  refine cf_steps_bind (cf_steps_ro (readW_ro _)) (fun e => ?_)
  refine cf_steps_bind (writeW_cf _ _ rfl) (fun _ => ?_)
  refine cf_steps_bind (cf_steps_ro (readW_ro _)) (fun row => ?_)
  refine cf_steps_bind (cf_steps_ro (assert_ro _)) (fun _ => ?_)
  refine cf_steps_bind (writeW_cf _ _ rfl) (fun _ => ?_)
  exact cf_steps_bind (cf_steps_ro (readW_ro _)) (fun n => writeW_cf _ _ rfl)

theorem ComputeUnion_cf (ch x y other result : Nat) :
    Steps (Chain.ComputeUnion p ch x y other result) (ChainFrame p) := by
  unfold Chain.ComputeUnion
  refine cf_steps_bind (cf_steps_ro (assert_ro _)) (fun _ => ?_)
  refine cf_steps_bind (cf_steps_ro (readChainRows_ro _ _)) (fun rows => ?_)
  refine cf_steps_bind (cf_steps_ro (readChainRows_ro _ _)) (fun otherRows => ?_)
  refine cf_steps_bind (cf_steps_ro (assert_ro _)) (fun _ => ?_)
  refine cf_steps_bind (cf_steps_ro (assert_ro _)) (fun _ => ?_)
  refine cf_steps_bind (writeChainRows_cf _ _) (fun _ => ?_)
  refine cf_steps_bind (cf_steps_ro (readW_ro _)) (fun n => ?_)
  refine cf_steps_bind (cf_steps_ro (readW_ro _)) (fun m => ?_)
  refine cf_steps_bind (writeW_cf _ _ rfl) (fun _ => ?_)
  refine cf_steps_bind (cf_steps_ro (readW_ro _)) (fun e => ?_)
  refine cf_steps_bind (cf_steps_ro (readW_ro _)) (fun f => ?_)
  refine cf_steps_bind (cf_steps_ro (GetRingMask_ro _ _ _)) (fun ring => ?_)
  refine cf_steps_bind (writeW_cf _ _ rfl) (fun _ => ?_)
  exact writeByte_cf _ _ _ rfl

theorem InitWithStone_cf (ch x y : Nat) :
    Steps (Chain.InitWithStone p ch x y) (ChainFrame p) := by
  unfold Chain.InitWithStone
  refine cf_steps_bind (cf_steps_ro (assert_ro _)) (fun _ => ?_)
  refine cf_steps_bind (writeChainRows_cf _ _) (fun _ => ?_)
  refine cf_steps_bind (writeW_cf _ _ rfl) (fun _ => ?_)
  refine cf_steps_bind (writeW_cf _ _ rfl) (fun _ => ?_)
  exact writeByte_cf _ _ _ rfl

theorem Chain_IsVictory_cf (ch : Nat) : Steps (Chain.IsVictory p ch) (ChainFrame p) := by
  unfold Chain.IsVictory
  refine cf_steps_bind (cf_steps_ro (readW_ro _)) (fun e => ?_)
  exact cf_steps_bind (writeW_cf _ _ rfl) (fun _ => cf_steps_pure _)

theorem SetNewerVersionReversibly_cf (ch nv : Nat) :
    Steps (Chain.SetNewerVersionReversibly p ch nv) (ChainFrame p) := by
  unfold Chain.SetNewerVersionReversibly
  refine cf_steps_bind (cf_steps_ro (assert_ro _)) (fun _ => ?_)
  exact cf_steps_bind (RememberByte_cf _ _) (fun _ => writeByte_cf _ _ _ rfl)

theorem SetNewerVersionFast_cf (ch nv : Nat) :
    Steps (Chain.SetNewerVersionFast p ch nv) (ChainFrame p) :=
  writeByte_cf _ _ _ rfl

theorem AddStoneToChainReversibly_cf (x y ch : Nat) :
    Steps (ChainSet.AddStoneToChainReversibly p x y ch) (ChainFrame p) := by
  unfold ChainSet.AddStoneToChainReversibly
  refine cf_steps_bind (cf_steps_ro (NewestVersion_ro _ _)) (fun nv => ?_)
  exact cf_steps_bind (cf_steps_ro (assert_ro _)) (fun _ => AddStoneReversibly_cf _ _ _)

theorem AddStoneToChainFast_cf (x y ch : Nat) :
    Steps (ChainSet.AddStoneToChainFast p x y ch) (ChainFrame p) := by
  unfold ChainSet.AddStoneToChainFast
  refine cf_steps_bind (cf_steps_ro (NewestVersion_ro _ _)) (fun nv => ?_)
  exact cf_steps_bind (cf_steps_ro (assert_ro _)) (fun _ => AddStoneFast_cf _ _ _)

theorem MergeChainsReversibly_cf (x y chain1 chain2 : Nat) :
    Steps (ChainSet.MergeChainsReversibly p x y chain1 chain2) (ChainFrame p) := by
  unfold ChainSet.MergeChainsReversibly
  refine cf_steps_bind (cf_steps_ro (NewestVersion_ro _ _)) (fun nv1 => ?_)
  refine cf_steps_bind (cf_steps_ro (assert_ro _)) (fun _ => ?_)
  refine cf_steps_bind (cf_steps_ro (NewestVersion_ro _ _)) (fun nv2 => ?_)
  refine cf_steps_bind (cf_steps_ro (assert_ro _)) (fun _ => ?_)
  refine Steps.steps_ite (cf_steps_pure _) ?_
  refine cf_steps_bind (cf_steps_ro (getSize_ro _)) (fun last_chain => ?_)
  refine cf_steps_bind (cf_steps_ro (assert_ro _)) (fun _ => ?_)
  refine cf_steps_bind pushChain_cf (fun _ => ?_)
  refine cf_steps_bind (ComputeUnion_cf _ _ _ _ _) (fun _ => ?_)
  refine cf_steps_bind (SetNewerVersionReversibly_cf _ _) (fun _ => ?_)
  exact cf_steps_bind (SetNewerVersionReversibly_cf _ _) (fun _ => cf_steps_pure _)

theorem MergeChainsFast_cf (x y chain1 chain2 : Nat) :
    Steps (ChainSet.MergeChainsFast p x y chain1 chain2) (ChainFrame p) := by
  unfold ChainSet.MergeChainsFast
  refine cf_steps_bind (cf_steps_ro (NewestVersion_ro _ _)) (fun nv1 => ?_)
  refine cf_steps_bind (cf_steps_ro (assert_ro _)) (fun _ => ?_)
  refine cf_steps_bind (cf_steps_ro (NewestVersion_ro _ _)) (fun nv2 => ?_)
  refine cf_steps_bind (cf_steps_ro (assert_ro _)) (fun _ => ?_)
  refine Steps.steps_ite (cf_steps_pure _) ?_
  refine cf_steps_bind (cf_steps_ro (getSize_ro _)) (fun last_chain => ?_)
  refine cf_steps_bind (cf_steps_ro (assert_ro _)) (fun _ => ?_)
  refine cf_steps_bind pushChain_cf (fun _ => ?_)
  refine cf_steps_bind (ComputeUnion_cf _ _ _ _ _) (fun _ => ?_)
  refine cf_steps_bind (SetNewerVersionFast_cf _ _) (fun _ => ?_)
  exact cf_steps_bind (SetNewerVersionFast_cf _ _) (fun _ => cf_steps_pure _)

theorem MakeOneStoneChain_cf (x y : Nat) :
    Steps (ChainSet.MakeOneStoneChain p x y) (ChainFrame p) := by
  unfold ChainSet.MakeOneStoneChain
  refine cf_steps_bind (cf_steps_ro (getSize_ro _)) (fun last_chain => ?_)
  refine cf_steps_bind (cf_steps_ro (assert_ro _)) (fun _ => ?_)
  refine cf_steps_bind pushChain_cf (fun _ => ?_)
  exact cf_steps_bind (InitWithStone_cf _ _ _) (fun _ => cf_steps_pure _)

theorem ChainSet_IsVictory_cf (ch : Nat) : Steps (ChainSet.IsVictory p ch) (ChainFrame p) := by
  unfold ChainSet.IsVictory
  exact cf_steps_bind (cf_steps_ro (NewestVersion_ro _ _)) (fun nv => Chain_IsVictory_cf _)

theorem MergeChainEdgesReversibly_cf (c0 c1 : Nat) :
    Steps (RingDB.MergeChainEdgesReversibly p c0 c1) (ChainFrame p) :=
  fun s a s' h => cf_of_graphStep (MergeChainEdgesReversibly_steps GraphStep.graphStep_closed
    (fun s _ _ => GraphStep.graphStep_remember s _) p c0 c1 s a s' h)

theorem MergeChainEdgesFast_cf (c0 c1 : Nat) :
    Steps (RingDB.MergeChainEdgesFast p c0 c1) (ChainFrame p) :=
  fun s a s' h => cf_of_graphStep
    (MergeChainEdgesFast_steps GraphStep.graphStep_closed p c0 c1 s a s' h)

theorem neighborLoopReversibly_cf (cell x y : Nat) :
    ∀ n j prev, Steps (PlayerPosition.neighborLoopReversibly p cell x y n j prev)
      (ChainFrame p) := by
  intro n
  induction n with
  | zero => intro j prev; unfold PlayerPosition.neighborLoopReversibly; exact cf_steps_pure _
  | succ n ih =>
    intro j prev
    unfold PlayerPosition.neighborLoopReversibly
    refine cf_steps_bind (cf_steps_ro (chain_for_cell_ro _ _)) (fun cur => ?_)
    refine Steps.steps_ite (ih _ _) (Steps.steps_ite ?_ ?_)
    · refine cf_steps_bind (cf_steps_ro (NewestVersion_ro _ _)) (fun prev' => ?_)
      refine cf_steps_bind (cf_steps_ro (NewestVersion_ro _ _)) (fun cur' => ?_)
      refine cf_steps_bind (MergeChainEdgesReversibly_cf _ _) (fun _ => ?_)
      exact cf_steps_bind (MergeChainsReversibly_cf _ _ _ _) (fun prev'' => ih _ _)
    · refine cf_steps_bind (cf_steps_ro (NewestVersion_ro _ _)) (fun cur' => ?_)
      exact cf_steps_bind (AddStoneToChainReversibly_cf _ _ _) (fun _ => ih _ _)

theorem neighborLoopFast_cf (cell x y : Nat) :
    ∀ n j prev, Steps (PlayerPosition.neighborLoopFast p cell x y n j prev)
      (ChainFrame p) := by
  intro n
  induction n with
  | zero => intro j prev; unfold PlayerPosition.neighborLoopFast; exact cf_steps_pure _
  | succ n ih =>
    intro j prev
    unfold PlayerPosition.neighborLoopFast
    refine cf_steps_bind (cf_steps_ro (chain_for_cell_ro _ _)) (fun cur => ?_)
    refine Steps.steps_ite (ih _ _) (Steps.steps_ite ?_ ?_)
    · refine cf_steps_bind (cf_steps_ro (NewestVersion_ro _ _)) (fun prev' => ?_)
      refine cf_steps_bind (cf_steps_ro (NewestVersion_ro _ _)) (fun cur' => ?_)
      refine cf_steps_bind (MergeChainEdgesFast_cf _ _) (fun _ => ?_)
      exact cf_steps_bind (MergeChainsFast_cf _ _ _ _) (fun prev'' => ih _ _)
    · refine cf_steps_bind (cf_steps_ro (NewestVersion_ro _ _)) (fun cur' => ?_)
      exact cf_steps_bind (AddStoneToChainFast_cf _ _ _) (fun _ => ih _ _)

theorem MakeMoveReversibly_cf (cell : Nat) :
    Steps (PlayerPosition.MakeMoveReversibly p cell) (ChainFrame p) := by
  unfold PlayerPosition.MakeMoveReversibly
  refine cf_steps_bind (cf_steps_ro (assert_ro _)) (fun _ => ?_)
  refine cf_steps_bind (cf_steps_ro (PlayerPosition_CellIsEmpty_ro _ _)) (fun e => ?_)
  refine cf_steps_bind (cf_steps_ro (assert_ro _)) (fun _ => ?_)
  refine cf_steps_bind (RememberSize_cf _) (fun _ => ?_)
  refine cf_steps_bind (neighborLoopReversibly_cf _ _ _ _ _ _) (fun prev => ?_)
  refine cf_steps_bind (RememberByte_cf _ _) (fun _ => ?_)
  refine cf_steps_bind (Steps.steps_ite (writeByte_cf _ _ _ rfl)
    (cf_steps_bind (MakeOneStoneChain_cf _ _) (fun ch => writeByte_cf _ _ _ rfl)))
    (fun _ => ?_)
  refine cf_steps_bind (cf_steps_ro (chain_for_cell_ro _ _)) (fun ch => ?_)
  refine cf_steps_bind (setModifiedChain_cf _) (fun _ => ?_)
  refine cf_steps_bind (Remember_cf _) (fun _ => ?_)
  refine cf_steps_bind (cf_steps_ro (readW_ro _)) (fun row => ?_)
  refine cf_steps_bind (writeW_cf _ _ rfl) (fun _ => ?_)
  exact cf_steps_bind (cf_steps_ro (chain_for_cell_ro _ _)) (fun ch' => ChainSet_IsVictory_cf _)

theorem MakeMoveFast_cf (cell : Nat) :
    Steps (PlayerPosition.MakeMoveFast p cell) (ChainFrame p) := by
  unfold PlayerPosition.MakeMoveFast
  refine cf_steps_bind (cf_steps_ro (assert_ro _)) (fun _ => ?_)
  refine cf_steps_bind (cf_steps_ro (PlayerPosition_CellIsEmpty_ro _ _)) (fun e => ?_)
  refine cf_steps_bind (cf_steps_ro (assert_ro _)) (fun _ => ?_)
  refine cf_steps_bind (neighborLoopFast_cf _ _ _ _ _ _) (fun prev => ?_)
  refine cf_steps_bind (Steps.steps_ite (writeByte_cf _ _ _ rfl)
    (cf_steps_bind (MakeOneStoneChain_cf _ _) (fun ch => writeByte_cf _ _ _ rfl)))
    (fun _ => ?_)
  refine cf_steps_bind (cf_steps_ro (chain_for_cell_ro _ _)) (fun ch => ?_)
  refine cf_steps_bind (setModifiedChain_cf _) (fun _ => ?_)
  refine cf_steps_bind (cf_steps_ro (readW_ro _)) (fun row => ?_)
  refine cf_steps_bind (writeW_cf _ _ rfl) (fun _ => ?_)
  exact cf_steps_bind (cf_steps_ro (chain_for_cell_ro _ _)) (fun ch' => ChainSet_IsVictory_cf _)

end

/-- What a move of the player `p` leaves alone: the chains of the other
players and the tops of the arenas inside their chunks. -/
theorem ChainFrame.cf_view {p : Nat} {s s' : State} (h : ChainFrame p s s') (q : Nat)
    (hq : q ≠ p) : s'.view q = s.view q :=
  view_congr s s' q (h.size_eq q hq) (fun loc hv hc => h.mem_eq loc (by
    intro hp
    cases loc <;> first | exact hv | (exact hq (hc.symm.trans hp))) (by
    intro r i hh
    rw [hh] at hv
    exact hv))

theorem ChainFrame.cf_arenaOk {p : Nat} {s s' : State} (h : ChainFrame p s s') (q : Nat)
    (hok : ArenaOk s q) : ArenaOk s' q := by
  unfold ArenaOk at *
  rw [h.chunks_eq q, h.mem_eq (Loc.arenaTop q) (fun hh => hh) (fun _ _ hh => by cases hh)]
  exact hok

theorem ChainFrame.cf_ringOk {p : Nat} {s s' : State} (h : ChainFrame p s s') (q : Nat)
    (hok : RingOk s q) : RingOk s' q := by
  unfold RingOk at *
  rw [h.mem_eq (Loc.ringFramesTop q) (fun hh => hh) (fun _ _ hh => by cases hh)]
  exact hok

/-! ### Position: the reversible move keeps the state safe -/

theorem Position_CellIsEmpty_ro (cell : Nat) : ReadOnly (Position.CellIsEmpty cell) :=
  ReadOnly.ro_bind (inBounds_ro _) (fun _ =>
    ReadOnly.ro_bind (readByte_ro _ _) (fun _ => ReadOnly.ro_pure _))

/-- A computation that keeps every safe state safe keeps the well-formed
restorable states. -/
theorem PosSafe.posSafe_of_safe {s₀ : State} {α : Type} {x : M α}
    (h : ∀ V, Holds (Safe s₀ (fun _ => False) V) x (fun _ => Safe s₀ (fun _ => False) V)) :
    Holds (PosSafe s₀) x (fun _ => PosSafe s₀) := by
  intro s a s' hP hx
  have := h s.view s a s'
    ⟨⟨hP.undoes, fun _ hh => hh.elim⟩, hP.wf.arena, hP.wf.ring, fun _ => rfl⟩ hx
  exact ⟨this.restorable.undoes,
    ⟨fun p => by rw [this.view p]; exact hP.wf.inv p, this.arena, this.ring⟩⟩

theorem PlayerPosition_MakeMoveReversibly_posSafe {s₀ : State} (p cell : Nat) :
    Holds (PosSafe s₀) (PlayerPosition.MakeMoveReversibly p cell) (fun _ => PosSafe s₀) := by
  intro s r s' hP h
  obtain ⟨h1, h2⟩ := MakeMoveReversibly_spec (MergeChainEdgesReversibly_undoes p) h
    (hP.wf.inv p) hP.undoes
  have hf := MakeMoveReversibly_cf cell s r s' h
  refine ⟨h2, ⟨fun q => ?_, fun q => hf.cf_arenaOk q (hP.wf.arena q),
    fun q => hf.cf_ringOk q (hP.wf.ring q)⟩⟩
  by_cases hq : q = p
  · rw [hq]; exact h1
  · rw [hf.cf_view q hq]; exact hP.wf.inv q

theorem WellFormed_start : WellFormed State.start where
  inv := fun p => by
    have : State.start.view p = State.init.view p := view_congr _ _ p rfl (by
      intro loc hv _
      cases loc <;> first | rfl | exact hv.elim)
    rw [this]
    exact Inv_init p
  arena := fun p => by
    show kInitialArenaTop ≤ 1 * kCellsInChunk
    decide
  ring := fun p => by
    show ring_frames_ ≤ ring_frames_ ∧ ring_frames_ ≤ ring_frames_ + kMaxNumRingFrames
    decide

/-- After `UndoAll` the state is well formed when the state undone to is. -/
theorem WellFormed_undoAll {s₀ s : State} (hu : Undoes Everywhere s₀ s) (h0 : WellFormed s₀)
    (hs : WellFormed s) : WellFormed s.undoAll where
  inv := fun p => (h0.inv p).inv_agree
    ((hu.undoes_mono (fun _ _ => trivial) : Undoes NotArena s₀ s).undoes_agree p)
  arena := fun p => by
    unfold ArenaOk
    show undoWords s.memento.words_ s.mem (Loc.arenaTop p) ≤ (s.ring p).numChunks * _
    rw [hu.words (Loc.arenaTop p) trivial trivial]
    exact Nat.le_trans (hu.top_le p) (hs.arena p)
  ring := fun p => by
    unfold RingOk
    show ring_frames_ ≤ undoWords s.memento.words_ s.mem (Loc.ringFramesTop p) ∧
      undoWords s.memento.words_ s.mem (Loc.ringFramesTop p) ≤ _
    rw [hu.words (Loc.ringFramesTop p) trivial trivial]
    exact h0.ring p

/-- What `UndoAll` leaves as the moves made it: the flag `changed_` of the
`RingDB` and the field `modified_chain_` of the `PlayerPosition` are written
without `Remember`. After the moves of `roundTripMoves` and `UndoAll`, White
has `changed_` set and `modified_chain_` 2, where the start position has
`changed_` clear and `modified_chain_` 0. -/
theorem roundTripState_not_restored :
    (State.start.ring 0).changed_ = false ∧ (roundTripState.undoAll.ring 0).changed_ = true ∧
      State.start.modified_chain_ 0 = 0 ∧ roundTripState.undoAll.modified_chain_ 0 = 2 := by
  decide!

/-! ### The search: sequencing -/

theorem S.sbind_apply {R α β : Type} (x : S R α) (f : α → S R β) (t : Search R) :
    (x >>= f) t = match x t with
      | SRes.ok a t' => f a t'
      | SRes.fail e => SRes.fail e := rfl

theorem S.spure_apply {R α : Type} (a : α) (t : Search R) : (pure a : S R α) t = SRes.ok a t := rfl

theorem S.sbind_eq_of_ok {R α β : Type} {x : S R α} {f : α → S R β} {t t' : Search R} {a : α}
    (h : x t = SRes.ok a t') : (x >>= f) t = f a t' := by
  rw [S.sbind_apply, h]

theorem SRes.eq_ok_of_returned {R α : Type} [DecidableEq α] (r : SRes R α) (a : α)
    (d : Search R) (h : r.returned a = true) : r = SRes.ok a (r.state d) := by
  cases r with
  | ok b t =>
    have : b = a := by simpa [SRes.returned] using h
    rw [this]; rfl
  | fail e => cases h

/-! ### mcts.cc: forced results -/

theorem VictoryToPlies_WonInNPlies (p : Int) (h0 : 0 ≤ p) (h1 : p ≤ 127) :
    VictoryToPlies (WonInNPlies p) = p := by
  unfold VictoryToPlies WonInNPlies wrapInt32 INT_MAX
  have : (2147483647 - (-256 * p + 2147483647 - 128) + 2147483648) % 4294967296 - 2147483648
      = 256 * p + 128 := by omega
  rw [this, Int.tdiv_eq_ediv (by omega) (by norm_num)]
  omega

theorem victoryIsForced_WonInNPlies (p : Int) (h0 : 0 ≤ p) (h1 : p ≤ 127) :
    VictoryIsForced (WonInNPlies p) = true := by
  unfold VictoryIsForced WonInNPlies INT_MAX
  simp only [decide_eq_true_eq]
  omega

theorem defeatIsForced_LostInNPlies (p : Int) (h0 : 0 ≤ p) (h1 : p ≤ 127) :
    DefeatIsForced (LostInNPlies p) = true := by
  unfold DefeatIsForced LostInNPlies kBoardFilledDraw INT_MAX
  simp only [decide_eq_true_eq]
  omega

theorem not_defeatOrDraw_of_victory (r : Int) (h : VictoryIsForced r = true) :
    DefeatIsForced r = false ∧ DrawIsForced r = false := by
  unfold VictoryIsForced at h
  unfold DefeatIsForced DrawIsForced kBoardFilledDraw
  unfold INT_MAX at *
  simp only [decide_eq_true_eq, decide_eq_false_iff_not] at *
  omega

theorem resultIsForced_of_defeat (r : Int) (h : DefeatIsForced r = true) :
    ResultIsForced r = true := by
  unfold DefeatIsForced at h
  unfold ResultIsForced DefeatOrDrawIsForced VictoryIsForced
  simp only [decide_eq_true_eq, Bool.or_eq_true] at *
  right; omega

theorem decrement_of_zero (n : MctsNode) (h : n.visits_to_go_ = 0) :
    n.decrement_visits_to_go_if_nonzero = (false, n) := by
  unfold MctsNode.decrement_visits_to_go_if_nonzero AtomicIncrementIfFalse IsZero
  simp [h]
  cases n; simp_all

theorem updateNode_self {R : Type} (t : Search R) (node : Nat) (n : MctsNode)
    (h : n = t.nodes_.values node) :
    ({ t with nodes_ := { t.nodes_ with values := Function.update t.nodes_.values node n } } :
      Search R) = t := by
  subst h
  rw [Function.update_eq_self]

theorem Descend_forced_victory {F R : Type} (env : SearchEnv F R)
    (recur : Nat → Nat → Player → Nat → Int → S R Int)
    (position_hash node k : Nat) (player : Player) (last_move : Nat)
    (empty_cell_count p : Int) (t : Search R)
    (hvisits : (t.nodes_.values node).visits_to_go_ = 0)
    (hforced : (env.SelectKidForExploration t.nodes_ position_hash node player
      env.num_available_moves_).has_forced_result = true)
    (hkid : (env.SelectKidForExploration t.nodes_ position_hash node player
      env.num_available_moves_).kid = some k)
    (hreward : (t.nodes_.values k).ucb_reward_ = WonInNPlies p)
    (hp0 : 0 ≤ p) (hp : p + 1 ≤ 127) :
    MctsEngine.Descend env recur position_hash node player last_move empty_cell_count t =
      SRes.ok (LostInNPlies (p + 1)) t := by
  have hv := victoryIsForced_WonInNPlies p hp0 (by omega)
  obtain ⟨hd1, hd2⟩ := not_defeatOrDraw_of_victory _ hv
  unfold MctsEngine.Descend
  simp only [S.sbind_apply, getNode, updateNode, decrement_of_zero _ hvisits]
  rw [updateNode_self t node _ rfl]
  simp only [Bool.false_eq_true, if_false, S.sbind_apply, hforced, Bool.not_true, hkid, getNode,
    hreward, hd1, hd2, hv, if_true, S.spure_apply, VictoryToPlies_WonInNPlies p hp0 (by omega)]

theorem atDescend_visits {F R : Type} (env : SearchEnv F R) (node : Nat) (t : Search R) :
    ((MctsEngine.atDescend env node t).nodes_.values node).visits_to_go_ =
      (t.nodes_.values node).visits_to_go_ := by
  unfold MctsEngine.atDescend
  split_ifs
  · simp [MctsNode.UpdateUcbNumSimulations]
  · rfl

theorem atDescend_frame {F R : Type} (env : SearchEnv F R) (node : Nat) (t : Search R) :
    (MctsEngine.atDescend env node t).position_ = t.position_ ∧
      (MctsEngine.atDescend env node t).moves_ = t.moves_ := by
  unfold MctsEngine.atDescend
  split_ifs <;> exact ⟨rfl, rfl⟩

theorem UpdateUcbReward_forced (n : MctsNode) (r : Int) (h : ResultIsForced r = true) :
    (n.UpdateUcbReward r).ucb_reward_ = r := by
  unfold MctsNode.UpdateUcbReward
  rw [if_pos h]

/-- C18: a node whose reward is not forced and whose playouts, counted as
`UpdateNodeAndGetReward` counts them, exceed `expand_after_n_playouts` is
descended with no visits left to its last kid, so that a kid is selected;
the selection reports a forced result and the selected kid has the reward
`WonInNPlies(p)`, a forced victory in `p` plies, with `p + 1 <= 127`. Then
`Descend` returns `LostInNPlies(p + 1)` and changes nothing, so that it
plays no move, and `UpdateNodeAndGetReward` returns that value and stores it
as the reward of the node, which then satisfies `DefeatIsForced`; the
position and the list of the moves are as before. -/
theorem UpdateNodeAndGetReward_stores_forced_defeat {F R : Type} (env : SearchEnv F R)
    (recur : Nat → Nat → Player → Nat → Int → S R Int) (depth : Nat)
    (position_hash node k : Nat) (player : Player) (last_move : Nat)
    (empty_cell_count p : Int) (t : Search R)
    (hnode : ResultIsForced (t.nodes_.values node).ucb_reward_ = false)
    (hecc : empty_cell_count ≠ 0)
    (hpast : env.options_.expand_after_n_playouts <
      ((MctsEngine.atDescend env node t).nodes_.values node).ucb_num_simulations_)
    (hvisits : (t.nodes_.values node).visits_to_go_ = 0)
    (hforced : (env.SelectKidForExploration (MctsEngine.atDescend env node t).nodes_
      position_hash node player env.num_available_moves_).has_forced_result = true)
    (hkid : (env.SelectKidForExploration (MctsEngine.atDescend env node t).nodes_
      position_hash node player env.num_available_moves_).kid = some k)
    (hreward : ((MctsEngine.atDescend env node t).nodes_.values k).ucb_reward_ = WonInNPlies p)
    (hp0 : 0 ≤ p) (hp : p + 1 ≤ 127) :
    MctsEngine.Descend env recur position_hash node player last_move empty_cell_count
        (MctsEngine.atDescend env node t) =
      SRes.ok (LostInNPlies (p + 1)) (MctsEngine.atDescend env node t) ∧
    ∃ t', MctsEngine.UpdateNodeAndGetReward env (depth + 1) position_hash node player last_move
        empty_cell_count t = SRes.ok (LostInNPlies (p + 1)) t' ∧
      t'.position_ = t.position_ ∧ t'.moves_ = t.moves_ ∧
      (t'.nodes_.values node).ucb_reward_ = LostInNPlies (p + 1) ∧
      DefeatIsForced (t'.nodes_.values node).ucb_reward_ = true := by
  have hdesc : ∀ recur, MctsEngine.Descend env recur position_hash node player last_move
      empty_cell_count (MctsEngine.atDescend env node t) =
      SRes.ok (LostInNPlies (p + 1)) (MctsEngine.atDescend env node t) := fun recur =>
    Descend_forced_victory env recur position_hash node k player last_move empty_cell_count p _
      (by rw [atDescend_visits]; exact hvisits) hforced hkid hreward hp0 hp
  have hdef := defeatIsForced_LostInNPlies (p + 1) (by omega) hp
  have hres := resultIsForced_of_defeat _ hdef
  refine ⟨hdesc recur, ?_⟩
  have hd := hdesc (MctsEngine.UpdateNodeAndGetReward env depth)
  unfold MctsEngine.UpdateNodeAndGetReward
  simp only [S.sbind_apply, getNode, hnode, Bool.false_eq_true, if_false]
  by_cases hvl : env.options_.use_virtual_loss = true
  · unfold MctsEngine.atDescend at hd hpast
    rw [if_pos hvl] at hd hpast
    simp only [hvl, if_true, S.sbind_apply, updateNode, getNode, S.spure_apply, hecc, if_false,
      not_lt_of_gt hpast, ne_of_gt hpast, hd, hres, Bool.not_true, Bool.false_eq_true,
      false_and]
    refine ⟨_, rfl, rfl, rfl, ?_, ?_⟩
    · simp only [Function.update_same]
      exact UpdateUcbReward_forced _ _ hres
    · simp only [Function.update_same]
      rw [UpdateUcbReward_forced _ _ hres]; exact hdef
  · have hat : MctsEngine.atDescend env node t = t := by
      unfold MctsEngine.atDescend; rw [if_neg hvl]
    rw [hat] at hd hpast
    simp only [hvl, Bool.false_eq_true, if_false, S.sbind_apply, updateNode, getNode, S.spure_apply,
      hecc, not_lt_of_gt hpast, ne_of_gt hpast, hd, hres, Bool.not_true, false_and,
      Bool.not_false, if_true]
    refine ⟨_, rfl, rfl, rfl, ?_, ?_⟩
    · simp only [Function.update_same]
      exact UpdateUcbReward_forced _ _ hres
    · simp only [Function.update_same]
      rw [UpdateUcbReward_forced _ _ hres]; exact hdef

/-! ### The computations that only read the position -/

theorem ReadOnly.eq_ok_of_value {α : Type} {x : M α} (hx : ReadOnly x) {s : State} {a : α}
    (h : (x s).value = some a) : x s = Res.ok a s := by
  cases hr : x s with
  | ok b s' =>
    rw [hr] at h
    have hb : b = a := by simpa [Res.value] using h
    rw [hx s b s' hr, hb]
  | fail e => rw [hr] at h; cases h

theorem readStoneRows_ro (p : Nat) : ReadOnly (readStoneRows p) := by
  intro s a s' h
  cases h; rfl

theorem CountNeighborGroupsWithPossibleBenzeneRings_ro (n : Int) :
    ReadOnly (CountNeighborGroupsWithPossibleBenzeneRings n) :=
  ReadOnly.ro_bind (inBounds_ro _) (fun _ => ReadOnly.ro_pure _)

theorem PlayerPosition_Get6Neighbors_ro (p cell : Nat) :
    ReadOnly (PlayerPosition.Get6Neighbors p cell) :=
  ReadOnly.ro_bind (inBounds_ro _) (fun _ =>
    ReadOnly.ro_bind (readStoneRows_ro _) (fun _ => ReadOnly.ro_pure _))

theorem Get18Neighbors_ro (p cell : Nat) : ReadOnly (PlayerPosition.Get18Neighbors p cell) :=
  ReadOnly.ro_bind (inBounds_ro _) (fun _ =>
    ReadOnly.ro_bind (readStoneRows_ro _) (fun _ => ReadOnly.ro_pure _))

theorem Position_Get6Neighbors_ro (player : Player) (cell : Nat) :
    ReadOnly (Position.Get6Neighbors player cell) :=
  PlayerPosition_Get6Neighbors_ro _ _

theorem edges_corners_ring_ro (p ch : Nat) : ReadOnly (ChainSet.edges_corners_ring p ch) :=
  ReadOnly.ro_bind (NewestVersion_ro _ _) (fun _ => readW_ro _)

theorem injectChain_ro (p e c : Nat) : ReadOnly (PlayerPosition.injectChain p e c) := by
  unfold PlayerPosition.injectChain
  exact ReadOnly.ro_ite
    (ReadOnly.ro_bind (edges_corners_ring_ro _ _) (fun _ => ReadOnly.ro_pure _))
    (ReadOnly.ro_pure _)

theorem forkOrBridgeLoop_ro (p cell : Nat) :
    ∀ n i e, ReadOnly (PlayerPosition.forkOrBridgeLoop p cell n i e) := by
  intro n
  induction n with
  | zero => intro i e; exact ReadOnly.ro_pure _
  | succ n ih =>
    intro i e
    unfold PlayerPosition.forkOrBridgeLoop
    refine ReadOnly.ro_bind (chain_for_cell_ro _ _) (fun ch => ?_)
    refine ReadOnly.ro_ite ?_ (ih _ _)
    refine ReadOnly.ro_bind (NewestVersion_ro _ _) (fun _ => ?_)
    exact ReadOnly.ro_bind (edges_corners_ring_ro _ _) (fun _ => ih _ _)

theorem MoveWouldCloseForkOrBridge_ro (p cell e c : Nat) :
    ReadOnly (PlayerPosition.MoveWouldCloseForkOrBridge p cell e c) :=
  ReadOnly.ro_bind (assert_ro _) (fun _ =>
    ReadOnly.ro_bind (injectChain_ro _ _ _) (fun _ =>
      ReadOnly.ro_bind (forkOrBridgeLoop_ro _ _ _ _ _) (fun _ => ReadOnly.ro_pure _)))

theorem forkBridgeOrRingLoop_ro (p cell x y : Nat) :
    ∀ n i e, ReadOnly (PlayerPosition.forkBridgeOrRingLoop p cell x y n i e) := by
  intro n
  induction n with
  | zero => intro i e; exact ReadOnly.ro_pure _
  | succ n ih =>
    intro i e
    unfold PlayerPosition.forkBridgeOrRingLoop
    refine ReadOnly.ro_bind (chain_for_cell_ro _ _) (fun ch => ?_)
    refine ReadOnly.ro_ite ?_ (ih _ _)
    refine ReadOnly.ro_bind (NewestVersion_ro _ _) (fun _ => ?_)
    refine ReadOnly.ro_bind (deref_ro _ _) (fun _ => ?_)
    refine ReadOnly.ro_bind (ClosesAnyRing_ro _ _ _) (fun _ => ?_)
    refine ReadOnly.ro_ite (ReadOnly.ro_pure _) ?_
    exact ReadOnly.ro_bind (edges_corners_ring_ro _ _) (fun _ => ih _ _)

theorem MoveWouldCloseForkBridgeOrRing_ro (p cell e c : Nat) :
    ReadOnly (PlayerPosition.MoveWouldCloseForkBridgeOrRing p cell e c) := by
  unfold PlayerPosition.MoveWouldCloseForkBridgeOrRing
  refine ReadOnly.ro_bind (assert_ro _) (fun _ => ?_)
  refine ReadOnly.ro_bind ?_ (fun _ => ?_)
  · refine ReadOnly.ro_ite ?_ (ReadOnly.ro_pure _)
    refine ReadOnly.ro_bind (NewestVersion_ro _ _) (fun _ => ?_)
    exact ReadOnly.ro_bind (edges_corners_ring_ro _ _) (fun _ => ReadOnly.ro_pure _)
  · refine ReadOnly.ro_bind (forkBridgeOrRingLoop_ro _ _ _ _ _ _ _) (fun r => ?_)
    cases r with
    | none => exact ReadOnly.ro_pure _
    | some e => exact ReadOnly.ro_pure _

theorem MoveIsWinning_ro (player : Player) (cell : Nat) (nb : Int) (c : Nat) :
    ReadOnly (Position.MoveIsWinning player cell nb c) := by
  unfold Position.MoveIsWinning
  refine ReadOnly.ro_bind (assert_ro _) (fun _ => ?_)
  refine ReadOnly.ro_bind (CountNeighborGroupsWithPossibleBenzeneRings_ro _) (fun g => ?_)
  refine ReadOnly.ro_bind
    (ReadOnly.ro_ite (MoveWouldCloseForkBridgeOrRing_ro _ _ _ _) (ReadOnly.ro_pure _))
    (fun b => ?_)
  refine ReadOnly.ro_ite (ReadOnly.ro_pure _) ?_
  refine ReadOnly.ro_bind
    (ReadOnly.ro_ite (MoveWouldCloseForkOrBridge_ro _ _ _ _) (ReadOnly.ro_pure _))
    (fun b => ?_)
  exact ReadOnly.ro_ite (ReadOnly.ro_pure _) (ReadOnly.ro_pure _)

theorem AddChain_ro (chain : Nat) (l : List Nat) : ReadOnly (PlayerPosition.AddChain chain l) :=
  ReadOnly.ro_bind (assert_ro _) (fun _ =>
    ReadOnly.ro_ite (ReadOnly.ro_pure _)
      (ReadOnly.ro_bind (inBounds_ro _) (fun _ => ReadOnly.ro_pure _)))

theorem neighborChainsLoop_ro (p cell : Nat) :
    ∀ n i l, ReadOnly (PlayerPosition.neighborChainsLoop p cell n i l) := by
  intro n
  induction n with
  | zero => intro i l; exact ReadOnly.ro_pure _
  | succ n ih =>
    intro i l
    unfold PlayerPosition.neighborChainsLoop
    refine ReadOnly.ro_bind (chain_for_cell_ro _ _) (fun ch => ?_)
    refine ReadOnly.ro_ite ?_ (ih _ _)
    refine ReadOnly.ro_bind (NewestVersion_ro _ _) (fun _ => ?_)
    exact ReadOnly.ro_bind (AddChain_ro _ _) (fun _ => ih _ _)

theorem sumSizesLoop_ro (p : Nat) : ∀ l z, ReadOnly (PlayerPosition.sumSizesLoop p l z) := by
  intro l
  induction l with
  | nil => intro z; exact ReadOnly.ro_pure _
  | cons c l ih =>
    intro z
    unfold PlayerPosition.sumSizesLoop
    refine ReadOnly.ro_bind (assert_ro _) (fun _ => ?_)
    refine ReadOnly.ro_bind (deref_ro _ _) (fun _ => ?_)
    exact ReadOnly.ro_bind (readW_ro _) (fun _ => ih _)

theorem GetSizeOfNeighborChains_ro (p cell : Nat) (n : Int) :
    ReadOnly (PlayerPosition.GetSizeOfNeighborChains p cell n) :=
  ReadOnly.ro_bind (assert_ro _) (fun _ =>
    ReadOnly.ro_bind (assert_ro _) (fun _ =>
      ReadOnly.ro_bind (assert_ro _) (fun _ =>
        ReadOnly.ro_bind (neighborChainsLoop_ro _ _ _ _ _) (fun _ => sumSizesLoop_ro _ _ _))))

/-! ### The search: the position is only read -/

theorem S.sbind_ok {R α β : Type} {x : S R α} {f : α → S R β} {t t'' : Search R} {b : β}
    (h : (x >>= f) t = SRes.ok b t'') :
    ∃ a t', x t = SRes.ok a t' ∧ f a t' = SRes.ok b t'' := by
  rw [S.sbind_apply] at h
  cases hx : x t with
  | ok a t' => rw [hx] at h; exact ⟨a, t', rfl, h⟩
  | fail e => rw [hx] at h; cases h

theorem onPosition_of_ok {R α : Type} {x : M α} {t : Search R} {a : α}
    (h : x t.position_ = Res.ok a t.position_) : (onPosition x : S R α) t = SRes.ok a t := by
  unfold onPosition
  rw [h]

theorem onPosition_ro {R α : Type} {x : M α} (hx : ReadOnly x) {t t' : Search R} {a : α}
    (h : (onPosition x : S R α) t = SRes.ok a t') :
    t' = t ∧ x t.position_ = Res.ok a t.position_ := by
  unfold onPosition at h
  cases hr : x t.position_ with
  | ok b s =>
    rw [hr] at h
    have hs := hx _ _ _ hr
    subst hs
    cases h
    exact ⟨rfl, rfl⟩
  | fail e => rw [hr] at h; cases h

namespace TranspositionTable

variable {F R : Type} (env : SearchEnv F R)

theorem moveIndexToCell_ok (k : Nat) (hk : k < kNumMovesOnBoard) (t : Search R) :
    moveIndexToCell env (k : Int) t = SRes.ok (env.kMoveIndexToCell k) t := by
  unfold moveIndexToCell
  have h : (0 : Int) ≤ (k : Int) ∧ (k : Int) < (kNumMovesOnBoard : Nat) :=
    ⟨Int.natCast_nonneg k, by exact_mod_cast hk⟩
  rw [if_pos h, Int.toNat_natCast]
  rfl

theorem zobrist_ok (position_hash : Nat) (player : Player) (k : Nat)
    (hk : k < kNumMovesOnBoard) (t : Search R) :
    zobrist env position_hash player (k : Int) t =
      SRes.ok (ModifyZobristHash env.kZobristHash position_hash player k) t := by
  unfold zobrist
  have h : (0 : Int) ≤ (k : Int) ∧ (k : Int) < (kNumMovesOnBoard : Nat) :=
    ⟨Int.natCast_nonneg k, by exact_mod_cast hk⟩
  rw [if_pos h, Int.toNat_natCast]
  rfl

theorem InsertKey_ok {position_hash kid : Nat} {t : Search R} {m : WaitFreeHashMap}
    (h : WaitFreeHashMap.InsertKey env.L t.nodes_ position_hash = (Outcome.slot kid, m)) :
    InsertKey env position_hash t = SRes.ok (some kid) { t with nodes_ := m } := by
  unfold InsertKey
  rw [h]

theorem FindNode_ok {position_hash node : Nat} {t : Search R}
    (h : WaitFreeHashMap.FindValue env.L t.nodes_ position_hash = Outcome.slot node) :
    FindNode env position_hash t = SRes.ok (some node) t := by
  unfold FindNode
  rw [h]

theorem expandLoop_succ (position_hash : Nat) (player : Player) (n move am : Nat) (amc : Int)
    (t : Search R) :
    expandLoop env position_hash player (n + 1) move am amc t =
      match expandMove env position_hash player move am amc t with
      | SRes.ok (Step.returns r) t' => SRes.ok (Step.returns r) t'
      | SRes.ok (Step.goesOn am' amc') t' =>
        expandLoop env position_hash player n (move + 1) am' amc' t'
      | SRes.fail e => SRes.fail e := by
  show (expandMove env position_hash player move am amc >>= fun r =>
    match r with
    | Step.returns b => (pure (Step.returns b) : S R Step)
    | Step.goesOn am' amc' => expandLoop env position_hash player n (move + 1) am' amc') t = _
  rw [S.sbind_apply]
  cases expandMove env position_hash player move am amc t with
  | fail e => rfl
  | ok r t' => cases r <;> rfl

theorem expandLoop_add (position_hash : Nat) (player : Player) (b : Nat) :
    ∀ a move am amc (t : Search R),
      expandLoop env position_hash player (a + b) move am amc t =
        match expandLoop env position_hash player a move am amc t with
        | SRes.ok (Step.returns r) t' => SRes.ok (Step.returns r) t'
        | SRes.ok (Step.goesOn am' amc') t' =>
          expandLoop env position_hash player b (move + a) am' amc' t'
        | SRes.fail e => SRes.fail e := by
  intro a
  induction a with
  | zero =>
    intro move am amc t
    rw [Nat.zero_add]
    rfl
  | succ a ih =>
    intro move am amc t
    rw [Nat.succ_add, expandLoop_succ, expandLoop_succ]
    cases hm : expandMove env position_hash player move am amc t with
    | fail e => rfl
    | ok r t' =>
      cases r with
      | returns r => rfl
      | goesOn am' amc' =>
        show expandLoop env position_hash player (a + b) (move + 1) am' amc' t' = _
        rw [ih]
        have : move + 1 + a = move + (a + 1) := by omega
        rw [this]

/-- The iteration of the first loop of `ExpandNode` at a winning move. -/
theorem expandMove_winning (position_hash : Nat) (player : Player) (k : Nat) (am : Nat)
    (amc : Int) (t : Search R) (kid node : Nat) (nb : Nat) (m : WaitFreeHashMap)
    (hmate : env.options_.use_mate_in_tree = true) (hk : k < kNumMovesOnBoard)
    (hempty : Position.CellIsEmpty (env.kMoveIndexToCell k) t.position_ =
      Res.ok true t.position_)
    (hins : WaitFreeHashMap.InsertKey env.L t.nodes_
      (ModifyZobristHash env.kZobristHash position_hash player k) = (Outcome.slot kid, m))
    (hnb : Position.Get6Neighbors player (env.kMoveIndexToCell k) t.position_ =
      Res.ok nb t.position_)
    (hwin : Position.MoveIsWinning player (env.kMoveIndexToCell k) nb 0 t.position_ =
      Res.ok true t.position_)
    (hfind : WaitFreeHashMap.FindValue env.L m position_hash = Outcome.slot node) :
    expandMove env position_hash player k am amc t =
      SRes.ok (Step.returns true)
        { t with
          nodes_ := { m with
            values := Function.update
              (Function.update m.values kid ((m.values kid).UpdateUcbReward (WonInNPlies 0)))
              node ((Function.update m.values kid
                ((m.values kid).UpdateUcbReward (WonInNPlies 0)) node).UpdateUcbReward
                  (LostInNPlies 1)) } } := by
  unfold expandMove
  rw [S.sbind_eq_of_ok (moveIndexToCell_ok env k hk t),
    S.sbind_eq_of_ok (onPosition_of_ok hempty)]
  simp only [Bool.not_true, Bool.false_eq_true, if_false]
  rw [S.sbind_eq_of_ok (zobrist_ok env position_hash player k hk t),
    S.sbind_eq_of_ok (InsertKey_ok env hins)]
  simp only [hmate, if_true]
  have h1 : (do
      let neighborhood ← (onPosition (Position.Get6Neighbors player (env.kMoveIndexToCell k)) :
        S R Nat)
      onPosition (Position.MoveIsWinning player (env.kMoveIndexToCell k) neighborhood 0) :
        S R Bool) { t with nodes_ := m } = SRes.ok true { t with nodes_ := m } := by
    rw [S.sbind_eq_of_ok (onPosition_of_ok (t := { t with nodes_ := m }) hnb)]
    exact onPosition_of_ok (t := { t with nodes_ := m }) hwin
  rw [S.sbind_eq_of_ok h1]
  simp only [if_true]
  rw [S.sbind_eq_of_ok (FindNode_ok env (t := { t with nodes_ := m }) hfind)]
  rfl

/-! What the body of the first loop of `ExpandNode` leaves alone -/

theorem samePosition_refl (t : Search R) : SamePosition t t := ⟨rfl, rfl⟩

theorem samePosition_trans {t₁ t₂ t₃ : Search R} (h₁ : SamePosition t₁ t₂)
    (h₂ : SamePosition t₂ t₃) : SamePosition t₁ t₃ :=
  ⟨h₂.1.trans h₁.1, h₂.2.trans h₁.2⟩

theorem ssteps_bind {α β : Type} {x : S R α} {f : α → S R β}
    (hx : SSteps x SamePosition) (hf : ∀ a, SSteps (f a) SamePosition) :
    SSteps (x >>= f) SamePosition := by
  intro t b t'' h
  obtain ⟨a, t', h1, h2⟩ := S.sbind_ok h
  exact samePosition_trans (hx t a t' h1) (hf a t' b t'' h2)

theorem ssteps_pure {α : Type} (a : α) : SSteps (pure a : S R α) SamePosition := by
  intro t b t' h
  cases h
  exact samePosition_refl t

theorem ssteps_ite {α : Type} {c : Prop} [Decidable c] {x y : S R α}
    (hx : SSteps x SamePosition) (hy : SSteps y SamePosition) :
    SSteps (if c then x else y) SamePosition := by
  by_cases h : c
  · rw [if_pos h]; exact hx
  · rw [if_neg h]; exact hy

theorem ssteps_onPosition {α : Type} {x : M α} (hx : ReadOnly x) :
    SSteps (onPosition x : S R α) SamePosition := by
  intro t a t' h
  rw [(onPosition_ro hx h).1]
  exact samePosition_refl t

theorem ssteps_updateNode (n : Nat) (f : MctsNode → MctsNode) :
    SSteps (updateNode n f : S R Unit) SamePosition := by
  intro t a t' h
  cases h
  exact ⟨rfl, rfl⟩

theorem ssteps_getNode (n : Nat) : SSteps (getNode n : S R MctsNode) SamePosition := by
  intro t a t' h
  cases h
  exact ⟨rfl, rfl⟩

theorem ssteps_fail {α : Type} (e : Err) : SSteps (S.fail e : S R α) SamePosition := by
  intro t a t' h
  cases h

theorem ssteps_rng (n : Int) : SSteps (rng n : S R Int) SamePosition := by
  intro t a t' h
  unfold rng at h
  injection h with _ h2
  rw [← h2]
  exact ⟨rfl, rfl⟩

theorem ssteps_updateRave (n : Nat) (a b : Int) :
    SSteps (updateRave n a b : S R Unit) SamePosition := by
  intro t u t' h
  unfold updateRave at h
  split at h
  · cases h
    exact ⟨rfl, rfl⟩
  · cases h

theorem ssteps_setKidBias (player : Player) (cell kid : Nat) :
    SSteps (setKidBias env player cell kid) SamePosition := by
  unfold setKidBias
  refine ssteps_bind ?_ (fun bias => ssteps_bind ?_ (fun bias' => ssteps_updateNode _ _))
  · exact ssteps_ite (ssteps_bind (ssteps_onPosition (GetSizeOfNeighborChains_ro _ _ _))
      (fun _ => ssteps_pure _)) (ssteps_pure _)
  · exact ssteps_ite (ssteps_bind (ssteps_onPosition (Get18Neighbors_ro _ _))
      (fun _ => ssteps_ite (ssteps_pure _) (ssteps_pure _))) (ssteps_pure _)

theorem ssteps_setKidPrior (kid : Nat) : SSteps (setKidPrior env kid) SamePosition := by
  unfold setKidPrior
  refine ssteps_ite (ssteps_ite ?_ ?_) ?_
  · exact ssteps_bind (ssteps_rng _) (fun _ => ssteps_bind (ssteps_rng _)
      (fun _ => ssteps_updateRave _ _ _))
  · exact ssteps_bind (ssteps_rng _) (fun _ => ssteps_bind (ssteps_rng _)
      (fun _ => ssteps_updateRave _ _ _))
  · exact ssteps_bind (ssteps_rng _) (fun _ => ssteps_bind (ssteps_updateNode _ _)
      (fun _ => ssteps_bind (ssteps_rng _) (fun _ => ssteps_updateNode _ _)))

theorem ssteps_moveIndexToCell (move : Int) : SSteps (moveIndexToCell env move) SamePosition := by
  unfold moveIndexToCell
  exact ssteps_ite (ssteps_pure _) (ssteps_fail _)

theorem ssteps_zobrist (h : Nat) (player : Player) (move : Int) :
    SSteps (zobrist env h player move) SamePosition := by
  unfold zobrist
  exact ssteps_ite (ssteps_pure _) (ssteps_fail _)

theorem ssteps_InsertKey (h : Nat) : SSteps (InsertKey env h) SamePosition := by
  intro t a t' hr
  unfold InsertKey at hr
  split at hr <;> cases hr <;> exact ⟨rfl, rfl⟩

theorem ssteps_FindNode (h : Nat) : SSteps (FindNode env h) SamePosition := by
  intro t a t' hr
  unfold FindNode at hr
  split at hr <;> cases hr <;> exact ⟨rfl, rfl⟩

theorem moveIndexToCell_eq {k : Nat} {t t' : Search R} {cell : Nat}
    (h : moveIndexToCell env (k : Int) t = SRes.ok cell t') :
    t' = t ∧ cell = env.kMoveIndexToCell k ∧ k < kNumMovesOnBoard := by
  unfold moveIndexToCell at h
  by_cases hc : (0 : Int) ≤ (k : Int) ∧ (k : Int) < (kNumMovesOnBoard : Nat)
  · rw [if_pos hc, Int.toNat_natCast] at h
    cases h
    exact ⟨rfl, rfl, by exact_mod_cast hc.2⟩
  · rw [if_neg hc] at h
    cases h

/-- An iteration of the first loop of `ExpandNode` after which the loop goes
on: the count of the winning moves of the opponent has grown by one when the
opponent wins at the cell, and not at all otherwise; and without the deeper
search for mates the position is as before. -/
theorem expandMove_goesOn {position_hash : Nat} {player : Player} {move am am' : Nat}
    {amc amc' : Int} {t t' : Search R}
    (h : expandMove env position_hash player move am amc t =
      SRes.ok (Step.goesOn am' amc') t') :
    (env.options_.use_deeper_mate_in_tree = false → SamePosition t t') ∧
      move < kNumMovesOnBoard ∧
      (amc' = amc ∨ amc' = wrapInt32 (amc + 1)) ∧
      (env.options_.use_antimate_in_tree = true → FoeWinsAt env player t.position_ move →
        amc' = wrapInt32 (amc + 1)) := by
  unfold expandMove at h
  obtain ⟨cell, t₁, h1, h⟩ := S.sbind_ok h
  obtain ⟨e1, e2, hk⟩ := moveIndexToCell_eq env h1
  subst e1 e2
  obtain ⟨empty, t₂, h2, h⟩ := S.sbind_ok h
  obtain ⟨e1, hempty⟩ := onPosition_ro (Position_CellIsEmpty_ro _) h2
  subst e1
  cases empty with
  | false =>
    simp only [Bool.not_false, if_true] at h
    cases h
    refine ⟨fun _ => samePosition_refl _, hk, Or.inl rfl, ?_⟩
    intro _ hf
    rw [hf.1] at hempty
    cases hempty
  | true =>
    simp only [Bool.not_true, Bool.false_eq_true, if_false] at h
    obtain ⟨kid_hash, t₃, h3, h⟩ := S.sbind_ok h
    have s3 := ssteps_zobrist env _ _ _ _ _ _ h3
    obtain ⟨kid, t₄, h4, h⟩ := S.sbind_ok h
    have s4 := ssteps_InsertKey env _ _ _ _ h4
    cases kid with
    | none => cases h
    | some kid =>
      obtain ⟨wins, t₅, h5, h⟩ := S.sbind_ok h
      have s5 : SamePosition t₄ t₅ := by
        refine ssteps_ite ?_ (ssteps_pure _) _ _ _ h5
        exact ssteps_bind (ssteps_onPosition (Position_Get6Neighbors_ro _ _))
          (fun _ => ssteps_onPosition (MoveIsWinning_ro _ _ _ _))
      cases wins with
      | true =>
        simp only [if_true] at h
        obtain ⟨node, t₆, _, h⟩ := S.sbind_ok h
        cases node with
        | none => cases h
        | some node => cases h
      | false =>
        simp only [Bool.false_eq_true, if_false] at h
        obtain ⟨foeWins, t₆, h6, h⟩ := S.sbind_ok h
        have s6 : SamePosition t₅ t₆ := by
          refine ssteps_ite ?_ (ssteps_pure _) _ _ _ h6
          exact ssteps_bind (ssteps_onPosition (Position_Get6Neighbors_ro _ _))
            (fun _ => ssteps_onPosition (MoveIsWinning_ro _ _ _ _))
        have hpos : t₅.position_ = t₂.position_ :=
          (samePosition_trans (samePosition_trans s3 s4) s5).1
        have hfoe : env.options_.use_antimate_in_tree = true →
            FoeWinsAt env player t₂.position_ move → foeWins = true := by
          intro hanti hf
          rw [if_pos hanti] at h6
          obtain ⟨nb, t', h61, h62⟩ := S.sbind_ok h6
          obtain ⟨e1, hnb⟩ := onPosition_ro (Position_Get6Neighbors_ro _ _) h61
          subst e1
          obtain ⟨_, hwin⟩ := onPosition_ro (MoveIsWinning_ro _ _ _ _) h62
          rw [hpos] at hnb hwin
          obtain ⟨_, nb', hnb', hwin'⟩ := hf
          rw [hnb'] at hnb
          cases hnb
          rw [hwin'] at hwin
          cases hwin
          rfl
        obtain ⟨skip, t₇, h7, h⟩ := S.sbind_ok h
        have hres : ∀ {u u' : Search R} {x : S R Step},
            (∀ u₀ a u₁, x u₀ = SRes.ok a u₁ →
              a = Step.goesOn (if foeWins = true then env.kMoveIndexToCell move else am)
                (if foeWins = true then wrapInt32 (amc + 1) else amc)) →
            x u = SRes.ok (Step.goesOn am' amc') u' →
            (amc' = amc ∨ amc' = wrapInt32 (amc + 1)) ∧
              (env.options_.use_antimate_in_tree = true →
                FoeWinsAt env player t₂.position_ move → amc' = wrapInt32 (amc + 1)) := by
          intro u u' x hx hxu
          have := hx _ _ _ hxu
          injection this with _ e2
          subst e2
          constructor
          · cases foeWins with
            | false => exact Or.inl rfl
            | true => exact Or.inr rfl
          · intro hanti hf
            rw [hfoe hanti hf]
            rfl
        cases skip with
        | true =>
          rw [if_pos rfl] at h
          obtain ⟨r1, r2⟩ := hres (x := pure _) (fun _ _ _ hh => by cases hh; rfl) h
          refine ⟨?_, hk, r1, r2⟩
          intro hdeep
          simp only [hdeep, Bool.false_eq_true, if_false] at h7
          cases h7
        | false =>
          simp only [Bool.false_eq_true, if_false] at h
          obtain ⟨_, t₈, h8, h10⟩ := S.sbind_ok h
          have s8 := ssteps_setKidBias env _ _ _ _ _ _ h8
          obtain ⟨_, t₉, h9, h11⟩ := S.sbind_ok h10
          have s9 := ssteps_setKidPrior env _ _ _ _ h9
          obtain ⟨r1, r2⟩ := hres (x := pure _) (fun _ _ _ hh => by cases hh; rfl) h11
          refine ⟨?_, hk, r1, r2⟩
          intro hdeep
          simp only [hdeep, Bool.false_eq_true, if_false] at h7
          have e7 : t₇ = t₆ := by cases h7; rfl
          have e9 : t' = t₉ := by cases h11; rfl
          rw [e7] at s8
          rw [e9]
          exact samePosition_trans (samePosition_trans (samePosition_trans
            (samePosition_trans (samePosition_trans s3 s4) s5) s6) s8) s9

theorem wrapInt32_succ_of_le (amc : Int) (move : Nat) (h0 : 0 ≤ amc) (h1 : amc ≤ move)
    (hk : move < kNumMovesOnBoard) : wrapInt32 (amc + 1) = amc + 1 := by
  have : (move : Int) < 271 := by
    have : kNumMovesOnBoard = 271 := by decide
    omega
  unfold wrapInt32
  omega

/-- The first loop of `ExpandNode`, when it ends without a return: the count
of the winning moves of the opponent has not fallen and is at most the
number of the moves gone through; and without the deeper search for mates
the position is as before. -/
theorem expandLoop_goesOn (position_hash : Nat) (player : Player) :
    ∀ n move am (amc : Int) (t : Search R) am' (amc' : Int) (t' : Search R),
      expandLoop env position_hash player n move am amc t =
        SRes.ok (Step.goesOn am' amc') t' →
      0 ≤ amc → amc ≤ move →
      (env.options_.use_deeper_mate_in_tree = false → SamePosition t t') ∧
        amc ≤ amc' ∧ amc' ≤ (move + n : Nat) := by
  intro n
  induction n with
  | zero =>
    intro move am amc t am' amc' t' h h0 h1
    cases h
    exact ⟨fun _ => samePosition_refl _, le_refl _, by simpa using h1⟩
  | succ n ih =>
    intro move am amc t am' amc' t' h h0 h1
    rw [expandLoop_succ] at h
    cases hm : expandMove env position_hash player move am amc t with
    | fail e => rw [hm] at h; cases h
    | ok r t₁ =>
      rw [hm] at h
      cases r with
      | returns r => cases h
      | goesOn am₁ amc₁ =>
        simp only at h
        obtain ⟨hs, hk, hc, _⟩ := expandMove_goesOn env hm
        have hw := wrapInt32_succ_of_le amc move h0 h1 hk
        rw [hw] at hc
        have h0' : 0 ≤ amc₁ := by rcases hc with hc | hc <;> omega
        have h1' : amc₁ ≤ ((move + 1 : Nat) : Int) := by
          push_cast
          rcases hc with hc | hc <;> omega
        obtain ⟨hs', hle, hub⟩ := ih _ _ _ _ _ _ _ h h0' h1'
        have hge : amc ≤ amc₁ := by rcases hc with hc | hc <;> omega
        refine ⟨fun hd => samePosition_trans (hs hd) (hs' hd), by omega, ?_⟩
        have : move + 1 + n = move + (n + 1) := by omega
        rw [← this]; exact hub

/-- A move at which the first loop of `ExpandNode` finds the opponent
winning, in a run of the loop that ends without a return, has been
counted. -/
theorem expandLoop_counts (hanti : env.options_.use_antimate_in_tree = true)
    (position_hash : Nat) (player : Player) (n i am am1 : Nat) (amc amc1 : Int)
    (t₀ t1 t : Search R) (hi : i < n)
    (hloop : expandLoop env position_hash player n 0 0 0 t₀ = SRes.ok (Step.goesOn am amc) t)
    (hbefore : expandLoop env position_hash player i 0 0 0 t₀ =
      SRes.ok (Step.goesOn am1 amc1) t1)
    (hw : FoeWinsAt env player t1.position_ i) : 0 ≤ amc1 ∧ amc1 + 1 ≤ amc := by
  obtain ⟨_, h0, h1⟩ := expandLoop_goesOn env position_hash player _ _ _ _ _ _ _ _ hbefore
    (le_refl _) (by simp)
  have hn : n = i + ((n - i - 1) + 1) := by omega
  rw [hn, expandLoop_add, hbefore] at hloop
  simp only [Nat.zero_add] at hloop h1
  rw [expandLoop_succ] at hloop
  cases hm : expandMove env position_hash player i am1 amc1 t1 with
  | fail e => rw [hm] at hloop; cases hloop
  | ok r t₁ =>
    rw [hm] at hloop
    cases r with
    | returns r => cases hloop
    | goesOn am₁ amc₁ =>
      simp only at hloop
      obtain ⟨_, hk, _, hf⟩ := expandMove_goesOn env hm
      have hw' := hf hanti hw
      rw [wrapInt32_succ_of_le amc1 i h0 h1 hk] at hw'
      obtain ⟨_, h2, _⟩ := expandLoop_goesOn env position_hash player _ _ _ _ _ _ _ _ hloop
        (by omega) (by push_cast; omega)
      exact ⟨h0, by omega⟩

/-- A run of the first loop of `ExpandNode` that ends without a return has
gone on through every shorter run. -/
theorem expandLoop_initial (position_hash : Nat) (player : Player) (n i am : Nat) (amc : Int)
    (t₀ t : Search R) (hi : i ≤ n)
    (hloop : expandLoop env position_hash player n 0 0 0 t₀ = SRes.ok (Step.goesOn am amc) t) :
    ∃ am1 amc1 t1, expandLoop env position_hash player i 0 0 0 t₀ =
      SRes.ok (Step.goesOn am1 amc1) t1 := by
  have hn : n = i + (n - i) := by omega
  rw [hn, expandLoop_add] at hloop
  cases hp : expandLoop env position_hash player i 0 0 0 t₀ with
  | fail e => rw [hp] at hloop; cases hloop
  | ok r t₁ =>
    rw [hp] at hloop
    cases r with
    | returns r => cases hloop
    | goesOn am₁ amc₁ => exact ⟨_, _, _, rfl⟩

theorem victoryIsForced_two : VictoryIsForced (WonInNPlies 2) = true ∧
    DefeatIsForced (WonInNPlies 2) = false ∧ ResultIsForced (WonInNPlies 2) = true := by
  decide

theorem defeatIsForced_one : DefeatIsForced (LostInNPlies 1) = true ∧
    VictoryIsForced (LostInNPlies 1) = false ∧ ResultIsForced (LostInNPlies 1) = true := by
  decide

theorem victoryIsForced_zero : VictoryIsForced (WonInNPlies 0) = true ∧
    ResultIsForced (WonInNPlies 0) = true := by
  decide

theorem ExpandNode_eq (position_hash : Nat) (player : Player) (t : Search R) :
    ExpandNode env position_hash player t =
      match expandLoop env position_hash player env.num_available_moves_ 0 0 0
          { t with winning_kids_ := [] } with
      | SRes.ok (Step.returns b) t' => SRes.ok b t'
      | SRes.ok (Step.goesOn antimate_move antimate_move_count) t' =>
        (do
          let returned ← (if antimate_move_count > 1 then
              if position_hash ≠ kRootHash then do
                let node ← FindNode env position_hash
                match node with
                | none => S.fail Err.assertFailed
                | some node => do
                  updateNode node (fun n => n.UpdateUcbReward (WonInNPlies 2))
                  pure true
              else pure false
            else if antimate_move_count = 1 then do
              antimateLoop env position_hash player antimate_move env.num_available_moves_ 0
              pure false
            else pure false)
          if returned then pure true
          else do
            let t ← (fun t => SRes.ok t t : S R (Search R))
            winningKidsLoop t.winning_kids_
            pure true : S R Bool) t'
      | SRes.fail e => SRes.fail e := by
  unfold ExpandNode
  rw [S.sbind_apply]
  simp only
  rw [S.sbind_apply]
  cases expandLoop env position_hash player env.num_available_moves_ 0 0 0
      { t with winning_kids_ := [] } with
  | fail e => rfl
  | ok r t' => cases r <;> rfl

/-- The run of `ExpandNode` that meets a winning move of the player at the
move `k`, after the first loop has gone on through the moves before `k`: it
returns `true` there, with the reward `LostInNPlies(1)` in the expanded node
and `WonInNPlies(0)` in the kid. -/
theorem ExpandNode_winning_run (position_hash : Nat) (player : Player)
    (t t₁ : Search R) (k rest am : Nat) (amc : Int) (kid node nb : Nat) (m : WaitFreeHashMap)
    (hn : env.num_available_moves_ = k + (rest + 1))
    (hmate : env.options_.use_mate_in_tree = true) (hk : k < kNumMovesOnBoard)
    (hbefore : expandLoop env position_hash player k 0 0 0 { t with winning_kids_ := [] } =
      SRes.ok (Step.goesOn am amc) t₁)
    (hempty : Position.CellIsEmpty (env.kMoveIndexToCell k) t₁.position_ =
      Res.ok true t₁.position_)
    (hins : WaitFreeHashMap.InsertKey env.L t₁.nodes_
      (ModifyZobristHash env.kZobristHash position_hash player k) = (Outcome.slot kid, m))
    (hnb : Position.Get6Neighbors player (env.kMoveIndexToCell k) t₁.position_ =
      Res.ok nb t₁.position_)
    (hwin : Position.MoveIsWinning player (env.kMoveIndexToCell k) nb 0 t₁.position_ =
      Res.ok true t₁.position_)
    (hfind : WaitFreeHashMap.FindValue env.L m position_hash = Outcome.slot node) :
    ∃ t', ExpandNode env position_hash player t = SRes.ok true t' ∧
      t'.nodes_.keys = m.keys ∧ t'.position_ = t₁.position_ ∧
      (t'.nodes_.values node).ucb_reward_ = LostInNPlies 1 ∧
      DefeatIsForced (t'.nodes_.values node).ucb_reward_ = true ∧
      VictoryIsForced (t'.nodes_.values node).ucb_reward_ = false ∧
      (kid ≠ node → (t'.nodes_.values kid).ucb_reward_ = WonInNPlies 0) := by
  have hw := expandMove_winning env position_hash player k am amc t₁ kid node nb m hmate hk
    hempty hins hnb hwin hfind
  rw [ExpandNode_eq, hn, expandLoop_add, hbefore]
  simp only [Nat.zero_add]
  rw [expandLoop_succ, hw]
  refine ⟨_, rfl, rfl, rfl, ?_, ?_, ?_, ?_⟩
  · simp only [Function.update_same]
    exact UpdateUcbReward_forced _ _ defeatIsForced_one.2.2
  · simp only [Function.update_same]
    rw [UpdateUcbReward_forced _ _ defeatIsForced_one.2.2]
    exact defeatIsForced_one.1
  · simp only [Function.update_same]
    rw [UpdateUcbReward_forced _ _ defeatIsForced_one.2.2]
    exact defeatIsForced_one.2.1
  · intro hne
    simp only [Function.update_noteq hne, Function.update_same]
    exact UpdateUcbReward_forced _ _ victoryIsForced_zero.2

/-- The run of `ExpandNode` whose first loop ends without a return and has
found the opponent winning at the moves `i < j`: every node but the root
gets the reward `WonInNPlies(2)`; for the root the method goes on to the
loop over `winning_kids_`. -/
theorem ExpandNode_antimate_run (position_hash : Nat) (player : Player) (t t₁ : Search R)
    (am : Nat) (amc : Int) (i j : Nat)
    (hanti : env.options_.use_antimate_in_tree = true)
    (hloop : expandLoop env position_hash player env.num_available_moves_ 0 0 0
      { t with winning_kids_ := [] } = SRes.ok (Step.goesOn am amc) t₁)
    (hij : i < j) (hj : j < env.num_available_moves_)
    (hwi : ∀ a c t1, expandLoop env position_hash player i 0 0 0
      { t with winning_kids_ := [] } = SRes.ok (Step.goesOn a c) t1 →
      FoeWinsAt env player t1.position_ i)
    (hwj : ∀ a c t2, expandLoop env position_hash player j 0 0 0
      { t with winning_kids_ := [] } = SRes.ok (Step.goesOn a c) t2 →
      FoeWinsAt env player t2.position_ j) :
    (position_hash ≠ kRootHash → ∀ node,
      WaitFreeHashMap.FindValue env.L t₁.nodes_ position_hash = Outcome.slot node →
      ∃ t', ExpandNode env position_hash player t = SRes.ok true t' ∧
        t'.position_ = t₁.position_ ∧
        (t'.nodes_.values node).ucb_reward_ = WonInNPlies 2 ∧
        VictoryIsForced (t'.nodes_.values node).ucb_reward_ = true ∧
        DefeatIsForced (t'.nodes_.values node).ucb_reward_ = false) ∧
    (position_hash = kRootHash →
      ExpandNode env position_hash player t =
        (do winningKidsLoop t₁.winning_kids_; pure true : S R Bool) t₁) := by
  obtain ⟨a2, c2, t2, hpj⟩ := expandLoop_initial env position_hash player _ j _ _ _ _
    (Nat.le_of_lt hj) hloop
  obtain ⟨a1, c1, t1, hpi⟩ := expandLoop_initial env position_hash player _ i _ _ _ _
    (Nat.le_of_lt hij) hpj
  have h1 := expandLoop_counts env hanti position_hash player _ i _ _ _ _ _ _ _ hij hpj hpi
    (hwi _ _ _ hpi)
  have h2 := expandLoop_counts env hanti position_hash player _ j _ _ _ _ _ _ _ hj hloop hpj
    (hwj _ _ _ hpj)
  have hamc : amc > 1 := by omega
  constructor
  · intro hne node hfind
    rw [ExpandNode_eq, hloop]
    simp only [hamc, if_true, hne, ne_eq, not_false_eq_true]
    rw [S.sbind_apply, S.sbind_eq_of_ok (FindNode_ok env hfind)]
    refine ⟨_, rfl, rfl, ?_, ?_, ?_⟩
    · simp only [Function.update_same]
      exact UpdateUcbReward_forced _ _ victoryIsForced_two.2.2
    · simp only [Function.update_same]
      rw [UpdateUcbReward_forced _ _ victoryIsForced_two.2.2]
      exact victoryIsForced_two.1
    · simp only [Function.update_same]
      rw [UpdateUcbReward_forced _ _ victoryIsForced_two.2.2]
      exact victoryIsForced_two.2.1
  · intro he
    rw [ExpandNode_eq, hloop]
    simp only [hamc, if_true, he, ne_eq, not_true_eq_false, if_false, S.sbind_apply, S.spure_apply,
      Bool.false_eq_true]

/-- Without the deeper search for mates the first loop of `ExpandNode` finds
at every move the position that `ExpandNode` was called with. -/
theorem expandLoop_samePosition (hdeep : env.options_.use_deeper_mate_in_tree = false)
    (position_hash : Nat) (player : Player) (n a : Nat) (c : Int) (t t' : Search R)
    (h : expandLoop env position_hash player n 0 0 0 { t with winning_kids_ := [] } =
      SRes.ok (Step.goesOn a c) t') : t'.position_ = t.position_ ∧ t'.winning_kids_ = [] :=
  ((expandLoop_goesOn env position_hash player _ _ _ _ _ _ _ _ h (le_refl _) (by simp)).1
    hdeep)

end TranspositionTable

namespace TranspositionTable

variable {F R : Type} (env : SearchEnv F R)

/-- C19, amended: with `use_mate_in_tree`, when the first loop of
`TranspositionTable::ExpandNode` has gone on through the moves before `k`
(none of them was found winning and every empty cell among them got its
node), the cell of the move `k` is empty, `InsertKey` returns a node for it
and `Position::MoveIsWinning` says that the player wins there, then
`ExpandNode` returns `true` at once: no key is inserted for a later move,
the position is as the loop found it, the expanded node, found under
`position_hash`, has the reward `LostInNPlies(1)`, which satisfies
`DefeatIsForced` and not `VictoryIsForced`, and the kid, when it is another
node, has the reward `WonInNPlies(0)`. -/
theorem ExpandNode_stops_at_winning_move (position_hash : Nat) (player : Player)
    (t t₁ : Search R) (k rest am : Nat) (amc : Int) (kid node nb : Nat) (m : WaitFreeHashMap)
    (hn : env.num_available_moves_ = k + (rest + 1))
    (hmate : env.options_.use_mate_in_tree = true) (hk : k < kNumMovesOnBoard)
    (hbefore : expandLoop env position_hash player k 0 0 0 { t with winning_kids_ := [] } =
      SRes.ok (Step.goesOn am amc) t₁)
    (hempty : Position.CellIsEmpty (env.kMoveIndexToCell k) t₁.position_ =
      Res.ok true t₁.position_)
    (hins : WaitFreeHashMap.InsertKey env.L t₁.nodes_
      (ModifyZobristHash env.kZobristHash position_hash player k) = (Outcome.slot kid, m))
    (hnb : Position.Get6Neighbors player (env.kMoveIndexToCell k) t₁.position_ =
      Res.ok nb t₁.position_)
    (hwin : Position.MoveIsWinning player (env.kMoveIndexToCell k) nb 0 t₁.position_ =
      Res.ok true t₁.position_)
    (hfind : WaitFreeHashMap.FindValue env.L m position_hash = Outcome.slot node) :
    ∃ t', ExpandNode env position_hash player t = SRes.ok true t' ∧
      t'.nodes_.keys = m.keys ∧ t'.position_ = t₁.position_ ∧
      (t'.nodes_.values node).ucb_reward_ = LostInNPlies 1 ∧
      DefeatIsForced (t'.nodes_.values node).ucb_reward_ = true ∧
      VictoryIsForced (t'.nodes_.values node).ucb_reward_ = false ∧
      (kid ≠ node → (t'.nodes_.values kid).ucb_reward_ = WonInNPlies 0) :=
  ExpandNode_winning_run env position_hash player t t₁ k rest am amc kid node nb m hn hmate hk
    hbefore hempty hins hnb hwin hfind

/-- C20, amended: with `use_antimate_in_tree`, when the first loop of
`TranspositionTable::ExpandNode` ends without a return (no move of the
player was found winning, and every empty cell got its node) and at two
different moves the loop found the cell empty and the opponent winning there
at once, according to `Position::MoveIsWinning`, then for every
`position_hash` but `kRootHash` `ExpandNode` returns `true` and the expanded
node, found under `position_hash`, has the reward `WonInNPlies(2)`, which
satisfies `VictoryIsForced` and not `DefeatIsForced`; for `kRootHash` the
expanded node is not marked: `ExpandNode` goes on to its loop over
`winning_kids_`. Without the deeper search for mates the position that the
loop finds at a move is the one that `ExpandNode` was called with
(`expandLoop_samePosition`). -/
theorem ExpandNode_antimate_marks_victory (position_hash : Nat) (player : Player)
    (t t₁ : Search R) (am : Nat) (amc : Int) (i j : Nat)
    (hanti : env.options_.use_antimate_in_tree = true)
    (hloop : expandLoop env position_hash player env.num_available_moves_ 0 0 0
      { t with winning_kids_ := [] } = SRes.ok (Step.goesOn am amc) t₁)
    (hij : i < j) (hj : j < env.num_available_moves_)
    (hwi : ∀ a c t1, expandLoop env position_hash player i 0 0 0
      { t with winning_kids_ := [] } = SRes.ok (Step.goesOn a c) t1 →
      FoeWinsAt env player t1.position_ i)
    (hwj : ∀ a c t2, expandLoop env position_hash player j 0 0 0
      { t with winning_kids_ := [] } = SRes.ok (Step.goesOn a c) t2 →
      FoeWinsAt env player t2.position_ j) :
    (position_hash ≠ kRootHash → ∀ node,
      WaitFreeHashMap.FindValue env.L t₁.nodes_ position_hash = Outcome.slot node →
      ∃ t', ExpandNode env position_hash player t = SRes.ok true t' ∧
        t'.position_ = t₁.position_ ∧
        (t'.nodes_.values node).ucb_reward_ = WonInNPlies 2 ∧
        VictoryIsForced (t'.nodes_.values node).ucb_reward_ = true ∧
        DefeatIsForced (t'.nodes_.values node).ucb_reward_ = false) ∧
    (position_hash = kRootHash →
      ExpandNode env position_hash player t =
        (do winningKidsLoop t₁.winning_kids_; pure true : S R Bool) t₁) :=
  ExpandNode_antimate_run env position_hash player t t₁ am amc i j hanti hloop hij hj hwi hwj

end TranspositionTable

/-! ### The first loop of `ExpandNode` in a position without winning moves -/

theorem winsAt_ro (player : Player) (cell : Nat) : ReadOnly (winsAt player cell) :=
  ReadOnly.ro_bind (Position_Get6Neighbors_ro _ _) (fun _ => MoveIsWinning_ro _ _ _ _)

theorem onPosition_winsAt {R : Type} (player : Player) (cell : Nat) (b : Bool) (t : Search R)
    (h : (winsAt player cell t.position_).value = some b) :
    (do
      let neighborhood ← (onPosition (Position.Get6Neighbors player cell) : S R Nat)
      onPosition (Position.MoveIsWinning player cell neighborhood 0) : S R Bool) t =
      SRes.ok b t := by
  have h1 := (winsAt_ro player cell).eq_ok_of_value h
  unfold winsAt at h1
  obtain ⟨nb, s₁, h2, h3⟩ := bind_ok h1
  have e1 := Position_Get6Neighbors_ro player cell _ _ _ h2
  subst e1
  rw [S.sbind_eq_of_ok (onPosition_of_ok h2)]
  exact onPosition_of_ok h3

namespace TranspositionTable

variable {F R : Type} (env : SearchEnv F R)

theorem kidLoop_succ (position_hash : Nat) (player : Player) (empty : Nat → Bool)
    (n move : Nat) (t : Search R) :
    kidLoop env position_hash player empty (n + 1) move t =
      (kidMove env position_hash player move (empty move) >>= fun _ =>
        kidLoop env position_hash player empty n (move + 1)) t :=
  rfl

/-- At a move where `quietAt` holds the body of the first loop of
`ExpandNode` goes on, and leaves the search as `kidMove` does. -/
theorem expandMove_quiet (hdeep : env.options_.use_deeper_mate_in_tree = false)
    (position_hash : Nat) (player : Player) (move am : Nat) (amc : Int) (e : Bool)
    (t t' : Search R) (hk : move < kNumMovesOnBoard)
    (hq : quietAt env player t.position_ move = some e)
    (hkid : kidMove env position_hash player move e t = SRes.ok () t') :
    ∃ am' amc', expandMove env position_hash player move am amc t =
      SRes.ok (Step.goesOn am' amc') t' := by
  unfold quietAt at hq
  unfold expandMove
  rw [S.sbind_eq_of_ok (moveIndexToCell_ok env move hk t)]
  cases hE : (Position.CellIsEmpty (env.kMoveIndexToCell move) t.position_).value with
  | none => rw [hE] at hq; cases hq
  | some b =>
    rw [hE] at hq
    rw [S.sbind_eq_of_ok (onPosition_of_ok ((Position_CellIsEmpty_ro _).eq_ok_of_value hE))]
    cases b with
    | false =>
      simp only at hq
      cases hq
      unfold kidMove at hkid
      simp only [Bool.not_false, if_true] at hkid ⊢
      cases hkid
      exact ⟨am, amc, rfl⟩
    | true =>
      simp only at hq
      split at hq
      · rename_i hc
        cases hq
        unfold kidMove at hkid
        simp only [Bool.not_true, Bool.false_eq_true, if_false] at hkid ⊢
        obtain ⟨kid_hash, t₃, h3, hkid⟩ := S.sbind_ok hkid
        rw [S.sbind_eq_of_ok h3]
        have s3 := ssteps_zobrist env _ _ _ _ _ _ h3
        obtain ⟨kid, t₄, h4, hkid⟩ := S.sbind_ok hkid
        rw [S.sbind_eq_of_ok h4]
        have s4 := ssteps_InsertKey env _ _ _ _ h4
        have hp : t₄.position_ = t.position_ := s4.1.trans s3.1
        cases kid with
        | none => cases hkid
        | some kid =>
          simp only at hkid ⊢
          have hw : (if env.options_.use_mate_in_tree = true then (do
              let neighborhood ← (onPosition (Position.Get6Neighbors player
                (env.kMoveIndexToCell move)) : S R Nat)
              onPosition (Position.MoveIsWinning player (env.kMoveIndexToCell move)
                neighborhood 0) : S R Bool) else pure false) t₄ = SRes.ok false t₄ := by
            by_cases hm : env.options_.use_mate_in_tree = true
            · rw [if_pos hm]
              exact onPosition_winsAt _ _ _ _ (by rw [hp]; exact hc.1 hm)
            · rw [if_neg hm]
              rfl
          rw [S.sbind_eq_of_ok hw]
          simp only [Bool.false_eq_true, if_false]
          have hf : ∃ b, (if env.options_.use_antimate_in_tree = true then (do
              let neighborhood ← (onPosition (Position.Get6Neighbors (Opponent player)
                (env.kMoveIndexToCell move)) : S R Nat)
              onPosition (Position.MoveIsWinning (Opponent player) (env.kMoveIndexToCell move)
                neighborhood 0) : S R Bool) else pure false) t₄ = SRes.ok b t₄ := by
            by_cases hm : env.options_.use_antimate_in_tree = true
            · rw [if_pos hm]
              have h5 := hc.2 hm
              rw [Option.isSome_iff_exists] at h5
              obtain ⟨b, h5⟩ := h5
              exact ⟨b, onPosition_winsAt _ _ _ _ (by rw [hp]; exact h5)⟩
            · rw [if_neg hm]
              exact ⟨false, rfl⟩
          obtain ⟨b, hf⟩ := hf
          rw [S.sbind_eq_of_ok hf]
          simp only [hdeep, Bool.false_eq_true, if_false]
          rw [S.sbind_eq_of_ok (S.spure_apply false t₄)]
          simp only [Bool.false_eq_true, if_false]
          obtain ⟨u, t₅, h5, hkid⟩ := S.sbind_ok hkid
          rw [S.sbind_eq_of_ok h5, S.sbind_eq_of_ok hkid]
          exact ⟨_, _, rfl⟩
      · cases hq

/-- In a position where `quietAt` holds at every move the first loop of
`ExpandNode` goes on to its end, and leaves the search as `kidLoop` does. -/
theorem expandLoop_quiet (hdeep : env.options_.use_deeper_mate_in_tree = false)
    (position_hash : Nat) (player : Player) (empty : Nat → Bool) (s : State) :
    ∀ (n move am : Nat) (amc : Int) (t t' : Search R), move + n ≤ kNumMovesOnBoard →
      t.position_ = s →
      (∀ i, move ≤ i → i < move + n → quietAt env player s i = some (empty i)) →
      kidLoop env position_hash player empty n move t = SRes.ok () t' →
      ∃ am' amc', expandLoop env position_hash player n move am amc t =
        SRes.ok (Step.goesOn am' amc') t' := by
  intro n
  induction n with
  | zero =>
    intro move am amc t t' _ _ _ h
    cases h
    exact ⟨am, amc, rfl⟩
  | succ n ih =>
    intro move am amc t t' hn hs hq h
    rw [kidLoop_succ] at h
    obtain ⟨u, t₁, h1, h2⟩ := S.sbind_ok h
    obtain ⟨am₁, amc₁, h3⟩ := expandMove_quiet env hdeep position_hash player move am amc
      (empty move) t t₁ (by omega) (by rw [hs]; exact hq move (le_refl _) (by omega)) h1
    have hp := ((expandMove_goesOn env h3).1 hdeep).1
    obtain ⟨am', amc', h4⟩ := ih (move + 1) am₁ amc₁ t₁ t' (by omega) (hp.trans hs)
      (fun i h5 h6 => hq i (by omega) (by omega)) h2
    refine ⟨am', amc', ?_⟩
    rw [expandLoop_succ, h3]
    exact h4

end TranspositionTable

theorem all_range_offset (p : Nat → Bool) (off n : Nat)
    (h : (List.range n).all (fun i => p (off + i)) = true) :
    ∀ i, off ≤ i → i < off + n → p i = true := by
  intro i h1 h2
  rw [List.all_eq_true] at h
  have := h (i - off) (List.mem_range.mpr (by omega))
  rwa [Nat.add_sub_cancel' h1] at this

theorem SRes.exists_of_satisfies {R α : Type} {r : SRes R α} {test : α → Search R → Bool}
    (h : r.satisfies test = true) : ∃ a t, r = SRes.ok a t ∧ test a t = true := by
  cases r with
  | ok a t => exact ⟨a, t, rfl, h⟩
  | fail e => cases h

/-! ### The examples of the search -/

theorem exampleSearch_position (position : State) (position_hash : Nat) :
    (exampleSearch position position_hash).position_ = position :=
  rfl

theorem exampleSearch_cleared (position : State) (position_hash : Nat) :
    ({ exampleSearch position position_hash with winning_kids_ := [] } : Search Unit).position_ =
      position :=
  rfl

/-- In the example of C18 the selection finds the kid of the move 3, whose
reward is forced. -/
theorem forcedKid_selection :
    (exampleEnv.SelectKidForExploration (MctsEngine.atDescend exampleEnv 0 forcedKidSearch).nodes_
      kRootHash 0 Player.kWhite exampleEnv.num_available_moves_).has_forced_result = true ∧
    (exampleEnv.SelectKidForExploration (MctsEngine.atDescend exampleEnv 0 forcedKidSearch).nodes_
      kRootHash 0 Player.kWhite exampleEnv.num_available_moves_).kid = some 7 := by
  decide!

/-- In the example of C18 the root has 200 playouts, which with the one of
the virtual loss are more than `expand_after_n_playouts = 160`, no forced
reward and no visits left, and the kid in the slot 7 has the reward
`WonInNPlies(3)`. -/
theorem forcedKid_facts :
    ResultIsForced (forcedKidSearch.nodes_.values 0).ucb_reward_ = false ∧
    exampleEnv.options_.expand_after_n_playouts <
      ((MctsEngine.atDescend exampleEnv 0 forcedKidSearch).nodes_.values 0).ucb_num_simulations_ ∧
    (forcedKidSearch.nodes_.values 0).visits_to_go_ = 0 ∧
    ((MctsEngine.atDescend exampleEnv 0 forcedKidSearch).nodes_.values 7).ucb_reward_ =
      WonInNPlies 3 := by
  decide!

/-- The example of C18: the root of the search, past its expansion
threshold, has a kid with a victory forced in 3 plies; the next
`UpdateNodeAndGetReward` of the root returns `LostInNPlies(4)` and stores it
in the root, and the position is the start position as before. -/
theorem UpdateNodeAndGetReward_stores_forced_defeat_witness :
    (ResultIsForced (forcedKidSearch.nodes_.values 0).ucb_reward_ = false ∧
      exampleEnv.options_.expand_after_n_playouts <
        ((MctsEngine.atDescend exampleEnv 0 forcedKidSearch).nodes_.values 0).ucb_num_simulations_ ∧
      (forcedKidSearch.nodes_.values 0).visits_to_go_ = 0 ∧
      ((MctsEngine.atDescend exampleEnv 0 forcedKidSearch).nodes_.values 7).ucb_reward_ =
        WonInNPlies 3) ∧
    ∃ t', MctsEngine.UpdateNodeAndGetReward exampleEnv 1 kRootHash 0 Player.kWhite kBoardCenter
        271 forcedKidSearch = SRes.ok (LostInNPlies 4) t' ∧
      t'.position_ = State.start ∧ t'.moves_ = [] ∧
      (t'.nodes_.values 0).ucb_reward_ = LostInNPlies 4 ∧
      DefeatIsForced (t'.nodes_.values 0).ucb_reward_ = true :=
  ⟨forcedKid_facts,
    (UpdateNodeAndGetReward_stores_forced_defeat exampleEnv
      (MctsEngine.UpdateNodeAndGetReward exampleEnv 0) 0 kRootHash 0 7 Player.kWhite kBoardCenter
      271 3 forcedKidSearch forcedKid_facts.1 (by decide) forcedKid_facts.2.1
      forcedKid_facts.2.2.1 forcedKid_selection.1 forcedKid_selection.2 forcedKid_facts.2.2.2
      (by decide) (by decide)).2⟩

/-- In the position of `openRingPosition` White, who holds five of the six
neighbours of (12, 3), wins at once at (12, 2), the cell of the move 1, which
is empty and has the neighbourhood 9. -/
theorem openRing_wins :
    Position.CellIsEmpty (exampleEnv.kMoveIndexToCell 1) (openRingPosition Player.kWhite) =
      Res.ok true (openRingPosition Player.kWhite) ∧
    Position.Get6Neighbors Player.kWhite (exampleEnv.kMoveIndexToCell 1)
      (openRingPosition Player.kWhite) = Res.ok 9 (openRingPosition Player.kWhite) ∧
    Position.MoveIsWinning Player.kWhite (exampleEnv.kMoveIndexToCell 1) 9 0
      (openRingPosition Player.kWhite) = Res.ok true (openRingPosition Player.kWhite) :=
  ⟨(Position_CellIsEmpty_ro _).eq_ok_of_value (by decide!),
    (Position_Get6Neighbors_ro _ _).eq_ok_of_value (by decide!),
    (MoveIsWinning_ro _ _ _ _).eq_ok_of_value (by decide!)⟩

/-- In the example of C19 the first loop of `ExpandNode` goes on through the
move 0, and `InsertKey` then finds the slot 6 for the kid of the move 1 and
`FindNode` the slot 5 for the expanded node. -/
theorem openRing_before :
    ∃ t₁, TranspositionTable.expandLoop exampleEnv 5 Player.kWhite 1 0 0 0
        { exampleSearch (openRingPosition Player.kWhite) 5 with winning_kids_ := [] } =
        SRes.ok (TranspositionTable.Step.goesOn 0 0) t₁ ∧
      (WaitFreeHashMap.InsertKey 10 t₁.nodes_ 6).1 = Outcome.slot 6 ∧
      WaitFreeHashMap.FindValue 10 (WaitFreeHashMap.InsertKey 10 t₁.nodes_ 6).2 5 =
        Outcome.slot 5 := by
  have h : (TranspositionTable.expandLoop exampleEnv 5 Player.kWhite 1 0 0 0
      { exampleSearch (openRingPosition Player.kWhite) 5 with winning_kids_ := [] }).satisfies
      (fun r t₁ => decide (r = TranspositionTable.Step.goesOn 0 0) &&
        decide ((WaitFreeHashMap.InsertKey 10 t₁.nodes_ 6).1 = Outcome.slot 6) &&
        decide (WaitFreeHashMap.FindValue 10 (WaitFreeHashMap.InsertKey 10 t₁.nodes_ 6).2 5 =
          Outcome.slot 5)) = true := by
    decide!
  obtain ⟨r, t₁, h1, h2⟩ := SRes.exists_of_satisfies h
  simp only [Bool.and_eq_true, decide_eq_true_eq] at h2
  obtain ⟨⟨e, h3⟩, h4⟩ := h2
  subst e
  exact ⟨t₁, h1, h3, h4⟩

/-- The example of C19: White to move holds five of the six neighbours of
(12, 3) and wins at (12, 2), the cell of the move 1. `ExpandNode` returns
`true` at that move; the expanded node, in the slot 5, gets the reward
`LostInNPlies(1)` and the kid, in the slot 6, the reward `WonInNPlies(0)`. -/
theorem ExpandNode_stops_at_winning_move_witness :
    Position.MoveIsWinning Player.kWhite (exampleEnv.kMoveIndexToCell 1) 9 0
      (openRingPosition Player.kWhite) = Res.ok true (openRingPosition Player.kWhite) ∧
    ∃ t', TranspositionTable.ExpandNode exampleEnv 5 Player.kWhite
        (exampleSearch (openRingPosition Player.kWhite) 5) = SRes.ok true t' ∧
      (t'.nodes_.values 5).ucb_reward_ = LostInNPlies 1 ∧
      (t'.nodes_.values 6).ucb_reward_ = WonInNPlies 0 := by
  refine ⟨openRing_wins.2.2, ?_⟩
  obtain ⟨t₁, h1, h2, h3⟩ := openRing_before
  have hdeep : exampleEnv.options_.use_deeper_mate_in_tree = false := by decide!
  have hp : t₁.position_ = openRingPosition Player.kWhite :=
    (TranspositionTable.expandLoop_samePosition exampleEnv hdeep 5 Player.kWhite 1 0 0
      (exampleSearch (openRingPosition Player.kWhite) 5) t₁ h1).1.trans
      (exampleSearch_position _ _)
  have hmate : exampleEnv.options_.use_mate_in_tree = true := by decide!
  have hn : exampleEnv.num_available_moves_ = 1 + (269 + 1) := by decide!
  have hk : 1 < kNumMovesOnBoard := by decide!
  have hz : ModifyZobristHash exampleEnv.kZobristHash 5 Player.kWhite 1 = 6 := by decide!
  have hins : WaitFreeHashMap.InsertKey exampleEnv.L t₁.nodes_
      (ModifyZobristHash exampleEnv.kZobristHash 5 Player.kWhite 1) =
      (Outcome.slot 6, (WaitFreeHashMap.InsertKey 10 t₁.nodes_ 6).2) := by
    rw [hz]
    exact Prod.ext h2 rfl
  have hempty : Position.CellIsEmpty (exampleEnv.kMoveIndexToCell 1) t₁.position_ =
      Res.ok true t₁.position_ := by
    rw [hp]
    exact openRing_wins.1
  have hnb : Position.Get6Neighbors Player.kWhite (exampleEnv.kMoveIndexToCell 1) t₁.position_ =
      Res.ok 9 t₁.position_ := by
    rw [hp]
    exact openRing_wins.2.1
  have hwin : Position.MoveIsWinning Player.kWhite (exampleEnv.kMoveIndexToCell 1)
      ((9 : Nat) : Int) 0 t₁.position_ = Res.ok true t₁.position_ := by
    rw [hp]
    exact openRing_wins.2.2
  obtain ⟨t', h4, _, _, h5, _, _, h6⟩ :=
    TranspositionTable.ExpandNode_stops_at_winning_move exampleEnv 5 Player.kWhite
      (exampleSearch (openRingPosition Player.kWhite) 5) t₁ 1 269 0 0 6 5 9
      (WaitFreeHashMap.InsertKey 10 t₁.nodes_ 6).2 hn hmate hk h1 hempty hins hnb hwin h3
  exact ⟨t', h4, h5, h6 (by decide)⟩

/-- C19 fails as stated: in the position of `openRingPosition` White to move
wins at once at the cell of the move 1 and `use_mate_in_tree` is set;
`ExpandNode` returns `true`, and the reward of the expanded node, which
`FindNode` finds in the slot 5, does not satisfy `VictoryIsForced`. -/
theorem ExpandNode_mate_marks_defeat :
    exampleEnv.options_.use_mate_in_tree = true ∧
    Position.MoveIsWinning Player.kWhite (exampleEnv.kMoveIndexToCell 1) 9 0
      (openRingPosition Player.kWhite) = Res.ok true (openRingPosition Player.kWhite) ∧
    ∃ t', TranspositionTable.ExpandNode exampleEnv 5 Player.kWhite
        (exampleSearch (openRingPosition Player.kWhite) 5) = SRes.ok true t' ∧
      WaitFreeHashMap.FindValue 10 t'.nodes_ 5 = Outcome.slot 5 ∧
      VictoryIsForced (t'.nodes_.values 5).ucb_reward_ = false := by
  refine ⟨rfl, openRing_wins.2.2, ?_⟩
  have h : (TranspositionTable.ExpandNode exampleEnv 5 Player.kWhite
      (exampleSearch (openRingPosition Player.kWhite) 5)).satisfies
      (fun b t' => b && decide (WaitFreeHashMap.FindValue 10 t'.nodes_ 5 = Outcome.slot 5) &&
        !VictoryIsForced (t'.nodes_.values 5).ucb_reward_) = true := by
    decide!
  obtain ⟨b, t', h1, h2⟩ := SRes.exists_of_satisfies h
  simp only [Bool.and_eq_true, decide_eq_true_eq, Bool.not_eq_true'] at h2
  obtain ⟨⟨e, h3⟩, h4⟩ := h2
  subst e
  exact ⟨t', h1, h3, h4⟩

/-! ### C13: thin rings -/

theorem window_atom (r s a c : Nat) (hc : c < 2 ^ (5 - a)) :
    (r >>> (s + a)) &&& c = (((r >>> s) % 32) >>> a) &&& c := by
  apply Nat.eq_of_testBit_eq
  intro k
  have h32 : (32 : Nat) = 2 ^ 5 := rfl
  rw [Nat.testBit_and, Nat.testBit_and, Nat.testBit_shiftRight, Nat.testBit_shiftRight, h32,
    Nat.testBit_mod_two_pow, Nat.testBit_shiftRight]
  by_cases hk : c.testBit k = true
  · have hlt : a + k < 5 := by
      by_contra hge
      have : c < 2 ^ k := Nat.lt_of_lt_of_le hc (Nat.pow_le_pow_right (by norm_num) (by omega))
      rw [Nat.testBit_eq_false_of_lt this] at hk
      cases hk
    have e : s + a + k = s + (a + k) := by omega
    simp [hlt, e]
  · simp only [Bool.not_eq_true] at hk
    simp [hk]

theorem window_atom0 (r s c : Nat) (hc : c < 32) :
    (r >>> s) &&& c = ((r >>> s) % 32) &&& c := by
  have := window_atom r s 0 c (by simpa using hc)
  simpa using this

theorem and_and_one (a b c : Nat) : a &&& b &&& c = (a &&& c) &&& (b &&& c) := by
  apply Nat.eq_of_testBit_eq
  intro k
  simp only [Nat.testBit_and]
  cases a.testBit k <;> cases b.testBit k <;> cases c.testBit k <;> rfl

/-- The value of `Chain::ClosesAnyRing` at (x, y) depends on the five by five
cells around (x, y) only. -/
theorem closesAnyRing_congr (rows rows' : Nat → Nat) (s t s' t' : Nat)
    (h : ∀ j, j < 5 → (rows (t + j) >>> s) % 32 = (rows' (t' + j) >>> s') % 32) :
    closesAnyRing rows (s + 2) (t + 2) = closesAnyRing rows' (s' + 2) (t' + 2) := by
  have h0 := h 0 (by norm_num)
  have h1 := h 1 (by norm_num)
  have h2 := h 2 (by norm_num)
  have h3 := h 3 (by norm_num)
  have h4 := h 4 (by norm_num)
  simp only [Nat.add_zero] at h0
  unfold closesAnyRing
  simp only [PrevY, NextY]
  have e1 : s + 2 - 1 = s + 1 := rfl
  have e2 : s + 2 - 2 = s := rfl
  have e3 : t + 2 - 1 = t + 1 := rfl
  have e4 : t + 1 - 1 = t := rfl
  have e5 : t + 2 + 1 = t + 3 := rfl
  have e6 : t + 3 + 1 = t + 4 := rfl
  have e1' : s' + 2 - 1 = s' + 1 := rfl
  have e2' : s' + 2 - 2 = s' := rfl
  have e3' : t' + 2 - 1 = t' + 1 := rfl
  have e4' : t' + 1 - 1 = t' := rfl
  have e5' : t' + 2 + 1 = t' + 3 := rfl
  have e6' : t' + 3 + 1 = t' + 4 := rfl
  simp only [e1, e2, e3, e4, e5, e6, e1', e2', e3', e4', e5', e6']
  have a1 : ∀ (r s : Nat), (r >>> (s + 2)) &&& 3 = (((r >>> s) % 32) >>> 2) &&& 3 :=
    fun r s => window_atom r s 2 3 (by norm_num)
  have a2 : ∀ (r s : Nat), (r >>> (s + 1)) &&& 5 = (((r >>> s) % 32) >>> 1) &&& 5 :=
    fun r s => window_atom r s 1 5 (by norm_num)
  have a3 : ∀ (r s : Nat), (r >>> (s + 1)) &&& 3 = (((r >>> s) % 32) >>> 1) &&& 3 :=
    fun r s => window_atom r s 1 3 (by norm_num)
  have b : ∀ (r s c : Nat), c < 32 → (r >>> s) &&& c = ((r >>> s) % 32) &&& c :=
    fun r s c hc => window_atom0 r s c hc
  rw [a1 (rows (t + 1)), a2 (rows (t + 2)), a3 (rows (t + 3)),
    a1 (rows' (t' + 1)), a2 (rows' (t' + 2)), a3 (rows' (t' + 3)),
    and_and_one (rows (t + 2) >>> s), and_and_one (rows (t + 1) >>> s),
    and_and_one (rows' (t' + 2) >>> s'), and_and_one (rows' (t' + 1) >>> s'),
    b (rows t) s 12 (by norm_num), b (rows t) s 24 (by norm_num),
    b (rows (t + 1)) s 2 (by norm_num), b (rows (t + 1)) s 16 (by norm_num),
    b (rows (t + 2)) s 1 (by norm_num), b (rows (t + 2)) s 16 (by norm_num),
    b (rows (t + 3)) s 1 (by norm_num), b (rows (t + 3)) s 8 (by norm_num),
    b (rows (t + 4)) s 3 (by norm_num), b (rows (t + 4)) s 6 (by norm_num),
    b (rows' t') s' 12 (by norm_num), b (rows' t') s' 24 (by norm_num),
    b (rows' (t' + 1)) s' 2 (by norm_num), b (rows' (t' + 1)) s' 16 (by norm_num),
    b (rows' (t' + 2)) s' 1 (by norm_num), b (rows' (t' + 2)) s' 16 (by norm_num),
    b (rows' (t' + 3)) s' 1 (by norm_num), b (rows' (t' + 3)) s' 8 (by norm_num),
    b (rows' (t' + 4)) s' 3 (by norm_num), b (rows' (t' + 4)) s' 6 (by norm_num),
    h0, h1, h2, h3, h4]

theorem patternRow_testBit : ∀ mask, mask < 64 → ∀ j, j < 5 → ∀ k, k < 5 →
    (patternRow mask j).testBit k = patternBit mask k j := by
  decide!

theorem patternRow_lt : ∀ mask, mask < 64 → ∀ j, j < 5 → patternRow mask j < 32 := by
  decide!

theorem closesAnyRing_patternRow : ∀ mask, mask < 64 →
    (closesAnyRing (patternRow mask) 2 2 = 4096 ∧ SlowRing mask = true) ∨
      (closesAnyRing (patternRow mask) 2 2 = 0 ∧ SlowRing mask = false) := by
  decide!

theorem window_of_pattern (rows : Nat → Nat) (s t mask : Nat) (hm : mask < 64)
    (h : HoldsPattern rows (s + 2) (t + 2) mask) (j : Nat) (hj : j < 5) :
    (rows (t + j) >>> s) % 32 = patternRow mask j := by
  apply Nat.eq_of_testBit_eq
  intro k
  have h32 : (32 : Nat) = 2 ^ 5 := rfl
  rw [h32, Nat.testBit_mod_two_pow, Nat.testBit_shiftRight]
  by_cases hk : k < 5
  · have := h k hk j hj
    have e1 : t + 2 + j - 2 = t + j := by omega
    have e2 : s + 2 + k - 2 = s + k := by omega
    rw [e1, e2] at this
    rw [this, patternRow_testBit mask hm j hj k hk]
    simp [hk]
  · have hlt : patternRow mask j < 2 ^ k :=
      Nat.lt_of_lt_of_le (patternRow_lt mask hm j hj)
        (by rw [h32]; exact Nat.pow_le_pow_right (by norm_num) (by omega))
    rw [Nat.testBit_eq_false_of_lt hlt]
    simp [hk]

/-- On a stone mask that holds a pattern of the test around the cell,
`Chain::ClosesAnyRing` returns `1 << 12` when `SlowRing` holds for the
pattern and 0 when it does not. -/
theorem closesAnyRing_pattern (rows : Nat → Nat) (x y mask : Nat) (hx : 2 ≤ x) (hy : 2 ≤ y)
    (hm : mask < 64) (h : HoldsPattern rows x y mask) :
    (closesAnyRing rows x y = 4096 ∧ SlowRing mask = true) ∨
      (closesAnyRing rows x y = 0 ∧ SlowRing mask = false) := by
  obtain ⟨s, rfl⟩ : ∃ s, x = s + 2 := ⟨x - 2, by omega⟩
  obtain ⟨t, rfl⟩ : ∃ t, y = t + 2 := ⟨y - 2, by omega⟩
  have e : closesAnyRing rows (s + 2) (t + 2) = closesAnyRing (patternRow mask) (0 + 2) (0 + 2) := by
    apply closesAnyRing_congr
    intro j hj
    rw [window_of_pattern rows s t mask hm h j hj, Nat.zero_add, Nat.shiftRight_zero,
      Nat.mod_eq_of_lt (patternRow_lt mask hm j hj)]
  rw [e]
  exact closesAnyRing_patternRow mask hm

/-! ### The runs of the methods of `Chain` and `ChainSet` -/

theorem M.mbind_eq_of_ok {α β : Type} {x : M α} {f : α → M β} {s s' : State} {a : α}
    (h : x s = Res.ok a s') : (x >>= f) s = f a s' := by
  rw [bind_apply, h]

theorem NewestVersion_newest {p ch : Nat} {s : State} (h0 : 0 < ch) (h1 : ch < s.size p)
    (hn : s.newer p ch = 0) : ChainSet.NewestVersion p ch s = Res.ok ch s := by
  rw [NewestVersion_apply, if_pos (Nat.ne_of_gt h0)]
  obtain ⟨k, hk⟩ : ∃ k, s.size p = k + 1 := ⟨s.size p - 1, by omega⟩
  rw [hk, newestLoop_succ, if_pos ⟨h0, by omega⟩, if_neg (by rw [hn]; simp)]

theorem GetRingMask_run (p ch x y : Nat) (s : State)
    (hfree : (chainRows s p ch y).testBit x = false) :
    Chain.GetRingMask p ch x y s = Res.ok (ringMask (chainRows s p ch) x y) s := by
  unfold Chain.GetRingMask Chain.ClosesAnyRing ringMask
  simp only [bind_assoc', readChainRows_bind, assert_bind, BoardBitmask.get_eq, hfree,
    Bool.not_false, if_true, pure_bind']
  by_cases hr : closesAnyRing (chainRows s p ch) x y ≠ 0
  · rw [if_pos hr, if_pos hr, readChainRows_bind, pure_apply]
  · rw [if_neg hr, if_neg hr, pure_apply]

theorem closesAnyRing_cases (rows : Nat → Nat) (x y : Nat) :
    closesAnyRing rows x y = 0 ∨ closesAnyRing rows x y = 4096 := by
  unfold closesAnyRing
  simp only
  split_ifs <;> simp

theorem closesBenzeneRing_cases (rows : Nat → Nat) (x y : Nat) :
    closesBenzeneRing rows x y = 0 ∨ closesBenzeneRing rows x y = 8192 := by
  unfold closesBenzeneRing
  simp only
  split_ifs <;> simp

theorem ringMask_and (rows : Nat → Nat) (x y : Nat) : ringMask rows x y &&& 4095 = 0 := by
  unfold ringMask
  rcases closesAnyRing_cases rows x y with h1 | h1 <;>
    rcases closesBenzeneRing_cases rows x y with h2 | h2 <;> simp only [h1, h2] <;> decide

theorem ringMask_lt (rows : Nat → Nat) (x y : Nat) : ringMask rows x y < 16384 := by
  unfold ringMask
  rcases closesAnyRing_cases rows x y with h1 | h1 <;>
    rcases closesBenzeneRing_cases rows x y with h2 | h2 <;> simp only [h1, h2] <;> decide

theorem ringMask_flag (rows : Nat → Nat) (x y : Nat) :
    ((ringMask rows x y >>> 12) &&& 1 ≠ 0) ↔ closesAnyRing rows x y ≠ 0 := by
  unfold ringMask
  rcases closesAnyRing_cases rows x y with h1 | h1 <;>
    rcases closesBenzeneRing_cases rows x y with h2 | h2 <;> simp only [h1, h2] <;> decide

theorem ringMask_eq_zero (rows : Nat → Nat) (x y : Nat) (h : closesAnyRing rows x y = 0) :
    ringMask rows x y = 0 := by
  unfold ringMask
  rw [h]
  rfl

/-- A run of `Chain::AddStoneReversibly` on a cell of the board that is not
in the stone mask of the chain. -/
theorem AddStoneReversibly_run (p ch x y : Nat) (s : State) (hb : LiesOnBoard x y = true)
    (hfree : (chainRows s p ch y).testBit x = false) :
    ∃ s', Chain.AddStoneReversibly p ch x y s = Res.ok () s' ∧ s'.size = s.size ∧
      s'.mem (Loc.chainEcr p ch) = s.mem (Loc.chainEcr p ch) |||
        (GetMaskOfEdgesAndCorners (XYToCell x y) ||| ringMask (chainRows s p ch) x y) ∧
      s'.mem (Loc.chainRow p ch y) = setBit (s.mem (Loc.chainRow p ch y)) x ∧
      s'.mem (Loc.chainNumStones p ch) = (s.mem (Loc.chainNumStones p ch) + 1) % 4294967296 ∧
      ∀ loc, loc ≠ Loc.chainEcr p ch → loc ≠ Loc.chainRow p ch y →
        loc ≠ Loc.chainNumStones p ch → s'.mem loc = s.mem loc := by
  have hrow : s.mem (Loc.chainRow p ch y) &&& (1 <<< x) = 0 := by
    by_contra hne
    have : (chainRows s p ch y).testBit x = true :=
      (and_one_shiftLeft_ne_zero _ _).mp hne
    rw [hfree] at this
    cases this
  unfold Chain.AddStoneReversibly
  rw [assert_bind, if_pos hb, M.mbind_eq_of_ok (GetRingMask_run p ch x y s hfree)]
  generalize GetMaskOfEdgesAndCorners (XYToCell x y) ||| ringMask (chainRows s p ch) x y = mask
  by_cases hm : mask ≠ 0
  · simp only [hm, ne_eq, not_false_eq_true, if_true, bind_assoc', Remember_bind, readW_bind,
      writeW_bind, assert_bind, writeW_apply, mem_write, mem_remember, Function.update_apply,
      reduceCtorEq, if_false, hrow, decide_True]
    refine ⟨_, rfl, rfl, ?_, ?_, ?_, ?_⟩
    · simp [Function.update_apply]
    · simp [Function.update_apply]
    · simp [Function.update_apply]
    · intro loc h1 h2 h3
      simp [Function.update_apply, h1, h2, h3]
  · rw [not_not] at hm
    subst hm
    simp only [ne_eq, not_true_eq_false, if_false, bind_assoc', Remember_bind, readW_bind,
      writeW_bind, assert_bind, writeW_apply, mem_write, mem_remember, Function.update_apply,
      reduceCtorEq, hrow, decide_True, if_true, pure_bind']
    refine ⟨_, rfl, rfl, ?_, ?_, ?_, ?_⟩
    · simp [Function.update_apply]
    · simp [Function.update_apply]
    · simp [Function.update_apply]
    · intro loc h1 h2 h3
      simp [Function.update_apply, h2, h3]

theorem chainRows_writeRows_ne (s : State) (p ch ch' : Nat) (rows : Nat → Nat) (h : ch' ≠ ch) :
    chainRows (s.writeRows p ch rows) p ch' = chainRows s p ch' := by
  funext y
  show (s.writeRows p ch rows).mem (Loc.chainRow p ch' y) = s.mem (Loc.chainRow p ch' y)
  rw [mem_writeRows_row]
  simp [h]

theorem chainRows_write_numStones (s : State) (p q ch ch' v : Nat) :
    chainRows (s.write (Loc.chainNumStones q ch') v) p ch = chainRows s p ch := by
  funext y
  show (s.write (Loc.chainNumStones q ch') v).mem (Loc.chainRow p ch y) = _
  rw [mem_write, Function.update_apply, if_neg (by intro h; cases h)]
  rfl

theorem chainRows_setSize (s : State) (p q n ch : Nat) :
    chainRows (s.setSize q n) p ch = chainRows s p ch := rfl

/-- A run of `ChainSet::MergeChainsReversibly` on two different chains that
no chain supersedes, the first with the stone at (x, y) and the second
without it. -/
theorem MergeChainsReversibly_run (p x y a b : Nat) (s : State) (hb : LiesOnBoard x y = true)
    (ha0 : 0 < a) (ha1 : a < s.size p) (han : s.newer p a = 0)
    (hb0 : 0 < b) (hb1 : b < s.size p) (hbn : s.newer p b = 0) (hab : a ≠ b)
    (hsize : s.size p < kChainNumLimit)
    (hin : (chainRows s p a y).testBit x = true)
    (hfree : (chainRows s p b y).testBit x = false) :
    ∃ s', ChainSet.MergeChainsReversibly p x y a b s = Res.ok (s.size p) s' ∧
      s'.size p = s.size p + 1 ∧ s'.newer p (s.size p) = 0 ∧
      s'.mem (Loc.chainEcr p (s.size p)) = s.mem (Loc.chainEcr p a) |||
        s.mem (Loc.chainEcr p b) ||| ringMask (chainRows s p b) x y := by
  unfold ChainSet.MergeChainsReversibly
  rw [M.mbind_eq_of_ok (NewestVersion_newest ha0 ha1 han), assert_bind,
    if_pos (decide_eq_true rfl), M.mbind_eq_of_ok (NewestVersion_newest hb0 hb1 hbn), assert_bind,
    if_pos (decide_eq_true rfl), if_neg hab, getSize_bind, assert_bind,
    if_pos (decide_eq_true hsize), pushChain_bind]
  unfold Chain.ComputeUnion
  simp only [bind_assoc', assert_bind, hb, if_true, readChainRows_bind]
  have hin' : BoardBitmask.get (chainRows (s.setSize p (s.size p + 1)) p a) x y = true := by
    rw [BoardBitmask.get_eq]
    exact hin
  have hfree' : BoardBitmask.get (chainRows (s.setSize p (s.size p + 1)) p b) x y = false := by
    rw [BoardBitmask.get_eq]
    exact hfree
  rw [hin', hfree']
  simp only [if_true, Bool.not_false, writeChainRows_bind, readW_bind, writeW_bind]
  rw [M.mbind_eq_of_ok (GetRingMask_run p b x y _ (by
    rw [chainRows_write_numStones, chainRows_writeRows_ne _ _ _ _ _ (Nat.ne_of_lt hb1)]
    exact hfree))]
  unfold Chain.SetNewerVersionReversibly
  have hne0 : s.size p ≠ 0 := by omega
  simp only [bind_assoc', assert_bind, writeW_bind, writeByte_bind, RememberByte_bind, hne0,
    ne_eq, not_false_eq_true, decide_True, if_true, pure_apply, writeByte_apply]
  refine ⟨_, rfl, ?_, ?_, ?_⟩
  · simp [State.setSize, State.write, State.remember, State.writeRows]
  · have h1 : Loc.chainNewer p a ≠ Loc.chainNewer p (s.size p) := by
      intro h
      injection h with _ h
      omega
    have h2 : Loc.chainNewer p b ≠ Loc.chainNewer p (s.size p) := by
      intro h
      injection h with _ h
      omega
    simp [State.newer, State.setSize, State.write, State.remember, State.writeRows,
      Function.update_apply, h1.symm, h2.symm, getByte_setByte_zero]
  · simp only [chainRows_write_numStones, chainRows_writeRows_ne _ _ _ _ _ (Nat.ne_of_lt hb1),
      chainRows_setSize]
    simp [State.setSize, State.write, State.remember, State.writeRows, Function.update_apply]

theorem flag_iff (e : Nat) : (e >>> 12) &&& 1 ≠ 0 ↔ e.testBit 12 = true := by
  unfold Nat.testBit
  rw [Nat.and_comm]
  simp

theorem ring_run (p ch : Nat) (s : State) (h0 : 0 < ch) (h1 : ch < s.size p)
    (hn : s.newer p ch = 0) :
    ChainSet.ring p ch s = Res.ok ((s.mem (Loc.chainEcr p ch)).testBit 12) s := by
  unfold ChainSet.ring
  rw [M.mbind_eq_of_ok (NewestVersion_newest h0 h1 hn), readW_bind, pure_apply]
  congr 1
  cases h : (s.mem (Loc.chainEcr p ch)).testBit 12
  · rw [decide_eq_false_iff_not, flag_iff, h]
    simp
  · rw [decide_eq_true_iff, flag_iff, h]

theorem patternBit_centre : ∀ mask, mask < 64 → patternBit mask 2 2 = false := by
  decide!

theorem GetMaskOfEdgesAndCorners_testBit (cell : Nat) :
    (GetMaskOfEdgesAndCorners cell).testBit 12 = false :=
  Nat.testBit_eq_false_of_lt (GetMaskOfEdgesAndCorners_lt cell)

theorem ringMask_testBit (rows : Nat → Nat) (x y : Nat) :
    (ringMask rows x y).testBit 12 = decide (closesAnyRing rows x y ≠ 0) := by
  cases h : (ringMask rows x y).testBit 12
  · symm
    rw [decide_eq_false_iff_not, ← ringMask_flag, flag_iff, h]
    simp
  · symm
    rw [decide_eq_true_iff, ← ringMask_flag, flag_iff, h]

theorem newer_of_mem_eq {s s' : State} {p ch : Nat}
    (h : s'.mem (Loc.chainNewer p ch) = s.mem (Loc.chainNewer p ch)) :
    s'.newer p ch = s.newer p ch := by
  unfold State.newer
  rw [h]

/-- C13: a chain `index1` that no chain supersedes holds, in the five by five
cells around the cell (x, y) of the board, the stones of a pattern `mask` of
the test `ChainSet_sets_thin_ring_correctly` on the six neighbours of (x, y)
and no other stone, and its ring flag is not set; a second such chain
`index2` holds no stone there. Then `AddStoneToChainReversibly(x, y,
index1)` returns, and afterwards `ring(index1)` is `SlowRing(mask)`; and
`AddStoneToChainReversibly(x, y, index2)` followed by
`MergeChainsReversibly(x, y, index2, index1)` returns a chain `index` for
which `ring(index)` is `SlowRing(mask)`. -/
theorem thin_ring_flag_matches_SlowRing (p index1 index2 x y mask : Nat) (s : State)
    (hb : LiesOnBoard x y = true) (hm : mask < 64)
    (h1 : (s.view p).IsNewest index1) (h2 : (s.view p).IsNewest index2) (hne : index1 ≠ index2)
    (hsize : s.size p < kChainNumLimit)
    (hp1 : HoldsPattern (chainRows s p index1) x y mask)
    (hp2 : HoldsPattern (chainRows s p index2) x y 0)
    (hr1 : ChainSet.ring p index1 s = Res.ok false s)
    (hr2 : ChainSet.ring p index2 s = Res.ok false s) :
    (∃ s', ChainSet.AddStoneToChainReversibly p x y index1 s = Res.ok () s' ∧
      ChainSet.ring p index1 s' = Res.ok (SlowRing mask) s') ∧
    ∃ s₁ index s₂, ChainSet.AddStoneToChainReversibly p x y index2 s = Res.ok () s₁ ∧
      ChainSet.MergeChainsReversibly p x y index2 index1 s₁ = Res.ok index s₂ ∧
      ChainSet.ring p index s₂ = Res.ok (SlowRing mask) s₂ := by
  obtain ⟨h10, h11, h1n⟩ := h1
  obtain ⟨h20, h21, h2n⟩ := h2
  replace h11 : index1 < s.size p := h11
  replace h21 : index2 < s.size p := h21
  replace h1n : s.newer p index1 = 0 := h1n
  replace h2n : s.newer p index2 = 0 := h2n
  have hx : 2 ≤ x ∧ 2 ≤ y := by
    unfold LiesOnBoard at hb
    simp only [Bool.and_eq_true, decide_eq_true_eq] at hb
    have e1 : ((kGapLeft : Nat) : Int) = 2 := rfl
    have e2 : ((kGapAround : Nat) : Int) = 2 := rfl
    omega
  rw [ring_run p index1 s h10 h11 h1n] at hr1
  rw [ring_run p index2 s h20 h21 h2n] at hr2
  injection hr1 with hr1
  injection hr2 with hr2
  have hc1 : (chainRows s p index1 y).testBit x = false := by
    have := hp1 2 (by norm_num) 2 (by norm_num)
    rw [patternBit_centre mask hm] at this
    exact this
  have hc2 : (chainRows s p index2 y).testBit x = false := by
    have := hp2 2 (by norm_num) 2 (by norm_num)
    rw [patternBit_centre 0 (by norm_num)] at this
    exact this
  have hring1 : (ringMask (chainRows s p index1) x y).testBit 12 = SlowRing mask := by
    rw [ringMask_testBit]
    rcases closesAnyRing_pattern _ x y mask hx.1 hx.2 hm hp1 with ⟨e1, e2⟩ | ⟨e1, e2⟩
    · rw [e1, e2]
      rfl
    · rw [e1, e2]
      rfl
  have hring2 : ringMask (chainRows s p index2) x y = 0 := by
    apply ringMask_eq_zero
    rcases closesAnyRing_pattern _ x y 0 hx.1 hx.2 (by norm_num) hp2 with ⟨_, e2⟩ | ⟨e1, _⟩
    · exact absurd e2 (by decide)
    · exact e1
  constructor
  · obtain ⟨s', hrun, hsz, hecr, _, _, hother⟩ := AddStoneReversibly_run p index1 x y s hb hc1
    refine ⟨s', ?_, ?_⟩
    · unfold ChainSet.AddStoneToChainReversibly
      rw [M.mbind_eq_of_ok (NewestVersion_newest h10 h11 h1n), assert_bind,
        if_pos (decide_eq_true rfl)]
      exact hrun
    · have hn' : s'.newer p index1 = 0 := by
        rw [newer_of_mem_eq (hother _ (by intro h; cases h) (by intro h; cases h)
          (by intro h; cases h))]
        exact h1n
      rw [ring_run p index1 s' h10 (by rw [hsz]; exact h11) hn', hecr, Nat.testBit_or,
        Nat.testBit_or, hr1, GetMaskOfEdgesAndCorners_testBit, hring1]
      rfl
  · obtain ⟨s₁, hrun, hsz, hecr, hrow, _, hother⟩ := AddStoneReversibly_run p index2 x y s hb hc2
    have hrows1 : chainRows s₁ p index1 = chainRows s p index1 := by
      funext r
      exact hother _ (by intro h; cases h) (by intro h; injection h with _ h; exact hne h)
        (by intro h; cases h)
    have hsz' : s₁.size p = s.size p := by rw [hsz]
    obtain ⟨s₂, hmerge, hsz2, hnew2, hecr2⟩ := MergeChainsReversibly_run p x y index2 index1 s₁ hb
      h20 (by rw [hsz']; exact h21)
      (by rw [newer_of_mem_eq (hother _ (by intro h; cases h) (by intro h; cases h)
        (by intro h; cases h))]; exact h2n)
      h10 (by rw [hsz']; exact h11)
      (by rw [newer_of_mem_eq (hother _ (by intro h; cases h) (by intro h; cases h)
        (by intro h; cases h))]; exact h1n)
      (Ne.symm hne) (by rw [hsz']; exact hsize)
      (by
        show (s₁.mem (Loc.chainRow p index2 y)).testBit x = true
        rw [hrow, testBit_setBit]
        simp)
      (by rw [hrows1]; exact hc1)
    refine ⟨s₁, s₁.size p, s₂, ?_, hmerge, ?_⟩
    · unfold ChainSet.AddStoneToChainReversibly
      rw [M.mbind_eq_of_ok (NewestVersion_newest h20 h21 h2n), assert_bind,
        if_pos (decide_eq_true rfl)]
      exact hrun
    · rw [ring_run p (s₁.size p) s₂ (by rw [hsz']; omega) (by rw [hsz2]; omega) hnew2, hecr2,
        hecr, hrows1, hring2,
        hother (Loc.chainEcr p index1) (by intro h; injection h with _ h; exact hne h)
          (by intro h; cases h) (by intro h; cases h)]
      simp only [Nat.testBit_or, hr1, hr2, GetMaskOfEdgesAndCorners_testBit, hring1,
        Nat.zero_testBit, Bool.false_or, Bool.or_false]

set_option maxRecDepth 100000 in
/-- The chain set of the test for the pattern 5: the chains 1 and 2 are the
newest ones, the first holds the pattern around the middle of the board, the
second holds nothing there, and no ring flag is set. -/
theorem thinRingState_facts :
    LiesOnBoard kMiddleColumn kMiddleRow = true ∧
    (thinRingState.view 0).IsNewest 1 ∧ (thinRingState.view 0).IsNewest 2 ∧
    thinRingState.size 0 < kChainNumLimit ∧
    HoldsPattern (chainRows thinRingState 0 1) kMiddleColumn kMiddleRow 5 ∧
    HoldsPattern (chainRows thinRingState 0 2) kMiddleColumn kMiddleRow 0 ∧
    (thinRingState.mem (Loc.chainEcr 0 1)).testBit 12 = false ∧
    (thinRingState.mem (Loc.chainEcr 0 2)).testBit 12 = false ∧
    SlowRing 5 = true := by
  unfold ChainView.IsNewest
  decide!

/-- The example of C13: the pattern 5 of the test, the neighbours 0 and 2 of
the cell in the middle of the board, for which `SlowRing` holds. -/
theorem thin_ring_flag_matches_SlowRing_witness :
    (LiesOnBoard kMiddleColumn kMiddleRow = true ∧
      HoldsPattern (chainRows thinRingState 0 1) kMiddleColumn kMiddleRow 5 ∧
      HoldsPattern (chainRows thinRingState 0 2) kMiddleColumn kMiddleRow 0 ∧
      SlowRing 5 = true) ∧
    (∃ s', ChainSet.AddStoneToChainReversibly 0 kMiddleColumn kMiddleRow 1 thinRingState =
        Res.ok () s' ∧ ChainSet.ring 0 1 s' = Res.ok (SlowRing 5) s') ∧
    ∃ s₁ index s₂,
      ChainSet.AddStoneToChainReversibly 0 kMiddleColumn kMiddleRow 2 thinRingState =
        Res.ok () s₁ ∧
      ChainSet.MergeChainsReversibly 0 kMiddleColumn kMiddleRow 2 1 s₁ = Res.ok index s₂ ∧
      ChainSet.ring 0 index s₂ = Res.ok (SlowRing 5) s₂ := by
  obtain ⟨hb, h1, h2, hsize, hp1, hp2, hr1, hr2, hslow⟩ := thinRingState_facts
  refine ⟨⟨hb, hp1, hp2, hslow⟩, ?_⟩
  exact thin_ring_flag_matches_SlowRing 0 1 2 kMiddleColumn kMiddleRow 5 thinRingState hb
    (by norm_num) h1 h2 (by norm_num) hsize hp1 hp2
    (by rw [ring_run 0 1 thinRingState h1.1 h1.2.1 h1.2.2, hr1])
    (by rw [ring_run 0 2 thinRingState h2.1 h2.2.1 h2.2.2, hr2])

/-! ### The moves of a player on the chains: the methods and the model -/

theorem Chains.chains_ext {c d : Chains} (hv : c.view = d.view) (hn : ∀ k, c.num k = d.num k) :
    c = d := by
  cases c
  cases d
  simp only at hv hn
  rw [hv, funext hn]

theorem GetRingMask_exact {p ch x y : Nat} {s : State} {r : Nat} {s' : State}
    (h : Chain.GetRingMask p ch x y s = Res.ok r s') :
    s' = s ∧ r = ringMask (chainRows s p ch) x y ∧ (chainRows s p ch y).testBit x = false := by
  have hfree : (chainRows s p ch y).testBit x = false := by
    unfold Chain.GetRingMask Chain.ClosesAnyRing at h
    simp only [bind_assoc', readChainRows_bind, assert_bind, ite_fail_eq_ok] at h
    have := h.1
    rw [BoardBitmask.get_eq] at this
    simpa using this
  rw [GetRingMask_run p ch x y s hfree] at h
  cases h
  exact ⟨rfl, rfl, hfree⟩

theorem AddStoneFast_chains {p ch x y : Nat} {s : State} {u : Unit} {s' : State}
    (h : Chain.AddStoneFast p ch x y s = Res.ok u s') :
    s'.chains p = (s.chains p).addStone ch x y := by
  unfold Chain.AddStoneFast at h
  rw [assert_bind, ite_fail_eq_ok] at h
  obtain ⟨_, h⟩ := h
  obtain ⟨ring, s₁, h1, h⟩ := bind_ok h
  obtain ⟨e1, e2, _⟩ := GetRingMask_exact h1
  rw [e1, e2] at h
  clear h1 e1 e2 s₁ ring
  simp only [bind_assoc', readW_bind, writeW_bind, assert_bind, ite_fail_eq_ok, writeW_apply,
    Res.ok.injEq, true_and] at h
  obtain ⟨_, h⟩ := h
  subst h
  apply Chains.chains_ext
  · apply ChainView.ext'
    all_goals intros
    all_goals try simp [State.chains, Chains.addStone, ChainView.addStone, Function.update_apply,
      chainRows]
    all_goals split_ifs <;> simp_all
    all_goals rfl
  · intro k
    simp only [State.chains, Chains.addStone, mem_write, Function.update_apply]
    by_cases hk : k = ch
    · simp [hk]
    · have : Loc.chainNumStones p k ≠ Loc.chainNumStones p ch := by
        intro h'
        injection h' with _ h'
        exact hk h'
      simp [hk, this]

theorem AddStoneReversibly_chains {p ch x y : Nat} {s : State} {u : Unit} {s' : State}
    (h : Chain.AddStoneReversibly p ch x y s = Res.ok u s') :
    s'.chains p = (s.chains p).addStone ch x y := by
  unfold Chain.AddStoneReversibly at h
  rw [assert_bind, ite_fail_eq_ok] at h
  obtain ⟨_, h⟩ := h
  obtain ⟨ring, s₁, h1, h⟩ := bind_ok h
  obtain ⟨e1, e2, _⟩ := GetRingMask_exact h1
  rw [e1, e2] at h
  clear h1 e1 e2 s₁ ring
  by_cases hm : GetMaskOfEdgesAndCorners (XYToCell x y) ||| ringMask (chainRows s p ch) x y ≠ 0
  · simp only [hm, ne_eq, not_false_eq_true, if_true, bind_assoc', Remember_bind, readW_bind,
      writeW_bind, assert_bind, ite_fail_eq_ok, writeW_apply, Res.ok.injEq, true_and] at h
    obtain ⟨_, h⟩ := h
    subst h
    apply Chains.chains_ext
    · apply ChainView.ext'
      all_goals intros
      all_goals try simp [State.chains, Chains.addStone, ChainView.addStone,
        Function.update_apply, chainRows]
      all_goals split_ifs <;> simp_all
      all_goals rfl
    · intro k
      simp only [State.chains, Chains.addStone, mem_write, mem_remember, Function.update_apply]
      by_cases hk : k = ch
      · simp [hk]
      · have : Loc.chainNumStones p k ≠ Loc.chainNumStones p ch := by
          intro h'
          injection h' with _ h'
          exact hk h'
        simp [hk, this]
  · rw [not_not] at hm
    have hm' := hm
    simp only [hm, ne_eq, not_true_eq_false, if_false, bind_assoc', Remember_bind, readW_bind,
      writeW_bind, assert_bind, ite_fail_eq_ok, writeW_apply, Res.ok.injEq, true_and,
      pure_bind'] at h
    obtain ⟨_, h⟩ := h
    subst h
    apply Chains.chains_ext
    · apply ChainView.ext'
      all_goals intros
      all_goals try simp [State.chains, Chains.addStone, ChainView.addStone,
        Function.update_apply, chainRows, hm']
      all_goals split_ifs <;> simp_all
      all_goals first
        | rfl
        | (rw [show GetMaskOfEdgesAndCorners (XYToCell x y) |||
              ringMask ((s.view p).rows ch) x y = 0 from hm']
           exact (Nat.or_zero _).symm)
    · intro k
      simp only [State.chains, Chains.addStone, mem_write, mem_remember, Function.update_apply]
      by_cases hk : k = ch
      · simp [hk]
      · have : Loc.chainNumStones p k ≠ Loc.chainNumStones p ch := by
          intro h'
          injection h' with _ h'
          exact hk h'
        simp [hk, this]

theorem MergeChainsFast_chains {p x y a b : Nat} {s : State} {r : Nat} {s' : State}
    (h : ChainSet.MergeChainsFast p x y a b s = Res.ok r s') :
    (a = b ∧ r = b ∧ s' = s) ∨
      (a ≠ b ∧ r = s.size p ∧ s.size p < kChainNumLimit ∧
        s'.chains p = (s.chains p).merge a b x y) := by
  unfold ChainSet.MergeChainsFast at h
  obtain ⟨h1, _, ha⟩ := NewestVersion_bind_ok h
  clear h
  rw [assert_bind, ite_fail_eq_ok] at h1
  obtain ⟨_, h2⟩ := h1
  obtain ⟨h3, _, hb⟩ := NewestVersion_bind_ok h2
  clear h2
  rw [assert_bind, ite_fail_eq_ok] at h3
  obtain ⟨_, h4⟩ := h3
  by_cases hab : a = b
  · rw [if_pos hab, pure_apply] at h4
    cases h4
    exact Or.inl ⟨hab, rfl, rfl⟩
  · rw [if_neg hab, getSize_bind, assert_bind, ite_fail_eq_ok, pushChain_bind] at h4
    obtain ⟨hlt, h5⟩ := h4
    have hlt' : s.size p < kChainNumLimit := of_decide_eq_true hlt
    have h256 : s.size p < 256 := by rw [← ChainView.kChainNumLimit_eq]; exact hlt'
    unfold Chain.ComputeUnion at h5
    simp only [bind_assoc', assert_bind, ite_fail_eq_ok, readChainRows_bind,
      writeChainRows_bind, readW_bind, writeW_bind] at h5
    obtain ⟨_, _, _, h6⟩ := h5
    obtain ⟨ring, s₁, h61, h7⟩ := bind_ok h6
    obtain ⟨e1, e2, _⟩ := GetRingMask_exact h61
    rw [e1, e2, chainRows_write_numStones, chainRows_writeRows_ne _ _ _ _ _ (Nat.ne_of_lt hb),
      chainRows_setSize] at h7
    clear h6 h61 e1 e2 s₁ ring
    unfold Chain.SetNewerVersionFast at h7
    simp only [bind_assoc', writeW_bind, writeByte_bind, pure_apply, Res.ok.injEq] at h7
    obtain ⟨hr, hs⟩ := h7
    subst hr
    subst hs
    have ha' : a ≠ s.size p := Nat.ne_of_lt ha
    have hb' : b ≠ s.size p := Nat.ne_of_lt hb
    refine Or.inr ⟨hab, rfl, hlt', ?_⟩
    apply Chains.chains_ext
    · apply ChainView.ext'
      all_goals intros
      all_goals try simp [State.chains, Chains.merge, ChainView.merge, Function.update_apply,
        chainRows]
      · rename_i ch
        have hba : ¬ b = a := fun h' => hab h'.symm
        simp only [ha', hb', hba, if_false]
        by_cases h1 : ch = b
        · subst h1
          simp only [if_true, hb', if_false, or_true]
          exact getByte_setByte_zero _ _ h256
        · simp only [h1, if_false, or_false]
          by_cases h2 : ch = a
          · subst h2
            simp only [if_true, ha', if_false]
            exact getByte_setByte_zero _ _ h256
          · simp only [h2, if_false]
            by_cases h3 : ch = s.size p
            · simp only [h3, if_true]
              exact getByte_setByte_zero _ _ (by norm_num)
            · simp only [h3, if_false]
      all_goals rfl
    · intro k
      simp [State.chains, Chains.merge, State.setSize, State.write, State.remember,
        State.writeRows, Function.update_apply]

theorem MergeChainsReversibly_chains {p x y a b : Nat} {s : State} {r : Nat} {s' : State}
    (h : ChainSet.MergeChainsReversibly p x y a b s = Res.ok r s') :
    (a = b ∧ r = b ∧ s' = s) ∨
      (a ≠ b ∧ r = s.size p ∧ s.size p < kChainNumLimit ∧
        s'.chains p = (s.chains p).merge a b x y) := by
  unfold ChainSet.MergeChainsReversibly at h
  obtain ⟨h1, _, ha⟩ := NewestVersion_bind_ok h
  clear h
  rw [assert_bind, ite_fail_eq_ok] at h1
  obtain ⟨_, h2⟩ := h1
  obtain ⟨h3, _, hb⟩ := NewestVersion_bind_ok h2
  clear h2
  rw [assert_bind, ite_fail_eq_ok] at h3
  obtain ⟨_, h4⟩ := h3
  by_cases hab : a = b
  · rw [if_pos hab, pure_apply] at h4
    cases h4
    exact Or.inl ⟨hab, rfl, rfl⟩
  · rw [if_neg hab, getSize_bind, assert_bind, ite_fail_eq_ok, pushChain_bind] at h4
    obtain ⟨hlt, h5⟩ := h4
    have hlt' : s.size p < kChainNumLimit := of_decide_eq_true hlt
    have h256 : s.size p < 256 := by rw [← ChainView.kChainNumLimit_eq]; exact hlt'
    unfold Chain.ComputeUnion at h5
    simp only [bind_assoc', assert_bind, ite_fail_eq_ok, readChainRows_bind,
      writeChainRows_bind, readW_bind, writeW_bind] at h5
    obtain ⟨_, _, _, h6⟩ := h5
    obtain ⟨ring, s₁, h61, h7⟩ := bind_ok h6
    obtain ⟨e1, e2, _⟩ := GetRingMask_exact h61
    rw [e1, e2, chainRows_write_numStones, chainRows_writeRows_ne _ _ _ _ _ (Nat.ne_of_lt hb),
      chainRows_setSize] at h7
    clear h6 h61 e1 e2 s₁ ring
    unfold Chain.SetNewerVersionReversibly at h7
    simp only [bind_assoc', assert_bind, ite_fail_eq_ok, writeW_bind, writeByte_bind,
      RememberByte_bind, pure_apply, Res.ok.injEq] at h7
    obtain ⟨_, _, hr, hs⟩ := h7
    subst hr
    subst hs
    have ha' : a ≠ s.size p := Nat.ne_of_lt ha
    have hb' : b ≠ s.size p := Nat.ne_of_lt hb
    refine Or.inr ⟨hab, rfl, hlt', ?_⟩
    apply Chains.chains_ext
    · apply ChainView.ext'
      all_goals intros
      all_goals try simp [State.chains, Chains.merge, ChainView.merge, Function.update_apply,
        chainRows]
      · rename_i ch
        have hba : ¬ b = a := fun h' => hab h'.symm
        simp only [ha', hb', hba, if_false]
        by_cases h1 : ch = b
        · subst h1
          simp only [if_true, hb', if_false, or_true]
          exact getByte_setByte_zero _ _ h256
        · simp only [h1, if_false, or_false]
          by_cases h2 : ch = a
          · subst h2
            simp only [if_true, ha', if_false]
            exact getByte_setByte_zero _ _ h256
          · simp only [h2, if_false]
            by_cases h3 : ch = s.size p
            · simp only [h3, if_true]
              exact getByte_setByte_zero _ _ (by norm_num)
            · simp only [h3, if_false]
      all_goals rfl
    · intro k
      simp [State.chains, Chains.merge, State.setSize, State.write, State.remember,
        State.writeRows, Function.update_apply]

theorem MakeOneStoneChain_chains {p x y : Nat} {s : State} {r : Nat} {s' : State}
    (h : ChainSet.MakeOneStoneChain p x y s = Res.ok r s') :
    r = s.size p ∧ s.size p < kChainNumLimit ∧ s'.chains p = (s.chains p).single x y := by
  obtain ⟨h1, h2, h3, _⟩ := MakeOneStoneChain_view h
  refine ⟨h1, h2, ?_⟩
  apply Chains.chains_ext
  · exact h3
  · intro k
    unfold ChainSet.MakeOneStoneChain Chain.InitWithStone at h
    simp only [bind_assoc', getSize_bind, assert_bind, ite_fail_eq_ok, pushChain_bind,
      writeChainRows_bind, writeW_bind, writeByte_bind, pure_apply, Res.ok.injEq] at h
    obtain ⟨_, _, _, hs⟩ := h
    subst hs
    simp [State.chains, Chains.single, State.setSize, State.write, State.writeRows,
      Function.update_apply]

theorem chains_of_graphStep {s s' : State} (h : GraphStep s s') (p : Nat) :
    s'.chains p = s.chains p := by
  apply Chains.chains_ext
  · exact h.graphStep_view p
  · intro k
    exact h.mem_eq _ (fun _ _ hh => by cases hh)

theorem AddStoneToChainFast_chains {p x y ch : Nat} {s : State} {u : Unit} {s' : State}
    (h : ChainSet.AddStoneToChainFast p x y ch s = Res.ok u s') :
    s'.chains p = (s.chains p).addStone ch x y := by
  unfold ChainSet.AddStoneToChainFast at h
  obtain ⟨h, _, _⟩ := NewestVersion_bind_ok h
  rw [assert_bind, ite_fail_eq_ok] at h
  exact AddStoneFast_chains h.2

theorem AddStoneToChainReversibly_chains {p x y ch : Nat} {s : State} {u : Unit} {s' : State}
    (h : ChainSet.AddStoneToChainReversibly p x y ch s = Res.ok u s') :
    s'.chains p = (s.chains p).addStone ch x y := by
  unfold ChainSet.AddStoneToChainReversibly at h
  obtain ⟨h, _, _⟩ := NewestVersion_bind_ok h
  rw [assert_bind, ite_fail_eq_ok] at h
  exact AddStoneReversibly_chains h.2

theorem neighborLoopFast_chains (p cell x y : Nat) :
    ∀ n j prev s r s',
      PlayerPosition.neighborLoopFast p cell x y n j prev s = Res.ok r s' →
      (s.chains p).neighborLoop cell x y n j prev = some (r, s'.chains p) := by
  intro n
  induction n with
  | zero =>
    intro j prev s r s' h
    cases h
    rfl
  | succ n ih =>
    intro j prev s r s' h
    unfold PlayerPosition.neighborLoopFast at h
    rw [chain_for_cell_bind, ite_fail_eq_ok] at h
    obtain ⟨_, h⟩ := h
    unfold Chains.neighborLoop
    have hcfc : (s.chains p).view.cfc (NthNeighbor cell j) = s.cfc p (NthNeighbor cell j) := rfl
    simp only [hcfc]
    by_cases hc0 : s.cfc p (NthNeighbor cell j) = 0
    · rw [if_pos hc0] at h ⊢
      exact ih _ _ _ _ _ h
    · rw [if_neg hc0] at h ⊢
      by_cases hp : prev ≠ 0
      · rw [if_pos hp] at h ⊢
        obtain ⟨h1, _, _⟩ := NewestVersion_bind_ok h
        clear h
        obtain ⟨h2, _, _⟩ := NewestVersion_bind_ok h1
        clear h1
        obtain ⟨_, s₁, h3, h4⟩ := bind_ok h2
        clear h2
        have hg := MergeChainEdgesFast_steps GraphStep.graphStep_closed _ _ _ _ _ _ h3
        have hc : s₁.chains p = s.chains p := chains_of_graphStep hg p
        obtain ⟨r', s₂, h5, h6⟩ := bind_ok h4
        clear h4
        have hv : (s.chains p).view = s.view p := rfl
        rcases MergeChainsFast_chains h5 with ⟨hab, hr, hs⟩ | ⟨hab, hr, hlt, hs⟩
        · rw [hv, if_pos hab]
          rw [hr, hs] at h6
          rw [← ih _ _ _ _ _ h6, hc]
        · have hsz : s₁.size p = (s.view p).size := by rw [hg.size_eq]; rfl
          rw [hv, if_neg hab, if_pos (by rw [← hsz]; exact hlt)]
          rw [hr] at h6
          rw [← ih _ _ _ _ _ h6, hs, hc, hsz]
      · rw [if_neg hp] at h ⊢
        obtain ⟨h1, _, _⟩ := NewestVersion_bind_ok h
        clear h
        obtain ⟨_, s₁, h3, h4⟩ := bind_ok h1
        clear h1
        have hv : (s.chains p).view = s.view p := rfl
        rw [hv, ← ih _ _ _ _ _ h4, AddStoneToChainFast_chains h3]

theorem neighborLoopReversibly_chains (p cell x y : Nat) :
    ∀ n j prev s r s',
      PlayerPosition.neighborLoopReversibly p cell x y n j prev s = Res.ok r s' →
      (s.chains p).neighborLoop cell x y n j prev = some (r, s'.chains p) := by
  intro n
  induction n with
  | zero =>
    intro j prev s r s' h
    cases h
    rfl
  | succ n ih =>
    intro j prev s r s' h
    unfold PlayerPosition.neighborLoopReversibly at h
    rw [chain_for_cell_bind, ite_fail_eq_ok] at h
    obtain ⟨_, h⟩ := h
    unfold Chains.neighborLoop
    have hcfc : (s.chains p).view.cfc (NthNeighbor cell j) = s.cfc p (NthNeighbor cell j) := rfl
    simp only [hcfc]
    by_cases hc0 : s.cfc p (NthNeighbor cell j) = 0
    · rw [if_pos hc0] at h ⊢
      exact ih _ _ _ _ _ h
    · rw [if_neg hc0] at h ⊢
      by_cases hp : prev ≠ 0
      · rw [if_pos hp] at h ⊢
        obtain ⟨h1, _, _⟩ := NewestVersion_bind_ok h
        clear h
        obtain ⟨h2, _, _⟩ := NewestVersion_bind_ok h1
        clear h1
        obtain ⟨_, s₁, h3, h4⟩ := bind_ok h2
        clear h2
        have hg := MergeChainEdgesReversibly_steps GraphStep.graphStep_closed
          (fun s q i => GraphStep.graphStep_remember s _) _ _ _ _ _ _ h3
        have hc : s₁.chains p = s.chains p := chains_of_graphStep hg p
        obtain ⟨r', s₂, h5, h6⟩ := bind_ok h4
        clear h4
        have hv : (s.chains p).view = s.view p := rfl
        rcases MergeChainsReversibly_chains h5 with ⟨hab, hr, hs⟩ | ⟨hab, hr, hlt, hs⟩
        · rw [hv, if_pos hab]
          rw [hr, hs] at h6
          rw [← ih _ _ _ _ _ h6, hc]
        · have hsz : s₁.size p = (s.view p).size := by rw [hg.size_eq]; rfl
          rw [hv, if_neg hab, if_pos (by rw [← hsz]; exact hlt)]
          rw [hr] at h6
          rw [← ih _ _ _ _ _ h6, hs, hc, hsz]
      · rw [if_neg hp] at h ⊢
        obtain ⟨h1, _, _⟩ := NewestVersion_bind_ok h
        clear h
        obtain ⟨_, s₁, h3, h4⟩ := bind_ok h1
        clear h1
        have hv : (s.chains p).view = s.view p := rfl
        rw [hv, ← ih _ _ _ _ _ h4, AddStoneToChainReversibly_chains h3]

theorem IsVictory_chains {p ch : Nat} {s : State} {r : Nat} {s' : State}
    (h : ChainSet.IsVictory p ch s = Res.ok r s') :
    r = victoryOf ((s.chains p).view.ecr ((s.chains p).view.newest ch)) ∧
      s'.chains p = (s.chains p).clearRing ((s.chains p).view.newest ch) := by
  obtain ⟨hs, hv⟩ := IsVictory_spec h
  unfold ChainSet.IsVictory at h
  obtain ⟨h1, _, _⟩ := NewestVersion_bind_ok h
  clear h
  unfold Chain.IsVictory at h1
  simp only [bind_assoc', readW_bind, writeW_bind, pure_apply, Res.ok.injEq] at h1
  refine ⟨h1.1.symm, ?_⟩
  apply Chains.chains_ext
  · exact hv
  · intro k
    rw [hs]
    simp [State.chains, Chains.clearRing, Function.update_apply]

theorem chains_setCfc (t : State) (p cell q : Nat) (hq : q < 256) :
    (t.write (Loc.chainsForCells p (cell / 4))
        (setByte (t.mem (Loc.chainsForCells p (cell / 4))) (cell % 4) q)).chains p =
      (t.chains p).setCfc cell q := by
  apply Chains.chains_ext
  · exact view_setCfc t p cell q hq
  · intro k
    simp [State.chains, Chains.setCfc, Function.update_apply]

theorem chains_write_stoneRow (t : State) (p q y v : Nat) :
    (t.write (Loc.stoneRow q y) v).chains p = t.chains p := by
  apply Chains.chains_ext
  · exact view_write_stoneRow t p q y v
  · intro k
    simp [State.chains, Chains.setCfc, Function.update_apply]

theorem setCfc_cfc (c : Chains) (cell q : Nat) : (c.setCfc cell q).view.cfc cell = q := by
  show (if cell = cell then q else _) = q
  rw [if_pos rfl]

theorem MakeMoveFast_tail_chains {p cell q : Nat} {t : State} {r : Nat} {s' : State}
    (hq : q < 256)
    (h : (do
        writeByte (Loc.chainsForCells p) cell q
        let ch ← PlayerPosition.chain_for_cell p cell
        PlayerPosition.setModifiedChain p ch
        let row ← readW (Loc.stoneRow p (CellToY cell))
        writeW (Loc.stoneRow p (CellToY cell)) (setBit row (CellToX cell))
        let ch ← PlayerPosition.chain_for_cell p cell
        ChainSet.IsVictory p ch : M Nat) t = Res.ok r s') :
    r = victoryOf (((t.chains p).setCfc cell q).view.ecr
        (((t.chains p).setCfc cell q).view.newest q)) ∧
      s'.chains p = ((t.chains p).setCfc cell q).clearRing
        (((t.chains p).setCfc cell q).view.newest q) := by
  rw [writeByte_bind] at h
  have hv1 := chains_setCfc t p cell q hq
  generalize t.write (Loc.chainsForCells p (cell / 4))
    (setByte (t.mem (Loc.chainsForCells p (cell / 4))) (cell % 4) q) = t₁ at h hv1
  have hc1 : t₁.cfc p cell = q := by
    show (t₁.chains p).view.cfc cell = q
    rw [hv1]
    exact setCfc_cfc _ _ _
  rw [chain_for_cell_bind, ite_fail_eq_ok, hc1, setModifiedChain_bind, readW_bind,
    writeW_bind] at h
  obtain ⟨_, h⟩ := h
  have hv2 : ((t₁.setModifiedChain p q).write (Loc.stoneRow p (CellToY cell))
      (setBit ((t₁.setModifiedChain p q).mem (Loc.stoneRow p (CellToY cell)))
        (CellToX cell))).chains p = (t.chains p).setCfc cell q := by
    rw [chains_write_stoneRow]; exact hv1
  generalize (t₁.setModifiedChain p q).write (Loc.stoneRow p (CellToY cell))
      (setBit ((t₁.setModifiedChain p q).mem (Loc.stoneRow p (CellToY cell)))
        (CellToX cell)) = t₂ at h hv2
  have hc2 : t₂.cfc p cell = q := by
    show (t₂.chains p).view.cfc cell = q
    rw [hv2]
    exact setCfc_cfc _ _ _
  rw [chain_for_cell_bind, ite_fail_eq_ok, hc2] at h
  obtain ⟨h1, h2⟩ := IsVictory_chains h.2
  rw [hv2] at h1 h2
  exact ⟨h1, h2⟩

theorem MakeMoveReversibly_tail_chains {p cell q : Nat} {t : State} {r : Nat} {s' : State}
    (hq : q < 256)
    (h : (do
        writeByte (Loc.chainsForCells p) cell q
        let ch ← PlayerPosition.chain_for_cell p cell
        PlayerPosition.setModifiedChain p ch
        Memento.Remember (Loc.stoneRow p (CellToY cell))
        let row ← readW (Loc.stoneRow p (CellToY cell))
        writeW (Loc.stoneRow p (CellToY cell)) (setBit row (CellToX cell))
        let ch ← PlayerPosition.chain_for_cell p cell
        ChainSet.IsVictory p ch : M Nat) t = Res.ok r s') :
    r = victoryOf (((t.chains p).setCfc cell q).view.ecr
        (((t.chains p).setCfc cell q).view.newest q)) ∧
      s'.chains p = ((t.chains p).setCfc cell q).clearRing
        (((t.chains p).setCfc cell q).view.newest q) := by
  rw [writeByte_bind] at h
  have hv1 := chains_setCfc t p cell q hq
  generalize t.write (Loc.chainsForCells p (cell / 4))
    (setByte (t.mem (Loc.chainsForCells p (cell / 4))) (cell % 4) q) = t₁ at h hv1
  have hc1 : t₁.cfc p cell = q := by
    show (t₁.chains p).view.cfc cell = q
    rw [hv1]
    exact setCfc_cfc _ _ _
  rw [chain_for_cell_bind, ite_fail_eq_ok, hc1, setModifiedChain_bind, Remember_bind,
    readW_bind, writeW_bind] at h
  obtain ⟨_, h⟩ := h
  have hv2 : ((((t₁.setModifiedChain p q).remember (Loc.stoneRow p (CellToY cell)))).write
      (Loc.stoneRow p (CellToY cell))
      (setBit (((t₁.setModifiedChain p q).remember (Loc.stoneRow p (CellToY cell))).mem
        (Loc.stoneRow p (CellToY cell))) (CellToX cell))).chains p =
        (t.chains p).setCfc cell q := by
    rw [chains_write_stoneRow]; exact hv1
  generalize (((t₁.setModifiedChain p q).remember (Loc.stoneRow p (CellToY cell)))).write
      (Loc.stoneRow p (CellToY cell))
      (setBit (((t₁.setModifiedChain p q).remember (Loc.stoneRow p (CellToY cell))).mem
        (Loc.stoneRow p (CellToY cell))) (CellToX cell)) = t₂ at h hv2
  have hc2 : t₂.cfc p cell = q := by
    show (t₂.chains p).view.cfc cell = q
    rw [hv2]
    exact setCfc_cfc _ _ _
  rw [chain_for_cell_bind, ite_fail_eq_ok, hc2] at h
  obtain ⟨h1, h2⟩ := IsVictory_chains h.2
  rw [hv2] at h1 h2
  exact ⟨h1, h2⟩

/-! ### The cells of a chain -/

theorem foldl_or_testBit (f : Nat → Nat) (i : Nat) :
    ∀ (l : List Nat) (init : Nat),
      (l.foldl (fun e c => e ||| f c) init).testBit i =
        (init.testBit i || l.any fun c => (f c).testBit i) := by
  intro l
  induction l with
  | nil => intro init; simp
  | cons a l ih =>
    intro init
    rw [List.foldl_cons, ih, Nat.testBit_or, List.any_cons, Bool.or_assoc]

theorem filter_range_length (n : Nat) (p : Nat → Bool) :
    ((List.range n).filter p).length = ((Finset.range n).filter fun a => p a = true).card := by
  rw [← List.toFinset_card_of_nodup ((List.nodup_range _).filter _)]
  congr 1
  ext a
  simp

namespace Chains

theorem mem_cells (c : Chains) (ch a : Nat) :
    a ∈ c.cells ch ↔ a < kNumCellsWithSentinels ∧ c.view.inMask ch a = true := by
  unfold cells
  rw [List.mem_filter, List.mem_range]

theorem edgesOf_testBit (c : Chains) (ch i : Nat) :
    (c.edgesOf ch).testBit i = true ↔
      ∃ a, a < kNumCellsWithSentinels ∧ c.view.inMask ch a = true ∧
        (GetMaskOfEdgesAndCorners a).testBit i = true := by
  unfold edgesOf
  rw [foldl_or_testBit, Nat.zero_testBit, Bool.false_or, List.any_eq_true]
  constructor
  · rintro ⟨a, ha, h⟩
    rw [mem_cells] at ha
    exact ⟨a, ha.1, ha.2, h⟩
  · rintro ⟨a, h1, h2, h3⟩
    exact ⟨a, (mem_cells c ch a).mpr ⟨h1, h2⟩, h3⟩

theorem edgesOf_lt (c : Chains) (ch : Nat) : c.edgesOf ch < 4096 := by
  apply Nat.lt_of_testBit 12 _ (by decide)
  · intro j hj
    have h1 : (c.edgesOf ch).testBit j = false := by
      by_contra h
      rw [Bool.not_eq_false, edgesOf_testBit] at h
      obtain ⟨a, _, _, h⟩ := h
      have := Nat.testBit_eq_false_of_lt (Nat.lt_of_lt_of_le (GetMaskOfEdgesAndCorners_lt a)
        (show 4096 ≤ 2 ^ j from by
          have : (4096 : Nat) = 2 ^ 12 := rfl
          rw [this]
          exact Nat.pow_le_pow_right (by norm_num) (by omega)))
      rw [this] at h
      cases h
    rw [h1]
    have h2 : (4096 : Nat) = 2 ^ 12 := rfl
    rw [h2, Nat.testBit_two_pow]
    simp
    omega
  · by_contra h
    rw [Bool.not_eq_false, edgesOf_testBit] at h
    obtain ⟨a, _, _, h⟩ := h
    rw [GetMaskOfEdgesAndCorners_testBit] at h
    cases h

theorem cells_length (c : Chains) (ch : Nat) :
    (c.cells ch).length =
      ((Finset.range kNumCellsWithSentinels).filter fun a => c.view.inMask ch a = true).card := by
  exact filter_range_length _ _

end Chains

/-! ### The neighbours of a cell -/

theorem onBoard_bounds (a : Nat) (h : LiesOnBoard (CellToX a) (CellToY a) = true) :
    66 ≤ a ∧ a + 66 ≤ kNumCellsWithSentinels := by
  unfold LiesOnBoard at h
  simp only [Bool.and_eq_true, decide_eq_true_eq] at h
  have e1 : ((kGapLeft : Nat) : Int) = 2 := rfl
  have e2 : ((kGapAround : Nat) : Int) = 2 := rfl
  have e3 : ((kPastRows : Nat) : Int) = 21 := rfl
  have e4 : ((kPastColumns : Nat) : Int) = 21 := rfl
  have e5 : kNumCellsWithSentinels = 736 := rfl
  unfold CellToX CellToY at h
  omega

theorem NthNeighbor_eq (a j : Nat) (ha : 64 ≤ a) (hj : j < 6) :
    (NthNeighbor a j : Int) = (a : Int) + kNeighborOffsets.getD j 0 := by
  unfold NthNeighbor OffsetCell
  have h : (0 : Int) ≤ (a : Int) + kNeighborOffsets.getD j 0 := by
    interval_cases j <;> simp [kNeighborOffsets] <;> omega
  rw [Int.toNat_of_nonneg h]

theorem Adjacent.symm' {a b : Nat} (h : Adjacent a b)
    (ha : LiesOnBoard (CellToX a) (CellToY a) = true) : Adjacent b a := by
  obtain ⟨j, hj, hb⟩ := h
  have ha' := (onBoard_bounds a ha).1
  have e := NthNeighbor_eq a j (by omega) hj
  rw [← hb] at e
  refine ⟨(j + 3) % 6, Nat.mod_lt _ (by norm_num), ?_⟩
  have hb' : 64 ≤ b ∨ b < 64 := by omega
  have e2 : (NthNeighbor b ((j + 3) % 6) : Int) = (a : Int) := by
    unfold NthNeighbor OffsetCell
    interval_cases j <;> simp [kNeighborOffsets] at e ⊢ <;> omega
  exact_mod_cast e2.symm

/-- Consecutive neighbours of a cell of the board are neighbours of each
other. -/
theorem Adjacent.consecutive (a j : Nat) (ha : LiesOnBoard (CellToX a) (CellToY a) = true)
    (hj : j < 6) : Adjacent (NthNeighbor a j) (NthNeighbor a ((j + 1) % 6)) := by
  have ha' := (onBoard_bounds a ha).1
  have e1 := NthNeighbor_eq a j (by omega) hj
  have e2 := NthNeighbor_eq a ((j + 1) % 6) (by omega) (Nat.mod_lt _ (by norm_num))
  refine ⟨(j + 2) % 6, Nat.mod_lt _ (by norm_num), ?_⟩
  have e3 : (NthNeighbor (NthNeighbor a j) ((j + 2) % 6) : Int) =
      (NthNeighbor a ((j + 1) % 6) : Int) := by
    rw [e2]
    unfold NthNeighbor OffsetCell at e1 ⊢
    interval_cases j <;> simp [kNeighborOffsets] at e1 ⊢ <;> omega
  exact_mod_cast e3.symm

/-! ### The stone masks after a step of a move -/

namespace ChainView

theorem inMask_addStone_cell (v : ChainView) (ch cell mask k a : Nat) :
    (v.addStone ch (CellToX cell) (CellToY cell) mask).inMask k a =
      (v.inMask k a || (decide (k = ch) && decide (a = cell))) := by
  rw [inMask_eq, inMask_eq]
  show (if k = ch ∧ CellToY a = CellToY cell then setBit (v.rows k (CellToY a)) (CellToX cell)
    else v.rows k (CellToY a)).testBit (CellToX a) = _
  by_cases h1 : k = ch ∧ CellToY a = CellToY cell
  · rw [if_pos h1, testBit_setBit]
    by_cases h2 : CellToX cell = CellToX a
    · have : a = cell := (cell_eq_iff a cell).mpr ⟨h2.symm, h1.2⟩
      simp [h1.1, h2, this]
    · have : a ≠ cell := fun h' => h2 (by rw [h'])
      simp [h1.1, h2, this]
  · rw [if_neg h1]
    rw [not_and] at h1
    by_cases h2 : k = ch
    · have : a ≠ cell := fun h' => h1 h2 (by rw [h'])
      simp [h2, this]
    · simp [h2]

theorem inMask_merge (v : ChainView) (a b ring k c : Nat) (hc : c < kNumCellsWithSentinels) :
    (v.merge a b ring).inMask k c =
      if k = v.size then (v.inMask a c || v.inMask b c) else v.inMask k c := by
  rw [inMask_eq]
  show (if k = v.size ∧ CellToY c < kBoardHeight then v.rows a (CellToY c) ||| v.rows b (CellToY c)
    else v.rows k (CellToY c)).testBit (CellToX c) = _
  have hy := CellToY_lt c hc
  by_cases hk : k = v.size
  · rw [if_pos ⟨hk, hy⟩, if_pos hk, Nat.testBit_or, inMask_eq, inMask_eq]
  · rw [if_neg (fun h' => hk h'.1), if_neg hk, inMask_eq]

theorem inMask_single (v : ChainView) (cell k c : Nat) (hc : c < kNumCellsWithSentinels) :
    (v.single (CellToX cell) (CellToY cell)).inMask k c =
      if k = v.size then decide (c = cell) else v.inMask k c := by
  rw [inMask_eq]
  show (if k = v.size ∧ CellToY c < kBoardHeight then
      (if CellToY c = CellToY cell then setBit 0 (CellToX cell) else 0)
    else v.rows k (CellToY c)).testBit (CellToX c) = _
  have hy := CellToY_lt c hc
  by_cases hk : k = v.size
  · rw [if_pos ⟨hk, hy⟩, if_pos hk]
    by_cases h1 : CellToY c = CellToY cell
    · rw [if_pos h1, testBit_setBit, Nat.zero_testBit, Bool.false_or]
      by_cases h2 : CellToX cell = CellToX c
      · have : c = cell := (cell_eq_iff c cell).mpr ⟨h2.symm, h1⟩
        simp [h2, this]
      · have : c ≠ cell := fun h' => h2 (by rw [h'])
        simp [h2, this]
    · rw [if_neg h1, Nat.zero_testBit]
      have : c ≠ cell := fun h' => h1 (by rw [h'])
      simp [this]
  · rw [if_neg (fun h' => hk h'.1), if_neg hk, inMask_eq]

end ChainView

namespace Chains

theorem cells_congr {c c' : Chains} {ch ch' : Nat}
    (hm : ∀ a, a < kNumCellsWithSentinels → c'.view.inMask ch' a = c.view.inMask ch a) :
    c'.cells ch' = c.cells ch := by
  unfold cells
  apply List.filter_congr
  intro a ha
  exact hm a (List.mem_range.mp ha)

theorem cells_insert {c c' : Chains} {ch ch' cell : Nat} (hcell : cell < kNumCellsWithSentinels)
    (hnot : c.view.inMask ch cell = false)
    (hm : ∀ a, a < kNumCellsWithSentinels →
      c'.view.inMask ch' a = (c.view.inMask ch a || decide (a = cell))) :
    (c'.cells ch').length = (c.cells ch).length + 1 := by
  rw [cells_length, cells_length]
  have e : ((Finset.range kNumCellsWithSentinels).filter fun a => c'.view.inMask ch' a = true) =
      insert cell ((Finset.range kNumCellsWithSentinels).filter
        fun a => c.view.inMask ch a = true) := by
    ext a
    simp only [Finset.mem_filter, Finset.mem_range, Finset.mem_insert]
    constructor
    · rintro ⟨h1, h2⟩
      rw [hm a h1, Bool.or_eq_true, decide_eq_true_eq] at h2
      rcases h2 with h2 | h2
      · exact Or.inr ⟨h1, h2⟩
      · exact Or.inl h2
    · rintro (h | ⟨h1, h2⟩)
      · rw [h]
        refine ⟨hcell, ?_⟩
        rw [hm cell hcell]
        simp
      · refine ⟨h1, ?_⟩
        rw [hm a h1, h2]
        rfl
  rw [e, Finset.card_insert_of_not_mem]
  simp [hnot]

theorem cells_union {c c' : Chains} {k a b : Nat}
    (hdisj : ∀ x, x < kNumCellsWithSentinels → c.view.inMask a x = true →
      c.view.inMask b x = true → False)
    (hm : ∀ x, x < kNumCellsWithSentinels →
      c'.view.inMask k x = (c.view.inMask a x || c.view.inMask b x)) :
    (c'.cells k).length = (c.cells a).length + (c.cells b).length := by
  rw [cells_length, cells_length, cells_length]
  have e : ((Finset.range kNumCellsWithSentinels).filter fun x => c'.view.inMask k x = true) =
      ((Finset.range kNumCellsWithSentinels).filter fun x => c.view.inMask a x = true) ∪
        ((Finset.range kNumCellsWithSentinels).filter fun x => c.view.inMask b x = true) := by
    ext x
    simp only [Finset.mem_filter, Finset.mem_range, Finset.mem_union]
    constructor
    · rintro ⟨h1, h2⟩
      rw [hm x h1, Bool.or_eq_true] at h2
      rcases h2 with h2 | h2
      · exact Or.inl ⟨h1, h2⟩
      · exact Or.inr ⟨h1, h2⟩
    · rintro (⟨h1, h2⟩ | ⟨h1, h2⟩)
      · exact ⟨h1, by rw [hm x h1, h2]; rfl⟩
      · exact ⟨h1, by rw [hm x h1, h2]; simp⟩
  rw [e, Finset.card_union_of_disjoint]
  rw [Finset.disjoint_left]
  intro x hx hx'
  simp only [Finset.mem_filter, Finset.mem_range] at hx hx'
  exact hdisj x hx.1 hx.2 hx'.2

theorem cells_length_le (c : Chains) (ch : Nat) :
    (c.cells ch).length ≤ kNumCellsWithSentinels := by
  unfold cells
  exact (List.length_filter_le _ _).trans (by rw [List.length_range])

end Chains

theorem XYToCell_CellTo (cell : Nat) : XYToCell (CellToX cell) (CellToY cell) = cell := by
  unfold XYToCell CellToX CellToY
  omega

theorem ringMask_testBit_low (rows : Nat → Nat) (x y i : Nat) (hi : i < 12) :
    (ringMask rows x y).testBit i = false := by
  have h := congrArg (fun n => n.testBit i) (ringMask_and rows x y)
  simp only [Nat.testBit_and, Nat.zero_testBit] at h
  have h' : (4095 : Nat).testBit i = true := by
    interval_cases i <;> rfl
  rw [h', Bool.and_true] at h
  exact h

namespace Chains

theorem edgesOf_congr {c c' : Chains} {ch ch' : Nat}
    (hm : ∀ a, a < kNumCellsWithSentinels → c'.view.inMask ch' a = c.view.inMask ch a) :
    c'.edgesOf ch' = c.edgesOf ch := by
  unfold edgesOf
  rw [cells_congr hm]

theorem edgesOf_insert {c c' : Chains} {ch ch' cell : Nat} (hcell : cell < kNumCellsWithSentinels)
    (hm : ∀ a, a < kNumCellsWithSentinels →
      c'.view.inMask ch' a = (c.view.inMask ch a || decide (a = cell))) (i : Nat) :
    (c'.edgesOf ch').testBit i =
      ((c.edgesOf ch).testBit i || (GetMaskOfEdgesAndCorners cell).testBit i) := by
  rw [Bool.eq_iff_iff, Bool.or_eq_true, edgesOf_testBit, edgesOf_testBit]
  constructor
  · rintro ⟨a, h1, h2, h3⟩
    rw [hm a h1, Bool.or_eq_true, decide_eq_true_eq] at h2
    rcases h2 with h2 | h2
    · exact Or.inl ⟨a, h1, h2, h3⟩
    · rw [h2] at h3
      exact Or.inr h3
  · rintro (⟨a, h1, h2, h3⟩ | h)
    · exact ⟨a, h1, by rw [hm a h1, h2]; rfl, h3⟩
    · exact ⟨cell, hcell, by rw [hm cell hcell]; simp, h⟩

theorem edgesOf_union {c c' : Chains} {k a b : Nat}
    (hm : ∀ x, x < kNumCellsWithSentinels →
      c'.view.inMask k x = (c.view.inMask a x || c.view.inMask b x)) (i : Nat) :
    (c'.edgesOf k).testBit i = ((c.edgesOf a).testBit i || (c.edgesOf b).testBit i) := by
  rw [Bool.eq_iff_iff, Bool.or_eq_true, edgesOf_testBit, edgesOf_testBit, edgesOf_testBit]
  constructor
  · rintro ⟨x, h1, h2, h3⟩
    rw [hm x h1, Bool.or_eq_true] at h2
    rcases h2 with h2 | h2
    · exact Or.inl ⟨x, h1, h2, h3⟩
    · exact Or.inr ⟨x, h1, h2, h3⟩
  · rintro (⟨x, h1, h2, h3⟩ | ⟨x, h1, h2, h3⟩)
    · exact ⟨x, h1, by rw [hm x h1, h2]; rfl, h3⟩
    · exact ⟨x, h1, by rw [hm x h1, h2]; simp, h3⟩

end Chains

/-! ### The loop over the neighbours keeps the chains good -/

namespace Chains

theorem Linked.linkedWith {c : Chains} {a b : Nat} (h : c.Linked a b) (cell : Nat) :
    c.LinkedWith cell a b :=
  Relation.ReflTransGen.mono (fun _ _ h' => ⟨Or.inl h'.1, Or.inl h'.2.1, h'.2.2⟩) h

theorem LoopGood.start {c : Chains} (h : c.Good) (cell : Nat)
    (hlt : cell < kNumCellsWithSentinels)
    (hb : LiesOnBoard (CellToX cell) (CellToY cell) = true) (hempty : c.view.cfc cell = 0) :
    c.LoopGood cell 0 0 where
  loop := ChainView.LoopInv.loop_start h.inv cell hempty
  cell_lt := hlt
  cell_board := hb
  board := h.board
  adjacent := h.adjacent
  visited := fun i hi => absurd hi (Nat.not_lt_zero i)
  linked := by
    intro ch hch a b ha hb' hma hmb
    obtain ⟨ha1, ha2⟩ := (h.inv.mask_iff ch hch a ha).mp hma
    obtain ⟨hb1, hb2⟩ := (h.inv.mask_iff ch hch b hb').mp hmb
    exact (h.linked a b ha1 hb1 (ha2.trans hb2.symm)).linkedWith cell
  count := h.count
  edges := fun ch hch i _ => by rw [h.edges ch hch]

theorem LoopGood.skip {c : Chains} {cell prev j : Nat} (h : c.LoopGood cell prev j)
    (hc : c.view.cfc (NthNeighbor cell j) = 0) : c.LoopGood cell prev (j + 1) :=
  { h with
    visited := fun i hi hne => by
      rcases Nat.lt_succ_iff_lt_or_eq.mp hi with h' | h'
      · exact h.visited i h' hne
      · rw [h'] at hne
        exact absurd hc hne }

theorem LoopGood.same {c : Chains} {cell prev j : Nat} (h : c.LoopGood cell prev j)
    (hp : prev ≠ 0)
    (hc : c.view.newest prev = c.view.newest (c.view.cfc (NthNeighbor cell j))) :
    c.LoopGood cell (c.view.newest (c.view.cfc (NthNeighbor cell j))) (j + 1) := by
  have hprev : c.view.IsNewest prev := by
    rcases h.loop.prev_newest with h' | h'
    · exact absurd h' hp
    · exact h'
  have e : c.view.newest (c.view.cfc (NthNeighbor cell j)) = prev := by
    rw [← hc]
    exact ChainView.newest_of_isNewest hprev
  rw [e]
  exact { h with
    visited := fun i hi hne => by
      rcases Nat.lt_succ_iff_lt_or_eq.mp hi with h' | h'
      · exact h.visited i h' hne
      · rw [h']
        exact ⟨hp, e⟩ }

theorem LoopGood.cur_newest {c : Chains} {cell prev j : Nat} (h : c.LoopGood cell prev j)
    {a : Nat} (ha : c.view.cfc a ≠ 0) : c.view.IsNewest (c.view.newest (c.view.cfc a)) :=
  ChainView.isNewest_newest h.loop.newer_lt (Nat.pos_of_ne_zero ha) (h.loop.cfc_lt a)

theorem LoopGood.prev_newest {c : Chains} {cell prev j : Nat} (h : c.LoopGood cell prev j)
    (hp : prev ≠ 0) : c.view.IsNewest prev := by
  rcases h.loop.prev_newest with h' | h'
  · exact absurd h' hp
  · exact h'

/-- The stone of a neighbour lies in the stone mask of its newest chain. -/
theorem LoopGood.neighbour_inMask {c : Chains} {cell prev j : Nat} (h : c.LoopGood cell prev j)
    {a : Nat} (ha : c.view.cfc a ≠ 0) :
    a < kNumCellsWithSentinels ∧ c.view.inMask (c.view.newest (c.view.cfc a)) a = true :=
  ⟨(h.board a ha).1,
    (h.loop.mask_iff _ (h.cur_newest ha) a (h.board a ha).1).mpr (Or.inl ⟨ha, rfl⟩)⟩

/-- The cell of the move is linked with the stones of the chain of a
neighbour. -/
theorem LoopGood.link_cell {c : Chains} {cell prev j : Nat} (h : c.LoopGood cell prev j)
    {i : Nat} (hi : i < 6) (hne : c.view.cfc (NthNeighbor cell i) ≠ 0) {a : Nat}
    (ha : a < kNumCellsWithSentinels)
    (hma : c.view.inMask (c.view.newest (c.view.cfc (NthNeighbor cell i))) a = true) :
    c.LinkedWith cell cell a ∧ c.LinkedWith cell a cell := by
  have hn := h.neighbour_inMask hne
  have hadj : Adjacent cell (NthNeighbor cell i) := ⟨i, hi, rfl⟩
  constructor
  · exact Relation.ReflTransGen.head ⟨Or.inr rfl, Or.inl hne, hadj⟩
      (h.linked _ (h.cur_newest hne) _ a hn.1 ha hn.2 hma)
  · exact Relation.ReflTransGen.tail (h.linked _ (h.cur_newest hne) a _ ha hn.1 hma hn.2)
      ⟨Or.inl hne, Or.inr rfl, hadj.symm' h.cell_board⟩

theorem LoopGood.addStone {c : Chains} {cell j : Nat} (h : c.LoopGood cell 0 j) (hj : j < 6)
    (hne : c.view.cfc (NthNeighbor cell j) ≠ 0) :
    (c.addStone (c.view.newest (c.view.cfc (NthNeighbor cell j))) (CellToX cell)
      (CellToY cell)).LoopGood cell (c.view.newest (c.view.cfc (NthNeighbor cell j))) (j + 1) := by
  have hb := h.cur_newest hne
  have hb0 : c.view.newest (c.view.cfc (NthNeighbor cell j)) ≠ 0 := Nat.ne_of_gt hb.1
  generalize hbdef : c.view.newest (c.view.cfc (NthNeighbor cell j)) = b at hb hb0
  have hmask : ∀ k a, (c.addStone b (CellToX cell) (CellToY cell)).view.inMask k a =
      (c.view.inMask k a || (decide (k = b) && decide (a = cell))) :=
    fun k a => ChainView.inMask_addStone_cell _ _ _ _ _ _
  have hnot : c.view.inMask b cell = false := by
    rw [Bool.eq_false_iff]
    intro h'
    rcases (h.loop.mask_iff b hb cell h.cell_lt).mp h' with h1 | h1
    · exact h1.1 h.loop.cell_empty
    · exact hb0 h1.2
  refine
    { loop := h.loop.loop_addStone hb _
        (or_lt_16384 _ _ (Nat.lt_trans (GetMaskOfEdgesAndCorners_lt _) (by norm_num))
          (ringMask_lt _ _ _))
      cell_lt := h.cell_lt
      cell_board := h.cell_board
      board := h.board
      adjacent := h.adjacent
      visited := ?_
      linked := ?_
      count := ?_
      edges := ?_ }
  · intro i hi hne'
    rcases Nat.lt_succ_iff_lt_or_eq.mp hi with h' | h'
    · exact absurd rfl (h.visited i h' hne').1
    · rw [h']
      exact ⟨hb0, hbdef⟩
  · intro ch hch a a' ha ha' hma hma'
    have hch' : c.view.IsNewest ch := hch
    rw [hmask, Bool.or_eq_true, Bool.and_eq_true, decide_eq_true_eq, decide_eq_true_eq] at hma hma'
    show c.LinkedWith cell a a'
    rcases hma with hma | ⟨e1, e2⟩
    · rcases hma' with hma' | ⟨e3, e4⟩
      · exact h.linked ch hch' a a' ha ha' hma hma'
      · rw [e4]
        rw [e3, ← hbdef] at hma
        exact (h.link_cell hj hne ha hma).2
    · rcases hma' with hma' | ⟨e3, e4⟩
      · rw [e2]
        rw [e1, ← hbdef] at hma'
        exact (h.link_cell hj hne ha' hma').1
      · rw [e2, e4]
        exact Relation.ReflTransGen.refl
  · intro ch hch
    have hch' : c.view.IsNewest ch := hch
    by_cases e : ch = b
    · rw [e]
      have e1 : (c.addStone b (CellToX cell) (CellToY cell)).num b =
          (c.num b + 1) % 4294967296 := by
        show (if b = b then _ else _) = _
        rw [if_pos rfl]
      have e3 : ((c.addStone b (CellToX cell) (CellToY cell)).cells b).length =
          (c.cells b).length + 1 :=
        cells_insert h.cell_lt hnot (fun a _ => by rw [hmask]; simp)
      rw [e1, h.count b hb, e3]
      have := cells_length_le c b
      have e2 : kNumCellsWithSentinels = 736 := rfl
      omega
    · have e1 : (c.addStone b (CellToX cell) (CellToY cell)).num ch = c.num ch := by
        show (if ch = b then _ else _) = _
        rw [if_neg e]
      have e3 : (c.addStone b (CellToX cell) (CellToY cell)).cells ch = c.cells ch :=
        cells_congr (fun a _ => by rw [hmask]; simp [e])
      rw [e1, h.count ch hch', e3]
  · intro ch hch i hi
    have hch' : c.view.IsNewest ch := hch
    by_cases e : ch = b
    · rw [e]
      have e1 : (c.addStone b (CellToX cell) (CellToY cell)).view.ecr b =
          c.view.ecr b ||| (GetMaskOfEdgesAndCorners cell |||
            ringMask (c.view.rows b) (CellToX cell) (CellToY cell)) := by
        show (if b = b then _ else _) = _
        rw [if_pos rfl, XYToCell_CellTo]
      have e3 : ((c.addStone b (CellToX cell) (CellToY cell)).edgesOf b).testBit i =
          ((c.edgesOf b).testBit i || (GetMaskOfEdgesAndCorners cell).testBit i) :=
        edgesOf_insert h.cell_lt (fun a _ => by rw [hmask]; simp) i
      rw [e1, Nat.testBit_or, Nat.testBit_or, ringMask_testBit_low _ _ _ _ hi, Bool.or_false,
        h.edges b hb i hi, e3]
    · have e1 : (c.addStone b (CellToX cell) (CellToY cell)).view.ecr ch = c.view.ecr ch := by
        show (if ch = b then _ else _) = _
        rw [if_neg e]
      have e3 : (c.addStone b (CellToX cell) (CellToY cell)).edgesOf ch = c.edgesOf ch :=
        edgesOf_congr (fun a _ => by rw [hmask]; simp [e])
      rw [e1, h.edges ch hch' i hi, e3]

theorem LoopGood.merge {c : Chains} {cell prev j : Nat} (h : c.LoopGood cell prev j)
    (hj : j < 6) (hp : prev ≠ 0) (hne : c.view.cfc (NthNeighbor cell j) ≠ 0)
    (hd : c.view.newest prev ≠ c.view.newest (c.view.cfc (NthNeighbor cell j)))
    (hsize : c.view.size < kChainNumLimit) :
    (c.merge (c.view.newest prev) (c.view.newest (c.view.cfc (NthNeighbor cell j)))
      (CellToX cell) (CellToY cell)).LoopGood cell c.view.size (j + 1) := by
  have hprev := h.prev_newest hp
  rw [ChainView.newest_of_isNewest hprev] at hd ⊢
  have hb := h.cur_newest hne
  have hlink := fun a ha hma => h.link_cell hj hne (a := a) ha hma
  generalize hbdef : c.view.newest (c.view.cfc (NthNeighbor cell j)) = b at hb hd hlink
  have hmask : ∀ k a, a < kNumCellsWithSentinels →
      (c.merge prev b (CellToX cell) (CellToY cell)).view.inMask k a =
        if k = c.view.size then (c.view.inMask prev a || c.view.inMask b a)
        else c.view.inMask k a :=
    fun k a ha => ChainView.inMask_merge _ _ _ _ _ _ ha
  have hnew : ∀ ch, (c.merge prev b (CellToX cell) (CellToY cell)).view.IsNewest ch ↔
      ch = c.view.size ∨ (c.view.IsNewest ch ∧ ch ≠ prev ∧ ch ≠ b) :=
    fun ch => ChainView.isNewest_merge_iff hprev _ ch
  have hnewest : ∀ a, c.view.cfc a ≠ 0 →
      (c.merge prev b (CellToX cell) (CellToY cell)).view.newest (c.view.cfc a) =
        if c.view.newest (c.view.cfc a) = prev ∨ c.view.newest (c.view.cfc a) = b
        then c.view.size else c.view.newest (c.view.cfc a) :=
    fun a ha => ChainView.newest_merge h.loop.newer_lt h.loop.size_pos hprev hb _ _
      (Nat.pos_of_ne_zero ha) (h.loop.cfc_lt a)
  have hcell : c.view.inMask prev cell = true :=
    (h.loop.mask_iff prev hprev cell h.cell_lt).mpr (Or.inr ⟨rfl, rfl⟩)
  have hdisj : ∀ x, x < kNumCellsWithSentinels → c.view.inMask prev x = true →
      c.view.inMask b x = true → False := by
    intro x hx h1 h2
    rcases (h.loop.mask_iff prev hprev x hx).mp h1 with h1 | h1
    · rcases (h.loop.mask_iff b hb x hx).mp h2 with h2 | h2
      · exact hd (h1.2.symm.trans h2.2)
      · exact hd h2.2.symm
    · rcases (h.loop.mask_iff b hb x hx).mp h2 with h2 | h2
      · rw [h1.1] at h2
        exact h2.1 h.loop.cell_empty
      · exact hd h2.2.symm
  have hsz : ∀ ch, c.view.IsNewest ch → ch ≠ c.view.size := fun ch hch => Nat.ne_of_lt hch.2.1
  refine
    { loop := h.loop.loop_merge hprev hb hd hsize _ (ringMask_lt _ _ _)
      cell_lt := h.cell_lt
      cell_board := h.cell_board
      board := h.board
      adjacent := ?_
      visited := ?_
      linked := ?_
      count := ?_
      edges := ?_ }
  · intro a a' ha ha' hadj
    show (c.merge prev b (CellToX cell) (CellToY cell)).view.newest (c.view.cfc a) =
      (c.merge prev b (CellToX cell) (CellToY cell)).view.newest (c.view.cfc a')
    rw [hnewest a ha, hnewest a' ha', h.adjacent a a' ha ha' hadj]
  · intro i hi hne'
    refine ⟨Nat.ne_of_gt h.loop.size_pos, ?_⟩
    show (c.merge prev b (CellToX cell) (CellToY cell)).view.newest
      (c.view.cfc (NthNeighbor cell i)) = c.view.size
    rw [hnewest _ hne']
    rcases Nat.lt_succ_iff_lt_or_eq.mp hi with h' | h'
    · rw [if_pos (Or.inl (h.visited i h' hne').2)]
    · rw [h', if_pos (Or.inr hbdef)]
  · intro ch hch a a' ha ha' hma hma'
    rw [hmask ch a ha] at hma
    rw [hmask ch a' ha'] at hma'
    show c.LinkedWith cell a a'
    rcases (hnew ch).mp hch with e | ⟨hch', _, _⟩
    · rw [if_pos e, Bool.or_eq_true] at hma hma'
      rcases hma with hma | hma
      · rcases hma' with hma' | hma'
        · exact h.linked prev hprev a a' ha ha' hma hma'
        · exact (h.linked prev hprev a cell ha h.cell_lt hma hcell).trans (hlink a' ha' hma').1
      · rcases hma' with hma' | hma'
        · exact (hlink a ha hma).2.trans (h.linked prev hprev cell a' h.cell_lt ha' hcell hma')
        · exact h.linked b hb a a' ha ha' hma hma'
    · rw [if_neg (hsz ch hch')] at hma hma'
      exact h.linked ch hch' a a' ha ha' hma hma'
  · intro ch hch
    by_cases e : ch = c.view.size
    · rw [e]
      have e1 : (c.merge prev b (CellToX cell) (CellToY cell)).num c.view.size =
          (c.num prev + c.num b) % 4294967296 := by
        show (if c.view.size = c.view.size then _ else _) = _
        rw [if_pos rfl]
      have e3 : ((c.merge prev b (CellToX cell) (CellToY cell)).cells c.view.size).length =
          (c.cells prev).length + (c.cells b).length :=
        cells_union hdisj (fun x hx => by rw [hmask _ x hx, if_pos rfl])
      rw [e1, h.count prev hprev, h.count b hb, e3]
      have := cells_length_le c prev
      have := cells_length_le c b
      have e2 : kNumCellsWithSentinels = 736 := rfl
      omega
    · have hch' : c.view.IsNewest ch := by
        rcases (hnew ch).mp hch with e' | ⟨hch', _, _⟩
        · exact absurd e' e
        · exact hch'
      have e1 : (c.merge prev b (CellToX cell) (CellToY cell)).num ch = c.num ch := by
        show (if ch = c.view.size then _ else _) = _
        rw [if_neg e]
      have e3 : (c.merge prev b (CellToX cell) (CellToY cell)).cells ch = c.cells ch :=
        cells_congr (fun x hx => by rw [hmask _ x hx, if_neg e])
      rw [e1, h.count ch hch', e3]
  · intro ch hch i hi
    by_cases e : ch = c.view.size
    · rw [e]
      have e1 : (c.merge prev b (CellToX cell) (CellToY cell)).view.ecr c.view.size =
          c.view.ecr prev ||| c.view.ecr b |||
            ringMask (c.view.rows b) (CellToX cell) (CellToY cell) := by
        show (if c.view.size = c.view.size then _ else _) = _
        rw [if_pos rfl]
      have e3 : ((c.merge prev b (CellToX cell) (CellToY cell)).edgesOf c.view.size).testBit i =
          ((c.edgesOf prev).testBit i || (c.edgesOf b).testBit i) :=
        edgesOf_union (fun x hx => by rw [hmask _ x hx, if_pos rfl]) i
      rw [e1, Nat.testBit_or, Nat.testBit_or, ringMask_testBit_low _ _ _ _ hi, Bool.or_false,
        h.edges prev hprev i hi, h.edges b hb i hi, e3]
    · have hch' : c.view.IsNewest ch := by
        rcases (hnew ch).mp hch with e' | ⟨hch', _, _⟩
        · exact absurd e' e
        · exact hch'
      have e1 : (c.merge prev b (CellToX cell) (CellToY cell)).view.ecr ch = c.view.ecr ch := by
        show (if ch = c.view.size then _ else _) = _
        rw [if_neg e]
      have e3 : (c.merge prev b (CellToX cell) (CellToY cell)).edgesOf ch = c.edgesOf ch :=
        edgesOf_congr (fun x hx => by rw [hmask _ x hx, if_neg e])
      rw [e1, h.edges ch hch' i hi, e3]

theorem neighborLoop_cfc (cell : Nat) :
    ∀ (n j prev : Nat) (c : Chains) (r : Nat) (c' : Chains),
      c.neighborLoop cell (CellToX cell) (CellToY cell) n j prev = some (r, c') →
      c'.view.cfc = c.view.cfc := by
  intro n
  induction n with
  | zero =>
    intro j prev c r c' hrun
    cases hrun
    rfl
  | succ n ih =>
    intro j prev c r c' hrun
    unfold neighborLoop at hrun
    simp only [] at hrun
    split_ifs at hrun
    · exact ih _ _ _ _ _ hrun
    · exact ih _ _ _ _ _ hrun
    · exact (ih _ _ _ _ _ hrun).trans rfl
    · exact (ih _ _ _ _ _ hrun).trans rfl

/-- The loop over the neighbours of the cell of a move keeps the chains
good. -/
theorem neighborLoop_good (cell : Nat) :
    ∀ (n j prev : Nat) (c : Chains) (r : Nat) (c' : Chains), j + n = 6 →
      c.LoopGood cell prev j →
      c.neighborLoop cell (CellToX cell) (CellToY cell) n j prev = some (r, c') →
      c'.LoopGood cell r 6 := by
  intro n
  induction n with
  | zero =>
    intro j prev c r c' hj h hrun
    have e : j = 6 := by omega
    cases hrun
    rw [← e]
    exact h
  | succ n ih =>
    intro j prev c r c' hj h hrun
    unfold neighborLoop at hrun
    simp only [] at hrun
    have hj6 : j < 6 := by omega
    by_cases hc0 : c.view.cfc (NthNeighbor cell j) = 0
    · rw [if_pos hc0] at hrun
      exact ih _ _ _ _ _ (by omega) (h.skip hc0) hrun
    · rw [if_neg hc0] at hrun
      by_cases hp : prev ≠ 0
      · rw [if_pos hp] at hrun
        by_cases hsame : c.view.newest prev = c.view.newest (c.view.cfc (NthNeighbor cell j))
        · rw [if_pos hsame] at hrun
          exact ih _ _ _ _ _ (by omega) (h.same hp hsame) hrun
        · rw [if_neg hsame] at hrun
          by_cases hsz : c.view.size < kChainNumLimit
          · rw [if_pos hsz] at hrun
            exact ih _ _ _ _ _ (by omega) (h.merge hj6 hp hc0 hsame hsz) hrun
          · rw [if_neg hsz] at hrun
            cases hrun
      · rw [if_neg hp] at hrun
        rw [not_not] at hp
        rw [hp] at h
        exact ih _ _ _ _ _ (by omega) (h.addStone hj6 hc0) hrun

theorem cells_singleton {c : Chains} {k cell : Nat} (hcell : cell < kNumCellsWithSentinels)
    (hm : ∀ a, a < kNumCellsWithSentinels → c.view.inMask k a = decide (a = cell)) :
    (c.cells k).length = 1 := by
  rw [cells_length]
  have e : ((Finset.range kNumCellsWithSentinels).filter fun a => c.view.inMask k a = true) =
      {cell} := by
    ext a
    simp only [Finset.mem_filter, Finset.mem_range, Finset.mem_singleton]
    constructor
    · rintro ⟨h1, h2⟩
      rw [hm a h1, decide_eq_true_eq] at h2
      exact h2
    · intro h
      rw [h]
      exact ⟨hcell, by rw [hm cell hcell]; simp⟩
  rw [e, Finset.card_singleton]

theorem edgesOf_singleton {c : Chains} {k cell : Nat} (hcell : cell < kNumCellsWithSentinels)
    (hm : ∀ a, a < kNumCellsWithSentinels → c.view.inMask k a = decide (a = cell)) (i : Nat) :
    (c.edgesOf k).testBit i = (GetMaskOfEdgesAndCorners cell).testBit i := by
  rw [Bool.eq_iff_iff, edgesOf_testBit]
  constructor
  · rintro ⟨a, h1, h2, h3⟩
    rw [hm a h1, decide_eq_true_eq] at h2
    rw [h2] at h3
    exact h3
  · intro h
    exact ⟨cell, hcell, by rw [hm cell hcell]; simp, h⟩

theorem LoopGood.single {c : Chains} {cell j : Nat} (h : c.LoopGood cell 0 j)
    (hsize : c.view.size < kChainNumLimit) :
    (c.single (CellToX cell) (CellToY cell)).LoopGood cell c.view.size j := by
  have hmask : ∀ k a, a < kNumCellsWithSentinels →
      (c.single (CellToX cell) (CellToY cell)).view.inMask k a =
        if k = c.view.size then decide (a = cell) else c.view.inMask k a :=
    fun k a ha => ChainView.inMask_single _ _ _ _ ha
  have hnew : ∀ ch, (c.single (CellToX cell) (CellToY cell)).view.IsNewest ch ↔
      ch = c.view.size ∨ c.view.IsNewest ch :=
    fun ch => ChainView.isNewest_single_iff _ h.loop.size_pos _ _ ch
  have hnewest : ∀ a, c.view.cfc a ≠ 0 →
      (c.single (CellToX cell) (CellToY cell)).view.newest (c.view.cfc a) =
        c.view.newest (c.view.cfc a) :=
    fun a ha => ChainView.newest_single h.loop.newer_lt _ _ _
      (Nat.pos_of_ne_zero ha) (h.loop.cfc_lt a)
  have hsz : ∀ ch, c.view.IsNewest ch → ch ≠ c.view.size := fun ch hch => Nat.ne_of_lt hch.2.1
  refine
    { loop := h.loop.loop_single hsize
      cell_lt := h.cell_lt
      cell_board := h.cell_board
      board := h.board
      adjacent := ?_
      visited := ?_
      linked := ?_
      count := ?_
      edges := ?_ }
  · intro a a' ha ha' hadj
    show (c.single (CellToX cell) (CellToY cell)).view.newest (c.view.cfc a) =
      (c.single (CellToX cell) (CellToY cell)).view.newest (c.view.cfc a')
    rw [hnewest a ha, hnewest a' ha', h.adjacent a a' ha ha' hadj]
  · intro i hi hne'
    exact absurd rfl (h.visited i hi hne').1
  · intro ch hch a a' ha ha' hma hma'
    rw [hmask ch a ha] at hma
    rw [hmask ch a' ha'] at hma'
    show c.LinkedWith cell a a'
    by_cases e : ch = c.view.size
    · rw [if_pos e, decide_eq_true_eq] at hma hma'
      rw [hma, hma']
      exact Relation.ReflTransGen.refl
    · have hch' : c.view.IsNewest ch := by
        rcases (hnew ch).mp hch with e' | hch'
        · exact absurd e' e
        · exact hch'
      rw [if_neg e] at hma hma'
      exact h.linked ch hch' a a' ha ha' hma hma'
  · intro ch hch
    by_cases e : ch = c.view.size
    · rw [e]
      have e1 : (c.single (CellToX cell) (CellToY cell)).num c.view.size = 1 := by
        show (if c.view.size = c.view.size then _ else _) = _
        rw [if_pos rfl]
      rw [e1, cells_singleton h.cell_lt (fun a ha => by rw [hmask _ a ha, if_pos rfl])]
    · have hch' : c.view.IsNewest ch := by
        rcases (hnew ch).mp hch with e' | hch'
        · exact absurd e' e
        · exact hch'
      have e1 : (c.single (CellToX cell) (CellToY cell)).num ch = c.num ch := by
        show (if ch = c.view.size then _ else _) = _
        rw [if_neg e]
      have e3 : (c.single (CellToX cell) (CellToY cell)).cells ch = c.cells ch :=
        cells_congr (fun x hx => by rw [hmask _ x hx, if_neg e])
      rw [e1, h.count ch hch', e3]
  · intro ch hch i hi
    by_cases e : ch = c.view.size
    · rw [e]
      have e1 : (c.single (CellToX cell) (CellToY cell)).view.ecr c.view.size =
          GetMaskOfEdgesAndCorners cell := by
        show (if c.view.size = c.view.size then _ else _) = _
        rw [if_pos rfl, XYToCell_CellTo]
      rw [e1, edgesOf_singleton h.cell_lt (fun a ha => by rw [hmask _ a ha, if_pos rfl])]
    · have hch' : c.view.IsNewest ch := by
        rcases (hnew ch).mp hch with e' | hch'
        · exact absurd e' e
        · exact hch'
      have e1 : (c.single (CellToX cell) (CellToY cell)).view.ecr ch = c.view.ecr ch := by
        show (if ch = c.view.size then _ else _) = _
        rw [if_neg e]
      have e3 : (c.single (CellToX cell) (CellToY cell)).edgesOf ch = c.edgesOf ch :=
        edgesOf_congr (fun x hx => by rw [hmask _ x hx, if_neg e])
      rw [e1, h.edges ch hch' i hi, e3]

theorem eq_of_low_bits {a b : Nat} (ha : a < 4096) (hb : b < 4096)
    (h : ∀ i, i < 12 → a.testBit i = b.testBit i) : a = b := by
  apply Nat.eq_of_testBit_eq
  intro i
  by_cases hi : i < 12
  · exact h i hi
  · have h2 : (4096 : Nat) ≤ 2 ^ i := by
      have : (4096 : Nat) = 2 ^ 12 := rfl
      rw [this]
      exact Nat.pow_le_pow_right (by norm_num) (by omega)
    rw [Nat.testBit_eq_false_of_lt (Nat.lt_of_lt_of_le ha h2),
      Nat.testBit_eq_false_of_lt (Nat.lt_of_lt_of_le hb h2)]

theorem clearRing_testBit (e i : Nat) (hi : i < 12) :
    (e &&& (4294967295 ^^^ (3 <<< 12))).testBit i = e.testBit i := by
  rw [Nat.testBit_and]
  have h : (4294967295 ^^^ (3 <<< 12) : Nat).testBit i = true := by
    interval_cases i <;> rfl
  rw [h, Bool.and_true]

/-- The end of a move: the cell is entered in `chains_for_cells_` and the
ring bits of its chain are cleared; the chains are good again. -/
theorem LoopGood.finish {c : Chains} {cell prev : Nat} (h : c.LoopGood cell prev 6)
    (hp : prev ≠ 0) : ((c.setCfc cell prev).clearRing prev).Good := by
  have hprev := h.prev_newest hp
  have hinv := h.loop.loop_finish hprev
  have hcfc : ∀ a, ((c.setCfc cell prev).clearRing prev).view.cfc a =
      if a = cell then prev else c.view.cfc a := fun _ => rfl
  have hnewest : ∀ k, ((c.setCfc cell prev).clearRing prev).view.newest k = c.view.newest k :=
    fun _ => rfl
  have hmask : ∀ k a, ((c.setCfc cell prev).clearRing prev).view.inMask k a =
      c.view.inMask k a := fun _ _ => rfl
  have hold : ∀ a, ((c.setCfc cell prev).clearRing prev).view.cfc a ≠ 0 →
      (a = cell ∧ ((c.setCfc cell prev).clearRing prev).view.cfc a = prev) ∨
      (a ≠ cell ∧ c.view.cfc a ≠ 0 ∧
        ((c.setCfc cell prev).clearRing prev).view.cfc a = c.view.cfc a) := by
    intro a ha
    rw [hcfc] at ha ⊢
    by_cases e : a = cell
    · rw [if_pos e]
      exact Or.inl ⟨e, rfl⟩
    · rw [if_neg e] at ha ⊢
      exact Or.inr ⟨e, ha, rfl⟩
  have hpp : c.view.newest prev = prev := ChainView.newest_of_isNewest hprev
  have hnb : ∀ a, a ≠ cell → c.view.cfc a ≠ 0 → Adjacent cell a →
      c.view.newest (c.view.cfc a) = prev := by
    rintro a _ ha ⟨i, hi, e⟩
    rw [e] at ha ⊢
    exact (h.visited i hi ha).2
  have hin : ∀ a, ((c.setCfc cell prev).clearRing prev).view.cfc a ≠ 0 →
      a < kNumCellsWithSentinels ∧
        c.view.inMask (c.view.newest (((c.setCfc cell prev).clearRing prev).view.cfc a)) a =
          true := by
    intro a ha
    rcases hold a ha with ⟨e1, e2⟩ | ⟨e1, e2, e3⟩
    · rw [e2, hpp, e1]
      exact ⟨h.cell_lt, (h.loop.mask_iff prev hprev cell h.cell_lt).mpr (Or.inr ⟨rfl, rfl⟩)⟩
    · rw [e3]
      exact h.neighbour_inMask e2
  refine
    { inv := hinv
      board := ?_
      adjacent := ?_
      linked := ?_
      count := ?_
      edges := ?_ }
  · intro a ha
    rcases hold a ha with ⟨e1, _⟩ | ⟨_, e2, _⟩
    · rw [e1]
      exact ⟨h.cell_lt, h.cell_board⟩
    · exact h.board a e2
  · intro a b ha hb hadj
    rw [hnewest, hnewest]
    rcases hold a ha with ⟨e1, e2⟩ | ⟨e1, e2, e3⟩
    · rcases hold b hb with ⟨e4, e5⟩ | ⟨e4, e5, e6⟩
      · rw [e2, e5]
      · rw [e2, e6, hpp]
        rw [e1] at hadj
        exact (hnb b e4 e5 hadj).symm
    · rcases hold b hb with ⟨e4, e5⟩ | ⟨e4, e5, e6⟩
      · rw [e3, e5, hpp]
        rw [e4] at hadj
        exact hnb a e1 e2 (hadj.symm' (h.board a e2).2)
      · rw [e3, e6]
        exact h.adjacent a b e2 e5 hadj
  · intro a b ha hb hab
    rw [hnewest, hnewest] at hab
    have h1 := hin a ha
    have h2 := hin b hb
    rw [← hab] at h2
    have hch : c.view.IsNewest
        (c.view.newest (((c.setCfc cell prev).clearRing prev).view.cfc a)) :=
      ChainView.isNewest_newest h.loop.newer_lt (Nat.pos_of_ne_zero ha)
        (hinv.cfc_lt a)
    refine Relation.ReflTransGen.mono ?_ (h.linked _ hch a b h1.1 h2.1 h1.2 h2.2)
    rintro x y ⟨hx, hy, hxy⟩
    refine ⟨?_, ?_, hxy⟩
    · rw [hcfc]
      rcases hx with hx | hx
      · by_cases e : x = cell
        · rw [if_pos e]
          exact hp
        · rw [if_neg e]
          exact hx
      · rw [if_pos hx]
        exact hp
    · rw [hcfc]
      rcases hy with hy | hy
      · by_cases e : y = cell
        · rw [if_pos e]
          exact hp
        · rw [if_neg e]
          exact hy
      · rw [if_pos hy]
        exact hp
  · intro ch hch
    exact h.count ch hch
  · intro ch hch
    have hch' : c.view.IsNewest ch := hch
    apply eq_of_low_bits (hinv.ecr_lt ch hch) (edgesOf_lt _ _)
    intro i hi
    have e3 : ((c.setCfc cell prev).clearRing prev).edgesOf ch = c.edgesOf ch :=
      edgesOf_congr (fun a _ => hmask ch a)
    rw [e3, ← h.edges ch hch' i hi]
    show (if ch = prev then c.view.ecr ch &&& (4294967295 ^^^ (3 <<< 12))
      else c.view.ecr ch).testBit i = _
    by_cases e : ch = prev
    · rw [if_pos e, clearRing_testBit _ _ hi]
    · rw [if_neg e]

/-- What a move does to good chains: the loop over the neighbours ends
with good chains and a chain `q` of the new stone, and the move enters `q`
at the cell, returns the victory of `q` and clears its ring bits. -/
theorem makeMove_loopGood {c : Chains} {cell r : Nat} {c' : Chains} (hg : c.Good)
    (h : c.makeMove cell = some (r, c')) :
    ∃ (c₀ : Chains) (q : Nat), q ≠ 0 ∧ c₀.LoopGood cell q 6 ∧ c₀.view.cfc = c.view.cfc ∧
      c' = (c₀.setCfc cell q).clearRing q ∧ r = victoryOf (c₀.view.ecr q) := by
  unfold makeMove at h
  cases hps : c.placeStone cell with
  | none =>
    rw [hps] at h
    cases h
  | some c₁ =>
    rw [hps] at h
    simp only [Option.some.injEq, Prod.mk.injEq] at h
    obtain ⟨hr, hc'⟩ := h
    unfold placeStone at hps
    by_cases hpre : LiesOnBoard (CellToX cell) (CellToY cell) = true ∧
        cell < kNumCellsWithSentinels ∧ c.view.cfc cell = 0
    · rw [if_pos hpre] at hps
      have hstart := LoopGood.start hg cell hpre.2.1 hpre.1 hpre.2.2
      cases hloop : c.neighborLoop cell (CellToX cell) (CellToY cell) 6 0 0 with
      | none =>
        rw [hloop] at hps
        cases hps
      | some res =>
        obtain ⟨prev, c₂⟩ := res
        rw [hloop] at hps
        have hcfc := neighborLoop_cfc cell _ _ _ _ _ _ hloop
        have hl := neighborLoop_good cell _ _ _ _ _ _ rfl hstart hloop
        simp only [] at hps
        by_cases hp : prev ≠ 0
        · rw [if_pos hp] at hps
          cases hps
          have hq : (c₂.setCfc cell prev).view.newest ((c₂.setCfc cell prev).view.cfc cell) =
              prev := by
            rw [setCfc_cfc]
            exact ChainView.newest_of_isNewest (hl.prev_newest hp)
          rw [hq] at hr hc'
          exact ⟨c₂, prev, hp, hl, hcfc, hc'.symm, hr.symm⟩
        · rw [if_neg hp] at hps
          rw [not_not] at hp
          rw [hp] at hl
          by_cases hsz : c₂.view.size < kChainNumLimit
          · rw [if_pos hsz] at hps
            cases hps
            have hl' := hl.single hsz
            have hpos : c₂.view.size ≠ 0 := Nat.ne_of_gt hl.loop.size_pos
            have hq : ((c₂.single (CellToX cell) (CellToY cell)).setCfc cell
                c₂.view.size).view.newest (((c₂.single (CellToX cell) (CellToY cell)).setCfc cell
                  c₂.view.size).view.cfc cell) = c₂.view.size := by
              rw [setCfc_cfc]
              exact ChainView.newest_of_isNewest (hl'.prev_newest hpos)
            rw [hq] at hr hc'
            exact ⟨_, _, hpos, hl', hcfc, hc'.symm, hr.symm⟩
          · rw [if_neg hsz] at hps
            cases hps
    · rw [if_neg hpre] at hps
      cases hps

end Chains

/-! ### The moves of the program on the chains -/

theorem LoopGood_lt_256 {c : Chains} {cell q j : Nat} (h : c.LoopGood cell q j) (hq : q ≠ 0) :
    q < 256 := by
  have h1 := (h.prev_newest hq).2.1
  have h2 := h.loop.size_le
  rw [ChainView.kChainNumLimit_eq] at h2
  omega

theorem MakeMoveFast_chains {p cell : Nat} {s : State} {r : Nat} {s' : State}
    (hg : (s.chains p).Good) (h : PlayerPosition.MakeMoveFast p cell s = Res.ok r s') :
    (s.chains p).makeMove cell = some (r, s'.chains p) := by
  unfold PlayerPosition.MakeMoveFast at h
  simp only [assert_bind, ite_fail_eq_ok, CellIsEmpty_bind, decide_eq_true_eq] at h
  obtain ⟨hb, hlt, hempty, h1⟩ := h
  obtain ⟨prev, s₁, h2, h3⟩ := bind_ok h1
  clear h1
  have hloop := neighborLoopFast_chains p cell _ _ _ _ _ _ _ _ h2
  have hl := Chains.neighborLoop_good cell _ _ _ _ _ _ rfl
    (Chains.LoopGood.start hg cell hlt hb hempty) hloop
  unfold Chains.makeMove Chains.placeStone
  rw [if_pos ⟨hb, hlt, hempty⟩, hloop]
  simp only []
  rw [ite_bind'] at h3
  by_cases hp : prev ≠ 0
  · rw [if_pos hp] at h3 ⊢
    obtain ⟨e1, e2⟩ := MakeMoveFast_tail_chains (LoopGood_lt_256 hl hp) h3
    simp only [setCfc_cfc]
    rw [e1, e2]
  · rw [if_neg hp, bind_assoc'] at h3
    rw [if_neg hp]
    rw [not_not] at hp
    rw [hp] at hl
    obtain ⟨q, s₂, h4, h5⟩ := bind_ok h3
    clear h3
    obtain ⟨hq, hsz, hc⟩ := MakeOneStoneChain_chains h4
    have hsz' : (s₁.chains p).view.size < kChainNumLimit := hsz
    rw [if_pos hsz']
    have hl' := hl.single hsz'
    have hpos : (s₁.chains p).view.size ≠ 0 := Nat.ne_of_gt hl.loop.size_pos
    rw [hq] at h5
    obtain ⟨e1, e2⟩ := MakeMoveFast_tail_chains (LoopGood_lt_256 hl' hpos) h5
    simp only [setCfc_cfc]
    rw [e1, e2, hc]

theorem MakeMoveReversibly_chains {p cell : Nat} {s : State} {r : Nat} {s' : State}
    (hg : (s.chains p).Good) (h : PlayerPosition.MakeMoveReversibly p cell s = Res.ok r s') :
    (s.chains p).makeMove cell = some (r, s'.chains p) := by
  unfold PlayerPosition.MakeMoveReversibly at h
  simp only [assert_bind, ite_fail_eq_ok, CellIsEmpty_bind, decide_eq_true_eq,
    RememberSize_bind] at h
  obtain ⟨hb, hlt, hempty, h1⟩ := h
  obtain ⟨prev, s₁, h2, h3⟩ := bind_ok h1
  clear h1
  have hloop := neighborLoopReversibly_chains p cell _ _ _ _ _ _ _ _ h2
  have e0 : (s.rememberSize p).chains p = s.chains p := rfl
  rw [e0] at hloop
  have hl := Chains.neighborLoop_good cell _ _ _ _ _ _ rfl
    (Chains.LoopGood.start hg cell hlt hb hempty) hloop
  unfold Chains.makeMove Chains.placeStone
  rw [if_pos ⟨hb, hlt, hempty⟩, hloop]
  simp only []
  rw [RememberByte_bind, ite_bind'] at h3
  have e1 : (s₁.remember (Loc.chainsForCells p (cell / 4))).chains p = s₁.chains p := rfl
  by_cases hp : prev ≠ 0
  · rw [if_pos hp] at h3 ⊢
    obtain ⟨e2, e3⟩ := MakeMoveReversibly_tail_chains (LoopGood_lt_256 hl hp) h3
    simp only [setCfc_cfc]
    rw [e2, e3, e1]
  · rw [if_neg hp, bind_assoc'] at h3
    rw [if_neg hp]
    rw [not_not] at hp
    rw [hp] at hl
    obtain ⟨q, s₂, h4, h5⟩ := bind_ok h3
    clear h3
    obtain ⟨hq, hsz, hc⟩ := MakeOneStoneChain_chains h4
    have hsz' : (s₁.chains p).view.size < kChainNumLimit := hsz
    rw [if_pos hsz']
    have hl' := hl.single hsz'
    have hpos : (s₁.chains p).view.size ≠ 0 := Nat.ne_of_gt hl.loop.size_pos
    rw [hq] at h5
    obtain ⟨e2, e3⟩ := MakeMoveReversibly_tail_chains (LoopGood_lt_256 hl' hpos) h5
    simp only [setCfc_cfc]
    rw [e2, e3, hc, e1]

/-! ### The chains of a player after any sequence of moves -/

theorem Good_init (p : Nat) : (State.init.chains p).Good := by
  have hinv := Inv_init p
  have h0 : ∀ cell, (State.init.chains p).view.cfc cell = 0 := by
    intro cell
    have h1 := hinv.cfc_lt cell
    have h2 : (State.init.view p).size = 1 := rfl
    have h3 : (State.init.chains p).view.cfc cell = (State.init.view p).cfc cell := rfl
    omega
  have hn : ∀ ch, ¬ (State.init.chains p).view.IsNewest ch := by
    rintro ch ⟨h1, h2, _⟩
    have h3 : ch < 1 := h2
    omega
  exact
    { inv := hinv
      board := fun cell h => absurd (h0 cell) h
      adjacent := fun a _ h => absurd (h0 a) h
      linked := fun a _ h => absurd (h0 a) h
      count := fun ch h => absurd h (hn ch)
      edges := fun ch h => absurd h (hn ch) }

theorem Chains.makeMove_good {c : Chains} {cell r : Nat} {c' : Chains} (hg : c.Good)
    (h : c.makeMove cell = some (r, c')) : c'.Good := by
  obtain ⟨c₀, q, hq, hl, _, hc', _⟩ := Chains.makeMove_loopGood hg h
  rw [hc']
  exact hl.finish hq

/-- After any sequence of moves the chains of the player are good. -/
theorem PlayerMoved.good {p : Nat} {s : State} (h : PlayerMoved p s) : (s.chains p).Good := by
  induction h with
  | init => exact Good_init p
  | fast _ hmove ih => exact Chains.makeMove_good ih (MakeMoveFast_chains ih hmove)
  | reversibly _ hmove ih => exact Chains.makeMove_good ih (MakeMoveReversibly_chains ih hmove)

namespace Chains

/-- The stones linked with a stone are the stones of its newest chain. -/
theorem Good.linked_iff {c : Chains} (hg : c.Good) {a : Nat} (ha : c.view.cfc a ≠ 0) (b : Nat) :
    c.Linked a b ↔ c.view.cfc b ≠ 0 ∧ c.view.newest (c.view.cfc b) = c.view.newest (c.view.cfc a) := by
  constructor
  · intro h
    induction h with
    | refl => exact ⟨ha, rfl⟩
    | tail _ hstep ih => exact ⟨hstep.2.1, (hg.adjacent _ _ hstep.1 hstep.2.1 hstep.2.2).symm.trans ih.2⟩
  · rintro ⟨hb, e⟩
    exact hg.linked a b ha hb e.symm

end Chains

/-- C11: after any sequence of calls of `PlayerPosition::MakeMoveFast` and
`PlayerPosition::MakeMoveReversibly` that return, which they do only on an
empty cell of the board, for every occupied cell `c` the method
`NewestChainForCell(c)` returns a chain `n` such that the cells of the stone
mask of `n` are the cells linked with `c` through adjacent stones of the
player, `num_stones_` of `n` is the number of these cells, and
`edges_corners_ring_` of `n` is the bitwise OR of `GetMaskOfEdgesAndCorners`
over these cells. -/
theorem NewestChainForCell_holds_connected_group (p : Nat) (s : State) (hs : PlayerMoved p s)
    (c : Nat) (hc : (s.chains p).view.cfc c ≠ 0) :
    ∃ n, PlayerPosition.NewestChainForCell p c s = Res.ok n s ∧
      (∀ a, a ∈ (s.chains p).cells n ↔ (s.chains p).Linked c a) ∧
      ((s.chains p).cells n).Nodup ∧
      (∀ a, a < kNumCellsWithSentinels →
        ((s.view p).inMask n a = true ↔ (s.chains p).Linked c a)) ∧
      s.mem (Loc.chainNumStones p n) = ((s.chains p).cells n).length ∧
      s.mem (Loc.chainEcr p n) =
        ((s.chains p).cells n).foldl (fun e a => e ||| GetMaskOfEdgesAndCorners a) 0 := by
  have hg := hs.good
  have hclt := (hg.board c hc).1
  have hempty : PlayerPosition.CellIsEmpty p c s = Res.ok false s := by
    rw [CellIsEmpty_apply, if_pos hclt]
    have : s.cfc p c ≠ 0 := hc
    simp [this]
  obtain ⟨n, h1, h2, h3, _⟩ := (hg.inv.partition c hclt).1 hempty
  have hn : (s.chains p).view.newest ((s.chains p).view.cfc c) = n :=
    ((hg.inv.mask_iff n h2 c hclt).mp h3).2
  have hmask : ∀ a, a < kNumCellsWithSentinels →
      ((s.view p).inMask n a = true ↔ (s.chains p).Linked c a) := by
    intro a ha
    rw [hg.linked_iff hc, hn]
    exact hg.inv.mask_iff n h2 a ha
  refine ⟨n, h1, ?_, ?_, hmask, hg.count n h2, hg.edges n h2⟩
  · intro a
    rw [Chains.mem_cells]
    constructor
    · rintro ⟨ha, hm⟩
      exact (hmask a ha).mp hm
    · intro hl
      have ha : a < kNumCellsWithSentinels :=
        (hg.board a ((hg.linked_iff hc a).mp hl).1).1
      exact ⟨ha, (hmask a ha).mpr hl⟩
  · unfold Chains.cells
    exact (List.nodup_range _).filter _

theorem edgeState₁_moved : PlayerMoved 0 edgeState₁ := by
  obtain ⟨r, h⟩ := Res.eq_ok_of_isOk
    (PlayerPosition.MakeMoveFast 0 (XYToCell 12 2) State.init) State.init (by decide!)
  exact PlayerMoved.fast PlayerMoved.init h

theorem edgeState₂_moved : PlayerMoved 0 edgeState₂ := by
  obtain ⟨r, h⟩ := Res.eq_ok_of_isOk
    (PlayerPosition.MakeMoveReversibly 0 (XYToCell 11 3) edgeState₁) State.init (by decide!)
  exact PlayerMoved.reversibly edgeState₁_moved h

theorem edgeState₃_moved : PlayerMoved 0 edgeState₃ := by
  obtain ⟨r, h⟩ := Res.eq_ok_of_isOk
    (PlayerPosition.MakeMoveFast 0 (XYToCell 10 3) edgeState₂) State.init (by decide!)
  exact PlayerMoved.fast edgeState₂_moved h

theorem edgeState₃_occupied : (edgeState₃.chains 0).view.cfc (XYToCell 12 2) ≠ 0 := by
  decide!

/-- C11 at the state after the moves at (12, 2), (11, 3) and (10, 3), for
the cell (12, 2). -/
theorem NewestChainForCell_holds_connected_group_witness :
    PlayerMoved 0 edgeState₃ ∧ (edgeState₃.chains 0).view.cfc (XYToCell 12 2) ≠ 0 ∧
    ∃ n, PlayerPosition.NewestChainForCell 0 (XYToCell 12 2) edgeState₃ = Res.ok n edgeState₃ ∧
      (∀ a, a ∈ (edgeState₃.chains 0).cells n ↔ (edgeState₃.chains 0).Linked (XYToCell 12 2) a) ∧
      ((edgeState₃.chains 0).cells n).Nodup ∧
      (∀ a, a < kNumCellsWithSentinels →
        ((edgeState₃.view 0).inMask n a = true ↔
          (edgeState₃.chains 0).Linked (XYToCell 12 2) a)) ∧
      edgeState₃.mem (Loc.chainNumStones 0 n) = ((edgeState₃.chains 0).cells n).length ∧
      edgeState₃.mem (Loc.chainEcr 0 n) =
        ((edgeState₃.chains 0).cells n).foldl (fun e a => e ||| GetMaskOfEdgesAndCorners a) 0 :=
  ⟨edgeState₃_moved, edgeState₃_occupied,
    NewestChainForCell_holds_connected_group 0 edgeState₃ edgeState₃_moved (XYToCell 12 2)
      edgeState₃_occupied⟩

/-! ### Forks and bridges -/

theorem CountSetBits_small : ∀ m, m < 64 →
    kBitsSet.getD m 0 = ((List.range 6).filter fun i => m.testBit i).length := by
  decide

theorem CountSetBits_eq (e : Nat) :
    CountSetBits e = ((List.range 6).filter fun i => e.testBit i).length := by
  unfold CountSetBits
  have h : e &&& 63 < 64 := Nat.lt_of_le_of_lt Nat.and_le_right (by norm_num)
  rw [CountSetBits_small _ h]
  congr 1
  apply List.filter_congr
  intro i hi
  rw [List.mem_range] at hi
  rw [Nat.testBit_and]
  have : (63 : Nat).testBit i = true := by
    interval_cases i <;> rfl
  rw [this, Bool.and_true]

theorem victory_bits : ∀ a, a < 2 → ∀ b, b < 2 → ∀ x, x < 4 →
    ((kFork * a + kBridge * b + x) &&& kFork ≠ 0 ↔ a = 1) ∧
    ((kFork * a + kBridge * b + x) &&& kBridge ≠ 0 ↔ b = 1) ∧
    ((kFork * a + kBridge * b + x) &&& kRing ≠ 0 ↔ x % 2 = 1) := by
  intro a ha b hb x hx
  interval_cases a <;> interval_cases b <;> interval_cases x <;> decide

theorem victoryOf_bits (e : Nat) :
    (victoryOf e &&& kFork ≠ 0 ↔ 3 ≤ CountSetBits e) ∧
    (victoryOf e &&& kBridge ≠ 0 ↔ 2 ≤ CountSetBits (e >>> 6)) ∧
    (victoryOf e &&& kRing ≠ 0 ↔ e.testBit 12 = true) := by
  unfold victoryOf
  have h : (e >>> 12) &&& 3 < 4 := Nat.lt_of_le_of_lt Nat.and_le_right (by norm_num)
  have h3 : e.testBit 12 = decide (((e >>> 12) &&& 3) % 2 = 1) := by
    rw [Nat.testBit_to_div_mod, Nat.shiftRight_eq_div_pow]
    have : (e / 2 ^ 12) &&& 3 = (e / 2 ^ 12) % 4 := Nat.and_pow_two_sub_one_eq_mod _ 2
    rw [this, Nat.mod_mod_of_dvd _ (by norm_num : 2 ∣ 4)]
  rw [h3, decide_eq_true_eq]
  generalize (e >>> 12) &&& 3 = x at h
  have ha : (if CountSetBits e ≥ 3 then 1 else 0) < 2 := by split_ifs <;> decide
  have hb : (if CountSetBits (e >>> 6) ≥ 2 then 1 else 0) < 2 := by split_ifs <;> decide
  obtain ⟨h1, h2, h4⟩ := victory_bits _ ha _ hb x h
  refine ⟨h1.trans ?_, h2.trans ?_, h4⟩
  · split_ifs with h' <;> simp [h']
  · split_ifs with h' <;> simp [h']

namespace Chains

theorem edgesOf_testBit_any (c : Chains) (ch i : Nat) :
    (c.edgesOf ch).testBit i =
      (c.cells ch).any fun cell => (GetMaskOfEdgesAndCorners cell).testBit i := by
  unfold edgesOf
  rw [foldl_or_testBit, Nat.zero_testBit, Bool.false_or]

/-- What a move on good chains returns: the victory of a word whose twelve
lower bits are the edges and corners of the chain of the new stone. -/
theorem makeMove_victory {c : Chains} {cell r : Nat} {c' : Chains} (hg : c.Good)
    (h : c.makeMove cell = some (r, c')) :
    ∃ q e, q ≠ 0 ∧ c'.view.cfc cell = q ∧ c'.view.newest q = q ∧ r = victoryOf e ∧
      ∀ i, i < 12 → e.testBit i = (c'.edgesOf q).testBit i := by
  obtain ⟨c₀, q, hq, hl, _, hc', hr⟩ := makeMove_loopGood hg h
  have hnew := hl.prev_newest hq
  refine ⟨q, c₀.view.ecr q, hq, ?_, ?_, hr, ?_⟩
  · rw [hc']
    exact setCfc_cfc _ _ _
  · rw [hc']
    exact ChainView.newest_of_isNewest hnew
  · intro i hi
    rw [hl.edges q hnew i hi, hc']
    rfl

theorem filter_range_congr (n : Nat) (f g : Nat → Bool) (h : ∀ i, i < n → f i = g i) :
    ((List.range n).filter f).length = ((List.range n).filter g).length := by
  rw [List.filter_congr (fun i hi => h i (List.mem_range.mp hi))]

theorem edgeCount_eq {c : Chains} {q e : Nat}
    (h : ∀ i, i < 12 → e.testBit i = (c.edgesOf q).testBit i) :
    CountSetBits e = c.edgeCount q := by
  rw [CountSetBits_eq]
  unfold edgeCount
  apply filter_range_congr
  intro i hi
  rw [h i (by omega), edgesOf_testBit_any]

theorem cornerCount_eq {c : Chains} {q e : Nat}
    (h : ∀ i, i < 12 → e.testBit i = (c.edgesOf q).testBit i) :
    CountSetBits (e >>> 6) = c.cornerCount q := by
  rw [CountSetBits_eq]
  unfold cornerCount
  apply filter_range_congr
  intro i hi
  rw [Nat.testBit_shiftRight, h (6 + i) (by omega), edgesOf_testBit_any]

end Chains

theorem NewestChainForCell_run {p : Nat} {s : State} (hg : (s.chains p).Good) {c : Nat}
    (hc : (s.chains p).view.cfc c ≠ 0) :
    PlayerPosition.NewestChainForCell p c s =
      Res.ok ((s.chains p).view.newest ((s.chains p).view.cfc c)) s := by
  have hclt := (hg.board c hc).1
  have hempty : PlayerPosition.CellIsEmpty p c s = Res.ok false s := by
    rw [CellIsEmpty_apply, if_pos hclt]
    have : s.cfc p c ≠ 0 := hc
    simp [this]
  obtain ⟨n, h1, h2, h3, _⟩ := (hg.inv.partition c hclt).1 hempty
  have hn : (s.chains p).view.newest ((s.chains p).view.cfc c) = n :=
    ((hg.inv.mask_iff n h2 c hclt).mp h3).2
  rw [hn]
  exact h1

theorem testBit_mul_shiftLeft_28 (k m i : Nat) (hi : i < 28) :
    ((k * (m <<< 28)) % 18446744073709551616).testBit i = false := by
  have e : 18446744073709551616 = 2 ^ 64 := by norm_num
  have e2 : k * (m <<< 28) = 2 ^ 28 * (k * m) := by rw [Nat.shiftLeft_eq]; ring
  rw [e, Nat.testBit_mod_two_pow, e2, Nat.testBit_mul_pow_two]
  have : ¬ 28 ≤ i := by omega
  simp [this]

theorem GetMaskOfEdgesAndCorners_eq (cell : Nat) :
    GetMaskOfEdgesAndCorners cell = edgesCornersInit (CellToX cell) (CellToY cell) &&& 0xFFF := by
  unfold GetMaskOfEdgesAndCorners kEdgesCornersNeighbors
  simp only []
  apply Nat.eq_of_testBit_eq
  intro i
  rw [Nat.testBit_and, Nat.testBit_and, Nat.testBit_or]
  by_cases hi : i < 12
  · rw [testBit_mul_shiftLeft_28 _ _ i (by omega), Bool.false_or]
  · have : (0xFFF : Nat).testBit i = false :=
      Nat.testBit_eq_false_of_lt (Nat.lt_of_lt_of_le (by norm_num : 0xFFF < 2 ^ 12)
        (Nat.pow_le_pow_right (by norm_num) (by omega)))
    rw [this, Bool.and_false, Bool.and_false]

/-- A cell of the board lies on an edge or on a corner, not on both, or on
neither. -/
theorem edge_or_corner (cell : Nat) :
    GetMaskOfEdgesAndCorners cell &&& 63 = 0 ∨ GetMaskOfEdgesAndCorners cell >>> 6 = 0 := by
  by_cases h : cell < kNumCellsWithSentinels
  · have hall : ∀ a, a < kNumCellsWithSentinels →
        ((edgesCornersInit (CellToX a) (CellToY a) &&& 0xFFF) &&& 63 = 0 ∨
          (edgesCornersInit (CellToX a) (CellToY a) &&& 0xFFF) >>> 6 = 0) := by
      decide!
    rw [GetMaskOfEdgesAndCorners_eq]
    exact hall cell h
  · right
    have hy : ¬ CellToY cell < kPastRows := by
      have e1 : kNumCellsWithSentinels = 736 := rfl
      have e2 : kPastRows = 21 := rfl
      unfold CellToY
      omega
    have hb : LiesOnBoard (CellToX cell) (CellToY cell) = false := by
      unfold LiesOnBoard
      simp [hy]
    have h0 : edgesCornersInit (CellToX cell) (CellToY cell) = 0 := by
      unfold edgesCornersInit
      simp only [hb, Bool.false_eq_true, if_false]
    have h1 : GetMaskOfEdgesAndCorners cell = 0 := by
      unfold GetMaskOfEdgesAndCorners kEdgesCornersNeighbors
      simp only [h0, Nat.or_zero, Nat.shiftLeft_eq]
      have e : (0xFFF : Nat) = 2 ^ 12 - 1 := rfl
      rw [e, Nat.and_pow_two_sub_one_eq_mod]
      generalize mask18Init (CellToX cell) (CellToY cell) = m
      norm_num
      omega
    rw [h1]
    rfl

/-- C12: for a move of `PlayerPosition::MakeMoveFast` or
`PlayerPosition::MakeMoveReversibly` after any sequence of such moves,
`NewestChainForCell` returns for the cell of the move a chain `n` such that
the returned `WinningCondition` contains `kFork` if and only if the stones of
`n` lie on at least three edges of the board, and contains `kBridge` if and
only if they lie on at least two corners; the edges are the bits 0 to 5 and
the corners the bits 6 to 11 of `GetMaskOfEdgesAndCorners`, and no cell has
a bit of both. -/
theorem MakeMove_reports_fork_and_bridge (p : Nat) (s : State) (hs : PlayerMoved p s)
    (cell r : Nat) (s' : State)
    (h : PlayerPosition.MakeMoveFast p cell s = Res.ok r s' ∨
      PlayerPosition.MakeMoveReversibly p cell s = Res.ok r s') :
    (∃ n, PlayerPosition.NewestChainForCell p cell s' = Res.ok n s' ∧
      (s'.view p).inMask n cell = true ∧
      (r &&& kFork ≠ 0 ↔ 3 ≤ (s'.chains p).edgeCount n) ∧
      (r &&& kBridge ≠ 0 ↔ 2 ≤ (s'.chains p).cornerCount n)) ∧
    ∀ a, GetMaskOfEdgesAndCorners a &&& 63 = 0 ∨ GetMaskOfEdgesAndCorners a >>> 6 = 0 := by
  refine ⟨?_, edge_or_corner⟩
  have hg := hs.good
  have hrun : (s.chains p).makeMove cell = some (r, s'.chains p) := by
    rcases h with h | h
    · exact MakeMoveFast_chains hg h
    · exact MakeMoveReversibly_chains hg h
  have hg' := Chains.makeMove_good hg hrun
  obtain ⟨q, e, hq, hcfc, hnew, hr, hbits⟩ := Chains.makeMove_victory hg hrun
  have hc : (s'.chains p).view.cfc cell ≠ 0 := by
    rw [hcfc]
    exact hq
  have hn := NewestChainForCell_run hg' hc
  rw [hcfc, hnew] at hn
  refine ⟨q, hn, ?_, ?_, ?_⟩
  · have hnq : (s'.chains p).view.IsNewest q := by
      have := ChainView.isNewest_newest hg'.inv.newer_lt (Nat.pos_of_ne_zero hc)
        (hg'.inv.cfc_lt cell)
      rw [hcfc, hnew] at this
      exact this
    exact (hg'.inv.mask_iff q hnq cell (hg'.board cell hc).1).mpr
      ⟨hc, by rw [hcfc]; exact hnew⟩
  · rw [hr, (victoryOf_bits e).1, Chains.edgeCount_eq hbits]
  · rw [hr, (victoryOf_bits e).2.1, Chains.cornerCount_eq hbits]

/-- C12 at the fast move at (10, 3) after the moves at (12, 2) and
(11, 3). -/
theorem MakeMove_reports_fork_and_bridge_witness :
    PlayerMoved 0 edgeState₂ ∧
    ∃ r, (PlayerPosition.MakeMoveFast 0 (XYToCell 10 3) edgeState₂ = Res.ok r edgeState₃ ∨
        PlayerPosition.MakeMoveReversibly 0 (XYToCell 10 3) edgeState₂ = Res.ok r edgeState₃) ∧
      ((∃ n, PlayerPosition.NewestChainForCell 0 (XYToCell 10 3) edgeState₃ =
          Res.ok n edgeState₃ ∧
        (edgeState₃.view 0).inMask n (XYToCell 10 3) = true ∧
        (r &&& kFork ≠ 0 ↔ 3 ≤ (edgeState₃.chains 0).edgeCount n) ∧
        (r &&& kBridge ≠ 0 ↔ 2 ≤ (edgeState₃.chains 0).cornerCount n)) ∧
      ∀ a, GetMaskOfEdgesAndCorners a &&& 63 = 0 ∨ GetMaskOfEdgesAndCorners a >>> 6 = 0) := by
  obtain ⟨r, h⟩ := Res.eq_ok_of_isOk
    (PlayerPosition.MakeMoveFast 0 (XYToCell 10 3) edgeState₂) State.init (by decide!)
  exact ⟨edgeState₂_moved, r, Or.inl h,
    MakeMove_reports_fork_and_bridge 0 edgeState₂ edgeState₂_moved (XYToCell 10 3) r edgeState₃
      (Or.inl h)⟩

/-! ### A stone in the middle of six stones -/

theorem shift_and_3 (r x : Nat) (h0 : r.testBit x = true) (h1 : r.testBit (x + 1) = true) :
    (r >>> x) &&& 3 = 3 := by
  apply Nat.eq_of_testBit_eq
  intro i
  rw [Nat.testBit_and, Nat.testBit_shiftRight]
  rcases i with _ | _ | i
  · simp [h0]
  · simp [h1]
  · have : (3 : Nat).testBit (i + 1 + 1) = false :=
      Nat.testBit_eq_false_of_lt (Nat.lt_of_lt_of_le (by norm_num : 3 < 2 ^ 2)
        (Nat.pow_le_pow_right (by norm_num) (by omega)))
    rw [this, Bool.and_false]

theorem shift_and_5 (r x : Nat) (h0 : r.testBit x = true) (h2 : r.testBit (x + 2) = true) :
    (r >>> x) &&& 5 = 5 := by
  apply Nat.eq_of_testBit_eq
  intro i
  rw [Nat.testBit_and, Nat.testBit_shiftRight]
  rcases i with _ | _ | _ | i
  · simp [h0]
  · have : (5 : Nat).testBit 1 = false := by decide
    simp [this]
  · simp [h2]
  · have : (5 : Nat).testBit (i + 1 + 1 + 1) = false :=
      Nat.testBit_eq_false_of_lt (Nat.lt_of_lt_of_le (by norm_num : 5 < 2 ^ 3)
        (Nat.pow_le_pow_right (by norm_num) (by omega)))
    rw [this, Bool.and_false]

/-- A stone mask with the six neighbours of (x, y): the table `kClosesRing`
has 0 at their pattern, 119, and `Chain::ClosesAnyRing` returns 0. -/
theorem closesAnyRing_hexagon (rows : Nat → Nat) (x y : Nat) (hx : 1 ≤ x)
    (h0 : (rows y).testBit (x - 1) = true) (h1 : (rows (y - 1)).testBit x = true)
    (h2 : (rows (y - 1)).testBit (x + 1) = true) (h3 : (rows y).testBit (x + 1) = true)
    (h4 : (rows (y + 1)).testBit x = true) (h5 : (rows (y + 1)).testBit (x - 1) = true) :
    closesAnyRing rows x y = 0 := by
  have e : x - 1 + 2 = x + 1 := by omega
  have e' : x - 1 + 1 = x := by omega
  have a1 := shift_and_3 (rows (y - 1)) x h1 h2
  have a2 := shift_and_5 (rows y) (x - 1) h0 (by rw [e]; exact h3)
  have a3 := shift_and_3 (rows (y + 1)) (x - 1) h5 (by rw [e']; exact h4)
  unfold closesAnyRing PrevY NextY
  simp only [a1, a2, a3]
  rfl

theorem ringMask_hexagon (rows : Nat → Nat) (x y : Nat) (hx : 1 ≤ x)
    (h0 : (rows y).testBit (x - 1) = true) (h1 : (rows (y - 1)).testBit x = true)
    (h2 : (rows (y - 1)).testBit (x + 1) = true) (h3 : (rows y).testBit (x + 1) = true)
    (h4 : (rows (y + 1)).testBit x = true) (h5 : (rows (y + 1)).testBit (x - 1) = true) :
    ringMask rows x y = 0 := by
  unfold ringMask
  rw [closesAnyRing_hexagon rows x y hx h0 h1 h2 h3 h4 h5]
  rfl

theorem onBoard_xy (cell : Nat) (h : LiesOnBoard (CellToX cell) (CellToY cell) = true) :
    2 ≤ CellToX cell ∧ CellToX cell < 21 ∧ 2 ≤ CellToY cell ∧ CellToY cell < 21 := by
  unfold LiesOnBoard at h
  simp only [Bool.and_eq_true, decide_eq_true_eq] at h
  have e1 : ((kGapLeft : Nat) : Int) = 2 := rfl
  have e2 : ((kGapAround : Nat) : Int) = 2 := rfl
  have e3 : ((kPastRows : Nat) : Int) = 21 := rfl
  have e4 : ((kPastColumns : Nat) : Int) = 21 := rfl
  omega

/-- The coordinates of the six neighbours of a cell of the board. -/
theorem neighbour_xy (cell : Nat) (h : LiesOnBoard (CellToX cell) (CellToY cell) = true) :
    (CellToX (NthNeighbor cell 0) = CellToX cell - 1 ∧
      CellToY (NthNeighbor cell 0) = CellToY cell) ∧
    (CellToX (NthNeighbor cell 1) = CellToX cell ∧
      CellToY (NthNeighbor cell 1) = CellToY cell - 1) ∧
    (CellToX (NthNeighbor cell 2) = CellToX cell + 1 ∧
      CellToY (NthNeighbor cell 2) = CellToY cell - 1) ∧
    (CellToX (NthNeighbor cell 3) = CellToX cell + 1 ∧
      CellToY (NthNeighbor cell 3) = CellToY cell) ∧
    (CellToX (NthNeighbor cell 4) = CellToX cell ∧
      CellToY (NthNeighbor cell 4) = CellToY cell + 1) ∧
    (CellToX (NthNeighbor cell 5) = CellToX cell - 1 ∧
      CellToY (NthNeighbor cell 5) = CellToY cell + 1) := by
  have hb := onBoard_xy cell h
  have ha := (onBoard_bounds cell h).1
  have n0 := NthNeighbor_eq cell 0 (by omega) (by norm_num)
  have n1 := NthNeighbor_eq cell 1 (by omega) (by norm_num)
  have n2 := NthNeighbor_eq cell 2 (by omega) (by norm_num)
  have n3 := NthNeighbor_eq cell 3 (by omega) (by norm_num)
  have n4 := NthNeighbor_eq cell 4 (by omega) (by norm_num)
  have n5 := NthNeighbor_eq cell 5 (by omega) (by norm_num)
  simp [kNeighborOffsets] at n0 n1 n2 n3 n4 n5
  unfold CellToX CellToY at hb ⊢
  omega

namespace Chains

theorem neighborLoop_same (cell x y K : Nat) (hK : K ≠ 0) :
    ∀ (n j : Nat) (c : Chains), c.view.newest K = K →
      (∀ i, j ≤ i → i < j + n → c.view.cfc (NthNeighbor cell i) ≠ 0 ∧
        c.view.newest (c.view.cfc (NthNeighbor cell i)) = K) →
      c.neighborLoop cell x y n j K = some (K, c) := by
  intro n
  induction n with
  | zero =>
    intro j c _ _
    rfl
  | succ n ih =>
    intro j c hnew hall
    obtain ⟨h1, h2⟩ := hall j (Nat.le_refl _) (by omega)
    unfold neighborLoop
    simp only []
    rw [if_neg h1, if_pos hK, hnew, h2, if_pos rfl]
    exact ih (j + 1) c hnew (fun i hi hi' => hall i (by omega) (by omega))

/-- The six neighbours of an empty cell of good chains, all occupied, belong
to one chain. -/
theorem Good.hexagon {c : Chains} (hg : c.Good) {cell : Nat}
    (hb : LiesOnBoard (CellToX cell) (CellToY cell) = true)
    (hall : ∀ j, j < 6 → c.view.cfc (NthNeighbor cell j) ≠ 0) :
    ∀ j, j < 6 → c.view.newest (c.view.cfc (NthNeighbor cell j)) =
      c.view.newest (c.view.cfc (NthNeighbor cell 0)) := by
  have step : ∀ j, j < 5 → c.view.newest (c.view.cfc (NthNeighbor cell (j + 1))) =
      c.view.newest (c.view.cfc (NthNeighbor cell j)) := by
    intro j hj
    have h := Adjacent.consecutive cell j hb (by omega)
    rw [Nat.mod_eq_of_lt (by omega : j + 1 < 6)] at h
    exact (hg.adjacent _ _ (hall j (by omega)) (hall (j + 1) (by omega)) h).symm
  intro j hj
  induction j with
  | zero => rfl
  | succ j ih => exact (step j (by omega)).trans (ih (by omega))

/-- The move into the middle of six stones of good chains: the stone is
added to the chain of the six stones, with no ring bit. -/
theorem Good.makeMove_hexagon {c : Chains} (hg : c.Good) {cell : Nat}
    (hb : LiesOnBoard (CellToX cell) (CellToY cell) = true)
    (hlt : cell < kNumCellsWithSentinels) (hempty : c.view.cfc cell = 0)
    (hall : ∀ j, j < 6 → c.view.cfc (NthNeighbor cell j) ≠ 0) :
    ∃ K c', K ≠ 0 ∧ c.view.ecr K < 4096 ∧
      c.makeMove cell =
        some (victoryOf (c.view.ecr K ||| GetMaskOfEdgesAndCorners cell), c') := by
  have hsame := hg.hexagon hb hall
  have hc0 := hall 0 (by norm_num)
  have hnew : c.view.IsNewest (c.view.newest (c.view.cfc (NthNeighbor cell 0))) :=
    ChainView.isNewest_newest hg.inv.newer_lt (Nat.pos_of_ne_zero hc0) (hg.inv.cfc_lt _)
  generalize hKdef : c.view.newest (c.view.cfc (NthNeighbor cell 0)) = K at hsame hnew
  have hK : K ≠ 0 := Nat.ne_of_gt hnew.1
  have hKK : c.view.newest K = K := ChainView.newest_of_isNewest hnew
  have hin : ∀ j, j < 6 → (c.view.rows K (CellToY (NthNeighbor cell j))).testBit
      (CellToX (NthNeighbor cell j)) = true := by
    intro j hj
    rw [← ChainView.inMask_eq]
    exact (hg.inv.mask_iff K hnew _ (hg.board _ (hall j hj)).1).mpr ⟨hall j hj, hsame j hj⟩
  obtain ⟨n0, n1, n2, n3, n4, n5⟩ := neighbour_xy cell hb
  have hxy := onBoard_xy cell hb
  have b0 := hin 0 (by norm_num)
  have b1 := hin 1 (by norm_num)
  have b2 := hin 2 (by norm_num)
  have b3 := hin 3 (by norm_num)
  have b4 := hin 4 (by norm_num)
  have b5 := hin 5 (by norm_num)
  rw [n0.1, n0.2] at b0
  rw [n1.1, n1.2] at b1
  rw [n2.1, n2.2] at b2
  rw [n3.1, n3.2] at b3
  rw [n4.1, n4.2] at b4
  rw [n5.1, n5.2] at b5
  have hring : ringMask (c.view.rows K) (CellToX cell) (CellToY cell) = 0 :=
    ringMask_hexagon _ _ _ (by omega) b0 b1 b2 b3 b4 b5
  have hloop : c.neighborLoop cell (CellToX cell) (CellToY cell) (5 + 1) 0 0 =
      some (K, c.addStone K (CellToX cell) (CellToY cell)) := by
    rw [neighborLoop]
    simp only []
    rw [if_neg hc0, if_neg (by simp), hKdef]
    exact neighborLoop_same cell _ _ K hK 5 1 _ hKK
      (fun i hi hi' => ⟨hall i (by omega), hsame i (by omega)⟩)
  refine ⟨K, ((c.addStone K (CellToX cell) (CellToY cell)).setCfc cell K).clearRing K, hK,
    hg.inv.ecr_lt K hnew, ?_⟩
  unfold makeMove placeStone
  rw [if_pos ⟨hb, hlt, hempty⟩]
  have e6 : (6 : Nat) = 5 + 1 := rfl
  rw [e6, hloop]
  simp only []
  rw [if_pos hK]
  simp only [setCfc_cfc]
  have e1 : ((c.addStone K (CellToX cell) (CellToY cell)).setCfc cell K).view.newest K = K :=
    hKK
  have e2 : ((c.addStone K (CellToX cell) (CellToY cell)).setCfc cell K).view.ecr K =
      c.view.ecr K ||| GetMaskOfEdgesAndCorners cell := by
    show (if K = K then c.view.ecr K ||| (GetMaskOfEdgesAndCorners
      (XYToCell (CellToX cell) (CellToY cell)) |||
        ringMask (c.view.rows K) (CellToX cell) (CellToY cell)) else _) = _
    rw [if_pos rfl, hring, XYToCell_CellTo, Nat.or_zero]
  rw [e1, e2]

end Chains

theorem victoryOf_no_ring {e g : Nat} (he : e < 4096) (hg : g < 4096) :
    victoryOf (e ||| g) &&& kRing = 0 := by
  by_contra h
  have h1 := (victoryOf_bits (e ||| g)).2.2.mp h
  have h2 : e ||| g < 2 ^ 12 := Nat.or_lt_two_pow he hg
  rw [Nat.testBit_eq_false_of_lt h2] at h1
  cases h1

/-! ### The move into the middle of six stones returns -/

theorem AddStoneFast_run (p ch x y : Nat) (s : State) (hb : LiesOnBoard x y = true)
    (hfree : (chainRows s p ch y).testBit x = false) :
    ∃ s', Chain.AddStoneFast p ch x y s = Res.ok () s' := by
  have hrow : s.mem (Loc.chainRow p ch y) &&& (1 <<< x) = 0 := by
    by_contra hne
    have : (chainRows s p ch y).testBit x = true :=
      (and_one_shiftLeft_ne_zero _ _).mp hne
    rw [hfree] at this
    cases this
  unfold Chain.AddStoneFast
  rw [assert_bind, if_pos hb, M.mbind_eq_of_ok (GetRingMask_run p ch x y s hfree)]
  simp only [bind_assoc', readW_bind, writeW_bind, assert_bind, writeW_apply, mem_write,
    Function.update_apply, reduceCtorEq, if_false, hrow, decide_True, if_true]
  exact ⟨_, rfl⟩

theorem IsVictory_run {p ch : Nat} {s : State} (hup : Upward (s.newer p) (s.size p))
    (h0 : 0 < ch) (h1 : ch < s.size p) : ∃ r s', ChainSet.IsVictory p ch s = Res.ok r s' := by
  unfold ChainSet.IsVictory
  rw [M.mbind_eq_of_ok (NewestVersion_ok hup h0 h1)]
  unfold Chain.IsVictory
  simp only [bind_assoc', readW_bind, writeW_bind, pure_apply]
  exact ⟨_, _, rfl⟩

theorem MergeChainEdgesFast_same {p K : Nat} {s : State} (h0 : 0 < K) (h1 : K < s.size p)
    (hn : s.newer p K = 0) : RingDB.MergeChainEdgesFast p K K s = Res.ok () s := by
  unfold RingDB.MergeChainEdgesFast
  rw [M.mbind_eq_of_ok (NewestVersion_newest h0 h1 hn), assert_bind, if_pos (decide_eq_true rfl),
    M.mbind_eq_of_ok (NewestVersion_newest h0 h1 hn), assert_bind, if_pos (decide_eq_true rfl),
    if_pos rfl, pure_apply]

theorem MergeChainEdgesReversibly_same {p K : Nat} {s : State} (h0 : 0 < K)
    (h1 : K < s.size p) (hn : s.newer p K = 0) :
    RingDB.MergeChainEdgesReversibly p K K s = Res.ok () s := by
  unfold RingDB.MergeChainEdgesReversibly
  rw [M.mbind_eq_of_ok (NewestVersion_newest h0 h1 hn), assert_bind, if_pos (decide_eq_true rfl),
    M.mbind_eq_of_ok (NewestVersion_newest h0 h1 hn), assert_bind, if_pos (decide_eq_true rfl),
    if_pos rfl, pure_apply]

theorem MergeChainsFast_same {p x y K : Nat} {s : State} (h0 : 0 < K) (h1 : K < s.size p)
    (hn : s.newer p K = 0) : ChainSet.MergeChainsFast p x y K K s = Res.ok K s := by
  unfold ChainSet.MergeChainsFast
  rw [M.mbind_eq_of_ok (NewestVersion_newest h0 h1 hn), assert_bind, if_pos (decide_eq_true rfl),
    M.mbind_eq_of_ok (NewestVersion_newest h0 h1 hn), assert_bind, if_pos (decide_eq_true rfl),
    if_pos rfl, pure_apply]

theorem MergeChainsReversibly_same {p x y K : Nat} {s : State} (h0 : 0 < K)
    (h1 : K < s.size p) (hn : s.newer p K = 0) :
    ChainSet.MergeChainsReversibly p x y K K s = Res.ok K s := by
  unfold ChainSet.MergeChainsReversibly
  rw [M.mbind_eq_of_ok (NewestVersion_newest h0 h1 hn), assert_bind, if_pos (decide_eq_true rfl),
    M.mbind_eq_of_ok (NewestVersion_newest h0 h1 hn), assert_bind, if_pos (decide_eq_true rfl),
    if_pos rfl, pure_apply]

/-- The loop of `MakeMoveFast` over neighbours that all belong to the chain
merged so far changes nothing. -/
theorem neighborLoopFast_same (p cell x y K : Nat) (hK : K ≠ 0) (t : State) {j₀ : Nat}
    (hl : (t.chains p).LoopGood cell K j₀) :
    ∀ (n j : Nat),
      (∀ i, j ≤ i → i < j + n → (t.chains p).view.cfc (NthNeighbor cell i) ≠ 0 ∧
        (t.chains p).view.newest ((t.chains p).view.cfc (NthNeighbor cell i)) = K) →
      PlayerPosition.neighborLoopFast p cell x y n j K t = Res.ok K t := by
  have hnew := hl.prev_newest hK
  have h0 : 0 < K := hnew.1
  have h1 : K < t.size p := hnew.2.1
  have hn : t.newer p K = 0 := hnew.2.2
  have hup : Upward (t.newer p) (t.size p) := hl.loop.newer_lt
  intro n
  induction n with
  | zero =>
    intro j _
    rfl
  | succ n ih =>
    intro j hall
    obtain ⟨h2, h3⟩ := hall j (Nat.le_refl _) (by omega)
    have h2' : t.cfc p (NthNeighbor cell j) ≠ 0 := h2
    have h3' : (t.view p).newest (t.cfc p (NthNeighbor cell j)) = K := h3
    have h4 : t.cfc p (NthNeighbor cell j) < t.size p := hl.loop.cfc_lt _
    unfold PlayerPosition.neighborLoopFast
    rw [chain_for_cell_bind, if_pos (hl.board _ h2).1, if_neg h2', if_pos hK,
      M.mbind_eq_of_ok (NewestVersion_newest h0 h1 hn),
      M.mbind_eq_of_ok (NewestVersion_ok hup (Nat.pos_of_ne_zero h2') h4), h3',
      M.mbind_eq_of_ok (MergeChainEdgesFast_same h0 h1 hn),
      M.mbind_eq_of_ok (MergeChainsFast_same h0 h1 hn)]
    exact ih (j + 1) (fun i hi hi' => hall i (by omega) (by omega))

theorem neighborLoopReversibly_same (p cell x y K : Nat) (hK : K ≠ 0) (t : State) {j₀ : Nat}
    (hl : (t.chains p).LoopGood cell K j₀) :
    ∀ (n j : Nat),
      (∀ i, j ≤ i → i < j + n → (t.chains p).view.cfc (NthNeighbor cell i) ≠ 0 ∧
        (t.chains p).view.newest ((t.chains p).view.cfc (NthNeighbor cell i)) = K) →
      PlayerPosition.neighborLoopReversibly p cell x y n j K t = Res.ok K t := by
  have hnew := hl.prev_newest hK
  have h0 : 0 < K := hnew.1
  have h1 : K < t.size p := hnew.2.1
  have hn : t.newer p K = 0 := hnew.2.2
  have hup : Upward (t.newer p) (t.size p) := hl.loop.newer_lt
  intro n
  induction n with
  | zero =>
    intro j _
    rfl
  | succ n ih =>
    intro j hall
    obtain ⟨h2, h3⟩ := hall j (Nat.le_refl _) (by omega)
    have h2' : t.cfc p (NthNeighbor cell j) ≠ 0 := h2
    have h3' : (t.view p).newest (t.cfc p (NthNeighbor cell j)) = K := h3
    have h4 : t.cfc p (NthNeighbor cell j) < t.size p := hl.loop.cfc_lt _
    unfold PlayerPosition.neighborLoopReversibly
    rw [chain_for_cell_bind, if_pos (hl.board _ h2).1, if_neg h2', if_pos hK,
      M.mbind_eq_of_ok (NewestVersion_newest h0 h1 hn),
      M.mbind_eq_of_ok (NewestVersion_ok hup (Nat.pos_of_ne_zero h2') h4), h3',
      M.mbind_eq_of_ok (MergeChainEdgesReversibly_same h0 h1 hn),
      M.mbind_eq_of_ok (MergeChainsReversibly_same h0 h1 hn)]
    exact ih (j + 1) (fun i hi hi' => hall i (by omega) (by omega))

theorem MakeMoveFast_tail_run {p cell q : Nat} {t : State}
    (hcell : cell < kNumCellsWithSentinels) (hq : q < 256)
    (hup : Upward (t.newer p) (t.size p)) (h0 : 0 < q) (h1 : q < t.size p) :
    ∃ r s', (do
        writeByte (Loc.chainsForCells p) cell q
        let ch ← PlayerPosition.chain_for_cell p cell
        PlayerPosition.setModifiedChain p ch
        let row ← readW (Loc.stoneRow p (CellToY cell))
        writeW (Loc.stoneRow p (CellToY cell)) (setBit row (CellToX cell))
        let ch ← PlayerPosition.chain_for_cell p cell
        ChainSet.IsVictory p ch : M Nat) t = Res.ok r s' := by
  rw [writeByte_bind]
  have hv1 := chains_setCfc t p cell q hq
  generalize t.write (Loc.chainsForCells p (cell / 4))
    (setByte (t.mem (Loc.chainsForCells p (cell / 4))) (cell % 4) q) = t₁ at hv1 ⊢
  have hc1 : t₁.cfc p cell = q := by
    show (t₁.chains p).view.cfc cell = q
    rw [hv1]
    exact setCfc_cfc _ _ _
  rw [chain_for_cell_bind, if_pos hcell, hc1, setModifiedChain_bind, readW_bind,
    writeW_bind]
  have hv2 : ((t₁.setModifiedChain p q).write (Loc.stoneRow p (CellToY cell))
      (setBit ((t₁.setModifiedChain p q).mem (Loc.stoneRow p (CellToY cell)))
        (CellToX cell))).chains p = (t.chains p).setCfc cell q := by
    rw [chains_write_stoneRow]; exact hv1
  generalize (t₁.setModifiedChain p q).write (Loc.stoneRow p (CellToY cell))
      (setBit ((t₁.setModifiedChain p q).mem (Loc.stoneRow p (CellToY cell)))
        (CellToX cell)) = t₂ at hv2 ⊢
  have hc2 : t₂.cfc p cell = q := by
    show (t₂.chains p).view.cfc cell = q
    rw [hv2]
    exact setCfc_cfc _ _ _
  rw [chain_for_cell_bind, if_pos hcell, hc2]
  have hup2 : Upward (t₂.newer p) (t₂.size p) := by
    show Upward (t₂.chains p).view.newer (t₂.chains p).view.size
    rw [hv2]
    exact hup
  have h12 : q < t₂.size p := by
    show q < (t₂.chains p).view.size
    rw [hv2]
    exact h1
  exact IsVictory_run hup2 h0 h12

theorem MakeMoveReversibly_tail_run {p cell q : Nat} {t : State}
    (hcell : cell < kNumCellsWithSentinels) (hq : q < 256)
    (hup : Upward (t.newer p) (t.size p)) (h0 : 0 < q) (h1 : q < t.size p) :
    ∃ r s', (do
        writeByte (Loc.chainsForCells p) cell q
        let ch ← PlayerPosition.chain_for_cell p cell
        PlayerPosition.setModifiedChain p ch
        Memento.Remember (Loc.stoneRow p (CellToY cell))
        let row ← readW (Loc.stoneRow p (CellToY cell))
        writeW (Loc.stoneRow p (CellToY cell)) (setBit row (CellToX cell))
        let ch ← PlayerPosition.chain_for_cell p cell
        ChainSet.IsVictory p ch : M Nat) t = Res.ok r s' := by
  rw [writeByte_bind]
  have hv1 := chains_setCfc t p cell q hq
  generalize t.write (Loc.chainsForCells p (cell / 4))
    (setByte (t.mem (Loc.chainsForCells p (cell / 4))) (cell % 4) q) = t₁ at hv1 ⊢
  have hc1 : t₁.cfc p cell = q := by
    show (t₁.chains p).view.cfc cell = q
    rw [hv1]
    exact setCfc_cfc _ _ _
  rw [chain_for_cell_bind, if_pos hcell, hc1, setModifiedChain_bind, Remember_bind, readW_bind,
    writeW_bind]
  have hv2 : (((t₁.setModifiedChain p q).remember (Loc.stoneRow p (CellToY cell))).write (Loc.stoneRow p (CellToY cell))
      (setBit (((t₁.setModifiedChain p q).remember (Loc.stoneRow p (CellToY cell))).mem (Loc.stoneRow p (CellToY cell)))
        (CellToX cell))).chains p = (t.chains p).setCfc cell q := by
    rw [chains_write_stoneRow]; exact hv1
  generalize ((t₁.setModifiedChain p q).remember (Loc.stoneRow p (CellToY cell))).write (Loc.stoneRow p (CellToY cell))
      (setBit (((t₁.setModifiedChain p q).remember (Loc.stoneRow p (CellToY cell))).mem (Loc.stoneRow p (CellToY cell)))
        (CellToX cell)) = t₂ at hv2 ⊢
  have hc2 : t₂.cfc p cell = q := by
    show (t₂.chains p).view.cfc cell = q
    rw [hv2]
    exact setCfc_cfc _ _ _
  rw [chain_for_cell_bind, if_pos hcell, hc2]
  have hup2 : Upward (t₂.newer p) (t₂.size p) := by
    show Upward (t₂.chains p).view.newer (t₂.chains p).view.size
    rw [hv2]
    exact hup
  have h12 : q < t₂.size p := by
    show q < (t₂.chains p).view.size
    rw [hv2]
    exact h1
  exact IsVictory_run hup2 h0 h12

/-- The method `PlayerPosition::MakeMoveFast` returns on the empty cell
in the middle of six stones of good chains. -/
theorem MakeMoveFast_hexagon_run {p cell : Nat} {s : State} (hg : (s.chains p).Good)
    (hb : LiesOnBoard (CellToX cell) (CellToY cell) = true)
    (hlt : cell < kNumCellsWithSentinels) (hempty : (s.chains p).view.cfc cell = 0)
    (hall : ∀ j, j < 6 → (s.chains p).view.cfc (NthNeighbor cell j) ≠ 0) :
    ∃ r s', PlayerPosition.MakeMoveFast p cell s = Res.ok r s' := by
  have hsame := hg.hexagon hb hall
  have hc0 := hall 0 (by norm_num)
  have hstart := Chains.LoopGood.start hg cell hlt hb hempty
  have hl := hstart.addStone (by norm_num : 0 < 6) hc0
  have hnew : (s.chains p).view.IsNewest
      ((s.chains p).view.newest ((s.chains p).view.cfc (NthNeighbor cell 0))) :=
    ChainView.isNewest_newest hg.inv.newer_lt (Nat.pos_of_ne_zero hc0) (hg.inv.cfc_lt _)
  have hnv : ChainSet.NewestVersion p (s.cfc p (NthNeighbor cell 0)) s =
      Res.ok ((s.chains p).view.newest ((s.chains p).view.cfc (NthNeighbor cell 0))) s :=
    NewestVersion_ok (s := s) hg.inv.newer_lt (Nat.pos_of_ne_zero hc0) (hg.inv.cfc_lt _)
  generalize hKdef : (s.chains p).view.newest ((s.chains p).view.cfc (NthNeighbor cell 0)) = K
    at hsame hnew hl hnv
  have hK : K ≠ 0 := Nat.ne_of_gt hnew.1
  have hfree : (chainRows s p K (CellToY cell)).testBit (CellToX cell) = false := by
    rw [Bool.eq_false_iff]
    intro h'
    have h'' : (s.chains p).view.inMask K cell = true := by
      rw [ChainView.inMask_eq]
      exact h'
    exact ((hg.inv.mask_iff K hnew cell hlt).mp h'').1 hempty
  obtain ⟨s₁, hadd⟩ := AddStoneFast_run p K (CellToX cell) (CellToY cell) s hb hfree
  have hadd' : ChainSet.AddStoneToChainFast p (CellToX cell) (CellToY cell) K s =
      Res.ok () s₁ := by
    unfold ChainSet.AddStoneToChainFast
    rw [M.mbind_eq_of_ok (NewestVersion_newest (s := s) hnew.1 hnew.2.1 hnew.2.2),
      assert_bind, if_pos (decide_eq_true rfl)]
    exact hadd
  have hch : s₁.chains p = (s.chains p).addStone K (CellToX cell) (CellToY cell) :=
    AddStoneToChainFast_chains (s := s) hadd'
  have hc0' : s.cfc p (NthNeighbor cell 0) ≠ 0 := hc0
  rw [← hch] at hl
  have hloop : PlayerPosition.neighborLoopFast p cell (CellToX cell) (CellToY cell) (5 + 1) 0 0
      s = Res.ok K s₁ := by
    rw [PlayerPosition.neighborLoopFast, chain_for_cell_bind, if_pos (hg.board _ hc0).1,
      if_neg hc0', if_neg (by simp), M.mbind_eq_of_ok hnv, M.mbind_eq_of_ok hadd']
    apply neighborLoopFast_same p cell _ _ K hK s₁ hl 5 1
    intro i hi hi'
    rw [hch]
    exact ⟨hall i (by omega), hsame i (by omega)⟩
  have hempty' : s.cfc p cell = 0 := hempty
  unfold PlayerPosition.MakeMoveFast
  simp only [assert_bind, CellIsEmpty_bind, hb, hlt, hempty', if_true, decide_True, 
    M.mbind_eq_of_ok hloop, hK, ne_eq, not_false_eq_true]
  have hup : Upward (s₁.newer p) (s₁.size p) := hl.loop.newer_lt
  have hq := hl.prev_newest hK
  exact MakeMoveFast_tail_run (t := s₁) hlt (LoopGood_lt_256 hl hK) hup hq.1 hq.2.1

/-- The method `PlayerPosition::MakeMoveReversibly` returns on the empty cell
in the middle of six stones of good chains. -/
theorem MakeMoveReversibly_hexagon_run {p cell : Nat} {s : State} (hg : (s.chains p).Good)
    (hb : LiesOnBoard (CellToX cell) (CellToY cell) = true)
    (hlt : cell < kNumCellsWithSentinels) (hempty : (s.chains p).view.cfc cell = 0)
    (hall : ∀ j, j < 6 → (s.chains p).view.cfc (NthNeighbor cell j) ≠ 0) :
    ∃ r s', PlayerPosition.MakeMoveReversibly p cell s = Res.ok r s' := by
  have hsame := hg.hexagon hb hall
  have hc0 := hall 0 (by norm_num)
  have hstart := Chains.LoopGood.start hg cell hlt hb hempty
  have hl := hstart.addStone (by norm_num : 0 < 6) hc0
  have hnew : (s.chains p).view.IsNewest
      ((s.chains p).view.newest ((s.chains p).view.cfc (NthNeighbor cell 0))) :=
    ChainView.isNewest_newest hg.inv.newer_lt (Nat.pos_of_ne_zero hc0) (hg.inv.cfc_lt _)
  have hnv : ChainSet.NewestVersion p ((s.rememberSize p).cfc p (NthNeighbor cell 0)) (s.rememberSize p) =
      Res.ok ((s.chains p).view.newest ((s.chains p).view.cfc (NthNeighbor cell 0))) (s.rememberSize p) :=
    NewestVersion_ok (s := (s.rememberSize p)) hg.inv.newer_lt (Nat.pos_of_ne_zero hc0) (hg.inv.cfc_lt _)
  generalize hKdef : (s.chains p).view.newest ((s.chains p).view.cfc (NthNeighbor cell 0)) = K
    at hsame hnew hl hnv
  have hK : K ≠ 0 := Nat.ne_of_gt hnew.1
  have hfree : (chainRows (s.rememberSize p) p K (CellToY cell)).testBit (CellToX cell) = false := by
    rw [Bool.eq_false_iff]
    intro h'
    have h'' : (s.chains p).view.inMask K cell = true := by
      rw [ChainView.inMask_eq]
      exact h'
    exact ((hg.inv.mask_iff K hnew cell hlt).mp h'').1 hempty
  obtain ⟨s₁, hadd, _⟩ := AddStoneReversibly_run p K (CellToX cell) (CellToY cell) (s.rememberSize p) hb hfree
  have hadd' : ChainSet.AddStoneToChainReversibly p (CellToX cell) (CellToY cell) K (s.rememberSize p) =
      Res.ok () s₁ := by
    unfold ChainSet.AddStoneToChainReversibly
    rw [M.mbind_eq_of_ok (NewestVersion_newest (s := (s.rememberSize p)) hnew.1 hnew.2.1 hnew.2.2),
      assert_bind, if_pos (decide_eq_true rfl)]
    exact hadd
  have hch : s₁.chains p = (s.chains p).addStone K (CellToX cell) (CellToY cell) :=
    AddStoneToChainReversibly_chains (s := (s.rememberSize p)) hadd'
  have hc0' : (s.rememberSize p).cfc p (NthNeighbor cell 0) ≠ 0 := hc0
  rw [← hch] at hl
  have hloop : PlayerPosition.neighborLoopReversibly p cell (CellToX cell) (CellToY cell) (5 + 1) 0 0
      (s.rememberSize p) = Res.ok K s₁ := by
    rw [PlayerPosition.neighborLoopReversibly, chain_for_cell_bind, if_pos (hg.board _ hc0).1,
      if_neg hc0', if_neg (by simp), M.mbind_eq_of_ok hnv, M.mbind_eq_of_ok hadd']
    apply neighborLoopReversibly_same p cell _ _ K hK s₁ hl 5 1
    intro i hi hi'
    rw [hch]
    exact ⟨hall i (by omega), hsame i (by omega)⟩
  have hempty' : s.cfc p cell = 0 := hempty
  unfold PlayerPosition.MakeMoveReversibly
  simp only [assert_bind, CellIsEmpty_bind, hb, hlt, hempty', if_true, decide_True, RememberSize_bind, 
    M.mbind_eq_of_ok hloop, RememberByte_bind, hK, ne_eq, not_false_eq_true]
  have hup : Upward ((s₁.remember (Loc.chainsForCells p (cell / 4))).newer p) ((s₁.remember (Loc.chainsForCells p (cell / 4))).size p) := hl.loop.newer_lt
  have hq := hl.prev_newest hK
  exact MakeMoveReversibly_tail_run (t := (s₁.remember (Loc.chainsForCells p (cell / 4)))) hlt (LoopGood_lt_256 hl hK) hup hq.1 hq.2.1

theorem hexagonMoves_ok : ∀ n, n < 6 →
    (PlayerPosition.MakeMoveFast 0 (NthNeighbor (XYToCell 11 11) n) (hexagonMoves n)).isOk =
      true := by
  decide!

theorem hexagonMoves_moved : ∀ n, n ≤ 6 → PlayerMoved 0 (hexagonMoves n) := by
  intro n
  induction n with
  | zero =>
    intro _
    exact PlayerMoved.init
  | succ n ih =>
    intro hn
    obtain ⟨r, h⟩ := Res.eq_ok_of_isOk
      (PlayerPosition.MakeMoveFast 0 (NthNeighbor (XYToCell 11 11) n) (hexagonMoves n))
      State.init (hexagonMoves_ok n (by omega))
    exact PlayerMoved.fast (ih (by omega)) h

theorem hexagonState_facts :
    LiesOnBoard (CellToX (XYToCell 11 11)) (CellToY (XYToCell 11 11)) = true ∧
    (hexagonState.chains 0).view.cfc (XYToCell 11 11) = 0 ∧
    ∀ j, j < 6 → (hexagonState.chains 0).view.cfc (NthNeighbor (XYToCell 11 11) j) ≠ 0 := by
  decide!

/-- C14, as claimed, fails: after the moves of one player on the six
neighbours of the cell (11, 11), the last of which returns `kRing` and
`kBenzeneRing`, the move of this player on the cell (11, 11) returns no
winning condition at all. -/
theorem hexagon_centre_returns_nothing :
    PlayerMoved 0 hexagonState ∧
    (hexagonState.chains 0).view.cfc (XYToCell 11 11) = 0 ∧
    (∀ j, j < 6 → (hexagonState.chains 0).view.cfc (NthNeighbor (XYToCell 11 11) j) ≠ 0) ∧
    (PlayerPosition.MakeMoveFast 0 (NthNeighbor (XYToCell 11 11) 5) (hexagonMoves 5)).value =
      some (kRing + kBenzeneRing) ∧
    (PlayerPosition.MakeMoveFast 0 (XYToCell 11 11) hexagonState).value = some 0 ∧
    (PlayerPosition.MakeMoveReversibly 0 (XYToCell 11 11) hexagonState).value = some 0 :=
  ⟨hexagonMoves_moved 6 (Nat.le_refl _), hexagonState_facts.2.1, hexagonState_facts.2.2,
    by decide!, by decide!, by decide!⟩

/-- C14, amended: after any sequence of moves of a player that return, when
the player has a stone on each of the six neighbours of an empty cell of the
board, `PlayerPosition::MakeMoveFast` and `PlayerPosition::MakeMoveReversibly`
return on that cell, and the `WinningCondition` that they return does not
contain `kRing`. -/
theorem centre_of_six_stones_closes_no_ring (p : Nat) (s : State) (hs : PlayerMoved p s)
    (cell : Nat) (hb : LiesOnBoard (CellToX cell) (CellToY cell) = true)
    (hempty : (s.chains p).view.cfc cell = 0)
    (hall : ∀ j, j < 6 → (s.chains p).view.cfc (NthNeighbor cell j) ≠ 0) :
    (∃ r s', PlayerPosition.MakeMoveFast p cell s = Res.ok r s') ∧
    (∃ r s', PlayerPosition.MakeMoveReversibly p cell s = Res.ok r s') ∧
    ∀ r s', PlayerPosition.MakeMoveFast p cell s = Res.ok r s' ∨
      PlayerPosition.MakeMoveReversibly p cell s = Res.ok r s' → r &&& kRing = 0 := by
  have hg := hs.good
  have hlt : cell < kNumCellsWithSentinels := by
    have := (onBoard_bounds cell hb).2
    omega
  refine ⟨MakeMoveFast_hexagon_run hg hb hlt hempty hall,
    MakeMoveReversibly_hexagon_run hg hb hlt hempty hall, ?_⟩
  intro r s' h
  have hrun : (s.chains p).makeMove cell = some (r, s'.chains p) := by
    rcases h with h | h
    · exact MakeMoveFast_chains hg h
    · exact MakeMoveReversibly_chains hg h
  obtain ⟨K, c', _, hlt', hmove⟩ := hg.makeMove_hexagon hb hlt hempty hall
  rw [hmove] at hrun
  simp only [Option.some.injEq, Prod.mk.injEq] at hrun
  rw [← hrun.1]
  exact victoryOf_no_ring hlt' (GetMaskOfEdgesAndCorners_lt cell)

/-- C14, amended, at the cell (11, 11) after the moves on its six
neighbours. -/
theorem centre_of_six_stones_closes_no_ring_witness :
    PlayerMoved 0 hexagonState ∧
    (∃ r s', PlayerPosition.MakeMoveFast 0 (XYToCell 11 11) hexagonState = Res.ok r s') ∧
    (∃ r s', PlayerPosition.MakeMoveReversibly 0 (XYToCell 11 11) hexagonState = Res.ok r s') ∧
    ∀ r s', PlayerPosition.MakeMoveFast 0 (XYToCell 11 11) hexagonState = Res.ok r s' ∨
      PlayerPosition.MakeMoveReversibly 0 (XYToCell 11 11) hexagonState = Res.ok r s' →
      r &&& kRing = 0 :=
  ⟨hexagonMoves_moved 6 (Nat.le_refl _),
    centre_of_six_stones_closes_no_ring 0 hexagonState (hexagonMoves_moved 6 (Nat.le_refl _))
      (XYToCell 11 11) hexagonState_facts.1 hexagonState_facts.2.1 hexagonState_facts.2.2⟩

/-! ### The names of the cells -/

theorem namesCell_spec {to_ : Nat → Except Err (List Int)} {from_ : List Int → Except Err Nat}
    {cell : Nat} (h : namesCell to_ from_ cell = true) :
    ∃ s, to_ cell = Except.ok s ∧ s ≠ [] ∧ from_ s = Except.ok cell := by
  unfold namesCell at h
  cases hs : to_ cell with
  | error e =>
    rw [hs] at h
    cases h
  | ok s =>
    rw [hs] at h
    simp only [Bool.and_eq_true, Bool.not_eq_true', List.isEmpty_eq_false] at h
    refine ⟨s, rfl, h.1, ?_⟩
    cases hf : from_ s with
    | error e =>
      rw [hf] at h
      cases h.2
    | ok c =>
      rw [hf] at h
      have := h.2
      simp only [decide_eq_true_eq] at this
      rw [this]

theorem names_of_the_board₁ : ∀ cell, cell < 230 →
    LiesOnBoard (CellToX cell) (CellToY cell) = true →
    namesCell ToClassicalString FromClassicalString cell = true ∧
      namesCell ToLittleGolemString FromLittleGolemString cell = true := by
  decide!

theorem names_of_the_board₂ : ∀ cell, cell < 100 →
    LiesOnBoard (CellToX (cell + 230)) (CellToY (cell + 230)) = true →
    namesCell ToClassicalString FromClassicalString (cell + 230) = true ∧
      namesCell ToLittleGolemString FromLittleGolemString (cell + 230) = true := by
  decide!

theorem names_of_the_board₃ : ∀ cell, cell < 90 →
    LiesOnBoard (CellToX (cell + 330)) (CellToY (cell + 330)) = true →
    namesCell ToClassicalString FromClassicalString (cell + 330) = true ∧
      namesCell ToLittleGolemString FromLittleGolemString (cell + 330) = true := by
  decide!

theorem names_of_the_board₄ : ∀ cell, cell < 100 →
    LiesOnBoard (CellToX (cell + 420)) (CellToY (cell + 420)) = true →
    namesCell ToClassicalString FromClassicalString (cell + 420) = true ∧
      namesCell ToLittleGolemString FromLittleGolemString (cell + 420) = true := by
  decide!

theorem names_of_the_board₅ : ∀ cell, cell < 216 →
    LiesOnBoard (CellToX (cell + 520)) (CellToY (cell + 520)) = true →
    namesCell ToClassicalString FromClassicalString (cell + 520) = true ∧
      namesCell ToLittleGolemString FromLittleGolemString (cell + 520) = true := by
  decide!

theorem names_of_the_board : ∀ cell, cell < kNumCellsWithSentinels →
    LiesOnBoard (CellToX cell) (CellToY cell) = true →
    namesCell ToClassicalString FromClassicalString cell = true ∧
      namesCell ToLittleGolemString FromLittleGolemString cell = true := by
  intro cell hc
  have hc : cell < 736 := hc
  by_cases h1 : cell < 230
  · exact names_of_the_board₁ cell h1
  by_cases h2 : cell < 330
  · have h := names_of_the_board₂ (cell - 230) (by omega)
    rwa [Nat.sub_add_cancel (by omega)] at h
  by_cases h3 : cell < 420
  · have h := names_of_the_board₃ (cell - 330) (by omega)
    rwa [Nat.sub_add_cancel (by omega)] at h
  by_cases h4 : cell < 520
  · have h := names_of_the_board₄ (cell - 420) (by omega)
    rwa [Nat.sub_add_cancel (by omega)] at h
  have h := names_of_the_board₅ (cell - 520) (by omega)
  rwa [Nat.sub_add_cancel (by omega)] at h

/-- C25: for every cell of the board, in the classical notation and in the
notation of Little Golem, the conversion to a string returns a string that
is not empty and that the conversion from a string turns back into the
cell; and in both notations the string `a1` is the cell at
`x = kGapLeft`, `y = kGapAround + 2 * SIDE_LENGTH - 2`. -/
theorem cell_names_round_trip (cell : Nat)
    (h : LiesOnBoard (CellToX cell) (CellToY cell) = true) :
    (∃ s, ToClassicalString cell = Except.ok s ∧ s ≠ [] ∧
      FromClassicalString s = Except.ok cell) ∧
    (∃ s, ToLittleGolemString cell = Except.ok s ∧ s ≠ [] ∧
      FromLittleGolemString s = Except.ok cell) ∧
    FromClassicalString [97, 49] =
      Except.ok (XYToCell kGapLeft (kGapAround + 2 * SIDE_LENGTH - 2)) ∧
    FromLittleGolemString [97, 49] =
      Except.ok (XYToCell kGapLeft (kGapAround + 2 * SIDE_LENGTH - 2)) := by
  have hlt : cell < kNumCellsWithSentinels := by
    have := (onBoard_bounds cell h).2
    omega
  obtain ⟨h1, h2⟩ := names_of_the_board cell hlt h
  exact ⟨namesCell_spec h1, namesCell_spec h2, rfl, rfl⟩

/-- C25 at the centre of the board, whose name is `j10` in both
notations. -/
theorem cell_names_round_trip_witness :
    LiesOnBoard (CellToX kBoardCenter) (CellToY kBoardCenter) = true ∧
    ToClassicalString kBoardCenter = Except.ok [106, 49, 48] ∧
    ToLittleGolemString kBoardCenter = Except.ok [106, 49, 48] ∧
    (∃ s, ToClassicalString kBoardCenter = Except.ok s ∧ s ≠ [] ∧
      FromClassicalString s = Except.ok kBoardCenter) ∧
    (∃ s, ToLittleGolemString kBoardCenter = Except.ok s ∧ s ≠ [] ∧
      FromLittleGolemString s = Except.ok kBoardCenter) ∧
    FromClassicalString [97, 49] =
      Except.ok (XYToCell kGapLeft (kGapAround + 2 * SIDE_LENGTH - 2)) ∧
    FromLittleGolemString [97, 49] =
      Except.ok (XYToCell kGapLeft (kGapAround + 2 * SIDE_LENGTH - 2)) :=
  ⟨by decide, rfl, rfl, cell_names_round_trip kBoardCenter (by decide)⟩

/-! ### The two most simulated kids -/

namespace TranspositionTable

theorem natCast_ne_invalid (m : Nat) : (m : Int) ≠ kInvalidMove := by
  unfold kInvalidMove
  omega

theorem Best.best_start {F : Type} (adj : Nat → Option Int) (w : F) :
    Best adj 0 ⟨kInvalidMove, INT_MIN, w⟩ ⟨kInvalidMove, INT_MIN, w⟩ where
  none1 := fun _ => ⟨rfl, fun m hm => absurd hm (Nat.not_lt_zero m)⟩
  some1 := fun h => absurd rfl h
  none2 := fun _ => ⟨rfl, fun m hm => absurd hm (Nat.not_lt_zero m)⟩
  some2 := fun h => absurd rfl h
  le := Int.le_refl _

theorem Best.absent {F : Type} {adj : Nat → Option Int} {j : Nat} {k1 k2 : MoveInfo F}
    (h : Best adj j k1 k2) (ha : adj j = none) : Best adj (j + 1) k1 k2 where
  none1 := by
    intro h1
    refine ⟨(h.none1 h1).1, fun m hm => ?_⟩
    rcases Nat.lt_succ_iff_lt_or_eq.mp hm with h' | h'
    · exact (h.none1 h1).2 m h'
    · rw [h']
      exact ha
  some1 := by
    intro h1
    obtain ⟨m, e1, e2, e3, e4⟩ := h.some1 h1
    refine ⟨m, e1, by omega, e3, fun m' hm' a ha' => ?_⟩
    rcases Nat.lt_succ_iff_lt_or_eq.mp hm' with h' | h'
    · exact e4 m' h' a ha'
    · rw [h', ha] at ha'
      cases ha'
  none2 := by
    intro h2
    refine ⟨(h.none2 h2).1, fun m hm hne => ?_⟩
    rcases Nat.lt_succ_iff_lt_or_eq.mp hm with h' | h'
    · exact (h.none2 h2).2 m h' hne
    · rw [h'] at hne
      exact absurd ha hne
  some2 := by
    intro h2
    obtain ⟨h1, m, e1, e2, e3, e4, e5⟩ := h.some2 h2
    refine ⟨h1, m, e1, by omega, e3, e4, fun m' hm' hne a ha' => ?_⟩
    rcases Nat.lt_succ_iff_lt_or_eq.mp hm' with h' | h'
    · exact e5 m' h' hne a ha'
    · rw [h', ha] at ha'
      cases ha'
  le := h.le

theorem Best.first {F : Type} {adj : Nat → Option Int} {j : Nat} {k1 k2 : MoveInfo F}
    (h : Best adj j k1 k2) {a : Int} (ha : adj j = some a)
    (hgt : a > k1.num_simulations) (w : F) : Best adj (j + 1) ⟨j, a, w⟩ k1 where
  none1 := fun h1 => absurd h1 (natCast_ne_invalid j)
  some1 := by
    intro _
    refine ⟨j, rfl, Nat.lt_succ_self j, ha, fun m' hm' a' ha' => ?_⟩
    show a' ≤ a
    rcases Nat.lt_succ_iff_lt_or_eq.mp hm' with h' | h'
    · by_cases h1 : k1.move = kInvalidMove
      · rw [(h.none1 h1).2 m' h'] at ha'
        cases ha'
      · obtain ⟨_, _, _, _, e4⟩ := h.some1 h1
        have := e4 m' h' a' ha'
        omega
    · rw [h', ha] at ha'
      cases ha'
      exact Int.le_refl _
  none2 := by
    intro h1
    refine ⟨(h.none1 h1).1, fun m hm hne => ?_⟩
    show (m : Int) = (j : Int)
    rcases Nat.lt_succ_iff_lt_or_eq.mp hm with h' | h'
    · exact absurd ((h.none1 h1).2 m h') hne
    · rw [h']
  some2 := by
    intro h1
    refine ⟨natCast_ne_invalid j, ?_⟩
    obtain ⟨m, e1, e2, e3, e4⟩ := h.some1 h1
    refine ⟨m, e1, by omega, ?_, e3, fun m' hm' hne a' ha' => ?_⟩
    · show (m : Int) ≠ (j : Int)
      omega
    · have hne' : (m' : Int) ≠ (j : Int) := hne
      exact e4 m' (by omega) a' ha'
  le := by
    show k1.num_simulations ≤ a
    omega

theorem Best.second {F : Type} {adj : Nat → Option Int} {j : Nat} {k1 k2 : MoveInfo F}
    (h : Best adj j k1 k2) {a : Int} (ha : adj j = some a) (hmin : a > INT_MIN)
    (hle : ¬ a > k1.num_simulations) (hgt : a > k2.num_simulations) (w : F) :
    Best adj (j + 1) k1 ⟨j, a, w⟩ := by
  have hk1 : k1.move ≠ kInvalidMove := by
    intro h1
    have := (h.none1 h1).1
    omega
  obtain ⟨m, e1, e2, e3, e4⟩ := h.some1 hk1
  exact
    { none1 := fun h1 => absurd h1 hk1
      some1 := by
        intro _
        refine ⟨m, e1, by omega, e3, fun m' hm' a' ha' => ?_⟩
        rcases Nat.lt_succ_iff_lt_or_eq.mp hm' with h' | h'
        · exact e4 m' h' a' ha'
        · rw [h', ha] at ha'
          cases ha'
          omega
      none2 := fun h2 => absurd h2 (natCast_ne_invalid j)
      some2 := by
        intro _
        refine ⟨hk1, j, rfl, Nat.lt_succ_self j, by rw [e1]; omega, ha, ?_⟩
        intro m' hm' hne a' ha'
        show a' ≤ a
        rcases Nat.lt_succ_iff_lt_or_eq.mp hm' with h' | h'
        · by_cases h2 : k2.move = kInvalidMove
          · have hsome : adj m' ≠ none := by rw [ha']; simp
            exact absurd ((h.none2 h2).2 m' h' hsome) hne
          · obtain ⟨_, _, _, _, _, _, e5⟩ := h.some2 h2
            have := e5 m' h' hne a' ha'
            omega
        · rw [h', ha] at ha'
          cases ha'
          exact Int.le_refl _
      le := by
        show a ≤ k1.num_simulations
        omega }

theorem Best.neither {F : Type} {adj : Nat → Option Int} {j : Nat} {k1 k2 : MoveInfo F}
    (h : Best adj j k1 k2) {a : Int} (ha : adj j = some a) (hmin : a > INT_MIN)
    (hle1 : ¬ a > k1.num_simulations) (hle2 : ¬ a > k2.num_simulations) :
    Best adj (j + 1) k1 k2 := by
  have hk1 : k1.move ≠ kInvalidMove := by
    intro h1
    have := (h.none1 h1).1
    omega
  have hk2 : k2.move ≠ kInvalidMove := by
    intro h2
    have := (h.none2 h2).1
    omega
  obtain ⟨m, e1, e2, e3, e4⟩ := h.some1 hk1
  obtain ⟨_, m₂, f1, f2, f3, f4, f5⟩ := h.some2 hk2
  exact
    { none1 := fun h1 => absurd h1 hk1
      some1 := by
        intro _
        refine ⟨m, e1, by omega, e3, fun m' hm' a' ha' => ?_⟩
        rcases Nat.lt_succ_iff_lt_or_eq.mp hm' with h' | h'
        · exact e4 m' h' a' ha'
        · rw [h', ha] at ha'
          cases ha'
          omega
      none2 := fun h2 => absurd h2 hk2
      some2 := by
        intro _
        refine ⟨hk1, m₂, f1, by omega, f3, f4, fun m' hm' hne a' ha' => ?_⟩
        rcases Nat.lt_succ_iff_lt_or_eq.mp hm' with h' | h'
        · exact f5 m' h' hne a' ha'
        · rw [h', ha] at ha'
          cases ha'
          omega
      le := h.le }

theorem twoKidsLoop_best {F : Type} (fl : RatioOps F) (L : Nat)
    (kZobristHash : Nat → Nat → Nat) (nodes : WaitFreeHashMap) (position_hash : Nat)
    (player : Player) :
    ∀ (n j : Nat) (k1 k2 : MoveInfo F) (r : MoveInfo F × MoveInfo F),
      Best (adjustedOfKid L kZobristHash nodes position_hash player) j k1 k2 →
      twoKidsLoop fl L kZobristHash nodes position_hash player n j (k1, k2) = Except.ok r →
      Best (adjustedOfKid L kZobristHash nodes position_hash player) (j + n) r.1 r.2 := by
  intro n
  induction n with
  | zero =>
    intro j k1 k2 r h hrun
    cases hrun
    exact h
  | succ n ih =>
    intro j k1 k2 r h hrun
    unfold twoKidsLoop at hrun
    have e : j + (n + 1) = j + 1 + n := by omega
    rw [e]
    by_cases hj : j < kNumMovesOnBoard
    · rw [if_pos hj] at hrun
      simp only [] at hrun
      cases hf : WaitFreeHashMap.FindValue L nodes
          (ModifyZobristHash kZobristHash position_hash player j) with
      | slot kid =>
        have ha : adjustedOfKid L kZobristHash nodes position_hash player j =
            some (GetAdjustedNumSimulations (nodes.values kid)) := by
          unfold adjustedOfKid
          rw [hf]
        rw [hf] at hrun
        simp only [] at hrun
        by_cases hmin : GetAdjustedNumSimulations (nodes.values kid) > INT_MIN
        · rw [if_pos hmin] at hrun
          by_cases h1 : GetAdjustedNumSimulations (nodes.values kid) > k1.num_simulations
          · rw [if_pos h1] at hrun
            exact ih _ _ _ _ (h.first ha h1 _) hrun
          · rw [if_neg h1] at hrun
            by_cases h2 : GetAdjustedNumSimulations (nodes.values kid) > k2.num_simulations
            · rw [if_pos h2] at hrun
              exact ih _ _ _ _ (h.second ha hmin h1 h2 _) hrun
            · rw [if_neg h2] at hrun
              exact ih _ _ _ _ (h.neither ha hmin h1 h2) hrun
        · rw [if_neg hmin] at hrun
          cases hrun
      | null =>
        have ha : adjustedOfKid L kZobristHash nodes position_hash player j = none := by
          unfold adjustedOfKid
          rw [hf]
        rw [hf] at hrun
        exact ih _ _ _ _ (h.absent ha) hrun
      | assertFailed =>
        rw [hf] at hrun
        cases hrun
      | loopsForever =>
        rw [hf] at hrun
        cases hrun
    · rw [if_neg hj] at hrun
      cases hrun

theorem twoKidsLoop_ok {F : Type} (fl : RatioOps F) (L : Nat)
    (kZobristHash : Nat → Nat → Nat) (nodes : WaitFreeHashMap) (position_hash : Nat)
    (player : Player) :
    ∀ (n j : Nat) (k : MoveInfo F × MoveInfo F), j + n ≤ kNumMovesOnBoard →
      (∀ m, j ≤ m → m < j + n →
        WaitFreeHashMap.FindValue L nodes
            (ModifyZobristHash kZobristHash position_hash player m) = Outcome.null ∨
        ∃ kid, WaitFreeHashMap.FindValue L nodes
            (ModifyZobristHash kZobristHash position_hash player m) = Outcome.slot kid ∧
          GetAdjustedNumSimulations (nodes.values kid) > INT_MIN) →
      ∃ r, twoKidsLoop fl L kZobristHash nodes position_hash player n j k = Except.ok r := by
  intro n
  induction n with
  | zero =>
    intro j k _ _
    exact ⟨k, rfl⟩
  | succ n ih =>
    intro j k hle hall
    obtain ⟨k1, k2⟩ := k
    unfold twoKidsLoop
    have hj : j < kNumMovesOnBoard := by omega
    have hrest : ∀ m, j + 1 ≤ m → m < j + 1 + n →
        WaitFreeHashMap.FindValue L nodes
            (ModifyZobristHash kZobristHash position_hash player m) = Outcome.null ∨
        ∃ kid, WaitFreeHashMap.FindValue L nodes
            (ModifyZobristHash kZobristHash position_hash player m) = Outcome.slot kid ∧
          GetAdjustedNumSimulations (nodes.values kid) > INT_MIN :=
      fun m h1 h2 => hall m (by omega) (by omega)
    rw [if_pos hj]
    simp only []
    rcases hall j (Nat.le_refl _) (by omega) with hf | ⟨kid, hf, hmin⟩
    · rw [hf]
      exact ih _ _ (by omega) hrest
    · rw [hf]
      simp only []
      rw [if_pos hmin]
      split_ifs
      · exact ih _ _ (by omega) hrest
      · exact ih _ _ (by omega) hrest
      · exact ih _ _ (by omega) hrest

/-- C22: when `move_count` is at most `kNumMovesOnBoard` and `FindNode`
returns, for every move below `move_count`, `NULL` or a kid whose adjusted
number of simulations is above `INT_MIN`, as the `assert` demands,
`GetTwoMostSimulatedKids` returns. Then `kid_1->move` is `kInvalidMove`
exactly when no move below `move_count` has a kid, and otherwise it is a
move with a kid whose adjusted number of simulations is
`kid_1->num_simulations`, the greatest of all kids; and `kid_2->move` is
`kInvalidMove` exactly when no two different moves have kids, and
otherwise it is a move other than `kid_1->move` with a kid whose adjusted
number of simulations is `kid_2->num_simulations`, the greatest of the kids
of the moves other than `kid_1->move`. -/
theorem GetTwoMostSimulatedKids_finds_the_two_best {F : Type} (fl : RatioOps F) (L : Nat)
    (kZobristHash : Nat → Nat → Nat) (nodes : WaitFreeHashMap) (position_hash : Nat)
    (player : Player) (move_count : Int) (hcount : move_count ≤ kNumMovesOnBoard)
    (hfind : ∀ m : Nat, (m : Int) < move_count →
      WaitFreeHashMap.FindValue L nodes
          (ModifyZobristHash kZobristHash position_hash player m) = Outcome.null ∨
      ∃ kid, WaitFreeHashMap.FindValue L nodes
          (ModifyZobristHash kZobristHash position_hash player m) = Outcome.slot kid ∧
        GetAdjustedNumSimulations (nodes.values kid) > INT_MIN) :
    ∃ kid_1 kid_2,
      GetTwoMostSimulatedKids fl L kZobristHash nodes position_hash player move_count =
        Except.ok (kid_1, kid_2) ∧
      (kid_1.move = kInvalidMove ↔ ∀ m : Nat, (m : Int) < move_count →
        adjustedOfKid L kZobristHash nodes position_hash player m = none) ∧
      (kid_1.move ≠ kInvalidMove → ∃ m : Nat, kid_1.move = m ∧ (m : Int) < move_count ∧
        adjustedOfKid L kZobristHash nodes position_hash player m =
          some kid_1.num_simulations ∧
        ∀ (m' : Nat) (a : Int), (m' : Int) < move_count →
          adjustedOfKid L kZobristHash nodes position_hash player m' = some a →
          a ≤ kid_1.num_simulations) ∧
      (kid_2.move = kInvalidMove ↔ ∀ m m' : Nat, (m : Int) < move_count →
        (m' : Int) < move_count →
        adjustedOfKid L kZobristHash nodes position_hash player m ≠ none →
        adjustedOfKid L kZobristHash nodes position_hash player m' ≠ none → m = m') ∧
      (kid_2.move ≠ kInvalidMove → ∃ m : Nat, kid_2.move = m ∧ (m : Int) < move_count ∧
        (m : Int) ≠ kid_1.move ∧
        adjustedOfKid L kZobristHash nodes position_hash player m =
          some kid_2.num_simulations ∧
        ∀ (m' : Nat) (a : Int), (m' : Int) < move_count → (m' : Int) ≠ kid_1.move →
          adjustedOfKid L kZobristHash nodes position_hash player m' = some a →
          a ≤ kid_2.num_simulations) := by
  have hlt : ∀ m : Nat, m < move_count.toNat ↔ (m : Int) < move_count := by
    intro m
    omega
  have hn : (0 : Nat) + move_count.toNat ≤ kNumMovesOnBoard := by
    have e : kNumMovesOnBoard = 271 := rfl
    rw [e] at hcount ⊢
    omega
  obtain ⟨r, hrun⟩ := twoKidsLoop_ok fl L kZobristHash nodes position_hash player
    move_count.toNat 0 (⟨kInvalidMove, INT_MIN, fl.nan⟩, ⟨kInvalidMove, INT_MIN, fl.nan⟩) hn
    (fun m _ h2 => hfind m ((hlt m).mp (by omega)))
  have hb := twoKidsLoop_best fl L kZobristHash nodes position_hash player move_count.toNat 0
    _ _ r (Best.best_start _ fl.nan) hrun
  rw [Nat.zero_add] at hb
  obtain ⟨k1, k2⟩ := r
  refine ⟨k1, k2, hrun, ?_, ?_, ?_, ?_⟩
  · constructor
    · intro h1 m hm
      exact (hb.none1 h1).2 m ((hlt m).mpr hm)
    · intro hall
      by_contra h1
      obtain ⟨m, _, e2, e3, _⟩ := hb.some1 h1
      rw [hall m ((hlt m).mp e2)] at e3
      cases e3
  · intro h1
    obtain ⟨m, e1, e2, e3, e4⟩ := hb.some1 h1
    exact ⟨m, e1, (hlt m).mp e2, e3, fun m' a hm' ha => e4 m' ((hlt m').mpr hm') a ha⟩
  · constructor
    · intro h2 m m' hm hm' hne hne'
      have e1 := (hb.none2 h2).2 m ((hlt m).mpr hm) hne
      have e2 := (hb.none2 h2).2 m' ((hlt m').mpr hm') hne'
      have : (m : Int) = (m' : Int) := e1.trans e2.symm
      exact_mod_cast this
    · intro hall
      by_contra h2
      obtain ⟨h1, m, _, e2, e3, e4, _⟩ := hb.some2 h2
      obtain ⟨m₁, f1, f2, f3, _⟩ := hb.some1 h1
      have := hall m m₁ ((hlt m).mp e2) ((hlt m₁).mp f2) (by rw [e4]; simp) (by rw [f3]; simp)
      rw [f1, this] at e3
      exact e3 rfl
  · intro h2
    obtain ⟨_, m, e1, e2, e3, e4, e5⟩ := hb.some2 h2
    exact ⟨m, e1, (hlt m).mp e2, e3, e4,
      fun m' a hm' hne ha => e5 m' ((hlt m').mpr hm') hne a ha⟩

end TranspositionTable

theorem threeKids_found : ∀ m, m < 271 →
    (match WaitFreeHashMap.FindValue 10 threeKids
        (ModifyZobristHash (fun move player => 2 * move + player + 1) 0 Player.kBlack m) with
      | Outcome.slot kid => decide (GetAdjustedNumSimulations (threeKids.values kid) > INT_MIN)
      | Outcome.null => true
      | _ => false) = true := by
  decide!

/-- C22 for the kids of the moves 3, 5 and 8 with the adjusted numbers of
simulations 7, 12 and 9. -/
theorem GetTwoMostSimulatedKids_finds_the_two_best_witness :
    ∃ kid_1 kid_2,
      TranspositionTable.GetTwoMostSimulatedKids exampleRatio 10
          (fun move player => 2 * move + player + 1) threeKids 0 Player.kBlack 271 =
        Except.ok (kid_1, kid_2) ∧
      (kid_1.move = kInvalidMove ↔ ∀ m : Nat, (m : Int) < 271 →
        TranspositionTable.adjustedOfKid 10 (fun move player => 2 * move + player + 1)
          threeKids 0 Player.kBlack m = none) ∧
      (kid_1.move ≠ kInvalidMove → ∃ m : Nat, kid_1.move = m ∧ (m : Int) < 271 ∧
        TranspositionTable.adjustedOfKid 10 (fun move player => 2 * move + player + 1)
          threeKids 0 Player.kBlack m = some kid_1.num_simulations ∧
        ∀ (m' : Nat) (a : Int), (m' : Int) < 271 →
          TranspositionTable.adjustedOfKid 10 (fun move player => 2 * move + player + 1)
            threeKids 0 Player.kBlack m' = some a →
          a ≤ kid_1.num_simulations) ∧
      (kid_2.move = kInvalidMove ↔ ∀ m m' : Nat, (m : Int) < 271 → (m' : Int) < 271 →
        TranspositionTable.adjustedOfKid 10 (fun move player => 2 * move + player + 1)
          threeKids 0 Player.kBlack m ≠ none →
        TranspositionTable.adjustedOfKid 10 (fun move player => 2 * move + player + 1)
          threeKids 0 Player.kBlack m' ≠ none → m = m') ∧
      (kid_2.move ≠ kInvalidMove → ∃ m : Nat, kid_2.move = m ∧ (m : Int) < 271 ∧
        (m : Int) ≠ kid_1.move ∧
        TranspositionTable.adjustedOfKid 10 (fun move player => 2 * move + player + 1)
          threeKids 0 Player.kBlack m = some kid_2.num_simulations ∧
        ∀ (m' : Nat) (a : Int), (m' : Int) < 271 → (m' : Int) ≠ kid_1.move →
          TranspositionTable.adjustedOfKid 10 (fun move player => 2 * move + player + 1)
            threeKids 0 Player.kBlack m' = some a →
          a ≤ kid_2.num_simulations) :=
  TranspositionTable.GetTwoMostSimulatedKids_finds_the_two_best exampleRatio 10
    (fun move player => 2 * move + player + 1) threeKids 0 Player.kBlack 271 (by decide)
    (fun m hm => by
      have h := threeKids_found m (by omega)
      cases hf : WaitFreeHashMap.FindValue 10 threeKids
          (ModifyZobristHash (fun move player => 2 * move + player + 1) 0 Player.kBlack m) with
      | slot kid =>
        rw [hf] at h
        exact Or.inr ⟨kid, rfl, of_decide_eq_true h⟩
      | null => exact Or.inl rfl
      | assertFailed =>
        rw [hf] at h
        cases h
      | loopsForever =>
        rw [hf] at h
        cases h)

/-! ### A full table: playouts in the place of an expansion -/

namespace TranspositionTable

variable {F R : Type} (env : SearchEnv F R)

end TranspositionTable

namespace MctsEngine

variable {F R : Type} (env : SearchEnv F R)

end MctsEngine

/-- The value of a word after the first loop of `UndoAll`: its value before,
when no entry names it, or else the value of an entry that names it. -/
theorem undoWords_cases (w : List (Loc × Nat)) (mem : Loc → Nat) (loc : Loc) :
    (loc ∉ w.map Prod.fst ∧ undoWords w mem loc = mem loc) ∨
      ∃ e ∈ w, e.1 = loc ∧ undoWords w mem loc = e.2 := by
  induction w with
  | nil => exact Or.inl ⟨by simp, rfl⟩
  | cons e w ih =>
    rw [undoWords_cons]
    by_cases he : loc = e.1
    · right
      exact ⟨e, List.mem_cons_self _ _, he.symm, by rw [he, Function.update_same]⟩
    · rw [Function.update_noteq he]
      rcases ih with ⟨h1, h2⟩ | ⟨e', h1, h2, h3⟩
      · left
        refine ⟨?_, h2⟩
        simp only [List.map_cons, List.mem_cons, not_or]
        exact ⟨he, h1⟩
      · right
        exact ⟨e', List.mem_cons_of_mem _ h1, h2, h3⟩

/-- The size of a chain set after the second loop of `UndoAll`: its size
before or a remembered size of it. -/
theorem undoSizes_cases (z : List (Nat × Nat)) (size : Nat → Nat) (cs : Nat) :
    undoSizes z size cs = size cs ∨ ∃ e ∈ z, e.1 = cs ∧ undoSizes z size cs = e.2 := by
  induction z with
  | nil => exact Or.inl rfl
  | cons e z ih =>
    rw [undoSizes_cons]
    by_cases he : cs = e.1
    · rw [he, Function.update_same, ShrinkTo_eq]
      rw [he] at ih
      rcases Nat.le_total (undoSizes z size e.1) e.2 with hle | hle
      · rw [Nat.min_eq_left hle]
        rcases ih with h | ⟨e', h1, h2, h3⟩
        · exact Or.inl h
        · exact Or.inr ⟨e', List.mem_cons_of_mem _ h1, h2, h3⟩
      · rw [Nat.min_eq_right hle]
        exact Or.inr ⟨e, List.mem_cons_self _ _, rfl, rfl⟩
    · rw [Function.update_noteq he]
      rcases ih with h | ⟨e', h1, h2, h3⟩
      · exact Or.inl h
      · exact Or.inr ⟨e', List.mem_cons_of_mem _ h1, h2, h3⟩

theorem Forwarding_init (p : Nat) : Forwarding p State.init where
  up := (Inv_init p).newer_lt
  zero := by intro e he; cases he
  low := by intro e he; cases he
  le := by intro e he; cases he

/-- `Memento::UndoAll` keeps the invariant of the links. -/
theorem Forwarding.undoAll {p : Nat} {s : State} (h : Forwarding p s) :
    Forwarding p s.undoAll where
  up := by
    intro ch h0 h1
    have h1' : ch < undoSizes s.memento.sizes_ s.size p := h1
    show getByte (undoWords s.memento.words_ s.mem (Loc.chainNewer p ch)) 0 = 0 ∨
      (ch < getByte (undoWords s.memento.words_ s.mem (Loc.chainNewer p ch)) 0 ∧
        getByte (undoWords s.memento.words_ s.mem (Loc.chainNewer p ch)) 0 <
          undoSizes s.memento.sizes_ s.size p)
    rcases undoWords_cases s.memento.words_ s.mem (Loc.chainNewer p ch) with
      ⟨hn, hv⟩ | ⟨e, he, he1, hv⟩
    · rw [hv]
      rcases undoSizes_cases s.memento.sizes_ s.size p with hs | ⟨z, hz, hz1, hs⟩
      · rw [hs] at h1' ⊢
        exact h.up ch h0 h1'
      · rw [hs] at h1' ⊢
        exact h.low z hz hz1 ch h0 h1' hn
    · rw [hv]
      exact Or.inl (h.zero e he ch he1)
  zero := by intro e he; cases he
  low := by intro e he; cases he
  le := by intro e he; cases he

/-- What `Chain::AddStoneReversibly` remembers: words that hold no
`newer_version_`, and no size. -/
theorem AddStoneReversibly_words {p ch x y : Nat} {s : State} {u : Unit} {s' : State}
    (h : Chain.AddStoneReversibly p ch x y s = Res.ok u s') :
    (∀ e ∈ s'.memento.words_, e ∈ s.memento.words_ ∨ ∀ q k, e.1 ≠ Loc.chainNewer q k) ∧
    (∀ e ∈ s.memento.words_, e ∈ s'.memento.words_) ∧
    s'.memento.sizes_ = s.memento.sizes_ := by
  unfold Chain.AddStoneReversibly at h
  rw [assert_bind, ite_fail_eq_ok] at h
  obtain ⟨_, h⟩ := h
  obtain ⟨ring, hring, h⟩ := GetRingMask_bind_ok h
  generalize GetMaskOfEdgesAndCorners (XYToCell x y) ||| ring = mask at h
  by_cases hm : mask ≠ 0
  · simp only [hm, ne_eq, not_false_eq_true, if_true, bind_assoc', Remember_bind, readW_bind,
      writeW_bind, assert_bind, ite_fail_eq_ok, writeW_apply, Res.ok.injEq, true_and] at h
    obtain ⟨_, h⟩ := h
    subst h
    refine ⟨?_, ?_, rfl⟩
    · intro e he
      simp only [State.remember, State.write, List.mem_append, List.mem_singleton] at he
      rcases he with ((he | he) | he) | he
      · exact Or.inl he
      all_goals right; intro q k; rw [he]; simp
    · intro e he
      simp only [State.remember, State.write, List.mem_append, List.mem_singleton]
      exact Or.inl (Or.inl (Or.inl he))
  · rw [not_not] at hm
    subst hm
    simp only [ne_eq, not_true_eq_false, if_false, bind_assoc', Remember_bind, readW_bind,
      writeW_bind, assert_bind, ite_fail_eq_ok, writeW_apply, Res.ok.injEq, true_and,
      pure_bind'] at h
    obtain ⟨_, h⟩ := h
    subst h
    refine ⟨?_, ?_, rfl⟩
    · intro e he
      simp only [State.remember, State.write, List.mem_append, List.mem_singleton] at he
      rcases he with (he | he) | he
      · exact Or.inl he
      all_goals right; intro q k; rw [he]; simp
    · intro e he
      simp only [State.remember, State.write, List.mem_append, List.mem_singleton]
      exact Or.inl (Or.inl he)

/-- What `ChainSet::MergeChainsReversibly` remembers when it merges two
chains: the words with `newer_version_` of both, which no chain
supersedes. -/
theorem MergeChainsReversibly_words {p x y a b : Nat} {s : State} {r : Nat} {s' : State}
    (h : ChainSet.MergeChainsReversibly p x y a b s = Res.ok r s') (hab : a ≠ b) :
    s'.memento.words_ = s.memento.words_ ++
      [(Loc.chainNewer p a, s.mem (Loc.chainNewer p a)),
        (Loc.chainNewer p b, s.mem (Loc.chainNewer p b))] ∧
    s'.memento.sizes_ = s.memento.sizes_ ∧
    (a = (s.view p).newest a ∧ 0 < a ∧ a < s.size p) ∧
    (b = (s.view p).newest b ∧ 0 < b ∧ b < s.size p) := by
  unfold ChainSet.MergeChainsReversibly at h
  obtain ⟨h1, ha0, ha⟩ := NewestVersion_bind_ok h
  clear h
  rw [assert_bind, ite_fail_eq_ok] at h1
  obtain ⟨hna, h2⟩ := h1
  obtain ⟨h3, hb0, hb⟩ := NewestVersion_bind_ok h2
  clear h2
  rw [assert_bind, ite_fail_eq_ok] at h3
  obtain ⟨hnb, h4⟩ := h3
  rw [if_neg hab, getSize_bind, assert_bind, ite_fail_eq_ok, pushChain_bind] at h4
  obtain ⟨hlt, h5⟩ := h4
  unfold Chain.ComputeUnion at h5
  simp only [bind_assoc', assert_bind, ite_fail_eq_ok, readChainRows_bind,
    writeChainRows_bind, readW_bind, writeW_bind] at h5
  obtain ⟨_, _, _, h6⟩ := h5
  obtain ⟨ring, hring, h7⟩ := GetRingMask_bind_ok h6
  clear h6
  unfold Chain.SetNewerVersionReversibly at h7
  simp only [bind_assoc', assert_bind, ite_fail_eq_ok, writeW_bind, writeByte_bind,
    RememberByte_bind, pure_apply, Res.ok.injEq] at h7
  obtain ⟨_, _, hr, hs⟩ := h7
  subst hr
  subst hs
  have ha' : a ≠ s.size p := Nat.ne_of_lt ha
  have hb' : b ≠ s.size p := Nat.ne_of_lt hb
  refine ⟨?_, rfl, ⟨of_decide_eq_true hna, ha0, ha⟩, ⟨of_decide_eq_true hnb, hb0, hb⟩⟩
  simp [State.remember, State.write, State.setSize, State.writeRows, Function.update_apply,
    ha', hb', Ne.symm hab]

theorem Upward.upward_single {v : ChainView} (hup : Upward v.newer v.size) (x y : Nat) :
    Upward (v.single x y).newer (v.single x y).size := by
  intro ch h0 h1
  show (if ch = v.size then 0 else v.newer ch) = 0 ∨
    (ch < (if ch = v.size then 0 else v.newer ch) ∧
      (if ch = v.size then 0 else v.newer ch) < v.size + 1)
  have h1' : ch < v.size + 1 := h1
  by_cases hs : ch = v.size
  · rw [if_pos hs]; exact Or.inl rfl
  · rw [if_neg hs]
    rcases hup ch h0 (by omega) with h | h
    · exact Or.inl h
    · right; omega

/-- A step that leaves the `Memento` and the links below the size alone and
does not shrink the chain set keeps the last three parts of the invariant. -/
theorem Forwarding.of_grown {p : Nat} {s s' : State} (h : Forwarding p s)
    (hup : Upward (s'.newer p) (s'.size p)) (hm : s'.memento = s.memento)
    (hsize : s.size p ≤ s'.size p)
    (hnewer : (∀ e ∈ s.memento.sizes_, e.1 ≠ p) ∨
      ∀ ch, ch < s.size p → s'.newer p ch = s.newer p ch) :
    Forwarding p s' where
  up := hup
  zero := by rw [hm]; exact h.zero
  low := by
    rw [hm]
    intro e he he1 ch h0 h1 hn
    rcases hnewer with hno | hsame
    · exact absurd he1 (hno e he)
    · rw [hsame ch (Nat.lt_of_lt_of_le h1 (h.le e he he1))]
      exact h.low e he he1 ch h0 h1 hn
  le := by
    rw [hm]
    intro e he he1
    exact Nat.le_trans (h.le e he he1) hsize

theorem Forwarding.makeOneStoneChain {p x y : Nat} {s s' : State} {r : Nat}
    (h : Forwarding p s) (hrun : ChainSet.MakeOneStoneChain p x y s = Res.ok r s') :
    Forwarding p s' := by
  obtain ⟨hm, _, _⟩ := MakeOneStoneChain_spec p x y s s' r hrun
  obtain ⟨_, _, hv, _⟩ := MakeOneStoneChain_view hrun
  have hsz : s'.size p = s.size p + 1 := congrArg ChainView.size hv
  have hnw : s'.newer p = fun c => if c = s.size p then 0 else s.newer p c :=
    congrArg ChainView.newer hv
  refine h.of_grown ?_ hm (by omega) (Or.inr ?_)
  · have := h.up.upward_single (v := s.view p) x y
    rw [← hv] at this
    exact this
  · intro ch hch
    rw [hnw]
    exact if_neg (Nat.ne_of_lt hch)

theorem Forwarding.addStoneToChainFast {p x y ch : Nat} {s s' : State} {u : Unit}
    (h : Forwarding p s) (hrun : ChainSet.AddStoneToChainFast p x y ch s = Res.ok u s') :
    Forwarding p s' := by
  obtain ⟨hm, mask, _, hv⟩ := AddStoneToChainFast_spec hrun
  have hsz : s'.size p = s.size p := congrArg ChainView.size hv
  have hnw : s'.newer p = s.newer p := congrArg ChainView.newer hv
  refine h.of_grown ?_ hm (by omega) (Or.inr ?_)
  · rw [hsz, hnw]; exact h.up
  · intro k _; rw [hnw]

theorem Forwarding.mergeChainsFast {p x y a b : Nat} {s s' : State} {r : Nat}
    (h : Forwarding p s) (hno : ∀ e ∈ s.memento.sizes_, e.1 ≠ p)
    (hrun : ChainSet.MergeChainsFast p x y a b s = Res.ok r s') :
    Forwarding p s' := by
  rcases MergeChainsFast_spec hrun with ⟨_, _, hs⟩ | ⟨_, _, _, hm, ring, _, hv⟩
  · rw [hs]; exact h
  · have hsz : s'.size p = s.size p + 1 := congrArg ChainView.size hv
    refine h.of_grown ?_ hm (by omega) (Or.inl hno)
    have := ChainView.Upward.upward_merge (v := s.view p) h.up a b ring
    rw [← hv] at this
    exact this

theorem Forwarding.addStoneToChainReversibly {p x y ch : Nat} {s s' : State} {u : Unit}
    (h : Forwarding p s) (hrun : ChainSet.AddStoneToChainReversibly p x y ch s = Res.ok u s') :
    Forwarding p s' := by
  have hc := AddStoneToChainReversibly_chains hrun
  have hv : s'.view p = (s.view p).addStone ch x y
      (GetMaskOfEdgesAndCorners (XYToCell x y) ||| ringMask ((s.view p).rows ch) x y) :=
    congrArg Chains.view hc
  have hsz : s'.size p = s.size p := congrArg ChainView.size hv
  have hnw : s'.newer p = s.newer p := congrArg ChainView.newer hv
  unfold ChainSet.AddStoneToChainReversibly at hrun
  obtain ⟨hrun, _, _⟩ := NewestVersion_bind_ok hrun
  rw [assert_bind, ite_fail_eq_ok] at hrun
  obtain ⟨hw, hsub, hz⟩ := AddStoneReversibly_words hrun.2
  constructor
  · rw [hsz, hnw]; exact h.up
  · intro e he k hk
    rcases hw e he with h1 | h1
    · exact h.zero e h1 k hk
    · exact absurd hk (h1 p k)
  · rw [hz, hnw]
    intro e he he1 k h0 h1 hn
    refine h.low e he he1 k h0 h1 ?_
    intro hmem
    obtain ⟨e', he', he1'⟩ := List.mem_map.1 hmem
    exact hn (List.mem_map.2 ⟨e', hsub e' he', he1'⟩)
  · rw [hz, hsz]; exact h.le

theorem Forwarding.mergeChainsReversibly {p x y a b : Nat} {s s' : State} {r : Nat}
    (h : Forwarding p s) (hrun : ChainSet.MergeChainsReversibly p x y a b s = Res.ok r s') :
    Forwarding p s' := by
  rcases MergeChainsReversibly_chains hrun with ⟨_, _, hs⟩ | ⟨hab, _, _, hc⟩
  · rw [hs]; exact h
  · have hv : s'.view p = (s.view p).merge a b (ringMask ((s.view p).rows b) x y) :=
      congrArg Chains.view hc
    have hsz : s'.size p = s.size p + 1 := congrArg ChainView.size hv
    have hnw : s'.newer p = fun c =>
        if c = s.size p then 0 else if c = a ∨ c = b then s.size p else s.newer p c :=
      congrArg ChainView.newer hv
    obtain ⟨hw, hz, ⟨ha, ha0, ha1⟩, ⟨hb, hb0, hb1⟩⟩ := MergeChainsReversibly_words hrun hab
    have hza : s.newer p a = 0 := by
      have := (ChainView.isNewest_newest (v := s.view p) h.up ha0 ha1).2.2
      rw [← ha] at this
      exact this
    have hzb : s.newer p b = 0 := by
      have := (ChainView.isNewest_newest (v := s.view p) h.up hb0 hb1).2.2
      rw [← hb] at this
      exact this
    constructor
    · have := ChainView.Upward.upward_merge (v := s.view p) h.up a b
        (ringMask ((s.view p).rows b) x y)
      rw [← hv] at this
      exact this
    · intro e he k hk
      rw [hw] at he
      simp only [List.mem_append, List.mem_cons, List.mem_singleton, List.not_mem_nil,
        or_false] at he
      rcases he with he | rfl | rfl
      · exact h.zero e he k hk
      · exact hza
      · exact hzb
    · rw [hz, hw]
      intro e he he1 k h0 h1 hn
      have hk : k < s.size p := Nat.lt_of_lt_of_le h1 (h.le e he he1)
      simp only [List.map_append, List.map_cons, List.map_nil, List.mem_append, List.mem_cons,
        List.mem_singleton, List.not_mem_nil, or_false, not_or, Loc.chainNewer.injEq, true_and]
        at hn
      obtain ⟨hn1, hna, hnb⟩ := hn
      rw [hnw]
      simp only [Nat.ne_of_lt hk, hna, hnb, or_self, if_false]
      exact h.low e he he1 k h0 h1 hn1
    · rw [hz, hsz]
      intro e he he1
      exact Nat.le_trans (h.le e he he1) (Nat.le_succ _)

theorem Forwarding.rememberSize {p : Nat} {s : State} (h : Forwarding p s) :
    Forwarding p (s.rememberSize p) where
  up := h.up
  zero := h.zero
  low := by
    intro e he he1 k h0 h1 hn
    have he' : e ∈ s.memento.sizes_ ++ [(p, s.size p)] := he
    rcases List.mem_append.1 he' with h2 | h2
    · exact h.low e h2 he1 k h0 h1 hn
    · rw [List.mem_singleton.1 h2] at h1 ⊢
      exact h.up k h0 h1
  le := by
    intro e he he1
    have he' : e ∈ s.memento.sizes_ ++ [(p, s.size p)] := he
    rcases List.mem_append.1 he' with h2 | h2
    · exact h.le e h2 he1
    · rw [List.mem_singleton.1 h2]
      exact Nat.le_refl _

/-- In every state that the chain set reaches, also with remembered sizes,
the links `newer_version_` satisfy the invariant. -/
theorem ChainSetReachSized.forwarding {p : Nat} {s : State} (h : ChainSetReachSized p s) :
    Forwarding p s := by
  induction h with
  | init => exact Forwarding_init p
  | one _ hrun ih => exact ih.makeOneStoneChain hrun
  | addFast _ hrun ih => exact ih.addStoneToChainFast hrun
  | addReversibly _ hrun ih => exact ih.addStoneToChainReversibly hrun
  | mergeFast _ hno hrun ih => exact ih.mergeChainsFast hno hrun
  | mergeReversibly _ hrun ih => exact ih.mergeChainsReversibly hrun
  | rememberSize _ ih => exact ih.rememberSize
  | undo _ ih => exact ih.undoAll

/-- The methods of `ChainSet` remember no size: the states that they reach
are reached with remembered sizes as well, and hold none. -/
theorem ChainSetReach.sized {p : Nat} {s : State} (h : ChainSetReach p s) :
    ChainSetReachSized p s ∧ s.memento.sizes_ = [] := by
  induction h with
  | init => exact ⟨ChainSetReachSized.init, rfl⟩
  | one _ hrun ih =>
    refine ⟨ChainSetReachSized.one ih.1 hrun, ?_⟩
    rw [(MakeOneStoneChain_spec _ _ _ _ _ _ hrun).1]
    exact ih.2
  | addFast _ hrun ih =>
    refine ⟨ChainSetReachSized.addFast ih.1 hrun, ?_⟩
    rw [(AddStoneToChainFast_spec hrun).1]
    exact ih.2
  | addReversibly _ hrun ih =>
    refine ⟨ChainSetReachSized.addReversibly ih.1 hrun, ?_⟩
    have hrun' := hrun
    unfold ChainSet.AddStoneToChainReversibly at hrun'
    obtain ⟨hrun', _, _⟩ := NewestVersion_bind_ok hrun'
    rw [assert_bind, ite_fail_eq_ok] at hrun'
    rw [(AddStoneReversibly_words hrun'.2).2.2]
    exact ih.2
  | @mergeFast s s' x y a b r _ hrun ih =>
    have hno : ∀ e ∈ s.memento.sizes_, e.1 ≠ p := by
      rw [ih.2]; intro e he; cases he
    refine ⟨ChainSetReachSized.mergeFast ih.1 hno hrun, ?_⟩
    rcases MergeChainsFast_spec hrun with ⟨_, _, hs⟩ | ⟨_, _, _, hm, _⟩
    · rw [hs]; exact ih.2
    · rw [hm]; exact ih.2
  | @mergeReversibly s s' x y a b r _ hrun ih =>
    refine ⟨ChainSetReachSized.mergeReversibly ih.1 hrun, ?_⟩
    by_cases hab : a = b
    · rcases MergeChainsReversibly_chains hrun with ⟨_, _, hs⟩ | ⟨hne, _⟩
      · rw [hs]; exact ih.2
      · exact absurd hab hne
    · rw [(MergeChainsReversibly_words hrun hab).2.1]
      exact ih.2
  | undo _ ih => exact ⟨ChainSetReachSized.undo ih.1, rfl⟩

/-- C28: in every state that a chain set reaches from its construction by
`MakeOneStoneChain`, `AddStoneToChainFast`, `AddStoneToChainReversibly`,
`MergeChainsFast`, `MergeChainsReversibly` and `Memento::UndoAll`, the
`newer_version_` of every stored chain is 0 or an index above the index of
the chain and below `size()`; and `ChainSet::NewestVersion` returns for
every stored chain, changes nothing, and returns the index of a stored chain
whose `newer_version_` is 0. -/
theorem newer_versions_lead_upwards {p : Nat} {s : State} (h : ChainSetReach p s) :
    (∀ ch, 0 < ch → ch < s.size p →
      s.newer p ch = 0 ∨ (ch < s.newer p ch ∧ s.newer p ch < s.size p)) ∧
    ∀ ch, ch ≠ 0 → ch < s.size p →
      ∃ n, ChainSet.NewestVersion p ch s = Res.ok n s ∧
        0 < n ∧ n < s.size p ∧ s.newer p n = 0 := by
  have hup : Upward (s.newer p) (s.size p) := h.sized.1.forwarding.up
  refine ⟨hup, ?_⟩
  intro ch h0 h1
  exact ⟨(s.view p).newest ch, NewestVersion_ok hup (Nat.pos_of_ne_zero h0) h1,
    ChainView.isNewest_newest (v := s.view p) hup (Nat.pos_of_ne_zero h0) h1⟩

theorem chainSetState₄_reached : ChainSetReach 0 chainSetState₄ := by
  obtain ⟨r₁, h₁⟩ := Res.eq_ok_of_isOk
    (ChainSet.MakeOneStoneChain 0 11 11 State.init) State.init (by decide!)
  obtain ⟨r₂, h₂⟩ := Res.eq_ok_of_isOk
    (ChainSet.MakeOneStoneChain 0 12 11 chainSetState₁) State.init (by decide!)
  obtain ⟨r₃, h₃⟩ := Res.eq_ok_of_isOk
    (ChainSet.MergeChainsReversibly 0 12 11 2 1 chainSetState₂) State.init (by decide!)
  obtain ⟨r₄, h₄⟩ := Res.eq_ok_of_isOk
    (ChainSet.AddStoneToChainFast 0 13 11 3 chainSetState₃) State.init (by decide!)
  exact ChainSetReach.addFast (ChainSetReach.mergeReversibly
    (ChainSetReach.one (ChainSetReach.one ChainSetReach.init h₁) h₂) h₃) h₄

/-- C28 at the chain set in which the chains 1 and 2, of one stone each, have
been merged reversibly into the chain 3, to which a stone has been added:
it has four elements, and `NewestVersion` returns for the chains 1, 2
and 3. -/
theorem newer_versions_lead_upwards_witness :
    ChainSetReach 0 chainSetState₄ ∧ chainSetState₄.size 0 = 4 ∧
    (∀ ch, 0 < ch → ch < chainSetState₄.size 0 →
      chainSetState₄.newer 0 ch = 0 ∨
        (ch < chainSetState₄.newer 0 ch ∧ chainSetState₄.newer 0 ch < chainSetState₄.size 0)) ∧
    ∀ ch, ch ≠ 0 → ch < chainSetState₄.size 0 →
      ∃ n, ChainSet.NewestVersion 0 ch chainSetState₄ = Res.ok n chainSetState₄ ∧
        0 < n ∧ n < chainSetState₄.size 0 ∧ chainSetState₄.newer 0 n = 0 :=
  ⟨chainSetState₄_reached, by decide!, newer_versions_lead_upwards chainSetState₄_reached⟩

/-- Why `MergeChainsFast` has its condition in `ChainSetReachSized`: when the
size 3 of the chain set has been remembered, `MergeChainsFast` of the chains
1 and 2 returns the chain 3, and `UndoAll` then shrinks the chain set to its
three elements but leaves the `newer_version_` 3 of both chains. -/
theorem shrunkChainSet_dangles :
    (ChainSet.MergeChainsFast 0 12 11 2 1 (chainSetState₂.rememberSize 0)).value = some 3 ∧
    shrunkChainSet.size 0 = 3 ∧ shrunkChainSet.newer 0 1 = 3 ∧ shrunkChainSet.newer 0 2 = 3 := by
  decide!

/-! ### The canonical ordering of `RingDB::VerifyCycle` -/

namespace RingDB

/-- The method `RingDB::VerifyCycle` on a state whose `path_` is not empty
and as long as `bridges_`, whose pairs are ordered: it goes on after the test
of the canonical ordering or returns at once. -/
theorem VerifyCycle_eq (moveIndex : Nat → Int) (p : Nat) (s : State)
    (h0 : (s.ring p).path_ ≠ [])
    (hlen : (s.ring p).path_.length = (s.ring p).bridges_.length)
    (hsorted : ∀ b ∈ (s.ring p).bridges_, b.1 < b.2) :
    VerifyCycle moveIndex p s =
      if canonicalOrdering (s.ring p).path_ (s.ring p).bridges_ then
        recordCycle moveIndex p (s.ring p) s
      else Res.ok () s := by
  have hne : (s.ring p).path_.length ≠ 0 := fun h => h0 (List.length_eq_zero.1 h)
  unfold VerifyCycle
  rw [getRing_bind, assert_bind, if_pos (decide_eq_true hne), assert_bind,
    if_pos (decide_eq_true hlen)]
  by_cases h2 : (s.ring p).path_.length > 2
  · unfold canonicalOrdering
    simp only [if_pos h2, pure_bind']
    by_cases hr : List.getD (s.ring p).path_ 1 0 > (s.ring p).path_.getLastD 0
    · simp only [hr, decide_True, if_true, pure_apply, Bool.not_true, Bool.false_eq_true,
        if_false]
    · simp only [hr, decide_False, Bool.false_eq_true, if_false, Bool.not_false, if_true]
      rfl
  · by_cases h3 : (s.ring p).path_.length = 2
    · have hb0 : (List.getD (s.ring p).bridges_ 0 (0, 0)).1 <
          (List.getD (s.ring p).bridges_ 0 (0, 0)).2 := by
        apply hsorted
        rw [List.getD_eq_getElem _ _ (by omega)]
        exact List.getElem_mem _
      have hb1 : (List.getD (s.ring p).bridges_ 1 (0, 0)).1 <
          (List.getD (s.ring p).bridges_ 1 (0, 0)).2 := by
        apply hsorted
        rw [List.getD_eq_getElem _ _ (by omega)]
        exact List.getElem_mem _
      unfold canonicalOrdering
      simp only [if_neg h2, if_pos h3, bind_assoc', assert_bind, if_pos (decide_eq_true hb0),
        if_pos (decide_eq_true hb1), pure_bind']
      by_cases hr : (List.getD (s.ring p).bridges_ 0 (0, 0)).1 >
          (List.getD (s.ring p).bridges_ 1 (0, 0)).1
      · simp only [hr, decide_True, if_true, pure_apply, Bool.not_true, Bool.false_eq_true,
          if_false]
      · simp only [hr, decide_False, Bool.false_eq_true, if_false, Bool.not_false, if_true]
        rfl
    · unfold canonicalOrdering
      simp only [if_neg h2, if_neg h3, pure_bind', Bool.false_eq_true, if_false, if_true]
      rfl

/-- The test of the canonical ordering on the two traversals of a circuit of
two nodes: the bridges are compared by their first cells. -/
theorem canonicalOrdering_two (start v : Nat) (b₀ b₁ : Nat × Nat) :
    canonicalOrdering [start, v] [b₀, b₁] = !decide (b₀.1 > b₁.1) := rfl

/-- The test of the canonical ordering on a circuit of more than two nodes:
the second node is compared with the last. -/
theorem canonicalOrdering_more (start v : Nat) (rest : List Nat) (bridges : List (Nat × Nat))
    (hrest : rest ≠ []) :
    canonicalOrdering (start :: v :: rest) bridges = !decide (v > rest.getLast hrest) := by
  obtain ⟨w, rest', rfl⟩ := List.exists_cons_of_ne_nil hrest
  unfold canonicalOrdering
  have h2 : (start :: v :: w :: rest').length > 2 := by simp
  rw [if_pos h2]
  simp [List.getLastD, List.getLast?_eq_getLast]

/-- C30: a circuit of two or more different nodes, from `start` through the
nodes of `rest` and back along the two-bridges of `bridges`, whose pairs are
ordered as `AddOneWayTwoBridge` demands and hold different cells, is
traversed in the other direction with `path_` and `bridges_` turned round
after `start`. The test of the canonical ordering lets exactly one of the two
traversals pass, and `RingDB::VerifyCycle`, given either, goes on when the
test does and otherwise returns at once and changes nothing. -/
theorem VerifyCycle_goes_on_in_one_direction (moveIndex : Nat → Int) (p : Nat)
    (start : Nat) (rest : List Nat) (bridges : List (Nat × Nat))
    (hrest : rest ≠ []) (hlen : bridges.length = rest.length + 1)
    (hnodes : (start :: rest).Nodup) (hsorted : ∀ b ∈ bridges, b.1 < b.2)
    (hcells : (bridges.map Prod.fst ++ bridges.map Prod.snd).Nodup) :
    (canonicalOrdering (start :: rest) bridges =
      !canonicalOrdering (start :: rest.reverse) bridges.reverse) ∧
    ∀ s : State,
      ((s.ring p).path_ = start :: rest ∧ (s.ring p).bridges_ = bridges) ∨
        ((s.ring p).path_ = start :: rest.reverse ∧ (s.ring p).bridges_ = bridges.reverse) →
      VerifyCycle moveIndex p s =
        if canonicalOrdering (s.ring p).path_ (s.ring p).bridges_ then
          recordCycle moveIndex p (s.ring p) s
        else Res.ok () s := by
  constructor
  · obtain ⟨v, rest', rfl⟩ := List.exists_cons_of_ne_nil hrest
    by_cases hr : rest' = []
    · subst hr
      match bridges, hlen with
      | [b₀, b₁], _ =>
        have hne : b₀.1 ≠ b₁.1 := by
          intro h
          simp [h] at hcells
        show canonicalOrdering [start, v] [b₀, b₁] = !canonicalOrdering [start, v] [b₁, b₀]
        rw [canonicalOrdering_two, canonicalOrdering_two]
        rcases Nat.lt_or_gt_of_ne hne with h | h
        · simp [h, Nat.lt_asymm h]
        · simp [h, Nat.lt_asymm h]
    · have hlast_ne : v ≠ rest'.getLast hr := by
        intro h
        have hmem : rest'.getLast hr ∈ rest' := List.getLast_mem hr
        rw [← h] at hmem
        have := (List.nodup_cons.1 (List.nodup_cons.1 hnodes).2).1
        exact this hmem
      obtain ⟨front, last, hfl⟩ : ∃ front last, (v :: rest').reverse = last :: front ∧
          last = rest'.getLast hr ∧ ∃ hf : front ≠ [], front.getLast hf = v := by
        refine ⟨rest'.reverse.tail ++ [v], rest'.getLast hr, ?_, rfl, by simp, by simp⟩
        rw [List.reverse_cons]
        obtain ⟨w, rest'', hw⟩ := List.exists_cons_of_ne_nil
          (fun h => hr (List.reverse_eq_nil_iff.1 h) : rest'.reverse ≠ [])
        have hh : rest'.getLast hr = w := by
          have : rest'.reverse.head? = some w := by rw [hw]; rfl
          rw [List.head?_reverse, List.getLast?_eq_getLast _ hr] at this
          exact Option.some.inj this
        rw [hw, hh]
        rfl
      obtain ⟨hrev, hl, hf, hfv⟩ := hfl
      rw [canonicalOrdering_more start v rest' bridges hr, hrev,
        canonicalOrdering_more start last front bridges.reverse hf, hfv, hl]
      rcases Nat.lt_or_gt_of_ne hlast_ne with h | h
      · simp [h, Nat.lt_asymm h]
      · simp [h, Nat.lt_asymm h]
  · intro s hs
    rcases hs with ⟨h1, h2⟩ | ⟨h1, h2⟩
    · exact VerifyCycle_eq moveIndex p s (by rw [h1]; simp) (by rw [h1, h2, hlen]; simp)
        (by rw [h2]; exact hsorted)
    · exact VerifyCycle_eq moveIndex p s (by rw [h1]; simp) (by rw [h1, h2]; simp [hlen])
        (by rw [h2]; intro b hb; exact hsorted b (List.mem_reverse.1 hb))

end RingDB

/-- C30 at the circuit of the chains 1, 2 and 3 whose two-bridges go through
the cells 364 and 365, 430 and 461, and 397 and 428: the traversal through
the chain 2 first passes the test and the one through the chain 3 first does
not. -/
theorem VerifyCycle_goes_on_in_one_direction_witness :
    ([2, 3] ≠ [] ∧ [(364, 365), (430, 461), (397, 428)].length = [2, 3].length + 1 ∧
      (1 :: [2, 3]).Nodup ∧ (∀ b ∈ [(364, 365), (430, 461), (397, 428)], b.1 < b.2) ∧
      ([(364, 365), (430, 461), (397, 428)].map Prod.fst ++
        [(364, 365), (430, 461), (397, 428)].map Prod.snd).Nodup) ∧
    RingDB.canonicalOrdering [1, 2, 3] [(364, 365), (430, 461), (397, 428)] = true ∧
    RingDB.canonicalOrdering [1, 3, 2] [(397, 428), (430, 461), (364, 365)] = false ∧
    (RingDB.canonicalOrdering (1 :: [2, 3]) [(364, 365), (430, 461), (397, 428)] =
      !RingDB.canonicalOrdering (1 :: [2, 3].reverse)
        [(364, 365), (430, 461), (397, 428)].reverse) :=
  ⟨⟨by decide, by decide, by decide, by decide, by decide⟩, by decide, by decide,
    (RingDB.VerifyCycle_goes_on_in_one_direction kConstCellToMoveIndex 0 1 [2, 3]
      [(364, 365), (430, 461), (397, 428)] (by decide) (by decide) (by decide) (by decide)
      (by decide)).1⟩

/-! ### The circuits that `RingDB::FindCycles` does not find -/

/-- C29 fails for the chain graph of `facingRowsState`, in which three
two-bridges join the chain 6 to the chain 5: the newest, through (11, 11)
and (12, 11), comes first in the lists of both chains and shares a cell with
either of the other two, through (10, 11) and (11, 11) and through (12, 11)
and (13, 11). These two make a circuit of the chains 6 and 5 in which no
cell occurs twice, and the enumeration by brute force lists it in both
directions. `FindCycles`, called for the chain 6 as
`FindNewCyclesReversibly` calls it for the chain of a move, follows the
newest two-bridge first, finds both two-bridges back from the chain 5
blocked by its cells, leaves the chain 5 blocked, and returns `false`: it
has called `VerifyCycle` for no circuit, since it sets `closed` after every
such call. -/
theorem FindCycles_misses_circuits :
    (facingRowsBridges State.start).isOk = true ∧
    RingDB.twoBridges facingRowsState 0 6 = [(5, 363, 364), (5, 362, 363), (5, 364, 365)] ∧
    RingDB.twoBridges facingRowsState 0 5 = [(6, 363, 364), (6, 362, 363), (6, 364, 365)] ∧
    RingDB.circuits facingRowsState 0 6 =
      [([6, 5], [(362, 363), (364, 365)]), ([6, 5], [(364, 365), (362, 363)])] ∧
    (RingDB.FindCycles kConstCellToMoveIndex 0 6 (kChainNumLimit + 1) 6
      (RingDB.cleared facingRowsState 0)).value = some false := by
  decide!

/-! ### controller.cc: a move to a cell that is not empty -/

theorem kZerothCell_off_board :
    LiesOnBoard (CellToX kZerothCell) (CellToY kZerothCell) = false := by decide

/-- The strings `pass` and `swap` are requests of their own: `MakeMove`
returns `true` for both, and for `swap` it swaps the players. -/
theorem Controller.MakeMove_pass_and_swap (lg : Bool)
    (SwapPlayers : Position → Except Err Position) (pl : Player) (result : Int)
    (c : Controller) (P : Position) (hP : SwapPlayers c.current_position_ = Except.ok P) :
    Controller.MakeMove lg SwapPlayers pl passString result c = Except.ok (true, kNoneWon, c) ∧
      Controller.MakeMove lg SwapPlayers pl swapString result c =
        Except.ok (true, kNoneWon, { c with current_position_ := P, has_swapped_ := true }) := by
  constructor
  · unfold Controller.MakeMove
    rw [if_pos rfl]
    rfl
  · unfold Controller.MakeMove
    rw [if_neg (by decide), if_pos rfl, hP]
    rfl

section

variable {C : State}

theorem Remember_outside (loc : Loc) :
    Holds (OutsideRings C) (Memento.Remember loc) (fun _ => OutsideRings C) := by
  intro s a s' hP h
  cases h
  exact hP

theorem writeW_outside (loc : Loc) (v : Nat) (hloc : RingWord loc) :
    Holds (OutsideRings C) (writeW loc v) (fun _ => OutsideRings C) := by
  intro s a s' hP h
  cases h
  refine ⟨fun l hl => ?_, hP.2⟩
  rw [mem_write, Function.update_noteq (fun e => hl (by rw [e]; exact hloc))]
  exact hP.1 l hl

theorem writeByte_outside (base : Nat → Loc) (i v : Nat) (hloc : RingWord (base (i / 4))) :
    Holds (OutsideRings C) (writeByte base i v) (fun _ => OutsideRings C) := by
  intro s a s' hP h
  cases h
  refine ⟨fun l hl => ?_, hP.2⟩
  rw [mem_write, Function.update_noteq (fun e => hl (by rw [e]; exact hloc))]
  exact hP.1 l hl

theorem modifyRing_outside (p : Nat) (f : RingAux → RingAux) :
    Holds (OutsideRings C) (modifyRing p f) (fun _ => OutsideRings C) := by
  intro s a s' hP h
  cases h
  exact hP

theorem zeroArena_outside (p start n : Nat) :
    Holds (OutsideRings C) (zeroArena p start n) (fun _ => OutsideRings C) := by
  intro s a s' hP h
  cases h
  refine ⟨fun l hl => ?_, hP.2⟩
  cases l with
  | arena q i => exact absurd trivial hl
  | _ => exact hP.1 _ hl

theorem rememberCell_outside (p n : Nat) :
    Holds (OutsideRings C) (RingDB.rememberCell p n) (fun _ => OutsideRings C) := by
  intro s a s' hP h
  rw [← bind_pure' (RingDB.rememberCell p n), rememberCell_bind, ite_fail_eq_ok,
    ite_fail_eq_ok] at h
  obtain ⟨_, _, h⟩ := h
  cases h
  exact hP

theorem Arena_set_outside (p n v : Nat) :
    Holds (OutsideRings C) (Arena.set p n v) (fun _ => OutsideRings C) := by
  intro s a s' hP h
  rw [← bind_pure' (Arena.set p n v), Arena_set_bind, ite_fail_eq_ok, ite_fail_eq_ok] at h
  obtain ⟨_, _, h⟩ := h
  cases h
  refine ⟨fun l hl => ?_, hP.2⟩
  rw [mem_write, Function.update_noteq (fun e => hl (by rw [e]; trivial))]
  exact hP.1 l hl

theorem Allocate_outside (p n : Nat) :
    Holds (OutsideRings C) (Arena.Allocate p n) (fun _ => OutsideRings C) := by
  unfold Arena.Allocate Arena.top
  refine Holds.bind ((assert_ro _).ro_holds _) (fun _ => ?_)
  refine Holds.bind ((readW_ro _).ro_holds _) (fun t => ?_)
  refine Holds.bind ((getRing_ro _).ro_holds _) (fun aux => ?_)
  refine Holds.bind (Holds.ite (fun _ => Holds.bind (modifyRing_outside _ _)
    (fun _ => writeW_outside _ _ trivial)) (fun _ => Holds.keep_unit _)) (fun _ => ?_)
  refine Holds.bind ((readW_ro _).ro_holds _) (fun result => ?_)
  refine Holds.bind ((getRing_ro _).ro_holds _) (fun aux' => ?_)
  refine Holds.bind ((inBounds_ro _).ro_holds _) (fun _ => ?_)
  refine Holds.bind (zeroArena_outside _ _ _) (fun _ => ?_)
  refine Holds.bind (writeW_outside _ _ trivial) (fun _ => ?_)
  exact Holds.pure (fun _ h => h)

theorem BoardCounter_remember_outside (p cell : Nat) :
    Holds (OutsideRings C) (BoardCounter.remember p cell) (fun _ => OutsideRings C) :=
  Holds.bind ((inBounds_ro _).ro_holds _) (fun _ => Remember_outside _)

theorem BoardCounter_zero_outside (p cell : Nat) :
    Holds (OutsideRings C) (BoardCounter.zero p cell) (fun _ => OutsideRings C) :=
  Holds.bind ((inBounds_ro _).ro_holds _) (fun _ => writeByte_outside _ _ _ trivial)

theorem BoardCounter_increment_outside (p cell : Nat) :
    Holds (OutsideRings C) (BoardCounter.increment p cell) (fun _ => OutsideRings C) :=
  Holds.bind ((inBounds_ro _).ro_holds _) (fun _ =>
    Holds.bind ((readByte_ro _ _).ro_holds _) (fun _ =>
      Holds.bind (writeByte_outside _ _ _ trivial) (fun _ => (assert_ro _).ro_holds _)))

theorem BoardCounter_decrement_outside (p cell : Nat) :
    Holds (OutsideRings C) (BoardCounter.decrement p cell) (fun _ => OutsideRings C) :=
  Holds.bind ((inBounds_ro _).ro_holds _) (fun _ =>
    Holds.bind ((readByte_ro _ _).ro_holds _) (fun _ =>
      Holds.bind ((assert_ro _).ro_holds _) (fun _ => writeByte_outside _ _ _ trivial)))

theorem AddOneWayTwoBridge_outside (p chain0 chain1 cell0 cell1 : Nat) :
    Holds (OutsideRings C) (RingDB.AddOneWayTwoBridge p chain0 chain1 cell0 cell1)
      (fun _ => OutsideRings C) := by
  unfold RingDB.AddOneWayTwoBridge
  refine Holds.bind ((assert_ro _).ro_holds _) (fun _ => ?_)
  refine Holds.bind (Allocate_outside p kCgSize) (fun q => ?_)
  refine Holds.bind ((Arena_get_ro _ _).ro_holds _) (fun head => ?_)
  refine Holds.bind (Arena_set_outside _ _ _) (fun _ => ?_)
  refine Holds.bind (Arena_set_outside _ _ _) (fun _ => ?_)
  refine Holds.bind (Arena_set_outside _ _ _) (fun _ => ?_)
  refine Holds.bind (Arena_set_outside _ _ _) (fun _ => ?_)
  exact Arena_set_outside _ _ _

theorem AddTwoBridgeReversibly_outside (p cell0 cell1 chain0 chain1 : Nat) :
    Holds (OutsideRings C) (RingDB.AddTwoBridgeReversibly p cell0 cell1 chain0 chain1)
      (fun _ => OutsideRings C) := by
  unfold RingDB.AddTwoBridgeReversibly
  refine Holds.bind ((assert_ro _).ro_holds _) (fun _ => ?_)
  refine Holds.bind ((assert_ro _).ro_holds _) (fun _ => ?_)
  refine Holds.bind (Remember_outside _) (fun _ => ?_)
  refine Holds.bind (rememberCell_outside _ _) (fun _ => ?_)
  refine Holds.bind (AddOneWayTwoBridge_outside _ _ _ _ _) (fun _ => ?_)
  refine Holds.bind (Holds.ite (fun _ => Holds.bind (rememberCell_outside _ _) (fun _ =>
    AddOneWayTwoBridge_outside _ _ _ _ _)) (fun _ => Holds.keep_unit _)) (fun _ => ?_)
  exact modifyRing_outside _ _

theorem AddRingFrameIndexToCell_outside (moveIndex : Nat → Int) (p cell : Nat) (idx : Int) :
    Holds (OutsideRings C) (RingDB.AddRingFrameIndexToCell moveIndex p cell idx)
      (fun _ => OutsideRings C) := by
  unfold RingDB.AddRingFrameIndexToCell
  refine Holds.bind ((CellToMoveIndex_ro _ _).ro_holds _) (fun m => ?_)
  refine Holds.bind (rememberCell_outside _ _) (fun _ => ?_)
  refine Holds.bind (Allocate_outside p kRftcSize) (fun q => ?_)
  refine Holds.bind ((Arena_get_ro _ _).ro_holds _) (fun head => ?_)
  refine Holds.bind (Arena_set_outside _ _ _) (fun _ => ?_)
  refine Holds.bind (Arena_set_outside _ _ _) (fun _ => ?_)
  exact Arena_set_outside _ _ _

theorem removeLoopReversibly_outside (p chain1 cell : Nat) :
    ∀ fuel prev curr,
      Holds (OutsideRings C) (RingDB.removeLoopReversibly p chain1 cell fuel prev curr)
        (fun _ => OutsideRings C) := by
  intro fuel
  induction fuel with
  | zero => intro _ _; exact Holds_outOfFuel _ _
  | succ f ih =>
    intro prev curr
    unfold RingDB.removeLoopReversibly
    refine Holds.ite (fun _ => Holds.keep_unit _) (fun _ => ?_)
    refine Holds.bind ((Arena_get_ro _ _).ro_holds _) (fun ch => ?_)
    refine Holds.bind (ReadOnly.ro_holds (ReadOnly.ro_ite
      (ReadOnly.ro_bind (Arena_get_ro _ _) (fun c0 => ReadOnly.ro_ite (ReadOnly.ro_pure _)
        (ReadOnly.ro_bind (Arena_get_ro _ _) (fun _ => ReadOnly.ro_pure _))))
      (ReadOnly.ro_pure _)) _) (fun hit => ?_)
    refine Holds.bind (Holds.ite (fun _ => Holds.bind (rememberCell_outside _ _) (fun _ =>
      Holds.bind ((Arena_get_ro _ _).ro_holds _) (fun next => Arena_set_outside _ _ _)))
      (fun _ => Holds.keep_unit _)) (fun _ => ?_)
    exact Holds.bind ((Arena_get_ro _ _).ro_holds _) (fun next => ih _ next)

theorem RemoveOneWayTwoBridgesReversibly_outside (p chain0 chain1 cell : Nat) :
    Holds (OutsideRings C) (RingDB.RemoveOneWayTwoBridgesReversibly p chain0 chain1 cell)
      (fun _ => OutsideRings C) := by
  unfold RingDB.RemoveOneWayTwoBridgesReversibly
  refine Holds.bind ((listFuel_ro _).ro_holds _) (fun fuel => ?_)
  exact Holds.bind ((Arena_get_ro _ _).ro_holds _)
    (fun curr => removeLoopReversibly_outside _ _ _ _ _ _)

theorem frameLoopReversibly_outside (p : Nat) :
    ∀ fuel q, Holds (OutsideRings C) (RingDB.frameLoopReversibly p fuel q)
      (fun _ => OutsideRings C) := by
  intro fuel
  induction fuel with
  | zero => intro _; exact Holds_outOfFuel _ _
  | succ f ih =>
    intro q
    unfold RingDB.frameLoopReversibly
    refine Holds.ite (fun _ => Holds.keep_unit _) (fun _ => ?_)
    refine Holds.bind ((Arena_get_ro _ _).ro_holds _) (fun n => ?_)
    refine Holds.bind (rememberCell_outside _ _) (fun _ => ?_)
    refine Holds.bind (Arena_set_outside _ _ _) (fun _ => ?_)
    exact Holds.bind ((Arena_get_ro _ _).ro_holds _) (fun next => ih next)

theorem RemoveHalfBridgeReversibly_outside (moveIndex : Nat → Int)
    (p cell chain0 chain1 : Nat) :
    Holds (OutsideRings C) (RingDB.RemoveHalfBridgeReversibly moveIndex p cell chain0 chain1)
      (fun _ => OutsideRings C) := by
  unfold RingDB.RemoveHalfBridgeReversibly
  refine Holds.bind ((assert_ro _).ro_holds _) (fun _ => ?_)
  refine Holds.bind ((assert_ro _).ro_holds _) (fun _ => ?_)
  refine Holds.bind (RemoveOneWayTwoBridgesReversibly_outside _ _ _ _) (fun _ => ?_)
  refine Holds.bind (Holds.ite (fun _ => RemoveOneWayTwoBridgesReversibly_outside _ _ _ _)
    (fun _ => Holds.keep_unit _)) (fun _ => ?_)
  refine Holds.bind ((CellToMoveIndex_ro _ _).ro_holds _) (fun m => ?_)
  refine Holds.bind ((listFuel_ro _).ro_holds _) (fun fuel => ?_)
  refine Holds.bind ((Arena_get_ro _ _).ro_holds _) (fun q => ?_)
  refine Holds.bind (frameLoopReversibly_outside _ _ _) (fun _ => ?_)
  refine Holds.bind (rememberCell_outside _ _) (fun _ => ?_)
  refine Holds.bind (Arena_set_outside _ _ _) (fun _ => ?_)
  exact modifyRing_outside _ _

theorem setBlockedBridge_outside (p : Nat) (m : Int) (b : Bool) :
    Holds (OutsideRings C) (RingDB.setBlockedBridge p m b) (fun _ => OutsideRings C) :=
  Holds.bind ((inBounds_ro _).ro_holds _) (fun _ => modifyRing_outside _ _)

theorem recordLoop_outside (moveIndex : Nat → Int) (p : Nat) (idx : Int) :
    ∀ bridges q, Holds (OutsideRings C) (RingDB.recordLoop moveIndex p idx bridges q)
      (fun _ => OutsideRings C) := by
  intro bridges
  induction bridges with
  | nil => intro q; unfold RingDB.recordLoop; exact Holds.keep_unit _
  | cons bridge bridges ih =>
    intro q
    unfold RingDB.recordLoop
    refine Holds.bind (Arena_set_outside _ _ _) (fun _ => ?_)
    refine Holds.bind (AddRingFrameIndexToCell_outside _ _ _ _) (fun _ => ?_)
    refine Holds.bind (Arena_set_outside _ _ _) (fun _ => ?_)
    refine Holds.bind (AddRingFrameIndexToCell_outside _ _ _ _) (fun _ => ?_)
    exact ih _

theorem VerifyCycle_outside (moveIndex : Nat → Int) (p : Nat) :
    Holds (OutsideRings C) (RingDB.VerifyCycle moveIndex p) (fun _ => OutsideRings C) := by
  unfold RingDB.VerifyCycle
  refine Holds.bind ((getRing_ro _).ro_holds _) (fun aux => ?_)
  refine Holds.bind ((assert_ro _).ro_holds _) (fun _ => ?_)
  refine Holds.bind ((assert_ro _).ro_holds _) (fun _ => ?_)
  refine Holds.bind (ReadOnly.ro_holds (ReadOnly.ro_ite (ReadOnly.ro_pure _)
    (ReadOnly.ro_ite (ReadOnly.ro_bind (assert_ro _) (fun _ =>
      ReadOnly.ro_bind (assert_ro _) (fun _ => ReadOnly.ro_pure _))) (ReadOnly.ro_pure _))) _)
    (fun rejected => ?_)
  refine Holds.ite (fun _ => Holds.keep_unit _) (fun _ => ?_)
  refine Holds.bind ((deref_ro _ _).ro_holds _) (fun _ => ?_)
  refine Holds.bind ((readChainRows_ro _ _).ro_holds _) (fun rows => ?_)
  refine Holds.bind ((fillLoop_ro _ _ _ _).ro_holds _) (fun stones => ?_)
  refine Holds.bind ((peelLoop_ro _ _).ro_holds _) (fun stones' => ?_)
  refine Holds.bind (modifyRing_outside _ _) (fun _ => ?_)
  refine Holds.ite (fun _ => Holds.keep_unit _) (fun _ => ?_)
  refine Holds.bind ((readW_ro _).ro_holds _) (fun top => ?_)
  refine Holds.bind ((assert_ro _).ro_holds _) (fun _ => ?_)
  refine Holds.bind (Remember_outside _) (fun _ => ?_)
  refine Holds.bind (Remember_outside _) (fun _ => ?_)
  refine Holds.bind (Allocate_outside p _) (fun q => ?_)
  refine Holds.bind (Arena_set_outside _ _ _) (fun _ => ?_)
  refine Holds.bind (writeW_outside _ _ trivial) (fun _ => ?_)
  refine Holds.bind (Arena_set_outside _ _ _) (fun _ => ?_)
  exact recordLoop_outside _ _ _ _ _

theorem unblockLoop_outside (p this_node : Nat) (recur : Nat → M Unit)
    (hrec : ∀ n, Holds (OutsideRings C) (recur n) (fun _ => OutsideRings C)) :
    ∀ l, Holds (OutsideRings C) (RingDB.unblockLoop p this_node recur l)
      (fun _ => OutsideRings C) := by
  intro l
  induction l with
  | nil => unfold RingDB.unblockLoop; exact Holds.keep_unit _
  | cons it rest ih =>
    unfold RingDB.unblockLoop
    refine Holds.bind (hrec it) (fun _ => ?_)
    exact Holds.bind (modifyRing_outside _ _) (fun _ => ih)

theorem Unblock_outside (p : Nat) :
    ∀ depth node, Holds (OutsideRings C) (RingDB.Unblock p depth node)
      (fun _ => OutsideRings C) := by
  intro depth
  induction depth with
  | zero => intro _; exact Holds_outOfFuel _ _
  | succ d ih =>
    intro node
    unfold RingDB.Unblock
    refine Holds.bind ((getRing_ro _).ro_holds _) (fun aux => ?_)
    refine Holds.ite (fun _ => ?_) (fun _ => Holds.keep_unit _)
    refine Holds.bind (modifyRing_outside _ _) (fun _ => ?_)
    exact unblockLoop_outside _ _ _ (fun n => ih n) _

theorem cyclesLoop_outside (moveIndex : Nat → Int) (p start_node : Nat)
    (recur : Nat → M Bool)
    (hrec : ∀ n, Holds (OutsideRings C) (recur n) (fun _ => OutsideRings C)) :
    ∀ fuel q closed,
      Holds (OutsideRings C) (RingDB.cyclesLoop moveIndex p start_node recur fuel q closed)
        (fun _ => OutsideRings C) := by
  intro fuel
  induction fuel with
  | zero => intro _ _; exact Holds_outOfFuel _ _
  | succ f ih =>
    intro q closed
    unfold RingDB.cyclesLoop
    refine Holds.ite (fun _ => Holds.pure (fun _ h => h)) (fun _ => ?_)
    refine Holds.bind ((Arena_get_ro _ _).ro_holds _) (fun ch => ?_)
    refine Holds.bind ((Arena_get_ro _ _).ro_holds _) (fun c0 => ?_)
    refine Holds.bind ((Arena_get_ro _ _).ro_holds _) (fun c1 => ?_)
    refine Holds.bind ((CellToMoveIndex_ro _ _).ro_holds _) (fun m0 => ?_)
    refine Holds.bind ((CellToMoveIndex_ro _ _).ro_holds _) (fun m1 => ?_)
    refine Holds.bind ((blockedBridge_ro _ _).ro_holds _) (fun b0 => ?_)
    refine Holds.bind (ReadOnly.ro_holds (ReadOnly.ro_ite (ReadOnly.ro_pure _)
      (blockedBridge_ro _ _)) _) (fun skip => ?_)
    refine Holds.bind (Q := fun _ => OutsideRings C) (R := fun _ => OutsideRings C) ?_
      (fun closed' => Holds.bind ((Arena_get_ro _ _).ro_holds _) (fun next => ih _ _))
    refine Holds.ite (fun _ => Holds.pure (fun _ h => h)) (fun _ => ?_)
    refine Holds.bind (setBlockedBridge_outside _ _ _) (fun _ => ?_)
    refine Holds.bind (setBlockedBridge_outside _ _ _) (fun _ => ?_)
    refine Holds.bind (modifyRing_outside _ _) (fun _ => ?_)
    refine Holds.bind (R := fun _ => OutsideRings C) ?_ (fun closed'' =>
      Holds.bind (modifyRing_outside _ _) (fun _ =>
        Holds.bind (setBlockedBridge_outside _ _ _) (fun _ =>
          Holds.bind (setBlockedBridge_outside _ _ _) (fun _ => Holds.pure (fun _ h => h)))))
    refine Holds.ite (fun _ => Holds.bind (VerifyCycle_outside _ _)
      (fun _ => Holds.pure (fun _ h => h))) (fun _ => ?_)
    refine Holds.bind ((getRing_ro _).ro_holds _) (fun aux => ?_)
    refine Holds.ite (fun _ => ?_) (fun _ => Holds.pure (fun _ h => h))
    exact Holds.bind (hrec _) (fun r => Holds.pure (fun _ h => h))

theorem bSetsLoop_outside (p this_node : Nat) :
    ∀ fuel q, Holds (OutsideRings C) (RingDB.bSetsLoop p this_node fuel q)
      (fun _ => OutsideRings C) := by
  intro fuel
  induction fuel with
  | zero => intro _; exact Holds_outOfFuel _ _
  | succ f ih =>
    intro q
    unfold RingDB.bSetsLoop
    refine Holds.ite (fun _ => Holds.keep_unit _) (fun _ => ?_)
    refine Holds.bind ((Arena_get_ro _ _).ro_holds _) (fun ch => ?_)
    refine Holds.bind (modifyRing_outside _ _) (fun _ => ?_)
    exact Holds.bind ((Arena_get_ro _ _).ro_holds _) (fun next => ih next)

theorem FindCycles_outside (moveIndex : Nat → Int) (p start_node : Nat) :
    ∀ depth node,
      Holds (OutsideRings C) (RingDB.FindCycles moveIndex p start_node depth node)
        (fun _ => OutsideRings C) := by
  intro depth
  induction depth with
  | zero => intro _; exact Holds_outOfFuel _ _
  | succ d ih =>
    intro node
    unfold RingDB.FindCycles
    refine Holds.bind (modifyRing_outside _ _) (fun _ => ?_)
    refine Holds.bind ((listFuel_ro _).ro_holds _) (fun fuel => ?_)
    refine Holds.bind ((Arena_get_ro _ _).ro_holds _) (fun q => ?_)
    refine Holds.bind (cyclesLoop_outside _ _ _ _ (fun n => ih n) _ _ _) (fun closed => ?_)
    refine Holds.bind (R := fun _ => OutsideRings C) ?_ (fun _ =>
      Holds.bind (modifyRing_outside _ _) (fun _ => Holds.pure (fun _ h => h)))
    refine Holds.ite (fun _ => Unblock_outside _ _ _) (fun _ => ?_)
    refine Holds.bind ((listFuel_ro _).ro_holds _) (fun fuel' => ?_)
    exact Holds.bind ((Arena_get_ro _ _).ro_holds _) (fun q' => bSetsLoop_outside _ _ _ _)

theorem FindNewCyclesReversibly_outside (moveIndex : Nat → Int) (p modified_chain : Nat) :
    Holds (OutsideRings C) (RingDB.FindNewCyclesReversibly moveIndex p modified_chain)
      (fun _ => OutsideRings C) := by
  unfold RingDB.FindNewCyclesReversibly
  refine Holds.bind ((getRing_ro _).ro_holds _) (fun aux => ?_)
  refine Holds.ite (fun _ => ?_) (fun _ => Holds.keep_unit _)
  refine Holds.bind ((assert_ro _).ro_holds _) (fun _ => ?_)
  refine Holds.bind ((assert_ro _).ro_holds _) (fun _ => ?_)
  refine Holds.bind (modifyRing_outside _ _) (fun _ => ?_)
  refine Holds.bind (FindCycles_outside _ _ _ _ _) (fun _ => ?_)
  exact modifyRing_outside _ _

theorem FindNewRingFramesReversibly_outside (moveIndex : Nat → Int) (p : Nat) :
    Holds (OutsideRings C) (PlayerPosition.FindNewRingFramesReversibly moveIndex p)
      (fun _ => OutsideRings C) :=
  fun s a s' hP h =>
    FindNewCyclesReversibly_outside moveIndex p (s.modified_chain_ p) s a s' hP h

theorem setCellReversibly_outside (p q cell acell : Nat) (a b : Int) :
    Holds (OutsideRings C) (PlayerPosition.setCellReversibly p q cell acell a b)
      (fun _ => OutsideRings C) := by
  unfold PlayerPosition.setCellReversibly
  refine Holds.bind ((PlayerPosition_CellIsEmpty_ro _ _).ro_holds _) (fun e1 => ?_)
  refine Holds.bind (ReadOnly.ro_holds (ReadOnly.ro_ite
    (ReadOnly.ro_bind (PlayerPosition_CellIsEmpty_ro _ _) (fun e2 =>
      ReadOnly.ro_ite (ReadOnly.ro_bind (PlayerPosition_CellIsEmpty_ro _ _)
        (fun _ => ReadOnly.ro_pure _)) (ReadOnly.ro_pure _)))
    (ReadOnly.ro_pure _)) _) (fun go => ?_)
  refine Holds.ite (fun _ => ?_) (fun _ => Holds.keep_unit _)
  refine Holds.bind (BoardCounter_remember_outside _ _) (fun _ => ?_)
  refine Holds.bind (BoardCounter_remember_outside _ _) (fun _ => ?_)
  refine Holds.bind (BoardCounter_increment_outside _ _) (fun _ => ?_)
  refine Holds.bind (BoardCounter_increment_outside _ _) (fun _ => ?_)
  refine Holds.bind ((NewestChainForCell_ro _ _).ro_holds _) (fun chain0 => ?_)
  refine Holds.bind ((NewestChainForCell_ro _ _).ro_holds _) (fun chain1 => ?_)
  exact AddTwoBridgeReversibly_outside _ _ _ _ _

theorem setCellsReversibly_outside (p q cell : Nat) (a b₁ b₂ : Int) :
    Holds (OutsideRings C) (PlayerPosition.setCellsReversibly p q cell a b₁ b₂)
      (fun _ => OutsideRings C) := by
  unfold PlayerPosition.setCellsReversibly
  refine Holds.bind ((PlayerPosition_CellIsEmpty_ro _ _).ro_holds _) (fun e1 => ?_)
  refine Holds.bind (ReadOnly.ro_holds (ReadOnly.ro_ite (PlayerPosition_CellIsEmpty_ro _ _)
    (ReadOnly.ro_pure _)) _) (fun go => ?_)
  refine Holds.ite (fun _ => ?_) (fun _ => Holds.keep_unit _)
  exact Holds.bind (setCellReversibly_outside _ _ _ _ _ _)
    (fun _ => setCellReversibly_outside _ _ _ _ _ _)

theorem CreateTwoBridgesAfterOurMoveReversibly_outside (p q cell : Nat) :
    Holds (OutsideRings C) (PlayerPosition.CreateTwoBridgesAfterOurMoveReversibly p q cell)
      (fun _ => OutsideRings C) := by
  unfold PlayerPosition.CreateTwoBridgesAfterOurMoveReversibly
  refine Holds.bind ((PlayerPosition_CellIsEmpty_ro _ _).ro_holds _) (fun e => ?_)
  refine Holds.bind ((assert_ro _).ro_holds _) (fun _ => ?_)
  refine Holds.bind (setCellsReversibly_outside _ _ _ _ _ _) (fun _ => ?_)
  exact Holds.bind (setCellsReversibly_outside _ _ _ _ _ _)
    (fun _ => setCellsReversibly_outside _ _ _ _ _ _)

theorem zeroCellReversibly_outside (moveIndex : Nat → Int) (p cell : Nat) (a b c : Int) :
    Holds (OutsideRings C) (PlayerPosition.zeroCellReversibly moveIndex p cell a b c)
      (fun _ => OutsideRings C) := by
  unfold PlayerPosition.zeroCellReversibly
  refine Holds.bind ((NewestChainForCell_ro _ _).ro_holds _) (fun chain0 => ?_)
  refine Holds.bind ((NewestChainForCell_ro _ _).ro_holds _) (fun chain1 => ?_)
  refine Holds.bind (RemoveHalfBridgeReversibly_outside _ _ _ _ _) (fun _ => ?_)
  refine Holds.bind ((BoardCounter_get_ro _ _).ro_holds _) (fun v => ?_)
  refine Holds.ite (fun _ => ?_) (fun _ => Holds.keep_unit _)
  refine Holds.bind (BoardCounter_remember_outside _ _) (fun _ => ?_)
  refine Holds.bind (BoardCounter_decrement_outside _ _) (fun _ => ?_)
  refine Holds.bind ((BoardCounter_get_ro _ _).ro_holds _) (fun v' => ?_)
  refine Holds.ite (fun _ => ?_) (fun _ => Holds.keep_unit _)
  refine Holds.bind ((NewestChainForCell_ro _ _).ro_holds _) (fun chain0' => ?_)
  refine Holds.bind ((NewestChainForCell_ro _ _).ro_holds _) (fun chain1' => ?_)
  exact RemoveHalfBridgeReversibly_outside _ _ _ _ _

theorem unlessEmpty_outside (p cell : Nat) (a : Int) (body : M Unit)
    (hbody : Holds (OutsideRings C) body (fun _ => OutsideRings C)) :
    Holds (OutsideRings C) (PlayerPosition.unlessEmpty p cell a body)
      (fun _ => OutsideRings C) := by
  unfold PlayerPosition.unlessEmpty
  refine Holds.bind ((PlayerPosition_CellIsEmpty_ro _ _).ro_holds _) (fun e => ?_)
  exact Holds.ite (fun _ => hbody) (fun _ => Holds.keep_unit _)

theorem unlessEmpty₂_outside (p cell : Nat) (a b : Int) (body : M Unit)
    (hbody : Holds (OutsideRings C) body (fun _ => OutsideRings C)) :
    Holds (OutsideRings C) (PlayerPosition.unlessEmpty₂ p cell a b body)
      (fun _ => OutsideRings C) := by
  unfold PlayerPosition.unlessEmpty₂
  refine Holds.bind ((PlayerPosition_CellIsEmpty_ro _ _).ro_holds _) (fun e => ?_)
  exact Holds.ite (fun _ => unlessEmpty_outside _ _ _ _ hbody) (fun _ => Holds.keep_unit _)

theorem RemoveTwoBridgesReversibly_outside (moveIndex : Nat → Int) (p cell : Nat) :
    Holds (OutsideRings C)
      (PlayerPosition.RemoveTwoBridgesBeforeOurMoveOrAfterFoeMoveReversibly moveIndex p cell)
      (fun _ => OutsideRings C) := by
  unfold PlayerPosition.RemoveTwoBridgesBeforeOurMoveOrAfterFoeMoveReversibly
  refine Holds.bind ((PlayerPosition_CellIsEmpty_ro _ _).ro_holds _) (fun e => ?_)
  refine Holds.bind ((assert_ro _).ro_holds _) (fun _ => ?_)
  refine Holds.bind ((BoardCounter_get_ro _ _).ro_holds _) (fun v => ?_)
  refine Holds.ite (fun _ => ?_) (fun _ => Holds.keep_unit _)
  refine Holds.bind (BoardCounter_remember_outside _ _) (fun _ => ?_)
  refine Holds.bind (BoardCounter_zero_outside _ _) (fun _ => ?_)
  refine Holds.bind (unlessEmpty_outside _ _ _ _ (Holds.bind
    (unlessEmpty_outside _ _ _ _ (zeroCellReversibly_outside _ _ _ _ _ _))
    (fun _ => unlessEmpty_outside _ _ _ _ (zeroCellReversibly_outside _ _ _ _ _ _))))
    (fun _ => ?_)
  refine Holds.bind (unlessEmpty_outside _ _ _ _ (Holds.bind
    (unlessEmpty_outside _ _ _ _ (zeroCellReversibly_outside _ _ _ _ _ _))
    (fun _ => unlessEmpty_outside _ _ _ _ (zeroCellReversibly_outside _ _ _ _ _ _))))
    (fun _ => ?_)
  refine Holds.bind (unlessEmpty₂_outside _ _ _ _ _ (zeroCellReversibly_outside _ _ _ _ _ _))
    (fun _ => ?_)
  exact unlessEmpty₂_outside _ _ _ _ _ (zeroCellReversibly_outside _ _ _ _ _ _)

end

/-! ### PlayerPosition::UpdateChainsToNewestVersionsReversibly -/

/-- The invariant of the chains holds on when a cell with a stone is entered
for the newest version of its chain. -/
theorem ChainView.Inv.setCfc_newest {v : ChainView} (h : v.Inv) (cell : Nat)
    (hc : v.cfc cell ≠ 0) : (v.setCfc cell (v.newest (v.cfc cell))).Inv := by
  have hb := newestPure_bounds v.newer v.size h.newer_lt v.size (v.cfc cell)
    (Nat.pos_of_ne_zero hc) (h.cfc_lt cell)
  have hn : v.IsNewest (v.newest (v.cfc cell)) :=
    ChainView.isNewest_newest h.newer_lt (Nat.pos_of_ne_zero hc) (h.cfc_lt cell)
  refine ⟨h.size_pos, h.size_le, h.newer_lt, fun c => ?_, fun ch hch c hcb => ?_, h.ecr_lt⟩
  · show (if c = cell then _ else v.cfc c) < v.size
    by_cases hcc : c = cell
    · rw [if_pos hcc]; exact hb.2
    · rw [if_neg hcc]; exact h.cfc_lt c
  · have hm := h.mask_iff ch hch c hcb
    show v.inMask ch c = true ↔
      (if c = cell then v.newest (v.cfc cell) else v.cfc c) ≠ 0 ∧
        v.newest (if c = cell then v.newest (v.cfc cell) else v.cfc c) = ch
    by_cases hcc : c = cell
    · rw [if_pos hcc, ChainView.newest_of_isNewest hn]
      rw [hcc] at hm
      rw [hcc, hm]
      exact ⟨fun hh => ⟨Nat.ne_of_gt hb.1, hh.2⟩, fun hh => ⟨hc, hh.2⟩⟩
    · rw [if_neg hcc]; exact hm

theorem updateChainsLoop_posSafe {s₀ : State} (p : Nat) :
    ∀ n cell, Holds (PosSafe s₀) (PlayerPosition.updateChainsLoop p n cell)
      (fun _ => PosSafe s₀) := by
  intro n
  induction n with
  | zero =>
    intro cell s a s' hP h
    unfold PlayerPosition.updateChainsLoop at h
    cases h
    exact hP
  | succ n ih =>
    intro cell s a s' hP h
    unfold PlayerPosition.updateChainsLoop at h
    rw [chain_for_cell_bind, ite_fail_eq_ok] at h
    obtain ⟨hcell, h⟩ := h
    by_cases hch : s.cfc p cell ≠ 0
    · rw [if_pos hch, bind_assoc'] at h
      obtain ⟨h, h0, h1⟩ := NewestVersion_bind_ok h
      by_cases hne : (s.view p).newest (s.cfc p cell) ≠ s.cfc p cell
      · rw [if_pos hne, bind_assoc', RememberByte_bind, writeByte_bind] at h
        refine ih _ _ _ _ ⟨hP.undoes.undoes_remember_write
          (Loc.chainsForCells p (cell / 4)) _ trivial,
          ⟨fun q => ?_, fun q => ?_, fun q => ?_⟩⟩ h
        · by_cases hq : q = p
          · subst hq
            have hlt : (s.view q).newest (s.cfc q cell) < 256 := by
              have hb := newestPure_bounds (s.view q).newer (s.view q).size
                (hP.wf.inv q).newer_lt (s.view q).size (s.cfc q cell) h0 h1
              have := (hP.wf.inv q).size_le
              rw [ChainView.kChainNumLimit_eq] at this
              exact Nat.lt_of_lt_of_le hb.2 this
            rw [view_setCfc _ _ _ _ hlt, view_remember]
            exact (hP.wf.inv q).setCfc_newest cell hch
          · have : ((s.remember (Loc.chainsForCells p (cell / 4))).write
                (Loc.chainsForCells p (cell / 4)) (setByte
                  ((s.remember (Loc.chainsForCells p (cell / 4))).mem
                    (Loc.chainsForCells p (cell / 4))) (cell % 4)
                  ((s.view p).newest (s.cfc p cell)))).view q = s.view q :=
              view_congr _ _ q rfl (fun loc _ hc => Function.update_noteq (fun e => by
                rw [e] at hc
                exact hq hc.symm) _ _)
            rw [this]
            exact hP.wf.inv q
        · exact ArenaOk.arenaOk_write (hP.wf.arena q) _ _ (fun hh => by cases hh)
        · exact RingOk.ringOk_write (hP.wf.ring q) _ _ (fun hh => by cases hh)
      · rw [if_neg hne, pure_bind'] at h
        exact ih _ _ _ _ hP h
    · rw [if_neg hch, pure_bind'] at h
      exact ih _ _ _ _ hP h

theorem UpdateChainsToNewestVersionsReversibly_posSafe {s₀ : State} (p : Nat) :
    Holds (PosSafe s₀) (PlayerPosition.UpdateChainsToNewestVersionsReversibly p)
      (fun _ => PosSafe s₀) :=
  updateChainsLoop_posSafe p _ _

theorem updateChainsLoop_cf (p : Nat) :
    ∀ n cell, Steps (PlayerPosition.updateChainsLoop p n cell) (ChainFrame p) := by
  intro n
  induction n with
  | zero =>
    intro cell
    unfold PlayerPosition.updateChainsLoop
    exact ChainFrame.cf_steps_pure _
  | succ n ih =>
    intro cell
    unfold PlayerPosition.updateChainsLoop
    refine ChainFrame.cf_steps_bind (ChainFrame.cf_steps_ro (chain_for_cell_ro _ _))
      (fun chain => ?_)
    refine ChainFrame.cf_steps_bind ?_ (fun _ => ih _)
    refine Steps.steps_ite ?_ (ChainFrame.cf_steps_pure _)
    refine ChainFrame.cf_steps_bind (ChainFrame.cf_steps_ro (NewestVersion_ro _ _))
      (fun nv => ?_)
    refine Steps.steps_ite ?_ (ChainFrame.cf_steps_pure _)
    exact ChainFrame.cf_steps_bind (RememberByte_cf _ _) (fun _ => writeByte_cf _ _ _ rfl)

/-! ### Position::MakePermanentMove: the state stays well formed and restorable -/

theorem permanentMove_posSafe {s₀ : State} (moveIndex : Nat → Int) (player : Player)
    (cell : Nat) :
    Holds (PosSafe s₀) (Position.permanentMove moveIndex player cell)
      (fun _ => PosSafe s₀) := by
  intro s r s' hP h
  unfold Position.permanentMove at h
  obtain ⟨e, s1, h1, h2⟩ := bind_ok h
  have e1 := Position_CellIsEmpty_ro cell s e s1 h1
  subst e1
  obtain ⟨u, s2, h3, h4⟩ := bind_ok h2
  have e2 := assert_ro _ s1 u s2 h3
  subst e2
  rw [RememberByte_bind, writeByte_bind] at h4
  have hP1 : PosSafe s₀ ((s2.remember (Loc.cells (cell / 4))).write (Loc.cells (cell / 4))
      (setByte ((s2.remember (Loc.cells (cell / 4))).mem (Loc.cells (cell / 4))) (cell % 4)
        (player.toNat + 1))) := by
    refine ⟨hP.undoes.undoes_remember_write _ _ trivial,
      ⟨fun q => ?_, fun q => ?_, fun q => ?_⟩⟩
    · rw [view_write_of_not_inView _ (Loc.cells (cell / 4)) _ (fun hh => hh)]
      exact hP.wf.inv q
    · exact ArenaOk.arenaOk_write (hP.wf.arena q) _ _ (fun hh => by cases hh)
    · exact RingOk.ringOk_write (hP.wf.ring q) _ _ (fun hh => by cases hh)
  have key : Holds (PosSafe s₀) (do
      PlayerPosition.RemoveTwoBridgesBeforeOurMoveOrAfterFoeMoveReversibly moveIndex
        player.toNat cell
      let result ← PlayerPosition.MakeMoveReversibly player.toNat cell
      PlayerPosition.CreateTwoBridgesAfterOurMoveReversibly player.toNat
        (Opponent player).toNat cell
      PlayerPosition.FindNewRingFramesReversibly moveIndex player.toNat
      PlayerPosition.UpdateChainsToNewestVersionsReversibly player.toNat
      PlayerPosition.RemoveTwoBridgesBeforeOurMoveOrAfterFoeMoveReversibly moveIndex
        (Opponent player).toNat cell
      pure result : M Nat) (fun _ => PosSafe s₀) := by
    refine Holds.bind (PosSafe.posSafe_of_safe (fun V =>
      RemoveTwoBridgesReversibly_safe moveIndex _ cell)) (fun _ => ?_)
    refine Holds.bind (PlayerPosition_MakeMoveReversibly_posSafe _ _) (fun result => ?_)
    refine Holds.bind (PosSafe.posSafe_of_safe (fun V =>
      CreateTwoBridgesAfterOurMoveReversibly_safe _ _ cell)) (fun _ => ?_)
    refine Holds.bind (PosSafe.posSafe_of_safe (fun V =>
      FindNewRingFramesReversibly_safe moveIndex _)) (fun _ => ?_)
    refine Holds.bind (UpdateChainsToNewestVersionsReversibly_posSafe _) (fun _ => ?_)
    refine Holds.bind (PosSafe.posSafe_of_safe (fun V =>
      RemoveTwoBridgesReversibly_safe moveIndex _ cell)) (fun _ => ?_)
    exact Holds.pure (fun _ hh => hh)
  exact key _ r s' hP1 h4

/-! ### Position::MakePermanentMove: the cells -/

theorem cellsAs_of_outside {α : Type} {x : M α}
    (h : ∀ C, Holds (OutsideRings C) x (fun _ => OutsideRings C)) (C : State) :
    Holds (CellsAs C) x (fun _ => CellsAs C) := by
  intro s a s' hP hx
  have := h s s a s' ⟨fun _ _ => rfl, rfl⟩ hx
  intro w
  rw [this.1 (Loc.cells w) (fun hh => hh)]
  exact hP w

theorem cellsAs_of_cf {α : Type} {x : M α} {p : Nat} (h : Steps x (ChainFrame p))
    (C : State) : Holds (CellsAs C) x (fun _ => CellsAs C) := by
  intro s a s' hP hx
  have := h s a s' hx
  intro w
  rw [this.mem_eq (Loc.cells w) (fun hh => hh) (fun _ _ hh => by cases hh)]
  exact hP w

theorem cell_write (s : State) (cell v c : Nat) :
    (s.write (Loc.cells (cell / 4))
        (setByte (s.mem (Loc.cells (cell / 4))) (cell % 4) v)).cell c =
      if c = cell then v % 256 else s.cell c := by
  unfold State.cell
  rw [mem_write]
  by_cases hw : c / 4 = cell / 4
  · rw [hw, Function.update_same]
    by_cases hc : c = cell
    · rw [if_pos hc, hc, getByte_setByte_same _ _ _ (Nat.mod_lt _ (by norm_num))]
    · rw [if_neg hc, getByte_setByte_ne _ _ _ _ (Nat.mod_lt _ (by norm_num))
        (Nat.mod_lt _ (by norm_num)) (by omega)]
  · have hc : c ≠ cell := fun h => hw (by rw [h])
    rw [if_neg hc, Function.update_noteq (fun h => hw (Loc.cells.inj h))]

/-- A run of the statements of `MakePermanentMove` that returns: the cell of
the move lies in the array and was empty, and afterwards it holds the stone
of the player and the other cells are as before. -/
theorem permanentMove_cells (moveIndex : Nat → Int) (player : Player) (cell : Nat)
    (s s' : State) (r : Nat)
    (h : Position.permanentMove moveIndex player cell s = Res.ok r s') :
    cell < kNumCellsWithSentinels ∧ s.cell cell &&& 3 = 0 ∧
      ∀ c, s'.cell c = if c = cell then player.toNat + 1 else s.cell c := by
  unfold Position.permanentMove at h
  obtain ⟨e, s1, h1, h2⟩ := bind_ok h
  have e1 := Position_CellIsEmpty_ro cell s e s1 h1
  subst e1
  obtain ⟨u, s2, h3, h4⟩ := bind_ok h2
  have e2 := assert_ro _ s1 u s2 h3
  subst e2
  rw [assert_apply, ite_fail_eq_ok] at h3
  have he := h3.1
  subst he
  unfold Position.CellIsEmpty at h1
  simp only [bind_assoc', inBounds_bind, readByte_bind, pure_apply, ite_fail_eq_ok,
    Res.ok.injEq, decide_eq_true_eq, and_true] at h1
  rw [RememberByte_bind, writeByte_bind] at h4
  have key : Holds (CellsAs ((s2.remember (Loc.cells (cell / 4))).write (Loc.cells (cell / 4))
      (setByte ((s2.remember (Loc.cells (cell / 4))).mem (Loc.cells (cell / 4))) (cell % 4)
        (player.toNat + 1)))) (do
      PlayerPosition.RemoveTwoBridgesBeforeOurMoveOrAfterFoeMoveReversibly moveIndex
        player.toNat cell
      let result ← PlayerPosition.MakeMoveReversibly player.toNat cell
      PlayerPosition.CreateTwoBridgesAfterOurMoveReversibly player.toNat
        (Opponent player).toNat cell
      PlayerPosition.FindNewRingFramesReversibly moveIndex player.toNat
      PlayerPosition.UpdateChainsToNewestVersionsReversibly player.toNat
      PlayerPosition.RemoveTwoBridgesBeforeOurMoveOrAfterFoeMoveReversibly moveIndex
        (Opponent player).toNat cell
      pure result : M Nat) (fun _ => CellsAs ((s2.remember (Loc.cells (cell / 4))).write
        (Loc.cells (cell / 4))
        (setByte ((s2.remember (Loc.cells (cell / 4))).mem (Loc.cells (cell / 4))) (cell % 4)
          (player.toNat + 1)))) := by
    refine Holds.bind (cellsAs_of_outside (fun C =>
      RemoveTwoBridgesReversibly_outside moveIndex _ cell) _) (fun _ => ?_)
    refine Holds.bind (cellsAs_of_cf (MakeMoveReversibly_cf cell) _) (fun result => ?_)
    refine Holds.bind (cellsAs_of_outside (fun C =>
      CreateTwoBridgesAfterOurMoveReversibly_outside _ _ cell) _) (fun _ => ?_)
    refine Holds.bind (cellsAs_of_outside (fun C =>
      FindNewRingFramesReversibly_outside moveIndex _) _) (fun _ => ?_)
    refine Holds.bind (cellsAs_of_cf (updateChainsLoop_cf _ _ _) _) (fun _ => ?_)
    refine Holds.bind (cellsAs_of_outside (fun C =>
      RemoveTwoBridgesReversibly_outside moveIndex _ cell) _) (fun _ => ?_)
    exact Holds.pure (fun _ hh => hh)
  have hc := key _ r s' (fun _ => rfl) h4
  refine ⟨h1.1, h1.2, fun c => ?_⟩
  have : s'.cell c = ((s2.remember (Loc.cells (cell / 4))).write (Loc.cells (cell / 4))
      (setByte ((s2.remember (Loc.cells (cell / 4))).mem (Loc.cells (cell / 4))) (cell % 4)
        (player.toNat + 1))).cell c := by
    unfold State.cell
    rw [hc]
  rw [this]
  have hw := cell_write (s2.remember (Loc.cells (cell / 4))) cell (player.toNat + 1) c
  rw [hw]
  have hp : (player.toNat + 1) % 256 = player.toNat + 1 := by
    cases player <;> rfl
  rw [hp]
  rfl

/-! ### The stack of the permanent moves -/

theorem Live_mono {s₀ s : State} (hsize : ∀ cs, s₀.size cs ≤ s.size cs)
    (htop : ∀ p, s₀.mem (Loc.arenaTop p) ≤ s.mem (Loc.arenaTop p))
    (hframes : ∀ p, s₀.mem (Loc.ringFramesTop p) ≤ s.mem (Loc.ringFramesTop p))
    (loc : Loc) (h : Live s₀ loc) : Live s loc := by
  cases loc with
  | chainRow p ch y => exact Nat.lt_of_lt_of_le h (hsize p)
  | chainNumStones p ch => exact Nat.lt_of_lt_of_le h (hsize p)
  | chainEcr p ch => exact Nat.lt_of_lt_of_le h (hsize p)
  | chainNewer p ch => exact Nat.lt_of_lt_of_le h (hsize p)
  | arena p i =>
    exact ⟨Nat.lt_of_lt_of_le h.1 (htop p),
      fun hh => h.2 ⟨Nat.le_trans (hframes p) hh.1, hh.2⟩⟩
  | _ => trivial

/-- A state that agrees with `s` on the sizes and on the words in use is
undone by a `Memento` to what `s` is undone to. -/
theorem Undoes.undoes_of_agree {s₀ s t : State} {m : Memento}
    (hu : Undoes Everywhere s₀ { s with memento := m }) (hsize : t.size = s.size)
    (hmem : ∀ loc, Live s loc → t.mem loc = s.mem loc) :
    Undoes Everywhere s₀ { t with memento := m } where
  sizes := fun cs => by
    show undoSizes m.sizes_ t.size cs = s₀.size cs
    rw [hsize]
    exact hu.sizes cs
  size_le := fun cs => by
    show s₀.size cs ≤ t.size cs
    rw [hsize]
    exact hu.size_le cs
  words := fun loc _ hl => by
    have hls : Live s loc := Live_mono hu.size_le hu.top_le hu.frames_le loc hl
    rw [← hu.words loc trivial hl]
    exact undoWords_congr _ _ _ loc (hmem loc hls)
  top_le := fun p => by
    show s₀.mem (Loc.arenaTop p) ≤ t.mem (Loc.arenaTop p)
    rw [hmem (Loc.arenaTop p) trivial]
    exact hu.top_le p
  frames_le := fun p => by
    show s₀.mem (Loc.ringFramesTop p) ≤ t.mem (Loc.ringFramesTop p)
    rw [hmem (Loc.ringFramesTop p) trivial]
    exact hu.frames_le p

theorem CellsOf.cellsOf_agree {ms : List (Player × Nat)} {s t : State} (h : CellsOf ms s)
    (hmem : ∀ w, t.mem (Loc.cells w) = s.mem (Loc.cells w)) : CellsOf ms t := by
  intro c hc
  have : t.cell c = s.cell c := by
    unfold State.cell
    rw [hmem]
  rw [this]
  exact h c hc

theorem Stacked.stacked_wf {s : State} {ms : List (Player × Nat)} {mems : List Memento}
    (h : Stacked s ms mems) : WellFormed s := by
  cases ms with
  | nil =>
    cases mems with
    | nil => exact h.1
    | cons m mems => simp only [Stacked] at h
  | cons mv ms =>
    cases mems with
    | nil => simp only [Stacked] at h
    | cons m mems =>
      simp only [Stacked] at h
      exact h.1

theorem Stacked.stacked_cells {s : State} {ms : List (Player × Nat)} {mems : List Memento}
    (h : Stacked s ms mems) : CellsOf ms s := by
  cases ms with
  | nil =>
    cases mems with
    | nil => exact h.2
    | cons m mems => simp only [Stacked] at h
  | cons mv ms =>
    cases mems with
    | nil => simp only [Stacked] at h
    | cons m mems =>
      simp only [Stacked] at h
      exact h.2.1

theorem Stacked.stacked_length :
    ∀ (ms : List (Player × Nat)) (mems : List Memento) (s : State),
      Stacked s ms mems → mems.length = ms.length := by
  intro ms
  induction ms with
  | nil =>
    intro mems s h
    cases mems with
    | nil => rfl
    | cons m mems => simp only [Stacked] at h
  | cons mv ms ih =>
    intro mems s h
    cases mems with
    | nil => simp only [Stacked] at h
    | cons m mems =>
      simp only [Stacked] at h
      obtain ⟨_, _, _, _, _, s₀, _, h'⟩ := h
      simp only [List.length_cons, ih mems s₀ h']

theorem Stacked.stacked_bound :
    ∀ (ms : List (Player × Nat)) (mems : List Memento) (s : State),
      Stacked s ms mems → ∀ e ∈ ms, e.2 < kNumCellsWithSentinels := by
  intro ms
  induction ms with
  | nil => intro mems s _ e he; cases he
  | cons mv ms ih =>
    intro mems s h e he
    cases mems with
    | nil => simp only [Stacked] at h
    | cons m mems =>
      simp only [Stacked] at h
      obtain ⟨_, _, hb, _, _, s₀, _, h'⟩ := h
      rcases List.mem_cons.1 he with he | he
      · rw [he]; exact hb
      · exact ih mems s₀ h' e he

/-- The description of the state after the moves passes to a state that
agrees with it on the sizes and on the words in use. -/
theorem Stacked.stacked_of_agree {s t : State} {ms : List (Player × Nat)}
    {mems : List Memento} (h : Stacked s ms mems) (hwf : WellFormed t)
    (hsize : t.size = s.size) (hmem : ∀ loc, Live s loc → t.mem loc = s.mem loc) :
    Stacked t ms mems := by
  cases ms with
  | nil =>
    cases mems with
    | nil => exact ⟨hwf, h.2.cellsOf_agree (fun w => hmem _ trivial)⟩
    | cons m mems => simp only [Stacked] at h
  | cons mv ms =>
    cases mems with
    | nil => simp only [Stacked] at h
    | cons m mems =>
      simp only [Stacked] at h ⊢
      obtain ⟨_, hc, hb, hon, hnot, s₀, hu, h'⟩ := h
      exact ⟨hwf, hc.cellsOf_agree (fun w => hmem _ trivial), hb, hon, hnot, s₀,
        hu.undoes_of_agree hsize hmem, h'⟩

/-! ### The tables and the cells of the start position -/

theorem boardCells_eq : boardCells = boardCellsList := by decide!

theorem boardCellsList_eq : boardCellsList = (List.range 271).map rowedMoveIndexToCell := by
  decide!

theorem rowLookup_beyond : ∀ (rows : List (Nat × Nat)) (move : Nat),
    (∀ row ∈ rows, row.1 ≤ move) → rowLookup rows move = 0 := by
  intro rows
  induction rows with
  | nil => intro move _; rfl
  | cons row rows ih =>
    intro move h
    unfold rowLookup
    have h1 := h row (List.mem_cons_self _ _)
    rw [if_neg (by omega)]
    exact ih move (fun r hr => h r (List.mem_cons_of_mem _ hr))

theorem indexOf_filter_range (p : Nat → Bool) (c : Nat) (hp : p c = true) :
    ∀ n, c < n → ((List.range n).filter p).indexOf c = ((List.range c).filter p).length := by
  intro n
  induction n with
  | zero => intro h; omega
  | succ n ih =>
    intro h
    rw [List.range_succ, List.filter_append]
    by_cases hc : c < n
    · rw [List.indexOf_append_of_mem, ih hc]
      rw [List.mem_filter, List.mem_range]
      exact ⟨hc, hp⟩
    · have e : c = n := by omega
      subst e
      rw [List.indexOf_append_of_not_mem]
      · simp [List.filter, hp]
      · rw [List.mem_filter, List.mem_range]
        omega

/-- The table `kConstMoveIndexToCell` is the one computed by rows. -/
theorem kConstMoveIndexToCell_eq : kConstMoveIndexToCell = rowedMoveIndexToCell := by
  funext m
  unfold kConstMoveIndexToCell
  rw [boardCells_eq, boardCellsList_eq]
  by_cases hm : m < 271
  · rw [List.getD_eq_getElem _ _ (by rw [List.length_map, List.length_range]; exact hm),
      List.getElem_map, List.getElem_range]
  · rw [List.getD_eq_default _ _ (by rw [List.length_map, List.length_range]; omega)]
    symm
    apply rowLookup_beyond
    have hall : ∀ row ∈ kBoardRows, row.1 ≤ 271 := by decide
    intro row hrow
    have := hall row hrow
    omega

theorem rowedCellToMoveIndex_rowed :
    ∀ i, i < 271 → rowedCellToMoveIndex (rowedMoveIndexToCell i) = (i : Int) := by
  decide!

/-- The table `kConstCellToMoveIndex` is the one computed by rows. -/
theorem kConstCellToMoveIndex_eq : kConstCellToMoveIndex = rowedCellToMoveIndex := by
  funext c
  by_cases hb : LiesOnBoard (CellToX c) (CellToY c) = true
  · have hlt : c < kNumCellsWithSentinels := by
      have := (onBoard_bounds c hb).2
      omega
    have hmem : c ∈ boardCells := by
      unfold boardCells
      rw [List.mem_filter, List.mem_range]
      exact ⟨hlt, hb⟩
    have hidx : boardCells.indexOf c < boardCells.length := List.indexOf_lt_length.mpr hmem
    have hget : boardCells[boardCells.indexOf c] = c := List.getElem_indexOf hidx
    have hk : kConstCellToMoveIndex c = ((boardCells.indexOf c : Nat) : Int) := by
      unfold kConstCellToMoveIndex
      rw [if_pos hb]
      unfold boardCells
      rw [indexOf_filter_range (fun c => LiesOnBoard (CellToX c) (CellToY c)) c hb _ hlt]
    have hlen : boardCells.length = 271 := by
      rw [boardCells_eq, boardCellsList_eq, List.length_map, List.length_range]
    have hrow : rowedMoveIndexToCell (boardCells.indexOf c) = c := by
      have h1 : boardCells.getD (boardCells.indexOf c) 0 = c := by
        rw [List.getD_eq_getElem _ _ hidx]
        exact hget
      have h2 : kConstMoveIndexToCell (boardCells.indexOf c) = c := h1
      rw [kConstMoveIndexToCell_eq] at h2
      exact h2
    rw [hk, ← rowedCellToMoveIndex_rowed _ (by rw [← hlen]; exact hidx), hrow]
  · unfold kConstCellToMoveIndex rowedCellToMoveIndex
    rw [if_neg hb, if_neg hb]

theorem kConstMoveIndexToCell_facts :
    ∀ i, i < kNumMovesOnBoard →
      kConstMoveIndexToCell i < kNumCellsWithSentinels ∧
        LiesOnBoard (CellToX (kConstMoveIndexToCell i)) (CellToY (kConstMoveIndexToCell i)) =
          true ∧
        kConstCellToMoveIndex (kConstMoveIndexToCell i) = (i : Int) := by
  rw [kConstMoveIndexToCell_eq, kConstCellToMoveIndex_eq]
  decide!

theorem rowedCellToMoveIndex_facts₁ : ∀ c, c < 368 →
    LiesOnBoard (CellToX c) (CellToY c) = true →
      (rowedCellToMoveIndex c).toNat < kNumMovesOnBoard ∧
        rowedMoveIndexToCell (rowedCellToMoveIndex c).toNat = c := by
  decide!

theorem rowedCellToMoveIndex_facts₂ : ∀ c, c < 368 →
    LiesOnBoard (CellToX (c + 368)) (CellToY (c + 368)) = true →
      (rowedCellToMoveIndex (c + 368)).toNat < kNumMovesOnBoard ∧
        rowedMoveIndexToCell (rowedCellToMoveIndex (c + 368)).toNat = (c + 368) := by
  decide!

theorem rowedCellToMoveIndex_facts : ∀ c, c < kNumCellsWithSentinels →
    LiesOnBoard (CellToX c) (CellToY c) = true →
      (rowedCellToMoveIndex c).toNat < kNumMovesOnBoard ∧
        rowedMoveIndexToCell (rowedCellToMoveIndex c).toNat = c := by
  intro c hc
  have hc : c < 736 := hc
  by_cases h1 : c < 368
  · exact rowedCellToMoveIndex_facts₁ c h1
  have h := rowedCellToMoveIndex_facts₂ (c - 368) (by omega)
  rwa [Nat.sub_add_cancel (by omega)] at h

theorem kConstCellToMoveIndex_facts :
    ∀ c, c < kNumCellsWithSentinels → LiesOnBoard (CellToX c) (CellToY c) = true →
      (kConstCellToMoveIndex c).toNat < kNumMovesOnBoard ∧
        kConstMoveIndexToCell (kConstCellToMoveIndex c).toNat = c := by
  rw [kConstMoveIndexToCell_eq, kConstCellToMoveIndex_eq]
  exact rowedCellToMoveIndex_facts

set_option maxRecDepth 1000000 in
theorem startCells_facts₁ : ∀ c, c < 150 →
      (decide (State.start.cell c &&& 3 = 0) = LiesOnBoard (CellToX c) (CellToY c)) := by
  decide!

set_option maxRecDepth 1000000 in
theorem startCells_facts₂ : ∀ c, c < 150 →
      (decide (State.start.cell (c + 150) &&& 3 = 0) = LiesOnBoard (CellToX (c + 150)) (CellToY (c + 150))) := by
  decide!

set_option maxRecDepth 1000000 in
theorem startCells_facts₃ : ∀ c, c < 150 →
      (decide (State.start.cell (c + 300) &&& 3 = 0) = LiesOnBoard (CellToX (c + 300)) (CellToY (c + 300))) := by
  decide!

set_option maxRecDepth 1000000 in
theorem startCells_facts₄ : ∀ c, c < 150 →
      (decide (State.start.cell (c + 450) &&& 3 = 0) = LiesOnBoard (CellToX (c + 450)) (CellToY (c + 450))) := by
  decide!

set_option maxRecDepth 1000000 in
theorem startCells_facts₅ : ∀ c, c < 136 →
      (decide (State.start.cell (c + 600) &&& 3 = 0) = LiesOnBoard (CellToX (c + 600)) (CellToY (c + 600))) := by
  decide!

theorem startCells_facts : ∀ c, c < kNumCellsWithSentinels →
      (decide (State.start.cell c &&& 3 = 0) = LiesOnBoard (CellToX c) (CellToY c)) := by
  intro c hc
  have hc : c < 736 := hc
  by_cases h1 : c < 150
  · exact startCells_facts₁ c h1
  by_cases h2 : c < 300
  · have h := startCells_facts₂ (c - 150) (by omega)
    rwa [Nat.sub_add_cancel (by omega)] at h
  by_cases h3 : c < 450
  · have h := startCells_facts₃ (c - 300) (by omega)
    rwa [Nat.sub_add_cancel (by omega)] at h
  by_cases h4 : c < 600
  · have h := startCells_facts₄ (c - 450) (by omega)
    rwa [Nat.sub_add_cancel (by omega)] at h
  have h := startCells_facts₅ (c - 600) (by omega)
  rwa [Nat.sub_add_cancel (by omega)] at h

/-! ### The tables of the moves -/

theorem swapAt_apply {α : Type} (f : Nat → α) (i j k : Nat) :
    swapAt f i j k = if k = j then f i else if k = i then f j else f k := by
  unfold swapAt
  by_cases hj : k = j
  · rw [if_pos hj, hj, Function.update_same]
  · rw [if_neg hj, Function.update_noteq hj]
    by_cases hi : k = i
    · rw [if_pos hi, hi, Function.update_same]
    · rw [if_neg hi, Function.update_noteq hi]

theorem TablesInverse_const : TablesInverse kConstMoveIndexToCell kConstCellToMoveIndex where
  cell_lt := fun i hi => (kConstMoveIndexToCell_facts i hi).1
  on_board := fun i hi => (kConstMoveIndexToCell_facts i hi).2.1
  to_move := fun i hi => (kConstMoveIndexToCell_facts i hi).2.2
  to_cell := fun c hc hb => ⟨_, (kConstCellToMoveIndex_facts c hc hb).1,
    (kConstCellToMoveIndex_facts c hc hb).2⟩

theorem TablesInverse.tables_inj {toCell : Nat → Nat} {toMove : Nat → Int}
    (h : TablesInverse toCell toMove) {a b : Nat} (ha : a < kNumMovesOnBoard)
    (hb : b < kNumMovesOnBoard) (e : toCell a = toCell b) : a = b := by
  have h1 := h.to_move a ha
  have h2 := h.to_move b hb
  rw [e, h2] at h1
  exact (Int.ofNat_inj.1 h1).symm

/-- The two calls of `std::swap` at the end of `MakePermanentMove` keep the
tables inverse to each other. -/
theorem TablesInverse.tables_swap {toCell : Nat → Nat} {toMove : Nat → Int}
    (h : TablesInverse toCell toMove) {a b : Nat} (ha : a < kNumMovesOnBoard)
    (hb : b < kNumMovesOnBoard) :
    TablesInverse (swapAt toCell a b) (swapAt toMove (toCell a) (toCell b)) where
  cell_lt := fun k hk => by
    rw [swapAt_apply]
    split_ifs
    · exact h.cell_lt a ha
    · exact h.cell_lt b hb
    · exact h.cell_lt k hk
  on_board := fun k hk => by
    rw [swapAt_apply]
    split_ifs
    · exact h.on_board a ha
    · exact h.on_board b hb
    · exact h.on_board k hk
  to_move := fun k hk => by
    rw [swapAt_apply toCell, swapAt_apply toMove]
    by_cases hkb : k = b
    · rw [if_pos hkb]
      by_cases hab : toCell a = toCell b
      · rw [if_pos hab, h.to_move a ha, h.tables_inj ha hb hab, hkb]
      · rw [if_neg hab, if_pos rfl, h.to_move b hb, hkb]
    · rw [if_neg hkb]
      by_cases hka : k = a
      · rw [if_pos hka, if_pos rfl, h.to_move a ha, hka]
      · rw [if_neg hka, if_neg (fun e => hkb (h.tables_inj hk hb e)),
          if_neg (fun e => hka (h.tables_inj hk ha e)), h.to_move k hk]
  to_cell := fun c hc hon => by
    obtain ⟨k, hk, e⟩ := h.to_cell c hc hon
    by_cases hka : k = a
    · refine ⟨b, hb, ?_⟩
      rw [swapAt_apply, if_pos rfl, ← hka, e]
    · by_cases hkb : k = b
      · refine ⟨a, ha, ?_⟩
        rw [swapAt_apply]
        by_cases hab : a = b
        · rw [if_pos hab, ← e, hkb, hab]
        · rw [if_neg hab, if_pos rfl, ← hkb, e]
      · refine ⟨k, hk, ?_⟩
        rw [swapAt_apply, if_neg hkb, if_neg hka, e]

/-! ### The invariant of a Position -/

theorem CellsOf_start : CellsOf [] State.start := by
  intro c hc
  have := startCells_facts c hc
  rw [← this]
  simp

theorem Position.Inv_start : Position.start.Inv [] where
  init := rfl
  past := rfl
  count := rfl
  avail := by
    show ((kNumMovesOnBoard : Nat) : Int) + ((0 : Nat) : Int) = _
    simp
  avail_nonneg := Int.ofNat_nonneg _
  tables := by
    simp only [Position.start]
    exact TablesInverse_const
  played := fun j hj => absurd hj (Nat.not_lt_zero j)
  stacked := ⟨WellFormed_start, CellsOf_start⟩

theorem resize_self {α : Type} (xs : List α) (d : α) : resize xs xs.length d = xs := by
  unfold resize
  simp

/-- A permanent move that returns keeps the invariant of the `Position`. -/
theorem Position.Inv.inv_make {ms : List (Player × Nat)} {P Q : Position} {player : Player}
    {cell r : Nat} (hI : P.Inv ms)
    (h : Position.MakePermanentMove player cell P = Except.ok (r, Q)) :
    Q.Inv ((player, cell) :: ms) := by
  unfold Position.MakePermanentMove at h
  rw [hI.init] at h
  simp only [Bool.not_true, Bool.false_eq_true, if_false] at h
  cases hrun : Position.permanentMove P.kCellToMoveIndex player cell
      { P.state with memento := Memento.empty } with
  | fail e => rw [hrun] at h; cases h
  | ok result s =>
    rw [hrun] at h
    have hwf : WellFormed P.state := hI.stacked.stacked_wf
    have hwf0 : WellFormed { P.state with memento := Memento.empty } :=
      ⟨hwf.inv, hwf.arena, hwf.ring⟩
    have hsafe := permanentMove_posSafe P.kCellToMoveIndex player cell
      { P.state with memento := Memento.empty } result s
      ⟨Undoes.undoes_refl _ _ rfl, hwf0⟩ hrun
    obtain ⟨hcb, hempty, hcells⟩ := permanentMove_cells P.kCellToMoveIndex player cell
      { P.state with memento := Memento.empty } s result hrun
    have hc0 : CellsOf ms P.state := hI.stacked.stacked_cells
    obtain ⟨hon, hnot⟩ := (hc0 cell hcb).1 hempty
    obtain ⟨i, hi, hic⟩ := hI.tables.to_cell cell hcb hon
    have hmove : P.kCellToMoveIndex cell = (i : Int) := by
      rw [← hic]; exact hI.tables.to_move i hi
    have havail := hI.avail
    have hnn := hI.avail_nonneg
    have hilt : (i : Int) < P.num_available_moves_ := by
      by_contra hge
      have hj : i - P.num_available_moves_.toNat < ms.length := by omega
      have hp := hI.played _ hj
      have e : P.num_available_moves_.toNat + (i - P.num_available_moves_.toNat) = i := by
        omega
      rw [e, hic] at hp
      apply hnot
      rw [hp]
      rw [List.getD_eq_getElem _ _ hj]
      exact List.mem_map_of_mem Prod.snd (List.getElem_mem _)
    have hn1 : (P.num_available_moves_ - 1).toNat < kNumMovesOnBoard := by omega
    have hsw := hI.tables.cell_lt _ hn1
    rw [hI.count] at h
    have hk : (kNumMovesOnBoard : Int) = 271 := by decide
    simp only [hmove] at h
    rw [if_neg (by omega), if_neg (by omega), if_neg (by omega), if_neg (by omega)] at h
    have hq := (Prod.mk.inj (Except.ok.inj h)).2
    subst hq
    refine ⟨rfl, ?_, ?_, ?_, ?_, ?_, ?_, ?_⟩
    · show resize P.past_moves_ (ms.length : Int).toNat _ ++ [(player, cell)] = _
      rw [hI.past, Int.toNat_ofNat, ← List.length_reverse, resize_self, List.reverse_cons]
    · show (ms.length : Int) + 1 = _
      simp
    · show P.num_available_moves_ - 1 + _ = _
      simp only [List.length_cons, Nat.cast_add, Nat.cast_one]
      omega
    · show 0 ≤ P.num_available_moves_ - 1
      omega
    · show TablesInverse (swapAt P.kMoveIndexToCell (i : Int).toNat _)
        (swapAt P.kCellToMoveIndex cell _)
      rw [Int.toNat_ofNat]
      have := hI.tables.tables_swap hi hn1
      rw [hic] at this
      exact this
    · intro j hj
      show swapAt P.kMoveIndexToCell (i : Int).toNat (P.num_available_moves_ - 1).toNat
        ((P.num_available_moves_ - 1).toNat + j) = _
      rw [Int.toNat_ofNat]
      cases j with
      | zero =>
        rw [Nat.add_zero, swapAt_apply, if_pos rfl, hic]
        rfl
      | succ j =>
        rw [swapAt_apply, if_neg (by omega), if_neg (by omega)]
        have hj' : j < ms.length := by
          simp only [List.length_cons] at hj
          omega
        have hp := hI.played j hj'
        have e : (P.num_available_moves_ - 1).toNat + (j + 1) =
            P.num_available_moves_.toNat + j := by omega
        rw [e, hp]
        rfl
    · show Stacked { s with memento := Memento.empty } ((player, cell) :: ms)
        (P.mementoes_ ++ [s.memento]).reverse
      rw [List.reverse_append, List.reverse_singleton, List.singleton_append]
      simp only [Stacked]
      refine ⟨⟨hsafe.wf.inv, hsafe.wf.arena, hsafe.wf.ring⟩, ?_, hcb, hon, hnot,
        { P.state with memento := Memento.empty }, hsafe.undoes,
        hI.stacked.stacked_of_agree hwf0 rfl (fun _ _ => rfl)⟩
      intro c hc
      have hcc : State.cell { s with memento := Memento.empty } c =
          if c = cell then player.toNat + 1 else P.state.cell c := hcells c
      rw [hcc]
      by_cases hce : c = cell
      · rw [if_pos hce]
        constructor
        · intro h0
          cases player <;> simp [Player.toNat] at h0
        · intro hh
          exact absurd (by rw [hce]; simp) hh.2
      · rw [if_neg hce, hc0 c hc]
        simp only [List.map_cons, List.mem_cons, not_or]
        exact ⟨fun hh => ⟨hh.1, hce, hh.2⟩, fun hh => ⟨hh.1, hh.2.2⟩⟩

theorem Position.Inv.undo_nil {P : Position} (hI : P.Inv []) :
    Position.UndoPermanentMove P = Except.ok (false, P) := by
  have hm : P.mementoes_ = [] := by
    have := Stacked.stacked_length _ _ _ hI.stacked
    simpa using this
  unfold Position.UndoPermanentMove
  rw [hI.init, hm]
  rfl

/-- In a `Position` with a move that is made and not undone,
`UndoPermanentMove` returns `true` and a `Position` with the invariant for
the other moves; the cell of the move undone is a cell of the board that is
not among them. -/
theorem Position.Inv.inv_undo {mv : Player × Nat} {ms : List (Player × Nat)} {P : Position}
    (hI : P.Inv (mv :: ms)) :
    ∃ Q, Position.UndoPermanentMove P = Except.ok (true, Q) ∧ Q.Inv ms ∧
      mv.2 < kNumCellsWithSentinels ∧ LiesOnBoard (CellToX mv.2) (CellToY mv.2) = true ∧
      mv.2 ∉ ms.map Prod.snd := by
  have hst := hI.stacked
  cases hrev : P.mementoes_.reverse with
  | nil => rw [hrev] at hst; simp only [Stacked] at hst
  | cons m mems =>
    rw [hrev] at hst
    simp only [Stacked] at hst
    obtain ⟨hwf, _, hb, hon, hnot, s₀, hu, hst'⟩ := hst
    have hm : P.mementoes_ = mems.reverse ++ [m] := by
      rw [← List.reverse_reverse P.mementoes_, hrev, List.reverse_cons]
    have hpast : P.past_moves_ = ms.reverse ++ [mv] := by
      rw [hI.past, List.reverse_cons]
    have havail := hI.avail
    have hnn := hI.avail_nonneg
    simp only [List.length_cons, Nat.cast_add, Nat.cast_one] at havail
    have hp0 := hI.played 0 (by simp)
    simp only [Nat.add_zero, List.getD_cons_zero] at hp0
    refine ⟨{ P with
        state := State.undoAll { P.state with memento := m }
        mementoes_ := P.mementoes_.dropLast
        past_moves_ := P.past_moves_.dropLast
        num_available_moves_ := P.num_available_moves_ + 1
        move_count_ := P.move_count_ - 1 }, ?_, ?_, hb, hon, hnot⟩
    · unfold Position.UndoPermanentMove
      rw [hI.init]
      simp only [Bool.not_true, Bool.false_eq_true, if_false, hm, hpast,
        List.getLast?_append, List.getLast?_singleton, Option.or]
      rw [if_neg (by omega), if_neg (by rw [hp0]; simp)]
      rfl
    · refine ⟨hI.init, ?_, ?_, ?_, ?_, hI.tables, ?_, ?_⟩
      · show P.past_moves_.dropLast = _
        rw [hpast, List.dropLast_concat]
      · show P.move_count_ - 1 = _
        rw [hI.count]
        simp
      · show P.num_available_moves_ + 1 + _ = _
        omega
      · show 0 ≤ P.num_available_moves_ + 1
        omega
      · intro j hj
        show P.kMoveIndexToCell ((P.num_available_moves_ + 1).toNat + j) = _
        have hp := hI.played (j + 1) (by simp only [List.length_cons]; omega)
        have e : (P.num_available_moves_ + 1).toNat + j =
            P.num_available_moves_.toNat + (j + 1) := by omega
        rw [e, hp]
        rfl
      · show Stacked (State.undoAll { P.state with memento := m }) ms
          P.mementoes_.dropLast.reverse
        rw [hm, List.dropLast_concat, List.reverse_reverse]
        have hwfm : WellFormed { P.state with memento := m } := ⟨hwf.inv, hwf.arena, hwf.ring⟩
        refine hst'.stacked_of_agree (WellFormed_undoAll hu hst'.stacked_wf hwfm) ?_ ?_
        · funext cs
          exact hu.sizes cs
        · intro loc hl
          exact hu.words loc trivial hl

/-- Every `Position` that the permanent moves and their undoing reach has
the invariant for the moves made and not undone. -/
theorem PermanentReach.reach_inv {ms : List (Player × Nat)} {P : Position}
    (h : PermanentReach ms P) : P.Inv ms := by
  induction h with
  | start => exact Position.Inv_start
  | make _ hmove ih => exact ih.inv_make hmove
  | @undo ms P Q _ hundo ih =>
    cases ms with
    | nil =>
      rw [ih.undo_nil] at hundo
      cases hundo
    | cons mv ms =>
      obtain ⟨Q', hQ, hinv, _⟩ := ih.inv_undo
      rw [hQ] at hundo
      have := (Prod.mk.inj (Except.ok.inj hundo)).2
      subst this
      exact hinv

theorem Position_CellIsEmpty_eq (c : Nat) (s : State) (hc : c < kNumCellsWithSentinels) :
    Position.CellIsEmpty c s = Res.ok (decide (s.cell c &&& 3 = 0)) s := by
  unfold Position.CellIsEmpty
  rw [inBounds_bind, if_pos (decide_eq_true hc), readByte_bind]
  rfl

theorem wrapInt32_of_small (z : Int) (h1 : -2147483648 ≤ z) (h2 : z < 2147483648) :
    wrapInt32 z = z := by
  unfold wrapInt32
  omega

/-- C24: permanent moves form a stack. In every `Position` that
`MakePermanentMove` and `UndoPermanentMove` reach from the start position,
with `ms` the moves made and not undone, the most recent first:
`MoveNPliesAgo(n)` returns the cell of the move `ms[n]`, the `n + 1`-th most
recent one, or `kBoardCenter` when there are fewer; when there is no such
move, `UndoPermanentMove` returns `false` and leaves the `Position` as it
is; otherwise it returns `true`, reaches a `Position` whose moves are the
others, and there the cell of the move undone is empty and the cells of the
others are not. -/
theorem permanent_moves_form_a_stack {ms : List (Player × Nat)} {P : Position}
    (h : PermanentReach ms P) :
    (∀ n : Nat, n < 2147483648 →
      Position.MoveNPliesAgo (n : Int) P =
        Except.ok (ms.getD n (Player.kWhite, kBoardCenter)).2) ∧
    (ms = [] → Position.UndoPermanentMove P = Except.ok (false, P)) ∧
    (∀ mv rest, ms = mv :: rest →
      ∃ Q, Position.UndoPermanentMove P = Except.ok (true, Q) ∧ PermanentReach rest Q ∧
        Position.CellIsEmpty mv.2 Q.state = Res.ok true Q.state ∧
        ∀ e ∈ rest, Position.CellIsEmpty e.2 Q.state = Res.ok false Q.state) := by
  have hI := h.reach_inv
  refine ⟨fun n hn => ?_, fun hnil => ?_, fun mv rest hms => ?_⟩
  · have havail := hI.avail
    have hnn := hI.avail_nonneg
    have hk : (kNumMovesOnBoard : Int) = 271 := by decide
    have hlen : P.past_moves_.length = ms.length := by rw [hI.past, List.length_reverse]
    unfold Position.MoveNPliesAgo
    rw [hI.init, hlen]
    simp only [Bool.not_true, Bool.false_eq_true, if_false]
    rw [wrapInt32_of_small _ (by omega) (by omega)]
    by_cases hlt : n < ms.length
    · rw [if_pos (by omega), if_pos (by omega), hI.past]
      have e1 : ((ms.length : Int) - (n : Int) - 1).toNat = ms.length - 1 - n := by omega
      rw [e1, List.getD_eq_getElem _ _ (by rw [List.length_reverse]; omega),
        List.getD_eq_getElem _ _ hlt, List.getElem_reverse]
      have e2 : ms.length - 1 - (ms.length - 1 - n) = n := by omega
      simp only [e2]
      rfl
    · rw [if_neg (by omega), List.getD_eq_default _ _ (by omega)]
      rfl
  · subst hnil
    exact hI.undo_nil
  · subst hms
    obtain ⟨Q, hQ, hinv, hb, hon, hnot⟩ := hI.inv_undo
    have hc := hinv.stacked.stacked_cells
    refine ⟨Q, hQ, PermanentReach.undo h hQ, ?_, fun e he => ?_⟩
    · rw [Position_CellIsEmpty_eq _ _ hb, decide_eq_true ((hc mv.2 hb).2 ⟨hon, hnot⟩)]
    · have hbe := Stacked.stacked_bound _ _ _ hinv.stacked e he
      rw [Position_CellIsEmpty_eq _ _ hbe, decide_eq_false (fun h0 =>
        ((hc e.2 hbe).1 h0).2 (List.mem_map_of_mem Prod.snd he))]

/-! ### Permanent moves: the examples -/

theorem eq_ok_of_valueOf {α : Type} (r : Except Err (α × Position)) (a : α)
    (h : valueOf r = some a) : r = Except.ok (a, positionOf r) := by
  cases r with
  | error e => cases h
  | ok v =>
    obtain ⟨b, P⟩ := v
    simp only [valueOf, Option.some.injEq] at h
    rw [h]
    rfl

/-! ### Permanent moves that rewrite no chain -/

/-- The loop of `UpdateChainsToNewestVersionsReversibly` changes nothing when
no chain of the player has a newer version. -/
theorem updateChainsLoop_newest {p : Nat} {s : State} (hinv : (s.view p).Inv)
    (hnew : ∀ ch, ch < s.size p → s.newer p ch = 0) :
    ∀ n cell, cell + n ≤ kNumCellsWithSentinels →
      PlayerPosition.updateChainsLoop p n cell s = Res.ok () s := by
  intro n
  induction n with
  | zero =>
    intro cell _
    rfl
  | succ n ih =>
    intro cell hc
    unfold PlayerPosition.updateChainsLoop
    rw [chain_for_cell_bind, if_pos (by omega)]
    by_cases hch : s.cfc p cell ≠ 0
    · have hlt : s.cfc p cell < s.size p := hinv.cfc_lt cell
      rw [if_pos hch, bind_assoc',
        M.mbind_eq_of_ok (NewestVersion_newest (Nat.pos_of_ne_zero hch) hlt (hnew _ hlt)),
        if_neg (fun h => h rfl), pure_bind']
      exact ih (cell + 1) (by omega)
    · rw [if_neg hch, pure_bind']
      exact ih (cell + 1) (by omega)

/-- When the statements of `Position::MakeMoveReversibly` return and leave no
chain of the player with a newer version, the statements of
`Position::MakePermanentMove` return the same value and the same state. -/
theorem permanentMove_of_quiet {s₀ s s' : State} {moveIndex : Nat → Int} {player : Player}
    {cell r : Nat} (hP : PosSafe s₀ s)
    (h : Position.MakeMoveReversibly moveIndex player cell s = Res.ok r s')
    (hnew : ∀ ch, ch < s'.size player.toNat → s'.newer player.toNat ch = 0) :
    Position.permanentMove moveIndex player cell s = Res.ok r s' := by
  unfold Position.MakeMoveReversibly at h
  obtain ⟨e, s1, h1, h2⟩ := bind_ok h
  have e1 := Position_CellIsEmpty_ro cell s e s1 h1
  subst e1
  obtain ⟨u, s2, h3, h4⟩ := bind_ok h2
  have e2 := assert_ro _ s1 u s2 h3
  subst e2
  rw [RememberByte_bind, writeByte_bind] at h4
  have hP1 : PosSafe s₀ ((s2.remember (Loc.cells (cell / 4))).write (Loc.cells (cell / 4))
      (setByte ((s2.remember (Loc.cells (cell / 4))).mem (Loc.cells (cell / 4))) (cell % 4)
        (player.toNat + 1))) := by
    refine ⟨hP.undoes.undoes_remember_write _ _ trivial,
      ⟨fun q => ?_, fun q => ?_, fun q => ?_⟩⟩
    · rw [view_write_of_not_inView _ (Loc.cells (cell / 4)) _ (fun hh => hh)]
      exact hP.wf.inv q
    · exact ArenaOk.arenaOk_write (hP.wf.arena q) _ _ (fun hh => by cases hh)
    · exact RingOk.ringOk_write (hP.wf.ring q) _ _ (fun hh => by cases hh)
  obtain ⟨u1, a, ha, h5⟩ := bind_ok h4
  obtain ⟨res, b, hb, h6⟩ := bind_ok h5
  obtain ⟨u2, c, hc, h7⟩ := bind_ok h6
  obtain ⟨u3, d, hd, h8⟩ := bind_ok h7
  obtain ⟨u4, f, hf, h9⟩ := bind_ok h8
  have hPa := PosSafe.posSafe_of_safe (fun V =>
    RemoveTwoBridgesReversibly_safe moveIndex player.toNat cell) _ _ _ hP1 ha
  have hPb := PlayerPosition_MakeMoveReversibly_posSafe player.toNat cell _ _ _ hPa hb
  have hPc := PosSafe.posSafe_of_safe (fun V =>
    CreateTwoBridgesAfterOurMoveReversibly_safe player.toNat (Opponent player).toNat cell)
    _ _ _ hPb hc
  have hPd := PosSafe.posSafe_of_safe (fun V =>
    FindNewRingFramesReversibly_safe moveIndex player.toNat) _ _ _ hPc hd
  have hS : Safe s₀ (fun _ => False) d.view d :=
    ⟨⟨hPd.undoes, fun _ hh => hh.elim⟩, hPd.wf.arena, hPd.wf.ring, fun _ => rfl⟩
  have hview := (RemoveTwoBridgesReversibly_safe moveIndex (Opponent player).toNat cell
    d u4 f hS hf).view player.toNat
  have e3 : res = r ∧ f = s' := by
    have := h9
    simp only [pure_apply, Res.ok.injEq] at this
    exact this
  obtain ⟨e3, e4⟩ := e3
  subst e3
  subst e4
  have hsize : d.size player.toNat = f.size player.toNat :=
    (congrArg ChainView.size hview).symm
  have hnewer : d.newer player.toNat = f.newer player.toNat :=
    (congrArg ChainView.newer hview).symm
  have hup : PlayerPosition.UpdateChainsToNewestVersionsReversibly player.toNat d =
      Res.ok () d :=
    updateChainsLoop_newest (hPd.wf.inv player.toNat)
      (fun ch hch => by rw [hnewer]; exact hnew ch (by rw [← hsize]; exact hch)) _ _
      (Nat.le_of_eq (Nat.zero_add _))
  unfold Position.permanentMove
  rw [M.mbind_eq_of_ok h1, M.mbind_eq_of_ok h3, RememberByte_bind, writeByte_bind,
    M.mbind_eq_of_ok ha, M.mbind_eq_of_ok hb, M.mbind_eq_of_ok hc, M.mbind_eq_of_ok hd,
    M.mbind_eq_of_ok hup, M.mbind_eq_of_ok hf]
  rfl

/-- In a `Position` with the invariant, `MakePermanentMove` returns when its
statements do. -/
theorem Position.Inv.make_of_run {ms : List (Player × Nat)} {P : Position} {player : Player}
    {cell r : Nat} {s : State} (hI : P.Inv ms)
    (hrun : Position.permanentMove P.kCellToMoveIndex player cell
      { P.state with memento := Memento.empty } = Res.ok r s) :
    Position.MakePermanentMove player cell P =
      Except.ok (r, Position.moved player cell P s) := by
  obtain ⟨hcb, hempty, _⟩ := permanentMove_cells P.kCellToMoveIndex player cell
    { P.state with memento := Memento.empty } s r hrun
  have hc0 : CellsOf ms P.state := hI.stacked.stacked_cells
  obtain ⟨hon, hnot⟩ := (hc0 cell hcb).1 hempty
  obtain ⟨i, hi, hic⟩ := hI.tables.to_cell cell hcb hon
  have hmove : P.kCellToMoveIndex cell = (i : Int) := by
    rw [← hic]; exact hI.tables.to_move i hi
  have havail := hI.avail
  have hnn := hI.avail_nonneg
  have hilt : (i : Int) < P.num_available_moves_ := by
    by_contra hge
    have hj : i - P.num_available_moves_.toNat < ms.length := by omega
    have hp := hI.played _ hj
    have e : P.num_available_moves_.toNat + (i - P.num_available_moves_.toNat) = i := by
      omega
    rw [e, hic] at hp
    apply hnot
    rw [hp]
    rw [List.getD_eq_getElem _ _ hj]
    exact List.mem_map_of_mem Prod.snd (List.getElem_mem _)
  have hn1 : (P.num_available_moves_ - 1).toNat < kNumMovesOnBoard := by omega
  have hsw := hI.tables.cell_lt _ hn1
  have hk : (kNumMovesOnBoard : Int) = 271 := by decide
  unfold Position.MakePermanentMove Position.moved
  rw [hI.init]
  simp only [Bool.not_true, Bool.false_eq_true, if_false, hrun]
  rw [hI.count, if_neg (by omega), if_neg (by omega), if_neg (by omega), hmove,
    if_neg (by omega)]
  rfl

/-- In a `Position` with the invariant, `MakePermanentMove` returns the
`Position` of `quietMove` when the statements of `MakeMoveReversibly` return
and leave no chain of the player with a newer version. -/
theorem Position.Inv.quiet_make {ms : List (Player × Nat)} {P : Position} {player : Player}
    {cell r : Nat} (hI : P.Inv ms)
    (hv : (Position.MakeMoveReversibly P.kCellToMoveIndex player cell
      { P.state with memento := Memento.empty }).value = some r)
    (hnew : ∀ ch, ch < (Position.quietMove player cell P).state.size player.toNat →
      (Position.quietMove player cell P).state.newer player.toNat ch = 0) :
    Position.MakePermanentMove player cell P =
      Except.ok (r, Position.quietMove player cell P) := by
  have hrun : Position.MakeMoveReversibly P.kCellToMoveIndex player cell
      { P.state with memento := Memento.empty } = Res.ok r
        ((Position.MakeMoveReversibly P.kCellToMoveIndex player cell
          { P.state with memento := Memento.empty }).state P.state) := by
    cases hr : Position.MakeMoveReversibly P.kCellToMoveIndex player cell
        { P.state with memento := Memento.empty } with
    | fail e => rw [hr] at hv; cases hv
    | ok a t =>
      rw [hr] at hv
      simp only [Res.value, Option.some.injEq] at hv
      rw [hv]
      rfl
  have hwf : WellFormed P.state := hI.stacked.stacked_wf
  have hwf0 : WellFormed { P.state with memento := Memento.empty } :=
    ⟨hwf.inv, hwf.arena, hwf.ring⟩
  exact hI.make_of_run (permanentMove_of_quiet ⟨Undoes.undoes_refl _ _ rfl, hwf0⟩ hrun hnew)

/-! ### Permanent moves: the examples -/

theorem stackPosition₁_eq :
    Position.MakePermanentMove Player.kWhite (XYToCell 11 10) Position.start =
      Except.ok (0, Position.quietMove Player.kWhite (XYToCell 11 10) Position.start) :=
  Position.Inv_start.quiet_make (by decide!) (by decide!)

theorem stackPosition₁_run :
    valueOf (Position.MakePermanentMove Player.kWhite (XYToCell 11 10) Position.start) =
      some 0 := by
  rw [stackPosition₁_eq]
  rfl

theorem stackPosition₁_inv :
    (Position.quietMove Player.kWhite (XYToCell 11 10) Position.start).Inv
      [(Player.kWhite, XYToCell 11 10)] :=
  Position.Inv_start.inv_make stackPosition₁_eq

theorem stackPosition₁_quiet :
    stackPosition₁ = Position.quietMove Player.kWhite (XYToCell 11 10) Position.start := by
  unfold stackPosition₁
  rw [stackPosition₁_eq]
  rfl

theorem stackPosition₂_eq :
    Position.MakePermanentMove Player.kBlack (XYToCell 12 12)
        (Position.quietMove Player.kWhite (XYToCell 11 10) Position.start) =
      Except.ok (0, Position.quietMove Player.kBlack (XYToCell 12 12)
        (Position.quietMove Player.kWhite (XYToCell 11 10) Position.start)) :=
  stackPosition₁_inv.quiet_make (by decide!) (by decide!)

theorem stackPosition₂_run :
    valueOf (Position.MakePermanentMove Player.kBlack (XYToCell 12 12) stackPosition₁) =
      some 0 := by
  rw [stackPosition₁_quiet, stackPosition₂_eq]
  rfl

theorem stackPosition₂_inv :
    (Position.quietMove Player.kBlack (XYToCell 12 12)
      (Position.quietMove Player.kWhite (XYToCell 11 10) Position.start)).Inv
      [(Player.kBlack, XYToCell 12 12), (Player.kWhite, XYToCell 11 10)] :=
  stackPosition₁_inv.inv_make stackPosition₂_eq

theorem stackPosition₂_quiet :
    stackPosition₂ = Position.quietMove Player.kBlack (XYToCell 12 12)
      (Position.quietMove Player.kWhite (XYToCell 11 10) Position.start) := by
  unfold stackPosition₂
  rw [stackPosition₁_quiet, stackPosition₂_eq]
  rfl

theorem stackPosition₃_eq :
    Position.UndoPermanentMove stackPosition₂ = Except.ok (true, stackPosition₃) ∧
      stackPosition₃.Inv [(Player.kWhite, XYToCell 11 10)] := by
  have hI := stackPosition₂_inv
  rw [← stackPosition₂_quiet] at hI
  obtain ⟨Q, hQ, hinv, _⟩ := hI.inv_undo
  have e : stackPosition₃ = Q := by
    unfold stackPosition₃
    rw [hQ]
    rfl
  rw [e]
  exact ⟨hQ, hinv⟩

theorem stackPosition₃_run :
    valueOf (Position.UndoPermanentMove stackPosition₂) = some true := by
  rw [stackPosition₃_eq.1]
  rfl

theorem stackPosition₃_quiet :
    stackPosition₃ = positionOf (Position.UndoPermanentMove
      (Position.quietMove Player.kBlack (XYToCell 12 12)
        (Position.quietMove Player.kWhite (XYToCell 11 10) Position.start))) := by
  unfold stackPosition₃
  rw [stackPosition₂_quiet]

theorem stackPosition₃_inv :
    (positionOf (Position.UndoPermanentMove
      (Position.quietMove Player.kBlack (XYToCell 12 12)
        (Position.quietMove Player.kWhite (XYToCell 11 10) Position.start)))).Inv
      [(Player.kWhite, XYToCell 11 10)] := by
  have hI := stackPosition₃_eq.2
  rw [stackPosition₃_quiet] at hI
  exact hI

theorem stackPosition₄_eq :
    Position.MakePermanentMove Player.kBlack (XYToCell 10 12)
        (positionOf (Position.UndoPermanentMove
          (Position.quietMove Player.kBlack (XYToCell 12 12)
            (Position.quietMove Player.kWhite (XYToCell 11 10) Position.start)))) =
      Except.ok (0, Position.quietMove Player.kBlack (XYToCell 10 12)
        (positionOf (Position.UndoPermanentMove
          (Position.quietMove Player.kBlack (XYToCell 12 12)
            (Position.quietMove Player.kWhite (XYToCell 11 10) Position.start))))) :=
  stackPosition₃_inv.quiet_make (by decide!) (by decide!)

theorem stackPosition₄_run :
    valueOf (Position.MakePermanentMove Player.kBlack (XYToCell 10 12) stackPosition₃) =
      some 0 := by
  rw [stackPosition₃_quiet, stackPosition₄_eq]
  rfl

theorem stackPosition₄_reached :
    PermanentReach [(Player.kBlack, XYToCell 10 12), (Player.kWhite, XYToCell 11 10)]
      stackPosition₄ :=
  PermanentReach.make
    (PermanentReach.undo
      (PermanentReach.make
        (PermanentReach.make PermanentReach.start (eq_ok_of_valueOf _ _ stackPosition₁_run))
        (eq_ok_of_valueOf _ _ stackPosition₂_run))
      (eq_ok_of_valueOf _ _ stackPosition₃_run))
    (eq_ok_of_valueOf _ _ stackPosition₄_run)

/-- The stack of C24 after White at (11, 10), Black at (12, 12), an undo and
Black at (10, 12): the moves made and not undone are Black at (10, 12) and
White at (11, 10). -/
theorem permanent_moves_form_a_stack_witness :
    PermanentReach [(Player.kBlack, XYToCell 10 12), (Player.kWhite, XYToCell 11 10)]
        stackPosition₄ ∧
      ((∀ n : Nat, n < 2147483648 →
        Position.MoveNPliesAgo (n : Int) stackPosition₄ =
          Except.ok (([(Player.kBlack, XYToCell 10 12), (Player.kWhite, XYToCell 11 10)].getD n
            (Player.kWhite, kBoardCenter)).2)) ∧
      (([(Player.kBlack, XYToCell 10 12), (Player.kWhite, XYToCell 11 10)] :
          List (Player × Nat)) = [] →
        Position.UndoPermanentMove stackPosition₄ = Except.ok (false, stackPosition₄)) ∧
      (∀ mv rest, [(Player.kBlack, XYToCell 10 12), (Player.kWhite, XYToCell 11 10)] =
          mv :: rest →
        ∃ Q, Position.UndoPermanentMove stackPosition₄ = Except.ok (true, Q) ∧
          PermanentReach rest Q ∧
          Position.CellIsEmpty mv.2 Q.state = Res.ok true Q.state ∧
          ∀ e ∈ rest, Position.CellIsEmpty e.2 Q.state = Res.ok false Q.state)) :=
  ⟨stackPosition₄_reached, permanent_moves_form_a_stack stackPosition₄_reached⟩

/-- In the start position, where no move is made, `UndoPermanentMove` returns
`false` and `MoveNPliesAgo(0)` the centre of the board. -/
theorem start_position_has_no_moves :
    Position.UndoPermanentMove Position.start = Except.ok (false, Position.start) ∧
      Position.MoveNPliesAgo 0 Position.start = Except.ok kBoardCenter :=
  ⟨Position.Inv_start.undo_nil, rfl⟩

theorem DefeatToPlies_LostInNPlies (p : Int) (h0 : 0 ≤ p) (h1 : p ≤ 127) :
    DefeatToPlies (LostInNPlies p) = p := by
  unfold DefeatToPlies LostInNPlies wrapInt32 INT_MAX
  have : (2147483647 + (256 * p - 2147483647 + 128) + 2147483648) % 4294967296 - 2147483648
      = 256 * p + 128 := by omega
  rw [this, Int.tdiv_eq_ediv (by omega) (by norm_num)]
  omega

/-- C35: for every n from 0 to 127, `WonInNPlies(n)` is a forced victory
from which `VictoryToPlies` reads n back, `LostInNPlies(n)` is its negation
and a forced defeat from which `DefeatToPlies` reads n back, and both values
are computed without overflow of an `int`; for every r at most one of
`VictoryIsForced(r)`, `DrawIsForced(r)` and `DefeatIsForced(r)` holds, and
`ResultIsForced(r)` is their disjunction. -/
theorem forced_results_encode_the_plies (n : Int) (h0 : 0 ≤ n) (h1 : n ≤ 127) :
    VictoryIsForced (WonInNPlies n) = true ∧ VictoryToPlies (WonInNPlies n) = n ∧
    LostInNPlies n = -WonInNPlies n ∧
    DefeatIsForced (LostInNPlies n) = true ∧ DefeatToPlies (LostInNPlies n) = n ∧
    wrapInt32 (WonInNPlies n) = WonInNPlies n ∧
    wrapInt32 (LostInNPlies n) = LostInNPlies n ∧
    ∀ r : Int,
      ¬ (VictoryIsForced r = true ∧ DrawIsForced r = true) ∧
      ¬ (VictoryIsForced r = true ∧ DefeatIsForced r = true) ∧
      ¬ (DrawIsForced r = true ∧ DefeatIsForced r = true) ∧
      ResultIsForced r = (VictoryIsForced r || DrawIsForced r || DefeatIsForced r) := by
  refine ⟨victoryIsForced_WonInNPlies n h0 h1, VictoryToPlies_WonInNPlies n h0 h1, ?_,
    defeatIsForced_LostInNPlies n h0 h1, DefeatToPlies_LostInNPlies n h0 h1, ?_, ?_, ?_⟩
  · unfold LostInNPlies WonInNPlies; ring
  · unfold wrapInt32 WonInNPlies INT_MAX; omega
  · unfold wrapInt32 LostInNPlies INT_MAX; omega
  · intro r
    refine ⟨?_, ?_, ?_, ?_⟩
    · simp only [VictoryIsForced, DrawIsForced, kBoardFilledDraw, INT_MAX, decide_eq_true_eq]
      omega
    · simp only [VictoryIsForced, DefeatIsForced, kBoardFilledDraw, INT_MAX, decide_eq_true_eq]
      omega
    · simp only [DrawIsForced, DefeatIsForced, kBoardFilledDraw, INT_MAX, decide_eq_true_eq]
      omega
    · rw [Bool.eq_iff_iff, ResultIsForced_cases]
      simp only [Bool.or_eq_true, or_assoc]

theorem forced_results_encode_the_plies_witness :
    VictoryIsForced (WonInNPlies 127) = true ∧ VictoryToPlies (WonInNPlies 127) = 127 ∧
    LostInNPlies 127 = -WonInNPlies 127 ∧
    DefeatIsForced (LostInNPlies 127) = true ∧ DefeatToPlies (LostInNPlies 127) = 127 ∧
    wrapInt32 (WonInNPlies 127) = WonInNPlies 127 ∧
    wrapInt32 (LostInNPlies 127) = LostInNPlies 127 ∧
    ∀ r : Int,
      ¬ (VictoryIsForced r = true ∧ DrawIsForced r = true) ∧
      ¬ (VictoryIsForced r = true ∧ DefeatIsForced r = true) ∧
      ¬ (DrawIsForced r = true ∧ DefeatIsForced r = true) ∧
      ResultIsForced r = (VictoryIsForced r || DrawIsForced r || DefeatIsForced r) :=
  forced_results_encode_the_plies 127 (by decide) (by decide)

/-! ### havannah.cc: the move indices under permanent moves -/

theorem boardCells_length : boardCells.length = kNumMovesOnBoard := by decide!

theorem Position.Inv.empty_iff {ms : List (Player × Nat)} {P : Position} (h : P.Inv ms)
    (c : Nat) (hc : c < kNumCellsWithSentinels) :
    Position.CellIsEmpty c P.state = Res.ok true P.state ↔
      ∃ m : Nat, (m : Int) < P.NumAvailableMoves ∧ P.MoveIndexToCell m = c := by
  have hcells := h.stacked.stacked_cells c hc
  have hav := h.avail
  have hnn := h.avail_nonneg
  have hk : (kNumMovesOnBoard : Int) = 271 := by decide
  rw [Position_CellIsEmpty_eq c _ hc]
  unfold Position.NumAvailableMoves Position.MoveIndexToCell
  constructor
  · intro he
    have he' : P.state.cell c &&& 3 = 0 := by
      have := (Res.ok.inj he).1
      exact of_decide_eq_true this
    obtain ⟨hb, hnot⟩ := hcells.1 he'
    obtain ⟨i, hi, hic⟩ := h.tables.to_cell c hc hb
    refine ⟨i, ?_, hic⟩
    by_contra hlt
    have hi' : (i : Int) < 271 := by
      have : i < 271 := hi
      omega
    have hj : i - P.num_available_moves_.toNat < ms.length := by omega
    have hp := h.played _ hj
    have e : P.num_available_moves_.toNat + (i - P.num_available_moves_.toNat) = i := by omega
    rw [e, hic] at hp
    apply hnot
    rw [hp, List.getD_eq_getElem _ _ hj]
    exact List.mem_map_of_mem Prod.snd (List.getElem_mem _)
  · rintro ⟨m, hm, hmc⟩
    have hm' : m < kNumMovesOnBoard := by
      have : (m : Int) < 271 := by omega
      have : m < 271 := by omega
      exact this
    have hb := h.tables.on_board m hm'
    rw [hmc] at hb
    have hnot : c ∉ ms.map Prod.snd := by
      intro hin
      obtain ⟨e, he, hec⟩ := List.mem_map.1 hin
      obtain ⟨j, hj, hje⟩ := List.getElem_of_mem he
      have hp := h.played j hj
      rw [List.getD_eq_getElem _ _ hj, hje, hec, ← hmc] at hp
      have hlt : P.num_available_moves_.toNat + j < kNumMovesOnBoard := by
        have : P.num_available_moves_.toNat + j < 271 := by omega
        exact this
      have := h.tables.tables_inj hlt hm' hp
      omega
    have : P.state.cell c &&& 3 = 0 := hcells.2 ⟨hb, hnot⟩
    rw [decide_eq_true this]

/-- C36: in a `Position` that `MakePermanentMove` and `UndoPermanentMove`
have led from the start position, `MoveIndexToCell` maps the move indices
below `kNumMovesOnBoard = 3 * S * (S - 1) + 1` to cells of the board,
`CellToMoveIndex` maps every cell of the board to a move index, either
undoes the other, the board has `kNumMovesOnBoard` cells, and the empty
cells are the cells `MoveIndexToCell(m)` with `m < NumAvailableMoves()`. -/
theorem move_indices_and_cells_stay_inverse {ms : List (Player × Nat)} {P : Position}
    (h : PermanentReach ms P) :
    kNumMovesOnBoard = 3 * SIDE_LENGTH * (SIDE_LENGTH - 1) + 1 ∧
    ((List.range kNumCellsWithSentinels).filter
      fun c => LiesOnBoard (CellToX c) (CellToY c)).length = kNumMovesOnBoard ∧
    (∀ m, m < kNumMovesOnBoard →
      P.MoveIndexToCell m < kNumCellsWithSentinels ∧
        LiesOnBoard (CellToX (P.MoveIndexToCell m)) (CellToY (P.MoveIndexToCell m)) = true ∧
        P.kCellToMoveIndex (P.MoveIndexToCell m) = (m : Int)) ∧
    (∀ c, c < kNumCellsWithSentinels → LiesOnBoard (CellToX c) (CellToY c) = true →
      0 ≤ P.kCellToMoveIndex c ∧ P.kCellToMoveIndex c < kNumMovesOnBoard ∧
        P.MoveIndexToCell (P.kCellToMoveIndex c).toNat = c) ∧
    0 ≤ P.NumAvailableMoves ∧ P.NumAvailableMoves ≤ kNumMovesOnBoard ∧
    (∀ c, c < kNumCellsWithSentinels →
      (Position.CellIsEmpty c P.state = Res.ok true P.state ↔
        ∃ m : Nat, (m : Int) < P.NumAvailableMoves ∧ P.MoveIndexToCell m = c)) := by
  have hI := h.reach_inv
  refine ⟨rfl, boardCells_length, ?_, ?_, hI.avail_nonneg, ?_, fun c hc => hI.empty_iff c hc⟩
  · intro m hm
    exact ⟨hI.tables.cell_lt m hm, hI.tables.on_board m hm, hI.tables.to_move m hm⟩
  · intro c hc hb
    obtain ⟨i, hi, hic⟩ := hI.tables.to_cell c hc hb
    have hmv := hI.tables.to_move i hi
    rw [hic] at hmv
    rw [hmv]
    refine ⟨Int.ofNat_nonneg i, Int.ofNat_lt.2 hi, ?_⟩
    rw [Int.toNat_ofNat]
    exact hic
  · have := hI.avail
    unfold Position.NumAvailableMoves
    omega

theorem move_indices_and_cells_stay_inverse_witness :
    kNumMovesOnBoard = 3 * SIDE_LENGTH * (SIDE_LENGTH - 1) + 1 ∧
    ((List.range kNumCellsWithSentinels).filter
      fun c => LiesOnBoard (CellToX c) (CellToY c)).length = kNumMovesOnBoard ∧
    (∀ m, m < kNumMovesOnBoard →
      stackPosition₄.MoveIndexToCell m < kNumCellsWithSentinels ∧
        LiesOnBoard (CellToX (stackPosition₄.MoveIndexToCell m))
          (CellToY (stackPosition₄.MoveIndexToCell m)) = true ∧
        stackPosition₄.kCellToMoveIndex (stackPosition₄.MoveIndexToCell m) = (m : Int)) ∧
    (∀ c, c < kNumCellsWithSentinels → LiesOnBoard (CellToX c) (CellToY c) = true →
      0 ≤ stackPosition₄.kCellToMoveIndex c ∧
        stackPosition₄.kCellToMoveIndex c < kNumMovesOnBoard ∧
        stackPosition₄.MoveIndexToCell (stackPosition₄.kCellToMoveIndex c).toNat = c) ∧
    0 ≤ stackPosition₄.NumAvailableMoves ∧ stackPosition₄.NumAvailableMoves ≤ kNumMovesOnBoard ∧
    (∀ c, c < kNumCellsWithSentinels →
      (Position.CellIsEmpty c stackPosition₄.state = Res.ok true stackPosition₄.state ↔
        ∃ m : Nat, (m : Int) < stackPosition₄.NumAvailableMoves ∧
          stackPosition₄.MoveIndexToCell m = c)) :=
  move_indices_and_cells_stay_inverse stackPosition₄_reached

/-! ### havannah.cc: a name that is not the name of a cell -/

/-- C38 fails for the string "a1/", the characters 97, 49 and 47:
`ConvertCellToCoordinates` does not check that the third character is a
digit, and computes the row 10 * 1 + '/' - '0' = 9 for it. So
`FromClassicalString` returns for "a1/" the cell of the board that it returns
for "a9", which is not `kZerothCell` and which `ToClassicalString` names
"a9", the characters 97 and 57. -/
theorem FromClassicalString_accepts_malformed_name :
    (FromClassicalString [97, 49, 47]).toOption = some (XYToCell 2 12) ∧
    XYToCell 2 12 ≠ kZerothCell ∧
    LiesOnBoard (CellToX (XYToCell 2 12)) (CellToY (XYToCell 2 12)) = true ∧
    (ToClassicalString (XYToCell 2 12)).toOption = some [97, 57] ∧
    (FromClassicalString [97, 57]).toOption = some (XYToCell 2 12) := by
  decide!

/-! ### wfhashmap.h: the slots of different keys -/

namespace WaitFreeHashMap

theorem findLoop_slot_key (L : Nat) (t : WaitFreeHashMap) (key jump : Nat) :
    ∀ (fuel hash s : Nat), findLoop L t key jump fuel hash = Outcome.slot s →
      t.keys s = key := by
  intro fuel
  induction fuel with
  | zero => intro hash s h; cases h
  | succ f ih =>
    intro hash s h
    unfold findLoop at h
    simp only [] at h
    by_cases h1 : t.keys ((hash + jump) % kCapacity L) = key
    · rw [if_pos h1] at h
      cases h
      exact h1
    · rw [if_neg h1] at h
      by_cases h2 : t.keys ((hash + jump) % kCapacity L) = kEmptyKey
      · rw [if_pos h2] at h; cases h
      · rw [if_neg h2] at h
        exact ih _ s h

theorem FindValue_slot_key (L : Nat) (t : WaitFreeHashMap) (key s : Nat)
    (h : FindValue L t key = Outcome.slot s) : t.keys s = storedKey key := by
  unfold FindValue at h
  simp only [] at h
  unfold storedKey
  by_cases hkey : key = kEmptyKey
  · rw [if_neg (not_not.2 hkey)] at h
    rw [if_pos hkey]
    by_cases h1 : t.keys (PrimaryHash L key) = kEmptyKey + 1
    · rw [if_pos h1] at h
      cases h
      rw [hkey] at h1
      exact h1
    · rw [if_neg h1] at h
      by_cases h2 : t.keys (PrimaryHash L key) = kEmptyKey
      · rw [if_pos h2] at h; cases h
      · rw [if_neg h2] at h; cases h
  · rw [if_pos hkey] at h
    rw [if_neg hkey]
    by_cases h1 : t.keys (PrimaryHash L key) = key
    · rw [if_pos h1] at h
      cases h
      exact h1
    · rw [if_neg h1] at h
      by_cases h2 : t.keys (PrimaryHash L key) = kEmptyKey
      · rw [if_pos h2] at h; cases h
      · rw [if_neg h2] at h
        exact findLoop_slot_key L t key _ _ _ s h

theorem storedKey_ne_empty (key : Nat) : storedKey key ≠ kEmptyKey := by
  unfold storedKey
  by_cases h : key = kEmptyKey
  · rw [if_pos h]; decide
  · rw [if_neg h]; exact h

/-- The slot that `InsertKey` returns for a key holds the key, or
`kEmptyKey + 1` in the place of `kEmptyKey`, from then on. -/
theorem InsertKey_slot_key (L : Nat) (t t₂ : WaitFreeHashMap) (key s : Nat)
    (h : (InsertKey L t key).1 = Outcome.slot s)
    (hreach : InsertReach L (InsertKey L t key).2 t₂) : t₂.keys s = storedKey key :=
  FindValue_slot_key L t₂ key s
    (FindValue_of_InsertKey L t t₂ key s h (InsertReach_keysPreserved L hreach))

/-- Two keys get different slots from `InsertKey` unless they are stored as
the same key, which is so for the keys `kEmptyKey` and `kEmptyKey + 1`
only. -/
theorem InsertKey_slots_distinct (L : Nat) (t t₂ : WaitFreeHashMap) (k₁ k₂ s₁ s₂ : Nat)
    (h₁ : (InsertKey L t k₁).1 = Outcome.slot s₁)
    (hreach : InsertReach L (InsertKey L t k₁).2 t₂)
    (h₂ : (InsertKey L t₂ k₂).1 = Outcome.slot s₂)
    (hne : storedKey k₁ ≠ storedKey k₂) : s₁ ≠ s₂ := by
  intro e
  have a₂ := InsertKey_slot_key L t₂ _ k₂ s₂ h₂ (InsertReach.refl _)
  have a₁ := InsertKey_slot_key L t t₂ k₁ s₁ h₁ hreach
  have b₁ := InsertKey_keysPreserved L t₂ k₂ s₁ (by rw [a₁]; exact storedKey_ne_empty k₁)
  rw [a₁, e, a₂] at b₁
  exact hne b₁.symm

theorem storedKey_eq_iff (k₁ k₂ : Nat) (h : k₁ ≠ k₂) :
    storedKey k₁ = storedKey k₂ ↔
      (k₁ = kEmptyKey ∧ k₂ = kEmptyKey + 1) ∨ (k₁ = kEmptyKey + 1 ∧ k₂ = kEmptyKey) := by
  unfold storedKey kEmptyKey
  by_cases h1 : k₁ = 0 <;> by_cases h2 : k₂ = 0 <;> simp [h1, h2] <;> omega

/-- C37 fails for the keys 0 and 1. With `kLogCapacity = 1`, after the key 3
has taken the slot 1, the key 1 finds its slot 1 taken and gets the slot 0,
where it is stored as 1; the key 0, the root hash, then finds in its slot 0
its stand-in 1, passes the `assert` and gets the slot 0 too. With
`kLogCapacity = 5` and the root hash first: the key 0 gets the slot 0, the 31
keys of `thirtyOneKeys`, none of which counts for the limit, fill the slots
1 to 31 (every call returns a slot), and the probes of the key 1 go from the
slot 1 round to the slot 0, where they find the stand-in of the key 0. -/
theorem InsertKey_gives_root_and_key_one_the_same_slot :
    (InsertKey 1 Clear 3).1 = Outcome.slot 1 ∧
    (InsertKey 1 (InsertKey 1 Clear 3).2 1).1 = Outcome.slot 0 ∧
    (InsertKey 1 (InsertKey 1 (InsertKey 1 Clear 3).2 1).2 0).1 = Outcome.slot 0 ∧
    (InsertKey 5 Clear 0).1 = Outcome.slot 0 ∧
    (∀ n, n < thirtyOneKeys.length →
      (InsertKey 5 (insertAll 5 (InsertKey 5 Clear 0).2 (thirtyOneKeys.take n))
        (thirtyOneKeys.getD n 0)).1 = Outcome.slot (n + 1)) ∧
    (InsertKey 5 (insertAll 5 (InsertKey 5 Clear 0).2 thirtyOneKeys) 1).1 = Outcome.slot 0 := by
  decide!

end WaitFreeHashMap

/-! ### havannah.cc: two records in a row that are to be removed -/

/-- C31 fails for the chain graph of `facingRowsState`. The list of the
chain 6 holds three two-bridges to the chain 5, and the first two contain
the cell 363, that is (11, 11). `RemoveOneWayTwoBridgesReversibly` and
`RemoveOneWayTwoBridgesFast`, called for the chains 6 and 5 and this cell,
unlink the first record and go on with `prev` at the unlinked record: the
second record is unlinked from the first one, not from the list, and the
list of the chain 6 still holds the two-bridge through the cells 362 and
363. -/
theorem RemoveOneWayTwoBridges_keeps_the_second_of_two_records :
    RingDB.twoBridges facingRowsState 0 6 = [(5, 363, 364), (5, 362, 363), (5, 364, 365)] ∧
    (RingDB.RemoveOneWayTwoBridgesReversibly 0 6 5 363 facingRowsState).isOk = true ∧
    RingDB.twoBridges
      ((RingDB.RemoveOneWayTwoBridgesReversibly 0 6 5 363 facingRowsState).state State.start)
      0 6 = [(5, 362, 363), (5, 364, 365)] ∧
    (RingDB.RemoveOneWayTwoBridgesFast 0 6 5 363 facingRowsState).isOk = true ∧
    RingDB.twoBridges
      ((RingDB.RemoveOneWayTwoBridgesFast 0 6 5 363 facingRowsState).state State.start)
      0 6 = [(5, 362, 363), (5, 364, 365)] := by
  decide!

theorem Get6Neighbors_bits (rows : Nat → Nat) (x y : Nat) :
    (BoardBitmask.Get6Neighbors rows x y).testBit 0 = (rows (y + 1)).testBit (x - 1) ∧
    (BoardBitmask.Get6Neighbors rows x y).testBit 1 = (rows (y + 1)).testBit (x - 1 + 1) ∧
    (BoardBitmask.Get6Neighbors rows x y).testBit 2 = (rows y).testBit (x - 1) ∧
    (BoardBitmask.Get6Neighbors rows x y).testBit 3 = (rows y).testBit (x + 1) ∧
    (BoardBitmask.Get6Neighbors rows x y).testBit 4 = (rows (y - 1)).testBit x ∧
    (BoardBitmask.Get6Neighbors rows x y).testBit 5 = (rows (y - 1)).testBit (x + 1) := by
  unfold BoardBitmask.Get6Neighbors PrevY NextY
  simp only [Nat.testBit_or, Nat.testBit_shiftLeft, Nat.testBit_and, Nat.testBit_shiftRight]
  have t30 : (3 : Nat).testBit 0 = true := by decide
  have t31 : (3 : Nat).testBit 1 = true := by decide
  have t32 : (3 : Nat).testBit 2 = false := by decide
  have t33 : (3 : Nat).testBit 3 = false := by decide
  have t34 : (3 : Nat).testBit 4 = false := by decide
  have t35 : (3 : Nat).testBit 5 = false := by decide
  have t10 : (1 : Nat).testBit 0 = true := by decide
  have t11 : (1 : Nat).testBit 1 = false := by decide
  have t12 : (1 : Nat).testBit 2 = false := by decide
  have t13 : (1 : Nat).testBit 3 = false := by decide
  refine ⟨?_, ?_, ?_, ?_, ?_, ?_⟩ <;>
    simp [t30, t31, t32, t33, t34, t35, t10, t11, t12, t13]

theorem Get6Neighbors_lt (rows : Nat → Nat) (x y : Nat) :
    BoardBitmask.Get6Neighbors rows x y < 64 := by
  unfold BoardBitmask.Get6Neighbors
  simp only []
  have a0 : (rows (PrevY y) >>> x) &&& 3 ≤ 3 := Nat.and_le_right
  have a1 : (rows y >>> (x + 1)) &&& 1 ≤ 1 := Nat.and_le_right
  have a2 : (rows y >>> (x - 1)) &&& 1 ≤ 1 := Nat.and_le_right
  have a3 : (rows (NextY y) >>> (x - 1)) &&& 3 ≤ 3 := Nat.and_le_right
  have b1 : (((rows (PrevY y) >>> x) &&& 3) <<< 1) ||| ((rows y >>> (x + 1)) &&& 1) < 2 ^ 3 := by
    apply Nat.or_lt_two_pow
    · rw [Nat.shiftLeft_eq]; omega
    · omega
  have b2 : ((((rows (PrevY y) >>> x) &&& 3) <<< 1) ||| ((rows y >>> (x + 1)) &&& 1)) <<< 1 |||
      ((rows y >>> (x - 1)) &&& 1) < 2 ^ 4 := by
    apply Nat.or_lt_two_pow
    · rw [Nat.shiftLeft_eq]; omega
    · omega
  have b3 : (((((rows (PrevY y) >>> x) &&& 3) <<< 1) ||| ((rows y >>> (x + 1)) &&& 1)) <<< 1 |||
      ((rows y >>> (x - 1)) &&& 1)) <<< 2 ||| ((rows (NextY y) >>> (x - 1)) &&& 3) < 2 ^ 6 := by
    apply Nat.or_lt_two_pow
    · rw [Nat.shiftLeft_eq]; omega
    · omega
  exact b3

theorem offset_coordinates (c : Nat) (hx : 1 ≤ CellToX c ∧ CellToX c ≤ 30) (hy : 1 ≤ CellToY c) :
    (CellToX (OffsetCell c 31) = CellToX c - 1 ∧ CellToY (OffsetCell c 31) = CellToY c + 1) ∧
    (CellToX (OffsetCell c 32) = CellToX c - 1 + 1 ∧ CellToY (OffsetCell c 32) = CellToY c + 1) ∧
    (CellToX (OffsetCell c (-1)) = CellToX c - 1 ∧ CellToY (OffsetCell c (-1)) = CellToY c) ∧
    (CellToX (OffsetCell c 1) = CellToX c + 1 ∧ CellToY (OffsetCell c 1) = CellToY c) ∧
    (CellToX (OffsetCell c (-32)) = CellToX c ∧ CellToY (OffsetCell c (-32)) = CellToY c - 1) ∧
    (CellToX (OffsetCell c (-31)) = CellToX c + 1 ∧
      CellToY (OffsetCell c (-31)) = CellToY c - 1) := by
  unfold CellToX CellToY OffsetCell at *
  omega

theorem Position_Get6Neighbors_run (player : Player) (c : Nat) (s : State)
    (hx : 1 ≤ CellToX c) (hy : 1 ≤ CellToY c ∧ CellToY c + 1 < kBoardHeight) :
    Position.Get6Neighbors player c s =
      Res.ok (BoardBitmask.Get6Neighbors (s.stoneRows player.toNat) (CellToX c) (CellToY c)) s := by
  unfold Position.Get6Neighbors PlayerPosition.Get6Neighbors
  rw [inBounds_bind, if_pos (decide_eq_true ⟨hx, hy.1, hy.2⟩)]
  rfl

theorem hasStone_eq (s : State) (p cell : Nat) :
    s.hasStone p cell = (s.stoneRows p (CellToY cell)).testBit (CellToX cell) := by
  unfold State.hasStone
  rw [BoardBitmask.get_eq]

theorem Get6Neighbors_hasStone (p : Nat) (c : Nat) (s : State)
    (hx : 1 ≤ CellToX c ∧ CellToX c ≤ 30) (hy : 1 ≤ CellToY c) :
    ∀ i, i < 6 →
      (BoardBitmask.Get6Neighbors (s.stoneRows p) (CellToX c) (CellToY c)).testBit i =
        s.hasStone p (OffsetCell c (kMyOffsets.getD i 0)) := by
  obtain ⟨b0, b1, b2, b3, b4, b5⟩ := Get6Neighbors_bits (s.stoneRows p) (CellToX c) (CellToY c)
  obtain ⟨⟨x0, y0⟩, ⟨x1, y1⟩, ⟨x2, y2⟩, ⟨x3, y3⟩, ⟨x4, y4⟩, ⟨x5, y5⟩⟩ :=
    offset_coordinates c hx hy
  intro i hi
  interval_cases i
  · rw [b0, hasStone_eq]; simp only [kMyOffsets, List.getD_cons_zero]; rw [x0, y0]
  · rw [b1, hasStone_eq]; simp only [kMyOffsets, List.getD_cons_succ, List.getD_cons_zero]
    rw [x1, y1]
  · rw [b2, hasStone_eq]; simp only [kMyOffsets, List.getD_cons_succ, List.getD_cons_zero]
    rw [x2, y2]
  · rw [b3, hasStone_eq]; simp only [kMyOffsets, List.getD_cons_succ, List.getD_cons_zero]
    rw [x3, y3]
  · rw [b4, hasStone_eq]; simp only [kMyOffsets, List.getD_cons_succ, List.getD_cons_zero]
    rw [x4, y4]
  · rw [b5, hasStone_eq]; simp only [kMyOffsets, List.getD_cons_succ, List.getD_cons_zero]
    rw [x5, y5]

theorem eq_of_bits_lt_64 (v k : Nat) (hv : v < 64) (hk : k < 64)
    (h : ∀ j, j < 6 → v.testBit j = k.testBit j) : v = k := by
  apply Nat.eq_of_testBit_eq
  intro j
  by_cases hj : j < 6
  · exact h j hj
  · have h64 : 64 ≤ 2 ^ j := by
      calc 64 = 2 ^ 6 := by norm_num
        _ ≤ 2 ^ j := Nat.pow_le_pow_right (by norm_num) (by omega)
    rw [Nat.testBit_eq_false_of_lt (by omega), Nat.testBit_eq_false_of_lt (by omega)]

/-- C33: for every state, every player and every cell c that has its six
neighbours inside the array of the cells (as every cell of the board and
every neighbour of one has), `Position::Get6Neighbors(player, c)` returns a
number below 64 whose bit i is set if and only if the stone mask of the
player holds the cell at the offset `[+31, +32, -1, +1, -32, -31][i]` from
c; and when the stone mask holds the one cell d and c is the i-th neighbour
of d, the number is `kReverseNeighborhoods[i]`. -/
theorem Get6Neighbors_holds_the_six_neighbours (player : Player) (c : Nat) (s : State)
    (hx : 1 ≤ CellToX c ∧ CellToX c ≤ 30) (hy : 1 ≤ CellToY c ∧ CellToY c + 1 < kBoardHeight) :
    ∃ v, Position.Get6Neighbors player c s = Res.ok v s ∧ v < 64 ∧
      (∀ i, i < 6 →
        (v.testBit i = true ↔
          s.hasStone player.toNat (OffsetCell c (kMyOffsets.getD i 0)) = true)) ∧
      (∀ d i, i < 6 → c = NthNeighbor d i →
        (∀ cell, cell < kNumCellsWithSentinels →
          (s.hasStone player.toNat cell = true ↔ cell = d)) →
        v = kReverseNeighborhoods.getD i 0) := by
  refine ⟨_, Position_Get6Neighbors_run player c s hx.1 hy, Get6Neighbors_lt _ _ _, ?_, ?_⟩
  · intro i hi
    rw [Get6Neighbors_hasStone player.toNat c s hx hy.1 i hi]
  · intro d i hi hc honly
    have hbits := Get6Neighbors_hasStone player.toNat c s hx hy.1
    have hk : kBoardHeight = 23 := by decide
    have hn : kNumCellsWithSentinels = 736 := by decide
    have hcx : CellToX c = c % 32 := rfl
    have hcy : CellToY c = c / 32 := rfl
    have hstone : ∀ j, j < 6 →
        ((BoardBitmask.Get6Neighbors (s.stoneRows player.toNat) (CellToX c)
          (CellToY c)).testBit j =
          decide (OffsetCell c (kMyOffsets.getD j 0) = d)) := by
      intro j hj
      rw [hbits j hj]
      have hlt : OffsetCell c (kMyOffsets.getD j 0) < kNumCellsWithSentinels := by
        unfold OffsetCell
        interval_cases j <;> simp [kMyOffsets] <;> omega
      have := honly _ hlt
      rw [Bool.eq_iff_iff, this, decide_eq_true_iff]
    apply eq_of_bits_lt_64 _ _ (Get6Neighbors_lt _ _ _)
    · interval_cases i <;> simp [kReverseNeighborhoods]
    · intro j hj
      rw [hstone j hj]
      unfold NthNeighbor OffsetCell at hc
      unfold OffsetCell
      have hc1 : 1 ≤ c := by omega
      interval_cases i <;> interval_cases j <;>
        simp only [kNeighborOffsets, kMyOffsets, kReverseNeighborhoods, List.getD_cons_succ,
          List.getD_cons_zero] at hc ⊢ <;>
        first
          | (rw [decide_eq_true (by omega)]; decide)
          | (rw [decide_eq_false (by omega)]; decide)

theorem oneStoneState_stones₁ : ∀ cell, cell < 250 →
      (oneStoneState.hasStone Player.kWhite.toNat cell = true ↔ cell = XYToCell 5 17) := by
  decide!

theorem oneStoneState_stones₂ : ∀ cell, cell < 250 →
      (oneStoneState.hasStone Player.kWhite.toNat (cell + 250) = true ↔ (cell + 250) = XYToCell 5 17) := by
  decide!

theorem oneStoneState_stones₃ : ∀ cell, cell < 236 →
      (oneStoneState.hasStone Player.kWhite.toNat (cell + 500) = true ↔ (cell + 500) = XYToCell 5 17) := by
  decide!

theorem oneStoneState_stones : ∀ cell, cell < kNumCellsWithSentinels →
      (oneStoneState.hasStone Player.kWhite.toNat cell = true ↔ cell = XYToCell 5 17) := by
  intro cell hc
  have hc : cell < 736 := hc
  by_cases h1 : cell < 250
  · exact oneStoneState_stones₁ cell h1
  by_cases h2 : cell < 500
  · have h := oneStoneState_stones₂ (cell - 250) (by omega)
    rwa [Nat.sub_add_cancel (by omega)] at h
  have h := oneStoneState_stones₃ (cell - 500) (by omega)
  rwa [Nat.sub_add_cancel (by omega)] at h

theorem Get6Neighbors_holds_the_six_neighbours_witness :
    ((1 ≤ CellToX 548 ∧ CellToX 548 ≤ 30) ∧ (1 ≤ CellToY 548 ∧ CellToY 548 + 1 < kBoardHeight)) ∧
    548 = NthNeighbor (XYToCell 5 17) 0 ∧
    (∀ cell, cell < kNumCellsWithSentinels →
      (oneStoneState.hasStone Player.kWhite.toNat cell = true ↔ cell = XYToCell 5 17)) ∧
    ∃ v, Position.Get6Neighbors Player.kWhite 548 oneStoneState = Res.ok v oneStoneState ∧
      v < 64 ∧
      (∀ i, i < 6 →
        (v.testBit i = true ↔
          oneStoneState.hasStone Player.kWhite.toNat (OffsetCell 548 (kMyOffsets.getD i 0)) =
            true)) ∧
      (∀ d i, i < 6 → 548 = NthNeighbor d i →
        (∀ cell, cell < kNumCellsWithSentinels →
          (oneStoneState.hasStone Player.kWhite.toNat cell = true ↔ cell = d)) →
        v = kReverseNeighborhoods.getD i 0) :=
  ⟨by decide, by decide, oneStoneState_stones,
    Get6Neighbors_holds_the_six_neighbours Player.kWhite 548 oneStoneState (by decide)
      (by decide)⟩

/-! ### havannah.cc: the edges and the corners -/

theorem edgesCornersInit_facts₁ : ∀ cell, cell < 250 →
    edgesCornersInit (CellToX cell) (CellToY cell) &&& 0xFFF =
      expectedEdgesAndCorners (boardChar (CellToX cell) (CellToY cell)) := by
  decide!

theorem edgesCornersInit_facts₂ : ∀ cell, cell < 250 →
    edgesCornersInit (CellToX (cell + 250)) (CellToY (cell + 250)) &&& 0xFFF =
      expectedEdgesAndCorners (boardChar (CellToX (cell + 250)) (CellToY (cell + 250))) := by
  decide!

theorem edgesCornersInit_facts₃ : ∀ cell, cell < 236 →
    edgesCornersInit (CellToX (cell + 500)) (CellToY (cell + 500)) &&& 0xFFF =
      expectedEdgesAndCorners (boardChar (CellToX (cell + 500)) (CellToY (cell + 500))) := by
  decide!

theorem edgesCornersInit_facts : ∀ cell, cell < kNumCellsWithSentinels →
    edgesCornersInit (CellToX cell) (CellToY cell) &&& 0xFFF =
      expectedEdgesAndCorners (boardChar (CellToX cell) (CellToY cell)) := by
  intro cell hc
  have hc : cell < 736 := hc
  by_cases h1 : cell < 250
  · exact edgesCornersInit_facts₁ cell h1
  by_cases h2 : cell < 500
  · have h := edgesCornersInit_facts₂ (cell - 250) (by omega)
    rwa [Nat.sub_add_cancel (by omega)] at h
  have h := edgesCornersInit_facts₃ (cell - 500) (by omega)
  rwa [Nat.sub_add_cancel (by omega)] at h

theorem staticFieldsState_run :
    (initEdgesAndCorners 6 0 State.init).isOk = true := by
  decide!

theorem edgeCornerRow_facts₀ : ∀ y, y < kBoardHeight →
    edgeCornerRow 0 y = maskedRow 0 y := by
  decide!

theorem edgeCornerRow_facts₁ : ∀ y, y < kBoardHeight →
    edgeCornerRow 1 y = maskedRow 1 y := by
  decide!

theorem edgeCornerRow_facts₂ : ∀ y, y < kBoardHeight →
    edgeCornerRow 2 y = maskedRow 2 y := by
  decide!

theorem edgeCornerRow_facts₃ : ∀ y, y < kBoardHeight →
    edgeCornerRow 3 y = maskedRow 3 y := by
  decide!

theorem edgeCornerRow_facts₄ : ∀ y, y < kBoardHeight →
    edgeCornerRow 4 y = maskedRow 4 y := by
  decide!

theorem edgeCornerRow_facts₅ : ∀ y, y < kBoardHeight →
    edgeCornerRow 5 y = maskedRow 5 y := by
  decide!

theorem edgeCornerRow_facts₆ : ∀ y, y < kBoardHeight →
    edgeCornerRow 6 y = maskedRow 6 y := by
  decide!

theorem edgeCornerRow_facts₇ : ∀ y, y < kBoardHeight →
    edgeCornerRow 7 y = maskedRow 7 y := by
  decide!

theorem edgeCornerRow_facts₈ : ∀ y, y < kBoardHeight →
    edgeCornerRow 8 y = maskedRow 8 y := by
  decide!

theorem edgeCornerRow_facts₉ : ∀ y, y < kBoardHeight →
    edgeCornerRow 9 y = maskedRow 9 y := by
  decide!

theorem edgeCornerRow_facts₁₀ : ∀ y, y < kBoardHeight →
    edgeCornerRow 10 y = maskedRow 10 y := by
  decide!

theorem edgeCornerRow_facts₁₁ : ∀ y, y < kBoardHeight →
    edgeCornerRow 11 y = maskedRow 11 y := by
  decide!

theorem edgeCornerRow_facts : ∀ n, n < 12 → ∀ y, y < kBoardHeight →
    edgeCornerRow n y = maskedRow n y := by
  intro n hn
  interval_cases n
  · exact edgeCornerRow_facts₀
  · exact edgeCornerRow_facts₁
  · exact edgeCornerRow_facts₂
  · exact edgeCornerRow_facts₃
  · exact edgeCornerRow_facts₄
  · exact edgeCornerRow_facts₅
  · exact edgeCornerRow_facts₆
  · exact edgeCornerRow_facts₇
  · exact edgeCornerRow_facts₈
  · exact edgeCornerRow_facts₉
  · exact edgeCornerRow_facts₁₀
  · exact edgeCornerRow_facts₁₁

theorem foldl_setBit_testBit (P : Nat → Bool) (j : Nat) :
    ∀ k, ((List.range k).foldl (fun row x => if P x then setBit row x else row) 0).testBit j =
      (decide (j < k) && P j) := by
  intro k
  induction k with
  | zero => simp
  | succ k ih =>
    rw [List.range_succ, List.foldl_append, List.foldl_cons, List.foldl_nil]
    by_cases hp : P k = true
    · rw [if_pos hp, testBit_setBit, ih]
      by_cases hj : j < k
      · have h1 : j < k + 1 := by omega
        have h2 : ¬ k = j := by omega
        simp [hj, h1, h2]
      · by_cases hk : k = j
        · subst hk
          simp [hp]
        · have h1 : ¬ j < k + 1 := by omega
          simp [hj, h1, hk]
    · rw [if_neg hp, ih]
      by_cases hj : j < k
      · have h1 : j < k + 1 := by omega
        simp [hj, h1]
      · by_cases hk : k = j
        · subst hk
          simp [hp]
        · have h1 : ¬ j < k + 1 := by omega
          simp [hj, h1]

theorem expectedEdgesAndCorners_one_bit (ch : Nat) :
    expectedEdgesAndCorners ch = 0 ∨ ∃ n, n < 12 ∧ expectedEdgesAndCorners ch = 1 <<< n := by
  unfold expectedEdgesAndCorners
  by_cases h1 : 48 ≤ ch ∧ ch ≤ 53
  · right
    have h2 : ¬ (65 ≤ ch ∧ ch ≤ 70) := by omega
    refine ⟨ch - 48, by omega, ?_⟩
    rw [if_pos h1, if_neg h2]
    simp
  · by_cases h2 : 65 ≤ ch ∧ ch ≤ 70
    · right
      refine ⟨ch - 65 + 6, by omega, ?_⟩
      rw [if_neg h1, if_pos h2, Nat.zero_or, ← Nat.shiftLeft_add]
    · left
      rw [if_neg h1, if_neg h2]
      simp

/-- C34: for every cell of the array of the cells, and so for every cell of
the board, `Position::GetMaskOfEdgesAndCorners` is what the picture `kBoard`
of the tests shows at the cell: the bit e for the character of the edge e,
the bit 6 + k for the character of the corner k, and 0 for the other
characters; so it has at most one of its 12 bits set. The loop of
`Position::InitStaticFields` that fills `kEdgeCornerChains` returns, and for
every n below 12 the stone mask of `EdgeCornerChain(n)` holds a cell if and
only if the mask of the cell has the bit n. -/
theorem edges_and_corners_are_those_of_kBoard :
    (∀ cell, cell < kNumCellsWithSentinels →
      GetMaskOfEdgesAndCorners cell =
          expectedEdgesAndCorners (boardChar (CellToX cell) (CellToY cell)) ∧
        (GetMaskOfEdgesAndCorners cell = 0 ∨
          ∃ n, n < 12 ∧ GetMaskOfEdgesAndCorners cell = 1 <<< n)) ∧
    (initEdgesAndCorners 6 0 State.init).isOk = true ∧
    (∀ n, n < 12 → ∀ cell, cell < kNumCellsWithSentinels →
      (BoardBitmask.get (edgeCornerRow n) (CellToX cell) (CellToY cell) = true ↔
        (GetMaskOfEdgesAndCorners cell).testBit n = true)) := by
  refine ⟨?_, staticFieldsState_run, ?_⟩
  · intro cell hc
    have h := edgesCornersInit_facts cell hc
    rw [← GetMaskOfEdgesAndCorners_eq] at h
    rw [h]
    exact ⟨rfl, expectedEdgesAndCorners_one_bit _⟩
  · intro n hn cell hc
    have hy : CellToY cell < kBoardHeight := CellToY_lt cell hc
    have hx : CellToX cell < 32 := Nat.mod_lt _ (by norm_num)
    rw [BoardBitmask.get_eq, edgeCornerRow_facts n hn _ hy]
    unfold maskedRow
    rw [foldl_setBit_testBit (fun x => (edgesCornersInit x (CellToY cell)).testBit n),
      GetMaskOfEdgesAndCorners_eq, Nat.testBit_and]
    have h12 : (0xFFF : Nat).testBit n = true := by
      interval_cases n <;> decide
    rw [h12, Bool.and_true, decide_eq_true hx, Bool.true_and]

/-! ### base.h: CountTrailingZeroes -/

theorem deref_run (p ch : Nat) (s : State) (h : 0 < ch ∧ ch < s.size p) :
    ChainSet.deref p ch s = Res.ok () s := by
  unfold ChainSet.deref
  rw [getSize_bind]
  unfold inBounds
  rw [if_pos (decide_eq_true h)]

theorem SameButMemento.same_refl (s : State) : SameButMemento s s := ⟨rfl, rfl, rfl, rfl⟩

theorem SameButMemento.same_remember {s t : State} (h : SameButMemento s t) (loc : Loc) :
    SameButMemento s (t.remember loc) := h

theorem SameButMemento.same_rememberSize {s t : State} (h : SameButMemento s t) (cs : Nat) :
    SameButMemento s (t.rememberSize cs) := h

theorem SameButMemento.same_eq {s t : State} (h : SameButMemento s t) :
    t = { s with memento := t.memento } := by
  obtain ⟨h1, h2, h3, h4⟩ := h
  cases s
  cases t
  simp only at h1 h2 h3 h4
  subst h1 h2 h3 h4
  rfl

theorem Res.Agree.agree_ok {α : Type} {a b : α} {s t : State} (h1 : a = b)
    (h2 : SameButMemento s t) : Res.Agree (Res.ok a s) (Res.ok b t) := ⟨h1, h2⟩

theorem Res.Agree.agree_fail {α : Type} (e e' : Err) :
    Res.Agree (Res.fail e : Res α) (Res.fail e') := trivial

theorem SimOn.on_bind {α β : Type} {P : State → Prop} {Q : α → State → Prop} {x y : M α}
    {f g : α → M β} (hx : SimOn P x y) (hq : Holds P x Q) (hf : ∀ a, SimOn (Q a) (f a) (g a)) :
    SimOn P (x >>= f) (y >>= g) := by
  intro s t hP hst
  have h := hx s t hP hst
  rw [bind_apply, bind_apply]
  cases hxs : x s with
  | ok a s' =>
    cases hyt : y t with
    | ok b t' =>
      rw [hxs, hyt] at h
      obtain ⟨e, hst'⟩ := h
      subst e
      exact hf a s' t' (hq s a s' hP hxs) hst'
    | fail e =>
      rw [hxs, hyt] at h
      exact h.elim
  | fail e =>
    cases hyt : y t with
    | ok b t' =>
      rw [hxs, hyt] at h
      exact h.elim
    | fail e' => exact trivial

theorem SimOn.on_weaken {α : Type} {P P' : State → Prop} {x y : M α} (h : SimOn P' x y)
    (hp : ∀ s, P s → P' s) : SimOn P x y :=
  fun s t hP hst => h s t (hp s hP) hst

theorem Sim.sim_on {α : Type} {x y : M α} (h : Sim x y) (P : State → Prop) : SimOn P x y :=
  fun s t _ hst => h s t trivial hst

theorem Sim.sim_bind {α β : Type} {x y : M α} {f g : α → M β} (hx : Sim x y)
    (hf : ∀ a, Sim (f a) (g a)) : Sim (x >>= f) (y >>= g) :=
  SimOn.on_bind hx (fun _ _ _ _ _ => trivial) hf

theorem Sim.sim_pure {α : Type} (a : α) : Sim (pure a : M α) (pure a) :=
  fun _ _ _ hst => ⟨rfl, hst⟩

theorem Sim.sim_ite {α : Type} (c : Prop) [Decidable c] {x y x' y' : M α} (h1 : Sim x x')
    (h2 : Sim y y') : Sim (if c then x else y) (if c then x' else y') := by
  by_cases h : c
  · rw [if_pos h, if_pos h]; exact h1
  · rw [if_neg h, if_neg h]; exact h2

/-- A computation that neither reads nor changes the `Memento` agrees with
itself. -/
theorem Sim.sim_of_oblivious {α : Type} (x : M α)
    (h : ∀ s m, Res.Agree (x s) (x { s with memento := m })) : Sim x x := by
  intro s t _ hst
  rw [hst.same_eq]
  exact h s _

theorem Sim.sim_remember {α : Type} {x y : M α} (loc : Loc) (h : Sim x y) :
    Sim x (Memento.Remember loc >>= fun _ => y) :=
  fun s t _ hst => h s (t.remember loc) trivial hst

theorem Sim.sim_rememberByte {α : Type} {x y : M α} (base : Nat → Loc) (i : Nat)
    (h : Sim x y) : Sim x (Memento.RememberByte base i >>= fun _ => y) :=
  fun s t _ hst => h s (t.remember (base (i / 4))) trivial hst

theorem Sim.sim_rememberSize {α : Type} {x y : M α} (cs : Nat) (h : Sim x y) :
    Sim x (Memento.RememberSize cs >>= fun _ => y) :=
  fun s t _ hst => h s (t.rememberSize cs) trivial hst

theorem assert_sim (b : Bool) : Sim (assert b) (assert b) :=
  Sim.sim_of_oblivious _ (fun s m => by
    rw [assert_apply, assert_apply]
    cases b
    · exact trivial
    · exact ⟨rfl, rfl, rfl, rfl, rfl⟩)

theorem inBounds_sim (b : Bool) : Sim (inBounds b) (inBounds b) :=
  Sim.sim_of_oblivious _ (fun s m => by
    rw [inBounds_apply, inBounds_apply]
    cases b
    · exact trivial
    · exact ⟨rfl, rfl, rfl, rfl, rfl⟩)

theorem outOfFuel_sim {α : Type} : Sim (outOfFuel : M α) outOfFuel :=
  fun _ _ _ _ => trivial

theorem readW_sim (loc : Loc) : Sim (readW loc) (readW loc) :=
  Sim.sim_of_oblivious _ (fun _ _ => ⟨rfl, rfl, rfl, rfl, rfl⟩)

theorem writeW_sim (loc : Loc) (v : Nat) : Sim (writeW loc v) (writeW loc v) :=
  Sim.sim_of_oblivious _ (fun _ _ => ⟨rfl, rfl, rfl, rfl, rfl⟩)

theorem readByte_sim (base : Nat → Loc) (i : Nat) : Sim (readByte base i) (readByte base i) :=
  Sim.sim_of_oblivious _ (fun _ _ => ⟨rfl, rfl, rfl, rfl, rfl⟩)

theorem writeByte_sim (base : Nat → Loc) (i v : Nat) :
    Sim (writeByte base i v) (writeByte base i v) :=
  Sim.sim_of_oblivious _ (fun _ _ => ⟨rfl, rfl, rfl, rfl, rfl⟩)

theorem getSize_sim (cs : Nat) : Sim (getSize cs) (getSize cs) :=
  Sim.sim_of_oblivious _ (fun _ _ => ⟨rfl, rfl, rfl, rfl, rfl⟩)

theorem pushChain_sim (cs : Nat) : Sim (pushChain cs) (pushChain cs) :=
  Sim.sim_of_oblivious _ (fun _ _ => ⟨rfl, rfl, rfl, rfl, rfl⟩)

theorem getRing_sim (p : Nat) : Sim (getRing p) (getRing p) :=
  Sim.sim_of_oblivious _ (fun _ _ => ⟨rfl, rfl, rfl, rfl, rfl⟩)

theorem modifyRing_sim (p : Nat) (f : RingAux → RingAux) :
    Sim (modifyRing p f) (modifyRing p f) :=
  Sim.sim_of_oblivious _ (fun _ _ => ⟨rfl, rfl, rfl, rfl, rfl⟩)

theorem readChainRows_sim (p ch : Nat) : Sim (readChainRows p ch) (readChainRows p ch) :=
  Sim.sim_of_oblivious _ (fun _ _ => ⟨rfl, rfl, rfl, rfl, rfl⟩)

theorem writeChainRows_sim (p ch : Nat) (rows : Nat → Nat) :
    Sim (writeChainRows p ch rows) (writeChainRows p ch rows) :=
  Sim.sim_of_oblivious _ (fun _ _ => ⟨rfl, rfl, rfl, rfl, rfl⟩)

theorem setModifiedChain_sim (p ch : Nat) :
    Sim (PlayerPosition.setModifiedChain p ch) (PlayerPosition.setModifiedChain p ch) :=
  Sim.sim_of_oblivious _ (fun _ _ => ⟨rfl, rfl, rfl, rfl, rfl⟩)

theorem zeroArena_sim (p start n : Nat) : Sim (zeroArena p start n) (zeroArena p start n) :=
  Sim.sim_of_oblivious _ (fun _ _ => ⟨rfl, rfl, rfl, rfl, rfl⟩)

/-! #### The methods that both kinds of move share -/

theorem newer_version_sim (p ch : Nat) :
    Sim (Chain.newer_version p ch) (Chain.newer_version p ch) :=
  readByte_sim _ _

theorem ChainSet_deref_sim (p ch : Nat) : Sim (ChainSet.deref p ch) (ChainSet.deref p ch) :=
  Sim.sim_bind (getSize_sim _) (fun _ => inBounds_sim _)

theorem newestLoop_sim (p : Nat) :
    ∀ fuel ch, Sim (ChainSet.newestLoop p fuel ch) (ChainSet.newestLoop p fuel ch) := by
  intro fuel
  induction fuel with
  | zero =>
    intro ch
    exact outOfFuel_sim
  | succ fuel ih =>
    intro ch
    unfold ChainSet.newestLoop
    refine Sim.sim_bind (ChainSet_deref_sim _ _) (fun _ => ?_)
    refine Sim.sim_bind (newer_version_sim _ _) (fun nv => ?_)
    exact Sim.sim_ite _ (ih _) (Sim.sim_pure _)

theorem NewestVersion_sim (p ch : Nat) :
    Sim (ChainSet.NewestVersion p ch) (ChainSet.NewestVersion p ch) := by
  unfold ChainSet.NewestVersion
  refine Sim.sim_bind (assert_sim _) (fun _ => ?_)
  exact Sim.sim_bind (getSize_sim _) (fun size => newestLoop_sim _ _ _)

theorem ClosesAnyRing_sim (p ch x y : Nat) :
    Sim (Chain.ClosesAnyRing p ch x y) (Chain.ClosesAnyRing p ch x y) := by
  unfold Chain.ClosesAnyRing
  refine Sim.sim_bind (readChainRows_sim _ _) (fun rows => ?_)
  exact Sim.sim_bind (assert_sim _) (fun _ => Sim.sim_pure _)

theorem GetRingMask_sim (p ch x y : Nat) :
    Sim (Chain.GetRingMask p ch x y) (Chain.GetRingMask p ch x y) := by
  unfold Chain.GetRingMask
  refine Sim.sim_bind (ClosesAnyRing_sim _ _ _ _) (fun result => ?_)
  exact Sim.sim_ite _ (Sim.sim_bind (readChainRows_sim _ _) (fun _ => Sim.sim_pure _))
    (Sim.sim_pure _)

theorem ComputeUnion_sim (p ch x y other result : Nat) :
    Sim (Chain.ComputeUnion p ch x y other result) (Chain.ComputeUnion p ch x y other result) := by
  unfold Chain.ComputeUnion
  refine Sim.sim_bind (assert_sim _) (fun _ => ?_)
  refine Sim.sim_bind (readChainRows_sim _ _) (fun rows => ?_)
  refine Sim.sim_bind (readChainRows_sim _ _) (fun otherRows => ?_)
  refine Sim.sim_bind (assert_sim _) (fun _ => ?_)
  refine Sim.sim_bind (assert_sim _) (fun _ => ?_)
  refine Sim.sim_bind (writeChainRows_sim _ _ _) (fun _ => ?_)
  refine Sim.sim_bind (readW_sim _) (fun n => ?_)
  refine Sim.sim_bind (readW_sim _) (fun m => ?_)
  refine Sim.sim_bind (writeW_sim _ _) (fun _ => ?_)
  refine Sim.sim_bind (readW_sim _) (fun e => ?_)
  refine Sim.sim_bind (readW_sim _) (fun f => ?_)
  refine Sim.sim_bind (GetRingMask_sim _ _ _ _) (fun ring => ?_)
  exact Sim.sim_bind (writeW_sim _ _) (fun _ => writeByte_sim _ _ _)

theorem InitWithStone_sim (p ch x y : Nat) :
    Sim (Chain.InitWithStone p ch x y) (Chain.InitWithStone p ch x y) := by
  unfold Chain.InitWithStone
  refine Sim.sim_bind (assert_sim _) (fun _ => ?_)
  refine Sim.sim_bind (writeChainRows_sim _ _ _) (fun _ => ?_)
  refine Sim.sim_bind (writeW_sim _ _) (fun _ => ?_)
  exact Sim.sim_bind (writeW_sim _ _) (fun _ => writeByte_sim _ _ _)

theorem Chain_IsVictory_sim (p ch : Nat) :
    Sim (Chain.IsVictory p ch) (Chain.IsVictory p ch) := by
  unfold Chain.IsVictory
  refine Sim.sim_bind (readW_sim _) (fun e => ?_)
  exact Sim.sim_bind (writeW_sim _ _) (fun _ => Sim.sim_pure _)

theorem MakeOneStoneChain_sim (p x y : Nat) :
    Sim (ChainSet.MakeOneStoneChain p x y) (ChainSet.MakeOneStoneChain p x y) := by
  unfold ChainSet.MakeOneStoneChain
  refine Sim.sim_bind (getSize_sim _) (fun last_chain => ?_)
  refine Sim.sim_bind (assert_sim _) (fun _ => ?_)
  refine Sim.sim_bind (pushChain_sim _) (fun _ => ?_)
  exact Sim.sim_bind (InitWithStone_sim _ _ _ _) (fun _ => Sim.sim_pure _)

theorem ChainSet_IsVictory_sim (p ch : Nat) :
    Sim (ChainSet.IsVictory p ch) (ChainSet.IsVictory p ch) := by
  unfold ChainSet.IsVictory
  exact Sim.sim_bind (NewestVersion_sim _ _) (fun nv => Chain_IsVictory_sim _ _)

theorem chain_for_cell_sim (p cell : Nat) :
    Sim (PlayerPosition.chain_for_cell p cell) (PlayerPosition.chain_for_cell p cell) := by
  unfold PlayerPosition.chain_for_cell
  exact Sim.sim_bind (inBounds_sim _) (fun _ => readByte_sim _ _)

theorem PlayerPosition_CellIsEmpty_sim (p cell : Nat) :
    Sim (PlayerPosition.CellIsEmpty p cell) (PlayerPosition.CellIsEmpty p cell) := by
  unfold PlayerPosition.CellIsEmpty
  exact Sim.sim_bind (chain_for_cell_sim _ _) (fun _ => Sim.sim_pure _)

theorem Arena_top_sim (p : Nat) : Sim (Arena.top p) (Arena.top p) := readW_sim _

theorem Arena_ref_sim (p n : Nat) : Sim (Arena.ref p n) (Arena.ref p n) := by
  unfold Arena.ref
  refine Sim.sim_bind (Arena_top_sim _) (fun t => ?_)
  refine Sim.sim_bind (assert_sim _) (fun _ => ?_)
  refine Sim.sim_bind (getRing_sim _) (fun aux => ?_)
  exact Sim.sim_bind (inBounds_sim _) (fun _ => Sim.sim_pure _)

theorem Arena_get_sim (p n : Nat) : Sim (Arena.get p n) (Arena.get p n) := by
  unfold Arena.get
  exact Sim.sim_bind (Arena_ref_sim _ _) (fun loc => readW_sim _)

theorem Arena_set_sim (p n v : Nat) : Sim (Arena.set p n v) (Arena.set p n v) := by
  unfold Arena.set
  exact Sim.sim_bind (Arena_ref_sim _ _) (fun loc => writeW_sim _ _)

theorem listFuel_sim (p : Nat) : Sim (RingDB.listFuel p) (RingDB.listFuel p) := by
  unfold RingDB.listFuel
  exact Sim.sim_bind (Arena_top_sim _) (fun _ => Sim.sim_pure _)

theorem Arena_ref_ro (p n : Nat) : ReadOnly (Arena.ref p n) := by
  unfold Arena.ref Arena.top
  refine ReadOnly.ro_bind (readW_ro _) (fun t => ?_)
  refine ReadOnly.ro_bind (assert_ro _) (fun _ => ?_)
  refine ReadOnly.ro_bind (getRing_ro _) (fun aux => ?_)
  exact ReadOnly.ro_bind (inBounds_ro _) (fun _ => ReadOnly.ro_pure _)

/-! #### The statements that only the reversible move has -/

theorem Sim.sim_rememberCell {α : Type} {x y : M α} {p n : Nat} (hn : NeedsCell p n x)
    (h : Sim x y) : Sim x (RingDB.rememberCell p n >>= fun _ => y) := by
  intro s t _ hst
  unfold RingDB.rememberCell
  rw [bind_assoc', bind_apply]
  have href := Arena_ref_sim p n s t trivial hst
  cases ht : Arena.ref p n t with
  | ok loc t' =>
    have e := Arena_ref_ro p n t loc t' ht
    subst e
    exact h s (t'.remember loc) trivial hst
  | fail e =>
    cases hs : Arena.ref p n s with
    | ok loc s' =>
      rw [hs, ht] at href
      exact href.elim
    | fail e' =>
      obtain ⟨e'', hx⟩ := hn s e' hs
      rw [hx]
      exact trivial

theorem NeedsCell.needs_set (p n v : Nat) : NeedsCell p n (Arena.set p n v) := by
  intro s e h
  unfold Arena.set
  rw [bind_apply, h]
  exact ⟨e, rfl⟩

theorem NeedsCell.needs_get_set (p m n : Nat) {α : Type} (f : Nat → M α) :
    NeedsCell p n (Arena.get p m >>= fun curr => Arena.set p n curr >>= fun _ => f curr) := by
  intro s e h
  rw [bind_apply]
  cases hg : Arena.get p m s with
  | ok v s' =>
    have e1 := Arena_get_ro p m s v s' hg
    subst e1
    show ∃ e', ((Arena.set p n v >>= fun _ => f v) s') = Res.fail e'
    unfold Arena.set
    rw [bind_assoc', bind_apply, h]
    exact ⟨e, rfl⟩
  | fail e' => exact ⟨e', rfl⟩

theorem set_sim_remember_set (p n v : Nat) :
    Sim (Arena.set p n v) (RingDB.rememberCell p n >>= fun _ => Arena.set p n v) :=
  Sim.sim_rememberCell (NeedsCell.needs_set p n v) (Arena_set_sim p n v)

/-! #### The fast methods against the reversible ones -/

theorem AddStone_sim (p ch x y : Nat) :
    Sim (Chain.AddStoneFast p ch x y) (Chain.AddStoneReversibly p ch x y) := by
  unfold Chain.AddStoneFast Chain.AddStoneReversibly
  refine Sim.sim_bind (assert_sim _) (fun _ => ?_)
  refine Sim.sim_bind (GetRingMask_sim _ _ _ _) (fun ring => ?_)
  have hrest : Sim (do
      let row ← readW (Loc.chainRow p ch y)
      assert (decide (row &&& (1 <<< x) = 0))
      writeW (Loc.chainRow p ch y) (setBit row x)
      let n ← readW (Loc.chainNumStones p ch)
      writeW (Loc.chainNumStones p ch) ((n + 1) % 4294967296) : M Unit) (do
      Memento.Remember (Loc.chainRow p ch y)
      let row ← readW (Loc.chainRow p ch y)
      assert (decide (row &&& (1 <<< x) = 0))
      writeW (Loc.chainRow p ch y) (setBit row x)
      Memento.Remember (Loc.chainNumStones p ch)
      let n ← readW (Loc.chainNumStones p ch)
      writeW (Loc.chainNumStones p ch) ((n + 1) % 4294967296)) := by
    refine Sim.sim_remember _ ?_
    refine Sim.sim_bind (readW_sim _) (fun row => ?_)
    refine Sim.sim_bind (assert_sim _) (fun _ => ?_)
    refine Sim.sim_bind (writeW_sim _ _) (fun _ => ?_)
    refine Sim.sim_remember _ ?_
    exact Sim.sim_bind (readW_sim _) (fun n => writeW_sim _ _)
  show Sim _ ((if GetMaskOfEdgesAndCorners (XYToCell x y) ||| ring ≠ 0 then _ else _) >>= _)
  by_cases hm : GetMaskOfEdgesAndCorners (XYToCell x y) ||| ring ≠ 0
  · rw [if_pos hm, bind_assoc']
    refine Sim.sim_remember _ ?_
    rw [bind_assoc']
    refine Sim.sim_bind (readW_sim _) (fun e => ?_)
    exact Sim.sim_bind (writeW_sim _ _) (fun _ => hrest)
  · rw [if_neg hm, pure_bind']
    rw [not_not] at hm
    rw [hm]
    intro s t _ hst
    rw [readW_bind, writeW_bind]
    refine hrest _ t trivial ⟨?_, hst.2⟩
    show Function.update s.mem (Loc.chainEcr p ch) (s.mem (Loc.chainEcr p ch) ||| 0) = t.mem
    rw [Nat.or_zero, Function.update_eq_self]
    exact hst.1

theorem AddStoneToChain_sim (p x y ch : Nat) :
    Sim (ChainSet.AddStoneToChainFast p x y ch) (ChainSet.AddStoneToChainReversibly p x y ch) := by
  unfold ChainSet.AddStoneToChainFast ChainSet.AddStoneToChainReversibly
  refine Sim.sim_bind (NewestVersion_sim _ _) (fun nv => ?_)
  exact Sim.sim_bind (assert_sim _) (fun _ => AddStone_sim _ _ _ _)

theorem SetNewerVersion_sim (p ch nv : Nat) (hnv : nv ≠ 0) :
    Sim (Chain.SetNewerVersionFast p ch nv) (Chain.SetNewerVersionReversibly p ch nv) := by
  unfold Chain.SetNewerVersionFast Chain.SetNewerVersionReversibly
  rw [decide_eq_true hnv]
  intro s t _ hst
  rw [assert_bind, if_pos rfl]
  exact Sim.sim_rememberByte _ _ (writeByte_sim _ _ _) s t trivial hst

theorem NewestVersion_size_zero (p ch : Nat) (s : State) (h : s.size p = 0) :
    ∃ e, ChainSet.NewestVersion p ch s = Res.fail e := by
  unfold ChainSet.NewestVersion
  rw [assert_bind]
  by_cases hc : decide (ch ≠ 0) = true
  · rw [if_pos hc, getSize_bind, h]
    exact ⟨_, rfl⟩
  · rw [if_neg hc]
    exact ⟨_, rfl⟩

theorem MergeChains_sim (p x y chain1 chain2 : Nat) :
    Sim (ChainSet.MergeChainsFast p x y chain1 chain2)
      (ChainSet.MergeChainsReversibly p x y chain1 chain2) := by
  intro s t _ hst
  by_cases hsz : s.size p = 0
  · obtain ⟨e, he⟩ := NewestVersion_size_zero p chain1 s hsz
    obtain ⟨e', he'⟩ := NewestVersion_size_zero p chain1 t (by rw [← hst.2.1]; exact hsz)
    unfold ChainSet.MergeChainsFast ChainSet.MergeChainsReversibly
    rw [bind_apply, bind_apply, he, he']
    exact trivial
  · have key : SimOn (fun u => u.size p ≠ 0) (ChainSet.MergeChainsFast p x y chain1 chain2)
        (ChainSet.MergeChainsReversibly p x y chain1 chain2) := by
      unfold ChainSet.MergeChainsFast ChainSet.MergeChainsReversibly
      have keep : ∀ {α : Type} (z : M α), ReadOnly z →
          Holds (fun u => u.size p ≠ 0) z (fun _ u => u.size p ≠ 0) := by
        intro α z hz u a u' hu hzu
        rw [hz u a u' hzu]
        exact hu
      refine SimOn.on_bind ((NewestVersion_sim _ _).sim_on _) (keep _ (NewestVersion_ro _ _))
        (fun nv1 => ?_)
      refine SimOn.on_bind ((assert_sim _).sim_on _) (keep _ (assert_ro _)) (fun _ => ?_)
      refine SimOn.on_bind ((NewestVersion_sim _ _).sim_on _) (keep _ (NewestVersion_ro _ _))
        (fun nv2 => ?_)
      refine SimOn.on_bind ((assert_sim _).sim_on _) (keep _ (assert_ro _)) (fun _ => ?_)
      by_cases hc : chain1 = chain2
      · rw [if_pos hc, if_pos hc]
        exact (Sim.sim_pure _).sim_on _
      · rw [if_neg hc, if_neg hc]
        refine SimOn.on_bind (Q := fun a _ => a ≠ 0) ((getSize_sim _).sim_on _) ?_
          (fun last_chain => ?_)
        · intro u a u' hu hzu
          cases hzu
          exact hu
        · intro u v hu huv
          have hu' : last_chain ≠ 0 := hu
          refine Sim.sim_bind (assert_sim _) (fun _ => ?_) u v trivial huv
          refine Sim.sim_bind (pushChain_sim _) (fun _ => ?_)
          refine Sim.sim_bind (ComputeUnion_sim _ _ _ _ _ _) (fun _ => ?_)
          refine Sim.sim_bind (SetNewerVersion_sim _ _ _ hu') (fun _ => ?_)
          exact Sim.sim_bind (SetNewerVersion_sim _ _ _ hu') (fun _ => Sim.sim_pure _)
    exact key s t hsz hst

theorem replaceLoop_sim (p old_chain new_chain : Nat) :
    ∀ fuel q, Sim (RingDB.replaceLoopFast p old_chain new_chain fuel q)
      (RingDB.replaceLoopReversibly p old_chain new_chain fuel q) := by
  intro fuel
  induction fuel with
  | zero =>
    intro q
    exact outOfFuel_sim
  | succ fuel ih =>
    intro q
    unfold RingDB.replaceLoopFast RingDB.replaceLoopReversibly
    refine Sim.sim_ite _ (Sim.sim_pure _) ?_
    refine Sim.sim_bind (Arena_get_sim _ _) (fun ch => ?_)
    refine Sim.sim_bind (Sim.sim_ite _ (set_sim_remember_set _ _ _) (Sim.sim_pure _))
      (fun _ => ?_)
    exact Sim.sim_bind (Arena_get_sim _ _) (fun next => ih _)

theorem ReplaceChainInGraph_sim (p chain old_chain new_chain : Nat) :
    Sim (RingDB.ReplaceChainInGraphFast p chain old_chain new_chain)
      (RingDB.ReplaceChainInGraphReversibly p chain old_chain new_chain) := by
  unfold RingDB.ReplaceChainInGraphFast RingDB.ReplaceChainInGraphReversibly
  refine Sim.sim_bind (listFuel_sim _) (fun fuel => ?_)
  exact Sim.sim_bind (Arena_get_sim _ _) (fun q => replaceLoop_sim _ _ _ _ _)

theorem mergeLoop1_sim (p chain0 chain1 new_chain : Nat) :
    ∀ fuel curr, Sim (RingDB.mergeLoop1Fast p chain0 chain1 new_chain fuel curr)
      (RingDB.mergeLoop1Reversibly p chain0 chain1 new_chain fuel curr) := by
  intro fuel
  induction fuel with
  | zero =>
    intro curr
    exact outOfFuel_sim
  | succ fuel ih =>
    intro curr
    unfold RingDB.mergeLoop1Fast RingDB.mergeLoop1Reversibly
    refine Sim.sim_bind (Arena_get_sim _ _) (fun ch => ?_)
    refine Sim.sim_bind (Arena_get_sim _ _) (fun c0 => ?_)
    refine Sim.sim_bind (Arena_get_sim _ _) (fun c1 => ?_)
    refine Sim.sim_bind (modifyRing_sim _ _) (fun _ => ?_)
    refine Sim.sim_bind (Sim.sim_ite _ (set_sim_remember_set _ _ _) (Sim.sim_pure _))
      (fun _ => ?_)
    refine Sim.sim_bind (ReplaceChainInGraph_sim _ _ _ _) (fun _ => ?_)
    refine Sim.sim_bind (Arena_get_sim _ _) (fun next => ?_)
    exact Sim.sim_ite _ (ih _) (Sim.sim_pure _)

theorem mergeLoop2_sim (p chain0 chain1 new_chain : Nat) :
    ∀ fuel prev curr, Sim (RingDB.mergeLoop2Fast p chain0 chain1 new_chain fuel prev curr)
      (RingDB.mergeLoop2Reversibly p chain0 chain1 new_chain fuel prev curr) := by
  intro fuel
  induction fuel with
  | zero =>
    intro prev curr
    exact outOfFuel_sim
  | succ fuel ih =>
    intro prev curr
    unfold RingDB.mergeLoop2Fast RingDB.mergeLoop2Reversibly
    refine Sim.sim_ite _ (Sim.sim_pure _) ?_
    refine Sim.sim_bind (Arena_get_sim _ _) (fun ch => ?_)
    refine Sim.sim_bind (Arena_get_sim _ _) (fun c0 => ?_)
    refine Sim.sim_bind (Arena_get_sim _ _) (fun c1 => ?_)
    refine Sim.sim_bind (getRing_sim _) (fun aux => ?_)
    refine Sim.sim_ite _ ?_ ?_
    · refine Sim.sim_bind (Sim.sim_ite _ (set_sim_remember_set _ _ _) (Sim.sim_pure _))
        (fun _ => ?_)
      refine Sim.sim_bind (ReplaceChainInGraph_sim _ _ _ _) (fun _ => ?_)
      exact Sim.sim_bind (Arena_get_sim _ _) (fun next => ih _ _)
    · refine Sim.sim_rememberCell (NeedsCell.needs_get_set _ _ _ _) ?_
      refine Sim.sim_bind (Arena_get_sim _ _) (fun next => ?_)
      exact Sim.sim_bind (Arena_set_sim _ _ _) (fun _ => ih _ _)

theorem MergeChainEdges_sim (p chain0 chain1 : Nat) :
    Sim (RingDB.MergeChainEdgesFast p chain0 chain1)
      (RingDB.MergeChainEdgesReversibly p chain0 chain1) := by
  unfold RingDB.MergeChainEdgesFast RingDB.MergeChainEdgesReversibly
  refine Sim.sim_bind (NewestVersion_sim _ _) (fun nv0 => ?_)
  refine Sim.sim_bind (assert_sim _) (fun _ => ?_)
  refine Sim.sim_bind (NewestVersion_sim _ _) (fun nv1 => ?_)
  refine Sim.sim_bind (assert_sim _) (fun _ => ?_)
  refine Sim.sim_ite _ (Sim.sim_pure _) ?_
  refine Sim.sim_bind (modifyRing_sim _ _) (fun _ => ?_)
  refine Sim.sim_bind (getSize_sim _) (fun size => ?_)
  refine Sim.sim_bind (listFuel_sim _) (fun fuel => ?_)
  refine Sim.sim_bind (Arena_get_sim _ _) (fun curr => ?_)
  refine Sim.sim_bind (Sim.sim_ite _ ?_ (Sim.sim_pure _)) (fun prev => ?_)
  · refine Sim.sim_rememberCell ?_ ?_
    · intro s e h
      rw [bind_apply, NeedsCell.needs_set _ _ _ s e h |>.choose_spec]
      exact ⟨_, rfl⟩
    · exact Sim.sim_bind (Arena_set_sim _ _ _) (fun _ => mergeLoop1_sim _ _ _ _ _ _)
  · refine Sim.sim_rememberCell (NeedsCell.needs_get_set _ _ _ _) ?_
    refine Sim.sim_bind (Arena_get_sim _ _) (fun next => ?_)
    refine Sim.sim_bind (Arena_set_sim _ _ _) (fun _ => ?_)
    exact Sim.sim_bind (mergeLoop2_sim _ _ _ _ _ _ _) (fun _ => modifyRing_sim _ _)

theorem neighborLoop_sim (p cell x y : Nat) :
    ∀ n j prev, Sim (PlayerPosition.neighborLoopFast p cell x y n j prev)
      (PlayerPosition.neighborLoopReversibly p cell x y n j prev) := by
  intro n
  induction n with
  | zero =>
    intro j prev
    exact Sim.sim_pure _
  | succ n ih =>
    intro j prev
    unfold PlayerPosition.neighborLoopFast PlayerPosition.neighborLoopReversibly
    refine Sim.sim_bind (chain_for_cell_sim _ _) (fun current_chain => ?_)
    refine Sim.sim_ite _ (ih _ _) (Sim.sim_ite _ ?_ ?_)
    · refine Sim.sim_bind (NewestVersion_sim _ _) (fun prev' => ?_)
      refine Sim.sim_bind (NewestVersion_sim _ _) (fun cur' => ?_)
      refine Sim.sim_bind (MergeChainEdges_sim _ _ _) (fun _ => ?_)
      exact Sim.sim_bind (MergeChains_sim _ _ _ _ _) (fun prev'' => ih _ _)
    · refine Sim.sim_bind (NewestVersion_sim _ _) (fun cur' => ?_)
      exact Sim.sim_bind (AddStoneToChain_sim _ _ _ _) (fun _ => ih _ _)

theorem PlayerPosition_MakeMove_sim (p cell : Nat) :
    Sim (PlayerPosition.MakeMoveFast p cell) (PlayerPosition.MakeMoveReversibly p cell) := by
  unfold PlayerPosition.MakeMoveFast PlayerPosition.MakeMoveReversibly
  refine Sim.sim_bind (assert_sim _) (fun _ => ?_)
  refine Sim.sim_bind (PlayerPosition_CellIsEmpty_sim _ _) (fun e => ?_)
  refine Sim.sim_bind (assert_sim _) (fun _ => ?_)
  refine Sim.sim_rememberSize _ ?_
  refine Sim.sim_bind (neighborLoop_sim _ _ _ _ _ _ _) (fun prev => ?_)
  refine Sim.sim_rememberByte _ _ ?_
  refine Sim.sim_bind (Sim.sim_ite _ (writeByte_sim _ _ _)
    (Sim.sim_bind (MakeOneStoneChain_sim _ _ _) (fun ch => writeByte_sim _ _ _))) (fun _ => ?_)
  refine Sim.sim_bind (chain_for_cell_sim _ _) (fun ch => ?_)
  refine Sim.sim_bind (setModifiedChain_sim _ _) (fun _ => ?_)
  refine Sim.sim_remember _ ?_
  refine Sim.sim_bind (readW_sim _) (fun row => ?_)
  refine Sim.sim_bind (writeW_sim _ _) (fun _ => ?_)
  exact Sim.sim_bind (chain_for_cell_sim _ _) (fun ch' => ChainSet_IsVictory_sim _ _)

/-! #### Position: the cells and the chains after either move -/

theorem chains_congr (s s' : State) (p : Nat) (hsize : s'.size p = s.size p)
    (hmem : ∀ loc, ChainOf p loc → s'.mem loc = s.mem loc) : s'.chains p = s.chains p := by
  apply Chains.chains_ext
  · exact view_congr s s' p hsize (fun loc _ hc => hmem loc hc)
  · intro k
    exact hmem (Loc.chainNumStones p k) rfl

theorem OutsideRings.outside_chains {C s : State} (h : OutsideRings C s) (p : Nat) :
    s.chains p = C.chains p :=
  chains_congr C s p (by rw [h.2]) (fun loc hc => h.1 loc (fun hr => by
    cases loc <;> first | exact hr | exact hc))

theorem OutsideRings.outside_cell {C s : State} (h : OutsideRings C s) (c : Nat) :
    s.cell c = C.cell c := by
  unfold State.cell
  rw [h.1 (Loc.cells (c / 4)) (fun hr => hr)]

theorem ChainFrame.cf_chains {p : Nat} {s s' : State} (h : ChainFrame p s s') (q : Nat)
    (hq : q ≠ p) : s'.chains q = s.chains q :=
  chains_congr s s' q (h.size_eq q hq) (fun loc hc => h.mem_eq loc (fun hp => by
    cases loc <;> first | exact hc | exact hq (hc.symm.trans hp)) (fun r i hh => by
    rw [hh] at hc
    exact hc))

theorem ChainFrame.cf_cell {p : Nat} {s s' : State} (h : ChainFrame p s s') (c : Nat) :
    s'.cell c = s.cell c := by
  unfold State.cell
  rw [h.mem_eq (Loc.cells (c / 4)) (fun hh => hh) (fun _ _ hh => by cases hh)]

theorem chains_write_cells (s : State) (w v p : Nat) :
    (s.write (Loc.cells w) v).chains p = s.chains p :=
  chains_congr _ _ p rfl (fun loc hc => Function.update_noteq (fun e => by
    rw [e] at hc
    exact hc) _ _)

/-- A run of `Position::MakeMoveFast` that returns: the cell held no stone,
the chains of the player are those after the move on the chains, the chains
of the other players are as before, and so are the other cells. -/
theorem Position_MakeMoveFast_run {player : Player} {cell : Nat} {s s' : State} {r : Nat}
    (hg : (s.chains player.toNat).Good)
    (h : Position.MakeMoveFast player cell s = Res.ok r s') :
    (s.chains player.toNat).makeMove cell = some (r, s'.chains player.toNat) ∧
      (∀ q, q ≠ player.toNat → s'.chains q = s.chains q) ∧
      ∀ c, s'.cell c = if c = cell then player.toNat + 1 else s.cell c := by
  unfold Position.MakeMoveFast at h
  obtain ⟨e, s1, h1, h2⟩ := bind_ok h
  have e1 := Position_CellIsEmpty_ro cell s e s1 h1
  subst e1
  obtain ⟨u, s2, h3, h4⟩ := bind_ok h2
  have e2 := assert_ro _ s1 u s2 h3
  subst e2
  rw [writeByte_bind] at h4
  have hcf := MakeMoveFast_cf (p := player.toNat) cell _ _ _ h4
  refine ⟨?_, fun q hq => ?_, fun c => ?_⟩
  · have := MakeMoveFast_chains (by rw [chains_write_cells]; exact hg) h4
    rw [chains_write_cells] at this
    exact this
  · rw [hcf.cf_chains q hq, chains_write_cells]
  · rw [hcf.cf_cell, cell_write]
    have hp : (player.toNat + 1) % 256 = player.toNat + 1 := by
      cases player <;> rfl
    rw [hp]

/-- A run of `Position::MakeMoveReversibly` that returns: the chains of the
player are those after the move on the chains, the chains of the other
players are as before, and so are the other cells. -/
theorem Position_MakeMoveReversibly_run {moveIndex : Nat → Int} {player : Player} {cell : Nat}
    {s s' : State} {r : Nat} (hg : (s.chains player.toNat).Good)
    (h : Position.MakeMoveReversibly moveIndex player cell s = Res.ok r s') :
    (s.chains player.toNat).makeMove cell = some (r, s'.chains player.toNat) ∧
      (∀ q, q ≠ player.toNat → s'.chains q = s.chains q) ∧
      ∀ c, s'.cell c = if c = cell then player.toNat + 1 else s.cell c := by
  unfold Position.MakeMoveReversibly at h
  obtain ⟨e, s1, h1, h2⟩ := bind_ok h
  have e1 := Position_CellIsEmpty_ro cell s e s1 h1
  subst e1
  obtain ⟨u, s2, h3, h4⟩ := bind_ok h2
  have e2 := assert_ro _ s1 u s2 h3
  subst e2
  rw [RememberByte_bind, writeByte_bind] at h4
  obtain ⟨_, u1, h5, h6⟩ := bind_ok h4
  obtain ⟨r', u2, h7, h8⟩ := bind_ok h6
  obtain ⟨_, u3, h9, h10⟩ := bind_ok h8
  obtain ⟨_, u4, h11, h12⟩ := bind_ok h10
  obtain ⟨_, u5, h13, h14⟩ := bind_ok h12
  cases h14
  have o1 := RemoveTwoBridgesReversibly_outside moveIndex player.toNat cell _ _ _
    ⟨fun _ _ => rfl, rfl⟩ h5
  have o3 := CreateTwoBridgesAfterOurMoveReversibly_outside player.toNat
    (Opponent player).toNat cell _ _ _ ⟨fun _ _ => rfl, rfl⟩ h9
  have o4 := FindNewRingFramesReversibly_outside moveIndex player.toNat _ _ _ o3 h11
  have o5 := RemoveTwoBridgesReversibly_outside moveIndex (Opponent player).toNat cell _ _ _
    o4 h13
  have hcf := MakeMoveReversibly_cf (p := player.toNat) cell _ _ _ h7
  have hs : ∀ q, u1.chains q = s2.chains q := by
    intro q
    rw [o1.outside_chains q]
    exact chains_write_cells _ _ _ q
  refine ⟨?_, fun q hq => ?_, fun c => ?_⟩
  · have := MakeMoveReversibly_chains (by rw [hs]; exact hg) h7
    rw [hs] at this
    rw [o5.outside_chains]
    exact this
  · rw [o5.outside_chains, hcf.cf_chains q hq, hs]
  · rw [o5.outside_cell, hcf.cf_cell, o1.outside_cell]
    have hc := cell_write (s2.remember (Loc.cells (cell / 4))) cell (player.toNat + 1) c
    have hp : (player.toNat + 1) % 256 = player.toNat + 1 := by
      cases player <;> rfl
    rw [hp] at hc
    exact hc

/-- The chains of the player are good after a run of `Position::MakeMoveFast`
that returns. -/
theorem Position_MakeMoveFast_good {player : Player} {cell : Nat} {s s' : State} {r : Nat}
    (hg : (s.chains player.toNat).Good)
    (h : Position.MakeMoveFast player cell s = Res.ok r s') :
    (s'.chains player.toNat).Good :=
  Chains.makeMove_good hg (Position_MakeMoveFast_run hg h).1

theorem Good_start (p : Nat) : (State.start.chains p).Good := Good_init p

/-- C40: `PlayerPosition::MakeMoveFast` and
`PlayerPosition::MakeMoveReversibly`, run for any cell in states that differ
at most in the `Memento`, both fail or both return, and then they return the
same `WinningCondition` and leave states that differ at most in the
`Memento`: the words of memory, which hold the chain of every cell, the
chains, the stone masks and the two-bridge graph, the sizes of the chain sets
and the other fields of the `RingDB`s are the same. `Position::MakeMoveFast`
and `Position::MakeMoveReversibly`, run in a state in which the chains of the
player are good, return, when both return, the same `WinningCondition` and
leave the same `cells_` and the same chains of every player. -/
theorem MakeMoveFast_and_MakeMoveReversibly_agree (moveIndex : Nat → Int) (player : Player)
    (cell : Nat) (s s₁ s₂ : State) (r₁ r₂ : Nat) (hg : (s.chains player.toNat).Good)
    (h₁ : Position.MakeMoveFast player cell s = Res.ok r₁ s₁)
    (h₂ : Position.MakeMoveReversibly moveIndex player cell s = Res.ok r₂ s₂) :
    (∀ p c u t, SameButMemento u t →
        Res.Agree (PlayerPosition.MakeMoveFast p c u) (PlayerPosition.MakeMoveReversibly p c t)) ∧
      r₁ = r₂ ∧ (∀ c, s₁.cell c = s₂.cell c) ∧ ∀ p, s₁.chains p = s₂.chains p := by
  obtain ⟨a1, a2, a3⟩ := Position_MakeMoveFast_run hg h₁
  obtain ⟨b1, b2, b3⟩ := Position_MakeMoveReversibly_run hg h₂
  rw [a1] at b1
  have e := Option.some.inj b1
  refine ⟨fun p c u t hut => PlayerPosition_MakeMove_sim p c u t trivial hut,
    (Prod.mk.inj e).1, fun c => ?_, fun p => ?_⟩
  · rw [a3, b3]
  · by_cases hp : p = player.toNat
    · rw [hp]
      exact (Prod.mk.inj e).2
    · rw [a2 p hp, b2 p hp]

/-- C40 at the position with a white stone at (5, 17), for the white move at
(6, 17) next to it: both methods return, with the same value, the same cells
and the same chains. -/
theorem MakeMoveFast_and_MakeMoveReversibly_agree_witness :
    ∃ r s₁ s₂, Position.MakeMoveFast Player.kWhite (XYToCell 6 17) oneStoneState = Res.ok r s₁ ∧
      Position.MakeMoveReversibly kConstCellToMoveIndex Player.kWhite (XYToCell 6 17)
        oneStoneState = Res.ok r s₂ ∧
      (∀ p c u t, SameButMemento u t →
        Res.Agree (PlayerPosition.MakeMoveFast p c u) (PlayerPosition.MakeMoveReversibly p c t)) ∧
      (∀ c, s₁.cell c = s₂.cell c) ∧ ∀ p, s₁.chains p = s₂.chains p := by
  obtain ⟨r₀, h₀⟩ := Res.eq_ok_of_isOk
    (Position.MakeMoveFast Player.kWhite (XYToCell 5 17) State.start) State.start (by decide!)
  have hg : (oneStoneState.chains Player.kWhite.toNat).Good :=
    Position_MakeMoveFast_good (Good_start _) h₀
  obtain ⟨r₁, h₁⟩ := Res.eq_ok_of_isOk
    (Position.MakeMoveFast Player.kWhite (XYToCell 6 17) oneStoneState) State.start (by decide!)
  obtain ⟨r₂, h₂⟩ := Res.eq_ok_of_isOk
    (Position.MakeMoveReversibly kConstCellToMoveIndex Player.kWhite (XYToCell 6 17)
      oneStoneState) State.start (by decide!)
  have h := MakeMoveFast_and_MakeMoveReversibly_agree kConstCellToMoveIndex Player.kWhite
    (XYToCell 6 17) oneStoneState _ _ r₁ r₂ hg h₁ h₂
  refine ⟨r₁, _, _, h₁, ?_, h.1, h.2.2.1, h.2.2.2⟩
  rw [h.2.1]
  exact h₂

/-! ### Playout::Play -/

theorem except_eq_ok_of_isSome {ε α : Type} (x : Except ε α) (h : x.toOption.isSome = true) :
    ∃ a, x = Except.ok a := by
  cases x with
  | error e => cases h
  | ok a => exact ⟨a, rfl⟩

namespace Playout

variable {H : Type}

end Playout

/-- C39: a playout from the position with white stones on five neighbours of
(11, 11), whose shuffled moves are the sixth neighbour and the cell (5, 17)
and in which a ring is never noticed. White closes the ring with the first
move, `MakeMoveFast` returns `kRing | kBenzeneRing`, the ring is not noticed,
and White makes the second move as well: `Play` returns 0 after 2 moves and
`playout_players_` holds White twice. -/
theorem Play_lets_a_player_move_twice :
    (Position.MakeMoveFast Player.kWhite (NthNeighbor (XYToCell 11 11) 5)
        openHexagonState).value = some (kRing ||| kBenzeneRing) ∧
    (Playout.Play hexagonEnv Player.kWhite (NthNeighbor (XYToCell 11 11) 4) (fun _ _ => 0)
        hexagonPlayout).toOption.map
      (fun r => (r.1, r.2.1, r.2.2.2.playout_players_, r.2.2.2.playout_moves_)) =
      some (0, 2, [Player.kWhite, Player.kWhite],
        [NthNeighbor (XYToCell 11 11) 5, XYToCell 5 17]) := by
  decide!

/-! ### Position::MoveIsWinning returns -/

theorem neighbour_lt (cell : Nat) (hb : LiesOnBoard (CellToX cell) (CellToY cell) = true)
    (i : Nat) (hi : i < 6) : NthNeighbor cell i < kNumCellsWithSentinels := by
  have hbd := onBoard_bounds cell hb
  have h := NthNeighbor_eq cell i (by omega) hi
  have hN : kNumCellsWithSentinels = 23 * 32 := by decide
  interval_cases i <;> simp [kNeighborOffsets] at h <;> omega

theorem ClosesAnyRing_run (p ch x y : Nat) (s : State)
    (hfree : (chainRows s p ch y).testBit x = false) :
    Chain.ClosesAnyRing p ch x y s = Res.ok (closesAnyRing (chainRows s p ch) x y) s := by
  unfold Chain.ClosesAnyRing
  rw [readChainRows_bind, assert_bind, BoardBitmask.get_eq, hfree]
  rfl

theorem edges_corners_ring_run (p ch : Nat) (s : State) (h : (s.view p).IsNewest ch) :
    ChainSet.edges_corners_ring p ch s = Res.ok (s.mem (Loc.chainEcr p ch)) s := by
  unfold ChainSet.edges_corners_ring
  rw [M.mbind_eq_of_ok (NewestVersion_newest (s := s) h.1 h.2.1 h.2.2)]
  rfl

/-- The facts about the neighbour `i` of an empty cell of the board that the
loops of `MoveWouldCloseForkOrBridge` and `MoveWouldCloseForkBridgeOrRing`
use, in a state with good chains. -/
theorem neighbour_facts {p : Nat} {s : State} (hg : (s.chains p).Good) {cell : Nat}
    (hb : LiesOnBoard (CellToX cell) (CellToY cell) = true)
    (hempty : (s.chains p).view.cfc cell = 0) (i : Nat)
    (hne : s.cfc p (NthNeighbor cell i) ≠ 0) :
    (s.view p).IsNewest ((s.view p).newest (s.cfc p (NthNeighbor cell i))) ∧
    ChainSet.NewestVersion p (s.cfc p (NthNeighbor cell i)) s =
      Res.ok ((s.view p).newest (s.cfc p (NthNeighbor cell i))) s ∧
    (chainRows s p ((s.view p).newest (s.cfc p (NthNeighbor cell i))) (CellToY cell)).testBit
      (CellToX cell) = false := by
  have hnew : (s.chains p).view.IsNewest
      ((s.chains p).view.newest ((s.chains p).view.cfc (NthNeighbor cell i))) :=
    ChainView.isNewest_newest hg.inv.newer_lt (Nat.pos_of_ne_zero hne) (hg.inv.cfc_lt _)
  refine ⟨hnew, NewestVersion_ok (s := s) hg.inv.newer_lt (Nat.pos_of_ne_zero hne)
    (hg.inv.cfc_lt _), ?_⟩
  have hlt : cell < kNumCellsWithSentinels := by
    have := (onBoard_bounds cell hb).2
    omega
  rw [Bool.eq_false_iff]
  intro h'
  have h'' : (s.chains p).view.inMask
      ((s.chains p).view.newest ((s.chains p).view.cfc (NthNeighbor cell i))) cell = true := by
    rw [ChainView.inMask_eq]
    exact h'
  exact ((hg.inv.mask_iff _ hnew cell hlt).mp h'').1 hempty

theorem forkOrBridgeLoop_run {p : Nat} {s : State} (hg : (s.chains p).Good) {cell : Nat}
    (hb : LiesOnBoard (CellToX cell) (CellToY cell) = true)
    (hempty : (s.chains p).view.cfc cell = 0) (m : Nat) :
    ∀ n j, j + n ≤ 6 →
      PlayerPosition.forkOrBridgeLoop p cell n j (m ||| (s.chains p).neighboursEdges cell j) s =
        Res.ok (m ||| (s.chains p).neighboursEdges cell (j + n)) s := by
  intro n
  induction n with
  | zero => intro j _; rfl
  | succ n ih =>
    intro j hj
    unfold PlayerPosition.forkOrBridgeLoop
    rw [chain_for_cell_bind, if_pos (neighbour_lt cell hb j (by omega))]
    have hstep : (s.chains p).neighboursEdges cell (j + 1) =
        (s.chains p).neighboursEdges cell j ||| (s.chains p).neighbourEdges cell j := rfl
    have hjn : j + (n + 1) = (j + 1) + n := by omega
    by_cases hne : s.cfc p (NthNeighbor cell j) ≠ 0
    · obtain ⟨hnew, hnv, _⟩ := neighbour_facts hg hb hempty j hne
      rw [if_pos hne, M.mbind_eq_of_ok hnv, M.mbind_eq_of_ok (edges_corners_ring_run p _ s hnew),
        hjn, ← ih (j + 1) (by omega), hstep, Nat.or_assoc]
      congr 2
      unfold Chains.neighbourEdges
      rw [if_neg (show (s.chains p).view.cfc (NthNeighbor cell j) ≠ 0 from hne)]
      rfl
    · rw [if_neg hne, hjn, ← ih (j + 1) (by omega), hstep]
      rw [not_not] at hne
      congr 2
      unfold Chains.neighbourEdges
      rw [if_pos (show (s.chains p).view.cfc (NthNeighbor cell j) = 0 from hne), Nat.or_zero]

theorem forkBridgeOrRingLoop_run {p : Nat} {s : State} (hg : (s.chains p).Good) {cell : Nat}
    (hb : LiesOnBoard (CellToX cell) (CellToY cell) = true)
    (hempty : (s.chains p).view.cfc cell = 0) (m : Nat) :
    ∀ n j, j + n ≤ 6 →
      PlayerPosition.forkBridgeOrRingLoop p cell (CellToX cell) (CellToY cell) n j
          (m ||| (s.chains p).neighboursEdges cell j) s =
        Res.ok (if (s.chains p).neighboursClose cell j n = true then none
          else some (m ||| (s.chains p).neighboursEdges cell (j + n))) s := by
  intro n
  induction n with
  | zero => intro j _; rfl
  | succ n ih =>
    intro j hj
    unfold PlayerPosition.forkBridgeOrRingLoop
    rw [chain_for_cell_bind, if_pos (neighbour_lt cell hb j (by omega))]
    have hstep : (s.chains p).neighboursEdges cell (j + 1) =
        (s.chains p).neighboursEdges cell j ||| (s.chains p).neighbourEdges cell j := rfl
    have hclose : (s.chains p).neighboursClose cell j (n + 1) =
        ((s.chains p).neighbourCloses cell j || (s.chains p).neighboursClose cell (j + 1) n) :=
      rfl
    have hjn : j + (n + 1) = (j + 1) + n := by omega
    by_cases hne : s.cfc p (NthNeighbor cell j) ≠ 0
    · obtain ⟨hnew, hnv, hfree⟩ := neighbour_facts hg hb hempty j hne
      rw [if_pos hne, M.mbind_eq_of_ok hnv, M.mbind_eq_of_ok (deref_run p _ s ⟨hnew.1, hnew.2.1⟩),
        M.mbind_eq_of_ok (ClosesAnyRing_run p _ _ _ s hfree)]
      by_cases hring : closesAnyRing (chainRows s p ((s.view p).newest
          (s.cfc p (NthNeighbor cell j)))) (CellToX cell) (CellToY cell) ≠ 0
      · rw [if_pos hring]
        have : (s.chains p).neighbourCloses cell j = true := by
          unfold Chains.neighbourCloses
          exact decide_eq_true ⟨hne, hring⟩
        rw [hclose, this, Bool.true_or, if_pos rfl]
        rfl
      · rw [if_neg hring, M.mbind_eq_of_ok (edges_corners_ring_run p _ s hnew)]
        have : (s.chains p).neighbourCloses cell j = false := by
          unfold Chains.neighbourCloses
          exact decide_eq_false (fun hh => hring hh.2)
        rw [hclose, this, Bool.false_or, hjn, ← ih (j + 1) (by omega), hstep, Nat.or_assoc]
        congr 2
        unfold Chains.neighbourEdges
        rw [if_neg (show (s.chains p).view.cfc (NthNeighbor cell j) ≠ 0 from hne)]
        rfl
    · rw [if_neg hne]
      have : (s.chains p).neighbourCloses cell j = false := by
        unfold Chains.neighbourCloses
        exact decide_eq_false (fun hh => hne hh.1)
      rw [hclose, this, Bool.false_or, hjn, ← ih (j + 1) (by omega), hstep]
      rw [not_not] at hne
      congr 2
      unfold Chains.neighbourEdges
      rw [if_pos (show (s.chains p).view.cfc (NthNeighbor cell j) = 0 from hne), Nat.or_zero]

theorem MoveWouldCloseForkOrBridge_run {p : Nat} {s : State} (hg : (s.chains p).Good)
    {cell : Nat} (hb : LiesOnBoard (CellToX cell) (CellToY cell) = true)
    (hempty : (s.chains p).view.cfc cell = 0) :
    PlayerPosition.MoveWouldCloseForkOrBridge p cell (GetMaskOfEdgesAndCorners cell) 0 s =
      Res.ok (decide (CountSetBits (GetMaskOfEdgesAndCorners cell |||
          (s.chains p).neighboursEdges cell 6) ≥ 3 ∨
        CountSetBits ((GetMaskOfEdgesAndCorners cell |||
          (s.chains p).neighboursEdges cell 6) >>> 6) ≥ 2)) s := by
  unfold PlayerPosition.MoveWouldCloseForkOrBridge PlayerPosition.injectChain
  rw [assert_bind, if_pos (decide_eq_true rfl), if_neg (fun hh => hh rfl), pure_bind']
  have h0 : GetMaskOfEdgesAndCorners cell =
      GetMaskOfEdgesAndCorners cell ||| (s.chains p).neighboursEdges cell 0 :=
    (Nat.or_zero _).symm
  have hrun := forkOrBridgeLoop_run hg hb hempty (GetMaskOfEdgesAndCorners cell) 6 0
    (Nat.le_refl _)
  rw [← h0] at hrun
  rw [M.mbind_eq_of_ok hrun]
  rfl

theorem MoveWouldCloseForkBridgeOrRing_run {p : Nat} {s : State} (hg : (s.chains p).Good)
    {cell : Nat} (hb : LiesOnBoard (CellToX cell) (CellToY cell) = true)
    (hempty : (s.chains p).view.cfc cell = 0) :
    PlayerPosition.MoveWouldCloseForkBridgeOrRing p cell (GetMaskOfEdgesAndCorners cell) 0 s =
      Res.ok ((s.chains p).neighboursClose cell 0 6 ||
        decide (CountSetBits (GetMaskOfEdgesAndCorners cell |||
            (s.chains p).neighboursEdges cell 6) ≥ 3 ∨
          CountSetBits ((GetMaskOfEdgesAndCorners cell |||
            (s.chains p).neighboursEdges cell 6) >>> 6) ≥ 2)) s := by
  unfold PlayerPosition.MoveWouldCloseForkBridgeOrRing
  rw [assert_bind, if_pos (decide_eq_true rfl), if_neg (fun hh => hh rfl), pure_bind']
  have h0 : GetMaskOfEdgesAndCorners cell =
      GetMaskOfEdgesAndCorners cell ||| (s.chains p).neighboursEdges cell 0 :=
    (Nat.or_zero _).symm
  have hrun := forkBridgeOrRingLoop_run hg hb hempty (GetMaskOfEdgesAndCorners cell) 6 0
    (Nat.le_refl _)
  rw [← h0] at hrun
  rw [M.mbind_eq_of_ok hrun]
  cases hC : (s.chains p).neighboursClose cell 0 6
  · rw [if_neg (by simp), Bool.false_or]
    rfl
  · rw [if_pos rfl, Bool.true_or]
    rfl

/-- The method `Position::MoveIsWinning` returns, for an empty cell of the
board in a state with good chains of the player, the value on the chains. -/
theorem MoveIsWinning_run (player : Player) (cell nb : Nat) (s : State)
    (hg : (s.chains player.toNat).Good)
    (hb : LiesOnBoard (CellToX cell) (CellToY cell) = true)
    (hempty : (s.chains player.toNat).view.cfc cell = 0) (hnb : nb < 64) :
    Position.MoveIsWinning player cell (nb : Int) 0 s =
      Res.ok ((s.chains player.toNat).moveIsWinning cell nb) s := by
  unfold Position.MoveIsWinning CountNeighborGroupsWithPossibleBenzeneRings
    Chains.moveIsWinning
  rw [assert_bind, if_pos hb, bind_assoc', inBounds_bind,
    if_pos (decide_eq_true ⟨Int.natCast_nonneg nb, by omega⟩), pure_bind', Int.toNat_ofNat]
  simp only []
  by_cases h2 : kGroupCountWithPossibleBenzeneRings.getD nb 0 ≥ 2
  · rw [if_pos h2, if_pos h2, M.mbind_eq_of_ok (MoveWouldCloseForkBridgeOrRing_run hg hb hempty)]
    generalize ((s.chains player.toNat).neighboursClose cell 0 6 ||
      decide (CountSetBits (GetMaskOfEdgesAndCorners cell |||
          (s.chains player.toNat).neighboursEdges cell 6) ≥ 3 ∨
        CountSetBits ((GetMaskOfEdgesAndCorners cell |||
          (s.chains player.toNat).neighboursEdges cell 6) >>> 6) ≥ 2)) = v
    cases v
    · simp only [Bool.false_eq_true, if_false]
      rw [if_neg (fun hh => by omega), pure_bind']
      rfl
    · rfl
  · rw [if_neg h2, if_neg h2, pure_bind']
    simp only [Bool.false_eq_true, if_false]
    by_cases h1 : kGroupCountWithPossibleBenzeneRings.getD nb 0 = 1 ∧
        GetMaskOfEdgesAndCorners cell ≠ 0
    · rw [if_pos h1, if_pos h1, M.mbind_eq_of_ok (MoveWouldCloseForkOrBridge_run hg hb hempty)]
      generalize decide (CountSetBits (GetMaskOfEdgesAndCorners cell |||
          (s.chains player.toNat).neighboursEdges cell 6) ≥ 3 ∨
        CountSetBits ((GetMaskOfEdgesAndCorners cell |||
          (s.chains player.toNat).neighboursEdges cell 6) >>> 6) ≥ 2) = v
      cases v <;> rfl
    · rw [if_neg h1, if_neg h1, pure_bind']
      rfl

theorem twoOpenRings_values :
    [1, 4].all (fun i =>
      decide ((Position.CellIsEmpty (exampleEnv.kMoveIndexToCell i)
          (twoOpenRingsPosition Player.kBlack)).value = some true) &&
        decide ((Position.Get6Neighbors (Opponent Player.kWhite) (exampleEnv.kMoveIndexToCell i)
          (twoOpenRingsPosition Player.kBlack)).value = some 9) &&
        decide ((Position.MoveIsWinning (Opponent Player.kWhite) (exampleEnv.kMoveIndexToCell i)
          9 0 (twoOpenRingsPosition Player.kBlack)).value = some true)) = true := by
  decide!

/-- In the position of `twoOpenRingsPosition` Black, who holds five of the
six neighbours of (12, 3) and of (15, 3), wins at once at (12, 2) and at
(15, 2), the cells of the moves 1 and 4, which are empty. -/
theorem twoOpenRings_wins (i : Nat) (hi : i = 1 ∨ i = 4) :
    FoeWinsAt exampleEnv Player.kWhite (twoOpenRingsPosition Player.kBlack) i := by
  have h := twoOpenRings_values
  simp only [List.all_cons, List.all_nil, Bool.and_true, Bool.and_eq_true,
    decide_eq_true_eq] at h
  rcases hi with rfl | rfl
  · exact ⟨(Position_CellIsEmpty_ro _).eq_ok_of_value h.1.1.1, 9,
      (Position_Get6Neighbors_ro _ _).eq_ok_of_value h.1.1.2,
      (MoveIsWinning_ro _ _ _ _).eq_ok_of_value h.1.2⟩
  · exact ⟨(Position_CellIsEmpty_ro _).eq_ok_of_value h.2.1.1, 9,
      (Position_Get6Neighbors_ro _ _).eq_ok_of_value h.2.1.2,
      (MoveIsWinning_ro _ _ _ _).eq_ok_of_value h.2.2⟩

/-- In the example of C20 the first loop of `ExpandNode` finds the opponent
winning at the moves 1 and 4, wherever it gets to them. -/
theorem twoOpenRings_found (position_hash i : Nat) (hi : i = 1 ∨ i = 4) (a : Nat) (c : Int)
    (t1 : Search Unit)
    (h : TranspositionTable.expandLoop exampleEnv position_hash Player.kWhite i 0 0 0
      { exampleSearch (twoOpenRingsPosition Player.kBlack) position_hash with
        winning_kids_ := [] } = SRes.ok (TranspositionTable.Step.goesOn a c) t1) :
    FoeWinsAt exampleEnv Player.kWhite t1.position_ i := by
  have hdeep : exampleEnv.options_.use_deeper_mate_in_tree = false := by decide!
  have hp : t1.position_ = twoOpenRingsPosition Player.kBlack :=
    (TranspositionTable.expandLoop_samePosition exampleEnv hdeep position_hash Player.kWhite i a c
      (exampleSearch (twoOpenRingsPosition Player.kBlack) position_hash) t1 h).1.trans
      (exampleSearch_position _ _)
  rw [hp]
  exact twoOpenRings_wins i hi

/-! ### The example of C20: no move of White wins at once -/

/-- A run of `Position::MakeMoveFast` that returns leaves the other cells of
`cells_` as they were and puts the stone of the player on the cell. -/
theorem Position_MakeMoveFast_cell {player : Player} {cell : Nat} {s s' : State} {r : Nat}
    (h : Position.MakeMoveFast player cell s = Res.ok r s') :
    ∀ c, s'.cell c = if c = cell then player.toNat + 1 else s.cell c := by
  unfold Position.MakeMoveFast at h
  obtain ⟨e, s1, h1, h2⟩ := bind_ok h
  have e1 := Position_CellIsEmpty_ro cell s e s1 h1
  subst e1
  obtain ⟨u, s2, h3, h4⟩ := bind_ok h2
  have e2 := assert_ro _ s1 u s2 h3
  subst e2
  rw [writeByte_bind] at h4
  have hcf := MakeMoveFast_cf (p := player.toNat) cell _ _ _ h4
  intro c
  rw [hcf.cf_cell, cell_write]
  have hp : (player.toNat + 1) % 256 = player.toNat + 1 := by
    cases player <;> rfl
  rw [hp]

theorem makeMovesFast_cell (player : Player) :
    ∀ (cells : List Nat) (s s' : State), makeMovesFast player cells s = Res.ok () s' →
      ∀ c, s'.cell c = if c ∈ cells then player.toNat + 1 else s.cell c := by
  intro cells
  induction cells with
  | nil =>
    intro s s' h c
    cases h
    simp
  | cons cell cells ih =>
    intro s s' h c
    unfold makeMovesFast at h
    obtain ⟨r, s₁, h1, h2⟩ := bind_ok h
    rw [ih s₁ s' h2 c, Position_MakeMoveFast_cell h1 c]
    by_cases hc : c ∈ cells
    · rw [if_pos hc, if_pos (List.mem_cons_of_mem _ hc)]
    · rw [if_neg hc]
      by_cases hcc : c = cell
      · rw [if_pos hcc, if_pos (by rw [hcc]; exact List.mem_cons_self _ _)]
      · rw [if_neg hcc, if_neg (fun hm => by
          rcases List.mem_cons.mp hm with h' | h'
          · exact hcc h'
          · exact hc h')]

/-- The moves of the example are made without a failure. -/
theorem twoOpenRings_made :
    (makeMovesFast Player.kBlack ((hexagon 12 3).drop 1 ++ (hexagon 15 3).drop 1)
      State.start).isOk = true := by
  decide!

theorem twoOpenRings_rows₀ : ∀ y, y < 23 →
    (twoOpenRingsPosition Player.kBlack).stoneRows 0 y = 0 := by
  decide!

theorem twoOpenRings_rows₁ : ∀ y, y < 23 →
    (twoOpenRingsPosition Player.kBlack).stoneRows 1 y =
      [0, 0, 73728, 92160, 55296].getD y 0 := by
  decide!

/-- The stone masks of the example: White has no stone, and the stones of
Black lie in the rows 2, 3 and 4. -/
theorem twoOpenRings_rows : ∀ y, y < 23 →
    (twoOpenRingsPosition Player.kBlack).stoneRows 0 y = 0 ∧
      (twoOpenRingsPosition Player.kBlack).stoneRows 1 y =
        [0, 0, 73728, 92160, 55296].getD y 0 :=
  fun y hy => ⟨twoOpenRings_rows₀ y hy, twoOpenRings_rows₁ y hy⟩

/-- The moves with the stones of the example. -/
theorem twoOpenRings_stones : ∀ i, i < 271 →
    (rowedMoveIndexToCell i ∈ (hexagon 12 3).drop 1 ++ (hexagon 15 3).drop 1 ↔
      i ∈ [2, 5, 11, 13, 14, 16, 23, 24, 26, 27]) := by
  decide!

/-- The empty cells of the example at which a move of Black joins no two
groups of stones, and no group to an edge or a corner: all but those of nine
moves. -/
theorem twoOpenRings_easy : ∀ i, i < 271 →
    i ∈ [2, 5, 11, 13, 14, 16, 23, 24, 26, 27] ∨ i ∈ [0, 1, 3, 4, 6, 10, 12, 15, 25] ∨
    (kGroupCountWithPossibleBenzeneRings.getD
        (BoardBitmask.Get6Neighbors (fun y => [0, 0, 73728, 92160, 55296].getD y 0)
          (CellToX (rowedMoveIndexToCell i)) (CellToY (rowedMoveIndexToCell i))) 0 < 2 ∧
      (kGroupCountWithPossibleBenzeneRings.getD
          (BoardBitmask.Get6Neighbors (fun y => [0, 0, 73728, 92160, 55296].getD y 0)
            (CellToX (rowedMoveIndexToCell i)) (CellToY (rowedMoveIndexToCell i))) 0 = 1 →
        edgesCornersInit (CellToX (rowedMoveIndexToCell i))
          (CellToY (rowedMoveIndexToCell i)) &&& 0xFFF = 0)) := by
  decide!

/-- The chains of the player are good after the moves of `makeMovesFast`. -/
theorem makeMovesFast_good (player : Player) :
    ∀ (cells : List Nat) (s s' : State), (s.chains player.toNat).Good →
      makeMovesFast player cells s = Res.ok () s' → (s'.chains player.toNat).Good := by
  intro cells
  induction cells with
  | nil =>
    intro s s' hg h
    cases h
    exact hg
  | cons cell cells ih =>
    intro s s' hg h
    unfold makeMovesFast at h
    obtain ⟨r, s₁, h1, h2⟩ := bind_ok h
    exact ih s₁ s' (Position_MakeMoveFast_good hg h1) h2

theorem twoOpenRings_good :
    ((twoOpenRingsPosition Player.kBlack).chains Player.kBlack.toNat).Good := by
  obtain ⟨u, hrun⟩ := Res.eq_ok_of_isOk _ State.start twoOpenRings_made
  exact makeMovesFast_good Player.kBlack _ _ _ (Good_start _) hrun

/-- The nine cells hold no chain of Black. -/
theorem twoOpenRings_free : ∀ i ∈ [0, 1, 3, 4, 6, 10, 12, 15, 25],
    (twoOpenRingsPosition Player.kBlack).cfc 1 (rowedMoveIndexToCell i) = 0 := by
  decide!

/-- The check of `ExpandNode` returns at an empty cell of the board when the
chains of the player are good. -/
theorem winsAt_returns (player : Player) (cell : Nat) (s : State)
    (hg : (s.chains player.toNat).Good)
    (hb : LiesOnBoard (CellToX cell) (CellToY cell) = true)
    (hempty : s.cfc player.toNat cell = 0) :
    (winsAt player cell s).value.isSome = true := by
  obtain ⟨hx0, hx1, hy0, hy1⟩ := onBoard_xy cell hb
  have hk : kBoardHeight = 23 := rfl
  unfold winsAt
  rw [M.mbind_eq_of_ok (Position_Get6Neighbors_run player cell s (by omega)
    ⟨by omega, by omega⟩),
    MoveIsWinning_run player cell _ s hg hb hempty (Get6Neighbors_lt _ _ _)]
  rfl

/-- At the other nine empty cells the check of Black returns. -/
theorem twoOpenRings_hard : ∀ i ∈ [0, 1, 3, 4, 6, 10, 12, 15, 25],
    (winsAt Player.kBlack (rowedMoveIndexToCell i)
      (twoOpenRingsPosition Player.kBlack)).value.isSome = true := by
  intro i hi
  have hlt : i < 271 := by
    simp only [List.mem_cons, List.mem_singleton, List.mem_nil_iff, or_false] at hi
    omega
  have hfacts := kConstMoveIndexToCell_facts i hlt
  rw [kConstMoveIndexToCell_eq] at hfacts
  exact winsAt_returns Player.kBlack _ _ twoOpenRings_good hfacts.2.1
    (twoOpenRings_free i hi)

theorem Get6Neighbors_congr (rows rows' : Nat → Nat) (x y : Nat)
    (h : ∀ k, k ≤ y + 1 → rows k = rows' k) :
    BoardBitmask.Get6Neighbors rows x y = BoardBitmask.Get6Neighbors rows' x y := by
  unfold BoardBitmask.Get6Neighbors PrevY NextY
  rw [h (y - 1) (by omega), h y (by omega), h (y + 1) (le_refl _)]

/-- `Position::MoveIsWinning` returns `false`, without a look at the chains,
for a neighbourhood without two groups, or with one group where the cell
lies on no edge and on no corner. -/
theorem MoveIsWinning_easy (player : Player) (cell nb : Nat) (s : State)
    (hb : LiesOnBoard (CellToX cell) (CellToY cell) = true) (hnb : nb < 64)
    (hg : kGroupCountWithPossibleBenzeneRings.getD nb 0 < 2)
    (he : kGroupCountWithPossibleBenzeneRings.getD nb 0 = 1 →
      GetMaskOfEdgesAndCorners cell = 0) :
    Position.MoveIsWinning player cell (nb : Int) 0 s = Res.ok false s := by
  unfold Position.MoveIsWinning CountNeighborGroupsWithPossibleBenzeneRings
  rw [assert_bind, if_pos hb, bind_assoc', inBounds_bind,
    if_pos (decide_eq_true ⟨Int.natCast_nonneg nb, by omega⟩), pure_bind', Int.toNat_ofNat]
  rw [if_neg (by omega), pure_bind']
  simp only [Bool.false_eq_true, if_false]
  rw [if_neg (fun hh => hh.2 (he hh.1)), pure_bind']
  rfl

/-- The check of `ExpandNode` returns `false` where the stone mask of the
player shows no two groups around the cell, or one group and no edge or
corner. -/
theorem winsAt_easy (player : Player) (cell : Nat) (s : State) (rows : Nat → Nat)
    (hrows : ∀ y, y < 23 → s.stoneRows player.toNat y = rows y)
    (hb : LiesOnBoard (CellToX cell) (CellToY cell) = true)
    (hg : kGroupCountWithPossibleBenzeneRings.getD
      (BoardBitmask.Get6Neighbors rows (CellToX cell) (CellToY cell)) 0 < 2)
    (he : kGroupCountWithPossibleBenzeneRings.getD
        (BoardBitmask.Get6Neighbors rows (CellToX cell) (CellToY cell)) 0 = 1 →
      edgesCornersInit (CellToX cell) (CellToY cell) &&& 0xFFF = 0) :
    winsAt player cell s = Res.ok false s := by
  obtain ⟨hx0, hx1, hy0, hy1⟩ := onBoard_xy cell hb
  have hk : kBoardHeight = 23 := rfl
  unfold winsAt
  rw [M.mbind_eq_of_ok (Position_Get6Neighbors_run player cell s (by omega)
    ⟨by omega, by omega⟩),
    Get6Neighbors_congr _ rows _ _ (fun k hk' => hrows k (by omega))]
  exact MoveIsWinning_easy player cell _ s hb (Get6Neighbors_lt _ _ _) hg (fun h1 => by
    rw [GetMaskOfEdgesAndCorners_eq]
    exact he h1)

/-- In the position of `twoOpenRingsPosition` White has no move that wins
at once: `quietAt` holds at each of the 271 moves, and the occupied cells
are those of `twoOpenRingsEmpty`. -/
theorem twoOpenRings_quiet (i : Nat) (hi : i < 271) :
    quietAt exampleEnv Player.kWhite (twoOpenRingsPosition Player.kBlack) i =
      some (twoOpenRingsEmpty i) := by
  have henv : exampleEnv.kMoveIndexToCell = kConstMoveIndexToCell := by
    simp only [exampleEnv]
  have hcell : exampleEnv.kMoveIndexToCell i = rowedMoveIndexToCell i := by
    rw [henv, kConstMoveIndexToCell_eq]
  have hfacts := kConstMoveIndexToCell_facts i hi
  rw [kConstMoveIndexToCell_eq] at hfacts
  obtain ⟨hlt, hb, _⟩ := hfacts
  obtain ⟨u, hrun⟩ := Res.eq_ok_of_isOk _ State.start twoOpenRings_made
  have hcells := makeMovesFast_cell Player.kBlack _ _ _ hrun (rowedMoveIndexToCell i)
  have hstart : State.start.cell (rowedMoveIndexToCell i) &&& 3 = 0 := by
    have := startCells_facts _ hlt
    rw [hb] at this
    exact of_decide_eq_true this
  have hempty : (Position.CellIsEmpty (rowedMoveIndexToCell i)
      (twoOpenRingsPosition Player.kBlack)).value = some (twoOpenRingsEmpty i) := by
    rw [Position_CellIsEmpty_eq _ _ hlt]
    show some (decide ((twoOpenRingsPosition Player.kBlack).cell (rowedMoveIndexToCell i) &&&
      3 = 0)) = _
    have hpos : (twoOpenRingsPosition Player.kBlack).cell (rowedMoveIndexToCell i) =
        if rowedMoveIndexToCell i ∈ (hexagon 12 3).drop 1 ++ (hexagon 15 3).drop 1 then
          Player.kBlack.toNat + 1
        else State.start.cell (rowedMoveIndexToCell i) := hcells
    rw [hpos]
    unfold twoOpenRingsEmpty
    by_cases hm : i ∈ [2, 5, 11, 13, 14, 16, 23, 24, 26, 27]
    · rw [if_pos ((twoOpenRings_stones i hi).mpr hm), decide_eq_false (not_not.mpr hm)]
      rfl
    · rw [if_neg (fun h => hm ((twoOpenRings_stones i hi).mp h)), decide_eq_true hm,
        decide_eq_true hstart]
  unfold quietAt
  rw [hcell, hempty]
  by_cases hm : i ∈ [2, 5, 11, 13, 14, 16, 23, 24, 26, 27]
  · have he : twoOpenRingsEmpty i = false := decide_eq_false (not_not.mpr hm)
    rw [he]
  · have he : twoOpenRingsEmpty i = true := decide_eq_true hm
    rw [he]
    have hwhite : (winsAt Player.kWhite (rowedMoveIndexToCell i)
        (twoOpenRingsPosition Player.kBlack)).value = some false := by
      have hz : BoardBitmask.Get6Neighbors (fun _ => 0) (CellToX (rowedMoveIndexToCell i))
          (CellToY (rowedMoveIndexToCell i)) = 0 := by
        unfold BoardBitmask.Get6Neighbors
        simp
      have hg0 : kGroupCountWithPossibleBenzeneRings.getD 0 0 = 0 := by decide
      rw [winsAt_easy Player.kWhite _ _ (fun _ => 0) (fun y hy => (twoOpenRings_rows y hy).1)
        hb (by rw [hz, hg0]; omega) (by rw [hz, hg0]; intro h; omega)]
      rfl
    have hblack : (winsAt (Opponent Player.kWhite) (rowedMoveIndexToCell i)
        (twoOpenRingsPosition Player.kBlack)).value.isSome = true := by
      rcases twoOpenRings_easy i hi with h | h | ⟨h1, h2⟩
      · exact absurd h hm
      · exact twoOpenRings_hard i h
      · rw [winsAt_easy (Opponent Player.kWhite) _ _
          (fun y => [0, 0, 73728, 92160, 55296].getD y 0)
          (fun y hy => (twoOpenRings_rows y hy).2) hb h1 h2]
        rfl
    simp only []
    rw [if_pos ⟨fun _ => hwhite, fun _ => hblack⟩]

/-! ### The example of C20: the kids get their nodes -/

/-- The method `InsertKey` for a key below the capacity whose slot is empty,
while the counter `num_elements_[0]` is not above the limit: the key gets
its slot. -/
theorem WaitFreeHashMap.InsertKey_fresh (L : Nat) (t : WaitFreeHashMap) (key : Nat)
    (hk : key < kCapacity L) (hk0 : key ≠ kEmptyKey)
    (hfree : t.keys key = kEmptyKey)
    (hcnt : t.num_elements_ 0 ≤ kLimit L / kNumCounters) :
    WaitFreeHashMap.InsertKey L t key =
      (Outcome.slot key,
        { keys := Function.update t.keys key key
          values := t.values
          num_elements_ := Function.update t.num_elements_ (key % kNumCounters)
            (t.num_elements_ (key % kNumCounters) + 1) }) := by
  unfold WaitFreeHashMap.InsertKey
  rw [if_neg (Nat.not_lt.mpr hcnt)]
  simp only [PrimaryHash, Nat.mod_eq_of_lt hk, ne_eq, hk0, not_false_eq_true, if_true,
    WaitFreeHashMap.casKey, AtomicCompareAndSwap, hfree, WaitFreeHashMap.increment_num_elements]

theorem TranspositionTable.kidMove_fresh {F R : Type} (env : SearchEnv F R)
    (position_hash : Nat) (player : Player) (move : Nat) (t : Search R)
    (hm : move < kNumMovesOnBoard)
    (hnz : ∀ x, env.fl.nonzero x = false)
    (hrr : env.options_.use_rave_randomization = false)
    (hk : ModifyZobristHash env.kZobristHash position_hash player move < kCapacity env.L)
    (hk0 : ModifyZobristHash env.kZobristHash position_hash player move ≠ kEmptyKey)
    (hfree : t.nodes_.keys (ModifyZobristHash env.kZobristHash position_hash player move) =
      kEmptyKey)
    (hcnt : t.nodes_.num_elements_ 0 ≤ kLimit env.L / kNumCounters) :
    ∃ t', TranspositionTable.kidMove env position_hash player move true t = SRes.ok () t' ∧
      t'.nodes_.keys = Function.update t.nodes_.keys
        (ModifyZobristHash env.kZobristHash position_hash player move)
        (ModifyZobristHash env.kZobristHash position_hash player move) ∧
      (∀ s, s ≠ ModifyZobristHash env.kZobristHash position_hash player move →
        t'.nodes_.values s = t.nodes_.values s) ∧
      t'.nodes_.num_elements_ = Function.update t.nodes_.num_elements_
        (ModifyZobristHash env.kZobristHash position_hash player move % kNumCounters)
        (t.nodes_.num_elements_
          (ModifyZobristHash env.kZobristHash position_hash player move % kNumCounters) + 1) ∧
      t'.winning_kids_ = t.winning_kids_ := by
  have hz : TranspositionTable.zobrist env position_hash player (move : Int) t =
      SRes.ok (ModifyZobristHash env.kZobristHash position_hash player move) t := by
    unfold TranspositionTable.zobrist
    rw [if_pos ⟨Int.natCast_nonneg _, by exact_mod_cast hm⟩, Int.toNat_ofNat]
    rfl
  have hi := WaitFreeHashMap.InsertKey_fresh env.L t.nodes_ _ hk hk0 hfree hcnt
  unfold TranspositionTable.kidMove
  simp only [Bool.not_true, Bool.false_eq_true, if_false]
  rw [S.sbind_eq_of_ok hz]
  unfold TranspositionTable.InsertKey
  simp only [S.sbind_apply, hi]
  unfold TranspositionTable.setKidBias TranspositionTable.setKidPrior
  simp only [hnz, hrr, Bool.false_eq_true, if_false, S.sbind_apply, S.spure_apply, updateNode,
    rng]
  refine ⟨_, rfl, rfl, fun s hs => ?_, rfl, rfl⟩
  simp only [Function.update_apply, if_neg hs]

/-- The calls of `kidMove` for the moves from `move` on all return when the
keys of the kids are below the capacity, not 0, different from each other
and not yet in the hash map, and when `c` bounds the counter
`num_elements_[0]` below the limit. The slots of other keys keep their keys
and values. -/
theorem TranspositionTable.kidLoop_fresh {F R : Type} (env : SearchEnv F R)
    (position_hash : Nat) (player : Player) (empty : Nat → Bool) (c : Nat → Nat)
    (t₀ : Search R)
    (hnz : ∀ x, env.fl.nonzero x = false)
    (hrr : env.options_.use_rave_randomization = false)
    (hk : ∀ j, j < kNumMovesOnBoard → empty j = true →
      ModifyZobristHash env.kZobristHash position_hash player j < kCapacity env.L ∧
        ModifyZobristHash env.kZobristHash position_hash player j ≠ kEmptyKey)
    (hinj : ∀ i j, i < kNumMovesOnBoard → j < kNumMovesOnBoard →
      ModifyZobristHash env.kZobristHash position_hash player i =
        ModifyZobristHash env.kZobristHash position_hash player j → i = j)
    (hc : ∀ j, j < kNumMovesOnBoard → c j ≤ kLimit env.L / kNumCounters ∧ c j ≤ c (j + 1) ∧
      (ModifyZobristHash env.kZobristHash position_hash player j % kNumCounters = 0 →
        c j + 1 ≤ c (j + 1))) :
    ∀ n move t, move + n ≤ kNumMovesOnBoard →
      (∀ j, move ≤ j → j < kNumMovesOnBoard → empty j = true →
        t.nodes_.keys (ModifyZobristHash env.kZobristHash position_hash player j) =
          kEmptyKey) →
      t.nodes_.num_elements_ 0 ≤ c move →
      (∀ s, (∀ j, j < kNumMovesOnBoard → empty j = true →
          s ≠ ModifyZobristHash env.kZobristHash position_hash player j) →
        t.nodes_.keys s = t₀.nodes_.keys s ∧ t.nodes_.values s = t₀.nodes_.values s) →
      t.winning_kids_ = t₀.winning_kids_ →
      ∃ t', TranspositionTable.kidLoop env position_hash player empty n move t =
          SRes.ok () t' ∧
        (∀ s, (∀ j, j < kNumMovesOnBoard → empty j = true →
            s ≠ ModifyZobristHash env.kZobristHash position_hash player j) →
          t'.nodes_.keys s = t₀.nodes_.keys s ∧ t'.nodes_.values s = t₀.nodes_.values s) ∧
        t'.winning_kids_ = t₀.winning_kids_ := by
  intro n
  induction n with
  | zero =>
    intro move t _ _ _ hfr hw
    exact ⟨t, rfl, hfr, hw⟩
  | succ n ih =>
    intro move t hn hfree hcnt hfr hw
    have hm : move < kNumMovesOnBoard := by omega
    unfold TranspositionTable.kidLoop
    cases he : empty move with
    | false =>
      have h1 : TranspositionTable.kidMove env position_hash player move false t =
          SRes.ok () t := rfl
      rw [S.sbind_eq_of_ok h1]
      exact ih (move + 1) t (by omega) (fun j hj hj' hej => hfree j (by omega) hj' hej)
        (Nat.le_trans hcnt (hc move hm).2.1) hfr hw
    | true =>
      obtain ⟨t', h1, hkeys, hvals, hnum, hwk⟩ :=
        TranspositionTable.kidMove_fresh env position_hash player move t hm hnz hrr
          (hk move hm he).1 (hk move hm he).2 (hfree move (le_refl _) hm he)
          (Nat.le_trans hcnt (hc move hm).1)
      rw [S.sbind_eq_of_ok h1]
      refine ih (move + 1) t' (by omega) (fun j hj hj' hej => ?_) ?_ (fun s hs => ?_)
        (hwk.trans hw)
      · rw [hkeys, Function.update_apply, if_neg (fun h => by
          have := hinj j move hj' hm h
          omega)]
        exact hfree j (by omega) hj' hej
      · rw [hnum, Function.update_apply]
        by_cases h0 : 0 = ModifyZobristHash env.kZobristHash position_hash player move %
            kNumCounters
        · rw [if_pos h0, ← h0]
          exact Nat.le_trans (Nat.succ_le_succ hcnt) ((hc move hm).2.2 h0.symm)
        · rw [if_neg h0]
          exact Nat.le_trans hcnt (hc move hm).2.1
      · rw [hkeys, Function.update_apply, if_neg (hs move hm he), hvals s (hs move hm he)]
        exact hfr s hs

theorem exampleEnv_keys_injective (position_hash : Nat) (i j : Nat)
    (h : ModifyZobristHash exampleEnv.kZobristHash position_hash Player.kWhite i =
      ModifyZobristHash exampleEnv.kZobristHash position_hash Player.kWhite j) : i = j := by
  unfold ModifyZobristHash at h
  have h2 : 2 * i + Player.kWhite.toNat + 1 = 2 * j + Player.kWhite.toNat + 1 :=
    Nat.xor_right_inj.mp h
  omega

set_option maxRecDepth 100000 in
theorem twoOpenRings_keys : ∀ j, j < kNumMovesOnBoard →
    (twoOpenRingsEmpty j = true →
      (ModifyZobristHash exampleEnv.kZobristHash 5 Player.kWhite j < kCapacity exampleEnv.L ∧
        ModifyZobristHash exampleEnv.kZobristHash 5 Player.kWhite j ≠ kEmptyKey) ∧
      (exampleSearch State.start 5).nodes_.keys
        (ModifyZobristHash exampleEnv.kZobristHash 5 Player.kWhite j) = kEmptyKey ∧
      5 ≠ ModifyZobristHash exampleEnv.kZobristHash 5 Player.kWhite j) ∧
    ((j + 5) / 8 ≤ kLimit exampleEnv.L / kNumCounters ∧ (j + 5) / 8 ≤ (j + 1 + 5) / 8 ∧
      (ModifyZobristHash exampleEnv.kZobristHash 5 Player.kWhite j % kNumCounters = 0 →
        (j + 5) / 8 + 1 ≤ (j + 1 + 5) / 8)) := by
  decide!

set_option maxRecDepth 100000 in
theorem twoOpenRings_root_keys : ∀ j, j < kNumMovesOnBoard →
    (twoOpenRingsEmpty j = true →
      (ModifyZobristHash exampleEnv.kZobristHash kRootHash Player.kWhite j <
          kCapacity exampleEnv.L ∧
        ModifyZobristHash exampleEnv.kZobristHash kRootHash Player.kWhite j ≠ kEmptyKey) ∧
      (exampleSearch State.start kRootHash).nodes_.keys
        (ModifyZobristHash exampleEnv.kZobristHash kRootHash Player.kWhite j) = kEmptyKey ∧
      0 ≠ ModifyZobristHash exampleEnv.kZobristHash kRootHash Player.kWhite j) ∧
    (1 ≤ kLimit exampleEnv.L / kNumCounters ∧
      ModifyZobristHash exampleEnv.kZobristHash kRootHash Player.kWhite j % kNumCounters ≠
        0) := by
  decide!

theorem exampleSearch_nodes :
    ((exampleSearch State.start 5).nodes_.keys 5 = 5 ∧
      (exampleSearch State.start 5).nodes_.num_elements_ 0 ≤ (0 + 5) / 8) ∧
    (exampleSearch State.start kRootHash).nodes_.keys 0 = 1 ∧
    ((exampleSearch State.start kRootHash).nodes_.values 0).ucb_reward_ = 0 ∧
    (exampleSearch State.start kRootHash).nodes_.num_elements_ 0 ≤ 1 := by
  decide!

/-- The calls of `InsertKey` that the first loop of `ExpandNode` makes in
the example of C20, with the expanded node under the key 5, all return a
node, and `FindNode` then finds the expanded node in the slot 5. -/
theorem exampleSearch_kids (position : State) :
    ∃ t₁, TranspositionTable.kidLoop exampleEnv 5 Player.kWhite twoOpenRingsEmpty 271 0
        { exampleSearch position 5 with winning_kids_ := [] } = SRes.ok () t₁ ∧
      WaitFreeHashMap.FindValue 10 t₁.nodes_ 5 = Outcome.slot 5 := by
  obtain ⟨t₁, h1, h2, _⟩ := TranspositionTable.kidLoop_fresh exampleEnv 5 Player.kWhite
    twoOpenRingsEmpty (fun j => (j + 5) / 8)
    { exampleSearch position 5 with winning_kids_ := [] }
    (fun _ => rfl) rfl (fun j hj he => ((twoOpenRings_keys j hj).1 he).1)
    (fun i j _ _ h => exampleEnv_keys_injective 5 i j h)
    (fun j hj => (twoOpenRings_keys j hj).2) 271 0
    { exampleSearch position 5 with winning_kids_ := [] } (by decide)
    (fun j _ hj he => ((twoOpenRings_keys j hj).1 he).2.1) exampleSearch_nodes.1.2
    (fun s _ => ⟨rfl, rfl⟩) rfl
  refine ⟨t₁, h1, ?_⟩
  have hkey := (h2 5 (fun j hj he => ((twoOpenRings_keys j hj).1 he).2.2)).1
  have h5 : t₁.nodes_.keys 5 = 5 := hkey.trans exampleSearch_nodes.1.1
  unfold WaitFreeHashMap.FindValue
  have hp : PrimaryHash 10 5 = 5 := by decide
  simp only [hp, h5]
  rw [if_pos (by decide), if_pos trivial]

/-- The calls of `InsertKey` that the first loop of `ExpandNode` makes in
the example of C20, with the root as the expanded node, all return a node;
`FindNode` then finds the root in the slot 0, and its reward is the 0 of a
node that was never updated. -/
theorem exampleSearch_root_kids (position : State) :
    ∃ t₁, TranspositionTable.kidLoop exampleEnv kRootHash Player.kWhite twoOpenRingsEmpty
        271 0 { exampleSearch position kRootHash with winning_kids_ := [] } =
        SRes.ok () t₁ ∧
      t₁.winning_kids_ = [] ∧
      WaitFreeHashMap.FindValue 10 t₁.nodes_ kRootHash = Outcome.slot 0 ∧
      (t₁.nodes_.values 0).ucb_reward_ = 0 := by
  obtain ⟨t₁, h1, h2, h3⟩ := TranspositionTable.kidLoop_fresh exampleEnv kRootHash
    Player.kWhite twoOpenRingsEmpty (fun _ => 1)
    { exampleSearch position kRootHash with winning_kids_ := [] }
    (fun _ => rfl) rfl (fun j hj he => ((twoOpenRings_root_keys j hj).1 he).1)
    (fun i j _ _ h => exampleEnv_keys_injective kRootHash i j h)
    (fun j hj => ⟨(twoOpenRings_root_keys j hj).2.1, le_refl _,
      fun h => absurd h (twoOpenRings_root_keys j hj).2.2⟩) 271 0
    { exampleSearch position kRootHash with winning_kids_ := [] } (by decide)
    (fun j _ hj he => ((twoOpenRings_root_keys j hj).1 he).2.1) exampleSearch_nodes.2.2.2
    (fun s _ => ⟨rfl, rfl⟩) rfl
  obtain ⟨hkey, hval⟩ := h2 0 (fun j hj he => ((twoOpenRings_root_keys j hj).1 he).2.2)
  have h0 : t₁.nodes_.keys 0 = 1 := hkey.trans exampleSearch_nodes.2.1
  refine ⟨t₁, h1, h3, ?_, ?_⟩
  · unfold WaitFreeHashMap.FindValue
    have hp : PrimaryHash 10 kRootHash = 0 := by decide
    simp only [hp, h0]
    rw [if_neg (by decide), if_pos (by decide)]
    rfl
  · rw [hval]
    exact exampleSearch_nodes.2.2.1

/-- In the example of C20 the first loop of `ExpandNode` goes through all
the 271 moves without a return, and leaves the search as `kidLoop` does. -/
theorem twoOpenRings_loop (position_hash : Nat) (t₁ : Search Unit)
    (h : TranspositionTable.kidLoop exampleEnv position_hash Player.kWhite twoOpenRingsEmpty
      271 0 { exampleSearch (twoOpenRingsPosition Player.kBlack) position_hash with
        winning_kids_ := [] } = SRes.ok () t₁) :
    ∃ am amc, TranspositionTable.expandLoop exampleEnv position_hash Player.kWhite 271 0 0 0
      { exampleSearch (twoOpenRingsPosition Player.kBlack) position_hash with
        winning_kids_ := [] } = SRes.ok (TranspositionTable.Step.goesOn am amc) t₁ := by
  have hdeep : exampleEnv.options_.use_deeper_mate_in_tree = false := by decide!
  have hn : 0 + 271 ≤ kNumMovesOnBoard := by decide
  have hp : ({ exampleSearch (twoOpenRingsPosition Player.kBlack) position_hash with
      winning_kids_ := [] } : Search Unit).position_ = twoOpenRingsPosition Player.kBlack :=
    exampleSearch_cleared (twoOpenRingsPosition Player.kBlack) position_hash
  exact TranspositionTable.expandLoop_quiet exampleEnv hdeep position_hash Player.kWhite
    twoOpenRingsEmpty (twoOpenRingsPosition Player.kBlack) 271 0 0 0
    { exampleSearch (twoOpenRingsPosition Player.kBlack) position_hash with winning_kids_ := [] }
    t₁ hn hp (fun i _ hi => twoOpenRings_quiet i (by omega)) h

/-- In the example of C20 with the expanded node under the key 5 the first
loop of `ExpandNode` goes through all the 271 moves without a return, and
`FindNode` then finds the expanded node in the slot 5. -/
theorem twoOpenRings_run :
    ∃ am amc t₁, TranspositionTable.expandLoop exampleEnv 5 Player.kWhite 271 0 0 0
        { exampleSearch (twoOpenRingsPosition Player.kBlack) 5 with winning_kids_ := [] } =
        SRes.ok (TranspositionTable.Step.goesOn am amc) t₁ ∧
      WaitFreeHashMap.FindValue 10 t₁.nodes_ 5 = Outcome.slot 5 := by
  obtain ⟨t₁, h1, h2⟩ := exampleSearch_kids (twoOpenRingsPosition Player.kBlack)
  obtain ⟨am, amc, h3⟩ := twoOpenRings_loop 5 t₁ h1
  exact ⟨am, amc, t₁, h3, h2⟩

/-- In the example of C20 with the root as the expanded node the first loop
of `ExpandNode` goes through all the 271 moves without a return, no kid is
listed in `winning_kids_`, and the root, in the slot 0, has the reward 0 of
a node that was never updated. -/
theorem twoOpenRings_root_run :
    ∃ am amc t₁, TranspositionTable.expandLoop exampleEnv kRootHash Player.kWhite 271 0 0 0
        { exampleSearch (twoOpenRingsPosition Player.kBlack) kRootHash with
          winning_kids_ := [] } = SRes.ok (TranspositionTable.Step.goesOn am amc) t₁ ∧
      t₁.winning_kids_ = [] ∧
      WaitFreeHashMap.FindValue 10 t₁.nodes_ kRootHash = Outcome.slot 0 ∧
      (t₁.nodes_.values 0).ucb_reward_ = 0 := by
  obtain ⟨t₁, h1, hk, h2, h3⟩ :=
    exampleSearch_root_kids (twoOpenRingsPosition Player.kBlack)
  obtain ⟨am, amc, h4⟩ := twoOpenRings_loop kRootHash t₁ h1
  exact ⟨am, amc, t₁, h4, hk, h2, h3⟩

/-- The example of C20: Black threatens to close a ring at (12, 2) and at
(15, 2), and White, to move, has no winning move. `ExpandNode` of the node
under the key 5 returns `true` and gives that node the reward
`WonInNPlies(2)`, which satisfies `VictoryIsForced` and not
`DefeatIsForced`. -/
theorem ExpandNode_antimate_marks_victory_witness :
    (FoeWinsAt exampleEnv Player.kWhite (twoOpenRingsPosition Player.kBlack) 1 ∧
      FoeWinsAt exampleEnv Player.kWhite (twoOpenRingsPosition Player.kBlack) 4) ∧
    ∃ t', TranspositionTable.ExpandNode exampleEnv 5 Player.kWhite
        (exampleSearch (twoOpenRingsPosition Player.kBlack) 5) = SRes.ok true t' ∧
      (t'.nodes_.values 5).ucb_reward_ = WonInNPlies 2 ∧
      VictoryIsForced (t'.nodes_.values 5).ucb_reward_ = true ∧
      DefeatIsForced (t'.nodes_.values 5).ucb_reward_ = false := by
  refine ⟨⟨twoOpenRings_wins 1 (Or.inl rfl), twoOpenRings_wins 4 (Or.inr rfl)⟩, ?_⟩
  obtain ⟨am, amc, t₁, h1, h2⟩ := twoOpenRings_run
  have hanti : exampleEnv.options_.use_antimate_in_tree = true := by decide!
  have hn : exampleEnv.num_available_moves_ = 271 := by decide!
  have hne : (5 : Nat) ≠ kRootHash := by decide
  obtain ⟨t', h3, _, h4, h5, h6⟩ :=
    (TranspositionTable.ExpandNode_antimate_marks_victory exampleEnv 5 Player.kWhite
      (exampleSearch (twoOpenRingsPosition Player.kBlack) 5) t₁ am amc 1 4 hanti
      (by rw [hn]; exact h1) (by decide) (by rw [hn]; decide)
      (fun a c t1 h => twoOpenRings_found 5 1 (Or.inl rfl) a c t1 h)
      (fun a c t2 h => twoOpenRings_found 5 4 (Or.inr rfl) a c t2 h)).1 hne 5 h2
  exact ⟨t', h3, h4, h5, h6⟩

/-- C20 fails as stated: in the position of `twoOpenRingsPosition`, with
`use_antimate_in_tree` set, White to move has no winning move (the first
loop of `ExpandNode` ends without a return) and Black would win at once at
the two empty cells of the moves 1 and 4. `ExpandNode` returns `true`; the
expanded node under the key 5, which is in the slot 5, then has a reward
that does not satisfy `DefeatIsForced`, and the root, expanded in the same position, keeps the
reward 0, which does not satisfy `DefeatIsForced` either. -/
theorem ExpandNode_antimate_no_defeat :
    exampleEnv.options_.use_antimate_in_tree = true ∧
    (FoeWinsAt exampleEnv Player.kWhite (twoOpenRingsPosition Player.kBlack) 1 ∧
      FoeWinsAt exampleEnv Player.kWhite (twoOpenRingsPosition Player.kBlack) 4) ∧
    (WaitFreeHashMap.FindValue 10 (exampleSearch (twoOpenRingsPosition Player.kBlack) 5).nodes_ 5 =
        Outcome.slot 5 ∧
      ∃ t', TranspositionTable.ExpandNode exampleEnv 5 Player.kWhite
          (exampleSearch (twoOpenRingsPosition Player.kBlack) 5) = SRes.ok true t' ∧
        DefeatIsForced (t'.nodes_.values 5).ucb_reward_ = false) ∧
    ∃ t', TranspositionTable.ExpandNode exampleEnv kRootHash Player.kWhite
        (exampleSearch (twoOpenRingsPosition Player.kBlack) kRootHash) = SRes.ok true t' ∧
      WaitFreeHashMap.FindValue 10 t'.nodes_ kRootHash = Outcome.slot 0 ∧
      (t'.nodes_.values 0).ucb_reward_ = 0 ∧
      DefeatIsForced (t'.nodes_.values 0).ucb_reward_ = false := by
  have hanti : exampleEnv.options_.use_antimate_in_tree = true := by decide!
  have hn : exampleEnv.num_available_moves_ = 271 := by decide!
  refine ⟨hanti, ⟨twoOpenRings_wins 1 (Or.inl rfl), twoOpenRings_wins 4 (Or.inr rfl)⟩, ?_, ?_⟩
  · obtain ⟨am, amc, t₁, h1, h2⟩ := twoOpenRings_run
    obtain ⟨t', h3, _, h4, h5, h6⟩ :=
      (TranspositionTable.ExpandNode_antimate_run exampleEnv 5 Player.kWhite
        (exampleSearch (twoOpenRingsPosition Player.kBlack) 5) t₁ am amc 1 4 hanti
        (by rw [hn]; exact h1) (by decide) (by rw [hn]; decide)
        (fun a c t1 h => twoOpenRings_found 5 1 (Or.inl rfl) a c t1 h)
        (fun a c t2 h => twoOpenRings_found 5 4 (Or.inr rfl) a c t2 h)).1 (by decide) 5 h2
    exact ⟨by decide!, t', h3, h6⟩
  · obtain ⟨am, amc, t₁, h1, hk, h2, h3⟩ := twoOpenRings_root_run
    have h4 := (TranspositionTable.ExpandNode_antimate_run exampleEnv kRootHash Player.kWhite
      (exampleSearch (twoOpenRingsPosition Player.kBlack) kRootHash) t₁ am amc 1 4 hanti
      (by rw [hn]; exact h1) (by decide) (by rw [hn]; decide)
      (fun a c t1 h => twoOpenRings_found kRootHash 1 (Or.inl rfl) a c t1 h)
      (fun a c t2 h => twoOpenRings_found kRootHash 4 (Or.inr rfl) a c t2 h)).2 rfl
    rw [hk] at h4
    refine ⟨t₁, h4, h2, h3, ?_⟩
    rw [h3]
    decide

end lajkonik
